import Mathlib

/-!
Horse64 compiler core: bytecode finaliser, call emission and lowering.

A shallow embedding of parts of `horse64/compiler/codegen.c`, and of the
number and string literals of `lexer.c`, the generic tree walk of `ast.c`,
`warningconfig.c`, the integer path of `pow` in `builtininternals.c` and the
scan for appended paks in `vfspak.c`, with the theorems settling the
specification's claims about them.

Conventions of the embedding.

* A function's instruction buffer is the sequence of its instruction records.
  The C code walks the byte buffer with `h64program_PtrToInstructionSize`;
  the byte offset of a record is the sum of the sizes of the records before
  it.  The size table lives in `bytecode.h`, which is not part of the source
  tree at hand, so every definition that needs it takes it as the parameter
  `sz`.
* Machine integers are `Int`; the one narrowing store that matters (the
  `int16_t` out-parameter of `_resolve_jumpid_to_jumpoffset`) is modelled by
  `wrapInt16`.
* `realloc`/`malloc` are assumed to succeed.
* A violated `assert` is the separate outcome `assertFailed`.
-/

namespace Horse64

/-! Instructions -/

/-- The `content` of a `SET_CONST` instruction (`valuecontent`), restricted to
the value types the code generator writes. -/
inductive ValueContent where
  | none
  | int (int_value : Int)
  | float (float_bits : Int)
  | bool (int_value : Int)
  | shortstr (shortstr_value : List Nat)
  | constpreallocstr (constpreallocstr_value : List Nat)
  | shortbytes (shortbytes_len : Nat) (shortbytes_value : List Nat)
  | constpreallocbytes (constpreallocbytes_len : Nat)
      (constpreallocbytes_value : List Nat)
  | unspecified_kwarg
  deriving DecidableEq, Repr

/-- One instruction record.  Constructor names are the `H64INST_*` opcodes,
argument names the fields the code generator sets. -/
inductive Inst where
  | setconst (slot : Int) (content : ValueContent)
  | setglobal (globalto slotfrom : Int)
  | getglobal (slotto globalfrom : Int)
  | getfunc (slotto funcfrom : Int)
  | getclass (slotto classfrom : Int)
  | valuecopy (slotto slotfrom : Int)
  | binop (optype : Nat) (slotto arg1slotfrom arg2slotfrom : Int)
  | unop (optype : Nat) (slotto argslotfrom : Int)
  | call (returnto slotcalledfrom posargs kwargs : Int) (flags : Nat)
  | callignoreifnone (returnto slotcalledfrom posargs kwargs : Int)
      (flags : Nat)
  | callsettop (topto : Int)
  | returnvalue (returnslotfrom : Int)
  | jumptarget (jumpid : Int)
  | condjump (conditionalslot jumpbytesoffset : Int)
  | condjumpex (flags : Nat) (conditionalslot jumpbytesoffset : Int)
  | jump (jumpbytesoffset : Int)
  | newiterator (slotiteratorto slotcontainerfrom : Int)
  | iterate (slotvalueto slotiteratorfrom jumponend : Int)
  | pushrescueframe (sloterrorto jumponrescue jumponfinally : Int)
      (mode : Nat) (frameid : Int)
  | addrescuetypebyref (frameid slotfrom : Int)
  | addrescuetype (frameid classid : Int)
  | poprescueframe (frameid : Int)
  | jumptofinally (frameid : Int)
  | getattributebyname (slotto objslotfrom nameidx : Int)
  | getattributebyidx (slotto objslotfrom varattrfrom : Int)
  | setbyattributename (slotobjto nameidx slotvaluefrom : Int)
  | setbyattributeidx (slotobjto varattrto slotvaluefrom : Int)
  | setbyindexexpr (slotobjto slotindexto slotvaluefrom : Int)
  | newlist (slotto : Int)
  | newset (slotto : Int)
  | newmap (slotto : Int)
  | newvector (slotto : Int)
  | newinstancebyref (slotto classtypeslotfrom : Int)
  | newinstance (slotto classidcreatefrom : Int)
  | getconstructor (slotto objslotfrom : Int)
  | awaititem (objslotawait : Int)
  | hasattrjump (jumpbytesoffset nameidxcheck slotvaluecheck : Int)
  | raise (error_class_id sloterrormsgobj : Int)
  | raisebyref (sloterrorclassrefobj sloterrormsgobj : Int)
  deriving DecidableEq, Repr

/-- The opcode tags `H64INST_*` (`h64instructiontype`). -/
inductive InstType where
  | SETCONST | SETGLOBAL | GETGLOBAL | GETFUNC | GETCLASS | VALUECOPY
  | BINOP | UNOP | CALL | CALLIGNOREIFNONE | CALLSETTOP | RETURNVALUE
  | JUMPTARGET | CONDJUMP | CONDJUMPEX | JUMP | NEWITERATOR | ITERATE
  | PUSHRESCUEFRAME | ADDRESCUETYPEBYREF | ADDRESCUETYPE | POPRESCUEFRAME
  | JUMPTOFINALLY | GETATTRIBUTEBYNAME | GETATTRIBUTEBYIDX
  | SETBYATTRIBUTENAME | SETBYATTRIBUTEIDX | SETBYINDEXEXPR
  | NEWLIST | NEWSET | NEWMAP | NEWVECTOR | NEWINSTANCEBYREF | NEWINSTANCE
  | GETCONSTRUCTOR | AWAITITEM | HASATTRJUMP | RAISE | RAISEBYREF
  deriving DecidableEq, Repr

/-- The `type` field every instruction record starts with. -/
def Inst.type : Inst → InstType
  | .setconst .. => .SETCONST
  | .setglobal .. => .SETGLOBAL
  | .getglobal .. => .GETGLOBAL
  | .getfunc .. => .GETFUNC
  | .getclass .. => .GETCLASS
  | .valuecopy .. => .VALUECOPY
  | .binop .. => .BINOP
  | .unop .. => .UNOP
  | .call .. => .CALL
  | .callignoreifnone .. => .CALLIGNOREIFNONE
  | .callsettop .. => .CALLSETTOP
  | .returnvalue .. => .RETURNVALUE
  | .jumptarget .. => .JUMPTARGET
  | .condjump .. => .CONDJUMP
  | .condjumpex .. => .CONDJUMPEX
  | .jump .. => .JUMP
  | .newiterator .. => .NEWITERATOR
  | .iterate .. => .ITERATE
  | .pushrescueframe .. => .PUSHRESCUEFRAME
  | .addrescuetypebyref .. => .ADDRESCUETYPEBYREF
  | .addrescuetype .. => .ADDRESCUETYPE
  | .poprescueframe .. => .POPRESCUEFRAME
  | .jumptofinally .. => .JUMPTOFINALLY
  | .getattributebyname .. => .GETATTRIBUTEBYNAME
  | .getattributebyidx .. => .GETATTRIBUTEBYIDX
  | .setbyattributename .. => .SETBYATTRIBUTENAME
  | .setbyattributeidx .. => .SETBYATTRIBUTEIDX
  | .setbyindexexpr .. => .SETBYINDEXEXPR
  | .newlist .. => .NEWLIST
  | .newset .. => .NEWSET
  | .newmap .. => .NEWMAP
  | .newvector .. => .NEWVECTOR
  | .newinstancebyref .. => .NEWINSTANCEBYREF
  | .newinstance .. => .NEWINSTANCE
  | .getconstructor .. => .GETCONSTRUCTOR
  | .awaititem .. => .AWAITITEM
  | .hasattrjump .. => .HASATTRJUMP
  | .raise .. => .RAISE
  | .raisebyref .. => .RAISEBYREF

/-- The function `h64program_PtrToInstructionSize`: the size in bytes of a
record, fixed per opcode by the table `sz`. -/
def instSize (sz : InstType → Nat) (inst : Inst) : Nat :=
  sz inst.type

/-- Modelled from the spec: the two mode bits of `PUSH_RESCUE_FRAME`
("bitwise OR of `JUMP_ON_RESCUE` and `JUMP_ON_FINALLY`"); their values are
defined in `bytecode.h`, which is not in the source tree. -/
def RESCUEMODE_JUMPONRESCUE : Nat := 1

/-- Modelled from the spec: see `RESCUEMODE_JUMPONRESCUE`. -/
def RESCUEMODE_JUMPONFINALLY : Nat := 2

/-- Number of bytes of the buffer occupied by a sequence of records
(`instructions_bytes` when applied to a whole function). -/
def bytesOf (sz : InstType → Nat) (l : List Inst) : Nat :=
  (l.map (instSize sz)).sum

/-- The label id when the record is a `JUMP_TARGET` pseudo-instruction. -/
def Inst.jumpTargetId : Inst → Option Int
  | .jumptarget jumpid => some jumpid
  | _ => none

/-- Whether the record is a `RETURN_VALUE`. -/
def Inst.isReturnValue : Inst → Bool
  | .returnvalue _ => true
  | _ => false

/-! Project state seen by the finaliser -/

/-- Severity of a diagnostic (`H64MSG_*`). -/
inductive MsgType where
  | error
  | warning
  | info
  deriving DecidableEq, Repr

/-- One diagnostic of the project-wide result container. -/
structure Message where
  type : MsgType
  message : String
  deriving DecidableEq, Repr

/-- The result container `h64result`: success flag and accumulated
diagnostics. -/
structure H64Result where
  success : Bool
  message : List Message
  deriving DecidableEq, Repr

/-- The part of `result_AddMessage` the code generator relies on: the
diagnostic is appended (allocation assumed to succeed). -/
def result_AddMessage (r : H64Result) (t : MsgType) (text : String) :
    H64Result :=
  { r with message := r.message ++ [⟨t, text⟩] }

/-- One entry of `pr->func[]`, as far as the finaliser touches it. -/
structure H64Func where
  iscfunc : Bool
  instructions : List Inst
  inner_stack_size : Int
  input_stack_size : Int
  deriving DecidableEq, Repr

/-- The compile project as seen by `codegen_FinalBytecodeTransform`:
`prj->resultmsg` and `prj->program->func[]`. -/
structure Project where
  resultmsg : H64Result
  func : List H64Func
  deriving DecidableEq, Repr

/-- Result of running a C function of the model: it returned `code` leaving
state `st`, or an `assert` was violated. -/
inductive Ret (σ : Type) where
  | returned (code : Int) (st : σ)
  | assertFailed
  deriving DecidableEq, Repr

/-! `_resolve_jumpid_to_jumpoffset` -/

/-- An entry of the finaliser's jump table (`struct _jumpinfo`). -/
structure JumpInfo where
  jumpid : Int
  offset : Int
  deriving DecidableEq, Repr

/-- The table scan at the head of `_resolve_jumpid_to_jumpoffset`: the offset
of the first entry with the given id, `-1` when there is none. -/
def lookupJumpTarget (jumpid : Int) : List JumpInfo → Int
  | [] => -1
  | e :: rest =>
    if e.jumpid = jumpid then e.offset else lookupJumpTarget jumpid rest

/-- Conversion of an `int64_t` to `int16_t` (two's complement wrap), as done
by the store `*out_jumpoffset = jumptargetoffset`. -/
def wrapInt16 (x : Int) : Int :=
  (x + 32768) % 65536 - 32768

/-- Message text of the zero-offset diagnostic. -/
def zeroOffsetMsg (offset : Int) : String :=
  "internal error: found jump instruction in func at instruction pos " ++
    toString offset ++
    " that has invalid zero relative offset - codegen bug?"

/-- Message text of the out-of-range diagnostic. -/
def jumpRangeMsg (offset : Int) : String :=
  "found jump instruction in func at instruction pos " ++
    toString offset ++
    " that exceeds 16bit int range, this is not supported"

/-- The function `_resolve_jumpid_to_jumpoffset`.  Returns the updated result
container and `some v` (return value 1, `*out_jumpoffset = v`) or `none`
(return value 0; `*out_oom` is always 0 here since allocation succeeds). -/
def _resolve_jumpid_to_jumpoffset (res : H64Result) (jumpid offset : Int)
    (jump_info : List JumpInfo) : H64Result × Option Int :=
  let jumptargetoffset := lookupJumpTarget jumpid jump_info
  if jumptargetoffset < 0 then
    (res, none)
  else
    let rel := jumptargetoffset - offset
    if rel = 0 then
      (result_AddMessage { res with success := false } .error
        (zeroOffsetMsg offset), none)
    else if rel > 65535 ∨ rel < -65535 then
      (result_AddMessage { res with success := false } .error
        (jumpRangeMsg offset), none)
    else
      (res, some (wrapInt16 rel))

/-! `codegen_FinalBytecodeTransform` -/

/-- Outcome of one of the finaliser loops: it ran to its end with `val`, it
made the finaliser return 0 leaving the result container `res` and the data
`val`, or an `assert` was violated. -/
inductive Pass (α : Type) where
  | done (val : α)
  | failed (res : H64Result) (val : α)
  | assertFailed
  deriving DecidableEq, Repr

/-- First loop over one function ("Remove jumptarget instructions while
extracting offsets"), started at byte offset `k`: the remaining records and
the jump table, in order of appearance.  A `JUMP_TARGET` is recorded with the
current offset and spliced out, so the walk stays at `k`. -/
def extractJumpTargets (sz : InstType → Nat) :
    Nat → List Inst → List Inst × List JumpInfo
  | _, [] => ([], [])
  | k, inst :: rest =>
    match inst.jumpTargetId with
    | some jumpid =>
      let r := extractJumpTargets sz k rest
      (r.1, ⟨jumpid, (k : Int)⟩ :: r.2)
    | none =>
      let r := extractJumpTargets sz (k + instSize sz inst) rest
      (inst :: r.1, r.2)

/-- What the first `switch` of the rewrite loop reads from a record. -/
inductive JumpIds where
  | notAJump
  | assertFailed
  | ids (jumpid jumpid2 : Int)
  deriving DecidableEq, Repr

/-- The first `switch` of the rewrite loop: the label ids `jumpid` and
`jumpid2` of a jump-bearing record (`-1` when absent), with the two asserts
of the `PUSH_RESCUE_FRAME` case. -/
def readJumpIds : Inst → JumpIds
  | .condjump _ j => .ids j (-1)
  | .condjumpex _ _ j => .ids j (-1)
  | .jump j => .ids j (-1)
  | .hasattrjump j _ _ => .ids j (-1)
  | .pushrescueframe _ jumponrescue jumponfinally mode _ =>
    if mode &&& RESCUEMODE_JUMPONRESCUE ≠ 0 ∧ jumponrescue < 0 then
      .assertFailed
    else if mode &&& RESCUEMODE_JUMPONFINALLY ≠ 0 ∧ jumponfinally < 0 then
      .assertFailed
    else
      .ids (if mode &&& RESCUEMODE_JUMPONRESCUE ≠ 0 then jumponrescue else -1)
        (if mode &&& RESCUEMODE_JUMPONFINALLY ≠ 0 then jumponfinally else -1)
  | .iterate _ _ j => .ids j (-1)
  | _ => .notAJump

/-- The `switch` that stores the resolved offset for `jumpid`; `none` is its
`default` branch ("unhandled jump type"). -/
def storeJumpOffset (offset : Int) : Inst → Option Inst
  | .condjump c _ => some (.condjump c offset)
  | .condjumpex f c _ => some (.condjumpex f c offset)
  | .jump _ => some (.jump offset)
  | .hasattrjump _ n s => some (.hasattrjump offset n s)
  | .pushrescueframe e _ jf m fr => some (.pushrescueframe e offset jf m fr)
  | .iterate v i _ => some (.iterate v i offset)
  | _ => none

/-- The `switch` that stores the resolved offset for `jumpid2`; `none` is its
`default` branch. -/
def storeJumpOffset2 (offset : Int) : Inst → Option Inst
  | .pushrescueframe e jr _ m fr => some (.pushrescueframe e jr offset m fr)
  | _ => none

/-- One of the two blocks `if (jumpid >= 0) { ... }` of the rewrite loop:
resolve the label and store the offset with the given `switch`.  A failed
resolution clears the success flag and makes the finaliser return 0; so does
the `default` branch of the `switch`. -/
def resolveAndStore (store : Int → Inst → Option Inst) (res : H64Result)
    (jump_info : List JumpInfo) (k : Nat) (jumpid : Int) (inst : Inst) :
    Pass Inst :=
  match _resolve_jumpid_to_jumpoffset res jumpid k jump_info with
  | (res1, none) => .failed { res1 with success := false } inst
  | (_, some offset) =>
    match store offset inst with
    | some inst1 => .done inst1
    | none => .failed res inst

/-- Body of the rewrite loop for the record at byte offset `k`. -/
def rewriteInst (res : H64Result) (jump_info : List JumpInfo) (k : Nat)
    (inst : Inst) : Pass Inst :=
  match readJumpIds inst with
  | .notAJump => .done inst
  | .assertFailed => .assertFailed
  | .ids jumpid jumpid2 =>
    if jumpid < 0 ∧ jumpid2 < 0 then .assertFailed
    else
      match (if 0 ≤ jumpid then
          resolveAndStore storeJumpOffset res jump_info k jumpid inst
        else .done inst) with
      | .done inst1 =>
        if 0 ≤ jumpid2 then
          resolveAndStore storeJumpOffset2 res jump_info k jumpid2 inst1
        else .done inst1
      | other => other

/-- Second loop over one function ("Rewrite jumps to the actual offsets"),
started at byte offset `k`. -/
def rewriteJumps (sz : InstType → Nat) (res : H64Result)
    (jump_info : List JumpInfo) : Nat → List Inst → Pass (List Inst)
  | _, [] => .done []
  | k, inst :: rest =>
    match rewriteInst res jump_info k inst with
    | .done inst1 =>
      match rewriteJumps sz res jump_info (k + instSize sz inst1) rest with
      | .done r => .done (inst1 :: r)
      | .failed res1 r => .failed res1 (inst1 :: r)
      | .assertFailed => .assertFailed
    | .failed res1 inst1 => .failed res1 (inst1 :: rest)
    | .assertFailed => .assertFailed

/-- Both jump loops on one entry of `pr->func[]`. -/
def resolveFuncJumps (sz : InstType → Nat) (res : H64Result) (f : H64Func) :
    Pass H64Func :=
  if f.iscfunc then .done f
  else
    let r := extractJumpTargets sz 0 f.instructions
    match rewriteJumps sz res r.2 0 r.1 with
    | .done insts => .done { f with instructions := insts }
    | .failed res1 insts => .failed res1 { f with instructions := insts }
    | .assertFailed => .assertFailed

/-- The "giant loop to resolve all the jumps" over `pr->func[]`. -/
def resolveAllJumps (sz : InstType → Nat) (res : H64Result) :
    List H64Func → Pass (List H64Func)
  | [] => .done []
  | f :: rest =>
    match resolveFuncJumps sz res f with
    | .done f1 =>
      match resolveAllJumps sz res rest with
      | .done r => .done (f1 :: r)
      | .failed res1 r => .failed res1 (f1 :: r)
      | .assertFailed => .assertFailed
    | .failed res1 f1 => .failed res1 (f1 :: rest)
    | .assertFailed => .assertFailed

/-- The walk computing `func_ends_in_return`, started at byte offset `k` in a
buffer of `total` bytes. -/
def funcEndsInReturn (sz : InstType → Nat) (total : Nat) :
    Nat → List Inst → Bool
  | _, [] => false
  | k, inst :: rest =>
    (decide (total ≤ k + instSize sz inst) && inst.isReturnValue) ||
      funcEndsInReturn sz total (k + instSize sz inst) rest

/-- Body of the last loop of the finaliser: "Add return to the end". -/
def addFinalReturn (sz : InstType → Nat) (f : H64Func) : H64Func :=
  if f.iscfunc then f
  else if funcEndsInReturn sz (bytesOf sz f.instructions) 0 f.instructions
  then f
  else
    { f with
      inner_stack_size :=
        if f.inner_stack_size ≤ 0 then 1 else f.inner_stack_size
      instructions :=
        f.instructions ++ [.setconst 0 .none, .returnvalue 0] }

/-- Whether some recorded diagnostic is of error level (`haveerrors`). -/
def haveErrors (res : H64Result) : Bool :=
  res.message.any (fun m => decide (m.type = MsgType.error))

/-- The function `codegen_FinalBytecodeTransform`. -/
def codegen_FinalBytecodeTransform (sz : InstType → Nat) (prj : Project) :
    Ret Project :=
  if !prj.resultmsg.success || haveErrors prj.resultmsg then
    .returned 1 prj
  else
    match resolveAllJumps sz prj.resultmsg prj.func with
    | .failed res funcs => .returned 0 { resultmsg := res, func := funcs }
    | .assertFailed => .assertFailed
    | .done funcs =>
      .returned 1 { prj with func := funcs.map (addFinalReturn sz) }

/-- A sample size table (packed records: one opcode byte, two bytes per slot
or small id, four or eight per wide id or offset), used for concrete runs. -/
def sampleSize : InstType → Nat
  | .SETCONST => 44
  | .CALL | .CALLIGNOREIFNONE => 10
  | .PUSHRESCUEFRAME => 14
  | .JUMP => 5
  | .CONDJUMP => 7
  | .CONDJUMPEX => 8
  | .ITERATE => 9
  | .HASATTRJUMP => 15
  | .JUMPTARGET => 5
  | .RETURNVALUE | .CALLSETTOP | .POPRESCUEFRAME | .JUMPTOFINALLY
  | .AWAITITEM | .NEWLIST | .NEWSET | .NEWMAP | .NEWVECTOR => 3
  | .BINOP => 8
  | .UNOP => 6
  | .GETATTRIBUTEBYNAME | .SETBYATTRIBUTENAME => 13
  | .SETBYINDEXEXPR | .GETATTRIBUTEBYIDX | .SETBYATTRIBUTEIDX
  | .SETGLOBAL | .GETGLOBAL | .GETFUNC | .GETCLASS | .NEWINSTANCE => 7
  | _ => 5

/-- The instruction sequence with the `JUMP_TARGET` records deleted. -/
def stripJumpTargets (l : List Inst) : List Inst :=
  l.filter (fun i => i.jumpTargetId.isNone)

/-- The record with its jump immediates (the fields the finaliser rewrites)
set to zero; two records agree on every other field exactly when their images
are equal. -/
def Inst.clearJumpImm : Inst → Inst
  | .condjump c _ => .condjump c 0
  | .condjumpex f c _ => .condjumpex f c 0
  | .jump _ => .jump 0
  | .hasattrjump _ n s => .hasattrjump 0 n s
  | .pushrescueframe e _ _ m fr => .pushrescueframe e 0 0 m fr
  | .iterate v i _ => .iterate v i 0
  | inst => inst

/-- No error is recorded on the project: the success flag is set and no
diagnostic is of error level, so the finaliser does not return early. -/
def NoRecordedError (prj : Project) : Prop :=
  prj.resultmsg.success = true ∧ haveErrors prj.resultmsg = false

instance (prj : Project) : Decidable (NoRecordedError prj) := by
  unfold NoRecordedError; infer_instance

/-! Concrete inputs of the finaliser used below. -/

/-- The records the lowerer emits for the body of
`func f(c) { if c { return 1 } }` (`c` in slot 0, the literal in temporary 1,
end label 0): `CONDJUMP` to the end label, `SET_CONST`, `RETURN_VALUE`, and
the end label as the last record. -/
def ifReturnCode : List Inst :=
  [.condjump 0 0, .setconst 1 (.int 1), .returnvalue 1, .jumptarget 0]

/-- A project without diagnostics holding the function `ifReturnCode`. -/
def ifReturnProject : Project :=
  ⟨⟨true, []⟩, [⟨false, ifReturnCode, 1, 1⟩]⟩

/-- A project on which an error was recorded before finalisation; its one
function still carries a label. -/
def erroredProject : Project :=
  ⟨⟨false, [⟨.error, "unexpected call to has_attr() with not exactly two positional arguments"⟩]⟩,
    [⟨false, [.jumptarget 0, .returnvalue 0], 1, 0⟩]⟩

/-- The records emitted for `while c { }` followed by the end of the function
(`c` in slot 0, start label 0, end label 1). -/
def whileLoopProject : Project :=
  ⟨⟨true, []⟩,
    [⟨false, [.jumptarget 0, .condjump 0 1, .jump 0, .jumptarget 1], 0, 1⟩]⟩

/-- A project whose one function jumps to a label that is nowhere emitted. -/
def danglingJumpProject : Project :=
  ⟨⟨true, []⟩, [⟨false, [.jump 7, .returnvalue 0], 1, 0⟩]⟩

/-- A project whose functions carry no jump-bearing record. -/
def straightLineProject : Project :=
  ⟨⟨true, []⟩,
    [⟨false, [.setconst 1 (.int 1), .setconst 2 (.int 2), .binop 0 0 1 2], 3, 0⟩,
     ⟨true, [], 0, 2⟩,
     ⟨false, [.setconst 0 .none, .returnvalue 0], 1, 0⟩]⟩

/-- What the two jump loops leave of a function that has no jump-bearing
record: only the labels are spliced out. -/
def stripOnly (f : H64Func) : H64Func :=
  if f.iscfunc then f
  else { f with instructions := stripJumpTargets f.instructions }

/-! The slot allocator and the per-function state of the lowerer. -/

/-- One slot of the arrays `extra_temps_used[]` and
`extra_temps_deletepastline[]` (always resized together, so kept as one
sequence whose length is `extra_temps_count`). -/
structure ExtraTemp where
  used : Bool
  deletepastline : Bool
  deriving DecidableEq, Repr

/-- The function storage-info side table (`_storageinfo`), with its `codegen`
sub-record. -/
structure StorageInfo where
  lowest_guaranteed_free_temp : Int
  extra_temps : List ExtraTemp
  max_extra_stack : Int
  dostmts_used : Int
  jump_targets_used : Int
  closure_with_self : Bool
  closureboundvars_count : Int
  deriving DecidableEq, Repr

/-- Number of entries of the temporaries arrays. -/
def StorageInfo.extra_temps_count (si : StorageInfo) : Nat :=
  si.extra_temps.length

/-- The scan of `_newtemp_ex` for the first slot not in use, from index `i`. -/
def firstUnusedTemp : List ExtraTemp → Nat → Option Nat
  | [], _ => none
  | t :: rest, i => if t.used then firstUnusedTemp rest (i + 1) else some i

/-- The function `_newtemp_ex`: reuse the first free slot, else grow the
arrays by one (and raise `max_extra_stack` to the new count).  Returns the
slot id. -/
def _newtemp_ex (si : StorageInfo) (deletepastline : Bool) :
    StorageInfo × Int :=
  match firstUnusedTemp si.extra_temps 0 with
  | some i =>
    ({ si with extra_temps := si.extra_temps.set i ⟨true, deletepastline⟩ },
      si.lowest_guaranteed_free_temp + i)
  | none =>
    ({ si with
        extra_temps := si.extra_temps ++ [⟨true, deletepastline⟩]
        max_extra_stack :=
          if ((si.extra_temps_count + 1 : Nat) : Int) > si.max_extra_stack
          then ((si.extra_temps_count + 1 : Nat) : Int)
          else si.max_extra_stack },
      si.lowest_guaranteed_free_temp + si.extra_temps_count)

/-- The function `newmultilinetemp`. -/
def newmultilinetemp (si : StorageInfo) : StorageInfo × Int :=
  _newtemp_ex si false

/-- The function `free1linetemps`. -/
def free1linetemps (si : StorageInfo) : StorageInfo :=
  let freed := si.extra_temps.map (fun t =>
    if t.used && t.deletepastline then { t with used := false } else t)
  { si with extra_temps := freed }

/-- The loop of `funccurrentstacktop` from index `i` with running value
`top`. -/
def stackTopFrom (lowest : Int) : List ExtraTemp → Nat → Int → Int
  | [], _, top => top
  | t :: rest, i, top =>
    stackTopFrom lowest rest (i + 1) (if t.used then lowest + i + 1 else top)

/-- The function `funccurrentstacktop`. -/
def funccurrentstacktop (si : StorageInfo) : Int :=
  stackTopFrom si.lowest_guaranteed_free_temp si.extra_temps 0
    si.lowest_guaranteed_free_temp

/-- The function `freemultilinetemp`; `none` when one of its asserts fails. -/
def freemultilinetemp (si : StorageInfo) (temp : Int) : Option StorageInfo :=
  let t := temp - si.lowest_guaranteed_free_temp
  if 0 ≤ t ∧ t < si.extra_temps_count then
    match si.extra_temps[t.toNat]? with
    | some e =>
      if e.used ∧ e.deletepastline = false then
        let temps := si.extra_temps.set t.toNat { e with used := false }
        some { si with extra_temps := temps }
      else none
    | none => none
  else none

/-- An entry of `program->func[]` together with the storage info of the
function definition that carries its id (`bytecode_func_id`, which the
resolver hands out once per definition) and its debug symbol. -/
structure GenFunc where
  iscfunc : Bool
  instructions : List Inst
  inner_stack_size : Int
  input_stack_size : Int
  is_threadable : Bool
  arg_count : Int
  has_self_arg : Bool
  closure_bound_count : Int
  stack_temporaries_count : Int
  storageinfo : StorageInfo
  deriving DecidableEq, Repr

/-- An entry of `program->classes[]`, as far as the lowerer reads it. -/
structure ClassInfo where
  varattr_count : Int
  hasvarinitfunc : Bool
  varinitfuncidx : Int
  deriving DecidableEq, Repr

/-- The loop stack of the lowerer (`asttransformcodegenextra`): one pair of
label ids per open loop, innermost last. -/
structure LoopIds where
  loop_start_jumpid : Int
  loop_end_jumpid : Int
  deriving DecidableEq, Repr

/-- Everything the lowerer mutates: the program's functions, the attribute
name index, the two result containers (`rinfo->pr->resultmsg` and
`rinfo->ast->resultmsg`), the flags of `asttransforminfo`, the loop stack and
the cache of synthetic init functions. -/
structure GenState where
  func : List GenFunc
  global_member_name : List String
  resultmsg : H64Result
  astresultmsg : H64Result
  hadoutofmemory : Bool
  hadunexpectederror : Bool
  dont_descend_visitation : Bool
  loops : List LoopIds
  tempglobalfakeinitfunc : Option Int
  tempclassesfakeinitfunc : List (Int × Int)
  globalinit_func_index : Int
  deriving DecidableEq, Repr

/-- Outcome of a step of the lowerer: it returned 1 with a value, it returned
0, the run was aborted by a violated `assert` (or by reading through a
pointer the code expects to be set), or the bound on the nesting depth of the
tree walk (a device of this development, see `visit`) was exhausted. -/
inductive Res (α : Type) where
  | ok (st : GenState) (val : α)
  | fail (st : GenState)
  | assertFailed
  | outOfFuel
  deriving Repr

/-- The scan of the attribute-name index for `name`, from position `i`. -/
def attributeIndexFrom : List String → String → Nat → Int
  | [], _, _ => -1
  | x :: rest, name, i =>
    if x = name then (i : Int) else attributeIndexFrom rest name (i + 1)

/-- Modelled from the spec: lookup in the global attribute-name index, an
interning map from names to ids (the lookup function of `debugsymbols.c` is
not in the source tree); the id of a name is its position in the array
`global_member_name`, `-1` when it is not interned. -/
def attributeNameId (names : List String) (name : String) : Int :=
  attributeIndexFrom names name 0

/-- Modelled from the spec: the lookup with `addifnotpresent` set, which
interns the name when it is new. -/
def attributeNameIdAdd (names : List String) (name : String) :
    List String × Int :=
  if attributeNameId names name < 0 then
    (names ++ [name], (names.length : Int))
  else (names, attributeNameId names name)

/-! The expression tree read by the lowerer. -/

/-- Operator tags `H64OP_*`, as far as the lowerer tells them apart. -/
inductive H64Op where
  | INVALID
  | ATTRIBUTEBYIDENTIFIER
  | INDEXBYEXPR
  | BOOLCOND_AND
  | BOOLCOND_OR
  | NEW
  | ASSIGN
  | CMP_EQUAL
  | MATH (code : Nat)
  | ASSIGNMATH (code : Nat)
  | OTHER (code : Nat)
  deriving DecidableEq, Repr

/-- Storage kinds `H64STORETYPE_*`. -/
inductive StorageType where
  | INVALID
  | STACKSLOT
  | GLOBALVARSLOT
  | GLOBALFUNCSLOT
  | GLOBALCLASSSLOT
  | VARATTRSLOT
  deriving DecidableEq, Repr

/-- A storage reference (`storageref`): kind and id. -/
structure StorageRef where
  type : StorageType
  id : Int
  deriving DecidableEq, Repr

/-- The `storage` record of a node: the resolver's annotation (`set`, `ref`)
and the scratch field `eval_temp_id` written by the lowerer. -/
structure Storage where
  set : Bool
  ref : StorageRef
  eval_temp_id : Int
  deriving DecidableEq, Repr

/-- Payload of a literal node: token type and value. -/
inductive Literal where
  | int (int_value : Int)
  | float (float_bits : Int)
  | bool (int_value : Int)
  | none
  | bytes (str_value : List Nat) (str_value_len : Nat)
  | string (str_value : List Nat) (str_value_len : Nat)
  | other
  deriving DecidableEq, Repr

/-- The expression node `h64expression`, one constructor per node type the
visitor knows, each with its `storage` record and the payload fields that the
visitor and the lowerer read. -/
inductive Expr where
  | invalid (storage : Storage)
  | literal (storage : Storage) (literal : Literal)
  | identifierref (storage : Storage) (value : String)
      (resolved_to_import : Bool)
  | vardef (storage : Storage) (value : Option Expr)
  | assign (storage : Storage) (assignop : H64Op) (lvalue rvalue : Expr)
  | funcdef (storage : Storage) (bytecode_func_id : Int)
      (arg_value : List (Option Expr)) (stmt : List Expr)
  | inlinefuncdef (storage : Storage) (bytecode_func_id : Int)
      (arg_value : List (Option Expr)) (stmt : List Expr)
  | classdef (storage : Storage) (bytecode_class_id : Int)
      (baseclass_ref : Option Expr) (vardef funcdef : List Expr)
  | ifstmt (storage : Storage) (conditional : Option Expr)
      (stmt : List Expr) (followup_clause : List (Option Expr × List Expr))
  | whilestmt (storage : Storage) (conditional : Expr) (stmt : List Expr)
  | forstmt (storage : Storage) (iterated_container : Expr)
      (stmt : List Expr)
  | dostmt (storage : Storage) (dostmt errors rescuestmt : List Expr)
      (has_finally_block : Bool) (finallystmt : List Expr)
  | withstmt (storage : Storage) (withclause stmt : List Expr)
  | withclause (storage : Storage) (withitem_value : Option Expr)
  | raisestmt (storage : Storage) (raised_expression : Expr)
  | returnstmt (storage : Storage) (returned_expression : Option Expr)
  | breakstmt (storage : Storage)
  | continuestmt (storage : Storage)
  | awaitstmt (storage : Storage) (awaitedvalue : Expr)
  | importstmt (storage : Storage)
  | callstmt (storage : Storage) (call : Option Expr)
  | call (storage : Storage) (value : Expr)
      (arguments : List (Option String × Expr))
      (expand_last_posarg is_async : Bool)
  | binaryop (storage : Storage) (optype : H64Op) (value1 value2 : Expr)
  | unaryop (storage : Storage) (optype : H64Op) (value1 : Expr)
  | list (storage : Storage) (entry : List Expr)
  | set (storage : Storage) (entry : List Expr)
  | map (storage : Storage) (entry : List (Expr × Expr))
  | vector (storage : Storage) (entry : List Expr)
  | given (storage : Storage) (condition valueyes valueno : Expr)
  deriving Repr

/-- The `storage` record of a node. -/
def Expr.storage : Expr → Storage
  | .invalid s | .literal s _ | .identifierref s _ _ | .vardef s _
  | .assign s _ _ _ | .funcdef s _ _ _ | .inlinefuncdef s _ _ _
  | .classdef s _ _ _ _ | .ifstmt s _ _ _ | .whilestmt s _ _
  | .forstmt s _ _ | .dostmt s _ _ _ _ _ | .withstmt s _ _
  | .withclause s _ | .raisestmt s _ | .returnstmt s _ | .breakstmt s
  | .continuestmt s | .awaitstmt s _ | .importstmt s | .callstmt s _
  | .call s _ _ _ _ | .binaryop s _ _ _ | .unaryop s _ _ | .list s _
  | .set s _ | .map s _ | .vector s _ | .given s _ _ _ => s

/-- The field `storage.eval_temp_id` of a node. -/
def Expr.eval_temp_id (e : Expr) : Int :=
  e.storage.eval_temp_id

/-- The node with `storage.eval_temp_id` set to `t`. -/
def Expr.setEvalTemp (t : Int) : Expr → Expr
  | .invalid s => .invalid { s with eval_temp_id := t }
  | .literal s a => .literal { s with eval_temp_id := t } a
  | .identifierref s a b => .identifierref { s with eval_temp_id := t } a b
  | .vardef s a => .vardef { s with eval_temp_id := t } a
  | .assign s a b c => .assign { s with eval_temp_id := t } a b c
  | .funcdef s a b c => .funcdef { s with eval_temp_id := t } a b c
  | .inlinefuncdef s a b c =>
    .inlinefuncdef { s with eval_temp_id := t } a b c
  | .classdef s a b c d => .classdef { s with eval_temp_id := t } a b c d
  | .ifstmt s a b c => .ifstmt { s with eval_temp_id := t } a b c
  | .whilestmt s a b => .whilestmt { s with eval_temp_id := t } a b
  | .forstmt s a b => .forstmt { s with eval_temp_id := t } a b
  | .dostmt s a b c d e => .dostmt { s with eval_temp_id := t } a b c d e
  | .withstmt s a b => .withstmt { s with eval_temp_id := t } a b
  | .withclause s a => .withclause { s with eval_temp_id := t } a
  | .raisestmt s a => .raisestmt { s with eval_temp_id := t } a
  | .returnstmt s a => .returnstmt { s with eval_temp_id := t } a
  | .breakstmt s => .breakstmt { s with eval_temp_id := t }
  | .continuestmt s => .continuestmt { s with eval_temp_id := t }
  | .awaitstmt s a => .awaitstmt { s with eval_temp_id := t } a
  | .importstmt s => .importstmt { s with eval_temp_id := t }
  | .callstmt s a => .callstmt { s with eval_temp_id := t } a
  | .call s a b c d => .call { s with eval_temp_id := t } a b c d
  | .binaryop s a b c => .binaryop { s with eval_temp_id := t } a b c
  | .unaryop s a b => .unaryop { s with eval_temp_id := t } a b
  | .list s a => .list { s with eval_temp_id := t } a
  | .set s a => .set { s with eval_temp_id := t } a
  | .map s a => .map { s with eval_temp_id := t } a
  | .vector s a => .vector { s with eval_temp_id := t } a
  | .given s a b c => .given { s with eval_temp_id := t } a b c

/-! Emission primitives and `_codegen_call_to`. -/

/-- Child slots of a node that the lowerer tells apart when it compares a
child pointer with a node (`parent->assignstmt.lvalue == expr` and the
like). -/
inductive Slot where
  | lvalue
  | rvalue
  | value1
  | value2
  | baseclass_ref
  | vardef_value
  | other
  deriving DecidableEq, Repr

/-- The chain of `parent` pointers of a node, nearest first: each ancestor
together with the slot through which the chain reaches it. -/
abbrev Ctx : Type := List (Expr × Slot)

/-- Constants and helpers the lowerer takes from files that are not in the
source tree (`bytecode.h`, `corelib/errors.h`, `valuecontentstruct.h`,
`widechar.h`, `itemsort.h`, `asthelpers.h`, the program tables). -/
structure Env where
  H64STDERROR_ERROR : Int
  H64STDERROR_ARGUMENTERROR : Int
  H64STDERROR_ATTRIBUTEERROR : Int
  CALLFLAG_UNPACKLASTPOSARG : Nat
  CALLFLAG_ASYNC : Nat
  CONDJUMPEX_FLAG_JUMPONTRUE : Nat
  VALUECONTENT_SHORTSTRLEN : Nat
  VALUECONTENT_SHORTBYTESLEN : Nat
  has_attr_func_idx : Int
  classes : List ClassInfo
  utf8_to_utf32 : List Nat → Option (List Nat)
  isbuiltinattrname : String → Bool
  opcode : H64Op → Nat
  guarded_by_is_a_or_has_attr : Ctx → Expr → Bool

/-- An element of the array sorted by `_codegen_call_to`
(`kwargsortinfo`). -/
structure KwArgSortInfo where
  kwnameindex : Int
  callargno : Nat
  deriving DecidableEq, Repr

/-- The comparator `_compare_kw_args`. -/
def _compare_kw_args (item1 item2 : KwArgSortInfo) : Int :=
  if item1.kwnameindex < item2.kwnameindex then -1
  else if item1.kwnameindex > item2.kwnameindex then 1
  else 0

/-- The UTF-32 form of a message made of ASCII characters, as returned by
`utf8_to_utf32` for the constant messages of the lowerer. -/
def asciiToUtf32 (s : String) : List Nat :=
  s.toList.map Char.toNat

/-- The function `appendinstbyfuncid`, with its asserts on the function id.
-/
def appendinstbyfuncid (id : Nat) (inst : Inst) (st : GenState) : Res Unit :=
  match st.func[id]? with
  | none => .assertFailed
  | some f =>
    if f.iscfunc then .assertFailed
    else
      let f1 := { f with instructions := f.instructions ++ [inst] }
      .ok { st with func := st.func.set id f1 } ()

/-- The function `appendinst` for the function with id `func`. -/
def appendinst (func : Nat) (inst : Inst) (st : GenState) : Res Unit :=
  appendinstbyfuncid func inst st

/-- The storage info of the function with id `func`. -/
def getStorageInfo (func : Nat) (st : GenState) : Option StorageInfo :=
  (st.func[func]?).map (fun f => f.storageinfo)

/-- Replace the storage info of the function with id `func`. -/
def setStorageInfo (func : Nat) (si : StorageInfo) (st : GenState) :
    GenState :=
  match st.func[func]? with
  | none => st
  | some f =>
    let f1 := { f with storageinfo := si }
    { st with func := st.func.set func f1 }

/-- The call `_newtemp_ex(func, deletepastline)` on the state. -/
def newtempIn (func : Nat) (deletepastline : Bool) (st : GenState) :
    Res Int :=
  match getStorageInfo func st with
  | none => .assertFailed
  | some si =>
    let r := _newtemp_ex si deletepastline
    .ok (setStorageInfo func r.1 st) r.2

/-- The in-place edit `_settop_inst(rinfo, func, offset)->topto++` on the
record with index `idx` of a buffer. -/
def settopIncrement : List Inst → Nat → List Inst
  | [], _ => []
  | .callsettop topto :: rest, 0 => .callsettop (topto + 1) :: rest
  | inst :: rest, 0 => inst :: rest
  | inst :: rest, idx + 1 => inst :: settopIncrement rest idx

/-- The edit `_settop_inst(...)->topto++` on the state. -/
def settopIncrementIn (func : Nat) (idx : Nat) (st : GenState) : GenState :=
  match st.func[func]? with
  | none => st
  | some f =>
    let f1 := { f with instructions := settopIncrement f.instructions idx }
    { st with func := st.func.set func f1 }

/-- Result of the pre-iteration of `_codegen_call_to` over the arguments. -/
inductive KwCollect where
  | collected (info : List KwArgSortInfo) (kwargs_start_slot : Option Nat)
  | unknown (i : Nat) (name : String)
  deriving Repr

/-- The pre-iteration of `_codegen_call_to` from argument index `i`: fill
`arg_kwsortinfo[]` and find `kwargs_start_slot`, stopping at the first
keyword argument whose name is not in the attribute-name index. -/
def collectKwArgs (names : List String) :
    List (Option String × Expr) → Nat → Option Nat → KwCollect
  | [], _, start => .collected [] start
  | (none, _) :: rest, i, start =>
    match collectKwArgs names rest (i + 1) start with
    | .collected info s => .collected (⟨-1, i⟩ :: info) s
    | .unknown j n => .unknown j n
  | (some name, _) :: rest, i, start =>
    let start1 := match start with
      | some s => some s
      | none => some i
    let kwnameidx := attributeNameId names name
    if kwnameidx < 0 then .unknown i name
    else
      match collectKwArgs names rest (i + 1) start1 with
      | .collected info s => .collected (⟨kwnameidx, i⟩ :: info) s
      | .unknown j n => .unknown j n

/-- The sort step of `_codegen_call_to`: `itemsort_Do` (not in the source
tree, taken as the parameter `itemsort`) applied to the entries from
`kwargs_start_slot` on. -/
def sortKwArgs (itemsort : List KwArgSortInfo → List KwArgSortInfo)
    (info : List KwArgSortInfo) : Option Nat → List KwArgSortInfo
  | none => info
  | some start => info.take start ++ itemsort (info.drop start)

/-- Local variables of the emission loop of `_codegen_call_to`. -/
structure CallLoop where
  _argtemp : Int
  posargcount : Int
  kwargcount : Int
  _reachedkwargs : Bool
  expandlastposarg : Bool
  deriving DecidableEq, Repr

/-- The emission loop of `_codegen_call_to` ("emit in-order arguments") from
index `i` over the sorted entries. -/
def emitCallArgs (func : Nat) (callsettop_idx : Nat)
    (arguments : List (Option String × Expr)) (expand_last_posarg : Bool) :
    List KwArgSortInfo → Nat → CallLoop → GenState → Res CallLoop
  | [], _, v, st => .ok st v
  | info :: rest, i, v, st =>
    let reached := v._reachedkwargs || decide (0 ≤ info.kwnameindex)
    if reached then
      if info.kwnameindex < 0 then .assertFailed
      else
        match appendinst func
            (.setconst v._argtemp (.int info.kwnameindex)) st with
        | .ok st1 _ =>
          let st2 := settopIncrementIn func callsettop_idx st1
          match arguments[info.callargno]? with
          | none => .assertFailed
          | some arg =>
            let slotto := v._argtemp + 1
            let slotfrom := arg.2.eval_temp_id
            if slotto < 0 ∨ slotfrom < 0 then .assertFailed
            else
              let st3 := settopIncrementIn func callsettop_idx st2
              match appendinst func (.valuecopy slotto slotfrom) st3 with
              | .ok st4 _ =>
                emitCallArgs func callsettop_idx arguments
                  expand_last_posarg rest (i + 1)
                  { v with _argtemp := v._argtemp + 2,
                           kwargcount := v.kwargcount + 1,
                           _reachedkwargs := true } st4
              | .fail st4 => .fail st4
              | .assertFailed => .assertFailed
              | .outOfFuel => .outOfFuel
        | .fail st1 => .fail st1
        | .assertFailed => .assertFailed
        | .outOfFuel => .outOfFuel
    else
      match arguments[i]? with
      | none => .assertFailed
      | some arg =>
        let slotto := v._argtemp
        let slotfrom := arg.2.eval_temp_id
        if slotto < 0 ∨ slotfrom < 0 then .assertFailed
        else
          let st1 := settopIncrementIn func callsettop_idx st
          match appendinst func (.valuecopy slotto slotfrom) st1 with
          | .ok st2 _ =>
            emitCallArgs func callsettop_idx arguments expand_last_posarg
              rest (i + 1)
              { v with _argtemp := v._argtemp + 1,
                       posargcount := v.posargcount + 1,
                       expandlastposarg :=
                         v.expandlastposarg || expand_last_posarg } st2
          | .fail st2 => .fail st2
          | .assertFailed => .assertFailed
          | .outOfFuel => .outOfFuel

/-- The flags of the emitted call instruction. -/
def callFlags (env : Env) (expandlastposarg is_async : Bool) : Nat :=
  (0 ||| (if expandlastposarg then env.CALLFLAG_UNPACKLASTPOSARG else 0)) |||
    (if is_async then env.CALLFLAG_ASYNC else 0)

/-- The update "if (maxslotsused > max_extra_stack) max_extra_stack =
maxslotsused" made by the lowerer after it used slots above the current
top. -/
def raiseMaxExtraStack (si : StorageInfo) (maxslotsused : Int) :
    StorageInfo :=
  if maxslotsused > si.max_extra_stack then
    { si with max_extra_stack := maxslotsused }
  else si

/-- The call record emitted last by `_codegen_call_to`. -/
def callInst (ignoreifnone : Bool)
    (returnto slotcalledfrom posargs kwargs : Int) (flags : Nat) : Inst :=
  if ignoreifnone then
    .callignoreifnone returnto slotcalledfrom posargs kwargs flags
  else
    .call returnto slotcalledfrom posargs kwargs flags

/-- The state with entry `func` of `program->func[]` replaced. -/
def setFunc (st : GenState) (func : Nat) (g : GenFunc) : GenState :=
  { st with func := st.func.set func g }

/-- The function `_codegen_call_to` for the call node with the given
`arguments`, `expand_last_posarg` and `is_async`.  The value is the new
`eval_temp_id` of the call node (`none` when it is left untouched). -/
def _codegen_call_to (env : Env)
    (itemsort : List KwArgSortInfo → List KwArgSortInfo) (func : Nat)
    (arguments : List (Option String × Expr))
    (expand_last_posarg is_async : Bool)
    (calledexprstoragetemp resulttemp : Int) (ignoreifnone : Bool)
    (st : GenState) : Res (Option Int) :=
  match getStorageInfo func st, st.func[func]? with
  | some si, some f =>
    let _argtemp := funccurrentstacktop si
    let callsettop_idx := f.instructions.length
    match appendinst func (.callsettop _argtemp) st with
    | .ok st1 _ =>
      match collectKwArgs st1.global_member_name arguments 0 none with
      | .unknown _ name =>
        let msgs := result_AddMessage st1.astresultmsg .warning
          ("unknown keyword argument \"" ++ name ++
            "\" will cause runtime error with this function")
        let st2 := { st1 with astresultmsg := msgs }
        match newtempIn func true st2 with
        | .ok st3 temp2 =>
          match appendinst func (.setconst temp2 (.constpreallocstr
              (asciiToUtf32 "called func does not recognize all passed keyword arguments")))
              st3 with
          | .ok st4 _ =>
            match appendinst func
                (.raise env.H64STDERROR_ARGUMENTERROR temp2) st4 with
            | .ok st5 _ => .ok st5 none
            | .fail st5 => .fail st5
            | .assertFailed => .assertFailed
            | .outOfFuel => .outOfFuel
          | .fail st4 => .fail st4
          | .assertFailed => .assertFailed
          | .outOfFuel => .outOfFuel
        | .fail st3 => .fail st3
        | .assertFailed => .assertFailed
        | .outOfFuel => .outOfFuel
      | .collected info start =>
        let arg_kwsortinfo := sortKwArgs itemsort info start
        match emitCallArgs func callsettop_idx arguments expand_last_posarg
            arg_kwsortinfo 0 ⟨_argtemp, 0, 0, false, false⟩ st1 with
        | .ok st2 v =>
          match getStorageInfo func st2 with
          | none => .assertFailed
          | some si2 =>
            let maxslotsused := v._argtemp - si2.lowest_guaranteed_free_temp
            let si3 := raiseMaxExtraStack si2 maxslotsused
            let st3 := setStorageInfo func si3 st2
            let flags := callFlags env v.expandlastposarg is_async
            let inst_call := callInst ignoreifnone resulttemp
              calledexprstoragetemp v.posargcount v.kwargcount flags
            match appendinst func inst_call st3 with
            | .ok st4 _ => .ok st4 (some resulttemp)
            | .fail st4 => .fail st4
            | .assertFailed => .assertFailed
            | .outOfFuel => .outOfFuel
        | .fail st2 => .fail st2
        | .assertFailed => .assertFailed
        | .outOfFuel => .outOfFuel
    | .fail st1 => .fail st1
    | .assertFailed => .assertFailed
    | .outOfFuel => .outOfFuel
  | _, _ => .assertFailed

/-- The state with the buffer of function `func` replaced. -/
def withInstructions (st : GenState) (func : Nat) (f : GenFunc)
    (instructions : List Inst) : GenState :=
  { st with func := st.func.set func { f with instructions := instructions } }

/-- The copies of the positional arguments emitted by `_codegen_call_to`:
argument number `i` goes to slot `t + i`. -/
def posArgCopies : Int → List (Option String × Expr) → List Inst
  | _, [] => []
  | t, arg :: rest =>
    .valuecopy t arg.2.eval_temp_id :: posArgCopies (t + 1) rest

/-- The name/value pairs emitted by `_codegen_call_to` for the sorted keyword
entries: the name id of entry `j` goes to slot `t + 2 j`, the value of the
argument it came from to slot `t + 2 j + 1`. -/
def kwArgPairs (arguments : List (Option String × Expr)) :
    Int → List KwArgSortInfo → List Inst
  | _, [] => []
  | t, info :: rest =>
    .setconst t (.int info.kwnameindex) ::
      .valuecopy (t + 1)
        (match arguments[info.callargno]? with
          | some arg => arg.2.eval_temp_id
          | none => -1) ::
      kwArgPairs arguments (t + 2) rest

/-- The entries of `arg_kwsortinfo[]` for keyword arguments that start at
argument index `i`. -/
def kwInfos (names : List String) :
    List (Option String × Expr) → Nat → List KwArgSortInfo
  | [], _ => []
  | arg :: rest, i =>
    ⟨match arg.1 with
      | some name => attributeNameId names name
      | none => -1, i⟩ :: kwInfos names rest (i + 1)

/-- The value of `kwargs_start_slot` after the pre-iteration of
`_codegen_call_to`: the index of the first argument that has a name, counted
from `i`. -/
def firstNamed : List (Option String × Expr) → Nat → Option Nat
  | [], _ => none
  | (some _, _) :: _, i => some i
  | (none, _) :: rest, i => firstNamed rest (i + 1)

/-- Whether an entry of `arg_kwsortinfo[]` belongs to a keyword argument. -/
def KwArgSortInfo.isKw (e : KwArgSortInfo) : Bool :=
  decide (0 ≤ e.kwnameindex)

/-- The entries of the sorted `arg_kwsortinfo[]` that the emission loop of
`_codegen_call_to` treats as keyword arguments. -/
def sortedKwEntries (itemsort : List KwArgSortInfo → List KwArgSortInfo)
    (names : List String) (arguments : List (Option String × Expr)) :
    List KwArgSortInfo :=
  (sortKwArgs itemsort (kwInfos names arguments 0)
    (firstNamed arguments 0)).filter KwArgSortInfo.isKw

/-- The names of the keyword arguments of a call, in source order. -/
def kwNames : List (Option String × Expr) → List String
  | [] => []
  | (some n, _) :: rest => n :: kwNames rest
  | (none, _) :: rest => kwNames rest

/-- The specification of `itemsort_Do` assumed for the parameter `itemsort`:
the output is a permutation of the input in which no element is followed by
one that the comparator `_compare_kw_args` ranks strictly before it. -/
def SortsByComparator
    (itemsort : List KwArgSortInfo → List KwArgSortInfo) : Prop :=
  ∀ l, (itemsort l).Perm l ∧
    (itemsort l).Pairwise (fun a b => _compare_kw_args a b ≤ 0)

/-- Insertion of one element into a list sorted by `_compare_kw_args`. -/
def kwInsert (x : KwArgSortInfo) : List KwArgSortInfo → List KwArgSortInfo
  | [] => [x]
  | y :: ys =>
    if _compare_kw_args x y ≤ 0 then x :: y :: ys else y :: kwInsert x ys

/-- A concrete sort by `_compare_kw_args` (insertion sort), used where a run
needs an executable `itemsort`. -/
def kwInsertionSort : List KwArgSortInfo → List KwArgSortInfo
  | [] => []
  | x :: xs => kwInsert x (kwInsertionSort xs)

/-- Constants for concrete runs of the lowerer (the values of `bytecode.h`
are not in the source tree; the runs below do not depend on them). -/
def sampleEnv : Env :=
  { H64STDERROR_ERROR := 0,
    H64STDERROR_ARGUMENTERROR := 7,
    H64STDERROR_ATTRIBUTEERROR := 5,
    CALLFLAG_UNPACKLASTPOSARG := 1,
    CALLFLAG_ASYNC := 2,
    CONDJUMPEX_FLAG_JUMPONTRUE := 1,
    VALUECONTENT_SHORTSTRLEN := 3,
    VALUECONTENT_SHORTBYTESLEN := 7,
    has_attr_func_idx := 9,
    classes := [],
    utf8_to_utf32 := fun b => some b,
    isbuiltinattrname := fun _ => false,
    opcode := fun op =>
      match op with
      | .INVALID => 0
      | .ATTRIBUTEBYIDENTIFIER => 1
      | .INDEXBYEXPR => 2
      | .BOOLCOND_AND => 3
      | .BOOLCOND_OR => 4
      | .NEW => 5
      | .ASSIGN => 6
      | .CMP_EQUAL => 7
      | .MATH c => 100 + c
      | .ASSIGNMATH c => 200 + c
      | .OTHER c => 300 + c,
    guarded_by_is_a_or_has_attr := fun _ _ => false }

/-- A literal node whose value the lowerer has already placed in slot
`temp`. -/
def evaluatedInt (v temp : Int) : Expr :=
  .literal ⟨false, ⟨.INVALID, 0⟩, temp⟩ (.int v)

/-- The state of the lowerer right before the call record of a statement
`f(_, _)` is emitted in function 0: the callee is in slot 1, the two argument
values in slots 2 and 3; the attribute-name index knows `init`, `named` and
`a`. -/
def callSampleState : GenState :=
  { func := [⟨false,
      [.getfunc 1 5, .setconst 2 (.int 1), .setconst 3 (.int 2)],
      0, 0, false, 0, false, 0, 0,
      ⟨1, [⟨true, true⟩, ⟨true, true⟩, ⟨true, true⟩], 3, 0, 0, false, 0⟩⟩],
    global_member_name := ["init", "named", "a"],
    resultmsg := ⟨true, []⟩,
    astresultmsg := ⟨true, []⟩,
    hadoutofmemory := false,
    hadunexpectederror := false,
    dont_descend_visitation := false,
    loops := [],
    tempglobalfakeinitfunc := none,
    tempclassesfakeinitfunc := [],
    globalinit_func_index := -1 }

/-- The argument list of `f(1, named=2)`. -/
def namedCallArgs : List (Option String × Expr) :=
  [(none, evaluatedInt 1 2), (some "named", evaluatedInt 2 3)]

/-- The argument list of `f(a=1, a=2)`. -/
def repeatedKwCallArgs : List (Option String × Expr) :=
  [(some "a", evaluatedInt 1 2), (some "a", evaluatedInt 2 3)]

/-- The argument list of `f(a=1, named=2)`. -/
def twoKwCallArgs : List (Option String × Expr) :=
  [(some "a", evaluatedInt 1 2), (some "named", evaluatedInt 2 3)]

/-- The instructions of function `func` after a step of the lowerer (empty
when the step did not return 1). -/
def Res.instructionsOf {α : Type} (func : Nat) : Res α → List Inst
  | .ok st _ =>
    match st.func[func]? with
    | some f => f.instructions
    | none => []
  | _ => []

/-- The name ids written by the `SET_CONST` records of a sequence of
name/value pairs, in emission order. -/
def setconstIds : List Inst → List Int
  | [] => []
  | .setconst _ (.int v) :: rest => v :: setconstIds rest
  | _ :: rest => setconstIds rest

/-! The lowerer: steps, context and helpers. -/

/-- A step of the lowerer: a function from the state to an outcome. -/
def Gen (α : Type) : Type := GenState → Res α

/-- Return 1 with a value and the state unchanged. -/
def Gen.pure {α : Type} (a : α) : Gen α := fun st => .ok st a

/-- Sequencing: the second step runs only when the first returned 1. -/
def Gen.bind {α β : Type} (m : Gen α) (f : α → Gen β) : Gen β := fun st =>
  match m st with
  | .ok st1 a => f a st1
  | .fail st1 => .fail st1
  | .assertFailed => .assertFailed
  | .outOfFuel => .outOfFuel

instance : Monad Gen where
  pure := Gen.pure
  bind := Gen.bind

/-- The exit `return 0`. -/
def Gen.fail {α : Type} : Gen α := fun st => .fail st

/-- A violated `assert`. -/
def Gen.abort {α : Type} : Gen α := fun _ => .assertFailed

/-- The statement `assert(c)`. -/
def Gen.assert (c : Bool) : Gen Unit :=
  if c then Gen.pure () else Gen.abort

/-- Read the state. -/
def Gen.get : Gen GenState := fun st => .ok st st

/-- Update the state. -/
def Gen.modify (f : GenState → GenState) : Gen Unit := fun st => .ok (f st) ()

/-- The node `expr->parent`. -/
def Ctx.parent (ctx : Ctx) : Option Expr :=
  ctx.head?.map (fun p => p.1)

/-- Whether the node sits in slot `s` of its parent. -/
def Ctx.inSlot (ctx : Ctx) (s : Slot) : Bool :=
  match ctx with
  | [] => false
  | (_, t) :: _ => decide (t = s)

/-- Tag tests on nodes. -/
def Expr.isFuncdef : Expr → Bool
  | .funcdef .. => true
  | .inlinefuncdef .. => true
  | _ => false

def Expr.isFuncdefStmt : Expr → Bool
  | .funcdef .. => true
  | _ => false

def Expr.isClassdef : Expr → Bool
  | .classdef .. => true
  | _ => false

def Expr.isVardef : Expr → Bool
  | .vardef .. => true
  | _ => false

def Expr.isAssign : Expr → Bool
  | .assign .. => true
  | _ => false

def Expr.isNoneLiteral : Expr → Bool
  | .literal _ .none => true
  | _ => false

def Expr.isIdentifierref : Expr → Bool
  | .identifierref .. => true
  | _ => false

/-- The function `is_in_extends_arg`: walk up to the first class definition
and tell whether the chain enters it through `baseclass_ref`. -/
def is_in_extends_arg : Ctx → Bool
  | [] => false
  | (parent, slot) :: rest =>
    if parent.isClassdef then decide (slot = .baseclass_ref)
    else is_in_extends_arg rest

/-- Modelled from the spec: `surroundingfunc(expr)` is the nearest enclosing
function definition (statement or inline) of a node (`asthelpers` is not in
the source tree). -/
def surroundingfunc : Ctx → Option Expr
  | [] => none
  | (parent, _) :: rest =>
    if parent.isFuncdef then some parent else surroundingfunc rest

/-- Modelled from the spec: `surroundingclass(expr, allowfuncnested)` is the
nearest enclosing class definition; with `allowfuncnested = 0` the search
stops with no result at the first enclosing function definition. -/
def surroundingclass (allowfuncnested : Bool) : Ctx → Option Expr
  | [] => none
  | (parent, _) :: rest =>
    if parent.isClassdef then some parent
    else if parent.isFuncdef && !allowfuncnested then none
    else surroundingclass allowfuncnested rest

/-- Modelled from the spec: `isvardefstmtassignvalue(expr)` tells whether
the node lies in the assigned value of a variable definition. -/
def isvardefstmtassignvalue : Ctx → Bool
  | [] => false
  | (parent, slot) :: rest =>
    if parent.isVardef && decide (slot = .vardef_value) then true
    else if parent.isFuncdef || parent.isClassdef then false
    else isvardefstmtassignvalue rest

/-- Modelled from the spec: `IS_STMT(type)`, the node types named `*_STMT`. -/
def Expr.isStmt : Expr → Bool
  | .vardef .. | .assign .. | .funcdef .. | .classdef .. | .ifstmt ..
  | .whilestmt .. | .forstmt .. | .dostmt .. | .withstmt .. | .raisestmt ..
  | .returnstmt .. | .breakstmt .. | .continuestmt .. | .awaitstmt ..
  | .importstmt .. | .callstmt .. => true
  | _ => false

/-- What the lowerer reads from the function definition node `func` besides
its storage info (which is in the state, under the function id): the fields
`funcdef.bytecode_func_id` and `funcdef.arguments.arg_count`. -/
structure FuncRef where
  bytecode_func_id : Int
  arg_count : Int
  deriving DecidableEq, Repr

/-- The reference to a function definition node. -/
def Expr.funcRef : Expr → Option FuncRef
  | .funcdef _ id args _ => some ⟨id, (args.length : Int)⟩
  | .inlinefuncdef _ id args _ => some ⟨id, (args.length : Int)⟩
  | _ => none

/-- The field `classdef.bytecode_class_id` of a class definition node. -/
def Expr.classId : Expr → Option Int
  | .classdef _ id _ _ _ => some id
  | _ => none

/-- Read `func->funcdef._storageinfo`. -/
def storageOf (func : FuncRef) : Gen StorageInfo := fun st =>
  if func.bytecode_func_id < 0 then .assertFailed
  else
    match getStorageInfo func.bytecode_func_id.toNat st with
    | some si => .ok st si
    | none => .assertFailed

/-- Write `func->funcdef._storageinfo`. -/
def setStorageOf (func : FuncRef) (si : StorageInfo) : Gen Unit := fun st =>
  if func.bytecode_func_id < 0 then .assertFailed
  else .ok (setStorageInfo func.bytecode_func_id.toNat si st) ()

/-- The call `appendinst(rinfo->pr->program, func, expr, &inst)`. -/
def emit (func : FuncRef) (inst : Inst) : Gen Unit := fun st =>
  if func.bytecode_func_id < 0 then .assertFailed
  else appendinst func.bytecode_func_id.toNat inst st

/-- The call `_newtemp_ex(func, deletepastline)`. -/
def newtemp (func : FuncRef) (deletepastline : Bool) : Gen Int := do
  let si ← storageOf func
  let r := _newtemp_ex si deletepastline
  setStorageOf func r.1
  pure r.2

/-- The entry of `program->classes[]` with index `classidx`. -/
def classInfo (env : Env) (classidx : Int) : Option ClassInfo :=
  if classidx < 0 then none else env.classes[classidx.toNat]?

/-- Lookup in the map `_tempclassesfakeinitfunc_map`. -/
def fakeInitLookup : List (Int × Int) → Int → Option Int
  | [], _ => none
  | (c, f) :: rest, classidx =>
    if c = classidx then some f else fakeInitLookup rest classidx

/-- The storage info of a freshly made `$$clsinit` function node. -/
def clsinitStorage : StorageInfo :=
  ⟨1, [], 0, 0, 0, true, 0⟩

/-- The function `_fakeclassinitfunc` for the class with id `classidx`: the
cached synthetic function definition of the class, made on first use with a
zeroed storage info in which `closure_with_self` and
`lowest_guaranteed_free_temp` are 1. -/
def _fakeclassinitfunc (env : Env) (classidx : Int) : Gen FuncRef := fun st =>
  match classInfo env classidx with
  | none => .assertFailed
  | some c =>
    if !c.hasvarinitfunc then .assertFailed
    else
      match fakeInitLookup st.tempclassesfakeinitfunc classidx with
      | some f => .ok st ⟨f, 0⟩
      | none =>
        let st1 := { st with
          tempclassesfakeinitfunc :=
            (classidx, c.varinitfuncidx) :: st.tempclassesfakeinitfunc }
        let st2 :=
          if c.varinitfuncidx < 0 then st1
          else setStorageInfo c.varinitfuncidx.toNat clsinitStorage st1
        .ok st2 ⟨c.varinitfuncidx, 0⟩

/-- Modelled from the spec: `h64program_RegisterHorse64Function` for a
function without arguments appends a new entry to `program->func[]` and
returns its index (`bytecode.c` is not in the source tree).  The entry is
paired with the zeroed storage info of the `$$globalinit` node. -/
def registerGlobalInit (st : GenState) : GenState × Int :=
  ({ st with
      func := st.func ++
        [⟨false, [], 0, 0, false, 0, false, 0, 0,
          ⟨0, [], 0, 0, 0, false, 0⟩⟩] },
    (st.func.length : Int))

/-- The function `_fakeglobalinitfunc`: the cached synthetic `$$globalinit`
function definition, registered with the program on first use. -/
def _fakeglobalinitfunc : Gen FuncRef := fun st =>
  match st.tempglobalfakeinitfunc with
  | some f => .ok st ⟨f, 0⟩
  | none =>
    let r := registerGlobalInit st
    .ok { r.1 with
        tempglobalfakeinitfunc := some r.2,
        globalinit_func_index := r.2 } ⟨r.2, 0⟩

/-- The function `get_assign_lvalue_storage` on an assignment node: the
storage reference of the assignment target, `none` when the target has
none. -/
def get_assign_lvalue_storage : Expr → Gen (Option StorageRef)
  | .assign _ _ lvalue _ =>
    match lvalue with
    | .binaryop ls .ATTRIBUTEBYIDENTIFIER _ value2 =>
      if value2.storage.set then Gen.pure (some value2.storage.ref)
      else if ls.set then Gen.pure (some ls.ref)
      else Gen.pure none
    | .binaryop ls .INDEXBYEXPR _ _ =>
      if ls.set then Gen.pure (some ls.ref) else Gen.pure none
    | other =>
      if other.storage.set then Gen.pure (some other.storage.ref)
      else Gen.abort
  | _ => Gen.abort

/-- The operands of a binary or unary operator node. -/
def Expr.operands : Expr → Option (Expr × Option Expr)
  | .binaryop _ _ value1 value2 => some (value1, some value2)
  | .unaryop _ _ value1 => some (value1, none)
  | _ => none

/-- The storage mandated by the parent in `new1linetemp`: `inl slot` when
the function returns right away (parent is a variable definition stored in a
stack slot), else `inr parent_store`. -/
def parentStore (ctx : Ctx) : Gen (Int ⊕ Option StorageRef) :=
  match ctx.parent with
  | some (.assign s .ASSIGN lvalue rvalue) => do
    let r ← get_assign_lvalue_storage (.assign s .ASSIGN lvalue rvalue)
    pure (.inr r)
  | some (.vardef s _) =>
    if !s.set then Gen.abort
    else if s.ref.type = .STACKSLOT then Gen.pure (.inl s.ref.id)
    else Gen.pure (.inr none)
  | _ => Gen.pure (.inr none)

/-- The function `new1linetemp(func, expr, ismainitem)` for the node `expr`
with parent chain `ctx`. -/
def new1linetemp (func : FuncRef) (expr : Expr) (ctx : Ctx)
    (ismainitem : Bool) : Gen Int := do
  if ismainitem then
    match ← parentStore ctx with
    | .inl slot => pure slot
    | .inr parent_store =>
      match parent_store with
      | some ⟨.STACKSLOT, id⟩ => pure id
      | _ =>
        match expr.operands with
        | some (value1, value2) => do
          let si ← storageOf func
          if value1.eval_temp_id ≥ si.lowest_guaranteed_free_temp then
            pure value1.eval_temp_id
          else
            match value2 with
            | some v2 =>
              if v2.eval_temp_id ≥ si.lowest_guaranteed_free_temp then
                pure v2.eval_temp_id
              else newtemp func true
            | none => newtemp func true
        | none => newtemp func true
  else newtemp func true

/-! The callback `_codegencallback_DoCodegen_visit_out`. -/

/-- The value of a pointer the code dereferences: a null pointer ends the
run. -/
def Gen.ofOption {α : Type} : Option α → Gen α
  | some a => Gen.pure a
  | none => Gen.abort

/-- The exit `rinfo->hadoutofmemory = 1; return 0;`. -/
def Gen.oom {α : Type} : Gen α := fun st =>
  .fail { st with hadoutofmemory := true }

/-- Add a diagnostic to `rinfo->ast->resultmsg`. -/
def addAstMessage (t : MsgType) (text : String) : Gen Unit :=
  Gen.modify (fun st =>
    { st with astresultmsg := result_AddMessage st.astresultmsg t text })

/-- The function `codegen_CalculateFinalFuncStack`: on a function definition
statement, raise `lowest_guaranteed_free_temp` by `max_extra_stack` and
derive the stack sizes of the function from it. -/
def codegen_CalculateFinalFuncStack : Expr → Gen Unit
  | .funcdef _ id _ _ => fun st =>
    if id < 0 then .assertFailed
    else
      match st.func[id.toNat]? with
      | none => .assertFailed
      | some f =>
        let si := f.storageinfo
        let lowest := si.lowest_guaranteed_free_temp + si.max_extra_stack
        let self_arg : Int := if f.has_self_arg then 1 else 0
        let closure_bound_count := si.closureboundvars_count
        let stack_temporaries_count :=
          lowest - closure_bound_count - f.arg_count - self_arg
        let f1 := { f with
          storageinfo := { si with lowest_guaranteed_free_temp := lowest },
          closure_bound_count := closure_bound_count,
          stack_temporaries_count := stack_temporaries_count,
          inner_stack_size := stack_temporaries_count,
          input_stack_size := closure_bound_count + f.arg_count + self_arg }
        .ok { st with func := st.func.set id.toNat f1 } ()
  | _ => Gen.pure ()

/-- The determination of `func` at the start of visit_out: the surrounding
function, else the synthetic init function of the surrounding class or of
the global scope (`none` where the code leaves `func` null). -/
def visitOutFunc (env : Env) (expr : Expr) (ctx : Ctx) :
    Gen (Option FuncRef) :=
  match surroundingfunc ctx with
  | some f => Gen.pure f.funcRef
  | none =>
    match surroundingclass false ctx with
    | some sclass =>
      if expr.isFuncdefStmt then Gen.pure none
      else do
        let classidx ← Gen.ofOption sclass.classId
        let c ← Gen.ofOption (classInfo env classidx)
        if c.varattr_count = 0 then pure none
        else
          match expr with
          | .vardef _ none => pure none
          | .vardef _ (some (.literal _ .none)) => pure none
          | _ => do
            let f ← _fakeclassinitfunc env classidx
            pure (some f)
    | none => do
      let f ← _fakeglobalinitfunc
      pure (some f)

/-- The emission loop of the list and set constructors: one call of `add`
per entry. -/
def emitAddCalls (func : FuncRef) (argsfloor addfunctemp : Int) :
    List Expr → Gen Unit
  | [] => Gen.pure ()
  | entry :: rest => do
    let item_slot := entry.eval_temp_id
    Gen.assert (decide (0 ≤ item_slot))
    emit func (.valuecopy argsfloor item_slot)
    emit func (.callsettop (argsfloor + 1))
    emit func (.call argsfloor addfunctemp 1 0 0)
    emitAddCalls func argsfloor addfunctemp rest

/-- Intern the attribute name `name` (lookup with `addifnotpresent`). -/
def internAttributeName (name : String) : Gen Int := fun st =>
  let r := attributeNameIdAdd st.global_member_name name
  .ok { st with global_member_name := r.1 } r.2

/-- The branch of visit_out for list and set constructors; the value is
the new `eval_temp_id` of the node. -/
def visitOutListSet (func : FuncRef) (expr : Expr) (ctx : Ctx)
    (isset : Bool) (entry : List Expr) : Gen Int := do
  let listtmp ← new1linetemp func expr ctx true
  if listtmp < 0 then Gen.oom
  else do
    emit func (if isset then .newset listtmp else .newlist listtmp)
    let add_name_idx ← internAttributeName "add"
    if 0 < entry.length then do
      let addfunctemp ← new1linetemp func expr ctx false
      let si ← storageOf func
      Gen.assert (decide (addfunctemp ≥ si.lowest_guaranteed_free_temp))
      emit func (.getattributebyname addfunctemp listtmp add_name_idx)
      let si1 ← storageOf func
      let argsfloor := funccurrentstacktop si1
      emitAddCalls func argsfloor addfunctemp entry
      let si2 ← storageOf func
      setStorageOf func (raiseMaxExtraStack si2
        ((argsfloor + 1) - si2.lowest_guaranteed_free_temp))
      pure listtmp
    else pure listtmp

/-- The emission loop of the map and vector constructors: `key_slot` is the
slot of the entry's key for a map and `keytmp` for a vector (whose entries
have no key node). -/
def emitIndexSets (func : FuncRef) (vectortmp keytmp : Int) :
    List (Option Expr × Expr) → Gen Unit
  | [] => Gen.pure ()
  | (key, value) :: rest => do
    let item_slot := value.eval_temp_id
    Gen.assert (decide (0 ≤ item_slot))
    let key_slot := match key with
      | some k => k.eval_temp_id
      | none => keytmp
    Gen.assert (decide (0 ≤ key_slot))
    emit func (.setbyindexexpr vectortmp key_slot item_slot)
    emitIndexSets func vectortmp keytmp rest

/-- The branch of visit_out for map and vector constructors, on the entries
of the node (key and value for a map, value only for a vector). -/
def visitOutVectorMap (func : FuncRef) (expr : Expr) (ctx : Ctx)
    (ismap : Bool) (entry : List (Option Expr × Expr)) : Gen Int := do
  let vectortmp ← new1linetemp func expr ctx true
  if vectortmp < 0 then Gen.oom
  else do
    emit func (if ismap then .newmap vectortmp else .newvector vectortmp)
    if ismap then do
      let keytmp ← new1linetemp func expr ctx false
      if keytmp < 0 then Gen.oom
      else do
        emitIndexSets func vectortmp keytmp entry
        pure vectortmp
    else do
      emitIndexSets func vectortmp (-1) entry
      pure vectortmp
/-- The value of `strlen` on a byte buffer: the number of bytes before the
first zero byte. -/
def cStrlen : List Nat → Nat
  | [] => 0
  | b :: rest => if b = 0 then 0 else cStrlen rest + 1

/-- The content written by visit_out for a literal: `inl` a message when
the branch leaves with a diagnostic instead. -/
def literalContent (env : Env) : Literal → String ⊕ ValueContent
  | .int v => .inr (.int v)
  | .float v => .inr (.float v)
  | .bool v => .inr (.bool v)
  | .none => .inr .none
  | .bytes str_value len =>
    if cStrlen str_value < env.VALUECONTENT_SHORTBYTESLEN then
      .inr (.shortbytes len (str_value.take len))
    else .inr (.constpreallocbytes len (str_value.take len))
  | .string str_value len =>
    match env.utf8_to_utf32 (str_value.take len) with
    | none =>
      .inl "internal error: utf8 to utf32 conversion unexpectedly failed"
    | some result =>
      if result.length ≤ env.VALUECONTENT_SHORTSTRLEN then
        .inr (.shortstr result)
      else .inr (.constpreallocstr result)
  | .other => .inl "internal error: unhandled literal type"

/-- The branch of visit_out for literals; `none` when `eval_temp_id` is
left untouched. -/
def visitOutLiteral (env : Env) (func : FuncRef) (expr : Expr) (ctx : Ctx)
    (lit : Literal) : Gen (Option Int) := do
  let temp ← new1linetemp func expr ctx true
  if temp < 0 then Gen.oom
  else
    match literalContent env lit with
    | .inl msg => do
      addAstMessage .error msg
      pure none
    | .inr content => do
      emit func (.setconst temp content)
      pure (some temp)

/-- Whether the node is the target of its parent assignment
(`parent->assignstmt.lvalue == expr`). -/
def isAssignTarget : Ctx → Bool
  | (parent, .lvalue) :: _ => parent.isAssign
  | _ => false

/-- Whether the node is the right operand of a parent attribute access
(`parent->op.value2 == expr` with `H64OP_ATTRIBUTEBYIDENTIFIER`). -/
def isAttributeName : Ctx → Bool
  | (.binaryop _ .ATTRIBUTEBYIDENTIFIER _ _, .value2) :: _ => true
  | _ => false

/-- The message constant of the hard-coded attribute error. -/
def attributeErrorMsg : ValueContent :=
  .constpreallocstr (asciiToUtf32 "given attribute not present on this value")

/-- The name carried by an identifier node. -/
def Expr.identifierName : Expr → Option String
  | .identifierref _ value _ => some value
  | _ => none

/-- The branch of visit_out for an attribute access that is evaluated at
run time (not an assignment target, right operand unresolved). -/
def visitOutGetAttribute (env : Env) (func : FuncRef) (expr : Expr)
    (ctx : Ctx) (value1 value2 : Expr) : Gen (Option Int) :=
  if is_in_extends_arg ctx then Gen.pure none
  else do
    let name ← Gen.ofOption value2.identifierName
    let st ← Gen.get
    let idx := attributeNameId st.global_member_name name
    let temp ← new1linetemp func expr ctx true
    if temp < 0 then Gen.oom
    else if idx < 0 then do
      let temp2 ← new1linetemp func expr ctx false
      emit func (.setconst temp2 attributeErrorMsg)
      emit func (.raise env.H64STDERROR_ATTRIBUTEERROR temp2)
      pure (some temp)
    else do
      emit func (.getattributebyname temp value1.eval_temp_id idx)
      pure (some temp)

/-- The branch of visit_out for the other binary operators. -/
def visitOutBinop (env : Env) (func : Option FuncRef) (expr : Expr)
    (ctx : Ctx) (s : Storage) (optype : H64Op) (value1 value2 : Expr) :
    Gen (Option Int × Bool) :=
  match optype with
  | .ATTRIBUTEBYIDENTIFIER =>
    let preresolved := s.set && decide (s.eval_temp_id < 0) &&
      (!value1.storage.set ||
        decide (value1.storage.ref.type ≠ .STACKSLOT)) &&
      decide (0 ≤ value2.eval_temp_id)
    let temp := if preresolved then value2.eval_temp_id else s.eval_temp_id
    if (s.set && decide (0 ≤ temp)) || isAssignTarget ctx then
      Gen.pure (if preresolved then some temp else none, false)
    else Gen.abort
  | .BOOLCOND_AND => Gen.pure (none, false)
  | .BOOLCOND_OR => Gen.pure (none, false)
  | _ =>
    if decide (optype = .INDEXBYEXPR) && isAssignTarget ctx then
      Gen.pure (none, false)
    else do
      let f ← Gen.ofOption func
      let temp ← new1linetemp f expr ctx true
      if temp < 0 then Gen.oom
      else do
        Gen.assert (decide (0 ≤ value1.eval_temp_id))
        Gen.assert (decide (0 ≤ value2.eval_temp_id))
        emit f (.binop (env.opcode optype) temp value1.eval_temp_id
          value2.eval_temp_id)
        pure (some temp, true)

/-- The branch of visit_out for unary operators other than `new`. -/
def visitOutUnop (env : Env) (func : FuncRef) (expr : Expr) (ctx : Ctx)
    (optype : H64Op) (value1 : Expr) : Gen (Option Int) := do
  let temp ← new1linetemp func expr ctx true
  if temp < 0 then Gen.oom
  else do
    emit func (.unop (env.opcode optype) temp value1.eval_temp_id)
    pure (some temp)

/-- Whether a called value is the builtin `has_attr`. -/
def isHasAttrRef (env : Env) : Expr → Bool
  | .identifierref s _ _ =>
    s.set && decide (s.ref.type = .GLOBALFUNCSLOT) &&
      decide (s.ref.id = env.has_attr_func_idx)
  | _ => false

/-- The call `_codegen_call_to(rinfo, func, callexpr, ...)` for a function
reference. -/
def callTo (env : Env) (itemsort : List KwArgSortInfo → List KwArgSortInfo)
    (func : FuncRef) (arguments : List (Option String × Expr))
    (expand_last_posarg is_async : Bool)
    (calledexprstoragetemp resulttemp : Int) (ignoreifnone : Bool) :
    Gen (Option Int) := fun st =>
  if func.bytecode_func_id < 0 then .assertFailed
  else _codegen_call_to env itemsort func.bytecode_func_id.toNat arguments
    expand_last_posarg is_async calledexprstoragetemp resulttemp
    ignoreifnone st

/-- The branch of visit_out for calls. -/
def visitOutCall (env : Env)
    (itemsort : List KwArgSortInfo → List KwArgSortInfo) (func : FuncRef)
    (expr : Expr) (ctx : Ctx) (value : Expr)
    (arguments : List (Option String × Expr))
    (expand_last_posarg is_async : Bool) : Gen (Option Int) :=
  if isHasAttrRef env value then Gen.pure none
  else do
    let calledexprstoragetemp := value.eval_temp_id
    let temp ← new1linetemp func expr ctx true
    if temp < 0 then Gen.oom
    else do
      let _ ← callTo env itemsort func arguments expand_last_posarg is_async
        calledexprstoragetemp temp false
      pure (some temp)
/-- The early exits of visit_out for an identifier: the node is assigned
to, is the unresolved name of a run-time attribute access, or refers to an
import.  Reading `expr->parent->parent` of a node without grandparent ends
the run. -/
def identifierSkipped (s : Storage) (resolved_to_import : Bool)
    (ctx : Ctx) : Gen Bool :=
  if is_in_extends_arg ctx then Gen.pure true
  else if isAssignTarget ctx then Gen.pure true
  else if isAttributeName ctx && !s.set then
    match ctx with
    | _ :: [] => Gen.abort
    | _ => Gen.pure true
  else Gen.pure resolved_to_import

/-- The part of visit_out shared by identifiers and with-clauses: fetch the
value named by the storage reference of the node. -/
def visitOutStorageRef (func : Option FuncRef) (expr : Expr) (ctx : Ctx)
    (s : Storage) : Gen (Option Int × Bool) :=
  if !s.set then Gen.abort
  else if s.ref.type = .STACKSLOT then Gen.pure (some s.ref.id, true)
  else do
    let f ← Gen.ofOption func
    let temp ← new1linetemp f expr ctx true
    if temp < 0 then Gen.oom
    else
      match s.ref.type with
      | .GLOBALVARSLOT => do
        emit f (.getglobal temp s.ref.id)
        pure (some temp, true)
      | .GLOBALFUNCSLOT => do
        Gen.assert (decide (0 ≤ s.ref.id))
        emit f (.getfunc temp s.ref.id)
        pure (some temp, true)
      | .GLOBALCLASSSLOT => do
        emit f (.getclass temp s.ref.id)
        pure (some temp, true)
      | _ => do
        addAstMessage .error "internal error: unhandled storage type"
        pure (some temp, false)

/-- The branch of visit_out for with-clauses. -/
def visitOutWithClause (func : Option FuncRef) (expr : Expr) (ctx : Ctx)
    (s : Storage) (withitem_value : Option Expr) : Gen (Option Int) := do
  let r ← visitOutStorageRef func expr ctx s
  if r.2 then do
    let item ← Gen.ofOption withitem_value
    let temp := match r.1 with
      | some t => t
      | none => s.eval_temp_id
    if item.eval_temp_id ≠ temp then do
      let f ← Gen.ofOption func
      emit f (.valuecopy temp item.eval_temp_id)
      pure r.1
    else pure r.1
  else pure r.1

/-- The branch of visit_out for return statements. -/
def visitOutReturn (func : Option FuncRef) (expr : Expr) (ctx : Ctx)
    (returned_expression : Option Expr) : Gen Unit := do
  let f ← Gen.ofOption func
  match returned_expression with
  | some r => do
    Gen.assert (decide (0 ≤ r.eval_temp_id))
    emit f (.returnvalue r.eval_temp_id)
  | none => do
    let returntemp ← new1linetemp f expr ctx true
    if returntemp < 0 then Gen.oom
    else do
      emit f (.setconst 0 .none)
      emit f (.returnvalue returntemp)

/-- Modelled from the spec: `operator_AssignOpToMathOp` maps a compound
assignment operator to the arithmetic operator it applies, anything else to
`H64OP_INVALID` (`operator.c` is not in the source tree). -/
def operator_AssignOpToMathOp : H64Op → H64Op
  | .ASSIGNMATH c => .MATH c
  | _ => .INVALID

/-- The exit `errorinvalidassign` of visit_out. -/
def errorInvalidAssign {α : Type} (str : StorageRef) : Gen α := do
  addAstMessage .error
    (match str.type with
      | .GLOBALCLASSSLOT =>
        "unexpected assign to global class definition, can not assign to class"
      | .GLOBALFUNCSLOT =>
        "unexpected assign to global func definition, can not assign to func"
      | _ =>
        "unexpected assign to unassignable item, can not assign to storage type")
  Gen.modify (fun st => { st with hadunexpectederror := true })
  Gen.fail

/-- The hard-coded error emitted for an unknown attribute name in an
assignment target. -/
def emitUnknownAttribute (env : Env) (func : FuncRef) (expr lvalue : Expr)
    (ctx : Ctx) (name : String) : Gen Unit := do
  if !env.guarded_by_is_a_or_has_attr ctx expr then
    addAstMessage .warning
      ("unknown attribute \"" ++ name ++
        "\" will cause AttributeError, put it in if statement with has_attr() or .is_a() if intended for API compat")
  let temp2 ← new1linetemp func lvalue ((expr, Slot.lvalue) :: ctx) false
  emit func (.setconst temp2 attributeErrorMsg)
  emit func (.raise env.H64STDERROR_ATTRIBUTEERROR temp2)

/-- The left and right operand and the operator of a binary operator node
that is the target of a complex assignment. -/
def Expr.complexTarget : Expr → Option (H64Op × Expr × Expr)
  | .binaryop _ op value1 value2 => some (op, value1, value2)
  | _ => none

/-- The part of visit_out that loads the old value for a compound
assignment; the value is `oldvaluetemp`. -/
def loadOldValue (env : Env) (func : FuncRef) (expr lvalue : Expr)
    (ctx : Ctx) (str : StorageRef) (iscomplexassign : Bool) : Gen Int :=
  match str.type with
  | .GLOBALVARSLOT => do
    let oldvaluetemp ← new1linetemp func expr ctx false
    if oldvaluetemp < 0 then Gen.oom
    else do
      emit func (.getglobal oldvaluetemp str.id)
      pure oldvaluetemp
  | .VARATTRSLOT => do
    let oldvaluetemp ← new1linetemp func expr ctx false
    if oldvaluetemp < 0 then Gen.oom
    else do
      Gen.assert (surroundingclass true ctx).isSome
      let si ← storageOf func
      Gen.assert si.closure_with_self
      emit func (.getattributebyidx oldvaluetemp func.arg_count str.id)
      pure oldvaluetemp
  | _ =>
    if !iscomplexassign then
      if str.type ≠ .STACKSLOT then errorInvalidAssign str
      else Gen.pure str.id
    else do
      let oldvaluetemp ← new1linetemp func expr ctx false
      let t ← Gen.ofOption lvalue.complexTarget
      match t.1 with
      | .ATTRIBUTEBYIDENTIFIER => do
        let name ← Gen.ofOption t.2.2.identifierName
        let st ← Gen.get
        let nameid := attributeNameId st.global_member_name name
        if 0 ≤ nameid then do
          emit func (.getattributebyname oldvaluetemp t.2.1.eval_temp_id
            nameid)
          pure oldvaluetemp
        else do
          emitUnknownAttribute env func expr lvalue ctx name
          pure oldvaluetemp
      | .INDEXBYEXPR => do
        emit func (.binop (env.opcode .INDEXBYEXPR) oldvaluetemp
          t.2.1.eval_temp_id t.2.2.eval_temp_id)
        pure oldvaluetemp
      | _ => Gen.abort
/-- The part of visit_out that stores the assigned value `assignfromtemporary`
in the target `str` of a variable definition or assignment. -/
def storeAssigned (env : Env) (func : FuncRef) (expr : Expr) (ctx : Ctx)
    (str : StorageRef) (assignfromtemporary complexsetter_tmp : Int)
    (lvalue : Option Expr) : Gen Unit := do
  Gen.assert (decide (0 ≤ assignfromtemporary))
  match str.type with
  | .GLOBALVARSLOT => emit func (.setglobal str.id assignfromtemporary)
  | .VARATTRSLOT => do
    Gen.assert (surroundingclass true ctx).isSome
    let si ← storageOf func
    Gen.assert si.closure_with_self
    emit func (.setbyattributeidx func.arg_count str.id assignfromtemporary)
  | .STACKSLOT =>
    if 0 ≤ complexsetter_tmp then do
      let lv ← Gen.ofOption lvalue
      let t ← Gen.ofOption lv.complexTarget
      match t.1 with
      | .ATTRIBUTEBYIDENTIFIER => do
        Gen.assert (decide (0 ≤ t.2.1.eval_temp_id))
        Gen.assert (decide (t.2.2.eval_temp_id < 0))
        let name ← Gen.ofOption t.2.2.identifierName
        let st ← Gen.get
        let nameidx := attributeNameId st.global_member_name name
        if nameidx < 0 then emitUnknownAttribute env func expr lv ctx name
        else
          emit func (.setbyattributename t.2.1.eval_temp_id nameidx
            assignfromtemporary)
      | .INDEXBYEXPR => do
        Gen.assert (decide (0 ≤ t.2.1.eval_temp_id))
        Gen.assert (decide (0 ≤ t.2.2.eval_temp_id))
        emit func (.setbyindexexpr t.2.1.eval_temp_id t.2.2.eval_temp_id
          assignfromtemporary)
      | _ => Gen.abort
    else if assignfromtemporary ≠ str.id then
      emit func (.valuecopy str.id assignfromtemporary)
    else pure ()
  | _ => errorInvalidAssign str

/-- The branch of visit_out for a variable definition with storage `s`. -/
def visitOutVardef (env : Env) (func : Option FuncRef) (expr : Expr)
    (ctx : Ctx) (s : Storage) (value : Option Expr) : Gen Unit := do
  let f ← Gen.ofOption func
  Gen.assert s.set
  match value with
  | some v => do
    Gen.assert (decide (0 ≤ v.eval_temp_id))
    storeAssigned env f expr ctx s.ref v.eval_temp_id (-1) none
  | none => do
    let assignfromtemporary ← new1linetemp f expr ctx true
    if assignfromtemporary < 0 then Gen.oom
    else do
      emit f (.setconst assignfromtemporary .none)
      storeAssigned env f expr ctx s.ref assignfromtemporary (-1) none

/-- The branch of visit_out for an assignment. -/
def visitOutAssign (env : Env) (func : Option FuncRef) (expr : Expr)
    (ctx : Ctx) (assignop : H64Op) (lvalue rvalue : Expr) : Gen Unit := do
  let f ← Gen.ofOption func
  let str0 ← get_assign_lvalue_storage expr
  let iscomplexassign := str0.isNone
  let target ← (match str0 with
    | some r => (Gen.pure (r, (-1 : Int)) : Gen (StorageRef × Int))
    | none => do
      Gen.assert (!lvalue.storage.set)
      Gen.assert (decide (lvalue.eval_temp_id < 0))
      let complexsetter_tmp ← new1linetemp f expr ctx false
      if complexsetter_tmp < 0 then Gen.oom
      else pure (⟨.STACKSLOT, complexsetter_tmp⟩, complexsetter_tmp))
  let str := target.1
  let complexsetter_tmp := target.2
  if assignop ≠ .ASSIGN then do
    let oldvaluetemp ← loadOldValue env f expr lvalue ctx str iscomplexassign
    let mathop := operator_AssignOpToMathOp assignop
    Gen.assert (decide (mathop ≠ .INVALID))
    emit f (.binop (env.opcode mathop) oldvaluetemp oldvaluetemp
      rvalue.eval_temp_id)
    storeAssigned env f expr ctx str oldvaluetemp complexsetter_tmp
      (some lvalue)
  else
    storeAssigned env f expr ctx str rvalue.eval_temp_id complexsetter_tmp
      (some lvalue)

/-- The call `free1linetemps(func)` of the callbacks, made when `func` is
not null. -/
def freeLineTemps (func : Option FuncRef) : Gen Unit :=
  match func with
  | none => Gen.pure ()
  | some f => do
    let si ← storageOf f
    setStorageOf f (free1linetemps si)

/-- The node with `eval_temp_id` replaced when the branch set it. -/
def Expr.withEval (expr : Expr) : Option Int → Expr
  | some t => expr.setEvalTemp t
  | none => expr

/-- The entries of a constructor node as read by `visitOutVectorMap`. -/
def mapEntries (entry : List (Expr × Expr)) : List (Option Expr × Expr) :=
  entry.map (fun kv => (some kv.1, kv.2))

def vectorEntries (entry : List Expr) : List (Option Expr × Expr) :=
  entry.map (fun v => (none, v))

/-- The branches of visit_out after `func` is determined, up to the final
`free1linetemps`.  The value is the node with its new `eval_temp_id` and
whether control reaches the end of the function (rather than `return 1`). -/
def visitOutBranch (env : Env)
    (itemsort : List KwArgSortInfo → List KwArgSortInfo)
    (func : Option FuncRef) (expr : Expr) (ctx : Ctx) :
    Gen (Expr × Bool) :=
  match expr with
  | .list _ entry => do
    let f ← Gen.ofOption func
    let t ← visitOutListSet f expr ctx false entry
    pure (expr.setEvalTemp t, true)
  | .set _ entry => do
    let f ← Gen.ofOption func
    let t ← visitOutListSet f expr ctx true entry
    pure (expr.setEvalTemp t, true)
  | .awaitstmt _ awaitedvalue => do
    Gen.assert (decide (0 ≤ awaitedvalue.eval_temp_id))
    let f ← Gen.ofOption func
    emit f (.awaititem awaitedvalue.eval_temp_id)
    pure (expr, true)
  | .vector _ entry => do
    let f ← Gen.ofOption func
    let t ← visitOutVectorMap f expr ctx false (vectorEntries entry)
    pure (expr.setEvalTemp t, true)
  | .map _ entry => do
    let f ← Gen.ofOption func
    let t ← visitOutVectorMap f expr ctx true (mapEntries entry)
    pure (expr.setEvalTemp t, true)
  | .literal _ lit => do
    let f ← Gen.ofOption func
    let t ← visitOutLiteral env f expr ctx lit
    pure (expr.withEval t, t.isSome)
  | .whilestmt .. | .dostmt .. | .funcdef .. | .ifstmt .. | .forstmt ..
  | .withstmt .. | .raisestmt .. | .breakstmt .. | .continuestmt ..
  | .given .. | .unaryop _ .NEW _ => Gen.pure (expr, true)
  | .binaryop s optype value1 value2 =>
    if decide (optype = .ATTRIBUTEBYIDENTIFIER) && !isAssignTarget ctx &&
        !value2.storage.set then
      if is_in_extends_arg ctx then Gen.pure (expr, false)
      else do
        let f ← Gen.ofOption func
        let t ← visitOutGetAttribute env f expr ctx value1 value2
        pure (expr.withEval t, true)
    else do
      let r ← visitOutBinop env func expr ctx s optype value1 value2
      pure (expr.withEval r.1, r.2)
  | .unaryop _ optype value1 => do
    let f ← Gen.ofOption func
    let t ← visitOutUnop env f expr ctx optype value1
    pure (expr.withEval t, true)
  | .call _ value arguments expand_last_posarg is_async =>
    if isHasAttrRef env value then Gen.pure (expr, false)
    else do
      let f ← Gen.ofOption func
      let t ← visitOutCall env itemsort f expr ctx value arguments
        expand_last_posarg is_async
      pure (expr.withEval t, true)
  | .classdef .. | .callstmt .. | .importstmt .. => Gen.pure (expr, true)
  | .identifierref s _ resolved_to_import => do
    let skipped ← identifierSkipped s resolved_to_import ctx
    if skipped then pure (expr, false)
    else do
      let r ← visitOutStorageRef func expr ctx s
      pure (expr.withEval r.1, r.2)
  | .withclause s withitem_value => do
    let t ← visitOutWithClause func expr ctx s withitem_value
    pure (expr.withEval t, true)
  | .vardef s value =>
    let empty := match value with
      | none => true
      | some v => func.isNone && (surroundingclass false ctx).isSome &&
          v.isNoneLiteral
    if empty then Gen.pure (expr, false)
    else do
      visitOutVardef env func expr ctx s value
      pure (expr, true)
  | .returnstmt _ returned_expression => do
    visitOutReturn func expr ctx returned_expression
    pure (expr, true)
  | .assign _ assignop lvalue rvalue => do
    visitOutAssign env func expr ctx assignop lvalue rvalue
    pure (expr, true)
  | .invalid _ | .inlinefuncdef .. => do
    addAstMessage .error "internal error: unhandled expr type"
    pure (expr, false)

/-- The callback `_codegencallback_DoCodegen_visit_out` on a node whose
children carry the results of their own visits. -/
def visit_out (env : Env)
    (itemsort : List KwArgSortInfo → List KwArgSortInfo)
    (expr : Expr) (ctx : Ctx) : Gen Expr := do
  codegen_CalculateFinalFuncStack expr
  let nothing := expr.isNoneLiteral &&
    (match ctx with
      | (parent, _) :: rest =>
        parent.isVardef && (surroundingclass false rest).isSome
      | [] => false)
  if nothing then pure expr
  else do
    let func ← visitOutFunc env expr ctx
    let r ← visitOutBranch env itemsort func expr ctx
    if r.2 && expr.isStmt then do
      freeLineTemps func
      pure r.1
    else pure r.1

/-! The callback `_codegencallback_DoCodegen_visit_in`. -/

/-- The tree walk that the callbacks re-enter for the children they lower
themselves (`ast_VisitExpression` with the two callbacks of the lowerer): from
a node and its parent chain to the node with the results of the visit. -/
abbrev Visitor : Type := Expr → Ctx → Gen Expr

/-- The assignment `rinfo->dont_descend_visitation = b`. -/
def setDescend (b : Bool) : Gen Unit :=
  Gen.modify (fun st => { st with dont_descend_visitation := b })

/-- The pattern `dont_descend_visitation = 0; result =
ast_VisitExpression(child, ...); dont_descend_visitation = 1; if (!result)
return 0;` for a child whose parent chain is `ctx`. -/
def visitChildIn (visit : Visitor) (child : Expr) (ctx : Ctx) : Gen Expr :=
  fun st =>
    match visit child ctx { st with dont_descend_visitation := false } with
    | .ok st1 c => .ok { st1 with dont_descend_visitation := true } c
    | .fail st1 => .fail { st1 with dont_descend_visitation := true }
    | .assertFailed => .assertFailed
    | .outOfFuel => .outOfFuel

/-- The pattern of `visitChildIn` for the child in slot `slot` of `expr`. -/
def visitChild (visit : Visitor) (expr : Expr) (ctx : Ctx) (slot : Slot)
    (child : Expr) : Gen Expr :=
  visitChildIn visit child ((expr, slot) :: ctx)

/-- Visit a list of statements of `expr` in order. -/
def visitStmts (visit : Visitor) (expr : Expr) (ctx : Ctx) :
    List Expr → Gen (List Expr)
  | [] => Gen.pure []
  | stmt :: rest => do
    let s1 ← visitChild visit expr ctx .other stmt
    let r1 ← visitStmts visit expr ctx rest
    pure (s1 :: r1)

/-- The statements `id = jump_targets_used; jump_targets_used++` on the
storage info of `func`. -/
def newJumpId (func : FuncRef) : Gen Int := do
  let si ← storageOf func
  setStorageOf func { si with jump_targets_used := si.jump_targets_used + 1 }
  pure si.jump_targets_used

/-- The determination of `func` at the start of visit_in; the first
component tells that the callback returns 1 right away. -/
def visitInFunc (env : Env) (expr : Expr) (ctx : Ctx) :
    Gen (Bool × Option FuncRef) :=
  match surroundingfunc ctx with
  | some f => Gen.pure (false, f.funcRef)
  | none =>
    if expr.isFuncdefStmt then Gen.pure (false, none)
    else
      match surroundingclass false ctx with
      | some sclass =>
        if !isvardefstmtassignvalue ctx || expr.isNoneLiteral then
          Gen.pure (true, none)
        else do
          let classidx ← Gen.ofOption sclass.classId
          let f ← _fakeclassinitfunc env classidx
          pure (false, some f)
      | none => do
        let f ← _fakeglobalinitfunc
        pure (false, some f)

/-- Enter a loop: push its label ids on the loop stack. -/
def pushLoop (jumpid_start jumpid_end : Int) : Gen Unit :=
  Gen.modify (fun st =>
    { st with loops := st.loops ++ [⟨jumpid_start, jumpid_end⟩] })

/-- Leave a loop (`extra->loop_nesting_depth--`). -/
def popLoop : Gen Unit := fun st =>
  if st.loops.isEmpty then .assertFailed
  else .ok { st with loops := st.loops.dropLast } ()

/-- The innermost open loop (`assert(extra->loop_nesting_depth > 0)`). -/
def currentLoop : Gen LoopIds := fun st =>
  match st.loops.getLast? with
  | some l => .ok st l
  | none => .assertFailed

/-- The branch of visit_in for `while`. -/
def visitInWhile (visit : Visitor) (func : Option FuncRef) (expr : Expr)
    (ctx : Ctx) (s : Storage) (conditional : Expr) (stmt : List Expr) :
    Gen Expr := do
  setDescend true
  let f ← Gen.ofOption func
  let jumpid_start ← newJumpId f
  let jumpid_end ← newJumpId f
  pushLoop jumpid_start jumpid_end
  emit f (.jumptarget jumpid_start)
  let c1 ← visitChild visit expr ctx .other conditional
  emit f (.condjump c1.eval_temp_id jumpid_end)
  let stmt1 ← visitStmts visit expr ctx stmt
  emit f (.jump jumpid_start)
  emit f (.jumptarget jumpid_end)
  setDescend true
  popLoop
  pure (.whilestmt s c1 stmt1)

/-- The branch of visit_in for `break`. -/
def visitInBreak (func : Option FuncRef) : Gen Unit := do
  let l ← currentLoop
  let f ← Gen.ofOption func
  emit f (.jump l.loop_end_jumpid)

/-- The branch of visit_in for `continue`. -/
def visitInContinue (func : Option FuncRef) : Gen Unit := do
  let l ← currentLoop
  let f ← Gen.ofOption func
  emit f (.jump l.loop_start_jumpid)

/-- The branch of visit_in for `and` and `or`. -/
def visitInBoolCond (env : Env) (visit : Visitor) (func : Option FuncRef)
    (expr : Expr) (ctx : Ctx) (s : Storage) (optype : H64Op)
    (value1 value2 : Expr) : Gen Expr := do
  setDescend true
  let f ← Gen.ofOption func
  let target_tmp ← new1linetemp f expr ctx true
  let jumpid_regulareval ← newJumpId f
  let jumpid_pasteval ← newJumpId f
  let v1 ← visitChild visit expr ctx .value1 value1
  let arg1tmp := v1.eval_temp_id
  Gen.assert (decide (0 ≤ arg1tmp))
  if optype = .BOOLCOND_AND then do
    emit f (.condjumpex (0 ||| env.CONDJUMPEX_FLAG_JUMPONTRUE) arg1tmp
      jumpid_regulareval)
    emit f (.setconst target_tmp (.bool 0))
    emit f (.jump jumpid_pasteval)
  else do
    Gen.assert (decide (optype = .BOOLCOND_OR))
    emit f (.condjumpex 0 arg1tmp jumpid_regulareval)
    emit f (.setconst target_tmp (.bool 1))
    emit f (.jump jumpid_pasteval)
  emit f (.jumptarget jumpid_regulareval)
  let v2 ← visitChild visit expr ctx .value2 value2
  emit f (.binop (env.opcode optype) target_tmp arg1tmp v2.eval_temp_id)
  emit f (.jumptarget jumpid_pasteval)
  setDescend true
  pure (.binaryop { s with eval_temp_id := target_tmp } optype v1 v2)
/-- The parts of a raise statement that visit_in reads when the raised
expression is `new C(arg)`: the storage of the `new` node, the call node
and its fields. -/
def Expr.raisedCall : Expr → Option (Storage × Storage × Expr ×
    List (Option String × Expr) × Bool × Bool)
  | .unaryop ns .NEW (.call cs value arguments expand is_async) =>
    some (ns, cs, value, arguments, expand, is_async)
  | _ => none

/-- Add a diagnostic to the project-wide result `rinfo->pr->resultmsg`. -/
def addProjectMessage (t : MsgType) (text : String) : Gen Unit :=
  Gen.modify (fun st =>
    { st with resultmsg := result_AddMessage st.resultmsg t text })

/-- The exit `rinfo->hadunexpectederror = 1; return 0;`. -/
def Gen.unexpected {α : Type} : Gen α := fun st =>
  .fail { st with hadunexpectederror := true }

/-- The branch of visit_in for `raise`. -/
def visitInRaise (visit : Visitor) (func : Option FuncRef) (expr : Expr)
    (ctx : Ctx) (s : Storage) (raised_expression : Expr) : Gen Expr := do
  setDescend true
  match raised_expression.raisedCall with
  | none => do
    addProjectMessage .error
      "unexpected raised expression, expected a 'new' instantiation of an error class"
    Gen.unexpected
  | some (ns, cs, value, arguments, expand, is_async) =>
    match arguments with
    | [(none, arg)] => do
      let known := value.storage.set &&
        decide (value.storage.ref.type = .GLOBALCLASSSLOT)
      let error_class_id : Int :=
        if known then value.storage.ref.id else -1
      Gen.assert (!known || decide (0 ≤ error_class_id))
      let callnode := Expr.call cs value arguments expand is_async
      let chain : Ctx :=
        (callnode, .other) :: (raised_expression, .value1) ::
          (expr, .other) :: ctx
      setDescend false
      let value1 ← (if error_class_id < 0 then visitChildIn visit value chain
        else do
          setDescend true
          pure value)
      let arg1 ← visitChildIn visit arg chain
      let error_instance_tmp : Int :=
        if error_class_id < 0 then value1.eval_temp_id else -1
      let str_arg_tmp := arg1.eval_temp_id
      let st ← Gen.get
      if (error_instance_tmp < 0 && error_class_id < 0) ||
          str_arg_tmp < 0 then do
        Gen.assert (st.hadunexpectederror || st.hadoutofmemory)
        Gen.fail
      else do
        let f ← Gen.ofOption func
        if error_class_id < 0 then
          emit f (.raisebyref error_instance_tmp str_arg_tmp)
        else emit f (.raise error_class_id str_arg_tmp)
        freeLineTemps func
        setDescend true
        pure (.raisestmt s
          (.unaryop ns .NEW (.call cs value1 [(none, arg1)] expand is_async)))
    | _ => do
      addProjectMessage .error
        "unexpected number of arguments to error object, expected single positional argument"
      Gen.unexpected

/-- The loop of visit_in over the arguments of a function definition from
argument `argtmp` on: the code that fills in the default of a keyword
argument left unspecified by the caller. -/
def visitKwDefaults (env : Env) (visit : Visitor) (self : FuncRef)
    (expr : Expr) (ctx : Ctx) :
    List (Option Expr) → Int → Gen (List (Option Expr))
  | [], _ => Gen.pure []
  | none :: rest, argtmp => do
    let r ← visitKwDefaults env visit self expr ctx rest (argtmp + 1)
    pure (none :: r)
  | some value :: rest, argtmp => do
    Gen.assert (match rest with
      | none :: _ => false
      | _ => true)
    let jump_past_id ← newJumpId self
    let operand2tmp ← newtemp self true
    if operand2tmp < 0 then Gen.oom
    else do
      emit self (.setconst operand2tmp .unspecified_kwarg)
      emit self (.binop (env.opcode .CMP_EQUAL) operand2tmp argtmp
        operand2tmp)
      emit self (.condjump operand2tmp jump_past_id)
      freeLineTemps (some self)
      let v1 ← visitChild visit expr ctx .other value
      Gen.assert (decide (0 ≤ v1.eval_temp_id))
      if v1.eval_temp_id ≠ argtmp then
        emit self (.valuecopy argtmp v1.eval_temp_id)
      freeLineTemps (some self)
      emit self (.jumptarget jump_past_id)
      let r ← visitKwDefaults env visit self expr ctx rest (argtmp + 1)
      pure (some v1 :: r)

/-- The loop of visit_in over a statement list in which `free1linetemps` of
the function `self` follows every statement (function bodies, `with`
bodies). -/
def visitStmtsFreeing (visit : Visitor) (self : FuncRef) (expr : Expr)
    (ctx : Ctx) : List Expr → Gen (List Expr)
  | [] => Gen.pure []
  | stmt :: rest => do
    let s1 ← visitChild visit expr ctx .other stmt
    freeLineTemps (some self)
    let r1 ← visitStmtsFreeing visit self expr ctx rest
    pure (s1 :: r1)

/-- The branch of visit_in for a function definition statement: the code
is generated into the function `expr` itself. -/
def visitInFuncdef (env : Env) (visit : Visitor) (expr : Expr) (ctx : Ctx)
    (s : Storage) (bytecode_func_id : Int) (arg_value : List (Option Expr))
    (stmt : List Expr) : Gen Expr := do
  setDescend true
  let self : FuncRef := ⟨bytecode_func_id, (arg_value.length : Int)⟩
  let args1 ← visitKwDefaults env visit self expr ctx arg_value 0
  freeLineTemps (some self)
  let stmt1 ← visitStmtsFreeing visit self expr ctx stmt
  freeLineTemps (some self)
  setDescend true
  pure (.funcdef s bytecode_func_id args1 stmt1)
/-- Visit the arguments of a call node one by one, each with parent chain
`chain`. -/
def visitArgs (visit : Visitor) (chain : Ctx) :
    List (Option String × Expr) → Gen (List (Option String × Expr))
  | [] => Gen.pure []
  | (name, arg) :: rest => do
    let a1 ← visitChildIn visit arg chain
    let r1 ← visitArgs visit chain rest
    pure ((name, a1) :: r1)

/-- The branch of visit_in for `new`: the operand must be a call node (with
storage `cs`), whose arguments and, where the class is not known from the
storage of the called value, called value are lowered here. -/
def visitInNew (env : Env)
    (itemsort : List KwArgSortInfo → List KwArgSortInfo) (visit : Visitor)
    (func : Option FuncRef) (expr : Expr) (ctx : Ctx) (s : Storage)
    (value1 : Expr) : Gen Expr := do
  setDescend true
  match value1 with
  | .call cs value arguments expand is_async => do
    let chain : Ctx := (value1, .other) :: (expr, .value1) :: ctx
    let args1 ← visitArgs visit chain arguments
    let f ← Gen.ofOption func
    let r ← (if !value.isIdentifierref || value.storage.set ||
        decide (value.storage.ref.type ≠ .GLOBALCLASSSLOT) then do
        let v1 ← visitChildIn visit value chain
        if v1.eval_temp_id < 0 then Gen.oom
        else do
          let si ← storageOf f
          let objslot ← (if v1.eval_temp_id <
              si.lowest_guaranteed_free_temp then do
              let t ← new1linetemp f expr ctx false
              let si1 ← storageOf f
              Gen.assert (decide (t ≥ si1.lowest_guaranteed_free_temp))
              pure t
            else pure v1.eval_temp_id)
          emit f (.newinstancebyref objslot v1.eval_temp_id)
          pure (v1, objslot)
      else do
        let objslot ← new1linetemp f expr ctx false
        if objslot < 0 then Gen.oom
        else do
          let si ← storageOf f
          Gen.assert (decide (objslot ≥ si.lowest_guaranteed_free_temp))
          emit f (.newinstance objslot value.storage.ref.id)
          pure (value, objslot))
    let v1 := r.1
    let objslot := r.2
    let temp ← new1linetemp f expr ctx false
    if temp < 0 then Gen.oom
    else do
      emit f (.getconstructor temp objslot)
      let called ← callTo env itemsort f args1 expand is_async temp temp true
      let call1 := (Expr.call cs v1 args1 expand is_async).withEval called
      let resulttemp ← new1linetemp f
        (.unaryop s .NEW call1) ctx true
      if resulttemp < 0 then Gen.oom
      else do
        if objslot ≠ resulttemp then
          emit f (.valuecopy resulttemp objslot)
        setDescend true
        pure (.unaryop { s with eval_temp_id := resulttemp } .NEW call1)
  | _ => Gen.abort
/-- The function `_enforce_dostmt_limit_in_func`. -/
def _enforce_dostmt_limit_in_func (func : FuncRef) : Gen Unit := do
  let si ← storageOf func
  if si.dostmts_used + 1 ≥ 32767 - 1 then do
    Gen.modify (fun st => { st with hadunexpectederror := true })
    addProjectMessage .error
      "exceeded maximum of do or with statements in one function"
    Gen.fail
  else pure ()

/-- The statements `int16_t id = dostmts_used; dostmts_used++`. -/
def newDoStmtId (func : FuncRef) : Gen Int := do
  let si ← storageOf func
  setStorageOf func { si with dostmts_used := si.dostmts_used + 1 }
  pure (wrapInt16 si.dostmts_used)

/-- The first loop of the `with` branch: set the slot of every with-clause
to none. -/
def withSetNone (func : FuncRef) : List Expr → Gen Unit
  | [] => Gen.pure ()
  | clause :: rest => do
    let cs := clause.storage
    Gen.assert (decide (0 ≤ cs.eval_temp_id) ||
      (cs.set && decide (cs.ref.type = .STACKSLOT)))
    emit func (.setconst
      (if 0 ≤ cs.eval_temp_id then cs.eval_temp_id else cs.ref.id) .none)
    withSetNone func rest

/-- The loop of the `with` branch that emits, per with-clause, the guarded
call of `.close()`, wrapped in a rescue frame for every clause but the
last.  The value lists the frame ids of the wrapped clauses in order. -/
def withCloseCalls (env : Env) (func : FuncRef) :
    List Expr → Gen (List Int)
  | [] => Gen.pure []
  | clause :: rest => do
    let gotfinally := !rest.isEmpty
    let frame ← (if gotfinally then do
        _enforce_dostmt_limit_in_func func
        let rescueframeid ← newDoStmtId func
        let jumpfinallyid ← newJumpId func
        emit func (.pushrescueframe (-1) (-1) jumpfinallyid
          RESCUEMODE_JUMPONFINALLY rescueframeid)
        emit func (.addrescuetype rescueframeid env.H64STDERROR_ERROR)
        pure (some (rescueframeid, jumpfinallyid))
      else pure none)
    let jump_past_hasattr_id ← newJumpId func
    let st ← Gen.get
    let closeidx := attributeNameId st.global_member_name "close"
    if 0 ≤ closeidx then do
      emit func (.hasattrjump jump_past_hasattr_id closeidx
        clause.eval_temp_id)
      let t ← newtemp func true
      let slotid := wrapInt16 t
      emit func (.getattributebyname slotid clause.eval_temp_id closeidx)
      emit func (.call slotid slotid 0 0 0)
      freeLineTemps (some func)
    else emit func (.jump jump_past_hasattr_id)
    emit func (.jumptarget jump_past_hasattr_id)
    match frame with
    | some (rescueframeid, jumpfinallyid) => do
      emit func (.jumptofinally rescueframeid)
      emit func (.jumptarget jumpfinallyid)
      let r ← withCloseCalls env func rest
      pure (rescueframeid :: r)
    | none => withCloseCalls env func rest

/-- Pop the given rescue frames, last first. -/
def popFramesReversed (func : FuncRef) : List Int → Gen Unit
  | [] => Gen.pure ()
  | frameid :: rest => do
    popFramesReversed func rest
    emit func (.poprescueframe frameid)

/-- The branch of visit_in for `with`. -/
def visitInWith (env : Env) (visit : Visitor) (func : Option FuncRef)
    (expr : Expr) (ctx : Ctx) (s : Storage) (withclause stmt : List Expr) :
    Gen Expr := do
  setDescend true
  let f ← Gen.ofOption func
  let jumpid_finally ← newJumpId f
  Gen.assert (decide (1 ≤ withclause.length))
  withSetNone f withclause
  _enforce_dostmt_limit_in_func f
  let dostmtid ← newDoStmtId f
  emit f (.pushrescueframe (-1) (-1) jumpid_finally RESCUEMODE_JUMPONFINALLY
    dostmtid)
  emit f (.addrescuetype dostmtid env.H64STDERROR_ERROR)
  let clauses1 ← visitStmts visit expr ctx withclause
  let stmt1 ← visitStmtsFreeing visit f expr ctx stmt
  emit f (.jumptofinally dostmtid)
  emit f (.jumptarget jumpid_finally)
  let frames ← withCloseCalls env f clauses1
  popFramesReversed f frames
  emit f (.poprescueframe dostmtid)
  freeLineTemps func
  setDescend true
  pure (.withstmt s clauses1 stmt1)
/-- The loop of the `do` branch over the rescued error types; `reuse` is
`error_reuse_tmp`. -/
def doAddRescueTypes (func : FuncRef) (expr : Expr) (ctx : Ctx)
    (dostmtid : Int) : List Expr → Int → Gen Unit
  | [], _ => Gen.pure ()
  | error :: rest, reuse => do
    let es := error.storage
    Gen.assert es.set
    match es.ref.type with
    | .STACKSLOT => do
      Gen.assert (decide (0 ≤ es.ref.id))
      emit func (.addrescuetypebyref dostmtid es.ref.id)
      doAddRescueTypes func expr ctx dostmtid rest reuse
    | .GLOBALCLASSSLOT => do
      emit func (.addrescuetype dostmtid es.ref.id)
      doAddRescueTypes func expr ctx dostmtid rest reuse
    | .GLOBALVARSLOT => do
      let reuse1 ← (if reuse < 0 then new1linetemp func expr ctx false
        else pure reuse)
      if reuse1 < 0 then Gen.oom
      else do
        emit func (.getglobal reuse1 es.ref.id)
        Gen.assert (decide (0 ≤ reuse1))
        emit func (.addrescuetypebyref dostmtid reuse1)
        doAddRescueTypes func expr ctx dostmtid rest reuse1
    | _ => Gen.abort

/-- The branch of visit_in for `do`. -/
def visitInDo (visit : Visitor) (func : Option FuncRef) (expr : Expr)
    (ctx : Ctx) (s : Storage) (dostmt errors rescuestmt : List Expr)
    (has_finally_block : Bool) (finallystmt : List Expr) : Gen Expr := do
  setDescend true
  let f ← Gen.ofOption func
  let jumpid_end ← newJumpId f
  _enforce_dostmt_limit_in_func f
  let dostmtid ← newDoStmtId f
  let rescue := decide (0 < errors.length)
  Gen.assert (!rescue || !s.set || decide (s.ref.type = .STACKSLOT))
  let sloterrorto : Int := if rescue && s.set then s.ref.id else -1
  let jumpid_catch ← (if rescue then newJumpId f else pure (-1))
  Gen.assert (!rescue || decide (0 ≤ jumpid_catch))
  let jumpid_finally ← (if has_finally_block then newJumpId f else pure (-1))
  let mode : Nat :=
    (0 ||| (if rescue then RESCUEMODE_JUMPONRESCUE else 0)) |||
      (if has_finally_block then RESCUEMODE_JUMPONFINALLY else 0)
  emit f (.pushrescueframe sloterrorto jumpid_catch jumpid_finally mode
    dostmtid)
  doAddRescueTypes f expr ctx dostmtid errors (-1)
  let dostmt1 ← visitStmtsFreeing visit f expr ctx dostmt
  if mode &&& RESCUEMODE_JUMPONFINALLY = 0 then do
    emit f (.poprescueframe dostmtid)
    if mode &&& RESCUEMODE_JUMPONRESCUE ≠ 0 then
      emit f (.jump jumpid_end)
  else emit f (.jumptofinally dostmtid)
  let rescuestmt1 ← (if mode &&& RESCUEMODE_JUMPONRESCUE ≠ 0 then do
      emit f (.jumptarget jumpid_catch)
      let r ← visitStmtsFreeing visit f expr ctx rescuestmt
      if mode &&& RESCUEMODE_JUMPONFINALLY = 0 then
        emit f (.poprescueframe dostmtid)
      else emit f (.jumptofinally dostmtid)
      pure r
    else pure rescuestmt)
  let finallystmt1 ← (if mode &&& RESCUEMODE_JUMPONFINALLY ≠ 0 then do
      emit f (.jumptarget jumpid_finally)
      let r ← visitStmtsFreeing visit f expr ctx finallystmt
      emit f (.poprescueframe dostmtid)
      pure r
    else pure finallystmt)
  emit f (.jumptarget jumpid_end)
  freeLineTemps func
  setDescend true
  pure (.dostmt s dostmt1 errors rescuestmt1 has_finally_block finallystmt1)
/-- The pattern `dont_descend_visitation = 0; result =
ast_VisitExpression(child, ...); if (!result) { hadoutofmemory = 1; return
0; } dont_descend_visitation = 1;` of the `has_attr` and `for` branches. -/
def visitChildOom (visit : Visitor) (child : Expr) (ctx : Ctx) : Gen Expr :=
  fun st =>
    match visit child ctx { st with dont_descend_visitation := false } with
    | .ok st1 c => .ok { st1 with dont_descend_visitation := true } c
    | .fail st1 => .fail { st1 with hadoutofmemory := true }
    | .assertFailed => .assertFailed
    | .outOfFuel => .outOfFuel

/-- The attribute name held by a string literal, read as a C string. -/
def bytesToString (bytes : List Nat) : String :=
  String.mk (bytes.map Char.ofNat)

/-- Lookup of an attribute name that interns the name when `add` is set. -/
def lookupAttributeName (name : String) (add : Bool) : Gen Int :=
  if add then internAttributeName name
  else fun st => .ok st (attributeNameId st.global_member_name name)

/-- The branch of visit_in for a call of the builtin `has_attr`. -/
def visitInHasAttr (env : Env) (visit : Visitor) (func : Option FuncRef)
    (expr : Expr) (ctx : Ctx) (s : Storage) (value : Expr)
    (arguments : List (Option String × Expr)) (expand is_async : Bool) :
    Gen Expr := do
  setDescend true
  let f ← Gen.ofOption func
  let resulttmp ← new1linetemp f expr ctx true
  Gen.assert (decide (0 ≤ resulttmp))
  match arguments with
  | [(none, arg0), (none, arg1)] =>
    match arg1 with
    | .literal _ (.string str_value str_value_len) => do
      let name := bytesToString (str_value.take (cStrlen str_value))
      let nameidx ← (if cStrlen str_value = str_value_len then
          lookupAttributeName name (env.isbuiltinattrname name)
        else pure (-1))
      if nameidx < 0 then do
        emit f (.setconst resulttmp (.bool 0))
        setDescend true
        pure (.call { s with eval_temp_id := resulttmp } value arguments
          expand is_async)
      else do
        let a0 ← visitChildOom visit (arg0.setEvalTemp (-1))
          ((expr, .other) :: ctx)
        if a0.eval_temp_id < 0 then Gen.unexpected
        else do
          Gen.assert (decide (a0.eval_temp_id ≠ resulttmp))
          emit f (.setconst resulttmp (.bool 0))
          let jumpid_pastset ← newJumpId f
          emit f (.hasattrjump jumpid_pastset nameidx a0.eval_temp_id)
          emit f (.setconst resulttmp (.bool 1))
          emit f (.jumptarget jumpid_pastset)
          setDescend true
          pure (.call { s with eval_temp_id := resulttmp } value
            [(none, a0), (none, arg1)] expand is_async)
    | _ => do
      addProjectMessage .error
        "unexpected call to has_attr() with non-trivial attribute argument. must be plain string literal since has_attr() is not a normal function"
      Gen.unexpected
  | _ => do
    addProjectMessage .error
      "unexpected call to has_attr() with not exactly two positional arguments"
    Gen.unexpected

/-- The call `freemultilinetemp(func, temp)`. -/
def freeMultilineTemp (func : FuncRef) (temp : Int) : Gen Unit := do
  let si ← storageOf func
  match freemultilinetemp si temp with
  | some si1 => setStorageOf func si1
  | none => Gen.abort

/-- The branch of visit_in for `for`. -/
def visitInFor (visit : Visitor) (func : Option FuncRef) (expr : Expr)
    (ctx : Ctx) (s : Storage) (iterated_container : Expr)
    (stmt : List Expr) : Gen Expr := do
  setDescend true
  let f ← Gen.ofOption func
  let jumpid_start ← newJumpId f
  let jumpid_end ← newJumpId f
  pushLoop jumpid_start jumpid_end
  let itertemp ← newtemp f false
  if itertemp < 0 then Gen.oom
  else do
    setDescend false
    Gen.assert (decide (iterated_container.eval_temp_id ≤ 0))
    let c1 ← visitChildOom visit (iterated_container.setEvalTemp (-1))
      ((expr, .other) :: ctx)
    Gen.assert (decide (0 ≤ c1.eval_temp_id))
    emit f (.newiterator itertemp c1.eval_temp_id)
    emit f (.jumptarget jumpid_start)
    Gen.assert (s.set && decide (s.ref.type = .STACKSLOT))
    emit f (.iterate s.ref.id itertemp jumpid_end)
    let stmt1 ← visitStmts visit expr ctx stmt
    emit f (.jump jumpid_start)
    emit f (.jumptarget jumpid_end)
    freeMultilineTemp f itertemp
    setDescend true
    popLoop
    freeLineTemps func
    pure (.forstmt s c1 stmt1)

/-- The branch of visit_in for the conditional expression `given`. -/
def visitInGiven (visit : Visitor) (func : Option FuncRef) (expr : Expr)
    (ctx : Ctx) (s : Storage) (condition valueyes valueno : Expr) :
    Gen Expr := do
  setDescend true
  let f ← Gen.ofOption func
  let tmp_result ← new1linetemp f expr ctx true
  let jumpid_false ← newJumpId f
  setDescend true
  let jumpid_end ← newJumpId f
  let c1 ← visitChild visit expr ctx .other condition
  Gen.assert (decide (0 ≤ jumpid_false))
  emit f (.condjump c1.eval_temp_id jumpid_false)
  let y1 ← visitChild visit expr ctx .other valueyes
  if y1.eval_temp_id ≠ tmp_result then
    emit f (.valuecopy tmp_result y1.eval_temp_id)
  emit f (.jump jumpid_end)
  emit f (.jumptarget jumpid_false)
  let n1 ← visitChild visit expr ctx .other valueno
  if n1.eval_temp_id ≠ tmp_result then
    emit f (.valuecopy tmp_result n1.eval_temp_id)
  emit f (.jumptarget jumpid_end)
  setDescend true
  pure (.given { s with eval_temp_id := tmp_result } c1 y1 n1)

/-- The loop of the `if` branch over the clauses: the current clause
(`conditional`, `stmt`) and the clauses that follow it. -/
def visitIfClauses (visit : Visitor) (func : FuncRef) (expr : Expr)
    (ctx : Ctx) (jumpid_end : Int) (conditional : Option Expr)
    (stmt : List Expr) :
    List (Option Expr × List Expr) →
      Gen (Option Expr × List Expr × List (Option Expr × List Expr))
  | [] => do
    let c1 ← (match conditional with
      | some c => do
        let c1 ← visitChild visit expr ctx .other c
        Gen.assert (decide (0 ≤ jumpid_end))
        emit func (.condjump c1.eval_temp_id jumpid_end)
        pure (some c1)
      | none => pure none)
    let stmt1 ← visitStmts visit expr ctx stmt
    emit func (.jumptarget jumpid_end)
    setDescend true
    pure (c1, stmt1, [])
  | (nextcond, nextstmt) :: rest => do
    let jumpid_nextclause ← newJumpId func
    let c1 ← (match conditional with
      | some c => do
        let c1 ← visitChild visit expr ctx .other c
        Gen.assert (decide (0 ≤ jumpid_nextclause))
        emit func (.condjump c1.eval_temp_id jumpid_nextclause)
        pure (some c1)
      | none => pure none)
    let stmt1 ← visitStmts visit expr ctx stmt
    emit func (.jump jumpid_end)
    emit func (.jumptarget jumpid_nextclause)
    setDescend true
    let r ← visitIfClauses visit func expr ctx jumpid_end nextcond nextstmt
      rest
    pure (c1, stmt1, (r.1, r.2.1) :: r.2.2)

/-- The branch of visit_in for `if`. -/
def visitInIf (visit : Visitor) (func : Option FuncRef) (expr : Expr)
    (ctx : Ctx) (s : Storage) (conditional : Option Expr)
    (stmt : List Expr) (followup_clause : List (Option Expr × List Expr)) :
    Gen Expr := do
  setDescend true
  let f ← Gen.ofOption func
  let jumpid_end ← newJumpId f
  Gen.assert conditional.isSome
  let r ← visitIfClauses visit f expr ctx jumpid_end conditional stmt
    followup_clause
  setDescend true
  freeLineTemps func
  pure (.ifstmt s r.1 r.2.1 r.2.2)
/-- The callback `_codegencallback_DoCodegen_visit_in`: the value is the
node with the results of the children lowered here. -/
def visit_in (env : Env)
    (itemsort : List KwArgSortInfo → List KwArgSortInfo) (visit : Visitor)
    (expr : Expr) (ctx : Ctx) : Gen Expr := do
  let r ← visitInFunc env expr ctx
  if r.1 then pure expr
  else do
    let func := r.2
    if expr.isStmt then freeLineTemps func
    match expr with
    | .whilestmt s conditional stmt =>
      visitInWhile visit func expr ctx s conditional stmt
    | .breakstmt _ => do
      visitInBreak func
      pure expr
    | .continuestmt _ => do
      visitInContinue func
      pure expr
    | .binaryop s .BOOLCOND_AND value1 value2 =>
      visitInBoolCond env visit func expr ctx s .BOOLCOND_AND value1 value2
    | .binaryop s .BOOLCOND_OR value1 value2 =>
      visitInBoolCond env visit func expr ctx s .BOOLCOND_OR value1 value2
    | .raisestmt s raised_expression =>
      visitInRaise visit func expr ctx s raised_expression
    | .funcdef s bytecode_func_id arg_value stmt =>
      visitInFuncdef env visit expr ctx s bytecode_func_id arg_value stmt
    | .unaryop s .NEW value1 =>
      visitInNew env itemsort visit func expr ctx s value1
    | .withstmt s withclause stmt =>
      visitInWith env visit func expr ctx s withclause stmt
    | .dostmt s dostmt errors rescuestmt has_finally_block finallystmt =>
      visitInDo visit func expr ctx s dostmt errors rescuestmt
        has_finally_block finallystmt
    | .call s value arguments expand is_async =>
      if isHasAttrRef env value then
        visitInHasAttr env visit func expr ctx s value arguments expand
          is_async
      else pure expr
    | .forstmt s iterated_container stmt =>
      visitInFor visit func expr ctx s iterated_container stmt
    | .given s condition valueyes valueno =>
      visitInGiven visit func expr ctx s condition valueyes valueno
    | .ifstmt s conditional stmt followup_clause =>
      visitInIf visit func expr ctx s conditional stmt followup_clause
    | _ => pure expr

/-- Modelled from the spec: `_asttransform_cancel_visit_descend_callback`
tells the tree walk not to descend when the lowerer has set
`dont_descend_visitation`, and clears the flag (`asttransform.c` is not in
the source tree). -/
def cancelVisitDescend : Gen Bool := fun st =>
  if st.dont_descend_visitation then
    .ok { st with dont_descend_visitation := false } true
  else .ok st false

/-- The call `ast_VisitExpression(child, expr, ...)` of the tree walk for a
child pointer that may be null. -/
def visitOpt (visit : Visitor) (expr : Expr) (ctx : Ctx) (slot : Slot) :
    Option Expr → Gen (Option Expr)
  | none => Gen.pure none
  | some child => do
    let c ← visit child ((expr, slot) :: ctx)
    pure (some c)

/-- The tree walk over a list of children. -/
def visitList (visit : Visitor) (expr : Expr) (ctx : Ctx) :
    List Expr → Gen (List Expr)
  | [] => Gen.pure []
  | child :: rest => do
    let c ← visit child ((expr, .other) :: ctx)
    let r ← visitList visit expr ctx rest
    pure (c :: r)

/-- The tree walk over the default values of the arguments of a function
definition. -/
def visitOptList (visit : Visitor) (expr : Expr) (ctx : Ctx) :
    List (Option Expr) → Gen (List (Option Expr))
  | [] => Gen.pure []
  | child :: rest => do
    let c ← visitOpt visit expr ctx .other child
    let r ← visitOptList visit expr ctx rest
    pure (c :: r)

/-- The tree walk over the arguments of a call. -/
def visitArgList (visit : Visitor) (expr : Expr) (ctx : Ctx) :
    List (Option String × Expr) → Gen (List (Option String × Expr))
  | [] => Gen.pure []
  | (name, arg) :: rest => do
    let a ← visit arg ((expr, .other) :: ctx)
    let r ← visitArgList visit expr ctx rest
    pure ((name, a) :: r)

/-- The tree walk over the entries of a map constructor: key, then value. -/
def visitPairs (visit : Visitor) (expr : Expr) (ctx : Ctx) :
    List (Expr × Expr) → Gen (List (Expr × Expr))
  | [] => Gen.pure []
  | (key, value) :: rest => do
    let k ← visit key ((expr, .other) :: ctx)
    let v ← visit value ((expr, .other) :: ctx)
    let r ← visitPairs visit expr ctx rest
    pure ((k, v) :: r)

/-- The tree walk over the clauses of an `if`: condition, then statements. -/
def visitClauses (visit : Visitor) (expr : Expr) (ctx : Ctx) :
    List (Option Expr × List Expr) → Gen (List (Option Expr × List Expr))
  | [] => Gen.pure []
  | (conditional, stmt) :: rest => do
    let c ← visitOpt visit expr ctx .other conditional
    let s ← visitList visit expr ctx stmt
    let r ← visitClauses visit expr ctx rest
    pure ((c, s) :: r)

/-- The `switch` of `ast_VisitExpression`: visit the children of a node in
the order of its type. -/
def visitChildren (visit : Visitor) (expr : Expr) (ctx : Ctx) : Gen Expr :=
  match expr with
  | .invalid _ | .identifierref .. | .continuestmt _ | .breakstmt _
  | .literal .. | .importstmt _ => Gen.pure expr
  | .vardef s value => do
    let v ← visitOpt visit expr ctx .vardef_value value
    pure (.vardef s v)
  | .funcdef s id arg_value stmt => do
    let a ← visitOptList visit expr ctx arg_value
    let b ← visitList visit expr ctx stmt
    pure (.funcdef s id a b)
  | .inlinefuncdef s id arg_value stmt => do
    let a ← visitOptList visit expr ctx arg_value
    let b ← visitList visit expr ctx stmt
    pure (.inlinefuncdef s id a b)
  | .callstmt s call => do
    let c ← visitOpt visit expr ctx .other call
    pure (.callstmt s c)
  | .classdef s id baseclass_ref vardef funcdef => do
    let b ← visitOpt visit expr ctx .baseclass_ref baseclass_ref
    let v ← visitList visit expr ctx vardef
    let f ← visitList visit expr ctx funcdef
    pure (.classdef s id b v f)
  | .ifstmt s conditional stmt followup_clause => do
    let c ← visitOpt visit expr ctx .other conditional
    let b ← visitList visit expr ctx stmt
    let r ← visitClauses visit expr ctx followup_clause
    pure (.ifstmt s c b r)
  | .whilestmt s conditional stmt => do
    let c ← visit conditional ((expr, .other) :: ctx)
    let b ← visitList visit expr ctx stmt
    pure (.whilestmt s c b)
  | .forstmt s iterated_container stmt => do
    let c ← visit iterated_container ((expr, .other) :: ctx)
    let b ← visitList visit expr ctx stmt
    pure (.forstmt s c b)
  | .raisestmt s raised_expression => do
    let r ← visit raised_expression ((expr, .other) :: ctx)
    pure (.raisestmt s r)
  | .returnstmt s returned_expression => do
    let r ← visitOpt visit expr ctx .other returned_expression
    pure (.returnstmt s r)
  | .dostmt s dostmt errors rescuestmt has_finally_block finallystmt => do
    let a ← visitList visit expr ctx dostmt
    let b ← visitList visit expr ctx errors
    let c ← visitList visit expr ctx rescuestmt
    let d ← visitList visit expr ctx finallystmt
    pure (.dostmt s a b c has_finally_block d)
  | .withstmt s withclause stmt => do
    let a ← visitList visit expr ctx withclause
    let b ← visitList visit expr ctx stmt
    pure (.withstmt s a b)
  | .awaitstmt s awaitedvalue => do
    let a ← visit awaitedvalue ((expr, .other) :: ctx)
    pure (.awaitstmt s a)
  | .assign s assignop lvalue rvalue => do
    let l ← visit lvalue ((expr, .lvalue) :: ctx)
    let r ← visit rvalue ((expr, .rvalue) :: ctx)
    pure (.assign s assignop l r)
  | .binaryop s optype value1 value2 => do
    let a ← visit value1 ((expr, .value1) :: ctx)
    let b ← visit value2 ((expr, .value2) :: ctx)
    pure (.binaryop s optype a b)
  | .unaryop s optype value1 => do
    let a ← visit value1 ((expr, .value1) :: ctx)
    pure (.unaryop s optype a)
  | .call s value arguments expand is_async => do
    let v ← visit value ((expr, .other) :: ctx)
    let a ← visitArgList visit expr ctx arguments
    pure (.call s v a expand is_async)
  | .list s entry => do
    let a ← visitList visit expr ctx entry
    pure (.list s a)
  | .set s entry => do
    let a ← visitList visit expr ctx entry
    pure (.set s a)
  | .map s entry => do
    let a ← visitPairs visit expr ctx entry
    pure (.map s a)
  | .vector s entry => do
    let a ← visitList visit expr ctx entry
    pure (.vector s a)
  | .withclause s withitem_value => do
    let a ← visitOpt visit expr ctx .other withitem_value
    pure (.withclause s a)
  | .given s condition valueyes valueno => do
    let c ← visit condition ((expr, .other) :: ctx)
    let y ← visit valueyes ((expr, .other) :: ctx)
    let n ← visit valueno ((expr, .other) :: ctx)
    pure (.given s c y n)

/-- The function `ast_VisitExpression` with the callbacks of the lowerer,
on a node that is not null; `visit` is the walk it re-enters for the
children. -/
def ast_VisitExpression (env : Env)
    (itemsort : List KwArgSortInfo → List KwArgSortInfo) (visit : Visitor)
    (expr : Expr) (ctx : Ctx) : Gen Expr := do
  let e1 ← visit_in env itemsort visit expr ctx
  let cancel ← cancelVisitDescend
  if cancel then visit_out env itemsort e1 ctx
  else do
    let e2 ← visitChildren visit e1 ctx
    visit_out env itemsort e2 ctx

/-- The tree walk of the lowerer, with a bound `fuel` on the nesting depth
of the tree: `ast_VisitExpression` re-entering itself. -/
def visit (env : Env)
    (itemsort : List KwArgSortInfo → List KwArgSortInfo) : Nat → Visitor
  | 0 => fun _ _ _ => .outOfFuel
  | fuel + 1 => ast_VisitExpression env itemsort (visit env itemsort fuel)

/-- A reference to the local variable `x` held in stack slot 0. -/
def localX : Expr :=
  .identifierref ⟨true, ⟨.STACKSLOT, 0⟩, -1⟩ "x" false

/-- The statement `x = [x, 1]`, `x` a local variable in stack slot 0. -/
def selfListAssign : Expr :=
  .assign ⟨false, ⟨.INVALID, 0⟩, -1⟩ .ASSIGN localX
    (.list ⟨false, ⟨.INVALID, 0⟩, -1⟩
      [localX, .literal ⟨false, ⟨.INVALID, 0⟩, -1⟩ (.int 1)])

/-- A function definition with id 0, no arguments and the single statement
`x = [x, 1]`. -/
def selfListFunc : Expr :=
  .funcdef ⟨true, ⟨.GLOBALFUNCSLOT, 0⟩, -1⟩ 0 [] [selfListAssign]

/-- The state before lowering `selfListFunc`: one function with an empty
buffer whose first free temporary is slot 1 (slot 0 is `x`). -/
def selfListState : GenState :=
  { func := [⟨false, [], 0, 0, false, 0, false, 0, 0,
      ⟨1, [], 0, 0, 0, false, 0⟩⟩],
    global_member_name := ["init", "add"],
    resultmsg := ⟨true, []⟩,
    astresultmsg := ⟨true, []⟩,
    hadoutofmemory := false,
    hadunexpectederror := false,
    dont_descend_visitation := false,
    loops := [],
    tempglobalfakeinitfunc := none,
    tempclassesfakeinitfunc := [],
    globalinit_func_index := -1 }

/-- The node returned by a step of the tree walk. -/
def Res.nodeOf : Res Expr → Option Expr
  | .ok _ e => some e
  | _ => none

/-- The `eval_temp_id` of the entries of the list constructor that is the
right-hand side of the first statement of a function definition. -/
def firstRvalueEntrySlots : Option Expr → List Int
  | some (.funcdef _ _ _ (.assign _ _ _ (.list _ entry) :: _)) =>
    entry.map Expr.eval_temp_id
  | _ => []

/-- The `eval_temp_id` of the right-hand side of the first statement of a
function definition. -/
def firstRvalueSlot : Option Expr → Option Int
  | some (.funcdef _ _ _ (.assign _ _ _ rvalue :: _)) =>
    some rvalue.eval_temp_id
  | _ => none

/-! Sample inputs of the lowerer. -/

/-- The `storage` record of a node the resolver gave no storage. -/
def noStorage : Storage := ⟨false, ⟨.INVALID, 0⟩, -1⟩

/-- The call statement `g()`, `g` the global function 1. -/
def callStmtG : Expr :=
  .callstmt noStorage (some (.call noStorage
    (.identifierref ⟨true, ⟨.GLOBALFUNCSLOT, 1⟩, -1⟩ "g" false) []
    false false))

/-- A function definition with id 0, no arguments and the single statement
`g()`. -/
def callStmtFunc : Expr :=
  .funcdef ⟨true, ⟨.GLOBALFUNCSLOT, 0⟩, -1⟩ 0 [] [callStmtG]

/-- The return slots of the `CALL` records of a buffer, in emission
order. -/
def callReturnSlots : List Inst → List Int
  | [] => []
  | .call returnto _ _ _ _ :: rest => returnto :: callReturnSlots rest
  | _ :: rest => callReturnSlots rest

/-- Whether a step of the lowerer returned 1. -/
def Res.isOk {α : Type} : Res α → Bool
  | .ok _ _ => true
  | _ => false

/-- The state after a step of the lowerer that returned 1 (`st` when it did
not). -/
def Res.stateOf {α : Type} (st : GenState) : Res α → GenState
  | .ok st1 _ => st1
  | _ => st

/-- The value of a step of the lowerer that returned 1 (`a` when it did
not). -/
def Res.valueOf {α : Type} (a : α) : Res α → α
  | .ok _ v => v
  | _ => a

/-- The callee of `g()` after its own visit placed it in slot 7. -/
def calleeG : Expr :=
  .identifierref ⟨true, ⟨.GLOBALFUNCSLOT, 1⟩, 7⟩ "g" false

/-- The call branch of visit_out on the call of the statement `g()`. -/
def callStmtRun : Res (Option Int) :=
  visitOutCall sampleEnv kwInsertionSort ⟨0, 0⟩
    (.call noStorage calleeG [] false false)
    [(.callstmt noStorage none, .other)] calleeG [] false false
    selfListState

/-- A function definition with id 0, no arguments and the single statement
`return`. -/
def returnFunc : Expr :=
  .funcdef ⟨true, ⟨.GLOBALFUNCSLOT, 0⟩, -1⟩ 0 []
    [.returnstmt noStorage none]

/-- The expression `new E("msg")`, `E` resolved to the global class 2. -/
def newE : Expr :=
  .unaryop noStorage .NEW (.call noStorage
    (.identifierref ⟨true, ⟨.GLOBALCLASSSLOT, 2⟩, -1⟩ "E" false)
    [(none, .literal noStorage (.string [109, 115, 103] 3))] false false)

/-- A function definition with id 0, no arguments and the single statement
`var x = new E("msg")`, `x` in stack slot 0. -/
def newFunc : Expr :=
  .funcdef ⟨true, ⟨.GLOBALFUNCSLOT, 0⟩, -1⟩ 0 []
    [.vardef ⟨true, ⟨.STACKSLOT, 0⟩, -1⟩ (some newE)]

/-- The `eval_temp_id` of the value of the variable definition that is the
first statement of a function definition. -/
def firstVardefValueSlot : Option Expr → Option Int
  | some (.funcdef _ _ _ (.vardef _ (some value) :: _)) =>
    some value.eval_temp_id
  | _ => none

/-- The statement `x += 1`, `x` a local variable in stack slot 0. -/
def plusAssign : Expr :=
  .assign noStorage (.ASSIGNMATH 0) localX (.literal noStorage (.int 1))

/-- The call `new1linetemp(func, expr, 1)` for the right-hand side of
`x += 1` in function 0. -/
def plusAssignTemp : Res Int :=
  new1linetemp ⟨0, 0⟩ (.literal noStorage (.int 1))
    [(plusAssign, .rvalue)] true selfListState

/-- The synthetic function definition node (`$$globalinit`, `$$clsinit`)
that carries the function id `id`. -/
def fakeFuncNode (id : Int) : Expr :=
  .funcdef noStorage id [] []

/-- The calls of `codegen_CalculateFinalFuncStack` on the cached class init
functions (`_codegen_calc_tempclassfakeinitfuncstack_cb` for each entry of
the map). -/
def calcClassInitStacks : List (Int × Int) → Gen Unit
  | [] => Gen.pure ()
  | (_, f) :: rest => do
    codegen_CalculateFinalFuncStack (fakeFuncNode f)
    calcClassInitStacks rest

/-- The function `codegen_GenerateBytecodeForFile` on one file of the
project.  The tree walk `asttransform_Apply` with the two callbacks of the
lowerer (`asttransform.c` is not in the source tree) is the parameter
`apply`; it is followed by the final stack calculation of the synthetic init
functions of the project. -/
def codegen_GenerateBytecodeForFile (apply : Gen Unit) : Gen Unit := do
  apply
  let st ← Gen.get
  match st.tempglobalfakeinitfunc with
  | some f => codegen_CalculateFinalFuncStack (fakeFuncNode f)
  | none => pure ()
  calcClassInitStacks st.tempclassesfakeinitfunc

/-- The global variable definition `var g = v`, `g` the global variable
`id`. -/
def globalVar (id v : Int) : Expr :=
  .vardef ⟨true, ⟨.GLOBALVARSLOT, id⟩, -1⟩
    (some (.literal noStorage (.int v)))

/-- The tree walk over a file that consists of one statement. -/
def applyOneStmt (stmt : Expr) : Gen Unit := do
  let _ ← visit sampleEnv kwInsertionSort 4 stmt []
  pure ()

/-- A project without functions, before any file is lowered. -/
def emptyProgramState : GenState :=
  { selfListState with func := [] }

/-- Lowering of two files, `var g = 5` and `var h = 6`, into one
project. -/
def twoFilesRun : Res Unit :=
  (do
    codegen_GenerateBytecodeForFile (applyOneStmt (globalVar 0 5))
    codegen_GenerateBytecodeForFile (applyOneStmt (globalVar 1 6)))
    emptyProgramState

/-- The entry of `program->func[]` with index `func` after a step of the
lowerer. -/
def Res.funcOf {α : Type} (func : Nat) : Res α → Option GenFunc
  | .ok st _ => st.func[func]?
  | _ => none

/-! Sequences of calls of the slot allocator. -/

/-- One call of the slot allocator on a function: `new1linetemp` (which
either returns a slot without allocating or calls `_newtemp_ex(func, 1)`),
`newmultilinetemp`, `free1linetemps` or `freemultilinetemp(func, temp)`. -/
inductive AllocCall where
  | new1line (allocates : Bool)
  | newmultiline
  | free1line
  | freemultiline (temp : Int)
  deriving DecidableEq, Repr

/-- The storage info after an allocator call, with the slot it allocated
(`none` for a call that allocates nothing); `none` when an assert of
`freemultilinetemp` fails. -/
def AllocCall.run : AllocCall → StorageInfo →
    Option (StorageInfo × Option Int)
  | .new1line true, si =>
    some ((_newtemp_ex si true).1, some (_newtemp_ex si true).2)
  | .new1line false, si => some (si, none)
  | .newmultiline, si =>
    some ((newmultilinetemp si).1, some (newmultilinetemp si).2)
  | .free1line, si => some (free1linetemps si, none)
  | .freemultiline temp, si =>
    (freemultilinetemp si temp).map (fun s => (s, none))

/-- The storage infos after each call of a sequence of allocator calls,
each with the slot the call allocated. -/
def allocTrace : List AllocCall → StorageInfo →
    Option (List (StorageInfo × Option Int))
  | [], _ => some []
  | c :: rest, si =>
    match c.run si with
    | none => none
    | some r => (allocTrace rest r.1).map (fun t => r :: t)

/-- An entry of the temporaries arrays after the end of a line: no longer in
use when its `deletepastline` bit is set, else unchanged. -/
def ExtraTemp.pastLine (t : ExtraTemp) : ExtraTemp :=
  ⟨t.used && !t.deletepastline, t.deletepastline⟩

/-- The in-use bit of slot `temp`. -/
def slotInUse (si : StorageInfo) (temp : Int) : Bool :=
  decide (si.lowest_guaranteed_free_temp ≤ temp) &&
    match si.extra_temps[(temp - si.lowest_guaranteed_free_temp).toNat]? with
    | some e => e.used
    | none => false

/-- The value `funccurrentstacktop(func) - lowest_guaranteed_free_temp`. -/
def extraStackInUse (si : StorageInfo) : Int :=
  funccurrentstacktop si - si.lowest_guaranteed_free_temp

/-- The largest value of `extraStackInUse` after any call of a trace (0 for
the empty trace). -/
def peakExtraStack (trace : List (StorageInfo × Option Int)) : Int :=
  (trace.map (fun p => extraStackInUse p.1)).foldr max 0

/-- The storage info after the last call of a trace. -/
def lastStorage (si : StorageInfo)
    (trace : List (StorageInfo × Option Int)) : StorageInfo :=
  match trace.getLast? with
  | some p => p.1
  | none => si

/-- A sample sequence of allocator calls. -/
def sampleAllocCalls : List AllocCall :=
  [.new1line true, .newmultiline, .free1line, .new1line true,
    .new1line false, .freemultiline 4, .free1line]

/-- An empty storage-info side table of a function with three stack slots
below its temporaries. -/
def emptyStorage : StorageInfo :=
  ⟨3, [], 0, 0, 0, false, 0⟩

/-! Relations between the state before and after a step of the lowerer. -/

/-- Every run of the step `m` that returns 1 takes a state to a state
related to it by `R`. -/
def Holds {α : Type} (R : GenState → GenState → Prop) (m : Gen α) : Prop :=
  ∀ st st1 a, m st = .ok st1 a → R st st1

/-- Whether the record opens or closes a rescue frame. -/
def Inst.isFrameMark : Inst → Bool
  | .pushrescueframe .. => true
  | .poprescueframe .. => true
  | _ => false

/-- Whether the record is a label or carries a label id. -/
def Inst.isFlow : Inst → Bool
  | .jumptarget .. => true
  | .condjump .. => true
  | .condjumpex .. => true
  | .jump .. => true
  | .iterate .. => true
  | .hasattrjump .. => true
  | .pushrescueframe .. => true
  | _ => false

/-- Whether the record is neither a label, nor carries a label id, nor opens
or closes a rescue frame. -/
def Inst.isPlain (inst : Inst) : Bool :=
  !inst.isFlow && !inst.isFrameMark

/-- A relation on states that every step of the lowerer outside the control
flow statements respects: it is reflexive and transitive and closed under
the writes of those steps (flags, diagnostics, the attribute-name index,
storage infos with the label counter and the counter of `do` and `with`
statements kept, stack sizes, plain records, the emission of a call, and the
creation of the synthetic init functions). -/
structure StepRel (R : GenState → GenState → Prop) : Prop where
  refl : ∀ st, R st st
  trans : ∀ a b c, R a b → R b c → R a c
  descend : ∀ st (b : Bool), R st { st with dont_descend_visitation := b }
  oom : ∀ st (b : Bool), R st { st with hadoutofmemory := b }
  unexpected : ∀ st (b : Bool), R st { st with hadunexpectederror := b }
  astmsg : ∀ st (m : H64Result), R st { st with astresultmsg := m }
  prjmsg : ∀ st (m : H64Result), R st { st with resultmsg := m }
  names : ∀ st (n : List String), R st { st with global_member_name := n }
  storage : ∀ st (id : Nat) (f : GenFunc) (si : StorageInfo),
    st.func[id]? = some f →
    si.jump_targets_used = f.storageinfo.jump_targets_used →
    si.dostmts_used = f.storageinfo.dostmts_used →
    R st (setStorageInfo id si st)
  sizes : ∀ (e : Expr), Holds R (codegen_CalculateFinalFuncStack e)
  plain : ∀ st (id : Nat) (inst : Inst) st1, inst.isPlain = true →
    appendinst id inst st = .ok st1 () → R st st1
  call : ∀ (env : Env)
    (itemsort : List KwArgSortInfo → List KwArgSortInfo) (id : Nat)
    (args : List (Option String × Expr)) (ex asy : Bool) (c r : Int)
    (ign : Bool), Holds R (_codegen_call_to env itemsort id args ex asy c r ign)
  fakeclass : ∀ (env : Env) (classidx : Int),
    Holds R (_fakeclassinitfunc env classidx)
  fakeglobal : Holds R _fakeglobalinitfunc

/-- A relation on states that also the control flow statements respect,
apart from the records that open and close rescue frames and from the loop
stack: labels and jumps may be emitted and label ids taken. -/
structure FlowRel (R : GenState → GenState → Prop) extends StepRel R :
    Prop where
  flow : ∀ st (id : Nat) (inst : Inst) st1, inst.isFrameMark = false →
    appendinst id inst st = .ok st1 () → R st st1
  labels : ∀ st (id : Nat) (f : GenFunc) (si : StorageInfo),
    st.func[id]? = some f →
    si.dostmts_used = f.storageinfo.dostmts_used →
    R st (setStorageInfo id si st)

/-- A relation on states that does not look at the loop stack: the stack may
be changed at will. -/
def LoopFree (R : GenState → GenState → Prop) : Prop :=
  ∀ st (l : List LoopIds), R st { st with loops := l }

/-- A relation on states that every step of the lowerer respects: also the
records that open and close rescue frames may be emitted and the counter of
`do` and `with` statements raised. -/
structure FullRel (R : GenState → GenState → Prop) extends FlowRel R :
    Prop where
  anystorage : ∀ st (id : Nat) (si : StorageInfo),
    R st (setStorageInfo id si st)
  anyinst : ∀ st (id : Nat) (inst : Inst) st1,
    appendinst id inst st = .ok st1 () → R st st1

/-- The instruction buffer of function `g` (empty when there is no such
function). -/
def instrsOf (st : GenState) (g : Nat) : List Inst :=
  match st.func[g]? with
  | some f => f.instructions
  | none => []

/-- Between two states every instruction buffer only grew at its end, by a
sequence of records that satisfies `P`. -/
def Grows (P : List Inst → Prop) (st st1 : GenState) : Prop :=
  ∀ g, ∃ d, instrsOf st1 g = instrsOf st g ++ d ∧ P d

/-- Every record of the sequence is plain. -/
def AllPlain (d : List Inst) : Prop :=
  ∀ i ∈ d, i.isPlain = true

/-- No record of the sequence opens or closes a rescue frame. -/
def NoFrameMark (d : List Inst) : Prop :=
  ∀ i ∈ d, i.isFrameMark = false

/-- A property of sequences of records that holds of sequences of plain
records and of the concatenation of two sequences that have it. -/
structure PlainClosed (P : List Inst → Prop) : Prop where
  plain : ∀ d, AllPlain d → P d
  app : ∀ a b, P a → P b → P (a ++ b)

/-- A property of sequences of records that holds of sequences without
frame marks and of the concatenation of two sequences that have it. -/
structure FlowClosed (P : List Inst → Prop) : Prop where
  flow : ∀ d, NoFrameMark d → P d
  app : ∀ a b, P a → P b → P (a ++ b)

/-- The state of the emission of one call: the buffers grew from `base` by
plain records, and the `CALL_SETTOP` record of the call lies in the part
that was added to function `func`. -/
def CallGrown (base : GenState) (func idx : Nat) (st : GenState) : Prop :=
  Grows AllPlain base st ∧ (instrsOf base func).length ≤ idx

/-- The literal `1`. -/
def literalOne : Expr := .literal noStorage (.int 1)

/-- The expression `x and 1`, `x` a local variable in stack slot 0. -/
def andExpr : Expr := .binaryop noStorage .BOOLCOND_AND localX literalOne

/-- A function definition with id 0, no arguments and the single statement
`x and 1`. -/
def andFunc : Expr :=
  .funcdef ⟨true, ⟨.GLOBALFUNCSLOT, 0⟩, -1⟩ 0 [] [andExpr]

/-- The `and` branch of visit_in on `x and 1` inside `andFunc`. -/
def andRun : Res Expr :=
  visitInBoolCond sampleEnv (visit sampleEnv kwInsertionSort 2) (some ⟨0, 0⟩)
    andExpr [(andFunc, .other)] noStorage .BOOLCOND_AND localX literalOne
    selfListState

/-- The frame id of a record that registers a caught error type. -/
def Inst.rescueTypeFrame : Inst → Option Int
  | .addrescuetype frameid _ => some frameid
  | .addrescuetypebyref frameid _ => some frameid
  | _ => none

/-- Whether the record loads a global variable. -/
def Inst.isGetGlobal : Inst → Bool
  | .getglobal .. => true
  | _ => false

/-- The records `l` when `g` is the function `fid` they are emitted into,
and no records for every other function. -/
def ownRecords (g fid : Nat) (l : List Inst) : List Inst :=
  if g = fid then l else []

/-- The sequence `d` is what a run of the loop over the statement list
`stmts`, in function `self`, appends to the buffer of `self`. -/
def StmtsCode (visit : Visitor) (self : FuncRef) (expr : Expr) (ctx : Ctx)
    (stmts : List Expr) (d : List Inst) : Prop :=
  ∃ st st1 r, visitStmtsFreeing visit self expr ctx stmts st = .ok st1 r ∧
    instrsOf st1 self.bytecode_func_id.toNat =
      instrsOf st self.bytecode_func_id.toNat ++ d

/-- The records of the `do` branch after the code of the protected
statements, as the branch emits them: the pop or the jump to the finally
block, the rescue block with its label, the finally block with its label and
the pop, and the end label. -/
def doRecordsAfterBody (rescue fin : Bool)
    (jcatch jfinally jend id : Int) (rbody fbody : List Inst) : List Inst :=
  (if fin then [.jumptofinally id]
    else .poprescueframe id :: (if rescue then [.jump jend] else [])) ++
  (if rescue then
    [.jumptarget jcatch] ++ rbody ++
      [if fin then .jumptofinally id else .poprescueframe id]
    else []) ++
  (if fin then [.jumptarget jfinally] ++ fbody ++ [.poprescueframe id]
    else []) ++
  [.jumptarget jend]

/-- The statement `do { g() } rescue E as e { g() } finally { g() }`, `E`
the global class 5 and `e` in stack slot 0. -/
def doRescueFinally : Expr :=
  .dostmt ⟨true, ⟨.STACKSLOT, 0⟩, -1⟩ [callStmtG]
    [.identifierref ⟨true, ⟨.GLOBALCLASSSLOT, 5⟩, -1⟩ "E" false]
    [callStmtG] true [callStmtG]

/-- A function definition with id 0, no arguments and the single statement
`doRescueFinally`. -/
def doRescueFinallyFunc : Expr :=
  .funcdef ⟨true, ⟨.GLOBALFUNCSLOT, 0⟩, -1⟩ 0 [] [doRescueFinally]

/-- The `do` branch of visit_in on `doRescueFinally` inside its function. -/
def doRescueFinallyRun : Res Expr :=
  visitInDo (visit sampleEnv kwInsertionSort 6) (some ⟨0, 0⟩)
    doRescueFinally [(doRescueFinallyFunc, .other)]
    ⟨true, ⟨.STACKSLOT, 0⟩, -1⟩ [callStmtG]
    [.identifierref ⟨true, ⟨.GLOBALCLASSSLOT, 5⟩, -1⟩ "E" false]
    [callStmtG] true [callStmtG] selfListState

/-- Read the `PUSH_RESCUE_FRAME` and `POP_RESCUE_FRAME` records of a
sequence in emission order against the stack `open` of the frames that are
open: a push opens its frame, a pop must carry the id of the frame opened
last and closes it.  The value is the stack after the sequence, or `none`
when a pop does not match. -/
def frameBalance : List Inst → List Int → Option (List Int)
  | [], o => some o
  | .pushrescueframe _ _ _ _ frameid :: rest, o =>
    frameBalance rest (frameid :: o)
  | .poprescueframe frameid :: rest, o =>
    match o with
    | top :: o1 => if top = frameid then frameBalance rest o1 else none
    | [] => none
  | _ :: rest, o => frameBalance rest o

/-- The pushes and pops of the sequence form a balanced sequence: every pop
carries the id of the most recent unmatched push and every push is
popped. -/
def framesBalanced (d : List Inst) : Bool :=
  frameBalance d [] == some []

/-- Whether the sequence holds a `PUSH_RESCUE_FRAME` whose mode has
`JUMP_ON_RESCUE` and not `JUMP_ON_FINALLY`. -/
def hasRescueOnlyFrame : List Inst → Bool
  | [] => false
  | .pushrescueframe _ _ _ mode _ :: rest =>
    (decide (mode &&& RESCUEMODE_JUMPONRESCUE ≠ 0) &&
      decide (mode &&& RESCUEMODE_JUMPONFINALLY = 0)) ||
      hasRescueOnlyFrame rest
  | _ :: rest => hasRescueOnlyFrame rest

/-- The sequence holds a push with `JUMP_ON_RESCUE` and not
`JUMP_ON_FINALLY`, or its pushes and pops leave every stack of open frames
as it was. -/
def FramesOk (d : List Inst) : Prop :=
  hasRescueOnlyFrame d = true ∨ ∀ o, frameBalance d o = some o

/-- The statement `do { g() } rescue E as e { g() }`, `E` the global class
5 and `e` in stack slot 0: a rescue block and no finally block. -/
def doRescue : Expr :=
  .dostmt ⟨true, ⟨.STACKSLOT, 0⟩, -1⟩ [callStmtG]
    [.identifierref ⟨true, ⟨.GLOBALCLASSSLOT, 5⟩, -1⟩ "E" false]
    [callStmtG] false []

/-- A function definition with id 0, no arguments and the single statement
`doRescue`. -/
def doRescueFunc : Expr :=
  .funcdef ⟨true, ⟨.GLOBALFUNCSLOT, 0⟩, -1⟩ 0 [] [doRescue]

/-- The walk of `doRescueFunc`. -/
def doRescueFuncRun : Res Expr :=
  visit sampleEnv kwInsertionSort 8 doRescueFunc [] selfListState

/-- The walk of `doRescueFinallyFunc`. -/
def doRescueFinallyFuncRun : Res Expr :=
  visit sampleEnv kwInsertionSort 8 doRescueFinallyFunc [] selfListState

/-- Whether a step of the lowerer stopped at a violated `assert`. -/
def Res.isAssertFailed {α : Type} : Res α → Bool
  | .assertFailed => true
  | _ => false

/-- The statement `x = <1>`: a vector constructor with the single entry
`1`, assigned to the local variable `x` in stack slot 0. -/
def vectorAssign : Expr :=
  .assign noStorage .ASSIGN localX (.vector noStorage [literalOne])

/-- A function definition with id 0, no arguments and the single statement
`vectorAssign`. -/
def vectorFunc : Expr :=
  .funcdef ⟨true, ⟨.GLOBALFUNCSLOT, 0⟩, -1⟩ 0 [] [vectorAssign]

/-- The same function with a map constructor `{1 -> 1}` in place of the
vector. -/
def mapFunc : Expr :=
  .funcdef ⟨true, ⟨.GLOBALFUNCSLOT, 0⟩, -1⟩ 0 []
    [.assign noStorage .ASSIGN localX
      (.map noStorage [(literalOne, literalOne)])]

/-- The arguments of the call `g(nosuch=1)`: one keyword argument whose name
is not in the attribute-name index of `selfListState`, its value already in
slot 1. -/
def unknownKwArgs : List (Option String × Expr) :=
  [(some "nosuch", .literal ⟨false, ⟨.INVALID, 0⟩, 1⟩ (.int 1))]

/-- The entry of function 0 in `selfListState`. -/
def selfListEntry : GenFunc :=
  ⟨false, [], 0, 0, false, 0, false, 0, 0, ⟨1, [], 0, 0, 0, false, 0⟩⟩

/-- The called value of a `has_attr` call: the global function 9. -/
def hasAttrValue : Expr :=
  .identifierref ⟨true, ⟨.GLOBALFUNCSLOT, 9⟩, -1⟩ "has_attr" false

/-- The arguments of `has_attr(x, "add")`. -/
def hasAttrArgs : List (Option String × Expr) :=
  [(none, localX), (none, .literal noStorage (.string [97, 100, 100] 3))]

/-- The call `has_attr(x, "add")`, `x` a local variable in stack slot 0. -/
def hasAttrCall : Expr := .call noStorage hasAttrValue hasAttrArgs false false

/-- A function definition with id 0, no arguments and the single statement
`has_attr(x, "add")`. -/
def hasAttrFunc : Expr :=
  .funcdef ⟨true, ⟨.GLOBALFUNCSLOT, 0⟩, -1⟩ 0 [] [hasAttrCall]

/-- The `has_attr` branch of visit_in on `has_attr(x, "add")` inside
`hasAttrFunc`. -/
def hasAttrRun : Res Expr :=
  visitInHasAttr sampleEnv (visit sampleEnv kwInsertionSort 2) (some ⟨0, 0⟩)
    hasAttrCall [(hasAttrFunc, .other)] noStorage hasAttrValue hasAttrArgs
    false false selfListState

/-- The two diagnostics of the `has_attr` branch: the first when the call
has not exactly two positional arguments, the second when its second
argument is not a plain string literal. -/
def hasAttrMessage (arguments : List (Option String × Expr)) : String :=
  match arguments with
  | [(none, _), (none, _)] =>
    "unexpected call to has_attr() with non-trivial attribute argument. must be plain string literal since has_attr() is not a normal function"
  | _ =>
    "unexpected call to has_attr() with not exactly two positional arguments"

/-- The step never returns 0 and never runs out of fuel: it returns 1 or
violates an assertion. -/
def Gen.Sure {α : Type} (m : Gen α) : Prop :=
  ∀ st, (∃ s a, m st = .ok s a) ∨ m st = .assertFailed

/-- The statement `raise new E(1)`, `E` the global class 5. -/
def raiseKnown : Expr :=
  .raisestmt noStorage (.unaryop noStorage .NEW
    (.call noStorage (.identifierref ⟨true, ⟨.GLOBALCLASSSLOT, 5⟩, -1⟩ "E"
      false) [(none, literalOne)] false false))

/-- The statement `raise new x(1)`, `x` a local variable in stack slot 0. -/
def raiseByRef : Expr :=
  .raisestmt noStorage (.unaryop noStorage .NEW
    (.call noStorage localX [(none, literalOne)] false false))

/-- A function definition with id 0, no arguments and the single statement
`raise new x(1)`. -/
def raiseFunc : Expr :=
  .funcdef ⟨true, ⟨.GLOBALFUNCSLOT, 0⟩, -1⟩ 0 [] [raiseByRef]

/-- The `raise` branch of visit_in on `raise new x(1)` inside `raiseFunc`. -/
def raiseByRefRun : Res Expr :=
  visitInRaise (visit sampleEnv kwInsertionSort 2) (some ⟨0, 0⟩) raiseByRef
    [(raiseFunc, .other)] noStorage
    (.unaryop noStorage .NEW
      (.call noStorage localX [(none, literalOne)] false false))
    selfListState

/-- The `raise` branch of visit_in on `raise new E(1)`. -/
def raiseKnownRun : Res Expr :=
  visitInRaise (visit sampleEnv kwInsertionSort 2) (some ⟨0, 0⟩) raiseKnown
    [(raiseFunc, .other)] noStorage
    (.unaryop noStorage .NEW
      (.call noStorage (.identifierref ⟨true, ⟨.GLOBALCLASSSLOT, 5⟩, -1⟩ "E"
        false) [(none, literalOne)] false false))
    selfListState

/-- The expression `new x()`, `x` a local variable in stack slot 0. -/
def newLocal : Expr :=
  .unaryop noStorage .NEW (.call noStorage localX [] false false)

/-- A function definition with id 0, no arguments and the single statement
`new x()`. -/
def newLocalFunc : Expr :=
  .funcdef ⟨true, ⟨.GLOBALFUNCSLOT, 0⟩, -1⟩ 0 [] [newLocal]

/-- The `new` branch of visit_in on `new x()` inside `newLocalFunc`. -/
def newLocalRun : Res Expr :=
  visitInNew sampleEnv kwInsertionSort (visit sampleEnv kwInsertionSort 2)
    (some ⟨0, 0⟩) newLocal [(newLocalFunc, .other)] noStorage
    (.call noStorage localX [] false false) selfListState

/-! The number-literal branch of the lexer (`lexer.c`). -/

/-- The functions of `nonlocale.h` called by the number-literal branch, which
are not in the source tree (`h64atoll`, `h64strtoll`, `h64atof`, the double
as its bit pattern), and the test `value >= (double)INT64_MAX || value <
(double)INT64_MIN` on such a double. -/
structure NumberFuncs where
  h64atoll : List Nat → Int
  h64strtoll : List Nat → Nat → Int
  h64atof : List Nat → Int
  outsideInt64 : Int → Bool

/-- Token types written by the number-literal branch. -/
inductive TokenType where
  | H64TK_INVALID
  | H64TK_CONSTANT_INT
  | H64TK_CONSTANT_FLOAT
  deriving DecidableEq, Repr

/-- The fields of `h64token` written by the number-literal branch. -/
structure NumberToken where
  type : TokenType
  int_value : Int
  float_value : Int
  deriving DecidableEq, Repr

/-- The text `_literaloverflowerror`. -/
def _literaloverflowerror : String :=
  "unexpected number range overflow when parsing literal"

/-- Conversion to `int64_t`. -/
def wrapInt64 (x : Int) : Int :=
  (x + 9223372036854775808) % 18446744073709551616 - 9223372036854775808

/-- The bytes written by `snprintf` with the format `"%" PRId64`. -/
def formatInt64 (v : Int) : List Nat :=
  asciiToUtf32 (toString v)

/-- The text `INT64_MAX_STR`. -/
def INT64_MAX_STR : List Nat := formatInt64 9223372036854775807

/-- The text `INT64_MIN_STR`. -/
def INT64_MIN_STR : List Nat := formatInt64 (-9223372036854775808)

/-- The test `c >= '0' && c <= '9'`. -/
def isDigitByte (c : Nat) : Bool := decide (48 ≤ c ∧ c ≤ 57)

/-- The buffer and the flags of the scanning loop of the number-literal
branch. -/
structure NumScan where
  numbuf : List Nat
  nodigitotherthanzero : Bool
  lastwasdigit : Bool
  sawdot : Bool
  sawxorb : Bool
  ishex : Bool
  isbinary : Bool
  deriving DecidableEq, Repr

/-- The flags before the first byte is scanned. -/
def NumScan.start : NumScan := ⟨[], true, false, false, false, false, false⟩

/-- The condition of the scanning loop on the byte `c = buffer[i]`; `next`
is the byte `buffer[i + 1]`, if any. -/
def NumScan.accepts (s : NumScan) (c : Nat) (next : Option Nat) : Bool :=
  (isDigitByte c && !s.isbinary) ||
  (c == 48 || c == 49) ||
  (decide (97 ≤ c ∧ c ≤ 102) && s.ishex) ||
  (decide (65 ≤ c ∧ c ≤ 70) && s.ishex) ||
  (c == 46 && !s.sawdot && s.lastwasdigit && !s.sawxorb &&
    (match next with
      | some n => isDigitByte n
      | none => false)) ||
  (c == 98 && s.lastwasdigit && s.nodigitotherthanzero && !s.sawdot) ||
  (c == 120 && s.lastwasdigit && s.nodigitotherthanzero && !s.sawdot)

/-- The body of the scanning loop: update the flags and append the byte to
`numbuf` (the allocation assumed to succeed). -/
def NumScan.push (s : NumScan) (c : Nat) : NumScan :=
  let s1 : NumScan :=
    if isDigitByte c then
      { s with
        lastwasdigit := true
        nodigitotherthanzero := if c ≠ 48 then false
          else s.nodigitotherthanzero }
    else if c = 46 then { s with lastwasdigit := false, sawdot := true }
    else if c = 120 then
      { s with lastwasdigit := false, sawxorb := true, ishex := true }
    else if c = 98 then
      { s with lastwasdigit := false, sawxorb := true, isbinary := true }
    else { s with lastwasdigit := false }
  { s1 with numbuf := s1.numbuf ++ [c] }

/-- The scanning loop: the flags after the last accepted byte, and the rest
of the buffer. -/
def scanNumber : List Nat → NumScan → NumScan × List Nat
  | [], s => (s, [])
  | c :: rest, s =>
    if s.accepts c rest.head? then scanNumber rest (s.push c)
    else (s, c :: rest)

/-- The loop that trims fractional zeros, on `numbuf` read from its end:
drop a final `0` that follows a digit while more than two bytes are left. -/
def trimFractionZeros : List Nat → List Nat
  | [] => []
  | a :: tl =>
    match tl with
    | [] => [a]
    | b :: _ =>
      if decide ((a :: tl).length > 2) && a == 48 && isDigitByte b then
        trimFractionZeros tl
      else a :: tl

/-- The statement after the trimming loop: a remaining final `.0` is dropped
and the literal is no longer a fraction.  The buffer is read from its end;
the value pairs it with the new `sawdot`. -/
def dropPointZero (rev : List Nat) : List Nat × Bool :=
  match rev with
  | a :: b :: rest =>
    if decide (rev.length > 2) && a == 48 && b == 46 then (rest, false)
    else (rev, true)
  | _ => (rev, true)

/-- The outcome of the number-literal branch: the token, the result messages
and the rest of the buffer. -/
structure NumberLex where
  token : NumberToken
  resultmsg : H64Result
  rest : List Nat
  deriving DecidableEq, Repr

/-- The text of the diagnostic for a literal that ends in a byte that is no
digit. -/
def unexpectedEndMsg (startline startcolumn : Int) : String :=
  "unexpected end of literal, expected digit to finish off number literal starting in line " ++
    toString startline ++ ", column " ++ toString startcolumn

/-- The part of the number-literal branch for a plain decimal integer
`numbuf`: the length test against `INT64_MAX_STR` and `INT64_MIN_STR`, the
conversion by `h64atoll`, and the comparison of the value printed back with
`numbuf`, each adding `_literaloverflowerror` unless `hadoverflowerror` is
set. -/
def lexDecimalInt (fn : NumberFuncs) (numbuf : List Nat)
    (resultmsg : H64Result) : NumberToken × H64Result :=
  let toolong := decide (numbuf.length > INT64_MAX_STR.length) &&
    decide (numbuf.length > INT64_MIN_STR.length)
  let msg1 :=
    if toolong then result_AddMessage resultmsg .error _literaloverflowerror
    else resultmsg
  let hadoverflowerror := toolong
  let value := wrapInt64 (fn.h64atoll numbuf)
  let num_convertback := formatInt64 value
  let msg2 :=
    if !hadoverflowerror && decide (num_convertback ≠ numbuf) then
      result_AddMessage msg1 .error _literaloverflowerror
    else msg1
  (⟨.H64TK_CONSTANT_INT, value, 0⟩, msg2)

/-- The number-literal branch of `lexer_ParseFromFile`, entered at a digit:
scan the literal, then produce the token of a fraction, of a literal with
radix prefix or of a plain decimal integer; the value is `none` when one of
the asserts of these three cases is violated.  The test `c == '-'` in front
of the scanning loop never holds in this branch and is left out, and the
check of the byte that follows the literal is not part of this
definition. -/
def lexNumberLiteral (fn : NumberFuncs) (startline startcolumn : Int)
    (buffer : List Nat) (resultmsg : H64Result) : Option NumberLex :=
  let r := scanNumber buffer NumScan.start
  let s := r.1
  let last := s.numbuf.getLast?
  let endsWell : Bool :=
    match last with
    | none => false
    | some c => isDigitByte c || decide (97 ≤ c ∧ c ≤ 102) ||
        decide (65 ≤ c ∧ c ≤ 70)
  if !endsWell then
    some ⟨⟨.H64TK_INVALID, 0, 0⟩,
      result_AddMessage resultmsg .error
        (unexpectedEndMsg startline startcolumn), r.2⟩
  else
    let trimmed : List Nat × Bool :=
      if s.sawdot then dropPointZero (trimFractionZeros s.numbuf.reverse)
      else (s.numbuf.reverse, false)
    let numbuf := trimmed.1.reverse
    let sawdot := trimmed.2
    if sawdot then
      if s.sawxorb then none
      else
        let value := fn.h64atof numbuf
        some ⟨⟨.H64TK_CONSTANT_FLOAT, 0, value⟩,
          (if fn.outsideInt64 value then
            result_AddMessage resultmsg .error _literaloverflowerror
          else resultmsg), r.2⟩
    else if s.sawxorb then
      if numbuf.length < 3 then none
      else if ¬(numbuf[0]? = some 48 ∧
          (numbuf[1]? = some 120 ∨ numbuf[1]? = some 98)) then none
      else if (numbuf.drop 2).length = 0 then none
      else
        some ⟨⟨.H64TK_CONSTANT_INT,
          wrapInt64 (fn.h64strtoll (numbuf.drop 2)
            (if numbuf[1]? = some 120 then 16 else 2)), 0⟩, resultmsg, r.2⟩
    else if s.isbinary || s.ishex then none
    else
      let d := lexDecimalInt fn numbuf resultmsg
      some ⟨d.1, d.2, r.2⟩

/-- The numeric value of a text of decimal digits, read after the value
`a` of the digits before it. -/
def decimalValueFrom (a : Nat) : List Nat → Nat
  | [] => a
  | c :: rest => decimalValueFrom (10 * a + (c - 48)) rest

/-- The numeric value of a decimal integer literal, as the claim has it. -/
def decimalValue (text : List Nat) : Nat := decimalValueFrom 0 text

/-- A decimal integer literal: one or more digits, no radix prefix and no
dot. -/
def isDecimalLiteral (text : List Nat) : Bool :=
  !text.isEmpty && text.all isDigitByte

/-- The functions `h64atoll`, `h64strtoll` and `h64atof` read as conversions
of decimal digits, for sample runs. -/
def sampleNumberFuncs : NumberFuncs :=
  ⟨fun t => (decimalValue t : Int), fun t _ => (decimalValue t : Int),
    fun t => (decimalValue t : Int), fun _ => false⟩

/-! The tree walk `ast_VisitExpression` (`ast.c`) for arbitrary callbacks. -/

/-- The three callback pointers of `ast_VisitExpression`, `none` for a null
pointer, over user data of type `σ`: a callback is called with the node, the
parent (`none` for a null parent) and the user data, and returns its result
with the user data as it leaves them.  The callbacks are taken to leave the
shape of the tree as it is. -/
structure AstCallbacks (σ : Type) where
  visit_in : Option (Expr → Option Expr → σ → Bool × σ)
  visit_out : Option (Expr → Option Expr → σ → Bool × σ)
  cancel_visit_descend_callback : Option (Expr → σ → Bool × σ)

/-- The outcome of a call of `ast_VisitExpression`: its result with the user
data, or a call through the null pointer `visit_out`. -/
inductive VisitOutcome (σ : Type) where
  | done (result : Bool) (ud : σ)
  | nullCall
  deriving DecidableEq, Repr

/-- The statement `if (!step) return 0;` followed by `next`. -/
def VisitOutcome.andThen {σ : Type} (o : VisitOutcome σ)
    (next : σ → VisitOutcome σ) : VisitOutcome σ :=
  match o with
  | .done true ud => next ud
  | .done false ud => .done false ud
  | .nullCall => .nullCall

/-- The end of `ast_VisitExpression` after the `switch`: the call of
`visit_out` when the pointer is not null. -/
def visitOutIfGiven {σ : Type} (cb : AstCallbacks σ) (expr : Expr)
    (parent : Option Expr) (ud : σ) : VisitOutcome σ :=
  match cb.visit_out with
  | some visit_out =>
    let r := visit_out expr parent ud
    .done r.1 r.2
  | none => .done true ud

/-- The body of `ast_VisitExpression` on a node that is not null, around
the `switch` over the children, which is passed as `children`: the call of
`visit_in`, the test of `cancel_visit_descend_callback` with its call of
`visit_out` (not tested for null), the `switch`, and the call of `visit_out`.
-/
def visitFrame {σ : Type} (cb : AstCallbacks σ) (expr : Expr)
    (parent : Option Expr) (children : σ → VisitOutcome σ) (ud : σ) :
    VisitOutcome σ :=
  match cb.visit_in with
  | none => (children ud).andThen (visitOutIfGiven cb expr parent)
  | some visit_in =>
    let r := visit_in expr parent ud
    if !r.1 then .done false r.2
    else
      match cb.cancel_visit_descend_callback with
      | none => (children r.2).andThen (visitOutIfGiven cb expr parent)
      | some cancel =>
        let k := cancel expr r.2
        if k.1 then
          match cb.visit_out with
          | some visit_out =>
            let o := visit_out expr parent k.2
            .done o.1 o.2
          | none => .nullCall
        else (children k.2).andThen (visitOutIfGiven cb expr parent)

mutual
/-- The function `ast_VisitExpression` on a node that is not null: the
`switch` lists the children of each node type in the order of the source.
-/
def astVisitNode {σ : Type} (cb : AstCallbacks σ) (parent : Option Expr) :
    Expr → σ → VisitOutcome σ
  | .invalid s, ud =>
    visitFrame cb (.invalid s) parent (fun u => .done true u) ud
  | .identifierref s a b, ud =>
    visitFrame cb (.identifierref s a b) parent (fun u => .done true u) ud
  | .continuestmt s, ud =>
    visitFrame cb (.continuestmt s) parent (fun u => .done true u) ud
  | .breakstmt s, ud =>
    visitFrame cb (.breakstmt s) parent (fun u => .done true u) ud
  | .literal s l, ud =>
    visitFrame cb (.literal s l) parent (fun u => .done true u) ud
  | .importstmt s, ud =>
    visitFrame cb (.importstmt s) parent (fun u => .done true u) ud
  | .vardef s value, ud =>
    visitFrame cb (.vardef s value) parent
      (astVisitExpression cb (some (.vardef s value)) value) ud
  | .funcdef s id arg_value stmt, ud =>
    visitFrame cb (.funcdef s id arg_value stmt) parent
      (fun u =>
        (astVisitOptList cb (some (.funcdef s id arg_value stmt)) arg_value
          u).andThen
        (astVisitList cb (some (.funcdef s id arg_value stmt)) stmt)) ud
  | .inlinefuncdef s id arg_value stmt, ud =>
    visitFrame cb (.inlinefuncdef s id arg_value stmt) parent
      (fun u =>
        (astVisitOptList cb (some (.inlinefuncdef s id arg_value stmt))
          arg_value u).andThen
        (astVisitList cb (some (.inlinefuncdef s id arg_value stmt)) stmt)) ud
  | .callstmt s call, ud =>
    visitFrame cb (.callstmt s call) parent
      (astVisitExpression cb (some (.callstmt s call)) call) ud
  | .classdef s id baseclass_ref vardef funcdef, ud =>
    visitFrame cb (.classdef s id baseclass_ref vardef funcdef) parent
      (fun u =>
        ((astVisitExpression cb
          (some (.classdef s id baseclass_ref vardef funcdef)) baseclass_ref
          u).andThen
        (astVisitList cb (some (.classdef s id baseclass_ref vardef funcdef))
          vardef)).andThen
        (astVisitList cb (some (.classdef s id baseclass_ref vardef funcdef))
          funcdef)) ud
  | .ifstmt s conditional stmt followup_clause, ud =>
    visitFrame cb (.ifstmt s conditional stmt followup_clause) parent
      (fun u =>
        ((astVisitExpression cb
          (some (.ifstmt s conditional stmt followup_clause)) conditional
          u).andThen
        (astVisitList cb (some (.ifstmt s conditional stmt followup_clause))
          stmt)).andThen
        (astVisitClauses cb
          (some (.ifstmt s conditional stmt followup_clause))
          followup_clause)) ud
  | .whilestmt s conditional stmt, ud =>
    visitFrame cb (.whilestmt s conditional stmt) parent
      (fun u =>
        (astVisitNode cb (some (.whilestmt s conditional stmt)) conditional
          u).andThen
        (astVisitList cb (some (.whilestmt s conditional stmt)) stmt)) ud
  | .forstmt s iterated_container stmt, ud =>
    visitFrame cb (.forstmt s iterated_container stmt) parent
      (fun u =>
        (astVisitNode cb (some (.forstmt s iterated_container stmt))
          iterated_container u).andThen
        (astVisitList cb (some (.forstmt s iterated_container stmt)) stmt)) ud
  | .raisestmt s raised_expression, ud =>
    visitFrame cb (.raisestmt s raised_expression) parent
      (astVisitNode cb (some (.raisestmt s raised_expression))
        raised_expression) ud
  | .returnstmt s returned_expression, ud =>
    visitFrame cb (.returnstmt s returned_expression) parent
      (astVisitExpression cb (some (.returnstmt s returned_expression))
        returned_expression) ud
  | .dostmt s dostmt errors rescuestmt fin finallystmt, ud =>
    visitFrame cb (.dostmt s dostmt errors rescuestmt fin finallystmt) parent
      (fun u =>
        (((astVisitList cb
          (some (.dostmt s dostmt errors rescuestmt fin finallystmt)) dostmt
          u).andThen
        (astVisitList cb
          (some (.dostmt s dostmt errors rescuestmt fin finallystmt))
          errors)).andThen
        (astVisitList cb
          (some (.dostmt s dostmt errors rescuestmt fin finallystmt))
          rescuestmt)).andThen
        (astVisitList cb
          (some (.dostmt s dostmt errors rescuestmt fin finallystmt))
          finallystmt)) ud
  | .withstmt s withclause stmt, ud =>
    visitFrame cb (.withstmt s withclause stmt) parent
      (fun u =>
        (astVisitList cb (some (.withstmt s withclause stmt)) withclause
          u).andThen
        (astVisitList cb (some (.withstmt s withclause stmt)) stmt)) ud
  | .awaitstmt s awaitedvalue, ud =>
    visitFrame cb (.awaitstmt s awaitedvalue) parent
      (astVisitNode cb (some (.awaitstmt s awaitedvalue)) awaitedvalue) ud
  | .assign s assignop lvalue rvalue, ud =>
    visitFrame cb (.assign s assignop lvalue rvalue) parent
      (fun u =>
        (astVisitNode cb (some (.assign s assignop lvalue rvalue)) lvalue
          u).andThen
        (astVisitNode cb (some (.assign s assignop lvalue rvalue)) rvalue))
      ud
  | .binaryop s optype value1 value2, ud =>
    visitFrame cb (.binaryop s optype value1 value2) parent
      (fun u =>
        (astVisitNode cb (some (.binaryop s optype value1 value2)) value1
          u).andThen
        (astVisitNode cb (some (.binaryop s optype value1 value2)) value2))
      ud
  | .unaryop s optype value1, ud =>
    visitFrame cb (.unaryop s optype value1) parent
      (astVisitNode cb (some (.unaryop s optype value1)) value1) ud
  | .call s value arguments expand is_async, ud =>
    visitFrame cb (.call s value arguments expand is_async) parent
      (fun u =>
        (astVisitNode cb (some (.call s value arguments expand is_async))
          value u).andThen
        (astVisitArgs cb (some (.call s value arguments expand is_async))
          arguments)) ud
  | .list s entry, ud =>
    visitFrame cb (.list s entry) parent
      (astVisitList cb (some (.list s entry)) entry) ud
  | .set s entry, ud =>
    visitFrame cb (.set s entry) parent
      (astVisitList cb (some (.set s entry)) entry) ud
  | .map s entry, ud =>
    visitFrame cb (.map s entry) parent
      (astVisitPairs cb (some (.map s entry)) entry) ud
  | .vector s entry, ud =>
    visitFrame cb (.vector s entry) parent
      (astVisitList cb (some (.vector s entry)) entry) ud
  | .withclause s withitem_value, ud =>
    visitFrame cb (.withclause s withitem_value) parent
      (astVisitExpression cb (some (.withclause s withitem_value))
        withitem_value) ud
  | .given s condition valueyes valueno, ud =>
    visitFrame cb (.given s condition valueyes valueno) parent
      (fun u =>
        ((astVisitNode cb (some (.given s condition valueyes valueno))
          condition u).andThen
        (astVisitNode cb (some (.given s condition valueyes valueno))
          valueyes)).andThen
        (astVisitNode cb (some (.given s condition valueyes valueno))
          valueno)) ud
termination_by structural e => e
/-- The function `ast_VisitExpression` for arbitrary callbacks, on a node
pointer that may be null: `if (!expr) return 1;`. -/
def astVisitExpression {σ : Type} (cb : AstCallbacks σ)
    (parent : Option Expr) : Option Expr → σ → VisitOutcome σ
  | none, ud => .done true ud
  | some expr, ud => astVisitNode cb parent expr ud
termination_by structural e => e
/-- A loop of `ast_VisitExpression` over an array of children. -/
def astVisitList {σ : Type} (cb : AstCallbacks σ) (parent : Option Expr) :
    List Expr → σ → VisitOutcome σ
  | [], ud => .done true ud
  | child :: rest, ud =>
    (astVisitNode cb parent child ud).andThen (astVisitList cb parent rest)
termination_by structural e => e
/-- The loop over the default values of the arguments of a function
definition, null for an argument without default. -/
def astVisitOptList {σ : Type} (cb : AstCallbacks σ) (parent : Option Expr) :
    List (Option Expr) → σ → VisitOutcome σ
  | [], ud => .done true ud
  | child :: rest, ud =>
    (astVisitExpression cb parent child ud).andThen
      (astVisitOptList cb parent rest)
termination_by structural e => e
/-- The loop over the clauses that follow the first clause of an `if`:
condition (null for `else`), then statements. -/
def astVisitClauses {σ : Type} (cb : AstCallbacks σ) (parent : Option Expr) :
    List (Option Expr × List Expr) → σ → VisitOutcome σ
  | [], ud => .done true ud
  | (conditional, stmt) :: rest, ud =>
    ((astVisitExpression cb parent conditional ud).andThen
      (astVisitList cb parent stmt)).andThen (astVisitClauses cb parent rest)
termination_by structural e => e
/-- The loop over the entries of a map constructor: key, then value. -/
def astVisitPairs {σ : Type} (cb : AstCallbacks σ) (parent : Option Expr) :
    List (Expr × Expr) → σ → VisitOutcome σ
  | [], ud => .done true ud
  | (key, value) :: rest, ud =>
    ((astVisitNode cb parent key ud).andThen
      (astVisitNode cb parent value)).andThen (astVisitPairs cb parent rest)
termination_by structural e => e
/-- The loop over the argument values of a call. -/
def astVisitArgs {σ : Type} (cb : AstCallbacks σ) (parent : Option Expr) :
    List (Option String × Expr) → σ → VisitOutcome σ
  | [], ud => .done true ud
  | (_, value) :: rest, ud =>
    (astVisitNode cb parent value ud).andThen (astVisitArgs cb parent rest)
termination_by structural e => e
end

/-- The children of a node in the order of the claim, absent children left
out: var-def value; default-argument values, then statements; base
reference, var attributes, function attributes; per `if` clause its
condition, then its statements; condition (container), then body;
do-statements, rescue error types, rescue statements, finally statements;
with-clauses, then body; lvalue, rvalue; left and right operand; callee, then
arguments; key, then value per map entry; condition, yes-value, no-value. -/
def Expr.children : Expr → List Expr
  | .vardef _ value => value.toList
  | .funcdef _ _ arg_value stmt => arg_value.filterMap id ++ stmt
  | .inlinefuncdef _ _ arg_value stmt => arg_value.filterMap id ++ stmt
  | .callstmt _ c => c.toList
  | .classdef _ _ baseclass_ref vardefs funcdefs =>
    baseclass_ref.toList ++ vardefs ++ funcdefs
  | .ifstmt _ conditional stmt followup_clause =>
    conditional.toList ++ stmt ++
      (followup_clause.map (fun c => c.1.toList ++ c.2)).flatten
  | .whilestmt _ conditional stmt => conditional :: stmt
  | .forstmt _ iterated_container stmt => iterated_container :: stmt
  | .raisestmt _ raised_expression => [raised_expression]
  | .returnstmt _ returned_expression => returned_expression.toList
  | .dostmt _ dostmts errors rescuestmt _ finallystmt =>
    dostmts ++ errors ++ rescuestmt ++ finallystmt
  | .withstmt _ clauses stmt => clauses ++ stmt
  | .awaitstmt _ awaitedvalue => [awaitedvalue]
  | .assign _ _ lvalue rvalue => [lvalue, rvalue]
  | .binaryop _ _ value1 value2 => [value1, value2]
  | .unaryop _ _ value1 => [value1]
  | .call _ value arguments _ _ => value :: arguments.map (fun a => a.2)
  | .list _ entry => entry
  | .set _ entry => entry
  | .map _ entry => (entry.map (fun kv => [kv.1, kv.2])).flatten
  | .vector _ entry => entry
  | .withclause _ withitem_value => withitem_value.toList
  | .given _ condition valueyes valueno => [condition, valueyes, valueno]
  | _ => []

mutual
/-- The height of a tree: 1 for a node without children. -/
def Expr.depth : Expr → Nat
  | .vardef _ value => optDepth value + 1
  | .funcdef _ _ arg_value stmt =>
    max (optListDepth arg_value) (listDepth stmt) + 1
  | .inlinefuncdef _ _ arg_value stmt =>
    max (optListDepth arg_value) (listDepth stmt) + 1
  | .callstmt _ c => optDepth c + 1
  | .classdef _ _ baseclass_ref vardefs funcdefs =>
    max (max (optDepth baseclass_ref) (listDepth vardefs))
      (listDepth funcdefs) + 1
  | .ifstmt _ conditional stmt followup_clause =>
    max (max (optDepth conditional) (listDepth stmt))
      (clausesDepth followup_clause) + 1
  | .whilestmt _ conditional stmt =>
    max conditional.depth (listDepth stmt) + 1
  | .forstmt _ iterated_container stmt =>
    max iterated_container.depth (listDepth stmt) + 1
  | .raisestmt _ raised_expression => raised_expression.depth + 1
  | .returnstmt _ returned_expression => optDepth returned_expression + 1
  | .dostmt _ dostmts errors rescuestmt _ finallystmt =>
    max (max (max (listDepth dostmts) (listDepth errors))
      (listDepth rescuestmt)) (listDepth finallystmt) + 1
  | .withstmt _ clauses stmt =>
    max (listDepth clauses) (listDepth stmt) + 1
  | .awaitstmt _ awaitedvalue => awaitedvalue.depth + 1
  | .assign _ _ lvalue rvalue => max lvalue.depth rvalue.depth + 1
  | .binaryop _ _ value1 value2 => max value1.depth value2.depth + 1
  | .unaryop _ _ value1 => value1.depth + 1
  | .call _ value arguments _ _ => max value.depth (argsDepth arguments) + 1
  | .list _ entry => listDepth entry + 1
  | .set _ entry => listDepth entry + 1
  | .map _ entry => pairsDepth entry + 1
  | .vector _ entry => listDepth entry + 1
  | .withclause _ withitem_value => optDepth withitem_value + 1
  | .given _ condition valueyes valueno =>
    max (max condition.depth valueyes.depth) valueno.depth + 1
  | .invalid _ => 1
  | .identifierref _ _ _ => 1
  | .continuestmt _ => 1
  | .breakstmt _ => 1
  | .literal _ _ => 1
  | .importstmt _ => 1
termination_by structural e => e
/-- The height of a child that may be absent. -/
def optDepth : Option Expr → Nat
  | none => 0
  | some e => e.depth
termination_by structural e => e
/-- The greatest height among a list of trees. -/
def listDepth : List Expr → Nat
  | [] => 0
  | e :: rest => max e.depth (listDepth rest)
termination_by structural e => e
/-- The greatest height among default values. -/
def optListDepth : List (Option Expr) → Nat
  | [] => 0
  | e :: rest => max (optDepth e) (optListDepth rest)
termination_by structural e => e
/-- The greatest height among the clauses of an `if`. -/
def clausesDepth : List (Option Expr × List Expr) → Nat
  | [] => 0
  | (c, s) :: rest => max (max (optDepth c) (listDepth s)) (clausesDepth rest)
termination_by structural e => e
/-- The greatest height among the entries of a map constructor. -/
def pairsDepth : List (Expr × Expr) → Nat
  | [] => 0
  | (k, v) :: rest => max (max k.depth v.depth) (pairsDepth rest)
termination_by structural e => e
/-- The greatest height among the arguments of a call. -/
def argsDepth : List (Option String × Expr) → Nat
  | [] => 0
  | (_, v) :: rest => max v.depth (argsDepth rest)
termination_by structural e => e
end

/-- A call of a callback of the tree walk, with its result. -/
inductive AstEvent where
  | pre (expr : Expr) (parent : Option Expr) (result : Bool)
  | skip (expr : Expr) (result : Bool)
  | post (expr : Expr) (parent : Option Expr) (result : Bool)

/-- Whether the event is a call of `visit_in` or `visit_out` that returned
0. -/
def AstEvent.failed : AstEvent → Bool
  | .pre _ _ r => !r
  | .skip _ _ => false
  | .post _ _ r => !r

/-- The callbacks `cb` made to log every call with its result, in the order
of the calls, next to the user data. -/
def AstCallbacks.logged {σ : Type} (cb : AstCallbacks σ) :
    AstCallbacks (σ × List AstEvent) :=
  { visit_in := cb.visit_in.map (fun f expr parent s =>
      ((f expr parent s.1).1,
        ((f expr parent s.1).2,
          s.2 ++ [.pre expr parent (f expr parent s.1).1])))
    visit_out := cb.visit_out.map (fun f expr parent s =>
      ((f expr parent s.1).1,
        ((f expr parent s.1).2,
          s.2 ++ [.post expr parent (f expr parent s.1).1])))
    cancel_visit_descend_callback :=
      cb.cancel_visit_descend_callback.map (fun f expr s =>
        ((f expr s.1).1,
          ((f expr s.1).2, s.2 ++ [.skip expr (f expr s.1).1]))) }

/-- The calls of a walk in which every callback succeeds and no node is
skipped, as the claim has them: the pre call on the node, the test of the
skip predicate when one is given, the calls for every child in the order of
`Expr.children` with the node as parent, and the post call on the node.  The
number `n` bounds the height of the tree. -/
def walkEvents (hasSkip : Bool) : Nat → Option Expr → Expr → List AstEvent
  | 0, _, _ => []
  | n + 1, parent, e =>
    [.pre e parent true] ++ (if hasSkip then [.skip e false] else []) ++
      (e.children.map (walkEvents hasSkip n (some e))).flatten ++
      [.post e parent true]

/-- The nodes of a tree in pre-order, each with its parent. -/
def preorder : Nat → Option Expr → Expr → List (Expr × Option Expr)
  | 0, _, _ => []
  | n + 1, parent, e =>
    (e, parent) :: (e.children.map (preorder n (some e))).flatten

/-- The nodes of a tree in post-order, each with its parent. -/
def postorder : Nat → Option Expr → Expr → List (Expr × Option Expr)
  | 0, _, _ => []
  | n + 1, parent, e =>
    (e.children.map (postorder n (some e))).flatten ++ [(e, parent)]

/-- The node and parent of a successful pre call. -/
def AstEvent.preCall : AstEvent → Option (Expr × Option Expr)
  | .pre e p true => some (e, p)
  | _ => none

/-- The node and parent of a successful post call. -/
def AstEvent.postCall : AstEvent → Option (Expr × Option Expr)
  | .post e p true => some (e, p)
  | _ => none

/-- Callbacks that count their calls and always succeed, with a skip
predicate that never skips. -/
def countingCallbacks : AstCallbacks Nat :=
  ⟨some (fun _ _ n => (true, n + 1)), some (fun _ _ n => (true, n + 1)),
    some (fun _ n => (false, n))⟩

/-- Callbacks of which the pre callback skips the children of every
assignment and the post callback fails on every literal. -/
def skippingCallbacks : AstCallbacks Nat :=
  ⟨some (fun _ _ n => (true, n + 1)),
    some (fun e _ n =>
      (match e with
        | .literal _ _ => false
        | _ => true, n + 1)),
    some (fun e n =>
      (match e with
        | .assign _ _ _ _ => true
        | _ => false, n))⟩

/-- The calls `d` logged by a walk with result `r`: after a successful walk
no call of `visit_in` or `visit_out` has failed, and after a failed walk the
last call is one that failed and no call before it has. -/
def FailureIsLast (r : Bool) (d : List AstEvent) : Prop :=
  (r = true → ∀ ev ∈ d, ev.failed = false) ∧
  (r = false → ∃ d0 ev, d = d0 ++ [ev] ∧ ev.failed = true ∧
    ∀ x ∈ d0, x.failed = false)

/-- A step of a logged walk appends to the log, and the calls it appends
satisfy `FailureIsLast` for its result. -/
def LogsFailureLast {σ : Type}
    (w : σ × List AstEvent → VisitOutcome (σ × List AstEvent)) : Prop :=
  ∀ ud log r ud1 log1, w (ud, log) = .done r (ud1, log1) →
    ∃ d, log1 = log ++ d ∧ FailureIsLast r d

/-- The list constructor `[x, 1, x]`, `x` a local variable in stack slot 0.
-/
def literalInList : Expr := .list noStorage [localX, literalOne, localX]

/-! The ids of rescue frames (claim C21). -/

/-- The frame ids carried by the PUSH_RESCUE_FRAME records of a sequence,
in order. -/
def pushIds : List Inst → List Int
  | [] => []
  | .pushrescueframe _ _ _ _ frameid :: rest => frameid :: pushIds rest
  | _ :: rest => pushIds rest

/-- The counters `dostmts_used` of all functions. -/
def dostList (st : GenState) : List Int :=
  st.func.map (fun f => f.storageinfo.dostmts_used)

/-- The counter `dostmts_used` of function `g` (0 when there is no such
function). -/
def dostOf (st : GenState) (g : Nat) : Int :=
  (dostList st).getD g 0

/-- The `n` frame ids handed out from the counter value `a` on: the values
`a`, `a + 1`, ... as `int16_t`. -/
def frameIdsFrom (a : Int) : Nat → List Int
  | 0 => []
  | n + 1 => wrapInt16 a :: frameIdsFrom (a + 1) n

/-- Between two states the buffer of function `g` grew by records whose
PUSH_RESCUE_FRAME ids are the ones handed out from the counter of `g`, which
rose by their number and, when it rose, stayed at or below 32765. -/
def Counted (g : Nat) (st st1 : GenState) : Prop :=
  ∃ (d : List Inst) (n : Nat),
    instrsOf st1 g = instrsOf st g ++ d ∧
    dostOf st1 g = dostOf st g + n ∧
    pushIds d = frameIdsFrom (dostOf st g) n ∧
    (0 < n → dostOf st1 g ≤ 32765)

/-- Between two states the storage info of function `g` was made anew: the
buffer of `g` grew by the records `before` and then, since the storage info
was last made, by records whose PUSH_RESCUE_FRAME ids are the ones handed out
from the counter value 0 on; the counter of `g` is their number and at most
32765. -/
def Recounted (g : Nat) (st st1 : GenState) : Prop :=
  ∃ (before since : List Inst) (n : Nat),
    instrsOf st1 g = instrsOf st g ++ before ++ since ∧
    dostOf st1 g = n ∧
    pushIds since = frameIdsFrom 0 n ∧
    (n : Int) ≤ 32765

/-- Between two states the cache of synthetic class init functions grew at
its front, and every function is `Counted`, or an entry added to the cache
names it (its storage info was made anew) and it is `Recounted`. -/
def FramesCounted (st st1 : GenState) : Prop :=
  ∃ added : List (Int × Int),
    st1.tempclassesfakeinitfunc = added ++ st.tempclassesfakeinitfunc ∧
    ∀ g : Nat, Counted g st st1 ∨
      ((∃ e ∈ added, e.2 = (g : Int)) ∧ Recounted g st st1)

/-- Between two states neither a counter `dostmts_used` nor the cache of
synthetic class init functions changed. -/
def KeepsFrames (st st1 : GenState) : Prop :=
  dostList st1 = dostList st ∧
  st1.tempclassesfakeinitfunc = st.tempclassesfakeinitfunc

/-- Between two states neither a counter `dostmts_used`, nor the cache of
synthetic class init functions, nor an instruction buffer changed. -/
def Quiet (st st1 : GenState) : Prop :=
  KeepsFrames st st1 ∧ ∀ g, instrsOf st1 g = instrsOf st g

/-- The state `st` is the state `s0` after the lowerer took the frame id
`id` for function `func` below the limit, the PUSH_RESCUE_FRAME record of the
frame not yet emitted. -/
def Opened (func : FuncRef) (id : Int) (s0 st : GenState) : Prop :=
  st.tempclassesfakeinitfunc = s0.tempclassesfakeinitfunc ∧
  (∀ g, instrsOf st g = instrsOf s0 g) ∧
  (∀ g, g ≠ func.bytecode_func_id.toNat → dostOf st g = dostOf s0 g) ∧
  dostOf st func.bytecode_func_id.toNat =
    dostOf s0 func.bytecode_func_id.toNat + 1 ∧
  id = wrapInt16 (dostOf s0 func.bytecode_func_id.toNat) ∧
  dostOf s0 func.bytecode_func_id.toNat + 1 ≤ 32765

/-- Every run of `m` that returns 1 from a state in which the frame `id` of
`func` is taken but not yet pushed ends in a state that is `FramesCounted`
from the state before the id was taken. -/
def AfterOpen {α : Type} (func : FuncRef) (id : Int) (m : Gen α) : Prop :=
  ∀ s0 st st1 a, Opened func id s0 st → m st = .ok st1 a →
    FramesCounted s0 st1

/-- The text of the diagnostic of `_enforce_dostmt_limit_in_func`. -/
def dostmtLimitMsg : String :=
  "exceeded maximum of do or with statements in one function"

/-- The state in which `_enforce_dostmt_limit_in_func` returns 0 from the
state `st`: the error is flagged and the diagnostic recorded. -/
def limitFailure (st : GenState) : GenState :=
  { st with
    hadunexpectederror := true,
    resultmsg := result_AddMessage st.resultmsg .error dostmtLimitMsg }

/-- Between two states the project diagnostics and the error flag are the
same, no counter `dostmts_used` changed and every buffer grew by records
that are no PUSH_RESCUE_FRAME. -/
def Unframed (st st1 : GenState) : Prop :=
  st1.resultmsg = st.resultmsg ∧
  dostList st1 = dostList st ∧
  ∀ g, ∃ d, instrsOf st1 g = instrsOf st g ++ d ∧ pushIds d = []

/-- The state `selfListState` with the counter `dostmts_used` of its
function at 32765, where `_enforce_dostmt_limit_in_func` refuses a further
frame. -/
def limitState : GenState :=
  { selfListState with
    func := [⟨false, [], 0, 0, false, 0, false, 0, 0,
      ⟨1, [], 0, 32765, 0, false, 0⟩⟩] }

/-- The statement `with x as y { }`, `y` in stack slot 0. -/
def withOneClause : Expr :=
  .withstmt noStorage
    [.withclause ⟨true, ⟨.STACKSLOT, 0⟩, -1⟩ (some localX)] []

/-- The `do` branch of visit_in on `doRescueFinally` with the limit
reached. -/
def doAtLimitRun : Res Expr :=
  visitInDo (visit sampleEnv kwInsertionSort 6) (some ⟨0, 0⟩)
    doRescueFinally [(doRescueFinallyFunc, .other)]
    ⟨true, ⟨.STACKSLOT, 0⟩, -1⟩ [callStmtG]
    [.identifierref ⟨true, ⟨.GLOBALCLASSSLOT, 5⟩, -1⟩ "E" false]
    [callStmtG] true [callStmtG] limitState

/-- The `with` branch of visit_in on `withOneClause` with the limit
reached. -/
def withAtLimitRun : Res Expr :=
  visitInWith sampleEnv (visit sampleEnv kwInsertionSort 6) (some ⟨0, 0⟩)
    withOneClause [(doRescueFinallyFunc, .other)] noStorage
    [.withclause ⟨true, ⟨.STACKSLOT, 0⟩, -1⟩ (some localX)] [] limitState

/-- The state in which a step of the lowerer returned 0 (`st` when it did
not return 0). -/
def Res.failedState {α : Type} (st : GenState) : Res α → GenState
  | .fail st1 => st1
  | _ => st

/-! The warning configuration (`warningconfig.c`). -/

/-- The record `h64compilewarnconfig`, with the flags that
`warningconfig.c` reads and writes. -/
structure H64CompileWarnConfig where
  warn_shadowing_direct_locals : Int
  warn_shadowing_parent_func_locals : Int
  warn_shadowing_globals : Int
  warn_unrecognized_escape_sequences : Int
  deriving DecidableEq, Repr

/-- The function `warningconfig_Init`. -/
def warningconfig_Init : H64CompileWarnConfig :=
  { warn_shadowing_direct_locals := 1,
    warn_shadowing_parent_func_locals := 0,
    warn_shadowing_globals := 0,
    warn_unrecognized_escape_sequences := 1 }

/-- The bytes of a C string literal (without the terminating zero). -/
def cString (s : String) : List Nat :=
  s.toList.map Char.toNat

/-- The function `warningconfig_ProcessOption`.  The option is `none` for a
null pointer, else the bytes of the string before its terminating zero.  The
buffer `warning_name` of 64 bytes receives at most 64 bytes of the text after
`-W` and its last byte is set to zero, so it holds the first 63 bytes of that
text at most.  The value pairs the configuration afterwards with the return
value. -/
def warningconfig_ProcessOption (wconfig : H64CompileWarnConfig)
    (option : Option (List Nat)) : H64CompileWarnConfig × Int :=
  match option with
  | none => (wconfig, 0)
  | some opt =>
    if opt.length < (cString "-W").length ∨ opt[0]? ≠ some 45 ∨
        opt[1]? ≠ some 87 then (wconfig, 0)
    else
      let copied := (opt.drop 2).take 63
      let no := decide (copied.length > (cString "no-").length) &&
        decide (copied.take (cString "no-").length = cString "no-")
      let enable_warning : Int := if no then 0 else 1
      let warning_name :=
        if no then copied.drop (cString "no-").length else copied
      if warning_name = cString "shadowing-direct-locals" then
        ({ wconfig with warn_shadowing_direct_locals := enable_warning }, 1)
      else if warning_name = cString "shadowing-parent-func-locals" then
        ({ wconfig with
            warn_shadowing_parent_func_locals := enable_warning }, 1)
      else if warning_name = cString "shadowing-globals" then
        ({ wconfig with warn_shadowing_globals := enable_warning }, 1)
      else if warning_name = cString "shadowing-all" then
        ({ wconfig with
            warn_shadowing_direct_locals := enable_warning,
            warn_shadowing_parent_func_locals := enable_warning,
            warn_shadowing_globals := enable_warning }, 1)
      else if warning_name = cString "unrecognized-escape-sequences" then
        ({ wconfig with
            warn_unrecognized_escape_sequences := enable_warning }, 1)
      else if warning_name = cString "all" then
        ({ wconfig with
            warn_shadowing_direct_locals := enable_warning,
            warn_shadowing_parent_func_locals := enable_warning,
            warn_shadowing_globals := enable_warning,
            warn_unrecognized_escape_sequences := enable_warning }, 1)
      else (wconfig, 0)

/-- The flags of the warning configuration. -/
inductive WarnFlag where
  | shadowing_direct_locals
  | shadowing_parent_func_locals
  | shadowing_globals
  | unrecognized_escape_sequences
  deriving DecidableEq, Repr

/-- The warning names of the claim, each with the flags it denotes. -/
def warningNames : List (String × List WarnFlag) :=
  [("shadowing-direct-locals", [.shadowing_direct_locals]),
   ("shadowing-parent-func-locals", [.shadowing_parent_func_locals]),
   ("shadowing-globals", [.shadowing_globals]),
   ("shadowing-all", [.shadowing_direct_locals,
      .shadowing_parent_func_locals, .shadowing_globals]),
   ("unrecognized-escape-sequences", [.unrecognized_escape_sequences]),
   ("all", [.shadowing_direct_locals, .shadowing_parent_func_locals,
      .shadowing_globals, .unrecognized_escape_sequences])]

/-- Read one flag of the configuration. -/
def H64CompileWarnConfig.flag (w : H64CompileWarnConfig) :
    WarnFlag → Int
  | .shadowing_direct_locals => w.warn_shadowing_direct_locals
  | .shadowing_parent_func_locals => w.warn_shadowing_parent_func_locals
  | .shadowing_globals => w.warn_shadowing_globals
  | .unrecognized_escape_sequences => w.warn_unrecognized_escape_sequences

/-- The configuration of the claim after an accepted option: the flags in
`flags` have the value `v`, every other flag is as in `w`. -/
def FlagsSet (w w1 : H64CompileWarnConfig) (flags : List WarnFlag)
    (v : Int) : Prop :=
  ∀ f : WarnFlag, w1.flag f = if f ∈ flags then v else w.flag f

/-! Repeated final stack calculation (claim C33). -/

/-- A state with one function without arguments whose lowering used one
temporary above its first free slot 1: `lowest_guaranteed_free_temp` is 1
and `max_extra_stack` is 1. -/
def stackSampleState : GenState :=
  { selfListState with
    func := [⟨false, [], 0, 0, false, 0, false, 0, 0,
      ⟨1, [], 1, 0, 0, false, 0⟩⟩] }

/-- The state after `codegen_CalculateFinalFuncStack` was applied once to
`selfListFunc` in `stackSampleState`. -/
def finalStackOnce : GenState :=
  (codegen_CalculateFinalFuncStack selfListFunc stackSampleState).stateOf
    stackSampleState

/-- The state after `codegen_CalculateFinalFuncStack` was applied a second
time. -/
def finalStackTwice : GenState :=
  (codegen_CalculateFinalFuncStack selfListFunc finalStackOnce).stateOf
    finalStackOnce

/-! Bytes literals with zero bytes (claim C34). -/

/-- The statement `x = b"\0\1\2\3\4\5\6\7"`: a bytes literal of eight
bytes whose first byte is zero, assigned to the local variable `x` in stack
slot 0. -/
def zeroBytesAssign : Expr :=
  .assign noStorage .ASSIGN localX
    (.literal noStorage (.bytes [0, 1, 2, 3, 4, 5, 6, 7] 8))

/-- A function definition with id 0, no arguments and the single statement
`zeroBytesAssign`. -/
def zeroBytesFunc : Expr :=
  .funcdef ⟨true, ⟨.GLOBALFUNCSLOT, 0⟩, -1⟩ 0 [] [zeroBytesAssign]

/-- The walk of `zeroBytesFunc`. -/
def zeroBytesRun : Res Expr :=
  visit sampleEnv kwInsertionSort 8 zeroBytesFunc [] selfListState

/-- The recorded `shortbytes_len` of an inline bytes constant. -/
def ValueContent.shortbytesLen : ValueContent → Option Nat
  | .shortbytes len _ => some len
  | _ => Option.none

/-! The result slot of `has_attr` (claim C35). -/

/-- The statement `x = has_attr(x, "add")`, `x` a local variable in stack
slot 0. -/
def hasAttrAssign : Expr :=
  .assign noStorage .ASSIGN localX hasAttrCall

/-- A function definition with id 0, no arguments and the single statement
`hasAttrAssign`. -/
def hasAttrAssignFunc : Expr :=
  .funcdef ⟨true, ⟨.GLOBALFUNCSLOT, 0⟩, -1⟩ 0 [] [hasAttrAssign]

/-- The walk of `hasAttrAssignFunc`. -/
def hasAttrAssignFuncRun : Res Expr :=
  visit sampleEnv kwInsertionSort 8 hasAttrAssignFunc [] selfListState

/-- The `has_attr` branch of visit_in on the call of `hasAttrAssign`, as
right side of the assignment. -/
def hasAttrAssignRun : Res Expr :=
  visitInHasAttr sampleEnv (visit sampleEnv kwInsertionSort 2)
    (some ⟨0, 0⟩) hasAttrCall
    [(hasAttrAssign, .rvalue), (hasAttrAssignFunc, .other)] noStorage
    hasAttrValue hasAttrArgs false false selfListState

/-- The walk of `hasAttrFunc`, whose statement is the call alone. -/
def hasAttrFuncRun : Res Expr :=
  visit sampleEnv kwInsertionSort 8 hasAttrFunc [] selfListState

/-! The integer path of `builtininternals_pow` (`builtininternals.c`). -/

/-- The value `INT64_MIN`. -/
def INT64_MIN : Int := -9223372036854775808

/-- The value `INT64_MAX`. -/
def INT64_MAX : Int := 9223372036854775807

/-- Outcome of the integer path of `builtininternals_pow`: the integer
result, the OverflowError "number range overflow", or a division that C
leaves undefined (by zero, or `INT64_MIN / -1`). -/
inductive PowOutcome where
  | value (int_value : Int)
  | overflowError
  | divisionByZero
  | divisionOverflow
  deriving DecidableEq, Repr

/-- The loop `while (i < exp)` of the integer path, with `n = exp - i`
iterations left and the current `result`.  The product `result * base` is
taken modulo 2^64 (two's complement), the quotient `new / base` truncates
towards zero. -/
def powLoop (base : Int) : Nat → Int → PowOutcome
  | 0, result => .value result
  | n + 1, result =>
    let new := wrapInt64 (result * base)
    if base = 0 then .divisionByZero
    else if new = INT64_MIN ∧ base = -1 then .divisionOverflow
    else if Int.tdiv new base ≠ result then .overflowError
    else powLoop base n new

/-- The integer path of `builtininternals_pow`, taken for `int64_t`
arguments `base` and `exp` with `exp >= 1`: `result = base`, `i = 1`, then
the loop. -/
def builtininternals_pow_int (base exp : Int) : PowOutcome :=
  powLoop base (exp - 1).toNat base

/-- The value is representable as `int64_t`. -/
def inInt64 (x : Int) : Prop := INT64_MIN ≤ x ∧ x ≤ INT64_MAX

instance (x : Int) : Decidable (inInt64 x) := by
  unfold inInt64
  infer_instance

/-! The scan for paks appended to a file (`vfspak.c`). -/

/-- The record `embeddedvfspakinfo`; the `next` pointers are the order of
the list the scan returns. -/
structure EmbeddedVfsPakInfo where
  data_start_offset : Nat
  data_end_offset : Nat
  full_with_header_start_offset : Nat
  full_with_header_end_offset : Nat
  deriving DecidableEq, Repr

/-- The bytes of `magic_pakappend` that `memcmp` reads. -/
def magic_pakappend : List Nat :=
  [0, 255, 0] ++ cString "H64PAKAPPEND_V1" ++ [0, 255, 0]

/-- The value `magiclen`, the `strlen` of a text of the same length as the
magic trailer without zero bytes. -/
def magiclen : Nat :=
  ([1, 255, 1] ++ cString "H64PAKAPPEND_V1" ++ [1, 255, 1]).length

/-- Conversion to `uint64_t`. -/
def wrapUInt64 (x : Int) : Nat :=
  (x % 18446744073709551616).toNat

/-- Outcome of the scan: return value 0, or return value 1 with the list
`*einfo`; the third outcome is the model's recursion bound. -/
inductive PakScan where
  | failed
  | found (einfo : List EmbeddedVfsPakInfo)
  | outOfFuel
  deriving DecidableEq, Repr

/-- The function `_vfs_GetEmbbeddedPakInfoByVFSFile_Do` on the file with the
bytes `file`.  Seeking and the allocation succeed, `vfs_ftell` at the end is
the length of the file, `vfs_fread` succeeds when the 37 bytes lie in the
file.  `loadU64` is the value of eight bytes copied into a `uint64_t` (the
byte order of the machine). -/
def _vfs_GetEmbbeddedPakInfoByVFSFile_Do (loadU64 : List Nat → Nat)
    (file : List Nat) : Nat → Int → PakScan
  | 0, _ => .outOfFuel
  | fuel + 1, end_offset =>
    let file_len : Int := file.length
    if file_len ≤ 0 then .failed
    else
      let end_check := wrapUInt64 (file_len - end_offset)
      if end_check < magiclen + 8 * 2 then .found []
      else
        let comparedata :=
          (file.drop (end_check - magiclen - 8 * 2)).take (magiclen + 8 * 2)
        if comparedata.length ≠ magiclen + 8 * 2 then .failed
        else if (comparedata.drop (8 * 2)).take magiclen ≠ magic_pakappend
        then .found []
        else
          let pak_start := loadU64 (comparedata.take 8) % 18446744073709551616
          let pak_end :=
            loadU64 ((comparedata.drop 8).take 8) % 18446744073709551616
          if pak_end ≠ end_check - magiclen - 8 * 2 ∨ pak_start ≥ pak_end ∨
              wrapUInt64 ((end_check : Int) - pak_start) ≤ 0 then .found []
          else
            match _vfs_GetEmbbeddedPakInfoByVFSFile_Do loadU64 file fuel
                (wrapInt64 (file_len - pak_start)) with
            | .found next_einfo =>
              .found (⟨pak_start, pak_end, pak_start,
                wrapUInt64 ((pak_end : Int) + magiclen + 8 * 2)⟩ ::
                next_einfo)
            | .failed => .failed
            | .outOfFuel => .outOfFuel

/-- The value of eight bytes read as a little-endian number. -/
def loadU64LE : List Nat → Nat
  | [] => 0
  | b :: rest => b + 256 * loadU64LE rest

/-- The claim's condition for a pak at the end of the prefix of length `e`:
the prefix has at least 37 bytes, its last 21 bytes are the magic trailer,
the end offset stored in front of the trailer is `e - 37` and the stored
start offset is smaller than the stored end offset. -/
def PakTrailerAt (loadU64 : List Nat → Nat) (file : List Nat) (e : Nat) :
    Prop :=
  37 ≤ e ∧
  ((file.take e).drop (e - 21)) = magic_pakappend ∧
  loadU64 (((file.take e).drop (e - 29)).take 8) % 18446744073709551616 =
    e - 37 ∧
  loadU64 (((file.take e).drop (e - 37)).take 8) % 18446744073709551616 <
    loadU64 (((file.take e).drop (e - 29)).take 8) % 18446744073709551616

instance (loadU64 : List Nat → Nat) (file : List Nat) (e : Nat) :
    Decidable (PakTrailerAt loadU64 file e) := by
  unfold PakTrailerAt
  infer_instance

/-- The claim's condition on the list returned for the prefix of length `e`:
every entry has `data_start_offset < data_end_offset` and
`full_with_header_end_offset = data_end_offset + 37`, the first entry ends
at `e` and each following entry ends at the `data_start_offset` of the one
before it. -/
def PakChain : Nat → List EmbeddedVfsPakInfo → Prop
  | _, [] => True
  | e, i :: rest =>
    i.data_start_offset < i.data_end_offset ∧
    i.full_with_header_end_offset = i.data_end_offset + 37 ∧
    i.full_with_header_end_offset = e ∧
    PakChain i.data_start_offset rest

/-- The eight bytes of a number below 256 in little-endian order. -/
def u64Bytes (n : Nat) : List Nat := [n, 0, 0, 0, 0, 0, 0, 0]

/-- A file of 76 bytes with two appended paks: one byte of data and the
trailer for the offsets 0 and 1, then one byte of data and the trailer for
the offsets 38 and 39. -/
def twoPakFile : List Nat :=
  [7] ++ u64Bytes 0 ++ u64Bytes 1 ++ magic_pakappend ++
  [9] ++ u64Bytes 38 ++ u64Bytes 39 ++ magic_pakappend

/-! String literals (`lexer_ParseStringLiteral` in `lexer.c`). -/

/-- The functions of `widechar.c` that `lexer_ParseStringLiteral` calls:
`utf8_char_len` on the bytes from `literal[i]` on, and
`write_codepoint_as_utf8` with its return value and the bytes it wrote
(`utf8buflen` is their number). -/
structure StringLitFuncs where
  utf8_char_len : List Nat → Int
  write_codepoint_as_utf8 : Int → Bool × List Nat

/-- The locals of the loop of `lexer_ParseStringLiteral`: the index `i`,
the bytes `p[0..k)` written so far, `line`, `column`, and the result
container. -/
structure StrLitState where
  i : Nat
  out : List Nat
  line : Int
  column : Int
  resultmsg : H64Result
  deriving DecidableEq, Repr

/-- Outcome of one iteration of the loop. -/
inductive StrLitStep where
  | next (s : StrLitState)
  | assertFailed
  deriving DecidableEq, Repr

/-- The test for a hexadecimal digit of the `\u` and `\x` branches. -/
def isHexByte (c : Nat) : Bool :=
  decide (48 ≤ c ∧ c ≤ 57) || decide (97 ≤ c ∧ c ≤ 102) ||
    decide (65 ≤ c ∧ c ≤ 70)

/-- The value of a hexadecimal digit. -/
def hexDigitValue (c : Nat) : Nat :=
  if 48 ≤ c ∧ c ≤ 57 then c - 48
  else if 97 ≤ c ∧ c ≤ 102 then c - 87
  else c - 55

/-- The value `strtoll(digits, NULL, 16)` of a text of hexadecimal
digits. -/
def hexValue (digits : List Nat) : Nat :=
  digits.foldl (fun a c => 16 * a + hexDigitValue c) 0

/-- The loop of the `\u` branch that collects up to eight hexadecimal
digits: `n` is the number of digits that still fit, the value is the new
index and the digits. -/
def collectHexDigits (literal : List Nat) (limit : Int) :
    Nat → Nat → List Nat → Nat × List Nat
  | 0, i, digits => (i, digits)
  | n + 1, i, digits =>
    if (i : Int) < limit ∧ isHexByte (literal.getD i 0) = true then
      collectHexDigits literal limit n (i + 1)
        (digits ++ [literal.getD i 0])
    else (i, digits)

/-- The tag at the end of the warnings about escape sequences. -/
def escapeTag : String := "[-Wunrecognized-escape-sequences]"

/-- The text `s` of the warning about an unrecognized escape: `byte %d` of
the (signed) `char`, or the character in quotes when it is printable and no
apostrophe. -/
def escapeByteText (c : Nat) : String :=
  if 32 ≤ c ∧ c < 127 ∧ c ≠ 39 then
    String.mk [Char.ofNat 39, Char.ofNat c, Char.ofNat 39]
  else "byte " ++ toString (if c < 128 then (c : Int) else (c : Int) - 256)

/-- The warning of the `\u` branch for fewer than four digits. -/
def shortUnicodeEscapeMsg : String :=
  "invalid escape \"\\u\" not followed by hex number of at least 4 digits was ignored " ++
    escapeTag

/-- The warning of the `\u` branch for a code point that cannot be
written. -/
def badUnicodeEscapeMsg : String :=
  "invalid escape \"\\u\" not followed by a valid unicode code point " ++
    escapeTag

/-- The warning of the `\x` branch without a digit. -/
def badByteEscapeMsg : String :=
  "invalid escape \"\\x\" not followed by hex number was ignored " ++
    escapeTag

/-- The warning for any other escape. -/
def unrecognizedEscapeMsg (c : Nat) : String :=
  "unrecognized escape sequence " ++
    String.mk [Char.ofNat 39, Char.ofNat 92, Char.ofNat 39] ++
    " followed by " ++ escapeByteText c ++ " was ignored " ++ escapeTag

/-- One iteration of the loop `while (i < (int)strlen(literal) - 1)` of
`lexer_ParseStringLiteral`, the result container not null.  `literal` are
the bytes of the literal before its terminating zero, quotes included;
`p[0..k)` is the list `out`, so that the byte `p[k - 1]` read in the line
break branch is the last byte of `out`; `plen` is the length of the copy
`p`. -/
def strLitStep (fn : StringLitFuncs)
    (wconfig : Option H64CompileWarnConfig) (literal : List Nat)
    (isbinary : Bool) (s : StrLitState) : StrLitStep :=
  let len : Int := literal.length
  let plen : Int := (literal.drop (1 + (if isbinary then 1 else 0))).length
  let c := literal.getD s.i 0
  let charlen : Int :=
    if isbinary then 1 else fn.utf8_char_len (literal.drop s.i)
  if charlen ≤ 0 then .assertFailed
  else if c ≠ 92 then
    if c = 10 ∨ c = 13 then
      let out1 := s.out ++ [10]
      let i1 := s.i + 1
      let i2 :=
        if out1.getD (out1.length - 1) 0 = 13 ∧ (i1 : Int) < len - 1 ∧
            literal.getD i1 0 = 10 then i1 + 1
        else i1
      .next { s with i := i2, out := out1, line := s.line + 1, column := 1 }
    else if (s.out.length : Int) + charlen > plen then .assertFailed
    else
      .next { s with
        i := s.i + charlen.toNat,
        out := s.out ++
          (List.range charlen.toNat).map (fun j => literal.getD (s.i + j) 0),
        column := s.column + 1 }
  else if (s.i : Int) + 1 < len - 1 then
    let e := literal.getD (s.i + 1) 0
    let simple (b : Nat) : StrLitStep :=
      .next { s with i := s.i + 2, out := s.out ++ [b],
                     column := s.column + 2 }
    if e = 110 then simple 10
    else if e = 114 then simple 13
    else if e = 116 then simple 9
    else if e = 92 then simple 92
    else if e = 34 then simple 34
    else if e = 39 then simple 39
    else if e = 117 then
      let r := collectHexDigits literal (len - 1) 8 (s.i + 2) []
      let numdigits := r.2
      let _columnlen : Int := 1 + numdigits.length
      if numdigits.length < 4 then
        .next { s with
          i := r.1,
          column := s.column + 1 + _columnlen,
          resultmsg :=
            result_AddMessage s.resultmsg .warning shortUnicodeEscapeMsg }
      else
        let number : Int := hexValue numdigits
        if number < 0 ∨ number > 4294967295 then .assertFailed
        else
          let w := fn.write_codepoint_as_utf8 number
          if !w.1 ∨ w.2.length ≤ 0 ∨ w.2.length ≥ 10 then
            .next { s with
              i := r.1,
              column := s.column + 1 + _columnlen,
              resultmsg :=
                result_AddMessage s.resultmsg .warning badUnicodeEscapeMsg }
          else if (s.out.length : Int) + w.2.length > plen then
            .assertFailed
          else
            .next { s with
              i := r.1,
              out := s.out ++ w.2,
              column := s.column + 1 + _columnlen }
    else if e = 120 then
      let i1 := s.i + 1
      let d1 : List Nat :=
        if (i1 : Int) + 1 < len - 1 ∧
            isHexByte (literal.getD (i1 + 1) 0) = true then
          [literal.getD (i1 + 1) 0]
        else []
      let i2 := i1 + d1.length
      let d2 : List Nat :=
        if d1 ≠ [] ∧ (i2 : Int) + 1 < len - 1 ∧
            isHexByte (literal.getD (i2 + 1) 0) = true then
          [literal.getD (i2 + 1) 0]
        else []
      let hexnum := d1 ++ d2
      let i3 := i2 + d2.length
      let _columnextralen : Int := hexnum.length
      if hexnum.length = 0 then
        .next { s with
          i := i3 + 1,
          column := s.column + 1 + _columnextralen + 1,
          resultmsg :=
            result_AddMessage s.resultmsg .warning badByteEscapeMsg }
      else
        let number : Int := hexValue hexnum
        if number < 0 ∨ number ≥ 256 then .assertFailed
        else if (s.out.length : Int) ≥ plen then .assertFailed
        else
          .next { s with
            i := i3 + 1,
            out := s.out ++ [hexValue hexnum],
            column := s.column + 1 + _columnextralen + 1 }
    else
      let warn : Bool :=
        match wconfig with
        | some w => decide (w.warn_unrecognized_escape_sequences ≠ 0)
        | none => false
      .next { s with
        i := s.i + 2,
        out := s.out ++ [92],
        column := s.column + 2,
        resultmsg :=
          if warn then
            result_AddMessage s.resultmsg .warning (unrecognizedEscapeMsg e)
          else s.resultmsg }
  else if (s.out.length : Int) ≥ plen then .assertFailed
  else
    .next { s with i := s.i + 1, out := s.out ++ [92],
                   column := s.column + 1 }

/-- Outcome of `lexer_ParseStringLiteral`: the returned string `p` with
`*out_len` (and the values of the locals `line` and `column` and the result
container at the end), or a violated assertion; the third outcome is the
model's bound on the iterations. -/
inductive StrLitOutcome where
  | done (p : List Nat) (out_len : Nat) (line column : Int)
      (resultmsg : H64Result)
  | assertFailed
  | outOfFuel
  deriving DecidableEq, Repr

/-- The loop of `lexer_ParseStringLiteral` and the statements after it. -/
def strLitLoop (fn : StringLitFuncs)
    (wconfig : Option H64CompileWarnConfig) (literal : List Nat)
    (isbinary : Bool) : Nat → StrLitState → StrLitOutcome
  | 0, _ => .outOfFuel
  | fuel + 1, s =>
    if (s.i : Int) < (literal.length : Int) - 1 then
      match strLitStep fn wconfig literal isbinary s with
      | .next s1 => strLitLoop fn wconfig literal isbinary fuel s1
      | .assertFailed => .assertFailed
    else if (s.out.length : Int) >
        (literal.drop (1 + (if isbinary then 1 else 0))).length then
      .assertFailed
    else .done s.out s.out.length s.line s.column s.resultmsg

/-- The function `lexer_ParseStringLiteral` (the copy `strdup` assumed to
succeed, the result container not null). -/
def lexer_ParseStringLiteral (fn : StringLitFuncs) (literal : List Nat)
    (line column : Int) (isbinary : Bool) (result : H64Result)
    (wconfig : Option H64CompileWarnConfig) : StrLitOutcome :=
  strLitLoop fn wconfig literal isbinary (literal.length + 1)
    ⟨1 + (if isbinary then 1 else 0), [], line, column, result⟩

/-- Whether a diagnostic is a warning whose text ends in the tag
`[-Wunrecognized-escape-sequences]`. -/
def Message.escapeTagged (m : Message) : Bool :=
  decide (m.type = .warning) &&
    escapeTag.toList.isSuffixOf m.message.toList

/-- The diagnostics of the outcome of `lexer_ParseStringLiteral`. -/
def StrLitOutcome.messages : StrLitOutcome → List Message
  | .done _ _ _ _ r => r.message
  | _ => []

/-- Functions for sample runs: every character is one byte long and a code
point below 128 is written as one byte. -/
def sampleStringLitFuncs : StringLitFuncs :=
  ⟨fun _ => 1, fun n => if 0 ≤ n ∧ n < 128 then (true, [n.toNat])
    else (false, [])⟩

/-- The configuration after `-Wno-unrecognized-escape-sequences`. -/
def noEscapeWarnings : H64CompileWarnConfig :=
  (warningconfig_ProcessOption warningconfig_Init
    (some (cString "-Wno-unrecognized-escape-sequences"))).1

/-! The loop stack along the tree walk. -/

/-- Between two states the loop stack did not change. -/
def LoopsKept (st st1 : GenState) : Prop :=
  st1.loops = st.loops

/-- The walk `visit` for states whose loop stack is `L` only: entered in a
state with another loop stack it is aborted. -/
def guardLoops (L : List LoopIds) (visit : Visitor) : Visitor :=
  fun e ctx st => if st.loops = L then visit e ctx st else .assertFailed

/-- Started in a state whose loop stack is `L`, every run of the step `m`
that returns 1 is a run of the step `m'` too, and it ends in a state whose
loop stack is `L`. -/
def LoopSim {α : Type} (L : List LoopIds) (m m' : Gen α) : Prop :=
  ∀ st st1 a, st.loops = L → m st = .ok st1 a →
    m' st = .ok st1 a ∧ st1.loops = L

/-- Whether the node is a `while` or a `for` statement. -/
def Expr.isLoop : Expr → Bool
  | .whilestmt .. => true
  | .forstmt .. => true
  | _ => false

/-- The sequence `d` is what a run of the visit of `child`, a child of
`expr` in function `self`, appends to the buffer of `self`; `c` is the node
the visit returns. -/
def ChildCode (visit : Visitor) (self : FuncRef) (expr : Expr) (ctx : Ctx)
    (child c : Expr) (d : List Inst) : Prop :=
  ∃ st st1, visitChild visit expr ctx .other child st = .ok st1 c ∧
    instrsOf st1 self.bytecode_func_id.toNat =
      instrsOf st self.bytecode_func_id.toNat ++ d

/-- The sequence `d` is what a run of the loop over the statements `stmts`
of the loop statement `expr`, in function `self`, appends to the buffer of
`self`. -/
def LoopBodyCode (visit : Visitor) (self : FuncRef) (expr : Expr) (ctx : Ctx)
    (stmts : List Expr) (d : List Inst) : Prop :=
  ∃ st st1 r, visitStmts visit expr ctx stmts st = .ok st1 r ∧
    instrsOf st1 self.bytecode_func_id.toNat =
      instrsOf st self.bytecode_func_id.toNat ++ d

/-- The sequence `d` is what a run of the visit of the iterated container
`child` of the `for` statement `expr`, in function `self`, appends to the
buffer of `self`; `c` is the node the visit returns. -/
def ContainerCode (visit : Visitor) (self : FuncRef) (expr : Expr)
    (ctx : Ctx) (child c : Expr) (d : List Inst) : Prop :=
  ∃ st st1,
    visitChildOom visit (child.setEvalTemp (-1)) ((expr, .other) :: ctx) st =
      .ok st1 c ∧
    instrsOf st1 self.bytecode_func_id.toNat =
      instrsOf st self.bytecode_func_id.toNat ++ d

/-- Whether the node is a `break` or a `continue` statement. -/
def Expr.isLoopJump : Expr → Bool
  | .breakstmt .. => true
  | .continuestmt .. => true
  | _ => false

/-- The statement `while x { if x { break } for x in x { continue break }
continue }`, `x` a local variable in stack slot 0. -/
def loopSample : Expr :=
  .whilestmt noStorage localX
    [.ifstmt noStorage (some localX) [.breakstmt noStorage] [],
      .forstmt ⟨true, ⟨.STACKSLOT, 0⟩, -1⟩ localX
        [.continuestmt noStorage, .breakstmt noStorage],
      .continuestmt noStorage]

/-- A function definition with id 0, no arguments and the single statement
`loopSample`. -/
def loopSampleFunc : Expr :=
  .funcdef ⟨true, ⟨.GLOBALFUNCSLOT, 0⟩, -1⟩ 0 [] [loopSample]

/-- The walk of `loopSample` inside its function. -/
def loopSampleRun : Res Expr :=
  visit sampleEnv kwInsertionSort (3 + 1) loopSample
    [(loopSampleFunc, .other)] selfListState

/-! Theorems. -/

/-! Finaliser: the label walk. -/

theorem extractJumpTargets_fst (sz : InstType → Nat) (l : List Inst) :
    ∀ k, (extractJumpTargets sz k l).1 = stripJumpTargets l := by
  unfold stripJumpTargets
  induction l with
  | nil => intro k; rfl
  | cons inst rest ih =>
    intro k
    cases h : inst.jumpTargetId with
    | none => simp [extractJumpTargets, h, ih]
    | some j => simp [extractJumpTargets, h, ih]

theorem extractJumpTargets_offset_nonneg (sz : InstType → Nat)
    (l : List Inst) :
    ∀ k, ∀ e ∈ (extractJumpTargets sz k l).2, 0 ≤ e.offset := by
  induction l with
  | nil => intro k e he; simp [extractJumpTargets] at he
  | cons inst rest ih =>
    intro k e he
    cases h : inst.jumpTargetId with
    | none =>
      simp only [extractJumpTargets, h] at he
      exact ih _ e he
    | some j =>
      simp only [extractJumpTargets, h, List.mem_cons] at he
      rcases he with rfl | he
      · simp
      · exact ih _ e he

theorem lookupJumpTarget_neg_iff (jumpid : Int) (tbl : List JumpInfo)
    (h : ∀ e ∈ tbl, 0 ≤ e.offset) :
    lookupJumpTarget jumpid tbl < 0 ↔ ∀ e ∈ tbl, e.jumpid ≠ jumpid := by
  induction tbl with
  | nil => simp [lookupJumpTarget]
  | cons e rest ih =>
    have h1 := h e (List.mem_cons_self _ _)
    have h2 : ∀ e ∈ rest, 0 ≤ e.offset :=
      fun x hx => h x (List.mem_cons_of_mem _ hx)
    by_cases he : e.jumpid = jumpid
    · simp [lookupJumpTarget, he]; omega
    · simp [lookupJumpTarget, he, ih h2]

theorem stripJumpTargets_mem (l : List Inst) :
    ∀ inst ∈ stripJumpTargets l, inst.jumpTargetId = none := by
  intro inst h
  unfold stripJumpTargets at h
  have := (List.mem_filter.mp h).2
  simpa using this

theorem stripJumpTargets_id (l : List Inst)
    (h : ∀ inst ∈ l, inst.jumpTargetId = none) : stripJumpTargets l = l := by
  unfold stripJumpTargets
  apply List.filter_eq_self.mpr
  intro a ha
  simp [h a ha]

theorem clearJumpImm_type (inst : Inst) :
    inst.clearJumpImm.type = inst.type := by
  cases inst <;> rfl

theorem clearJumpImm_jumpTargetId (inst : Inst) :
    inst.clearJumpImm.jumpTargetId = inst.jumpTargetId := by
  cases inst <;> rfl

theorem storeJumpOffset_clear (o : Int) (inst inst1 : Inst)
    (h : storeJumpOffset o inst = some inst1) :
    inst1.clearJumpImm = inst.clearJumpImm := by
  cases inst <;> simp [storeJumpOffset] at h <;> subst h <;> rfl

theorem storeJumpOffset2_clear (o : Int) (inst inst1 : Inst)
    (h : storeJumpOffset2 o inst = some inst1) :
    inst1.clearJumpImm = inst.clearJumpImm := by
  cases inst <;> simp [storeJumpOffset2] at h <;> subst h <;> rfl

theorem resolveAndStore_done (store : Int → Inst → Option Inst)
    (res : H64Result) (tbl : List JumpInfo) (k : Nat) (j : Int)
    (inst inst1 : Inst)
    (h : resolveAndStore store res tbl k j inst = .done inst1) :
    ∃ o, (_resolve_jumpid_to_jumpoffset res j k tbl).2 = some o ∧
      store o inst = some inst1 := by
  unfold resolveAndStore at h
  split at h
  · simp at h
  · rename_i r o hr
    split at h
    · rename_i i2 hs
      simp at h
      subst h
      exact ⟨o, by rw [hr], hs⟩
    · simp at h

theorem rewriteInst_done_clear (res : H64Result) (tbl : List JumpInfo)
    (k : Nat) (inst inst1 : Inst)
    (h : rewriteInst res tbl k inst = .done inst1) :
    inst1.clearJumpImm = inst.clearJumpImm := by
  unfold rewriteInst at h
  split at h
  · simp at h; rw [h]
  · simp at h
  · rename_i j1 j2 hr
    split at h
    · simp at h
    · split at h
      · rename_i i1 hfirst
        have h1 : i1.clearJumpImm = inst.clearJumpImm := by
          split at hfirst
          · obtain ⟨o, _, hs⟩ := resolveAndStore_done _ _ _ _ _ _ _ hfirst
            exact storeJumpOffset_clear _ _ _ hs
          · simp at hfirst; rw [hfirst]
        split at h
        · obtain ⟨o, _, hs⟩ := resolveAndStore_done _ _ _ _ _ _ _ h
          rw [storeJumpOffset2_clear _ _ _ hs, h1]
        · simp at h; rw [← h, h1]
      · rename_i hne
        exact absurd h (hne inst1)

theorem rewriteJumps_done_clear (sz : InstType → Nat) (res : H64Result)
    (tbl : List JumpInfo) (l : List Inst) :
    ∀ k r, rewriteJumps sz res tbl k l = .done r →
      r.map Inst.clearJumpImm = l.map Inst.clearJumpImm := by
  induction l with
  | nil => intro k r h; simp [rewriteJumps] at h; subst h; rfl
  | cons inst rest ih =>
    intro k r h
    unfold rewriteJumps at h
    split at h
    · rename_i inst1 h1
      split at h
      · rename_i r1 hr
        simp at h
        subst h
        simp [rewriteInst_done_clear _ _ _ _ _ h1, ih _ _ hr]
      · simp at h
      · simp at h
    · simp at h
    · simp at h

theorem rewriteJumps_no_jumps (sz : InstType → Nat) (res : H64Result)
    (tbl : List JumpInfo) (l : List Inst)
    (h : ∀ inst ∈ l, readJumpIds inst = .notAJump) :
    ∀ k, rewriteJumps sz res tbl k l = .done l := by
  induction l with
  | nil => intro k; rfl
  | cons inst rest ih =>
    intro k
    have h1 : rewriteInst res tbl k inst = .done inst := by
      unfold rewriteInst
      rw [h inst (List.mem_cons_self _ _)]
    have h2 := ih (fun x hx => h x (List.mem_cons_of_mem _ hx))
    simp [rewriteJumps, h1, h2]

/-- What the two jump loops leave of a function when they run to the end. -/
theorem resolveFuncJumps_done (sz : InstType → Nat) (res : H64Result)
    (f f1 : H64Func) (h : resolveFuncJumps sz res f = .done f1) :
    (f.iscfunc = true → f1 = f) ∧
    (f.iscfunc = false →
      ∃ body, f1 = { f with instructions := body } ∧
        body.map Inst.clearJumpImm =
          (stripJumpTargets f.instructions).map Inst.clearJumpImm) := by
  unfold resolveFuncJumps at h
  split at h
  · rename_i hc
    simp at h
    subst h
    exact ⟨fun _ => rfl, fun hf => by simp [hf] at hc⟩
  · rename_i hc
    refine ⟨fun hf => absurd hf hc, fun _ => ?_⟩
    simp only [extractJumpTargets_fst] at h
    split at h
    · rename_i insts hr
      simp at h
      exact ⟨insts, h.symm, rewriteJumps_done_clear _ _ _ _ _ _ hr⟩
    · simp at h
    · simp at h

theorem resolveAllJumps_done (sz : InstType → Nat) (res : H64Result)
    (fs : List H64Func) :
    ∀ gs, resolveAllJumps sz res fs = .done gs →
      List.Forall₂ (fun f g => resolveFuncJumps sz res f = .done g) fs gs := by
  induction fs with
  | nil => intro gs h; simp [resolveAllJumps] at h; subst h; exact .nil
  | cons f rest ih =>
    intro gs h
    unfold resolveAllJumps at h
    split at h
    · rename_i f1 h1
      split at h
      · rename_i r hr
        simp at h
        subst h
        exact .cons h1 (ih _ hr)
      · simp at h
      · simp at h
    · simp at h
    · simp at h

theorem map_clear_mem_jumpTargetId (a b : List Inst)
    (h : a.map Inst.clearJumpImm = b.map Inst.clearJumpImm)
    (hb : ∀ inst ∈ b, inst.jumpTargetId = none) :
    ∀ inst ∈ a, inst.jumpTargetId = none := by
  induction a generalizing b with
  | nil => intro inst hi; simp at hi
  | cons x xs ih =>
    cases b with
    | nil => simp at h
    | cons y ys =>
      simp only [List.map_cons, List.cons.injEq] at h
      intro inst hi
      rcases List.mem_cons.mp hi with rfl | hi
      · rw [← clearJumpImm_jumpTargetId, h.1, clearJumpImm_jumpTargetId]
        exact hb y (List.mem_cons_self _ _)
      · exact ih ys h.2 (fun i hi2 => hb i (List.mem_cons_of_mem _ hi2)) inst hi

theorem map_clear_type (a b : List Inst)
    (h : a.map Inst.clearJumpImm = b.map Inst.clearJumpImm) :
    a.map Inst.type = b.map Inst.type := by
  have := congrArg (List.map Inst.type) h
  simpa [List.map_map, Function.comp_def, clearJumpImm_type] using this

theorem rewriteInst_done_type (res : H64Result) (tbl : List JumpInfo)
    (k : Nat) (inst inst1 : Inst)
    (h : rewriteInst res tbl k inst = .done inst1) :
    inst1.type = inst.type := by
  rw [← clearJumpImm_type inst1, rewriteInst_done_clear _ _ _ _ _ h,
    clearJumpImm_type]

theorem rewriteInst_done_resolved (res : H64Result) (tbl : List JumpInfo)
    (k : Nat) (inst inst1 : Inst) (j1 j2 : Int)
    (h : rewriteInst res tbl k inst = .done inst1)
    (hids : readJumpIds inst = .ids j1 j2) :
    (0 ≤ j1 → (_resolve_jumpid_to_jumpoffset res j1 k tbl).2 ≠ none) ∧
    (0 ≤ j2 → (_resolve_jumpid_to_jumpoffset res j2 k tbl).2 ≠ none) := by
  unfold rewriteInst at h
  rw [hids] at h
  simp only at h
  split at h
  · simp at h
  · split at h
    · rename_i i1 hfirst
      constructor
      · intro hj
        rw [if_pos hj] at hfirst
        obtain ⟨o, ho, _⟩ := resolveAndStore_done _ _ _ _ _ _ _ hfirst
        simp [ho]
      · intro hj
        rw [if_pos hj] at h
        obtain ⟨o, ho, _⟩ := resolveAndStore_done _ _ _ _ _ _ _ h
        simp [ho]
    · rename_i hne
      exact absurd h (hne inst1)

theorem rewriteJumps_done_resolved (sz : InstType → Nat) (res : H64Result)
    (tbl : List JumpInfo) (inst : Inst) (post : List Inst) (j1 j2 : Int)
    (hids : readJumpIds inst = .ids j1 j2) (pre : List Inst) :
    ∀ k r, rewriteJumps sz res tbl k (pre ++ inst :: post) = .done r →
      (0 ≤ j1 → (_resolve_jumpid_to_jumpoffset res j1
          ((k + bytesOf sz pre : Nat) : Int) tbl).2 ≠ none) ∧
      (0 ≤ j2 → (_resolve_jumpid_to_jumpoffset res j2
          ((k + bytesOf sz pre : Nat) : Int) tbl).2 ≠ none) := by
  induction pre with
  | nil =>
    intro k r h
    simp only [List.nil_append] at h
    unfold rewriteJumps at h
    split at h
    · rename_i inst1 h1
      simpa [bytesOf] using rewriteInst_done_resolved _ _ _ _ _ _ _ h1 hids
    · simp at h
    · simp at h
  | cons x xs ih =>
    intro k r h
    simp only [List.cons_append] at h
    unfold rewriteJumps at h
    split at h
    · rename_i x1 h1
      split at h
      · rename_i r1 hr
        have := ih _ _ hr
        have ht : instSize sz x1 = instSize sz x := by
          unfold instSize; rw [rewriteInst_done_type _ _ _ _ _ h1]
        rw [ht] at this
        have e : k + instSize sz x + bytesOf sz xs = k + bytesOf sz (x :: xs) := by
          simp [bytesOf]; omega
        rw [e] at this
        exact this
      · simp at h
      · simp at h
    · simp at h
    · simp at h

theorem resolveAndStore_failed_success (res : H64Result)
    (tbl : List JumpInfo) (k : Nat) (j : Int) (inst i1 : Inst)
    (res1 : H64Result) (store : Int → Inst → Option Inst)
    (hs : ∀ o, store o inst ≠ none)
    (h : resolveAndStore store res tbl k j inst = .failed res1 i1) :
    res1.success = false := by
  unfold resolveAndStore at h
  split at h
  · simp at h; rw [← h.1]
  · rename_i o _
    split at h
    · simp at h
    · rename_i hn
      exact absurd hn (hs o)

theorem readJumpIds_store (inst : Inst) (j1 j2 : Int)
    (h : readJumpIds inst = .ids j1 j2) (o : Int) :
    storeJumpOffset o inst ≠ none := by
  cases inst <;> simp [readJumpIds] at h <;> simp [storeJumpOffset]

theorem readJumpIds_store2 (inst : Inst) (j1 j2 : Int)
    (h : readJumpIds inst = .ids j1 j2) (hj : 0 ≤ j2) (o : Int) :
    storeJumpOffset2 o inst ≠ none := by
  cases inst <;> simp [readJumpIds] at h <;>
    first
    | (exfalso; obtain ⟨_, h2⟩ := h; omega)
    | simp [storeJumpOffset2]

theorem storeJumpOffset_store2 (inst i1 : Inst) (o o2 : Int)
    (h : storeJumpOffset o inst = some i1)
    (h2 : storeJumpOffset2 o2 inst ≠ none) : storeJumpOffset2 o2 i1 ≠ none := by
  cases inst <;> simp [storeJumpOffset] at h <;> subst h <;>
    simp_all [storeJumpOffset2]

theorem rewriteInst_failed_success (res : H64Result) (tbl : List JumpInfo)
    (k : Nat) (inst i1 : Inst) (res1 : H64Result)
    (h : rewriteInst res tbl k inst = .failed res1 i1) :
    res1.success = false := by
  unfold rewriteInst at h
  split at h
  · simp at h
  · simp at h
  · rename_i j1 j2 hids
    split at h
    · simp at h
    · split at h
      · rename_i x hfirst
        split at h
        · rename_i hj2
          refine resolveAndStore_failed_success _ _ _ _ _ _ _ _ ?_ h
          intro o2
          split at hfirst
          · obtain ⟨o, _, hs⟩ := resolveAndStore_done _ _ _ _ _ _ _ hfirst
            exact storeJumpOffset_store2 _ _ _ _ hs
              (readJumpIds_store2 _ _ _ hids hj2 o2)
          · simp at hfirst
            subst hfirst
            exact readJumpIds_store2 _ _ _ hids hj2 o2
        · simp at h
      · rename_i hne
        split at h
        · exact resolveAndStore_failed_success _ _ _ _ _ _ _ _
            (readJumpIds_store _ _ _ hids) h
        · simp at h

theorem rewriteJumps_failed_success (sz : InstType → Nat) (res : H64Result)
    (tbl : List JumpInfo) (l : List Inst) :
    ∀ k res1 r, rewriteJumps sz res tbl k l = .failed res1 r →
      res1.success = false := by
  induction l with
  | nil => intro k res1 r h; simp [rewriteJumps] at h
  | cons inst rest ih =>
    intro k res1 r h
    unfold rewriteJumps at h
    split at h
    · split at h
      · simp at h
      · rename_i hr
        simp at h
        rw [← h.1]
        exact ih _ _ _ hr
      · simp at h
    · rename_i h1
      simp at h
      rw [← h.1]
      exact rewriteInst_failed_success _ _ _ _ _ _ h1
    · simp at h

theorem resolveFuncJumps_failed_success (sz : InstType → Nat)
    (res res1 : H64Result) (f g : H64Func)
    (h : resolveFuncJumps sz res f = .failed res1 g) :
    res1.success = false := by
  unfold resolveFuncJumps at h
  split at h
  · simp at h
  · simp only at h
    split at h
    · simp at h
    · rename_i hr
      simp at h
      rw [← h.1]
      exact rewriteJumps_failed_success _ _ _ _ _ _ _ hr
    · simp at h

theorem resolveAllJumps_failed_success (sz : InstType → Nat)
    (res : H64Result) (fs : List H64Func) :
    ∀ res1 gs, resolveAllJumps sz res fs = .failed res1 gs →
      res1.success = false := by
  induction fs with
  | nil => intro res1 gs h; simp [resolveAllJumps] at h
  | cons f rest ih =>
    intro res1 gs h
    unfold resolveAllJumps at h
    split at h
    · split at h
      · simp at h
      · rename_i hr
        simp at h
        rw [← h.1]
        exact ih _ _ hr
      · simp at h
    · rename_i h1
      simp at h
      rw [← h.1]
      exact resolveFuncJumps_failed_success _ _ _ _ _ h1
    · simp at h

theorem resolveAllJumps_done_mem (sz : InstType → Nat) (res : H64Result)
    (fs gs : List H64Func) (h : resolveAllJumps sz res fs = .done gs)
    (f : H64Func) (hf : f ∈ fs) :
    ∃ g, resolveFuncJumps sz res f = .done g := by
  have := resolveAllJumps_done sz res fs gs h
  clear h
  induction this with
  | nil => simp at hf
  | cons hfg _ ih =>
    rcases List.mem_cons.mp hf with rfl | hf
    · exact ⟨_, hfg⟩
    · exact ih hf

/-! Claims about the finaliser. -/

/-- C1 (the code departs from the claim): the buffer of
`func f(c) { if c { return 1 } }` ends with a `JUMP_TARGET`, not with a
`RETURN_VALUE`, before the pass; the finaliser succeeds and appends nothing,
because it looks for the trailing `RETURN_VALUE` only after the labels are
spliced out. -/
theorem C1_trailing_label_gets_no_default_return :
    NoRecordedError ifReturnProject ∧
    ifReturnCode.getLast?.map Inst.isReturnValue = some false ∧
    codegen_FinalBytecodeTransform sampleSize ifReturnProject =
      .returned 1 ⟨⟨true, []⟩,
        [⟨false, [.condjump 0 54, .setconst 1 (.int 1), .returnvalue 1],
          1, 1⟩]⟩ := by
  decide

/-- C2 (the code departs from the claim): after the successful finalisation
of `func f(c) { if c { return 1 } }` the `CONDJUMP` at byte offset 0 carries a
non-zero immediate `d` with `0 + d = instructions_bytes`: the jump lands one
past the last instruction, not on the start of an instruction. -/
theorem C2_jump_lands_past_last_instruction :
    ∃ g d, codegen_FinalBytecodeTransform sampleSize ifReturnProject =
        .returned 1 ⟨⟨true, []⟩, [g]⟩ ∧
      g.instructions.head? = some (.condjump 0 d) ∧ d ≠ 0 ∧
      (0 : Int) + d = bytesOf sampleSize g.instructions := by
  refine ⟨⟨false, [.condjump 0 54, .setconst 1 (.int 1), .returnvalue 1],
    1, 1⟩, 54, ?_, ?_, ?_, ?_⟩ <;> decide

/-- C3 (the code departs from the claim): a jump at byte offset 0 whose label
lies 40000 bytes ahead is accepted by `_resolve_jumpid_to_jumpoffset`, and the
stored 16-bit immediate is -25536, not 40000. -/
theorem C3_accepted_offset_is_truncated :
    _resolve_jumpid_to_jumpoffset ⟨true, []⟩ 0 0 [⟨0, 40000⟩] =
      (⟨true, []⟩, some (-25536)) ∧
    (-25536 : Int) ≠ 40000 - 0 := by
  decide

/-- C4, counterexample: on a project with a recorded error the finaliser
returns success without touching the functions, so a `JUMP_TARGET` remains. -/
theorem C4_label_remains_on_errored_project :
    codegen_FinalBytecodeTransform sampleSize erroredProject =
      .returned 1 erroredProject ∧
    ∃ f ∈ erroredProject.func, f.iscfunc = false ∧
      ∃ inst ∈ f.instructions, inst.jumpTargetId ≠ none := by
  refine ⟨by decide, ⟨false, [.jumptarget 0, .returnvalue 0], 1, 0⟩,
    by decide, by decide, .jumptarget 0, by decide, by decide⟩

/-- C4, amended: after the finaliser succeeds on a project with no recorded
error, the result container is unchanged, C functions are unchanged, and in
every other function no `JUMP_TARGET` remains and the instruction sequence is
the original one with the `JUMP_TARGET` records deleted, possibly followed by
the default return: same length and order, each record with the same opcode
and the same fields except the jump immediates. -/
theorem C4_finaliser_frame (sz : InstType → Nat) (prj prj1 : Project)
    (hok : NoRecordedError prj)
    (hrun : codegen_FinalBytecodeTransform sz prj = .returned 1 prj1) :
    prj1.resultmsg = prj.resultmsg ∧
    List.Forall₂ (fun f g =>
      g.iscfunc = f.iscfunc ∧ (f.iscfunc = true → g = f) ∧
      (f.iscfunc = false →
        (∀ inst ∈ g.instructions, inst.jumpTargetId = none) ∧
        ∃ body,
          (g.instructions = body ∨
            g.instructions = body ++ [.setconst 0 .none, .returnvalue 0]) ∧
          body.map Inst.clearJumpImm =
            (stripJumpTargets f.instructions).map Inst.clearJumpImm ∧
          body.map Inst.type =
            (stripJumpTargets f.instructions).map Inst.type))
      prj.func prj1.func := by
  obtain ⟨hs, he⟩ := hok
  unfold codegen_FinalBytecodeTransform at hrun
  simp only [hs, he, Bool.not_true, Bool.or_self, Bool.false_eq_true,
    if_false] at hrun
  split at hrun
  · simp at hrun
  · simp at hrun
  · rename_i funcs hdone
    simp only [Ret.returned.injEq, true_and] at hrun
    subst hrun
    refine ⟨rfl, ?_⟩
    have hall := resolveAllJumps_done sz _ _ _ hdone
    simp only
    rw [List.forall₂_map_right_iff]
    refine hall.imp ?_
    intro f g hfg
    obtain ⟨hc, hn⟩ := resolveFuncJumps_done sz _ f g hfg
    cases hcf : f.iscfunc with
    | true =>
      have := hc hcf
      subst this
      simp [addFinalReturn, hcf]
    | false =>
      obtain ⟨body, hg, hbody⟩ := hn hcf
      subst hg
      have hnt : ∀ inst ∈ body, inst.jumpTargetId = none :=
        map_clear_mem_jumpTargetId _ _ hbody (stripJumpTargets_mem _)
      refine ⟨?_, ?_, ?_⟩
      · simp only [addFinalReturn, hcf, Bool.false_eq_true, if_false]
        split <;> rfl
      · intro h; simp at h
      · intro _
        refine ⟨?_, body, ?_, hbody, map_clear_type _ _ hbody⟩
        · intro inst hi
          simp only [addFinalReturn, hcf, Bool.false_eq_true, if_false] at hi
          split at hi
          · exact hnt inst hi
          · simp only [List.mem_append, List.mem_cons, List.mem_singleton,
              List.not_mem_nil, or_false] at hi
            rcases hi with hi | rfl | rfl
            · exact hnt inst hi
            · rfl
            · rfl
        · simp only [addFinalReturn, hcf, Bool.false_eq_true, if_false]
          split
          · exact Or.inl rfl
          · exact Or.inr rfl

/-- C4, amended, at a concrete project. -/
theorem C4_finaliser_frame_witness :
    NoRecordedError whileLoopProject ∧
    List.Forall₂ (fun f g =>
      g.iscfunc = f.iscfunc ∧ (f.iscfunc = true → g = f) ∧
      (f.iscfunc = false →
        (∀ inst ∈ g.instructions, inst.jumpTargetId = none) ∧
        ∃ body,
          (g.instructions = body ∨
            g.instructions = body ++ [.setconst 0 .none, .returnvalue 0]) ∧
          body.map Inst.clearJumpImm =
            (stripJumpTargets f.instructions).map Inst.clearJumpImm ∧
          body.map Inst.type =
            (stripJumpTargets f.instructions).map Inst.type))
      whileLoopProject.func
      [⟨false, [.condjump 0 12, .jump (-7), .setconst 0 .none,
        .returnvalue 0], 1, 1⟩] :=
  ⟨by decide,
    (C4_finaliser_frame sampleSize whileLoopProject
      ⟨⟨true, []⟩, [⟨false, [.condjump 0 12, .jump (-7), .setconst 0 .none,
        .returnvalue 0], 1, 1⟩]⟩ (by decide) (by decide)).2⟩

/-- C5: for a jump label `j` read by the rewrite loop from the record at byte
offset `bytesOf sz pre` of a function of a project without recorded error,
`_resolve_jumpid_to_jumpoffset` fails exactly when the label table of the
function has no entry for `j`, or the relative offset is zero, or it is above
65535 or below -65535; in the zero and out-of-range cases the success flag is
cleared and one error diagnostic is appended; and whenever the resolution
fails the finaliser (unless an assertion aborts it) returns 0 with the success
flag cleared. -/
theorem C5_jump_resolution_failure (sz : InstType → Nat) (prj : Project)
    (hok : NoRecordedError prj) (f : H64Func) (hf : f ∈ prj.func)
    (hc : f.iscfunc = false) (pre post : List Inst) (inst : Inst)
    (hsplit : stripJumpTargets f.instructions = pre ++ inst :: post)
    (j1 j2 : Int) (hids : readJumpIds inst = .ids j1 j2)
    (j : Int) (hj : 0 ≤ j) (hjj : j = j1 ∨ j = j2) :
    ((_resolve_jumpid_to_jumpoffset prj.resultmsg j (bytesOf sz pre)
        (extractJumpTargets sz 0 f.instructions).2).2 = none ↔
      ((∀ e ∈ (extractJumpTargets sz 0 f.instructions).2, e.jumpid ≠ j) ∨
        lookupJumpTarget j (extractJumpTargets sz 0 f.instructions).2
          - bytesOf sz pre = 0 ∨
        lookupJumpTarget j (extractJumpTargets sz 0 f.instructions).2
          - bytesOf sz pre > 65535 ∨
        lookupJumpTarget j (extractJumpTargets sz 0 f.instructions).2
          - bytesOf sz pre < -65535)) ∧
    ((∃ e ∈ (extractJumpTargets sz 0 f.instructions).2, e.jumpid = j) →
      (lookupJumpTarget j (extractJumpTargets sz 0 f.instructions).2
          - bytesOf sz pre = 0 ∨
        lookupJumpTarget j (extractJumpTargets sz 0 f.instructions).2
          - bytesOf sz pre > 65535 ∨
        lookupJumpTarget j (extractJumpTargets sz 0 f.instructions).2
          - bytesOf sz pre < -65535) →
      (_resolve_jumpid_to_jumpoffset prj.resultmsg j (bytesOf sz pre)
        (extractJumpTargets sz 0 f.instructions).2).1.success = false ∧
      ∃ text, (_resolve_jumpid_to_jumpoffset prj.resultmsg j (bytesOf sz pre)
        (extractJumpTargets sz 0 f.instructions).2).1.message =
          prj.resultmsg.message ++ [⟨.error, text⟩]) ∧
    ((_resolve_jumpid_to_jumpoffset prj.resultmsg j (bytesOf sz pre)
        (extractJumpTargets sz 0 f.instructions).2).2 = none →
      codegen_FinalBytecodeTransform sz prj ≠ .assertFailed →
      ∃ prj1, codegen_FinalBytecodeTransform sz prj = .returned 0 prj1 ∧
        prj1.resultmsg.success = false) := by
  have hnn := extractJumpTargets_offset_nonneg sz f.instructions 0
  have hneg := lookupJumpTarget_neg_iff j _ hnn
  have h3 : (_resolve_jumpid_to_jumpoffset prj.resultmsg j (bytesOf sz pre)
        (extractJumpTargets sz 0 f.instructions).2).2 = none →
      codegen_FinalBytecodeTransform sz prj ≠ .assertFailed →
      ∃ prj1, codegen_FinalBytecodeTransform sz prj = .returned 0 prj1 ∧
        prj1.resultmsg.success = false := by
    intro hfail hna
    obtain ⟨hs, he⟩ := hok
    unfold codegen_FinalBytecodeTransform at hna ⊢
    simp only [hs, he, Bool.not_true, Bool.or_self, Bool.false_eq_true,
      if_false] at hna ⊢
    cases hall : resolveAllJumps sz prj.resultmsg prj.func with
    | assertFailed => simp [hall] at hna
    | failed res1 gs =>
      exact ⟨_, rfl, resolveAllJumps_failed_success _ _ _ _ _ hall⟩
    | done gs =>
      exfalso
      obtain ⟨g, hg⟩ := resolveAllJumps_done_mem _ _ _ _ hall f hf
      unfold resolveFuncJumps at hg
      simp only [hc, Bool.false_eq_true, if_false, extractJumpTargets_fst,
        hsplit] at hg
      cases hw : rewriteJumps sz prj.resultmsg
          (extractJumpTargets sz 0 f.instructions).2 0
          (pre ++ inst :: post) with
      | assertFailed => rw [hw] at hg; simp at hg
      | failed _ _ => rw [hw] at hg; simp at hg
      | done r =>
        have hres :=
          rewriteJumps_done_resolved sz _ _ inst post j1 j2 hids pre 0 r hw
        simp only [Nat.zero_add] at hres
        rcases hjj with rfl | rfl
        · exact hres.1 hj hfail
        · exact hres.2 hj hfail
  refine ⟨?_, ?_, h3⟩
  · unfold _resolve_jumpid_to_jumpoffset
    simp only
    by_cases h0 : lookupJumpTarget j
        (extractJumpTargets sz 0 f.instructions).2 < 0
    · simp only [h0, if_true, true_iff]
      exact Or.inl (hneg.mp h0)
    · have hex : ¬ ∀ e ∈ (extractJumpTargets sz 0 f.instructions).2,
          e.jumpid ≠ j := fun h => h0 (hneg.mpr h)
      simp only [h0, if_false, hex, false_or]
      by_cases h1 : lookupJumpTarget j
          (extractJumpTargets sz 0 f.instructions).2 - ↑(bytesOf sz pre) = 0
      · simp [h1]
      · simp only [h1, if_false, false_or]
        by_cases h2 : lookupJumpTarget j
              (extractJumpTargets sz 0 f.instructions).2
              - ↑(bytesOf sz pre) > 65535 ∨
            lookupJumpTarget j (extractJumpTargets sz 0 f.instructions).2
              - ↑(bytesOf sz pre) < -65535
        · simp [h2]
        · simp [h2]
  · intro hex hrel
    have h0 : ¬ lookupJumpTarget j
        (extractJumpTargets sz 0 f.instructions).2 < 0 := by
      intro h
      obtain ⟨e, he, hej⟩ := hex
      exact hneg.mp h e he hej
    unfold _resolve_jumpid_to_jumpoffset
    simp only [h0, if_false]
    by_cases h1 : lookupJumpTarget j
        (extractJumpTargets sz 0 f.instructions).2 - ↑(bytesOf sz pre) = 0
    · simp [h1, result_AddMessage]
    · have h2 : lookupJumpTarget j
            (extractJumpTargets sz 0 f.instructions).2
            - ↑(bytesOf sz pre) > 65535 ∨
          lookupJumpTarget j (extractJumpTargets sz 0 f.instructions).2
            - ↑(bytesOf sz pre) < -65535 := by
        rcases hrel with h | h
        · exact absurd h h1
        · exact h
      simp [h1, h2, result_AddMessage]

/-- C5 at a concrete project: the label 7 of the `JUMP` at byte offset 0 has
no table entry, and the finaliser returns 0 with the success flag cleared. -/
theorem C5_jump_resolution_failure_witness :
    NoRecordedError danglingJumpProject ∧
    ∃ prj1, codegen_FinalBytecodeTransform sampleSize danglingJumpProject =
        .returned 0 prj1 ∧ prj1.resultmsg.success = false :=
  ⟨by decide,
    (C5_jump_resolution_failure sampleSize danglingJumpProject (by decide)
      ⟨false, [.jump 7, .returnvalue 0], 1, 0⟩ (by decide) rfl
      [] [.returnvalue 0] (.jump 7) (by decide) 7 (-1) (by decide) 7
      (by decide) (Or.inl rfl)).2.2 (by decide) (by decide)⟩

theorem funcEndsInReturn_append_return (sz : InstType → Nat) (r : Int)
    (l : List Inst) :
    ∀ k total, total ≤ k + bytesOf sz (l ++ [.returnvalue r]) →
      funcEndsInReturn sz total k (l ++ [.returnvalue r]) = true := by
  induction l with
  | nil =>
    intro k total h
    simp only [bytesOf, List.nil_append, List.map_cons, List.map_nil,
      List.sum_cons, List.sum_nil, Nat.add_zero] at h
    simp [funcEndsInReturn, Inst.isReturnValue, h]
  | cons x xs ih =>
    intro k total h
    have h2 : total ≤ (k + instSize sz x) + bytesOf sz (xs ++ [.returnvalue r]) := by
      simp only [bytesOf, List.cons_append, List.map_cons, List.sum_cons] at h ⊢
      omega
    have h3 := ih _ _ h2
    show (_ || funcEndsInReturn sz total _ (xs ++ [.returnvalue r])) = true
    rw [h3, Bool.or_true]

theorem resolveAllJumps_eq_map (sz : InstType → Nat) (res : H64Result)
    (F : H64Func → H64Func) (fs : List H64Func)
    (h : ∀ f ∈ fs, resolveFuncJumps sz res f = .done (F f)) :
    resolveAllJumps sz res fs = .done (fs.map F) := by
  induction fs with
  | nil => rfl
  | cons f rest ih =>
    have h1 := h f (List.mem_cons_self _ _)
    have h2 := ih (fun x hx => h x (List.mem_cons_of_mem _ hx))
    simp [resolveAllJumps, h1, h2]

theorem resolveFuncJumps_no_jumps (sz : InstType → Nat) (res : H64Result)
    (f : H64Func)
    (h : f.iscfunc = false →
      ∀ inst ∈ f.instructions, readJumpIds inst = .notAJump) :
    resolveFuncJumps sz res f = .done (stripOnly f) := by
  unfold resolveFuncJumps stripOnly
  cases hc : f.iscfunc with
  | true => simp
  | false =>
    simp only [Bool.false_eq_true, if_false, extractJumpTargets_fst]
    rw [rewriteJumps_no_jumps]
    intro inst hi
    exact h hc inst (List.mem_filter.mp hi).1

theorem finalised_is_fixed (sz : InstType → Nat) (res : H64Result)
    (f : H64Func)
    (h : f.iscfunc = false →
      ∀ inst ∈ f.instructions, readJumpIds inst = .notAJump) :
    resolveFuncJumps sz res (addFinalReturn sz (stripOnly f)) =
        .done (addFinalReturn sz (stripOnly f)) ∧
      addFinalReturn sz (addFinalReturn sz (stripOnly f)) =
        addFinalReturn sz (stripOnly f) := by
  cases hc : f.iscfunc with
  | true =>
    have e : addFinalReturn sz (stripOnly f) = f := by
      simp [addFinalReturn, stripOnly, hc]
    rw [e]
    constructor
    · simp [resolveFuncJumps, hc]
    · simp [addFinalReturn, hc]
  | false =>
    have hs : stripOnly f =
        { f with instructions := stripJumpTargets f.instructions } := by
      simp [stripOnly, hc]
    have hsj : ∀ inst ∈ stripJumpTargets f.instructions,
        readJumpIds inst = .notAJump :=
      fun inst hi => h hc inst (List.mem_filter.mp hi).1
    have hst := stripJumpTargets_mem f.instructions
    -- the shape of the finalised function
    obtain ⟨body, iss, hg, hbj, hbt, hfer⟩ :
        ∃ body iss, addFinalReturn sz (stripOnly f) =
            ⟨false, body, iss, f.input_stack_size⟩ ∧
          (∀ inst ∈ body, readJumpIds inst = .notAJump) ∧
          (∀ inst ∈ body, inst.jumpTargetId = none) ∧
          funcEndsInReturn sz (bytesOf sz body) 0 body = true := by
      rw [hs]
      simp only [addFinalReturn, hc, Bool.false_eq_true, if_false]
      by_cases hf : funcEndsInReturn sz
          (bytesOf sz (stripJumpTargets f.instructions)) 0
          (stripJumpTargets f.instructions) = true
      · exact ⟨_, _, by rw [if_pos hf], hsj, hst, hf⟩
      · refine ⟨_, _, by rw [if_neg hf], ?_, ?_, ?_⟩
        · intro inst hi
          simp only [List.mem_append, List.mem_cons, List.mem_singleton,
            List.not_mem_nil, or_false] at hi
          rcases hi with hi | rfl | rfl
          · exact hsj inst hi
          · rfl
          · rfl
        · intro inst hi
          simp only [List.mem_append, List.mem_cons, List.mem_singleton,
            List.not_mem_nil, or_false] at hi
          rcases hi with hi | rfl | rfl
          · exact hst inst hi
          · rfl
          · rfl
        · have := funcEndsInReturn_append_return sz 0
            (stripJumpTargets f.instructions ++ [.setconst 0 .none]) 0
            (bytesOf sz (stripJumpTargets f.instructions ++
              [.setconst 0 .none, .returnvalue 0])) (by simp)
          simpa using this
    rw [hg]
    constructor
    · unfold resolveFuncJumps
      simp only [Bool.false_eq_true, if_false, extractJumpTargets_fst,
        stripJumpTargets_id body hbt]
      rw [rewriteJumps_no_jumps _ _ _ _ hbj]
    · simp [addFinalReturn, hfer]

/-- C6, counterexample: the function of `while c { }` is finalised
successfully, and a second run of the finaliser on the result returns 0 (the
offset 12 now stored in the `CONDJUMP` is looked up as a label id, and no
label is left). -/
theorem C6_second_run_fails_on_jumps :
    ∃ prj1 prj2, codegen_FinalBytecodeTransform sampleSize whileLoopProject =
        .returned 1 prj1 ∧
      codegen_FinalBytecodeTransform sampleSize prj1 = .returned 0 prj2 ∧
      prj2.resultmsg.success = false :=
  ⟨⟨⟨true, []⟩, [⟨false, [.condjump 0 12, .jump (-7), .setconst 0 .none,
      .returnvalue 0], 1, 1⟩]⟩,
    ⟨⟨false, []⟩, [⟨false, [.condjump 0 12, .jump (-7), .setconst 0 .none,
      .returnvalue 0], 1, 1⟩]⟩, by decide, by decide, rfl⟩

/-- C6, amended: when the finaliser has succeeded on a project that has a
recorded error, or none of whose non-C functions contains a jump-bearing
instruction, a second run returns success and leaves the whole project (every
function's instructions, hence `instructions_bytes`, and `inner_stack_size`)
unchanged. -/
theorem C6_idempotent_without_jumps (sz : InstType → Nat)
    (prj prj1 : Project)
    (hrun : codegen_FinalBytecodeTransform sz prj = .returned 1 prj1)
    (hj : ¬ NoRecordedError prj ∨
      ∀ f ∈ prj.func, f.iscfunc = false →
        ∀ inst ∈ f.instructions, readJumpIds inst = .notAJump) :
    codegen_FinalBytecodeTransform sz prj1 = .returned 1 prj1 := by
  by_cases hok : NoRecordedError prj
  · have hj2 := hj.resolve_left (fun h => h hok)
    obtain ⟨hs, he⟩ := hok
    have hall : resolveAllJumps sz prj.resultmsg prj.func =
        .done (prj.func.map stripOnly) :=
      resolveAllJumps_eq_map _ _ _ _
        (fun f hf => resolveFuncJumps_no_jumps _ _ _ (hj2 f hf))
    unfold codegen_FinalBytecodeTransform at hrun
    simp only [hs, he, Bool.not_true, Bool.or_self, Bool.false_eq_true,
      if_false, hall, Ret.returned.injEq, true_and] at hrun
    subst hrun
    unfold codegen_FinalBytecodeTransform
    simp only [hs, he, Bool.not_true, Bool.or_self, Bool.false_eq_true,
      if_false]
    have hall2 : resolveAllJumps sz prj.resultmsg
        (List.map (addFinalReturn sz) (List.map stripOnly prj.func)) =
        .done (List.map (addFinalReturn sz) (List.map stripOnly prj.func)) := by
      have := resolveAllJumps_eq_map sz prj.resultmsg id
        (List.map (addFinalReturn sz) (List.map stripOnly prj.func)) (by
          intro g hg
          simp only [List.mem_map, exists_exists_and_eq_and] at hg
          obtain ⟨f, hf, rfl⟩ := hg
          exact (finalised_is_fixed sz _ f (hj2 f hf)).1)
      simpa using this
    rw [hall2]
    simp only [Ret.returned.injEq, true_and]
    congr 1
    simp only [List.map_map]
    apply List.map_congr_left
    intro f hf
    exact (finalised_is_fixed sz prj.resultmsg f (hj2 f hf)).2
  · have hg : (!prj.resultmsg.success || haveErrors prj.resultmsg) = true := by
      unfold NoRecordedError at hok
      cases h1 : prj.resultmsg.success <;> cases h2 : haveErrors prj.resultmsg <;>
        simp_all
    unfold codegen_FinalBytecodeTransform at hrun
    simp only [hg, if_true, Ret.returned.injEq, true_and] at hrun
    subst hrun
    unfold codegen_FinalBytecodeTransform
    simp [hg]

/-- C6, amended, at a concrete project without jump-bearing records. -/
theorem C6_idempotent_without_jumps_witness :
    codegen_FinalBytecodeTransform sampleSize straightLineProject =
      .returned 1 ⟨⟨true, []⟩,
        [⟨false, [.setconst 1 (.int 1), .setconst 2 (.int 2), .binop 0 0 1 2,
            .setconst 0 .none, .returnvalue 0], 3, 0⟩,
          ⟨true, [], 0, 2⟩,
          ⟨false, [.setconst 0 .none, .returnvalue 0], 1, 0⟩]⟩ ∧
    codegen_FinalBytecodeTransform sampleSize ⟨⟨true, []⟩,
        [⟨false, [.setconst 1 (.int 1), .setconst 2 (.int 2), .binop 0 0 1 2,
            .setconst 0 .none, .returnvalue 0], 3, 0⟩,
          ⟨true, [], 0, 2⟩,
          ⟨false, [.setconst 0 .none, .returnvalue 0], 1, 0⟩]⟩ =
      .returned 1 ⟨⟨true, []⟩,
        [⟨false, [.setconst 1 (.int 1), .setconst 2 (.int 2), .binop 0 0 1 2,
            .setconst 0 .none, .returnvalue 0], 3, 0⟩,
          ⟨true, [], 0, 2⟩,
          ⟨false, [.setconst 0 .none, .returnvalue 0], 1, 0⟩]⟩ :=
  ⟨by decide,
    C6_idempotent_without_jumps sampleSize straightLineProject _ (by decide)
      (Or.inr (by decide))⟩

/-! Call emission. -/

theorem withInstructions_getElem (st : GenState) (func : Nat) (f : GenFunc)
    (L : List Inst) (h : func < st.func.length) :
    (withInstructions st func f L).func[func]? =
      some { f with instructions := L } := by
  simp [withInstructions, List.getElem?_set, h]

theorem withInstructions_twice (st : GenState) (func : Nat) (f g : GenFunc)
    (L M : List Inst) :
    { withInstructions st func f L with
        func := (withInstructions st func f L).func.set func
          { g with instructions := M } } =
      withInstructions st func g M := by
  simp [withInstructions, List.set_set]

theorem appendinst_withInstructions (st : GenState) (func : Nat)
    (f : GenFunc) (L : List Inst) (inst : Inst) (h : func < st.func.length)
    (hc : f.iscfunc = false) :
    appendinst func inst (withInstructions st func f L) =
      .ok (withInstructions st func f (L ++ [inst])) () := by
  unfold appendinst appendinstbyfuncid
  rw [withInstructions_getElem _ _ _ _ h]
  simp [hc, withInstructions, List.set_set]

theorem settopIncrement_at (pre : List Inst) (t : Int) (em : List Inst) :
    settopIncrement (pre ++ .callsettop t :: em) pre.length =
      pre ++ .callsettop (t + 1) :: em := by
  induction pre with
  | nil => simp [settopIncrement]
  | cons x xs ih =>
    cases x <;> simp [settopIncrement, ih]

theorem settopIncrementIn_withInstructions (st : GenState) (func : Nat)
    (f : GenFunc) (pre : List Inst) (t : Int) (em : List Inst)
    (h : func < st.func.length) :
    settopIncrementIn func pre.length
        (withInstructions st func f (pre ++ .callsettop t :: em)) =
      withInstructions st func f (pre ++ .callsettop (t + 1) :: em) := by
  unfold settopIncrementIn
  rw [withInstructions_getElem _ _ _ _ h]
  simp [settopIncrement_at, withInstructions, List.set_set]

theorem emitCallArgs_positional (func : Nat)
    (arguments : List (Option String × Expr)) (expand : Bool)
    (names : List String) (st : GenState) (f : GenFunc) (pre : List Inst)
    (hf : func < st.func.length) (hc : f.iscfunc = false)
    (rest : List KwArgSortInfo) :
    ∀ (pos : List (Option String × Expr)) (i : Nat) (t : Int) (v : CallLoop)
      (em : List Inst),
      v._reachedkwargs = false → 0 ≤ v._argtemp →
      (∀ a ∈ pos, a.1 = none ∧ 0 ≤ a.2.eval_temp_id) →
      (∀ m, m < pos.length → arguments[i + m]? = pos[m]?) →
      emitCallArgs func pre.length arguments expand
          (kwInfos names pos i ++ rest) i v
          (withInstructions st func f (pre ++ .callsettop t :: em)) =
        emitCallArgs func pre.length arguments expand rest (i + pos.length)
          { v with
            _argtemp := v._argtemp + pos.length,
            posargcount := v.posargcount + pos.length,
            expandlastposarg :=
              v.expandlastposarg || (decide (0 < pos.length) && expand) }
          (withInstructions st func f
            (pre ++ .callsettop (t + pos.length) ::
              (em ++ posArgCopies v._argtemp pos))) := by
  intro pos
  induction pos with
  | nil =>
    intro i t v em _ _ _ _
    simp [kwInfos, posArgCopies]
  | cons a as ih =>
    intro i t v em hr hv hpos harg
    obtain ⟨vt, vp, vk, vr, ve⟩ := v
    simp only at hr hv
    subst hr
    have ha := hpos a (List.mem_cons_self _ _)
    have h0 : arguments[i]? = some a := by
      have := harg 0 (by simp)
      simpa using this
    have hrec := ih (i + 1) (t + 1) ⟨vt + 1, vp + 1, vk, false, ve || expand⟩
      (em ++ [.valuecopy vt a.2.eval_temp_id])
      rfl (by simp only; omega)
      (fun x hx => hpos x (List.mem_cons_of_mem _ hx))
      (fun m hm => by
        have := harg (m + 1) (by simp; omega)
        simpa [Nat.add_assoc, Nat.add_comm 1 m] using this)
    simp only [kwInfos, ha.1, List.cons_append]
    rw [emitCallArgs]
    simp only [Bool.false_or, h0]
    have hneg : ¬ ((0 : Int) ≤ -1) := by omega
    simp only [hneg, decide_False, Bool.false_eq_true, if_false]
    have hcond : ¬ (vt < 0 ∨ a.2.eval_temp_id < 0) := by
      have := ha.2; omega
    simp only [hcond, if_false]
    rw [settopIncrementIn_withInstructions _ _ _ _ _ _ hf,
      appendinst_withInstructions _ _ _ _ _ hf hc]
    simp only [List.cons_append, List.append_assoc, List.singleton_append,
      List.nil_append] at hrec ⊢
    rw [hrec]
    have e1 : i + 1 + as.length = i + (a :: as).length := by
      simp only [List.length_cons]; omega
    have e2 : vt + 1 + (as.length : Int) = vt + ((a :: as).length : Nat) := by
      simp only [List.length_cons, Nat.cast_add, Nat.cast_one]; omega
    have e3 : vp + 1 + (as.length : Int) = vp + ((a :: as).length : Nat) := by
      simp only [List.length_cons, Nat.cast_add, Nat.cast_one]; omega
    have e4 : t + 1 + (as.length : Int) = t + ((a :: as).length : Nat) := by
      simp only [List.length_cons, Nat.cast_add, Nat.cast_one]; omega
    have e5 : (ve || expand || decide (0 < as.length) && expand) =
        (ve || decide (0 < (a :: as).length) && expand) := by
      cases ve <;> cases expand <;> simp
    rw [e1, e2, e3, e4, e5]
    rfl

theorem appendinst_shape (st : GenState) (func : Nat) (f : GenFunc)
    (pre : List Inst) (c : Inst) (em : List Inst) (inst : Inst)
    (h : func < st.func.length) (hc : f.iscfunc = false) :
    appendinst func inst (withInstructions st func f (pre ++ c :: em)) =
      .ok (withInstructions st func f (pre ++ c :: (em ++ [inst]))) () := by
  rw [appendinst_withInstructions _ _ _ _ _ h hc]
  simp

theorem emitCallArgs_keyword (func : Nat)
    (arguments : List (Option String × Expr)) (expand : Bool)
    (st : GenState) (f : GenFunc) (pre : List Inst)
    (hf : func < st.func.length) (hc : f.iscfunc = false) :
    ∀ (l : List KwArgSortInfo) (i : Nat) (t : Int) (v : CallLoop)
      (em : List Inst),
      0 ≤ v._argtemp →
      (∀ e ∈ l, 0 ≤ e.kwnameindex ∧
        ∃ a, arguments[e.callargno]? = some a ∧ 0 ≤ a.2.eval_temp_id) →
      emitCallArgs func pre.length arguments expand l i v
          (withInstructions st func f (pre ++ .callsettop t :: em)) =
        .ok (withInstructions st func f
            (pre ++ .callsettop (t + 2 * l.length) ::
              (em ++ kwArgPairs arguments v._argtemp l)))
          { v with
            _argtemp := v._argtemp + 2 * l.length,
            kwargcount := v.kwargcount + l.length,
            _reachedkwargs := v._reachedkwargs || decide (0 < l.length) } := by
  intro l
  induction l with
  | nil =>
    intro i t v em _ _
    simp [emitCallArgs, kwArgPairs]
  | cons e es ih =>
    intro i t v em hv hl
    obtain ⟨vt, vp, vk, vr, ve⟩ := v
    simp only at hv
    obtain ⟨he, a, ha, hae⟩ := hl e (List.mem_cons_self _ _)
    have hrec := ih (i + 1) (t + 1 + 1) ⟨vt + 2, vp, vk + 1, true, ve⟩
      (em ++ [.setconst vt (.int e.kwnameindex)] ++
        [.valuecopy (vt + 1) a.2.eval_temp_id])
      (by simp only; omega)
      (fun x hx => hl x (List.mem_cons_of_mem _ hx))
    rw [emitCallArgs]
    have hreach : (vr || decide (0 ≤ e.kwnameindex)) = true := by simp [he]
    have hneg : ¬ e.kwnameindex < 0 := by omega
    simp only [hreach, if_true, hneg, if_false]
    rw [appendinst_shape _ _ _ _ _ _ _ hf hc]
    dsimp only
    rw [settopIncrementIn_withInstructions _ _ _ _ _ _ hf, ha]
    have hcond : ¬ (vt + 1 < 0 ∨ a.2.eval_temp_id < 0) := by omega
    simp only [hcond, if_false]
    rw [settopIncrementIn_withInstructions _ _ _ _ _ _ hf,
      appendinst_shape _ _ _ _ _ _ _ hf hc]
    dsimp only
    rw [hrec]
    have e2 : vt + 2 + 2 * (es.length : Int) =
        vt + 2 * ((e :: es).length : Nat) := by
      simp only [List.length_cons, Nat.cast_add, Nat.cast_one]; omega
    have e3 : vk + 1 + (es.length : Int) = vk + ((e :: es).length : Nat) := by
      simp only [List.length_cons, Nat.cast_add, Nat.cast_one]; omega
    have e4 : t + 1 + 1 + 2 * (es.length : Int) =
        t + 2 * ((e :: es).length : Nat) := by
      simp only [List.length_cons, Nat.cast_add, Nat.cast_one]; omega
    have e5 : (true || decide (0 < es.length)) =
        (vr || decide (0 < (e :: es).length)) := by simp
    rw [e2, e3, e4, e5]
    simp only [kwArgPairs, ha, List.append_assoc, List.singleton_append,
      List.cons_append, List.nil_append]

theorem kwInfos_append (names : List String)
    (a b : List (Option String × Expr)) :
    ∀ i, kwInfos names (a ++ b) i =
      kwInfos names a i ++ kwInfos names b (i + a.length) := by
  induction a with
  | nil => intro i; simp [kwInfos]
  | cons x xs ih =>
    intro i
    have e : i + 1 + xs.length = i + (x :: xs).length := by
      simp only [List.length_cons]; omega
    show kwInfos names (x :: (xs ++ b)) i = _
    rw [kwInfos, ih, e]
    rfl

theorem kwInfos_length (names : List String)
    (a : List (Option String × Expr)) :
    ∀ i, (kwInfos names a i).length = a.length := by
  induction a with
  | nil => intro i; rfl
  | cons x xs ih => intro i; simp [kwInfos, ih]

theorem kwInfos_mem (names : List String)
    (a : List (Option String × Expr)) :
    ∀ i e, e ∈ kwInfos names a i →
      ∃ m arg, a[m]? = some arg ∧ e.callargno = i + m ∧
        e.kwnameindex = (match arg.1 with
          | some name => attributeNameId names name
          | none => -1) := by
  induction a with
  | nil => intro i e h; simp [kwInfos] at h
  | cons x xs ih =>
    intro i e h
    simp only [kwInfos, List.mem_cons] at h
    rcases h with rfl | h
    · exact ⟨0, x, by simp, by simp, rfl⟩
    · obtain ⟨m, arg, h1, h2, h3⟩ := ih (i + 1) e h
      exact ⟨m + 1, arg, by simpa using h1, by omega, h3⟩

theorem collectKwArgs_started (names : List String)
    (kws : List (Option String × Expr)) :
    ∀ i s,
      (∀ a ∈ kws, ∀ n, a.1 = some n → 0 ≤ attributeNameId names n) →
      collectKwArgs names kws i (some s) =
        .collected (kwInfos names kws i) (some s) := by
  induction kws with
  | nil => intro i s _; rfl
  | cons a as ih =>
    intro i s h
    have hrec := ih (i + 1) s (fun x hx => h x (List.mem_cons_of_mem _ hx))
    obtain ⟨n, x⟩ := a
    cases n with
    | none => simp [collectKwArgs, hrec, kwInfos]
    | some n =>
      have hk := h (some n, x) (List.mem_cons_self _ _) n rfl
      have hk2 : ¬ attributeNameId names n < 0 := by omega
      simp [collectKwArgs, hrec, kwInfos, hk2]

theorem collectKwArgs_pos_kw (names : List String)
    (kws : List (Option String × Expr))
    (hk : ∀ a ∈ kws, ∃ n, a.1 = some n ∧ 0 ≤ attributeNameId names n) :
    ∀ (pos : List (Option String × Expr)) (i : Nat),
      (∀ a ∈ pos, a.1 = none) →
      collectKwArgs names (pos ++ kws) i none =
        .collected (kwInfos names (pos ++ kws) i)
          (if kws.isEmpty then none else some (i + pos.length)) := by
  intro pos
  induction pos with
  | nil =>
    intro i _
    cases kws with
    | nil => rfl
    | cons a as =>
      obtain ⟨n, hn, hid⟩ := hk a (List.mem_cons_self _ _)
      obtain ⟨an, ax⟩ := a
      simp only at hn
      subst hn
      have hrec := collectKwArgs_started names as (i + 1) i (fun x hx m hm => by
        obtain ⟨n2, hn2, hid2⟩ := hk x (List.mem_cons_of_mem _ hx)
        rw [hn2] at hm
        cases hm
        exact hid2)
      have hk2 : ¬ attributeNameId names n < 0 := by omega
      simp [collectKwArgs, hrec, kwInfos, hk2]
  | cons a as ih =>
    intro i hp
    have ha := hp a (List.mem_cons_self _ _)
    obtain ⟨an, ax⟩ := a
    simp only at ha
    subst ha
    have hrec := ih (i + 1) (fun x hx => hp x (List.mem_cons_of_mem _ hx))
    show collectKwArgs names ((none, ax) :: (as ++ kws)) i none = _
    rw [collectKwArgs, hrec]
    have e : i + 1 + as.length = i + ((none, ax) :: as).length := by
      simp only [List.length_cons]; omega
    rw [e]
    rfl

theorem withInstructions_self (st : GenState) (func : Nat) (f : GenFunc)
    (h : st.func[func]? = some f) :
    withInstructions st func f f.instructions = st := by
  unfold withInstructions
  have hl : func < st.func.length := by
    rcases Nat.lt_or_ge func st.func.length with h1 | h1
    · exact h1
    · rw [List.getElem?_eq_none h1] at h; cases h
  have : st.func.set func f = st.func := by
    apply List.ext_getElem?
    intro n
    by_cases hn : func = n
    · subst hn; simp [List.getElem?_set, hl, h]
    · simp [List.getElem?_set, hn]
  simp [this]

theorem getElem_lt_of_some (st : GenState) (func : Nat) (f : GenFunc)
    (h : st.func[func]? = some f) : func < st.func.length := by
  rcases Nat.lt_or_ge func st.func.length with h1 | h1
  · exact h1
  · rw [List.getElem?_eq_none h1] at h; cases h

theorem getStorageInfo_withInstructions (st : GenState) (func : Nat)
    (f : GenFunc) (L : List Inst) (h : func < st.func.length) :
    getStorageInfo func (withInstructions st func f L) =
      some f.storageinfo := by
  unfold getStorageInfo
  rw [withInstructions_getElem _ _ _ _ h]
  rfl

/-- The state after `_codegen_call_to` on a call with positional arguments
`pos` followed by keyword arguments `kws` with known names. -/
theorem codegen_call_to_spec (env : Env)
    (itemsort : List KwArgSortInfo → List KwArgSortInfo) (func : Nat)
    (pos kws : List (Option String × Expr)) (expand is_async : Bool)
    (calledtemp resulttemp : Int) (ignoreifnone : Bool) (st : GenState)
    (f : GenFunc) (hfunc : st.func[func]? = some f)
    (hc : f.iscfunc = false)
    (hpos : ∀ a ∈ pos, a.1 = none ∧ 0 ≤ a.2.eval_temp_id)
    (hkws : ∀ a ∈ kws,
      (∃ n, a.1 = some n ∧ 0 ≤ attributeNameId st.global_member_name n) ∧
        0 ≤ a.2.eval_temp_id)
    (ht0 : 0 ≤ funccurrentstacktop f.storageinfo)
    (hsort : ∀ l, (itemsort l).Perm l) :
    _codegen_call_to env itemsort func (pos ++ kws) expand is_async
        calledtemp resulttemp ignoreifnone st =
      .ok (setFunc st func
        { f with
          instructions := f.instructions ++
            .callsettop (funccurrentstacktop f.storageinfo + pos.length
                + 2 * kws.length) ::
              (posArgCopies (funccurrentstacktop f.storageinfo) pos ++
                kwArgPairs (pos ++ kws)
                  (funccurrentstacktop f.storageinfo + pos.length)
                  (itemsort (kwInfos st.global_member_name kws pos.length)) ++
                [callInst ignoreifnone resulttemp calledtemp pos.length
                  kws.length
                  (callFlags env (decide (0 < pos.length) && expand)
                    is_async)]),
          storageinfo := raiseMaxExtraStack f.storageinfo
            (funccurrentstacktop f.storageinfo + pos.length + 2 * kws.length
              - f.storageinfo.lowest_guaranteed_free_temp) })
        (some resulttemp) := by
  have hl := getElem_lt_of_some st func f hfunc
  have hself := withInstructions_self st func f hfunc
  unfold _codegen_call_to
  have hsi : getStorageInfo func st = some f.storageinfo := by
    unfold getStorageInfo; rw [hfunc]; rfl
  rw [hsi, hfunc]
  dsimp only
  have happ : appendinst func
      (.callsettop (funccurrentstacktop f.storageinfo)) st =
      .ok (withInstructions st func f
        (f.instructions ++
          .callsettop (funccurrentstacktop f.storageinfo) :: [])) () := by
    conv_lhs => rw [← hself]
    rw [appendinst_withInstructions _ _ _ _ _ hl hc]
  rw [happ]
  dsimp only
  have hnames : (withInstructions st func f
      (f.instructions ++
        .callsettop (funccurrentstacktop f.storageinfo) :: [])
      ).global_member_name = st.global_member_name := rfl
  rw [hnames, collectKwArgs_pos_kw st.global_member_name kws
    (fun a ha => (hkws a ha).1) pos 0 (fun a ha => (hpos a ha).1)]
  dsimp only
  have hsorted : sortKwArgs itemsort
      (kwInfos st.global_member_name (pos ++ kws) 0)
      (if kws.isEmpty then none else some (0 + pos.length)) =
      kwInfos st.global_member_name pos 0 ++
        itemsort (kwInfos st.global_member_name kws pos.length) := by
    rw [kwInfos_append]
    cases kws with
    | nil =>
      have : itemsort [] = [] := List.Perm.eq_nil (hsort [])
      simp [sortKwArgs, kwInfos, this]
    | cons k ks =>
      simp only [List.isEmpty_cons, Bool.false_eq_true, if_false,
        sortKwArgs, Nat.zero_add]
      have hlen := kwInfos_length st.global_member_name pos 0
      rw [← hlen, List.take_left, List.drop_left]
  rw [hsorted]
  rw [emitCallArgs_positional func (pos ++ kws) expand st.global_member_name
    st f f.instructions hl hc _ pos 0 _ _ [] rfl ht0 hpos
    (fun m hm => by
      rw [Nat.zero_add, List.getElem?_append_left hm])]
  dsimp only
  have hvalid : ∀ e ∈ itemsort (kwInfos st.global_member_name kws pos.length),
      0 ≤ e.kwnameindex ∧
        ∃ a, (pos ++ kws)[e.callargno]? = some a ∧ 0 ≤ a.2.eval_temp_id := by
    intro e he
    have he2 := (hsort _).mem_iff.mp he
    obtain ⟨m, arg, h1, h2, h3⟩ := kwInfos_mem _ _ _ _ he2
    have hmem : arg ∈ kws := List.getElem?_mem h1
    obtain ⟨⟨n, hn, hid⟩, hev⟩ := hkws arg hmem
    refine ⟨?_, arg, ?_, hev⟩
    · rw [h3, hn]; exact hid
    · rw [h2, List.getElem?_append_right (by omega)]
      simpa using h1
  rw [emitCallArgs_keyword func (pos ++ kws) expand st f f.instructions hl hc
    _ _ _ _ _ (by dsimp only; omega) hvalid]
  dsimp only
  rw [getStorageInfo_withInstructions _ _ _ _ hl]
  dsimp only
  have hlenk : (itemsort (kwInfos st.global_member_name kws pos.length)).length
      = kws.length := by
    rw [(hsort _).length_eq, kwInfos_length]
  rw [hlenk]
  unfold setStorageInfo
  rw [withInstructions_getElem _ _ _ _ hl]
  dsimp only
  unfold appendinst appendinstbyfuncid
  simp [withInstructions, setFunc, List.set_set, List.getElem?_set, hl, hc]

theorem emitCallArgs_unnamed (func : Nat)
    (arguments : List (Option String × Expr)) (expand : Bool)
    (st : GenState) (f : GenFunc) (pre : List Inst)
    (hf : func < st.func.length) (hc : f.iscfunc = false)
    (hev : ∀ a ∈ arguments, 0 ≤ a.2.eval_temp_id)
    (rest : List KwArgSortInfo) :
    ∀ (N : List KwArgSortInfo) (i : Nat) (t : Int) (v : CallLoop)
      (em : List Inst),
      v._reachedkwargs = false → 0 ≤ v._argtemp →
      (∀ e ∈ N, e.kwnameindex < 0) →
      i + N.length ≤ arguments.length →
      emitCallArgs func pre.length arguments expand (N ++ rest) i v
          (withInstructions st func f (pre ++ .callsettop t :: em)) =
        emitCallArgs func pre.length arguments expand rest (i + N.length)
          { v with
            _argtemp := v._argtemp + N.length,
            posargcount := v.posargcount + N.length,
            expandlastposarg :=
              v.expandlastposarg || (decide (0 < N.length) && expand) }
          (withInstructions st func f
            (pre ++ .callsettop (t + N.length) ::
              (em ++ posArgCopies v._argtemp
                ((arguments.drop i).take N.length)))) := by
  intro N
  induction N with
  | nil =>
    intro i t v em _ _ _ _
    simp [posArgCopies]
  | cons e es ih =>
    intro i t v em hr hv hN hlen
    obtain ⟨vt, vp, vk, vr, ve⟩ := v
    simp only at hr hv
    subst hr
    have he := hN e (List.mem_cons_self _ _)
    have hi : i < arguments.length := by
      simp only [List.length_cons] at hlen; omega
    have h0 : arguments[i]? = some arguments[i] := List.getElem?_eq_getElem hi
    have ha := hev arguments[i] (List.getElem_mem hi)
    have hrec := ih (i + 1) (t + 1) ⟨vt + 1, vp + 1, vk, false, ve || expand⟩
      (em ++ [.valuecopy vt arguments[i].2.eval_temp_id])
      rfl (by simp only; omega)
      (fun x hx => hN x (List.mem_cons_of_mem _ hx))
      (by simp only [List.length_cons] at hlen; omega)
    simp only [List.cons_append]
    rw [emitCallArgs]
    have hneg : ¬ ((0 : Int) ≤ e.kwnameindex) := by omega
    simp only [Bool.false_or, hneg, decide_False, Bool.false_eq_true,
      if_false, h0]
    have hcond : ¬ (vt < 0 ∨ arguments[i].2.eval_temp_id < 0) := by omega
    simp only [hcond, if_false]
    rw [settopIncrementIn_withInstructions _ _ _ _ _ _ hf,
      appendinst_shape _ _ _ _ _ _ _ hf hc]
    dsimp only
    rw [hrec]
    have e1 : i + 1 + es.length = i + (e :: es).length := by
      simp only [List.length_cons]; omega
    have e2 : vt + 1 + (es.length : Int) = vt + ((e :: es).length : Nat) := by
      simp only [List.length_cons, Nat.cast_add, Nat.cast_one]; omega
    have e3 : vp + 1 + (es.length : Int) = vp + ((e :: es).length : Nat) := by
      simp only [List.length_cons, Nat.cast_add, Nat.cast_one]; omega
    have e4 : t + 1 + (es.length : Int) = t + ((e :: es).length : Nat) := by
      simp only [List.length_cons, Nat.cast_add, Nat.cast_one]; omega
    have e5 : (ve || expand || decide (0 < es.length) && expand) =
        (ve || decide (0 < (e :: es).length) && expand) := by
      cases ve <;> cases expand <;> simp
    have e6 : List.take (e :: es).length (List.drop i arguments) =
        arguments[i] :: List.take es.length (List.drop (i + 1) arguments) := by
      rw [List.drop_eq_getElem_cons hi]
      simp only [List.length_cons, List.take_succ_cons]
    rw [e1, e2, e3, e4, e5, e6]
    simp only [posArgCopies, List.append_assoc, List.singleton_append]

theorem collectKwArgs_known (names : List String) :
    ∀ (args : List (Option String × Expr)) (i : Nat),
      (∀ a ∈ args, ∀ n, a.1 = some n → 0 ≤ attributeNameId names n) →
      collectKwArgs names args i none =
        .collected (kwInfos names args i) (firstNamed args i) := by
  intro args
  induction args with
  | nil => intro i _; rfl
  | cons a as ih =>
    intro i h
    obtain ⟨n, x⟩ := a
    cases n with
    | none =>
      have hrec := ih (i + 1) (fun y hy => h y (List.mem_cons_of_mem _ hy))
      simp [collectKwArgs, hrec, kwInfos, firstNamed]
    | some n =>
      have hk := h (some n, x) (List.mem_cons_self _ _) n rfl
      have hk2 : ¬ attributeNameId names n < 0 := by omega
      have hrec := collectKwArgs_started names as (i + 1) i
        (fun y hy => h y (List.mem_cons_of_mem _ hy))
      simp [collectKwArgs, hrec, kwInfos, firstNamed, hk2]

theorem kwInfos_split (names : List String) :
    ∀ (args : List (Option String × Expr)) (i : Nat),
      ∃ P R, kwInfos names args i = P ++ R ∧
        (∀ e ∈ P, e.kwnameindex = -1) ∧
        (firstNamed args i = none → R = []) ∧
        (∀ s, firstNamed args i = some s → s = i + P.length) := by
  intro args
  induction args with
  | nil => intro i; exact ⟨[], [], rfl, by simp, fun _ => rfl, by simp [firstNamed]⟩
  | cons a as ih =>
    intro i
    obtain ⟨n, x⟩ := a
    cases n with
    | none =>
      obtain ⟨P, R, h1, h2, h3, h4⟩ := ih (i + 1)
      refine ⟨⟨-1, i⟩ :: P, R, ?_, ?_, ?_, ?_⟩
      · simp [kwInfos, h1]
      · intro e he
        rcases List.mem_cons.mp he with rfl | he
        · rfl
        · exact h2 e he
      · intro hn; exact h3 (by simpa [firstNamed] using hn)
      · intro s hs
        have := h4 s (by simpa [firstNamed] using hs)
        simp only [List.length_cons]; omega
    | some n =>
      exact ⟨[], kwInfos names ((some n, x) :: as) i, by simp, by simp,
        by simp [firstNamed], by simp [firstNamed]⟩

theorem pairwise_key_partition (l : List KwArgSortInfo)
    (h : l.Pairwise (fun a b => a.kwnameindex ≤ b.kwnameindex)) :
    l = l.filter (fun e => !e.isKw) ++ l.filter KwArgSortInfo.isKw := by
  induction l with
  | nil => rfl
  | cons x xs ih =>
    rw [List.pairwise_cons] at h
    have hrec := ih h.2
    by_cases hx : 0 ≤ x.kwnameindex
    · have hall : ∀ y ∈ xs, y.isKw = true := by
        intro y hy
        have := h.1 y hy
        simp only [KwArgSortInfo.isKw, decide_eq_true_eq]; omega
      have h1 : xs.filter (fun e => !e.isKw) = [] := by
        apply List.filter_eq_nil_iff.mpr
        intro y hy; simp [hall y hy]
      have h2 : xs.filter KwArgSortInfo.isKw = xs :=
        List.filter_eq_self.mpr hall
      have hxk : x.isKw = true := by simp [KwArgSortInfo.isKw, hx]
      simp only [List.filter_cons, hxk, Bool.not_true, Bool.false_eq_true,
        if_false, if_true, h1, h2, List.nil_append]
    · have hxk : x.isKw = false := by
        simp [KwArgSortInfo.isKw, hx]
      simp only [List.filter_cons, hxk, Bool.not_false, if_true,
        Bool.false_eq_true, if_false, List.cons_append]
      rw [← hrec]

theorem compare_le_iff (a b : KwArgSortInfo) :
    _compare_kw_args a b ≤ 0 ↔ a.kwnameindex ≤ b.kwnameindex := by
  unfold _compare_kw_args
  split
  · constructor
    · intro _; omega
    · intro _; decide
  · split
    · constructor
      · intro h; exact absurd h (by decide)
      · intro h; omega
    · constructor
      · intro _; omega
      · intro _; decide

theorem attributeIndexFrom_bounds (names : List String) (name : String) :
    ∀ i, attributeIndexFrom names name i = -1 ∨
      ((i : Int) ≤ attributeIndexFrom names name i ∧
        attributeIndexFrom names name i < (i + names.length : Nat)) := by
  induction names with
  | nil => intro i; exact Or.inl rfl
  | cons x xs ih =>
    intro i
    unfold attributeIndexFrom
    split
    · right
      simp only [List.length_cons, Nat.cast_add, Nat.cast_one]
      omega
    · rcases ih (i + 1) with h | h
      · exact Or.inl h
      · right
        simp only [List.length_cons, Nat.cast_add, Nat.cast_one] at h ⊢
        omega

theorem attributeIndexFrom_inj (names : List String) (n m : String) :
    ∀ i, 0 ≤ attributeIndexFrom names n i →
      attributeIndexFrom names n i = attributeIndexFrom names m i →
      n = m := by
  induction names with
  | nil => intro i h _; simp [attributeIndexFrom] at h
  | cons x xs ih =>
    intro i h0 h
    unfold attributeIndexFrom at h h0
    by_cases hn : x = n
    · by_cases hm : x = m
      · rw [← hn, ← hm]
      · rw [if_pos hn, if_neg hm] at h
        rcases attributeIndexFrom_bounds xs m (i + 1) with hb | hb
        · omega
        · simp only [Nat.cast_add, Nat.cast_one] at hb; omega
    · rw [if_neg hn] at h h0
      by_cases hm : x = m
      · rw [if_pos hm] at h
        rcases attributeIndexFrom_bounds xs n (i + 1) with hb | hb
        · omega
        · simp only [Nat.cast_add, Nat.cast_one] at hb; omega
      · rw [if_neg hm] at h
        exact ih (i + 1) h0 h

theorem attributeNameId_inj (names : List String) (n m : String)
    (h0 : 0 ≤ attributeNameId names n)
    (h : attributeNameId names n = attributeNameId names m) : n = m :=
  attributeIndexFrom_inj names n m 0 h0 h

theorem kwInfos_key_ge (names : List String)
    (args : List (Option String × Expr))
    (hknown : ∀ a ∈ args, ∀ n, a.1 = some n → 0 ≤ attributeNameId names n)
    (i : Nat) : ∀ e ∈ kwInfos names args i, -1 ≤ e.kwnameindex := by
  intro e he
  obtain ⟨m, arg, h1, _, h3⟩ := kwInfos_mem names args i e he
  have hmem : arg ∈ args := List.getElem?_mem h1
  rw [h3]
  cases hn : arg.1 with
  | none => simp
  | some n => have := hknown arg hmem n hn; simp only; omega

/-- The sorted array of `_codegen_call_to` is a permutation of the collected
entries in ascending order of `kwnameindex`. -/
theorem sortKwArgs_sorted (names : List String)
    (itemsort : List KwArgSortInfo → List KwArgSortInfo)
    (hsort : SortsByComparator itemsort)
    (args : List (Option String × Expr))
    (hknown : ∀ a ∈ args, ∀ n, a.1 = some n → 0 ≤ attributeNameId names n) :
    (sortKwArgs itemsort (kwInfos names args 0) (firstNamed args 0)).Perm
        (kwInfos names args 0) ∧
      (sortKwArgs itemsort (kwInfos names args 0)
        (firstNamed args 0)).Pairwise
        (fun a b => a.kwnameindex ≤ b.kwnameindex) := by
  obtain ⟨P, R, h1, h2, h3, h4⟩ := kwInfos_split names args 0
  have hge := kwInfos_key_ge names args hknown 0
  have hP : P.Pairwise (fun a b => a.kwnameindex ≤ b.kwnameindex) := by
    apply List.pairwise_of_forall_mem_list
    intro a ha b hb
    rw [h2 a ha, h2 b hb]
  cases hs : firstNamed args 0 with
  | none =>
    have hR := h3 hs
    subst hR
    simp only [List.append_nil] at h1
    simp only [sortKwArgs, h1]
    exact ⟨List.Perm.refl _, hP⟩
  | some s =>
    have hsl := h4 s hs
    simp only [Nat.zero_add] at hsl
    subst hsl
    simp only [sortKwArgs, h1, List.take_left, List.drop_left]
    obtain ⟨hperm, hpw⟩ := hsort R
    refine ⟨List.Perm.append_left P hperm, ?_⟩
    rw [List.pairwise_append]
    refine ⟨hP, hpw.imp (fun h => (compare_le_iff _ _).mp h), ?_⟩
    intro a ha b hb
    rw [h2 a ha]
    apply hge
    rw [h1]
    exact List.mem_append_right _ (hperm.mem_iff.mp hb)

/-- The state after `_codegen_call_to` on any call whose keyword argument
names are all known: the unnamed entries of the sorted array are copied as
positional arguments, then the name/value pairs of the keyword entries
follow. -/
theorem codegen_call_to_general (env : Env)
    (itemsort : List KwArgSortInfo → List KwArgSortInfo)
    (hsort : SortsByComparator itemsort) (func : Nat)
    (args : List (Option String × Expr)) (expand is_async : Bool)
    (calledtemp resulttemp : Int) (ignoreifnone : Bool) (st : GenState)
    (f : GenFunc) (hfunc : st.func[func]? = some f)
    (hc : f.iscfunc = false)
    (hknown : ∀ a ∈ args, ∀ n, a.1 = some n →
      0 ≤ attributeNameId st.global_member_name n)
    (hev : ∀ a ∈ args, 0 ≤ a.2.eval_temp_id)
    (ht0 : 0 ≤ funccurrentstacktop f.storageinfo) :
    ∃ q : Nat, q ≤ args.length ∧
      _codegen_call_to env itemsort func args expand is_async
          calledtemp resulttemp ignoreifnone st =
        .ok (setFunc st func
          { f with
            instructions := f.instructions ++
              .callsettop (funccurrentstacktop f.storageinfo + q + 2 *
                  (sortedKwEntries itemsort st.global_member_name
                    args).length) ::
                (posArgCopies (funccurrentstacktop f.storageinfo)
                    (args.take q) ++
                  kwArgPairs args (funccurrentstacktop f.storageinfo + q)
                    (sortedKwEntries itemsort st.global_member_name args) ++
                  [callInst ignoreifnone resulttemp calledtemp q
                    (sortedKwEntries itemsort st.global_member_name
                      args).length
                    (callFlags env (decide (0 < q) && expand) is_async)]),
            storageinfo := raiseMaxExtraStack f.storageinfo
              (funccurrentstacktop f.storageinfo + q + 2 *
                  (sortedKwEntries itemsort st.global_member_name
                    args).length
                - f.storageinfo.lowest_guaranteed_free_temp) })
          (some resulttemp) := by
  have hl := getElem_lt_of_some st func f hfunc
  have hself := withInstructions_self st func f hfunc
  obtain ⟨hperm, hpw⟩ :=
    sortKwArgs_sorted st.global_member_name itemsort hsort args hknown
  have hpart := pairwise_key_partition _ hpw
  generalize hS : sortKwArgs itemsort (kwInfos st.global_member_name args 0)
    (firstNamed args 0) = sorted at hperm hpw hpart
  have hK : sortedKwEntries itemsort st.global_member_name args =
      sorted.filter KwArgSortInfo.isKw := by
    unfold sortedKwEntries; rw [hS]
  have hlen : sorted.length = args.length := by
    rw [hperm.length_eq, kwInfos_length]
  have hNlen : (sorted.filter (fun e => !e.isKw)).length ≤ args.length := by
    rw [← hlen]; exact List.length_filter_le _ _
  refine ⟨(sorted.filter (fun e => !e.isKw)).length, hNlen, ?_⟩
  rw [hK]
  generalize hN : sorted.filter (fun e => !e.isKw) = N at hpart hNlen
  generalize hKK : sorted.filter KwArgSortInfo.isKw = K at hpart
  have hNneg : ∀ e ∈ N, e.kwnameindex < 0 := by
    intro e he
    rw [← hN] at he
    have := (List.mem_filter.mp he).2
    simp only [KwArgSortInfo.isKw, Bool.not_eq_true', decide_eq_false_iff_not]
      at this
    omega
  have hKvalid : ∀ e ∈ K, 0 ≤ e.kwnameindex ∧
      ∃ a, args[e.callargno]? = some a ∧ 0 ≤ a.2.eval_temp_id := by
    intro e he
    rw [← hKK] at he
    obtain ⟨hmem, hk⟩ := List.mem_filter.mp he
    have hinfo := hperm.mem_iff.mp hmem
    obtain ⟨m, arg, h1, h2, _⟩ := kwInfos_mem _ _ _ _ hinfo
    refine ⟨by simpa [KwArgSortInfo.isKw] using hk, arg, ?_,
      hev arg (List.getElem?_mem h1)⟩
    rw [h2, Nat.zero_add]; exact h1
  unfold _codegen_call_to
  have hsi : getStorageInfo func st = some f.storageinfo := by
    unfold getStorageInfo; rw [hfunc]; rfl
  rw [hsi, hfunc]
  dsimp only
  have happ : appendinst func
      (.callsettop (funccurrentstacktop f.storageinfo)) st =
      .ok (withInstructions st func f
        (f.instructions ++
          .callsettop (funccurrentstacktop f.storageinfo) :: [])) () := by
    conv_lhs => rw [← hself]
    rw [appendinst_withInstructions _ _ _ _ _ hl hc]
  rw [happ]
  dsimp only
  have hnames : (withInstructions st func f
      (f.instructions ++
        .callsettop (funccurrentstacktop f.storageinfo) :: [])
      ).global_member_name = st.global_member_name := rfl
  rw [hnames, collectKwArgs_known st.global_member_name args 0 hknown]
  dsimp only
  rw [hS, hpart]
  rw [emitCallArgs_unnamed func args expand st f f.instructions hl hc hev K N
    0 _ _ [] rfl ht0 hNneg (by omega)]
  dsimp only
  rw [emitCallArgs_keyword func args expand st f f.instructions hl hc
    _ _ _ _ _ (by dsimp only; omega) hKvalid]
  dsimp only
  rw [getStorageInfo_withInstructions _ _ _ _ hl]
  dsimp only
  unfold setStorageInfo
  rw [withInstructions_getElem _ _ _ _ hl]
  dsimp only
  unfold appendinst appendinstbyfuncid
  simp [withInstructions, setFunc, List.set_set, List.getElem?_set, hl, hc]

theorem kwInsert_perm (x : KwArgSortInfo) (l : List KwArgSortInfo) :
    (kwInsert x l).Perm (x :: l) := by
  induction l with
  | nil => exact List.Perm.refl _
  | cons y ys ih =>
    unfold kwInsert
    split
    · exact List.Perm.refl _
    · exact (List.Perm.cons y ih).trans (List.Perm.swap x y ys)

theorem kwInsert_pairwise (x : KwArgSortInfo) (l : List KwArgSortInfo)
    (h : l.Pairwise (fun a b => a.kwnameindex ≤ b.kwnameindex)) :
    (kwInsert x l).Pairwise (fun a b => a.kwnameindex ≤ b.kwnameindex) := by
  induction l with
  | nil => simp [kwInsert]
  | cons y ys ih =>
    rw [List.pairwise_cons] at h
    unfold kwInsert
    split
    · rename_i hxy
      rw [compare_le_iff] at hxy
      rw [List.pairwise_cons]
      refine ⟨?_, List.pairwise_cons.mpr h⟩
      intro z hz
      rcases List.mem_cons.mp hz with rfl | hz
      · exact hxy
      · exact le_trans hxy (h.1 z hz)
    · rename_i hxy
      rw [compare_le_iff] at hxy
      rw [List.pairwise_cons]
      refine ⟨?_, ih h.2⟩
      intro z hz
      rcases List.mem_cons.mp ((kwInsert_perm x ys).mem_iff.mp hz) with
        rfl | hz
      · omega
      · exact h.1 z hz

/-- Insertion sort by `_compare_kw_args` meets the specification assumed for
`itemsort_Do`. -/
theorem kwInsertionSort_sorts : SortsByComparator kwInsertionSort := by
  intro l
  induction l with
  | nil => exact ⟨List.Perm.refl _, List.Pairwise.nil⟩
  | cons x xs ih =>
    refine ⟨(kwInsert_perm x _).trans (List.Perm.cons x ih.1), ?_⟩
    have h := kwInsert_pairwise x (kwInsertionSort xs)
      (ih.2.imp (fun h => (compare_le_iff _ _).mp h))
    exact h.imp (fun h => (compare_le_iff _ _).mpr h)

theorem setconstIds_kwArgPairs (args : List (Option String × Expr))
    (K : List KwArgSortInfo) :
    ∀ t, setconstIds (kwArgPairs args t K) =
      K.map KwArgSortInfo.kwnameindex := by
  induction K with
  | nil => intro t; rfl
  | cons e rest ih =>
    intro t
    simp only [kwArgPairs, setconstIds, List.map_cons, ih]

theorem sortedKwEntries_perm (names : List String)
    (itemsort : List KwArgSortInfo → List KwArgSortInfo)
    (hsort : SortsByComparator itemsort)
    (args : List (Option String × Expr))
    (hknown : ∀ a ∈ args, ∀ n, a.1 = some n → 0 ≤ attributeNameId names n) :
    (sortedKwEntries itemsort names args).Perm
      ((kwInfos names args 0).filter KwArgSortInfo.isKw) :=
  (sortKwArgs_sorted names itemsort hsort args hknown).1.filter _

theorem sortedKwEntries_ascending (names : List String)
    (itemsort : List KwArgSortInfo → List KwArgSortInfo)
    (hsort : SortsByComparator itemsort)
    (args : List (Option String × Expr))
    (hknown : ∀ a ∈ args, ∀ n, a.1 = some n → 0 ≤ attributeNameId names n) :
    ((sortedKwEntries itemsort names args).map
      KwArgSortInfo.kwnameindex).Pairwise (fun a b => a ≤ b) := by
  rw [List.pairwise_map]
  exact (sortKwArgs_sorted names itemsort hsort args hknown).2.sublist
    (List.filter_sublist _)

theorem sortedKwEntries_source (names : List String)
    (itemsort : List KwArgSortInfo → List KwArgSortInfo)
    (hsort : SortsByComparator itemsort)
    (args : List (Option String × Expr))
    (hknown : ∀ a ∈ args, ∀ n, a.1 = some n → 0 ≤ attributeNameId names n) :
    ∀ e ∈ sortedKwEntries itemsort names args,
      ∃ n x, args[e.callargno]? = some (some n, x) ∧
        e.kwnameindex = attributeNameId names n := by
  intro e he
  have he2 := (sortedKwEntries_perm names itemsort hsort args hknown).mem_iff.mp
    he
  obtain ⟨hmem, hk⟩ := List.mem_filter.mp he2
  obtain ⟨m, arg, h1, h2, h3⟩ := kwInfos_mem names args 0 e hmem
  obtain ⟨an, ax⟩ := arg
  cases an with
  | none =>
    simp only at h3
    simp only [KwArgSortInfo.isKw, decide_eq_true_eq] at hk
    omega
  | some n =>
    refine ⟨n, ax, ?_, h3⟩
    rw [h2, Nat.zero_add]; exact h1

theorem kwInfos_filter_keys (names : List String) :
    ∀ (args : List (Option String × Expr)) (i : Nat),
      (∀ a ∈ args, ∀ n, a.1 = some n → 0 ≤ attributeNameId names n) →
      ((kwInfos names args i).filter KwArgSortInfo.isKw).map
          KwArgSortInfo.kwnameindex =
        (kwNames args).map (attributeNameId names) := by
  intro args
  induction args with
  | nil => intro i _; rfl
  | cons a as ih =>
    intro i hknown
    have hrec := ih (i + 1) (fun b hb => hknown b (List.mem_cons_of_mem _ hb))
    obtain ⟨n, x⟩ := a
    cases n with
    | none =>
      simp only [kwInfos, kwNames]
      rw [List.filter_cons_of_neg (by simp [KwArgSortInfo.isKw])]
      exact hrec
    | some n =>
      have h0 := hknown (some n, x) (List.mem_cons_self _ _) n rfl
      simp only [kwInfos, kwNames]
      rw [List.filter_cons_of_pos (by simpa [KwArgSortInfo.isKw] using h0)]
      simp only [List.map_cons, hrec]

theorem kwNames_mem : ∀ (args : List (Option String × Expr)) (n : String),
    n ∈ kwNames args → ∃ a ∈ args, a.1 = some n := by
  intro args
  induction args with
  | nil => intro n h; simp [kwNames] at h
  | cons a as ih =>
    intro n h
    obtain ⟨m, x⟩ := a
    cases m with
    | none =>
      simp only [kwNames] at h
      obtain ⟨b, hb, hn⟩ := ih n h
      exact ⟨b, List.mem_cons_of_mem _ hb, hn⟩
    | some m =>
      simp only [kwNames, List.mem_cons] at h
      rcases h with rfl | h
      · exact ⟨_, List.mem_cons_self _ _, rfl⟩
      · obtain ⟨b, hb, hn⟩ := ih n h
        exact ⟨b, List.mem_cons_of_mem _ hb, hn⟩

theorem sortedKwEntries_strict (names : List String)
    (itemsort : List KwArgSortInfo → List KwArgSortInfo)
    (hsort : SortsByComparator itemsort)
    (args : List (Option String × Expr))
    (hknown : ∀ a ∈ args, ∀ n, a.1 = some n → 0 ≤ attributeNameId names n)
    (hdistinct : (kwNames args).Nodup) :
    ((sortedKwEntries itemsort names args).map
      KwArgSortInfo.kwnameindex).Pairwise (fun a b => a < b) := by
  have hnd : ((sortedKwEntries itemsort names args).map
      KwArgSortInfo.kwnameindex).Nodup := by
    rw [((sortedKwEntries_perm names itemsort hsort args hknown).map
      _).nodup_iff, kwInfos_filter_keys names args 0 hknown]
    apply List.Nodup.map_on _ hdistinct
    intro n hn m _ hnm
    obtain ⟨a, ha, han⟩ := kwNames_mem args n hn
    exact attributeNameId_inj names n m (hknown a ha n han) hnm
  have hle := sortedKwEntries_ascending names itemsort hsort args hknown
  exact (hle.and hnd).imp (fun h => lt_of_le_of_ne h.1 h.2)

/-! Claims about `_codegen_call_to`. -/

/-- C9 (as stated, refuted): the call `f(a=1, a=2)` has only known keyword
names and is lowered with a sort that meets the assumption on `itemsort_Do`,
yet the name ids written by the two `SET_CONST` records of its name/value
pairs are 2 and 2, which is not strictly ascending. -/
theorem C9_repeated_keyword_ids_not_strict :
    (∀ a ∈ repeatedKwCallArgs, ∀ n, a.1 = some n →
      0 ≤ attributeNameId callSampleState.global_member_name n) ∧
    SortsByComparator kwInsertionSort ∧
    (_codegen_call_to sampleEnv kwInsertionSort 0 repeatedKwCallArgs false
      false 1 (-1) false callSampleState).instructionsOf 0 =
      [.getfunc 1 5, .setconst 2 (.int 1), .setconst 3 (.int 2),
        .callsettop 8, .setconst 4 (.int 2), .valuecopy 5 2,
        .setconst 6 (.int 2), .valuecopy 7 3, .call (-1) 1 0 2 0] ∧
    ¬ (setconstIds
      (((_codegen_call_to sampleEnv kwInsertionSort 0 repeatedKwCallArgs
        false false 1 (-1) false callSampleState).instructionsOf 0).drop
        4)).Pairwise (fun a b => a < b) := by
  refine ⟨?_, kwInsertionSort_sorts, by decide, by decide⟩
  intro a ha n hn
  simp only [repeatedKwCallArgs, List.mem_cons, List.mem_singleton,
    List.not_mem_nil, or_false] at ha
  rcases ha with rfl | rfl <;> cases hn <;> decide

/-- C9 (amended): for every call lowered by `_codegen_call_to` whose keyword
argument names are all known attribute names, with a sort that orders by the
comparator, the records emitted after `CALL_SETTOP` are the copies of the
unnamed arguments, then one `SET_CONST name id` immediately followed by one
`VALUECOPY` per keyword entry, then the call record; the name ids written
by those `SET_CONST` records are ascending in emission order, strictly
ascending when the keyword names of the call are pairwise distinct, and the
`VALUECOPY` after a name id reads the value of a source argument that
carried a name with that id. -/
theorem C9_keyword_ids_ascending (env : Env)
    (itemsort : List KwArgSortInfo → List KwArgSortInfo)
    (hsort : SortsByComparator itemsort) (func : Nat)
    (args : List (Option String × Expr)) (expand is_async : Bool)
    (calledtemp resulttemp : Int) (ignoreifnone : Bool) (st : GenState)
    (f : GenFunc) (hfunc : st.func[func]? = some f)
    (hc : f.iscfunc = false)
    (hknown : ∀ a ∈ args, ∀ n, a.1 = some n →
      0 ≤ attributeNameId st.global_member_name n)
    (hev : ∀ a ∈ args, 0 ≤ a.2.eval_temp_id)
    (ht0 : 0 ≤ funccurrentstacktop f.storageinfo) :
    ∃ q : Nat,
      (_codegen_call_to env itemsort func args expand is_async calledtemp
          resulttemp ignoreifnone st).instructionsOf func =
        f.instructions ++
          .callsettop (funccurrentstacktop f.storageinfo + q + 2 *
            (sortedKwEntries itemsort st.global_member_name args).length) ::
          (posArgCopies (funccurrentstacktop f.storageinfo) (args.take q) ++
            kwArgPairs args (funccurrentstacktop f.storageinfo + q)
              (sortedKwEntries itemsort st.global_member_name args) ++
            [callInst ignoreifnone resulttemp calledtemp q
              (sortedKwEntries itemsort st.global_member_name args).length
              (callFlags env (decide (0 < q) && expand) is_async)]) ∧
      (setconstIds (kwArgPairs args (funccurrentstacktop f.storageinfo + q)
        (sortedKwEntries itemsort st.global_member_name args))).Pairwise
        (fun a b => a ≤ b) ∧
      ((kwNames args).Nodup →
        (setconstIds (kwArgPairs args
          (funccurrentstacktop f.storageinfo + q)
          (sortedKwEntries itemsort st.global_member_name args))).Pairwise
          (fun a b => a < b)) ∧
      ∀ e ∈ sortedKwEntries itemsort st.global_member_name args,
        ∃ n x, args[e.callargno]? = some (some n, x) ∧
          e.kwnameindex = attributeNameId st.global_member_name n := by
  obtain ⟨q, _, hq⟩ := codegen_call_to_general env itemsort hsort func args
    expand is_async calledtemp resulttemp ignoreifnone st f hfunc hc hknown
    hev ht0
  have hl := getElem_lt_of_some st func f hfunc
  refine ⟨q, ?_, ?_, ?_, ?_⟩
  · rw [hq]
    simp only [Res.instructionsOf, setFunc, List.getElem?_set, hl, if_true]
  · rw [setconstIds_kwArgPairs]
    exact sortedKwEntries_ascending _ itemsort hsort args hknown
  · intro hd
    rw [setconstIds_kwArgPairs]
    exact sortedKwEntries_strict _ itemsort hsort args hknown hd
  · exact sortedKwEntries_source _ itemsort hsort args hknown

theorem C9_keyword_ids_ascending_witness :
    ∃ q : Nat,
      (_codegen_call_to sampleEnv kwInsertionSort 0 twoKwCallArgs false false
          1 (-1) false callSampleState).instructionsOf 0 =
        [.getfunc 1 5, .setconst 2 (.int 1), .setconst 3 (.int 2)] ++
          .callsettop (4 + q + 2 *
            (sortedKwEntries kwInsertionSort ["init", "named", "a"]
              twoKwCallArgs).length) ::
          (posArgCopies 4 (twoKwCallArgs.take q) ++
            kwArgPairs twoKwCallArgs (4 + q)
              (sortedKwEntries kwInsertionSort ["init", "named", "a"]
                twoKwCallArgs) ++
            [callInst false (-1) 1 q
              (sortedKwEntries kwInsertionSort ["init", "named", "a"]
                twoKwCallArgs).length
              (callFlags sampleEnv (decide (0 < q) && false) false)]) ∧
      (setconstIds (kwArgPairs twoKwCallArgs (4 + q)
        (sortedKwEntries kwInsertionSort ["init", "named", "a"]
          twoKwCallArgs))).Pairwise (fun a b => a ≤ b) ∧
      ((kwNames twoKwCallArgs).Nodup →
        (setconstIds (kwArgPairs twoKwCallArgs (4 + q)
          (sortedKwEntries kwInsertionSort ["init", "named", "a"]
            twoKwCallArgs))).Pairwise (fun a b => a < b)) ∧
      ∀ e ∈ sortedKwEntries kwInsertionSort ["init", "named", "a"]
          twoKwCallArgs,
        ∃ n x, twoKwCallArgs[e.callargno]? = some (some n, x) ∧
          e.kwnameindex = attributeNameId ["init", "named", "a"] n :=
  C9_keyword_ids_ascending sampleEnv kwInsertionSort kwInsertionSort_sorts 0
    twoKwCallArgs false false 1 (-1) false callSampleState
    ⟨false, [.getfunc 1 5, .setconst 2 (.int 1), .setconst 3 (.int 2)],
      0, 0, false, 0, false, 0, 0,
      ⟨1, [⟨true, true⟩, ⟨true, true⟩, ⟨true, true⟩], 3, 0, 0, false, 0⟩⟩
    rfl rfl
    (by
      intro a ha n hn
      simp only [twoKwCallArgs, List.mem_cons, List.mem_singleton,
        List.not_mem_nil, or_false] at ha
      rcases ha with rfl | rfl <;> cases hn <;> decide)
    (by
      intro a ha
      simp only [twoKwCallArgs, List.mem_cons, List.mem_singleton,
        List.not_mem_nil, or_false] at ha
      rcases ha with rfl | rfl <;> decide)
    (by decide)

theorem setFunc_getElem (st : GenState) (func : Nat) (g : GenFunc)
    (h : func < st.func.length) : (setFunc st func g).func[func]? = some g := by
  simp only [setFunc, List.getElem?_set, h, if_true]

/-- C10: for a call with `p` positional arguments `pos` followed by `k`
keyword arguments `kws` with known names, where `t0` is
`funccurrentstacktop` on entry, `_codegen_call_to` returns with these records
appended to the function: first `CALL_SETTOP` whose `topto` is
`t0 + p + 2 k`, then the copies of the positional arguments in source order
into slots `t0 ..`, then the name/value pairs of the `k` keyword entries from
slot `t0 + p` on, last the call record (`CALL` or `CALL_IGNORE_IF_NONE`)
with `posargs = p` and `kwargs = k`; and `max_extra_stack` is then at least
`p + 2 k + (t0 - lowest_guaranteed_free_temp)`. -/
theorem C10_call_argument_layout (env : Env)
    (itemsort : List KwArgSortInfo → List KwArgSortInfo) (func : Nat)
    (pos kws : List (Option String × Expr)) (expand is_async : Bool)
    (calledtemp resulttemp : Int) (ignoreifnone : Bool) (st : GenState)
    (f : GenFunc) (hfunc : st.func[func]? = some f)
    (hc : f.iscfunc = false)
    (hpos : ∀ a ∈ pos, a.1 = none ∧ 0 ≤ a.2.eval_temp_id)
    (hkws : ∀ a ∈ kws,
      (∃ n, a.1 = some n ∧ 0 ≤ attributeNameId st.global_member_name n) ∧
        0 ≤ a.2.eval_temp_id)
    (ht0 : 0 ≤ funccurrentstacktop f.storageinfo)
    (hsort : ∀ l, (itemsort l).Perm l) :
    ∃ (st1 : GenState) (f1 : GenFunc) (K : List KwArgSortInfo),
      _codegen_call_to env itemsort func (pos ++ kws) expand is_async
          calledtemp resulttemp ignoreifnone st =
        .ok st1 (some resulttemp) ∧
      st1.func[func]? = some f1 ∧
      K.Perm (kwInfos st.global_member_name kws pos.length) ∧
      K.length = kws.length ∧
      f1.instructions = f.instructions ++
        .callsettop (funccurrentstacktop f.storageinfo + pos.length
            + 2 * kws.length) ::
          (posArgCopies (funccurrentstacktop f.storageinfo) pos ++
            kwArgPairs (pos ++ kws)
              (funccurrentstacktop f.storageinfo + pos.length) K ++
            [callInst ignoreifnone resulttemp calledtemp pos.length
              kws.length
              (callFlags env (decide (0 < pos.length) && expand)
                is_async)]) ∧
      (pos.length : Int) + 2 * kws.length +
          (funccurrentstacktop f.storageinfo -
            f.storageinfo.lowest_guaranteed_free_temp) ≤
        f1.storageinfo.max_extra_stack := by
  have hl := getElem_lt_of_some st func f hfunc
  have h := codegen_call_to_spec env itemsort func pos kws expand is_async
    calledtemp resulttemp ignoreifnone st f hfunc hc hpos hkws ht0 hsort
  have hb : (itemsort (kwInfos st.global_member_name kws pos.length)).length
      = kws.length := by
    rw [(hsort _).length_eq, kwInfos_length]
  have hd : (pos.length : Int) + 2 * kws.length +
      (funccurrentstacktop f.storageinfo -
        f.storageinfo.lowest_guaranteed_free_temp) ≤
      (raiseMaxExtraStack f.storageinfo
        (funccurrentstacktop f.storageinfo + pos.length + 2 * kws.length
          - f.storageinfo.lowest_guaranteed_free_temp)).max_extra_stack := by
    unfold raiseMaxExtraStack
    split
    · show _ ≤ funccurrentstacktop f.storageinfo + pos.length
        + 2 * kws.length - f.storageinfo.lowest_guaranteed_free_temp
      omega
    · omega
  exact ⟨_, _, _, h, setFunc_getElem st func _ hl, hsort _, hb, rfl, hd⟩

theorem C10_call_argument_layout_witness :
    ∃ (st1 : GenState) (f1 : GenFunc) (K : List KwArgSortInfo),
      _codegen_call_to sampleEnv kwInsertionSort 0
          ([(none, evaluatedInt 1 2)] ++ [(some "named", evaluatedInt 2 3)])
          false false 1 (-1) false callSampleState =
        .ok st1 (some (-1)) ∧
      st1.func[0]? = some f1 ∧
      K.Perm (kwInfos ["init", "named", "a"]
        [(some "named", evaluatedInt 2 3)] 1) ∧
      K.length = 1 ∧
      f1.instructions =
        [.getfunc 1 5, .setconst 2 (.int 1), .setconst 3 (.int 2)] ++
        .callsettop (4 + (1 : Nat) + 2 * (1 : Nat)) ::
          (posArgCopies 4 [(none, evaluatedInt 1 2)] ++
            kwArgPairs
              ([(none, evaluatedInt 1 2)] ++
                [(some "named", evaluatedInt 2 3)])
              (4 + (1 : Nat)) K ++
            [callInst false (-1) 1 (1 : Nat) (1 : Nat)
              (callFlags sampleEnv (decide (0 < 1) && false) false)]) ∧
      ((1 : Nat) : Int) + 2 * (1 : Nat) + (4 - 1) ≤
        f1.storageinfo.max_extra_stack :=
  C10_call_argument_layout sampleEnv kwInsertionSort 0
    [(none, evaluatedInt 1 2)] [(some "named", evaluatedInt 2 3)]
    false false 1 (-1) false callSampleState
    ⟨false, [.getfunc 1 5, .setconst 2 (.int 1), .setconst 3 (.int 2)],
      0, 0, false, 0, false, 0, 0,
      ⟨1, [⟨true, true⟩, ⟨true, true⟩, ⟨true, true⟩], 3, 0, 0, false, 0⟩⟩
    rfl rfl
    (by
      intro a ha
      simp only [List.mem_singleton] at ha
      subst ha
      exact ⟨rfl, by decide⟩)
    (by
      intro a ha
      simp only [List.mem_singleton] at ha
      subst ha
      exact ⟨⟨"named", rfl, by decide⟩, by decide⟩)
    (by decide)
    (fun l => (kwInsertionSort_sorts l).1)

/-! The slot of a constructor that is assigned to a local variable. -/

/-- C8: lowering the function body `x = [x, 1]` (`x` the local variable in
stack slot 0) returns 1; on exit the entry `x` has `eval_temp_id` 0, the
entry `1` has 1 and the list has 0; the records emitted for the statement
are `SET_CONST 1`, `NEW_LIST 0`, `GET_ATTRIBUTE_BY_NAME 2 <- 0.add`,
`VALUECOPY 3 <- 0`, ...: the record `NEW_LIST 0` writes slot 0 after the
value of the entry `x` was there and before `VALUECOPY 3 <- 0` reads it as
the operand of the first `add` call. -/
theorem C8_list_constructor_overwrites_entry_slot :
    (visit sampleEnv kwInsertionSort 6 selfListFunc [] selfListState
      ).instructionsOf 0 =
      [.setconst 1 (.int 1), .newlist 0, .getattributebyname 2 0 1,
        .valuecopy 3 0, .callsettop 4, .call 3 2 1 0 0, .valuecopy 3 1,
        .callsettop 4, .call 3 2 1 0 0] ∧
    firstRvalueEntrySlots
      (visit sampleEnv kwInsertionSort 6 selfListFunc [] selfListState
        ).nodeOf = [0, 1] ∧
    firstRvalueSlot
      (visit sampleEnv kwInsertionSort 6 selfListFunc [] selfListState
        ).nodeOf = some 0 := by
  decide!

/-! Steps of the lowerer: inversion. -/

theorem Gen.bind_ok {α β : Type} {m : Gen α} {f : α → Gen β}
    {st st2 : GenState} {b : β} (h : (m >>= f) st = .ok st2 b) :
    ∃ a st1, m st = .ok st1 a ∧ f a st1 = .ok st2 b := by
  have h1 : Gen.bind m f st = .ok st2 b := h
  unfold Gen.bind at h1
  split at h1
  · exact ⟨_, _, by assumption, h1⟩
  all_goals cases h1

theorem Gen.pure_ok {α : Type} {a b : α} {st st1 : GenState}
    (h : (pure a : Gen α) st = .ok st1 b) : st1 = st ∧ b = a := by
  have h1 : Gen.pure a st = .ok st1 b := h
  unfold Gen.pure at h1
  cases h1
  exact ⟨rfl, rfl⟩

/-- A step that returned 1 is `ok` of its state and value. -/
theorem Res.eq_ok {α : Type} (r : Res α) (st : GenState) (a : α)
    (h : r.isOk = true) : r = .ok (r.stateOf st) (r.valueOf a) := by
  cases r with
  | ok st1 v => rfl
  | fail st1 => cases h
  | assertFailed => cases h
  | outOfFuel => cases h

/-- The state after a successful `appendinst`. -/
theorem appendinst_ok (func : Nat) (inst : Inst) (st st1 : GenState)
    (h : appendinst func inst st = .ok st1 ()) :
    ∃ f, st.func[func]? = some f ∧
      st1 = setFunc st func
        { f with instructions := f.instructions ++ [inst] } := by
  unfold appendinst appendinstbyfuncid at h
  split at h
  · cases h
  · rename_i f hf
    split at h
    · cases h
    · cases h
      exact ⟨f, hf, rfl⟩

/-- The record appended by a successful `appendinst` is the last one of the
buffer. -/
theorem appendinst_last (func : Nat) (inst : Inst) (st st1 : GenState)
    (h : appendinst func inst st = .ok st1 ()) :
    ∃ f1, st1.func[func]? = some f1 ∧
      f1.instructions.getLast? = some inst := by
  obtain ⟨f, hf, rfl⟩ := appendinst_ok func inst st st1 h
  refine ⟨_, setFunc_getElem st func _ (getElem_lt_of_some st func f hf), ?_⟩
  simp

/-- What `_codegen_call_to` emits last when it returns 1: the call record
with the given return slot, or, for a call with an unknown keyword name, the
`RAISE` of an argument error. -/
theorem codegen_call_to_last (env : Env)
    (itemsort : List KwArgSortInfo → List KwArgSortInfo) (func : Nat)
    (args : List (Option String × Expr)) (expand is_async : Bool)
    (calledtemp resulttemp : Int) (ignoreifnone : Bool)
    (st st1 : GenState) (r : Option Int)
    (h : _codegen_call_to env itemsort func args expand is_async
      calledtemp resulttemp ignoreifnone st = .ok st1 r) :
    ∃ f1, st1.func[func]? = some f1 ∧
      ((∃ p k fl, f1.instructions.getLast? =
          some (callInst ignoreifnone resulttemp calledtemp p k fl)) ∨
        (∃ t, f1.instructions.getLast? =
          some (.raise env.H64STDERROR_ARGUMENTERROR t))) := by
  unfold _codegen_call_to at h
  split at h
  · dsimp only at h
    split at h
    · split at h
      · split at h
        · split at h
          · split at h
            · cases h
              rename_i h5
              obtain ⟨f1, hf1, hl⟩ := appendinst_last _ _ _ _ h5
              exact ⟨f1, hf1, Or.inr ⟨_, hl⟩⟩
            all_goals cases h
          all_goals cases h
        all_goals cases h
      · split at h
        · split at h
          · cases h
          · split at h
            · cases h
              rename_i h5
              obtain ⟨f1, hf1, hl⟩ := appendinst_last _ _ _ _ h5
              exact ⟨f1, hf1, Or.inl ⟨_, _, _, hl⟩⟩
            all_goals cases h
        all_goals cases h
    all_goals cases h
  · cases h

/-- The state after a successful `_newtemp_ex` on a function. -/
theorem newtemp_ok (func : FuncRef) (d : Bool) (st st1 : GenState) (t : Int)
    (h : newtemp func d st = .ok st1 t) :
    ∃ si, 0 ≤ func.bytecode_func_id ∧
      getStorageInfo func.bytecode_func_id.toNat st = some si ∧
      st1 = setStorageInfo func.bytecode_func_id.toNat
        (_newtemp_ex si d).1 st ∧
      t = (_newtemp_ex si d).2 := by
  unfold newtemp at h
  obtain ⟨si, st2, h1, h2⟩ := Gen.bind_ok h
  obtain ⟨u, st3, h3, h4⟩ := Gen.bind_ok h2
  obtain ⟨h5, h6⟩ := Gen.pure_ok h4
  unfold storageOf at h1
  split at h1
  · cases h1
  · rename_i hid
    split at h1
    · rename_i si1 hs
      cases h1
      unfold setStorageOf at h3
      rw [if_neg hid] at h3
      cases h3
      exact ⟨si, by omega, hs, h5, h6⟩
    · cases h1

/-- The index found by the scan of `_newtemp_ex` is not negative. -/
theorem newtemp_ex_ge (si : StorageInfo) (d : Bool) :
    si.lowest_guaranteed_free_temp ≤ (_newtemp_ex si d).2 := by
  unfold _newtemp_ex
  split
  · show si.lowest_guaranteed_free_temp ≤ si.lowest_guaranteed_free_temp + _
    omega
  · show si.lowest_guaranteed_free_temp ≤ si.lowest_guaranteed_free_temp + _
    omega

/-- For a call node whose parent is a call statement, `new1linetemp` with
`ismainitem` set allocates. -/
theorem new1linetemp_call_of_callstmt (func : FuncRef) (s cs : Storage)
    (value : Expr) (args : List (Option String × Expr)) (ex asy : Bool)
    (c : Option Expr) (slot : Slot) (rest : Ctx) :
    new1linetemp func (.call s value args ex asy)
      ((.callstmt cs c, slot) :: rest) true = newtemp func true := by
  funext st
  rfl

/-! Claim C11. -/

/-- C11, on the code: the call statement `g()` in a function whose first
free temporary is slot 1 is lowered to `GET_FUNC` into slot 1, `CALL_SETTOP`
and a `CALL` whose return slot is the temporary 2, not -1. -/
theorem C11_call_statement_return_slot_is_a_temporary :
    (visit sampleEnv kwInsertionSort 6 callStmtFunc [] selfListState
      ).instructionsOf 0 =
        [.getfunc 1 1, .callsettop 3, .call 2 1 0 0 0] ∧
    callReturnSlots ((visit sampleEnv kwInsertionSort 6 callStmtFunc []
      selfListState).instructionsOf 0) = [2] := by
  decide!

/-- C11, amended: for every call node that is the call of a call statement,
when the call branch of visit_out returns 1 the return slot of the record it
emits last, the `CALL`, is the single-line temporary that `_newtemp_ex`
hands out at that point (at or above `lowest_guaranteed_free_temp`), which is
also the node's new `eval_temp_id`; a call with an unknown keyword name ends
with the `RAISE` of an argument error and has no `CALL`. -/
theorem C11_call_statement_return_slot (env : Env)
    (itemsort : List KwArgSortInfo → List KwArgSortInfo) (func : FuncRef)
    (s cs : Storage) (value : Expr)
    (args : List (Option String × Expr)) (ex asy : Bool)
    (c : Option Expr) (slot : Slot) (rest : Ctx) (st st1 : GenState)
    (r : Option Int)
    (hv : isHasAttrRef env value = false)
    (h : visitOutCall env itemsort func (.call s value args ex asy)
      ((.callstmt cs c, slot) :: rest) value args ex asy st = .ok st1 r) :
    ∃ si f1,
      getStorageInfo func.bytecode_func_id.toNat st = some si ∧
      r = some (_newtemp_ex si true).2 ∧
      si.lowest_guaranteed_free_temp ≤ (_newtemp_ex si true).2 ∧
      st1.func[func.bytecode_func_id.toNat]? = some f1 ∧
      ((∃ p k fl, f1.instructions.getLast? =
          some (.call (_newtemp_ex si true).2 value.eval_temp_id p k fl)) ∨
        (∃ t, f1.instructions.getLast? =
          some (.raise env.H64STDERROR_ARGUMENTERROR t))) := by
  unfold visitOutCall at h
  rw [hv] at h
  simp only [Bool.false_eq_true, if_false] at h
  rw [new1linetemp_call_of_callstmt] at h
  obtain ⟨t, st2, h1, h2⟩ := Gen.bind_ok h
  obtain ⟨si, hid, hsi, hst2, ht⟩ := newtemp_ok func true st st2 t h1
  split at h2
  · cases h2
  · obtain ⟨r2, st3, h3, h4⟩ := Gen.bind_ok h2
    obtain ⟨h5, h6⟩ := Gen.pure_ok h4
    unfold callTo at h3
    rw [if_neg (by omega)] at h3
    obtain ⟨f1, hf1, hl⟩ := codegen_call_to_last _ _ _ _ _ _ _ _ _ _ _ _ h3
    subst h5
    refine ⟨si, f1, hsi, ?_, newtemp_ex_ge si true, hf1, ?_⟩
    · rw [h6, ht]
    · rw [← ht]
      exact hl

/-- C11, amended, at the call `g()` of the statement `g()`, lowered in state
`selfListState` with the callee in slot 7. -/
theorem C11_call_statement_return_slot_witness :
    ∃ si f1,
      getStorageInfo 0 selfListState = some si ∧
      callStmtRun.valueOf none = some (_newtemp_ex si true).2 ∧
      si.lowest_guaranteed_free_temp ≤ (_newtemp_ex si true).2 ∧
      (callStmtRun.stateOf selfListState).func[0]? = some f1 ∧
      ((∃ p k fl, f1.instructions.getLast? =
          some (.call (_newtemp_ex si true).2 calleeG.eval_temp_id
            p k fl)) ∨
        (∃ t, f1.instructions.getLast? =
          some (.raise sampleEnv.H64STDERROR_ARGUMENTERROR t))) :=
  C11_call_statement_return_slot sampleEnv kwInsertionSort ⟨0, 0⟩
    noStorage noStorage calleeG [] false false none .other []
    selfListState (callStmtRun.stateOf selfListState)
    (callStmtRun.valueOf none) (by decide)
    (Res.eq_ok callStmtRun selfListState none (by decide!))

/-! Claims C15 and C16: `new` and `return`. -/

/-- C15, on the code: `var x = new E("msg")` with `E` resolved to the
global class 2 is lowered through the run-time path: `GET_CLASS` into slot 2
and `NEW_INSTANCE_BY_REF`, and no `NEW_INSTANCE`; then `GET_CONSTRUCTOR`,
the call with `CALL_IGNORE_IF_NONE`, and the copy of the object to the
result slot 0. -/
theorem C15_resolved_class_is_instantiated_by_ref :
    (visit sampleEnv kwInsertionSort 8 newFunc [] selfListState
      ).instructionsOf 0 =
        [.setconst 1 (.shortstr [109, 115, 103]), .getclass 2 2,
          .newinstancebyref 2 2, .getconstructor 3 2, .callsettop 5,
          .valuecopy 4 1, .callignoreifnone 3 3 1 0 0, .valuecopy 0 2] ∧
    firstVardefValueSlot (visit sampleEnv kwInsertionSort 8 newFunc []
      selfListState).nodeOf = some 0 := by
  decide!

/-- C16, on the code: `return` without expression in a function whose first
free temporary is slot 1 is lowered to `SET_CONST none` into slot 0 and
`RETURN_VALUE` of the fresh temporary 1: the slot field of the `SET_CONST`
is never set. -/
theorem C16_return_none_sets_slot_zero :
    (visit sampleEnv kwInsertionSort 6 returnFunc [] selfListState
      ).instructionsOf 0 = [.setconst 0 .none, .returnvalue 1] := by
  decide!

/-! Claim C17: `new1linetemp` and the slot mandated by the parent. -/

/-- C17, on the code: for the right-hand side of the compound assignment
`x += 1`, whose target `x` is stack slot 0, `new1linetemp(func, expr, 1)`
does not return slot 0: it allocates the temporary 1 and changes the
allocator state. -/
theorem C17_compound_assignment_allocates :
    plusAssignTemp.valueOf 0 = 1 ∧
    getStorageInfo 0 selfListState =
      some ⟨1, [], 0, 0, 0, false, 0⟩ ∧
    getStorageInfo 0 (plusAssignTemp.stateOf selfListState) =
      some ⟨1, [⟨true, true⟩], 1, 0, 0, false, 0⟩ := by
  decide!

/-- C17, amended: `new1linetemp(func, node, ismainitem = 1)`, for a node
whose parent is an assignment with operator `=` (`H64OP_ASSIGN`) whose
target storage, as given by `get_assign_lvalue_storage`, is a stack slot, or
a variable definition stored in a stack slot, returns that slot id and
leaves the whole state, so also the allocator state, unchanged. -/
theorem C17_new1linetemp_returns_target_slot (func : FuncRef) (expr : Expr)
    (ctx : Ctx) (st : GenState) (id : Int)
    (hp : (∃ s lvalue rvalue,
        ctx.parent = some (.assign s .ASSIGN lvalue rvalue) ∧
        get_assign_lvalue_storage (.assign s .ASSIGN lvalue rvalue) st =
          .ok st (some ⟨.STACKSLOT, id⟩)) ∨
      (∃ s value, ctx.parent = some (.vardef s value) ∧ s.set = true ∧
        s.ref = ⟨.STACKSLOT, id⟩)) :
    new1linetemp func expr ctx true st = .ok st id := by
  rcases hp with ⟨s, lvalue, rvalue, hpar, hst⟩ | ⟨s, value, hpar, hset, href⟩
  · have h1 : parentStore ctx st = .ok st (.inr (some ⟨.STACKSLOT, id⟩)) := by
      unfold parentStore
      rw [hpar]
      show Gen.bind _ _ st = _
      unfold Gen.bind
      rw [hst]
      rfl
    show Gen.bind (parentStore ctx) _ st = _
    unfold Gen.bind
    rw [h1]
    rfl
  · have h1 : parentStore ctx st = .ok st (.inl id) := by
      unfold parentStore
      rw [hpar]
      simp only [hset, href, Bool.not_true, Bool.false_eq_true, if_false,
        if_true]
      rfl
    show Gen.bind (parentStore ctx) _ st = _
    unfold Gen.bind
    rw [h1]
    rfl

/-- C17, amended, at the right-hand side of `x = [x, 1]`, `x` in stack
slot 0. -/
theorem C17_new1linetemp_returns_target_slot_witness :
    new1linetemp ⟨0, 0⟩
      (.list noStorage [localX, .literal noStorage (.int 1)])
      [(selfListAssign, .rvalue)] true selfListState =
        .ok selfListState 0 :=
  C17_new1linetemp_returns_target_slot ⟨0, 0⟩ _
    [(selfListAssign, .rvalue)] selfListState 0
    (Or.inl ⟨_, _, _, rfl, rfl⟩)

/-! Claim C20: the stack sizes of a function. -/

/-- The sizes recorded by `codegen_CalculateFinalFuncStack` on a function
whose `lowest_guaranteed_free_temp` is the count of its arguments, closure
bound variables and `self`: `inner_stack_size` is `max_extra_stack`. -/
theorem calculateFinalFuncStack_sizes (s : Storage) (id : Int)
    (args : List (Option Expr)) (stmt : List Expr) (st st1 : GenState)
    (f : GenFunc) (hf : st.func[id.toNat]? = some f)
    (hlow : f.storageinfo.lowest_guaranteed_free_temp =
      f.arg_count + f.storageinfo.closureboundvars_count +
        (if f.has_self_arg then 1 else 0))
    (h : codegen_CalculateFinalFuncStack (.funcdef s id args stmt) st =
      .ok st1 ()) :
    ∃ f1, st1.func[id.toNat]? = some f1 ∧
      f1.input_stack_size = f.arg_count +
        f.storageinfo.closureboundvars_count +
        (if f.has_self_arg then 1 else 0) ∧
      f1.inner_stack_size = f.storageinfo.max_extra_stack ∧
      f1.storageinfo.max_extra_stack = f.storageinfo.max_extra_stack := by
  unfold codegen_CalculateFinalFuncStack at h
  dsimp only at h
  split at h
  · cases h
  · rw [hf] at h
    dsimp only at h
    cases h
    refine ⟨_, List.getElem?_set_eq_of_lt _
      (getElem_lt_of_some st _ f hf), ?_, ?_, rfl⟩
    · show f.storageinfo.closureboundvars_count + f.arg_count + _ = _
      omega
    · show f.storageinfo.lowest_guaranteed_free_temp +
        f.storageinfo.max_extra_stack - _ - _ - _ = _
      omega

/-- C20, on the code: after the files `var g = 5` and `var h = 6` have
been lowered into one project, the synthetic global init function (function
0, without arguments) has `max_extra_stack` 1 and `inner_stack_size` 2:
`codegen_CalculateFinalFuncStack` ran on it once per file and added
`max_extra_stack` to `lowest_guaranteed_free_temp` each time. -/
theorem C20_global_init_stack_grows_per_file :
    (twoFilesRun.funcOf 0).map (fun f => f.instructions) =
      some [.setconst 0 (.int 5), .setglobal 0 0, .setconst 1 (.int 6),
        .setglobal 1 1] ∧
    (twoFilesRun.funcOf 0).map
      (fun f => (f.arg_count, f.storageinfo.closureboundvars_count,
        f.has_self_arg)) = some (0, 0, false) ∧
    (twoFilesRun.funcOf 0).map (fun f => f.storageinfo.max_extra_stack) =
      some 1 ∧
    (twoFilesRun.funcOf 0).map (fun f => f.input_stack_size) = some 0 ∧
    (twoFilesRun.funcOf 0).map (fun f => f.inner_stack_size) = some 2 := by
  decide!

/-! The slot allocator. -/

/-- The scan of `_newtemp_ex` finds the first entry that is not in use. -/
theorem firstUnusedTemp_some : ∀ (l : List ExtraTemp) (k i : Nat),
    firstUnusedTemp l k = some i →
    k ≤ i ∧ (∃ e, l[i - k]? = some e ∧ e.used = false) ∧
      ∀ j, j < i - k → ∃ e, l[j]? = some e ∧ e.used = true := by
  intro l
  induction l with
  | nil => intro k i h; cases h
  | cons t rest ih =>
    intro k i h
    unfold firstUnusedTemp at h
    split at h
    · rename_i hu
      obtain ⟨h1, ⟨e, he, hf⟩, h3⟩ := ih (k + 1) i h
      have hik : i - k = (i - (k + 1)) + 1 := by omega
      refine ⟨by omega, ⟨e, ?_, hf⟩, ?_⟩
      · rw [hik, List.getElem?_cons_succ]
        exact he
      · intro j hj
        cases j with
        | zero => exact ⟨t, by simp, hu⟩
        | succ j =>
          rw [List.getElem?_cons_succ]
          exact h3 j (by omega)
    · rename_i hu
      cases h
      refine ⟨le_refl _, ⟨t, by simp, by simpa using hu⟩, ?_⟩
      intro j hj
      omega

/-- When the scan of `_newtemp_ex` finds nothing, every entry is in use. -/
theorem firstUnusedTemp_none : ∀ (l : List ExtraTemp) (k : Nat),
    firstUnusedTemp l k = none → ∀ e ∈ l, e.used = true := by
  intro l
  induction l with
  | nil => intro k _ e he; cases he
  | cons t rest ih =>
    intro k h e he
    unfold firstUnusedTemp at h
    split at h
    · rename_i hu
      rcases List.mem_cons.mp he with rfl | hr
      · exact hu
      · exact ih (k + 1) h e hr
    · cases h

/-- The slot returned by `_newtemp_ex` and the state it leaves: the slot is
`lowest_guaranteed_free_temp + i` for the smallest index `i` that was not in
use (an index past the end of the arrays counts as not in use), entry `i` is
then in use with the requested lifetime, and the other entries are as
before. -/
theorem newtemp_ex_spec (si : StorageInfo) (d : Bool) :
    ∃ i : Nat,
      (_newtemp_ex si d).2 = si.lowest_guaranteed_free_temp + i ∧
      (∀ j, j < i → ∃ e, si.extra_temps[j]? = some e ∧ e.used = true) ∧
      (∀ e, si.extra_temps[i]? = some e → e.used = false) ∧
      i ≤ si.extra_temps.length ∧
      (_newtemp_ex si d).1.extra_temps[i]? = some ⟨true, d⟩ ∧
      (∀ j, j ≠ i →
        (_newtemp_ex si d).1.extra_temps[j]? = si.extra_temps[j]?) ∧
      (_newtemp_ex si d).1.lowest_guaranteed_free_temp =
        si.lowest_guaranteed_free_temp := by
  unfold _newtemp_ex
  split
  · rename_i i hi
    obtain ⟨_, ⟨e, he, hf⟩, h3⟩ := firstUnusedTemp_some _ 0 i hi
    simp only [Nat.sub_zero] at he h3
    have hlt : i < si.extra_temps.length := by
      rcases Nat.lt_or_ge i si.extra_temps.length with h | h
      · exact h
      · rw [List.getElem?_eq_none h] at he
        cases he
    refine ⟨i, rfl, h3, ?_, le_of_lt hlt, ?_, ?_, rfl⟩
    · intro e1 he1
      rw [he] at he1
      cases he1
      exact hf
    · exact List.getElem?_set_eq_of_lt _ hlt
    · intro j hj
      exact List.getElem?_set_ne (Ne.symm hj)
  · rename_i hn
    have hall := firstUnusedTemp_none _ 0 hn
    refine ⟨si.extra_temps.length, rfl, ?_, ?_, le_refl _, ?_, ?_, rfl⟩
    · intro j hj
      refine ⟨si.extra_temps[j], List.getElem?_eq_getElem hj, ?_⟩
      exact hall _ (List.getElem_mem hj)
    · intro e he
      rw [List.getElem?_eq_none (le_refl _)] at he
      cases he
    · show (si.extra_temps ++ [_])[si.extra_temps.length]? = _
      simp
    · intro j hj
      show (si.extra_temps ++ [_])[j]? = _
      rcases Nat.lt_or_ge j si.extra_temps.length with h | h
      · exact List.getElem?_append_left h
      · have h2 : si.extra_temps.length < j := by
          unfold StorageInfo.extra_temps_count at *
          omega
        rw [List.getElem?_eq_none (by simp; omega),
          List.getElem?_eq_none (by omega)]

/-- The function `free1linetemps` clears the in-use bit of the entries whose
`deletepastline` bit is set and changes nothing else. -/
theorem free1linetemps_spec (si : StorageInfo) :
    free1linetemps si =
      { si with extra_temps := si.extra_temps.map ExtraTemp.pastLine } := by
  unfold free1linetemps
  dsimp only
  congr 1
  apply List.map_congr_left
  intro t _
  rcases t with ⟨u, d⟩
  cases u <;> cases d <;> rfl

/-- The state after a successful `freemultilinetemp`. -/
theorem freemultilinetemp_spec (si si1 : StorageInfo) (temp : Int)
    (h : freemultilinetemp si temp = some si1) :
    ∃ i : Nat, temp = si.lowest_guaranteed_free_temp + i ∧
      si.extra_temps[i]? = some ⟨true, false⟩ ∧
      si1 = { si with
        extra_temps := si.extra_temps.set i ⟨false, false⟩ } := by
  unfold freemultilinetemp at h
  dsimp only at h
  split at h
  · rename_i hr
    split at h
    · rename_i e he
      split at h
      · rename_i hu
        cases h
        rcases e with ⟨u, d⟩
        simp only at hu
        obtain ⟨h1, h2⟩ := hu
        subst h1
        subst h2
        refine ⟨(temp - si.lowest_guaranteed_free_temp).toNat, ?_, he, rfl⟩
        omega
      · cases h
    · cases h
  · cases h

/-- The function `get_assign_lvalue_storage` leaves the state unchanged. -/
theorem get_assign_lvalue_storage_ok (e : Expr) (st st1 : GenState)
    (r : Option StorageRef) (h : get_assign_lvalue_storage e st = .ok st1 r) :
    st1 = st := by
  unfold get_assign_lvalue_storage at h
  split at h
  · split at h
    · split at h
      · cases h; rfl
      · split at h
        · cases h; rfl
        · cases h; rfl
    · split at h
      · cases h; rfl
      · cases h; rfl
    · split at h
      · cases h; rfl
      · cases h
  · cases h

/-- The storage read by `new1linetemp` from the parent leaves the state
unchanged. -/
theorem parentStore_ok (ctx : Ctx) (st st1 : GenState)
    (r : Int ⊕ Option StorageRef) (h : parentStore ctx st = .ok st1 r) :
    st1 = st := by
  unfold parentStore at h
  generalize ctx.parent = p at h
  rcases p with _ | p
  · cases h; rfl
  · cases p with
    | assign s op l r =>
      cases op with
      | ASSIGN =>
        obtain ⟨a, st2, h1, h2⟩ := Gen.bind_ok h
        obtain ⟨h3, _⟩ := Gen.pure_ok h2
        rw [h3]
        exact get_assign_lvalue_storage_ok _ _ _ _ h1
      | _ => cases h; rfl
    | vardef s v =>
      dsimp only at h
      split at h
      · cases h
      · split at h
        · cases h; rfl
        · cases h; rfl
    | _ => cases h; rfl
/-- Reading the storage info leaves the state unchanged. -/
theorem storageOf_state (func : FuncRef) (st st1 : GenState)
    (si : StorageInfo) (h : storageOf func st = .ok st1 si) : st1 = st := by
  unfold storageOf at h
  split at h
  · cases h
  · split at h
    · cases h; rfl
    · cases h

/-- The function `new1linetemp` either returns a slot and leaves the state
unchanged, or it is the call `_newtemp_ex(func, 1)`. -/
theorem new1linetemp_cases (func : FuncRef) (expr : Expr) (ctx : Ctx)
    (ismainitem : Bool) (st st1 : GenState) (t : Int)
    (h : new1linetemp func expr ctx ismainitem st = .ok st1 t) :
    st1 = st ∨ newtemp func true st = .ok st1 t := by
  unfold new1linetemp at h
  cases ismainitem with
  | false => exact Or.inr h
  | true =>
    simp only [if_true] at h
    obtain ⟨r, st2, h1, h2⟩ := Gen.bind_ok h
    have hst : st2 = st := parentStore_ok ctx st st2 r h1
    subst hst
    have hops : ∀ st3 : GenState, ((match expr.operands with
        | some (value1, value2) => do
          let si ← storageOf func
          if value1.eval_temp_id ≥ si.lowest_guaranteed_free_temp then
            pure value1.eval_temp_id
          else
            match value2 with
            | some v2 =>
              if v2.eval_temp_id ≥ si.lowest_guaranteed_free_temp then
                pure v2.eval_temp_id
              else newtemp func true
            | none => newtemp func true
        | none => newtemp func true) : Gen Int) st3 = .ok st1 t →
        st1 = st3 ∨ newtemp func true st3 = .ok st1 t := by
      intro st3 h3
      generalize expr.operands = ops at h3
      rcases ops with _ | ⟨v1, v2⟩
      · exact Or.inr h3
      · obtain ⟨si, st4, h4, h5⟩ := Gen.bind_ok h3
        have := storageOf_state func st3 st4 si h4
        subst this
        by_cases hc : v1.eval_temp_id ≥ si.lowest_guaranteed_free_temp
        · rw [if_pos hc] at h5
          cases h5
          exact Or.inl rfl
        · rw [if_neg hc] at h5
          rcases v2 with _ | v2
          · exact Or.inr h5
          · dsimp only at h5
            by_cases hc2 : v2.eval_temp_id ≥ si.lowest_guaranteed_free_temp
            · rw [if_pos hc2] at h5
              cases h5
              exact Or.inl rfl
            · rw [if_neg hc2] at h5
              exact Or.inr h5
    rcases r with slot | parent_store
    · cases h2
      exact Or.inl rfl
    · dsimp only at h2
      rcases parent_store with _ | ⟨ty, id⟩
      · exact hops _ h2
      · cases ty
        case STACKSLOT =>
          cases h2
          exact Or.inl rfl
        all_goals exact hops _ h2

/-- One allocator call keeps a multi-line slot that it does not free: the
entry stays in use and the call does not return the slot. -/
theorem allocCall_keeps_multiline (i : Nat) (low : Int) (si : StorageInfo)
    (c : AllocCall) (r : StorageInfo × Option Int)
    (hlow : si.lowest_guaranteed_free_temp = low)
    (hi : si.extra_temps[i]? = some ⟨true, false⟩)
    (hc : c ≠ .freemultiline (low + i)) (hr : c.run si = some r) :
    r.1.lowest_guaranteed_free_temp = low ∧
      r.1.extra_temps[i]? = some ⟨true, false⟩ ∧ r.2 ≠ some (low + i) := by
  have hfresh : ∀ d, (_newtemp_ex si d).1.lowest_guaranteed_free_temp = low ∧
      (_newtemp_ex si d).1.extra_temps[i]? = some ⟨true, false⟩ ∧
      some (_newtemp_ex si d).2 ≠ some (low + i) := by
    intro d
    obtain ⟨k, hk, _, hunused, _, _, hother, hl⟩ := newtemp_ex_spec si d
    have hki : i ≠ k := by
      intro hik
      subst hik
      have := hunused _ hi
      cases this
    refine ⟨hl.trans hlow, (hother i hki).trans hi, ?_⟩
    rw [hk, hlow]
    intro h
    injection h with h
    omega
  cases c with
  | new1line allocates =>
    cases allocates with
    | true =>
      cases hr
      exact hfresh true
    | false =>
      cases hr
      exact ⟨hlow, hi, by simp⟩
  | newmultiline =>
    cases hr
    exact hfresh false
  | free1line =>
    cases hr
    refine ⟨?_, ?_, by simp⟩
    · rw [free1linetemps_spec]
      exact hlow
    · rw [free1linetemps_spec]
      show (si.extra_temps.map ExtraTemp.pastLine)[i]? = _
      rw [List.getElem?_map, hi]
      rfl
  | freemultiline temp =>
    change Option.map _ (freemultilinetemp si temp) = some r at hr
    cases hf : freemultilinetemp si temp with
    | none => rw [hf] at hr; cases hr
    | some si1 =>
      rw [hf] at hr
      cases hr
      obtain ⟨k, hk, _, hsi1⟩ := freemultilinetemp_spec si si1 temp hf
      subst hsi1
      have hki : k ≠ i := by
        intro hki
        apply hc
        rw [hk, hlow, hki]
      refine ⟨hlow, ?_, by simp⟩
      show (si.extra_temps.set k _)[i]? = _
      rw [List.getElem?_set_ne hki]
      exact hi

/-- A multi-line slot stays in use, and is not handed out again, along any
trace of allocator calls that does not free it. -/
theorem allocTrace_keeps_multiline (i : Nat) (low : Int) :
    ∀ (calls : List AllocCall) (si : StorageInfo)
      (trace : List (StorageInfo × Option Int)),
    si.lowest_guaranteed_free_temp = low →
    si.extra_temps[i]? = some ⟨true, false⟩ →
    (∀ c ∈ calls, c ≠ .freemultiline (low + i)) →
    allocTrace calls si = some trace →
    ∀ p ∈ trace, p.1.lowest_guaranteed_free_temp = low ∧
      p.1.extra_temps[i]? = some ⟨true, false⟩ ∧ p.2 ≠ some (low + i) := by
  intro calls
  induction calls with
  | nil =>
    intro si trace _ _ _ h p hp
    cases h
    cases hp
  | cons c rest ih =>
    intro si trace hlow hi hc h p hp
    unfold allocTrace at h
    cases hr : c.run si with
    | none => rw [hr] at h; cases h
    | some r =>
      rw [hr] at h
      dsimp only at h
      cases ht : allocTrace rest r.1 with
      | none => rw [ht] at h; cases h
      | some t =>
        rw [ht] at h
        cases h
        have hstep := allocCall_keeps_multiline i low si c r hlow hi
          (hc c (List.mem_cons_self _ _)) hr
        rcases List.mem_cons.mp hp with rfl | hp
        · exact hstep
        · exact ih r.1 t hstep.1 hstep.2.1
            (fun c1 hc1 => hc c1 (List.mem_cons_of_mem _ hc1)) ht p hp

/-! Claim C18. -/

/-- C18: a slot returned by `newmultilinetemp` stays marked in use after
every call of any sequence of allocator calls that does not call
`freemultilinetemp` on it (so across any number of `free1linetemps` calls),
and no allocating call of the sequence returns it; `free1linetemps` clears
the in-use bit of exactly the entries whose `deletepastline` bit is set and
changes nothing else; every allocation by `_newtemp_ex` returns
`lowest_guaranteed_free_temp + i` for the smallest index `i` not in use; and
`new1linetemp` either allocates through `_newtemp_ex(func, 1)` or leaves the
state unchanged. -/
theorem C18_multiline_slot_persists (si0 : StorageInfo)
    (calls : List AllocCall) (trace : List (StorageInfo × Option Int))
    (hfree : ∀ c ∈ calls, c ≠ .freemultiline (newmultilinetemp si0).2)
    (htrace : allocTrace calls (newmultilinetemp si0).1 = some trace) :
    (∀ p ∈ trace, slotInUse p.1 (newmultilinetemp si0).2 = true ∧
      p.2 ≠ some (newmultilinetemp si0).2) ∧
    (∀ si, free1linetemps si =
      { si with extra_temps := si.extra_temps.map ExtraTemp.pastLine }) ∧
    (∀ si d, ∃ i : Nat,
      (_newtemp_ex si d).2 = si.lowest_guaranteed_free_temp + i ∧
      (∀ j, j < i → ∃ e, si.extra_temps[j]? = some e ∧ e.used = true) ∧
      (∀ e, si.extra_temps[i]? = some e → e.used = false)) ∧
    (∀ func expr ctx ismainitem st st1 t,
      new1linetemp func expr ctx ismainitem st = .ok st1 t →
      st1 = st ∨ newtemp func true st = .ok st1 t) := by
  refine ⟨?_, free1linetemps_spec, ?_, new1linetemp_cases⟩
  · obtain ⟨i, hi, _, _, _, hset, _, hl⟩ := newtemp_ex_spec si0 false
    intro p hp
    have hfree2 : ∀ c ∈ calls,
        c ≠ .freemultiline (si0.lowest_guaranteed_free_temp + i) := by
      intro c hc
      have := hfree c hc
      unfold newmultilinetemp at this
      rw [hi] at this
      exact this
    obtain ⟨h1, h2, h3⟩ := allocTrace_keeps_multiline i
      si0.lowest_guaranteed_free_temp calls (newmultilinetemp si0).1 trace
      hl hset hfree2 htrace p hp
    have hs : (newmultilinetemp si0).2 =
        si0.lowest_guaranteed_free_temp + i := hi
    rw [hs]
    refine ⟨?_, h3⟩
    unfold slotInUse
    rw [h1]
    have hidx : (si0.lowest_guaranteed_free_temp + i -
        si0.lowest_guaranteed_free_temp).toNat = i := by omega
    rw [hidx, h2]
    simp
  · intro si d
    obtain ⟨i, h1, h2, h3, _⟩ := newtemp_ex_spec si d
    exact ⟨i, h1, h2, h3⟩

/-- C18 at a multi-line slot taken from an empty table, followed by an
allocation, the end of a line and a `new1linetemp` that reuses a slot. -/
theorem C18_multiline_slot_persists_witness :
    (∀ p ∈ [((⟨3, [⟨true, false⟩, ⟨true, true⟩], 2, 0, 0, false, 0⟩ :
          StorageInfo), some (4 : Int)),
        (⟨3, [⟨true, false⟩, ⟨false, true⟩], 2, 0, 0, false, 0⟩, none),
        (⟨3, [⟨true, false⟩, ⟨false, true⟩], 2, 0, 0, false, 0⟩, none)],
      slotInUse p.1 (newmultilinetemp emptyStorage).2 = true ∧
        p.2 ≠ some (newmultilinetemp emptyStorage).2) ∧
    (∀ si, free1linetemps si =
      { si with extra_temps := si.extra_temps.map ExtraTemp.pastLine }) ∧
    (∀ si d, ∃ i : Nat,
      (_newtemp_ex si d).2 = si.lowest_guaranteed_free_temp + i ∧
      (∀ j, j < i → ∃ e, si.extra_temps[j]? = some e ∧ e.used = true) ∧
      (∀ e, si.extra_temps[i]? = some e → e.used = false)) ∧
    (∀ func expr ctx ismainitem st st1 t,
      new1linetemp func expr ctx ismainitem st = .ok st1 t →
      st1 = st ∨ newtemp func true st = .ok st1 t) :=
  C18_multiline_slot_persists emptyStorage
    [.new1line true, .free1line, .new1line false] _ (by decide) (by decide)

/-! Claim C19: `max_extra_stack` and the stack top. -/

/-- Bounds of the loop of `funccurrentstacktop`. -/
theorem stackTopFrom_bounds (lowest : Int) : ∀ (l : List ExtraTemp)
    (i : Nat) (top : Int), lowest ≤ top → top ≤ lowest + i →
    lowest ≤ stackTopFrom lowest l i top ∧
      stackTopFrom lowest l i top ≤ lowest + i + l.length := by
  intro l
  induction l with
  | nil =>
    intro i top h1 h2
    unfold stackTopFrom
    simp only [List.length_nil]
    omega
  | cons t rest ih =>
    intro i top h1 h2
    unfold stackTopFrom
    have := ih (i + 1) (if t.used then lowest + i + 1 else top)
      (by split <;> omega) (by split <;> push_cast <;> omega)
    simp only [List.length_cons]
    push_cast at this ⊢
    omega

/-- The loop of `funccurrentstacktop` on arrays whose last entry is in
use. -/
theorem stackTopFrom_append_used (lowest : Int) (d : Bool) :
    ∀ (l : List ExtraTemp) (i : Nat) (top : Int),
    stackTopFrom lowest (l ++ [⟨true, d⟩]) i top =
      lowest + i + l.length + 1 := by
  intro l
  induction l with
  | nil =>
    intro i top
    simp [stackTopFrom]
  | cons t rest ih =>
    intro i top
    show stackTopFrom lowest (t :: (rest ++ [⟨true, d⟩])) i top = _
    unfold stackTopFrom
    rw [ih]
    simp only [List.length_cons]
    push_cast
    omega

/-- The value `funccurrentstacktop - lowest_guaranteed_free_temp` lies
between 0 and the number of entries of the temporaries arrays. -/
theorem extraStackInUse_bounds (si : StorageInfo) :
    0 ≤ extraStackInUse si ∧
      extraStackInUse si ≤ si.extra_temps.length := by
  unfold extraStackInUse funccurrentstacktop
  have := stackTopFrom_bounds si.lowest_guaranteed_free_temp si.extra_temps
    0 si.lowest_guaranteed_free_temp (le_refl _) (by simp)
  push_cast at this
  omega

/-- One allocator call on a table whose `max_extra_stack` is the number of
entries: it stays so, the arrays do not shrink, and when they grow all of
them are in use. -/
theorem allocCall_max (si : StorageInfo) (c : AllocCall)
    (r : StorageInfo × Option Int)
    (hmax : si.max_extra_stack = si.extra_temps.length)
    (hr : c.run si = some r) :
    r.1.max_extra_stack = r.1.extra_temps.length ∧
      si.extra_temps.length ≤ r.1.extra_temps.length ∧
      (si.extra_temps.length < r.1.extra_temps.length →
        extraStackInUse r.1 = r.1.extra_temps.length) := by
  have hfresh : ∀ d,
      (_newtemp_ex si d).1.max_extra_stack =
        (_newtemp_ex si d).1.extra_temps.length ∧
      si.extra_temps.length ≤ (_newtemp_ex si d).1.extra_temps.length ∧
      (si.extra_temps.length < (_newtemp_ex si d).1.extra_temps.length →
        extraStackInUse (_newtemp_ex si d).1 =
          (_newtemp_ex si d).1.extra_temps.length) := by
    intro d
    unfold _newtemp_ex
    split
    · refine ⟨?_, ?_, ?_⟩
      · show si.max_extra_stack = ((si.extra_temps.set _ _).length : Int)
        rw [List.length_set]
        exact hmax
      · show _ ≤ (si.extra_temps.set _ _).length
        rw [List.length_set]
      · intro h
        exact absurd h (by
          show ¬ _ < (si.extra_temps.set _ _).length
          rw [List.length_set]
          omega)
    · refine ⟨?_, ?_, ?_⟩
      · show (if ((si.extra_temps_count + 1 : Nat) : Int) >
            si.max_extra_stack then
              ((si.extra_temps_count + 1 : Nat) : Int)
            else si.max_extra_stack) =
          ((si.extra_temps ++ [(⟨true, d⟩ : ExtraTemp)]).length : Int)
        unfold StorageInfo.extra_temps_count
        rw [hmax]
        simp
      · show _ ≤ (si.extra_temps ++ [_]).length
        simp
      · intro _
        show extraStackInUse { si with
          extra_temps := si.extra_temps ++ [(⟨true, d⟩ : ExtraTemp)],
          max_extra_stack := _ } = ((si.extra_temps ++ [_]).length : Int)
        unfold extraStackInUse funccurrentstacktop
        show stackTopFrom si.lowest_guaranteed_free_temp
          (si.extra_temps ++ [⟨true, d⟩]) 0 si.lowest_guaranteed_free_temp -
            si.lowest_guaranteed_free_temp = _
        rw [stackTopFrom_append_used]
        simp only [List.length_append, List.length_singleton]
        push_cast
        omega
  cases c with
  | new1line allocates =>
    cases allocates with
    | true =>
      cases hr
      exact hfresh true
    | false =>
      cases hr
      exact ⟨hmax, le_refl _, fun h => absurd h (lt_irrefl _)⟩
  | newmultiline =>
    cases hr
    exact hfresh false
  | free1line =>
    cases hr
    rw [free1linetemps_spec]
    refine ⟨?_, ?_, ?_⟩
    · show si.max_extra_stack =
        ((si.extra_temps.map ExtraTemp.pastLine).length : Int)
      rw [List.length_map]
      exact hmax
    · show _ ≤ (si.extra_temps.map ExtraTemp.pastLine).length
      rw [List.length_map]
    · intro h
      exact absurd h (by
        show ¬ _ < (si.extra_temps.map ExtraTemp.pastLine).length
        rw [List.length_map]
        omega)
  | freemultiline temp =>
    change Option.map _ (freemultilinetemp si temp) = some r at hr
    cases hf : freemultilinetemp si temp with
    | none => rw [hf] at hr; cases hr
    | some si1 =>
      rw [hf] at hr
      cases hr
      obtain ⟨k, _, _, hsi1⟩ := freemultilinetemp_spec si si1 temp hf
      subst hsi1
      refine ⟨?_, ?_, ?_⟩
      · show si.max_extra_stack = ((si.extra_temps.set _ _).length : Int)
        rw [List.length_set]
        exact hmax
      · show _ ≤ (si.extra_temps.set _ _).length
        rw [List.length_set]
      · intro h
        exact absurd h (by
          show ¬ _ < (si.extra_temps.set _ _).length
          rw [List.length_set]
          omega)

/-- The last storage info of a trace that starts with `r`. -/
theorem lastStorage_cons (si : StorageInfo) (r : StorageInfo × Option Int)
    (t : List (StorageInfo × Option Int)) :
    lastStorage si (r :: t) = lastStorage r.1 t := by
  unfold lastStorage
  cases t with
  | nil => rfl
  | cons a t =>
    rw [List.getLast?_cons_cons,
      List.getLast?_eq_getLast (a :: t) (List.cons_ne_nil _ _)]

/-- Along any trace of allocator calls on a table whose `max_extra_stack`
is the number of entries: this stays so, the stack in use never exceeds
`max_extra_stack`, and when the arrays grew, the stack in use was the final
number of entries after some call. -/
theorem allocTrace_max : ∀ (calls : List AllocCall) (si : StorageInfo)
    (trace : List (StorageInfo × Option Int)),
    si.max_extra_stack = si.extra_temps.length →
    allocTrace calls si = some trace →
    (lastStorage si trace).max_extra_stack =
      (lastStorage si trace).extra_temps.length ∧
    si.extra_temps.length ≤ (lastStorage si trace).extra_temps.length ∧
    (∀ p ∈ trace, extraStackInUse p.1 ≤ p.1.max_extra_stack ∧
      p.1.max_extra_stack ≤ (lastStorage si trace).max_extra_stack) ∧
    (si.extra_temps.length < (lastStorage si trace).extra_temps.length →
      ∃ p ∈ trace, extraStackInUse p.1 =
        (lastStorage si trace).extra_temps.length) := by
  intro calls
  induction calls with
  | nil =>
    intro si trace hmax h
    cases h
    exact ⟨hmax, le_refl _, fun p hp => (by cases hp),
      fun h => absurd h (lt_irrefl _)⟩
  | cons c rest ih =>
    intro si trace hmax h
    unfold allocTrace at h
    cases hr : c.run si with
    | none => rw [hr] at h; cases h
    | some r =>
      rw [hr] at h
      dsimp only at h
      cases ht : allocTrace rest r.1 with
      | none => rw [ht] at h; cases h
      | some t =>
        rw [ht] at h
        cases h
        obtain ⟨s1, s2, s3⟩ := allocCall_max si c r hmax hr
        obtain ⟨i1, i2, i3, i4⟩ := ih r.1 t s1 ht
        rw [lastStorage_cons]
        refine ⟨i1, le_trans s2 i2, ?_, ?_⟩
        · intro p hp
          rcases List.mem_cons.mp hp with rfl | hp
          · have hb := extraStackInUse_bounds p.1
            refine ⟨by omega, ?_⟩
            rw [i1, s1]
            exact_mod_cast i2
          · exact i3 p hp
        · intro hlt
          by_cases hg : r.1.extra_temps.length <
              (lastStorage r.1 t).extra_temps.length
          · obtain ⟨p, hp, hpe⟩ := i4 hg
            exact ⟨p, List.mem_cons_of_mem _ hp, hpe⟩
          · have heq : r.1.extra_temps.length =
                (lastStorage r.1 t).extra_temps.length := by omega
            refine ⟨r, List.mem_cons_self _ _, ?_⟩
            rw [← heq]
            exact s3 (by omega)

/-- The largest value of a trace is at most a bound of its values. -/
theorem peakExtraStack_le (trace : List (StorageInfo × Option Int))
    (m : Int) (hm : 0 ≤ m) (h : ∀ p ∈ trace, extraStackInUse p.1 ≤ m) :
    peakExtraStack trace ≤ m := by
  unfold peakExtraStack
  induction trace with
  | nil => simpa using hm
  | cons a t ih =>
    simp only [List.map_cons, List.foldr_cons]
    exact max_le (h a (List.mem_cons_self _ _))
      (ih (fun p hp => h p (List.mem_cons_of_mem _ hp)))

/-- The largest value of a trace is at least each of its values. -/
theorem le_peakExtraStack (trace : List (StorageInfo × Option Int))
    (p : StorageInfo × Option Int) (hp : p ∈ trace) :
    extraStackInUse p.1 ≤ peakExtraStack trace := by
  unfold peakExtraStack
  induction trace with
  | nil => cases hp
  | cons a t ih =>
    simp only [List.map_cons, List.foldr_cons]
    rcases List.mem_cons.mp hp with rfl | hp
    · exact le_max_left _ _
    · exact le_trans (ih hp) (le_max_right _ _)

/-- The largest value of a trace is not negative. -/
theorem peakExtraStack_nonneg (trace : List (StorageInfo × Option Int)) :
    0 ≤ peakExtraStack trace := by
  unfold peakExtraStack
  induction trace with
  | nil => simp
  | cons a t ih =>
    simp only [List.map_cons, List.foldr_cons]
    exact le_trans ih (le_max_right _ _)

/-- C19: starting from an empty storage-info side table, after any sequence
of `new1linetemp`, `newmultilinetemp`, `free1linetemps` and
`freemultilinetemp` calls (none of which fails an assert),
`max_extra_stack` equals the largest value that
`funccurrentstacktop(func) - lowest_guaranteed_free_temp` has had after any
call of the sequence, and after every call `max_extra_stack` is at least
the current value. -/
theorem C19_max_extra_stack_is_peak (si0 : StorageInfo)
    (calls : List AllocCall) (trace : List (StorageInfo × Option Int))
    (hempty : si0.extra_temps = [] ∧ si0.max_extra_stack = 0)
    (htrace : allocTrace calls si0 = some trace) :
    (lastStorage si0 trace).max_extra_stack = peakExtraStack trace ∧
    ∀ p ∈ trace, funccurrentstacktop p.1 -
      p.1.lowest_guaranteed_free_temp ≤ p.1.max_extra_stack := by
  have hmax : si0.max_extra_stack = si0.extra_temps.length := by
    rw [hempty.1, hempty.2]
    rfl
  obtain ⟨h1, h2, h3, h4⟩ := allocTrace_max calls si0 trace hmax htrace
  refine ⟨?_, fun p hp => (h3 p hp).1⟩
  apply le_antisymm
  · by_cases hg : si0.extra_temps.length <
        (lastStorage si0 trace).extra_temps.length
    · obtain ⟨p, hp, hpe⟩ := h4 hg
      rw [h1, ← hpe]
      exact le_peakExtraStack trace p hp
    · have : (lastStorage si0 trace).extra_temps.length = 0 := by
        rw [hempty.1] at hg h2
        simp only [List.length_nil] at hg h2
        omega
      rw [h1, this]
      exact peakExtraStack_nonneg trace
  · apply peakExtraStack_le
    · rw [h1]
      exact Int.natCast_nonneg _
    · intro p hp
      exact le_trans (h3 p hp).1 (h3 p hp).2

/-- C19 at a sample sequence of seven allocator calls on an empty table. -/
theorem C19_max_extra_stack_is_peak_witness :
    (lastStorage emptyStorage
      ((allocTrace sampleAllocCalls emptyStorage).getD [])).max_extra_stack =
      peakExtraStack ((allocTrace sampleAllocCalls emptyStorage).getD []) ∧
    ∀ p ∈ (allocTrace sampleAllocCalls emptyStorage).getD [],
      funccurrentstacktop p.1 - p.1.lowest_guaranteed_free_temp ≤
        p.1.max_extra_stack :=
  C19_max_extra_stack_is_peak emptyStorage sampleAllocCalls _
    (by decide) (by decide)

/-! Steps of the lowerer and relations on states. -/

theorem Holds.bind {α β : Type} {R : GenState → GenState → Prop}
    (hR : StepRel R) {m : Gen α} {f : α → Gen β}
    (h1 : Holds R m) (h2 : ∀ a, Holds R (f a)) : Holds R (m >>= f) := by
  intro st st2 b h
  obtain ⟨a, st1, ha, hb⟩ := Gen.bind_ok h
  exact hR.trans _ _ _ (h1 _ _ _ ha) (h2 a _ _ _ hb)

theorem Holds.pure {α : Type} {R : GenState → GenState → Prop}
    (hR : StepRel R) (a : α) : Holds R (pure a : Gen α) := by
  intro st st1 b h
  obtain ⟨h1, _⟩ := Gen.pure_ok h
  rw [h1]
  exact hR.refl _

theorem Holds.genPure {α : Type} {R : GenState → GenState → Prop}
    (hR : StepRel R) (a : α) : Holds R (Gen.pure a) :=
  Holds.pure hR a

theorem Holds.fail {α : Type} {R : GenState → GenState → Prop} :
    Holds R (Gen.fail : Gen α) := by
  intro st st1 b h
  cases h

theorem Holds.oom {α : Type} {R : GenState → GenState → Prop} :
    Holds R (Gen.oom : Gen α) := by
  intro st st1 b h
  cases h

theorem Holds.unexpected {α : Type} {R : GenState → GenState → Prop} :
    Holds R (Gen.unexpected : Gen α) := by
  intro st st1 b h
  cases h

theorem Holds.abort {α : Type} {R : GenState → GenState → Prop} :
    Holds R (Gen.abort : Gen α) := by
  intro st st1 b h
  cases h

theorem Holds.assert {R : GenState → GenState → Prop}
    (hR : StepRel R) (c : Bool) : Holds R (Gen.assert c) := by
  unfold Gen.assert
  split
  · exact Holds.genPure hR _
  · exact Holds.abort

theorem Holds.ofOption {α : Type} {R : GenState → GenState → Prop}
    (hR : StepRel R) (o : Option α) : Holds R (Gen.ofOption o) := by
  cases o with
  | none => exact Holds.abort
  | some a => exact Holds.genPure hR a

theorem Holds.get {R : GenState → GenState → Prop}
    (hR : StepRel R) : Holds R Gen.get := by
  intro st st1 b h
  cases h
  exact hR.refl _

theorem Holds.mono {α : Type} {R S : GenState → GenState → Prop}
    (h : ∀ a b, R a b → S a b) {m : Gen α} (hm : Holds R m) : Holds S m :=
  fun st st1 a hr => h _ _ (hm st st1 a hr)

theorem setDescend_holds {R : GenState → GenState → Prop}
    (hR : StepRel R) (b : Bool) : Holds R (setDescend b) := by
  intro st st1 a h
  cases h
  exact hR.descend _ _

theorem addAstMessage_holds {R : GenState → GenState → Prop}
    (hR : StepRel R) (t : MsgType) (text : String) :
    Holds R (addAstMessage t text) := by
  intro st st1 a h
  cases h
  exact hR.astmsg _ _

theorem addProjectMessage_holds {R : GenState → GenState → Prop}
    (hR : StepRel R) (t : MsgType) (text : String) :
    Holds R (addProjectMessage t text) := by
  intro st st1 a h
  cases h
  exact hR.prjmsg _ _

theorem internAttributeName_holds {R : GenState → GenState → Prop}
    (hR : StepRel R) (name : String) : Holds R (internAttributeName name) := by
  intro st st1 a h
  cases h
  exact hR.names _ _

theorem storageOf_holds {R : GenState → GenState → Prop}
    (hR : StepRel R) (func : FuncRef) : Holds R (storageOf func) := by
  intro st st1 a h
  rw [storageOf_state func st st1 a h]
  exact hR.refl _

theorem emit_holds {R : GenState → GenState → Prop}
    (hR : StepRel R) (func : FuncRef) (inst : Inst)
    (hp : inst.isPlain = true) : Holds R (emit func inst) := by
  intro st st1 a h
  unfold emit at h
  split at h
  · cases h
  · exact hR.plain _ _ _ _ hp h

theorem emitFlow_holds {R : GenState → GenState → Prop}
    (hR : FlowRel R) (func : FuncRef) (inst : Inst)
    (hp : inst.isFrameMark = false) : Holds R (emit func inst) := by
  intro st st1 a h
  unfold emit at h
  split at h
  · cases h
  · exact hR.flow _ _ _ _ hp h

theorem callTo_holds {R : GenState → GenState → Prop}
    (hR : StepRel R) (env : Env)
    (itemsort : List KwArgSortInfo → List KwArgSortInfo) (func : FuncRef)
    (args : List (Option String × Expr)) (ex asy : Bool) (c r : Int)
    (ign : Bool) : Holds R (callTo env itemsort func args ex asy c r ign) := by
  intro st st1 a h
  unfold callTo at h
  split at h
  · cases h
  · exact hR.call _ _ _ _ _ _ _ _ _ _ _ _ h

/-- The state after reading the storage info of a function. -/
theorem storageOf_ok (func : FuncRef) (st st1 : GenState) (si : StorageInfo)
    (h : storageOf func st = .ok st1 si) :
    st1 = st ∧ 0 ≤ func.bytecode_func_id ∧
      ∃ f, st.func[func.bytecode_func_id.toNat]? = some f ∧
        f.storageinfo = si := by
  unfold storageOf at h
  split at h
  · cases h
  · split at h
    · rename_i si1 hs
      cases h
      unfold getStorageInfo at hs
      cases hf : st.func[func.bytecode_func_id.toNat]? with
      | none => rw [hf] at hs; cases hs
      | some f =>
        rw [hf] at hs
        simp only [Option.map_some', Option.some.injEq] at hs
        exact ⟨rfl, by omega, f, rfl, hs⟩
    · cases h

/-- Reading the storage info of a function and writing it back with the
same label counter, followed by `k`. -/
theorem Holds.update {α : Type} {R : GenState → GenState → Prop}
    (hR : StepRel R) (func : FuncRef) (upd : StorageInfo → StorageInfo)
    (k : StorageInfo → Gen α)
    (hupd : ∀ si, (upd si).jump_targets_used = si.jump_targets_used)
    (hdo : ∀ si, (upd si).dostmts_used = si.dostmts_used)
    (hk : ∀ si, Holds R (k si)) :
    Holds R (storageOf func >>= fun si =>
      setStorageOf func (upd si) >>= fun _ => k si) := by
  intro st st2 a h
  obtain ⟨si, st1, h1, h2⟩ := Gen.bind_ok h
  obtain ⟨hst, h0, f, hf, hsi⟩ := storageOf_ok func st st1 si h1
  rw [hst] at h2
  obtain ⟨u, st3, h3, h4⟩ := Gen.bind_ok h2
  refine hR.trans _ _ _ ?_ (hk si _ _ _ h4)
  unfold setStorageOf at h3
  rw [if_neg (by omega)] at h3
  cases h3
  exact hR.storage st _ f _ hf (by rw [hupd, hsi]) (by rw [hdo, hsi])

/-- Reading the storage info of a function and writing it back with the
same label counter. -/
theorem Holds.update_last {R : GenState → GenState → Prop}
    (hR : StepRel R) (func : FuncRef) (upd : StorageInfo → StorageInfo)
    (hupd : ∀ si, (upd si).jump_targets_used = si.jump_targets_used)
    (hdo : ∀ si, (upd si).dostmts_used = si.dostmts_used) :
    Holds R (storageOf func >>= fun si => setStorageOf func (upd si)) := by
  intro st st2 a h
  obtain ⟨si, st1, h1, h2⟩ := Gen.bind_ok h
  obtain ⟨hst, h0, f, hf, hsi⟩ := storageOf_ok func st st1 si h1
  rw [hst] at h2
  unfold setStorageOf at h2
  rw [if_neg (by omega)] at h2
  cases h2
  exact hR.storage st _ f _ hf (by rw [hupd, hsi]) (by rw [hdo, hsi])

theorem newtemp_ex_jump (si : StorageInfo) (d : Bool) :
    (_newtemp_ex si d).1.jump_targets_used = si.jump_targets_used := by
  unfold _newtemp_ex
  split <;> rfl

theorem newtemp_ex_dost (si : StorageInfo) (d : Bool) :
    (_newtemp_ex si d).1.dostmts_used = si.dostmts_used := by
  unfold _newtemp_ex
  split <;> rfl

theorem raiseMaxExtraStack_dost (si : StorageInfo) (m : Int) :
    (raiseMaxExtraStack si m).dostmts_used = si.dostmts_used := by
  unfold raiseMaxExtraStack
  split <;> rfl

theorem free1linetemps_dost (si : StorageInfo) :
    (free1linetemps si).dostmts_used = si.dostmts_used := rfl

theorem raiseMaxExtraStack_jump (si : StorageInfo) (m : Int) :
    (raiseMaxExtraStack si m).jump_targets_used = si.jump_targets_used := by
  unfold raiseMaxExtraStack
  split <;> rfl

theorem free1linetemps_jump (si : StorageInfo) :
    (free1linetemps si).jump_targets_used = si.jump_targets_used := rfl

theorem newtemp_holds {R : GenState → GenState → Prop}
    (hR : StepRel R) (func : FuncRef) (d : Bool) :
    Holds R (newtemp func d) := by
  unfold newtemp
  exact Holds.update hR func (fun si => (_newtemp_ex si d).1) _
    (fun si => newtemp_ex_jump si d) (fun si => newtemp_ex_dost si d)
    (fun si => Holds.pure hR _)

theorem parentStore_holds {R : GenState → GenState → Prop}
    (hR : StepRel R) (ctx : Ctx) : Holds R (parentStore ctx) := by
  intro st st1 a h
  rw [parentStore_ok ctx st st1 a h]
  exact hR.refl _

theorem new1linetemp_holds {R : GenState → GenState → Prop}
    (hR : StepRel R) (func : FuncRef) (expr : Expr) (ctx : Ctx)
    (ismainitem : Bool) : Holds R (new1linetemp func expr ctx ismainitem) := by
  intro st st1 a h
  rcases new1linetemp_cases func expr ctx ismainitem st st1 a h with h1 | h1
  · rw [h1]
    exact hR.refl _
  · exact newtemp_holds hR func true st st1 a h1

theorem freeLineTemps_holds {R : GenState → GenState → Prop}
    (hR : StepRel R) (func : Option FuncRef) :
    Holds R (freeLineTemps func) := by
  unfold freeLineTemps
  split
  · exact Holds.genPure hR _
  · exact Holds.update_last hR _ free1linetemps free1linetemps_jump
      free1linetemps_dost

/-! The branches of visit_out respect every step relation. -/

theorem emitAddCalls_holds {R : GenState → GenState → Prop}
    (hR : StepRel R) (func : FuncRef) (argsfloor addfunctemp : Int)
    (entry : List Expr) :
    Holds R (emitAddCalls func argsfloor addfunctemp entry) := by
  induction entry with
  | nil => exact Holds.genPure hR _
  | cons e rest ih =>
    unfold emitAddCalls
    repeat any_goals (first
      | exact ih
      | exact Holds.pure hR _
      | exact Holds.assert hR _
      | exact emit_holds hR _ _ rfl
      | refine Holds.bind hR ?_ (fun _ => ?_)
      | dsimp only)

theorem emitIndexSets_holds {R : GenState → GenState → Prop}
    (hR : StepRel R) (func : FuncRef) (vectortmp keytmp : Int)
    (entry : List (Option Expr × Expr)) :
    Holds R (emitIndexSets func vectortmp keytmp entry) := by
  induction entry with
  | nil => exact Holds.genPure hR _
  | cons e rest ih =>
    unfold emitIndexSets
    repeat any_goals (first
      | exact ih
      | exact Holds.pure hR _
      | exact Holds.assert hR _
      | exact emit_holds hR _ _ rfl
      | refine Holds.bind hR ?_ (fun _ => ?_)
      | dsimp only)

theorem get_assign_lvalue_storage_holds {R : GenState → GenState → Prop}
    (hR : StepRel R) (e : Expr) : Holds R (get_assign_lvalue_storage e) := by
  intro st st1 a h
  rw [get_assign_lvalue_storage_ok e st st1 a h]
  exact hR.refl _

theorem errorInvalidAssign_holds {R : GenState → GenState → Prop}
    {α : Type} (hR : StepRel R) (str : StorageRef) :
    Holds R (errorInvalidAssign str : Gen α) := by
  unfold errorInvalidAssign
  repeat any_goals (first
    | exact Holds.fail
    | exact addAstMessage_holds hR _ _
    | exact (fun st st1 a h => by cases h; exact hR.unexpected _ _)
    | refine Holds.bind hR ?_ (fun _ => ?_))

theorem visitOutListSet_holds {R : GenState → GenState → Prop}
    (hR : StepRel R) (func : FuncRef) (expr : Expr) (ctx : Ctx) (isset :
    Bool) (entry : List Expr) :
    Holds R (visitOutListSet func expr ctx isset entry) := by
  unfold visitOutListSet
  repeat any_goals (first
    | with_reducible exact Holds.pure hR _
    | with_reducible exact Holds.genPure hR _
    | with_reducible exact Holds.oom
    | with_reducible exact Holds.unexpected
    | with_reducible exact Holds.abort
    | with_reducible exact Holds.fail
    | with_reducible exact Holds.assert hR _
    | with_reducible exact Holds.ofOption hR _
    | with_reducible exact Holds.get hR
    | with_reducible exact Holds.update hR _ _ _ (fun _ => raiseMaxExtraStack_jump _ _) (fun _ => raiseMaxExtraStack_dost _ _) (fun _ => Holds.pure hR _)
    | with_reducible exact new1linetemp_holds hR _ _ _ _
    | with_reducible exact internAttributeName_holds hR _
    | with_reducible exact storageOf_holds hR _
    | with_reducible exact emit_holds hR _ _ (by with_unfolding_all first | rfl | (split <;> rfl))
    | with_reducible exact emitAddCalls_holds hR _ _ _ _
    | with_reducible refine Holds.bind hR ?_ (fun _ => ?_)
    | split
    | dsimp only)

theorem visitOutVectorMap_holds {R : GenState → GenState → Prop}
    (hR : StepRel R) (func : FuncRef) (expr : Expr) (ctx : Ctx) (ismap :
    Bool) (entry : List (Option Expr × Expr)) :
    Holds R (visitOutVectorMap func expr ctx ismap entry) := by
  unfold visitOutVectorMap
  repeat any_goals (first
    | with_reducible exact Holds.pure hR _
    | with_reducible exact Holds.genPure hR _
    | with_reducible exact Holds.oom
    | with_reducible exact Holds.unexpected
    | with_reducible exact Holds.abort
    | with_reducible exact Holds.fail
    | with_reducible exact Holds.assert hR _
    | with_reducible exact Holds.ofOption hR _
    | with_reducible exact Holds.get hR
    | with_reducible exact new1linetemp_holds hR _ _ _ _
    | with_reducible exact emit_holds hR _ _ (by with_unfolding_all first | rfl | (split <;> rfl))
    | with_reducible exact emitIndexSets_holds hR _ _ _ _
    | with_reducible refine Holds.bind hR ?_ (fun _ => ?_)
    | split
    | dsimp only)

theorem visitOutLiteral_holds {R : GenState → GenState → Prop}
    (hR : StepRel R) (env : Env) (func : FuncRef) (expr : Expr) (ctx : Ctx)
    (lit : Literal) :
    Holds R (visitOutLiteral env func expr ctx lit) := by
  unfold visitOutLiteral
  repeat any_goals (first
    | with_reducible exact Holds.pure hR _
    | with_reducible exact Holds.genPure hR _
    | with_reducible exact Holds.oom
    | with_reducible exact Holds.unexpected
    | with_reducible exact Holds.abort
    | with_reducible exact Holds.fail
    | with_reducible exact Holds.assert hR _
    | with_reducible exact Holds.ofOption hR _
    | with_reducible exact Holds.get hR
    | with_reducible exact new1linetemp_holds hR _ _ _ _
    | with_reducible exact addAstMessage_holds hR _ _
    | with_reducible exact emit_holds hR _ _ (by with_unfolding_all first | rfl | (split <;> rfl))
    | with_reducible refine Holds.bind hR ?_ (fun _ => ?_)
    | split
    | dsimp only)

theorem visitOutGetAttribute_holds {R : GenState → GenState → Prop}
    (hR : StepRel R) (env : Env) (func : FuncRef) (expr : Expr) (ctx : Ctx)
    (value1 value2 : Expr) :
    Holds R (visitOutGetAttribute env func expr ctx value1 value2) := by
  unfold visitOutGetAttribute
  repeat any_goals (first
    | with_reducible exact Holds.pure hR _
    | with_reducible exact Holds.genPure hR _
    | with_reducible exact Holds.oom
    | with_reducible exact Holds.unexpected
    | with_reducible exact Holds.abort
    | with_reducible exact Holds.fail
    | with_reducible exact Holds.assert hR _
    | with_reducible exact Holds.ofOption hR _
    | with_reducible exact Holds.get hR
    | with_reducible exact new1linetemp_holds hR _ _ _ _
    | with_reducible exact emit_holds hR _ _ (by with_unfolding_all first | rfl | (split <;> rfl))
    | with_reducible refine Holds.bind hR ?_ (fun _ => ?_)
    | split
    | dsimp only)

theorem visitOutBinop_holds {R : GenState → GenState → Prop}
    (hR : StepRel R) (env : Env) (func : Option FuncRef) (expr : Expr) (ctx
    : Ctx) (s : Storage) (optype : H64Op) (value1 value2 : Expr) :
    Holds R (visitOutBinop env func expr ctx s optype value1 value2) := by
  unfold visitOutBinop
  repeat any_goals (first
    | with_reducible exact Holds.pure hR _
    | with_reducible exact Holds.genPure hR _
    | with_reducible exact Holds.oom
    | with_reducible exact Holds.unexpected
    | with_reducible exact Holds.abort
    | with_reducible exact Holds.fail
    | with_reducible exact Holds.assert hR _
    | with_reducible exact Holds.ofOption hR _
    | with_reducible exact Holds.get hR
    | with_reducible exact new1linetemp_holds hR _ _ _ _
    | with_reducible exact emit_holds hR _ _ (by with_unfolding_all first | rfl | (split <;> rfl))
    | with_reducible refine Holds.bind hR ?_ (fun _ => ?_)
    | split
    | dsimp only)

theorem visitOutUnop_holds {R : GenState → GenState → Prop}
    (hR : StepRel R) (env : Env) (func : FuncRef) (expr : Expr) (ctx : Ctx)
    (optype : H64Op) (value1 : Expr) :
    Holds R (visitOutUnop env func expr ctx optype value1) := by
  unfold visitOutUnop
  repeat any_goals (first
    | with_reducible exact Holds.pure hR _
    | with_reducible exact Holds.genPure hR _
    | with_reducible exact Holds.oom
    | with_reducible exact Holds.unexpected
    | with_reducible exact Holds.abort
    | with_reducible exact Holds.fail
    | with_reducible exact Holds.assert hR _
    | with_reducible exact Holds.ofOption hR _
    | with_reducible exact Holds.get hR
    | with_reducible exact new1linetemp_holds hR _ _ _ _
    | with_reducible exact emit_holds hR _ _ (by with_unfolding_all first | rfl | (split <;> rfl))
    | with_reducible refine Holds.bind hR ?_ (fun _ => ?_)
    | split
    | dsimp only)

theorem visitOutCall_holds {R : GenState → GenState → Prop}
    (hR : StepRel R) (env : Env) (itemsort : List KwArgSortInfo → List
    KwArgSortInfo) (func : FuncRef) (expr : Expr) (ctx : Ctx) (value : Expr)
    (arguments : List (Option String × Expr)) (expand_last_posarg is_async :
    Bool) :
    Holds R (visitOutCall env itemsort func expr ctx value arguments
      expand_last_posarg is_async) := by
  unfold visitOutCall
  repeat any_goals (first
    | with_reducible exact Holds.pure hR _
    | with_reducible exact Holds.genPure hR _
    | with_reducible exact Holds.oom
    | with_reducible exact Holds.unexpected
    | with_reducible exact Holds.abort
    | with_reducible exact Holds.fail
    | with_reducible exact Holds.assert hR _
    | with_reducible exact Holds.ofOption hR _
    | with_reducible exact Holds.get hR
    | with_reducible exact new1linetemp_holds hR _ _ _ _
    | with_reducible exact callTo_holds hR _ _ _ _ _ _ _ _ _
    | with_reducible refine Holds.bind hR ?_ (fun _ => ?_)
    | split
    | dsimp only)

theorem identifierSkipped_holds {R : GenState → GenState → Prop}
    (hR : StepRel R) (s : Storage) (resolved_to_import : Bool) (ctx : Ctx) :
    Holds R (identifierSkipped s resolved_to_import ctx) := by
  unfold identifierSkipped
  repeat any_goals (first
    | with_reducible exact Holds.pure hR _
    | with_reducible exact Holds.genPure hR _
    | with_reducible exact Holds.oom
    | with_reducible exact Holds.unexpected
    | with_reducible exact Holds.abort
    | with_reducible exact Holds.fail
    | with_reducible exact Holds.assert hR _
    | with_reducible exact Holds.ofOption hR _
    | with_reducible exact Holds.get hR
    | with_reducible refine Holds.bind hR ?_ (fun _ => ?_)
    | split
    | dsimp only)

theorem visitOutStorageRef_holds {R : GenState → GenState → Prop}
    (hR : StepRel R) (func : Option FuncRef) (expr : Expr) (ctx : Ctx) (s :
    Storage) :
    Holds R (visitOutStorageRef func expr ctx s) := by
  unfold visitOutStorageRef
  repeat any_goals (first
    | with_reducible exact Holds.pure hR _
    | with_reducible exact Holds.genPure hR _
    | with_reducible exact Holds.oom
    | with_reducible exact Holds.unexpected
    | with_reducible exact Holds.abort
    | with_reducible exact Holds.fail
    | with_reducible exact Holds.assert hR _
    | with_reducible exact Holds.ofOption hR _
    | with_reducible exact Holds.get hR
    | with_reducible exact new1linetemp_holds hR _ _ _ _
    | with_reducible exact addAstMessage_holds hR _ _
    | with_reducible exact emit_holds hR _ _ (by with_unfolding_all first | rfl | (split <;> rfl))
    | with_reducible refine Holds.bind hR ?_ (fun _ => ?_)
    | split
    | dsimp only)

theorem visitOutWithClause_holds {R : GenState → GenState → Prop}
    (hR : StepRel R) (func : Option FuncRef) (expr : Expr) (ctx : Ctx) (s :
    Storage) (withitem_value : Option Expr) :
    Holds R (visitOutWithClause func expr ctx s withitem_value) := by
  unfold visitOutWithClause
  repeat any_goals (first
    | with_reducible exact Holds.pure hR _
    | with_reducible exact Holds.genPure hR _
    | with_reducible exact Holds.oom
    | with_reducible exact Holds.unexpected
    | with_reducible exact Holds.abort
    | with_reducible exact Holds.fail
    | with_reducible exact Holds.assert hR _
    | with_reducible exact Holds.ofOption hR _
    | with_reducible exact Holds.get hR
    | with_reducible exact emit_holds hR _ _ (by with_unfolding_all first | rfl | (split <;> rfl))
    | with_reducible exact visitOutStorageRef_holds hR _ _ _ _
    | with_reducible refine Holds.bind hR ?_ (fun _ => ?_)
    | split
    | dsimp only)

theorem visitOutReturn_holds {R : GenState → GenState → Prop}
    (hR : StepRel R) (func : Option FuncRef) (expr : Expr) (ctx : Ctx)
    (returned_expression : Option Expr) :
    Holds R (visitOutReturn func expr ctx returned_expression) := by
  unfold visitOutReturn
  repeat any_goals (first
    | with_reducible exact Holds.pure hR _
    | with_reducible exact Holds.genPure hR _
    | with_reducible exact Holds.oom
    | with_reducible exact Holds.unexpected
    | with_reducible exact Holds.abort
    | with_reducible exact Holds.fail
    | with_reducible exact Holds.assert hR _
    | with_reducible exact Holds.ofOption hR _
    | with_reducible exact Holds.get hR
    | with_reducible exact new1linetemp_holds hR _ _ _ _
    | with_reducible exact emit_holds hR _ _ (by with_unfolding_all first | rfl | (split <;> rfl))
    | with_reducible refine Holds.bind hR ?_ (fun _ => ?_)
    | split
    | dsimp only)

theorem emitUnknownAttribute_holds {R : GenState → GenState → Prop}
    (hR : StepRel R) (env : Env) (func : FuncRef) (expr lvalue : Expr) (ctx
    : Ctx) (name : String) :
    Holds R (emitUnknownAttribute env func expr lvalue ctx name) := by
  unfold emitUnknownAttribute
  repeat any_goals (first
    | with_reducible exact Holds.pure hR _
    | with_reducible exact Holds.genPure hR _
    | with_reducible exact Holds.oom
    | with_reducible exact Holds.unexpected
    | with_reducible exact Holds.abort
    | with_reducible exact Holds.fail
    | with_reducible exact Holds.assert hR _
    | with_reducible exact Holds.ofOption hR _
    | with_reducible exact Holds.get hR
    | with_reducible exact new1linetemp_holds hR _ _ _ _
    | with_reducible exact addAstMessage_holds hR _ _
    | with_reducible exact emit_holds hR _ _ (by with_unfolding_all first | rfl | (split <;> rfl))
    | with_reducible refine Holds.bind hR ?_ (fun _ => ?_)
    | split
    | dsimp only)

theorem loadOldValue_holds {R : GenState → GenState → Prop}
    (hR : StepRel R) (env : Env) (func : FuncRef) (expr lvalue : Expr) (ctx
    : Ctx) (str : StorageRef) (iscomplexassign : Bool) :
    Holds R (loadOldValue env func expr lvalue ctx str iscomplexassign) :=
      by
  unfold loadOldValue
  repeat any_goals (first
    | with_reducible exact Holds.pure hR _
    | with_reducible exact Holds.genPure hR _
    | with_reducible exact Holds.oom
    | with_reducible exact Holds.unexpected
    | with_reducible exact Holds.abort
    | with_reducible exact Holds.fail
    | with_reducible exact Holds.assert hR _
    | with_reducible exact Holds.ofOption hR _
    | with_reducible exact Holds.get hR
    | with_reducible exact new1linetemp_holds hR _ _ _ _
    | with_reducible exact storageOf_holds hR _
    | with_reducible exact emit_holds hR _ _ (by with_unfolding_all first | rfl | (split <;> rfl))
    | with_reducible exact errorInvalidAssign_holds hR _
    | with_reducible exact emitUnknownAttribute_holds hR _ _ _ _ _ _
    | with_reducible refine Holds.bind hR ?_ (fun _ => ?_)
    | split
    | dsimp only)

theorem storeAssigned_holds {R : GenState → GenState → Prop}
    (hR : StepRel R) (env : Env) (func : FuncRef) (expr : Expr) (ctx : Ctx)
    (str : StorageRef) (assignfromtemporary complexsetter_tmp : Int) (lvalue
    : Option Expr) :
    Holds R (storeAssigned env func expr ctx str assignfromtemporary
      complexsetter_tmp lvalue) := by
  unfold storeAssigned
  repeat any_goals (first
    | with_reducible exact Holds.pure hR _
    | with_reducible exact Holds.genPure hR _
    | with_reducible exact Holds.oom
    | with_reducible exact Holds.unexpected
    | with_reducible exact Holds.abort
    | with_reducible exact Holds.fail
    | with_reducible exact Holds.assert hR _
    | with_reducible exact Holds.ofOption hR _
    | with_reducible exact Holds.get hR
    | with_reducible exact storageOf_holds hR _
    | with_reducible exact emit_holds hR _ _ (by with_unfolding_all first | rfl | (split <;> rfl))
    | with_reducible exact errorInvalidAssign_holds hR _
    | with_reducible exact emitUnknownAttribute_holds hR _ _ _ _ _ _
    | with_reducible refine Holds.bind hR ?_ (fun _ => ?_)
    | split
    | dsimp only)

theorem visitOutVardef_holds {R : GenState → GenState → Prop}
    (hR : StepRel R) (env : Env) (func : Option FuncRef) (expr : Expr) (ctx
    : Ctx) (s : Storage) (value : Option Expr) :
    Holds R (visitOutVardef env func expr ctx s value) := by
  unfold visitOutVardef
  repeat any_goals (first
    | with_reducible exact Holds.pure hR _
    | with_reducible exact Holds.genPure hR _
    | with_reducible exact Holds.oom
    | with_reducible exact Holds.unexpected
    | with_reducible exact Holds.abort
    | with_reducible exact Holds.fail
    | with_reducible exact Holds.assert hR _
    | with_reducible exact Holds.ofOption hR _
    | with_reducible exact Holds.get hR
    | with_reducible exact new1linetemp_holds hR _ _ _ _
    | with_reducible exact emit_holds hR _ _ (by with_unfolding_all first | rfl | (split <;> rfl))
    | with_reducible exact storeAssigned_holds hR _ _ _ _ _ _ _ _
    | with_reducible refine Holds.bind hR ?_ (fun _ => ?_)
    | split
    | dsimp only)

theorem visitOutAssign_holds {R : GenState → GenState → Prop}
    (hR : StepRel R) (env : Env) (func : Option FuncRef) (expr : Expr) (ctx
    : Ctx) (assignop : H64Op) (lvalue rvalue : Expr) :
    Holds R (visitOutAssign env func expr ctx assignop lvalue rvalue) := by
  unfold visitOutAssign
  repeat any_goals (first
    | with_reducible exact Holds.pure hR _
    | with_reducible exact Holds.genPure hR _
    | with_reducible exact Holds.oom
    | with_reducible exact Holds.unexpected
    | with_reducible exact Holds.abort
    | with_reducible exact Holds.fail
    | with_reducible exact Holds.assert hR _
    | with_reducible exact Holds.ofOption hR _
    | with_reducible exact Holds.get hR
    | with_reducible exact new1linetemp_holds hR _ _ _ _
    | with_reducible exact emit_holds hR _ _ (by with_unfolding_all first | rfl | (split <;> rfl))
    | with_reducible exact get_assign_lvalue_storage_holds hR _
    | with_reducible exact loadOldValue_holds hR _ _ _ _ _ _ _
    | with_reducible exact storeAssigned_holds hR _ _ _ _ _ _ _ _
    | with_reducible refine Holds.bind hR ?_ (fun _ => ?_)
    | split
    | dsimp only)

/-! The steps of visit_in respect every flow relation. -/

theorem setStorageOf_holds {R : GenState → GenState → Prop}
    (hR : FullRel R) (func : FuncRef) (si : StorageInfo) :
    Holds R (setStorageOf func si) := by
  intro st st1 a h
  unfold setStorageOf at h
  split at h
  · cases h
  · cases h
    exact hR.anystorage _ _ _

theorem newDoStmtId_holds {R : GenState → GenState → Prop}
    (hR : FullRel R) (func : FuncRef) : Holds R (newDoStmtId func) := by
  unfold newDoStmtId
  repeat any_goals (first
    | exact Holds.pure hR.toStepRel _
    | exact storageOf_holds hR.toStepRel _
    | exact setStorageOf_holds hR _ _
    | refine Holds.bind hR.toStepRel ?_ (fun _ => ?_))

theorem enforce_dostmt_limit_holds {R : GenState → GenState → Prop}
    (hR : StepRel R) (func : FuncRef) :
    Holds R (_enforce_dostmt_limit_in_func func) := by
  unfold _enforce_dostmt_limit_in_func
  repeat any_goals (first
    | exact Holds.fail
    | exact Holds.pure hR _
    | exact storageOf_holds hR _
    | exact addProjectMessage_holds hR _ _
    | exact (fun st st1 a h => by cases h; exact hR.unexpected _ _)
    | refine Holds.bind hR ?_ (fun _ => ?_)
    | split)

/-- Reading the storage info of a function and writing it back with the
same counter of `do` and `with` statements, followed by `k`. -/
theorem Holds.relabel {α : Type} {R : GenState → GenState → Prop}
    (hR : FlowRel R) (func : FuncRef) (upd : StorageInfo → StorageInfo)
    (k : StorageInfo → Gen α)
    (hdo : ∀ si, (upd si).dostmts_used = si.dostmts_used)
    (hk : ∀ si, Holds R (k si)) :
    Holds R (storageOf func >>= fun si =>
      setStorageOf func (upd si) >>= fun _ => k si) := by
  intro st st2 a h
  obtain ⟨si, st1, h1, h2⟩ := Gen.bind_ok h
  obtain ⟨hst, h0, f, hf, hsi⟩ := storageOf_ok func st st1 si h1
  rw [hst] at h2
  obtain ⟨u, st3, h3, h4⟩ := Gen.bind_ok h2
  refine hR.trans _ _ _ ?_ (hk si _ _ _ h4)
  unfold setStorageOf at h3
  rw [if_neg (by omega)] at h3
  cases h3
  exact hR.labels st _ f _ hf (by rw [hdo, hsi])

theorem newJumpId_holds {R : GenState → GenState → Prop}
    (hR : FlowRel R) (func : FuncRef) : Holds R (newJumpId func) := by
  unfold newJumpId
  exact Holds.relabel hR func
    (fun si => { si with jump_targets_used := si.jump_targets_used + 1 }) _
    (fun _ => rfl) (fun _ => Holds.pure hR.toStepRel _)

theorem pushLoop_holds {R : GenState → GenState → Prop}
    (hL : LoopFree R) (a b : Int) : Holds R (pushLoop a b) := by
  intro st st1 u h
  cases h
  exact hL _ _

theorem popLoop_holds {R : GenState → GenState → Prop}
    (hL : LoopFree R) : Holds R popLoop := by
  intro st st1 u h
  unfold popLoop at h
  split at h
  · cases h
  · cases h
    exact hL _ _

theorem currentLoop_holds {R : GenState → GenState → Prop}
    (hR : StepRel R) : Holds R currentLoop := by
  intro st st1 u h
  unfold currentLoop at h
  split at h
  · cases h
    exact hR.refl _
  · cases h

theorem lookupAttributeName_holds {R : GenState → GenState → Prop}
    (hR : StepRel R) (name : String) (add : Bool) :
    Holds R (lookupAttributeName name add) := by
  unfold lookupAttributeName
  split
  · exact internAttributeName_holds hR _
  · intro st st1 a h
    cases h
    exact hR.refl _

theorem freemultilinetemp_dost (si si1 : StorageInfo) (temp : Int)
    (h : freemultilinetemp si temp = some si1) :
    si1.dostmts_used = si.dostmts_used := by
  unfold freemultilinetemp at h
  dsimp only at h
  split at h
  · split at h
    · split at h
      · cases h
        rfl
      · cases h
    · cases h
  · cases h

theorem freeMultilineTemp_holds {R : GenState → GenState → Prop}
    (hR : FlowRel R) (func : FuncRef) (temp : Int) :
    Holds R (freeMultilineTemp func temp) := by
  intro st st2 a h
  unfold freeMultilineTemp at h
  obtain ⟨si, st1, h1, h2⟩ := Gen.bind_ok h
  obtain ⟨hst, h0, f, hf, hsi⟩ := storageOf_ok func st st1 si h1
  rw [hst] at h2
  cases hfm : freemultilinetemp si temp with
  | none =>
    rw [hfm] at h2
    cases h2
  | some si1 =>
    rw [hfm] at h2
    have h3 : setStorageOf func si1 st = .ok st2 a := h2
    unfold setStorageOf at h3
    rw [if_neg (by omega)] at h3
    cases h3
    exact hR.labels st _ f _ hf
      (by rw [freemultilinetemp_dost si si1 temp hfm, hsi])

theorem cancelVisitDescend_holds {R : GenState → GenState → Prop}
    (hR : StepRel R) : Holds R cancelVisitDescend := by
  intro st st1 a h
  unfold cancelVisitDescend at h
  split at h
  · cases h
    exact hR.descend _ _
  · cases h
    exact hR.refl _

theorem visitChildIn_holds {R : GenState → GenState → Prop}
    (hR : StepRel R) (visit : Visitor) (child : Expr) (ctx : Ctx)
    (hv : ∀ e ctx, Holds R (visit e ctx)) :
    Holds R (visitChildIn visit child ctx) := by
  intro st st1 a h
  unfold visitChildIn at h
  split at h
  · rename_i st2 c hc
    cases h
    exact hR.trans _ _ _ (hR.descend _ _)
      (hR.trans _ _ _ (hv _ _ _ _ _ hc) (hR.descend _ _))
  all_goals cases h

theorem visitChildOom_holds {R : GenState → GenState → Prop}
    (hR : StepRel R) (visit : Visitor) (child : Expr) (ctx : Ctx)
    (hv : ∀ e ctx, Holds R (visit e ctx)) :
    Holds R (visitChildOom visit child ctx) := by
  intro st st1 a h
  unfold visitChildOom at h
  split at h
  · rename_i st2 c hc
    cases h
    exact hR.trans _ _ _ (hR.descend _ _)
      (hR.trans _ _ _ (hv _ _ _ _ _ hc) (hR.descend _ _))
  all_goals cases h

theorem visitChild_holds {R : GenState → GenState → Prop}
    (hR : StepRel R) (visit : Visitor) (expr : Expr) (ctx : Ctx)
    (slot : Slot) (child : Expr) (hv : ∀ e ctx, Holds R (visit e ctx)) :
    Holds R (visitChild visit expr ctx slot child) :=
  visitChildIn_holds hR visit child _ hv

theorem visitStmts_holds {R : GenState → GenState → Prop}
    (hR : StepRel R) (visit : Visitor) (expr : Expr) (ctx : Ctx)
    (stmts : List Expr) (hv : ∀ e ctx, Holds R (visit e ctx)) :
    Holds R (visitStmts visit expr ctx stmts) := by
  induction stmts with
  | nil => exact Holds.genPure hR _
  | cons s rest ih =>
    unfold visitStmts
    repeat any_goals (first
      | exact ih
      | exact Holds.pure hR _
      | exact visitChild_holds hR _ _ _ _ _ hv
      | refine Holds.bind hR ?_ (fun _ => ?_))

theorem visitStmtsFreeing_holds {R : GenState → GenState → Prop}
    (hR : StepRel R) (visit : Visitor) (self : FuncRef) (expr : Expr)
    (ctx : Ctx) (stmts : List Expr) (hv : ∀ e ctx, Holds R (visit e ctx)) :
    Holds R (visitStmtsFreeing visit self expr ctx stmts) := by
  induction stmts with
  | nil => exact Holds.genPure hR _
  | cons s rest ih =>
    unfold visitStmtsFreeing
    repeat any_goals (first
      | exact ih
      | exact Holds.pure hR _
      | exact visitChild_holds hR _ _ _ _ _ hv
      | exact freeLineTemps_holds hR _
      | refine Holds.bind hR ?_ (fun _ => ?_))

theorem visitArgs_holds {R : GenState → GenState → Prop}
    (hR : StepRel R) (visit : Visitor) (chain : Ctx)
    (args : List (Option String × Expr))
    (hv : ∀ e ctx, Holds R (visit e ctx)) :
    Holds R (visitArgs visit chain args) := by
  induction args with
  | nil => exact Holds.genPure hR _
  | cons a rest ih =>
    obtain ⟨name, arg⟩ := a
    unfold visitArgs
    repeat any_goals (first
      | exact ih
      | exact Holds.pure hR _
      | exact visitChildIn_holds hR _ _ _ hv
      | refine Holds.bind hR ?_ (fun _ => ?_))

theorem withSetNone_holds {R : GenState → GenState → Prop}
    (hR : StepRel R) (func : FuncRef) (clauses : List Expr) :
    Holds R (withSetNone func clauses) := by
  induction clauses with
  | nil => exact Holds.genPure hR _
  | cons c rest ih =>
    unfold withSetNone
    repeat any_goals (first
      | exact ih
      | exact Holds.assert hR _
      | exact emit_holds hR _ _ rfl
      | refine Holds.bind hR ?_ (fun _ => ?_)
      | dsimp only)

theorem doAddRescueTypes_holds {R : GenState → GenState → Prop}
    (hR : StepRel R) (func : FuncRef) (expr : Expr) (ctx : Ctx)
    (dostmtid : Int) (errors : List Expr) (reuse : Int) :
    Holds R (doAddRescueTypes func expr ctx dostmtid errors reuse) := by
  induction errors generalizing reuse with
  | nil => exact Holds.genPure hR _
  | cons e rest ih =>
    unfold doAddRescueTypes
    repeat any_goals (first
      | exact ih _
      | exact Holds.pure hR _
      | exact Holds.oom
      | exact Holds.abort
      | exact Holds.assert hR _
      | exact new1linetemp_holds hR _ _ _ _
      | exact emit_holds hR _ _ rfl
      | refine Holds.bind hR ?_ (fun _ => ?_)
      | split
      | dsimp only)

theorem visitKwDefaults_holds {R : GenState → GenState → Prop}
    (hR : FlowRel R) (env : Env) (visit : Visitor) (self : FuncRef)
    (expr : Expr) (ctx : Ctx) (args : List (Option Expr)) (argtmp : Int)
    (hv : ∀ e ctx, Holds R (visit e ctx)) :
    Holds R (visitKwDefaults env visit self expr ctx args argtmp) := by
  induction args generalizing argtmp with
  | nil => exact Holds.genPure hR.toStepRel _
  | cons a rest ih =>
    cases a with
    | none =>
      unfold visitKwDefaults
      repeat any_goals (first
        | exact ih _
        | exact Holds.pure hR.toStepRel _
        | refine Holds.bind hR.toStepRel ?_ (fun _ => ?_))
    | some value =>
      unfold visitKwDefaults
      repeat any_goals (first
        | exact ih _
        | exact Holds.pure hR.toStepRel _
        | exact Holds.oom
        | exact Holds.assert hR.toStepRel _
        | exact newJumpId_holds hR _
        | exact newtemp_holds hR.toStepRel _ _
        | exact freeLineTemps_holds hR.toStepRel _
        | exact visitChild_holds hR.toStepRel _ _ _ _ _ hv
        | exact emitFlow_holds hR _ _ rfl
        | refine Holds.bind hR.toStepRel ?_ (fun _ => ?_)
        | split
        | dsimp only)

theorem visitIfClauses_holds {R : GenState → GenState → Prop}
    (hR : FlowRel R) (visit : Visitor) (func : FuncRef) (expr : Expr)
    (ctx : Ctx) (jumpid_end : Int) (conditional : Option Expr)
    (stmt : List Expr) (rest : List (Option Expr × List Expr))
    (hv : ∀ e ctx, Holds R (visit e ctx)) :
    Holds R (visitIfClauses visit func expr ctx jumpid_end conditional stmt
      rest) := by
  induction rest generalizing conditional stmt with
  | nil =>
    unfold visitIfClauses
    repeat any_goals (first
      | exact Holds.pure hR.toStepRel _
      | exact Holds.assert hR.toStepRel _
      | exact setDescend_holds hR.toStepRel _
      | exact visitChild_holds hR.toStepRel _ _ _ _ _ hv
      | exact visitStmts_holds hR.toStepRel _ _ _ _ hv
      | exact emitFlow_holds hR _ _ rfl
      | refine Holds.bind hR.toStepRel ?_ (fun _ => ?_)
      | split
      | dsimp only)
  | cons c rest ih =>
    obtain ⟨nextcond, nextstmt⟩ := c
    unfold visitIfClauses
    repeat any_goals (first
      | exact ih _ _
      | exact Holds.pure hR.toStepRel _
      | exact Holds.assert hR.toStepRel _
      | exact newJumpId_holds hR _
      | exact setDescend_holds hR.toStepRel _
      | exact visitChild_holds hR.toStepRel _ _ _ _ _ hv
      | exact visitStmts_holds hR.toStepRel _ _ _ _ hv
      | exact emitFlow_holds hR _ _ rfl
      | refine Holds.bind hR.toStepRel ?_ (fun _ => ?_)
      | split
      | dsimp only)

theorem visitOutFunc_holds {R : GenState → GenState → Prop}
    (hR : StepRel R) (env : Env) (expr : Expr) (ctx : Ctx) :
    Holds R (visitOutFunc env expr ctx) := by
  unfold visitOutFunc
  repeat any_goals (first
    | with_reducible exact Holds.pure hR _
    | with_reducible exact Holds.genPure hR _
    | with_reducible exact Holds.oom
    | with_reducible exact Holds.unexpected
    | with_reducible exact Holds.abort
    | with_reducible exact Holds.fail
    | with_reducible exact Holds.assert hR _
    | with_reducible exact Holds.ofOption hR _
    | with_reducible exact Holds.get hR
    | with_reducible exact hR.fakeclass _ _
    | with_reducible exact hR.fakeglobal
    | with_reducible refine Holds.bind hR ?_ (fun _ => ?_)
    | split
    | dsimp only)

theorem visitOutBranch_holds {R : GenState → GenState → Prop}
    (hR : StepRel R) (env : Env) (itemsort : List KwArgSortInfo → List
    KwArgSortInfo) (func : Option FuncRef) (expr : Expr) (ctx : Ctx) :
    Holds R (visitOutBranch env itemsort func expr ctx) := by
  unfold visitOutBranch
  repeat any_goals (first
    | with_reducible exact Holds.pure hR _
    | with_reducible exact Holds.genPure hR _
    | with_reducible exact Holds.oom
    | with_reducible exact Holds.unexpected
    | with_reducible exact Holds.abort
    | with_reducible exact Holds.fail
    | with_reducible exact Holds.assert hR _
    | with_reducible exact Holds.ofOption hR _
    | with_reducible exact Holds.get hR
    | with_reducible exact addAstMessage_holds hR _ _
    | with_reducible exact emit_holds hR _ _ (by with_unfolding_all first | rfl | (split <;> rfl))
    | with_reducible exact visitOutListSet_holds hR _ _ _ _ _
    | with_reducible exact visitOutVectorMap_holds hR _ _ _ _ _
    | with_reducible exact visitOutLiteral_holds hR _ _ _ _ _
    | with_reducible exact visitOutGetAttribute_holds hR _ _ _ _ _ _
    | with_reducible exact visitOutBinop_holds hR _ _ _ _ _ _ _ _
    | with_reducible exact visitOutUnop_holds hR _ _ _ _ _ _
    | with_reducible exact visitOutCall_holds hR _ _ _ _ _ _ _ _ _
    | with_reducible exact identifierSkipped_holds hR _ _ _
    | with_reducible exact visitOutStorageRef_holds hR _ _ _ _
    | with_reducible exact visitOutWithClause_holds hR _ _ _ _ _
    | with_reducible exact visitOutReturn_holds hR _ _ _ _
    | with_reducible exact visitOutVardef_holds hR _ _ _ _ _ _
    | with_reducible exact visitOutAssign_holds hR _ _ _ _ _ _ _
    | with_reducible refine Holds.bind hR ?_ (fun _ => ?_)
    | split
    | dsimp only)

theorem visit_out_holds {R : GenState → GenState → Prop}
    (hR : StepRel R) (env : Env) (itemsort : List KwArgSortInfo → List
    KwArgSortInfo) (expr : Expr) (ctx : Ctx) :
    Holds R (visit_out env itemsort expr ctx) := by
  unfold visit_out
  repeat any_goals (first
    | with_reducible exact Holds.pure hR _
    | with_reducible exact Holds.genPure hR _
    | with_reducible exact Holds.oom
    | with_reducible exact Holds.unexpected
    | with_reducible exact Holds.abort
    | with_reducible exact Holds.fail
    | with_reducible exact Holds.assert hR _
    | with_reducible exact Holds.ofOption hR _
    | with_reducible exact Holds.get hR
    | with_reducible exact freeLineTemps_holds hR _
    | with_reducible exact hR.sizes _
    | with_reducible exact visitOutFunc_holds hR _ _ _
    | with_reducible exact visitOutBranch_holds hR _ _ _ _ _
    | with_reducible refine Holds.bind hR ?_ (fun _ => ?_)
    | split
    | dsimp only)

theorem visitInFunc_holds {R : GenState → GenState → Prop}
    (hR : StepRel R) (env : Env) (expr : Expr) (ctx : Ctx) :
    Holds R (visitInFunc env expr ctx) := by
  unfold visitInFunc
  repeat any_goals (first
    | with_reducible exact Holds.pure hR _
    | with_reducible exact Holds.genPure hR _
    | with_reducible exact Holds.oom
    | with_reducible exact Holds.unexpected
    | with_reducible exact Holds.abort
    | with_reducible exact Holds.fail
    | with_reducible exact Holds.assert hR _
    | with_reducible exact Holds.ofOption hR _
    | with_reducible exact Holds.get hR
    | with_reducible exact hR.fakeclass _ _
    | with_reducible exact hR.fakeglobal
    | with_reducible refine Holds.bind hR ?_ (fun _ => ?_)
    | split
    | dsimp only)

theorem visitInWhile_holds {R : GenState → GenState → Prop}
    (hR : FlowRel R) (hL : LoopFree R) (visit : Visitor)
    (func : Option FuncRef) (expr : Expr) (ctx : Ctx) (s : Storage)
    (conditional : Expr) (stmt : List Expr)
    (hv : ∀ e ctx, Holds R (visit e ctx)) :
    Holds R (visitInWhile visit func expr ctx s conditional stmt) := by
  unfold visitInWhile
  repeat any_goals (first
    | with_reducible exact Holds.pure hR.toStepRel _
    | with_reducible exact Holds.genPure hR.toStepRel _
    | with_reducible exact Holds.oom
    | with_reducible exact Holds.unexpected
    | with_reducible exact Holds.abort
    | with_reducible exact Holds.fail
    | with_reducible exact Holds.assert hR.toStepRel _
    | with_reducible exact Holds.ofOption hR.toStepRel _
    | with_reducible exact Holds.get hR.toStepRel
    | with_reducible exact emitFlow_holds hR _ _ (by with_unfolding_all rfl)
    | with_reducible exact setDescend_holds hR.toStepRel _
    | with_reducible exact emit_holds hR.toStepRel _ _ (by with_unfolding_all first | rfl | (split <;> rfl))
    | with_reducible exact newJumpId_holds hR _
    | with_reducible exact pushLoop_holds hL _ _
    | with_reducible exact popLoop_holds hL
    | with_reducible exact visitChild_holds hR.toStepRel _ _ _ _ _ hv
    | with_reducible exact visitStmts_holds hR.toStepRel _ _ _ _ hv
    | with_reducible refine Holds.bind hR.toStepRel ?_ (fun _ => ?_)
    | split
    | dsimp only)

theorem visitInBreak_holds {R : GenState → GenState → Prop}
    (hR : FlowRel R) (func : Option FuncRef) :
    Holds R (visitInBreak func) := by
  unfold visitInBreak
  repeat any_goals (first
    | with_reducible exact Holds.pure hR.toStepRel _
    | with_reducible exact Holds.genPure hR.toStepRel _
    | with_reducible exact Holds.oom
    | with_reducible exact Holds.unexpected
    | with_reducible exact Holds.abort
    | with_reducible exact Holds.fail
    | with_reducible exact Holds.assert hR.toStepRel _
    | with_reducible exact Holds.ofOption hR.toStepRel _
    | with_reducible exact Holds.get hR.toStepRel
    | with_reducible exact emitFlow_holds hR _ _ (by with_unfolding_all rfl)
    | with_reducible exact emit_holds hR.toStepRel _ _ (by with_unfolding_all first | rfl | (split <;> rfl))
    | with_reducible exact currentLoop_holds hR.toStepRel
    | with_reducible refine Holds.bind hR.toStepRel ?_ (fun _ => ?_)
    | split
    | dsimp only)

theorem visitInContinue_holds {R : GenState → GenState → Prop}
    (hR : FlowRel R) (func : Option FuncRef) :
    Holds R (visitInContinue func) := by
  unfold visitInContinue
  repeat any_goals (first
    | with_reducible exact Holds.pure hR.toStepRel _
    | with_reducible exact Holds.genPure hR.toStepRel _
    | with_reducible exact Holds.oom
    | with_reducible exact Holds.unexpected
    | with_reducible exact Holds.abort
    | with_reducible exact Holds.fail
    | with_reducible exact Holds.assert hR.toStepRel _
    | with_reducible exact Holds.ofOption hR.toStepRel _
    | with_reducible exact Holds.get hR.toStepRel
    | with_reducible exact emitFlow_holds hR _ _ (by with_unfolding_all rfl)
    | with_reducible exact emit_holds hR.toStepRel _ _ (by with_unfolding_all first | rfl | (split <;> rfl))
    | with_reducible exact currentLoop_holds hR.toStepRel
    | with_reducible refine Holds.bind hR.toStepRel ?_ (fun _ => ?_)
    | split
    | dsimp only)

theorem visitInBoolCond_holds {R : GenState → GenState → Prop}
    (hR : FlowRel R) (env : Env) (visit : Visitor) (func : Option FuncRef)
    (expr : Expr) (ctx : Ctx) (s : Storage) (optype : H64Op) (value1 value2
    : Expr) (hv : ∀ e ctx, Holds R (visit e ctx)) :
    Holds R (visitInBoolCond env visit func expr ctx s optype value1 value2)
      := by
  unfold visitInBoolCond
  repeat any_goals (first
    | with_reducible exact Holds.pure hR.toStepRel _
    | with_reducible exact Holds.genPure hR.toStepRel _
    | with_reducible exact Holds.oom
    | with_reducible exact Holds.unexpected
    | with_reducible exact Holds.abort
    | with_reducible exact Holds.fail
    | with_reducible exact Holds.assert hR.toStepRel _
    | with_reducible exact Holds.ofOption hR.toStepRel _
    | with_reducible exact Holds.get hR.toStepRel
    | with_reducible exact emitFlow_holds hR _ _ (by with_unfolding_all rfl)
    | with_reducible exact new1linetemp_holds hR.toStepRel _ _ _ _
    | with_reducible exact setDescend_holds hR.toStepRel _
    | with_reducible exact emit_holds hR.toStepRel _ _ (by with_unfolding_all first | rfl | (split <;> rfl))
    | with_reducible exact newJumpId_holds hR _
    | with_reducible exact visitChild_holds hR.toStepRel _ _ _ _ _ hv
    | with_reducible refine Holds.bind hR.toStepRel ?_ (fun _ => ?_)
    | split
    | dsimp only)

theorem visitInRaise_holds {R : GenState → GenState → Prop}
    (hR : FlowRel R) (visit : Visitor) (func : Option FuncRef) (expr : Expr)
    (ctx : Ctx) (s : Storage) (raised_expression : Expr) (hv : ∀ e ctx,
    Holds R (visit e ctx)) :
    Holds R (visitInRaise visit func expr ctx s raised_expression) := by
  unfold visitInRaise
  repeat any_goals (first
    | with_reducible exact Holds.pure hR.toStepRel _
    | with_reducible exact Holds.genPure hR.toStepRel _
    | with_reducible exact Holds.oom
    | with_reducible exact Holds.unexpected
    | with_reducible exact Holds.abort
    | with_reducible exact Holds.fail
    | with_reducible exact Holds.assert hR.toStepRel _
    | with_reducible exact Holds.ofOption hR.toStepRel _
    | with_reducible exact Holds.get hR.toStepRel
    | with_reducible exact addProjectMessage_holds hR.toStepRel _ _
    | with_reducible exact setDescend_holds hR.toStepRel _
    | with_reducible exact emit_holds hR.toStepRel _ _ (by with_unfolding_all first | rfl | (split <;> rfl))
    | with_reducible exact freeLineTemps_holds hR.toStepRel _
    | with_reducible exact visitChildIn_holds hR.toStepRel _ _ _ hv
    | with_reducible refine Holds.bind hR.toStepRel ?_ (fun _ => ?_)
    | split
    | dsimp only)

theorem visitInFuncdef_holds {R : GenState → GenState → Prop}
    (hR : FlowRel R) (env : Env) (visit : Visitor) (expr : Expr) (ctx : Ctx)
    (s : Storage) (bytecode_func_id : Int) (arg_value : List (Option Expr))
    (stmt : List Expr) (hv : ∀ e ctx, Holds R (visit e ctx)) :
    Holds R (visitInFuncdef env visit expr ctx s bytecode_func_id arg_value
      stmt) := by
  unfold visitInFuncdef
  repeat any_goals (first
    | with_reducible exact Holds.pure hR.toStepRel _
    | with_reducible exact Holds.genPure hR.toStepRel _
    | with_reducible exact Holds.oom
    | with_reducible exact Holds.unexpected
    | with_reducible exact Holds.abort
    | with_reducible exact Holds.fail
    | with_reducible exact Holds.assert hR.toStepRel _
    | with_reducible exact Holds.ofOption hR.toStepRel _
    | with_reducible exact Holds.get hR.toStepRel
    | with_reducible exact setDescend_holds hR.toStepRel _
    | with_reducible exact freeLineTemps_holds hR.toStepRel _
    | with_reducible exact visitStmtsFreeing_holds hR.toStepRel _ _ _ _ _ hv
    | with_reducible exact visitKwDefaults_holds hR _ _ _ _ _ _ _ hv
    | with_reducible refine Holds.bind hR.toStepRel ?_ (fun _ => ?_)
    | split
    | dsimp only)

theorem visitInNew_holds {R : GenState → GenState → Prop}
    (hR : FlowRel R) (env : Env) (itemsort : List KwArgSortInfo → List
    KwArgSortInfo) (visit : Visitor) (func : Option FuncRef) (expr : Expr)
    (ctx : Ctx) (s : Storage) (value1 : Expr) (hv : ∀ e ctx, Holds R (visit
    e ctx)) :
    Holds R (visitInNew env itemsort visit func expr ctx s value1) := by
  unfold visitInNew
  repeat any_goals (first
    | with_reducible exact Holds.pure hR.toStepRel _
    | with_reducible exact Holds.genPure hR.toStepRel _
    | with_reducible exact Holds.oom
    | with_reducible exact Holds.unexpected
    | with_reducible exact Holds.abort
    | with_reducible exact Holds.fail
    | with_reducible exact Holds.assert hR.toStepRel _
    | with_reducible exact Holds.ofOption hR.toStepRel _
    | with_reducible exact Holds.get hR.toStepRel
    | with_reducible exact new1linetemp_holds hR.toStepRel _ _ _ _
    | with_reducible exact setDescend_holds hR.toStepRel _
    | with_reducible exact storageOf_holds hR.toStepRel _
    | with_reducible exact emit_holds hR.toStepRel _ _ (by with_unfolding_all first | rfl | (split <;> rfl))
    | with_reducible exact callTo_holds hR.toStepRel _ _ _ _ _ _ _ _ _
    | with_reducible exact enforce_dostmt_limit_holds hR.toStepRel _
    | with_reducible exact visitChildIn_holds hR.toStepRel _ _ _ hv
    | with_reducible exact visitArgs_holds hR.toStepRel _ _ _ hv
    | with_reducible refine Holds.bind hR.toStepRel ?_ (fun _ => ?_)
    | split
    | dsimp only)

theorem visitInHasAttr_holds {R : GenState → GenState → Prop}
    (hR : FlowRel R) (env : Env) (visit : Visitor) (func : Option FuncRef)
    (expr : Expr) (ctx : Ctx) (s : Storage) (value : Expr) (arguments : List
    (Option String × Expr)) (expand is_async : Bool) (hv : ∀ e ctx, Holds R
    (visit e ctx)) :
    Holds R (visitInHasAttr env visit func expr ctx s value arguments expand
      is_async) := by
  unfold visitInHasAttr
  repeat any_goals (first
    | with_reducible exact Holds.pure hR.toStepRel _
    | with_reducible exact Holds.genPure hR.toStepRel _
    | with_reducible exact Holds.oom
    | with_reducible exact Holds.unexpected
    | with_reducible exact Holds.abort
    | with_reducible exact Holds.fail
    | with_reducible exact Holds.assert hR.toStepRel _
    | with_reducible exact Holds.ofOption hR.toStepRel _
    | with_reducible exact Holds.get hR.toStepRel
    | with_reducible exact emitFlow_holds hR _ _ (by with_unfolding_all rfl)
    | with_reducible exact new1linetemp_holds hR.toStepRel _ _ _ _
    | with_reducible exact addProjectMessage_holds hR.toStepRel _ _
    | with_reducible exact setDescend_holds hR.toStepRel _
    | with_reducible exact emit_holds hR.toStepRel _ _ (by with_unfolding_all first | rfl | (split <;> rfl))
    | with_reducible exact newJumpId_holds hR _
    | with_reducible exact lookupAttributeName_holds hR.toStepRel _ _
    | with_reducible exact visitChildOom_holds hR.toStepRel _ _ _ hv
    | with_reducible refine Holds.bind hR.toStepRel ?_ (fun _ => ?_)
    | split
    | dsimp only)

theorem visitInFor_holds {R : GenState → GenState → Prop}
    (hR : FlowRel R) (hL : LoopFree R) (visit : Visitor)
    (func : Option FuncRef) (expr : Expr) (ctx : Ctx) (s : Storage)
    (iterated_container : Expr) (stmt : List Expr)
    (hv : ∀ e ctx, Holds R (visit e ctx)) :
    Holds R (visitInFor visit func expr ctx s iterated_container stmt) := by
  unfold visitInFor
  repeat any_goals (first
    | with_reducible exact Holds.pure hR.toStepRel _
    | with_reducible exact Holds.genPure hR.toStepRel _
    | with_reducible exact Holds.oom
    | with_reducible exact Holds.unexpected
    | with_reducible exact Holds.abort
    | with_reducible exact Holds.fail
    | with_reducible exact Holds.assert hR.toStepRel _
    | with_reducible exact Holds.ofOption hR.toStepRel _
    | with_reducible exact Holds.get hR.toStepRel
    | with_reducible exact emitFlow_holds hR _ _ (by with_unfolding_all rfl)
    | with_reducible exact newtemp_holds hR.toStepRel _ _
    | with_reducible exact setDescend_holds hR.toStepRel _
    | with_reducible exact emit_holds hR.toStepRel _ _ (by with_unfolding_all first | rfl | (split <;> rfl))
    | with_reducible exact freeLineTemps_holds hR.toStepRel _
    | with_reducible exact newJumpId_holds hR _
    | with_reducible exact pushLoop_holds hL _ _
    | with_reducible exact popLoop_holds hL
    | with_reducible exact freeMultilineTemp_holds hR _ _
    | with_reducible exact visitChildOom_holds hR.toStepRel _ _ _ hv
    | with_reducible exact visitStmts_holds hR.toStepRel _ _ _ _ hv
    | with_reducible refine Holds.bind hR.toStepRel ?_ (fun _ => ?_)
    | split
    | dsimp only)

theorem visitInGiven_holds {R : GenState → GenState → Prop}
    (hR : FlowRel R) (visit : Visitor) (func : Option FuncRef) (expr : Expr)
    (ctx : Ctx) (s : Storage) (condition valueyes valueno : Expr) (hv : ∀ e
    ctx, Holds R (visit e ctx)) :
    Holds R (visitInGiven visit func expr ctx s condition valueyes valueno)
      := by
  unfold visitInGiven
  repeat any_goals (first
    | with_reducible exact Holds.pure hR.toStepRel _
    | with_reducible exact Holds.genPure hR.toStepRel _
    | with_reducible exact Holds.oom
    | with_reducible exact Holds.unexpected
    | with_reducible exact Holds.abort
    | with_reducible exact Holds.fail
    | with_reducible exact Holds.assert hR.toStepRel _
    | with_reducible exact Holds.ofOption hR.toStepRel _
    | with_reducible exact Holds.get hR.toStepRel
    | with_reducible exact emitFlow_holds hR _ _ (by with_unfolding_all rfl)
    | with_reducible exact new1linetemp_holds hR.toStepRel _ _ _ _
    | with_reducible exact setDescend_holds hR.toStepRel _
    | with_reducible exact emit_holds hR.toStepRel _ _ (by with_unfolding_all first | rfl | (split <;> rfl))
    | with_reducible exact newJumpId_holds hR _
    | with_reducible exact visitChild_holds hR.toStepRel _ _ _ _ _ hv
    | with_reducible refine Holds.bind hR.toStepRel ?_ (fun _ => ?_)
    | split
    | dsimp only)

theorem visitInIf_holds {R : GenState → GenState → Prop}
    (hR : FlowRel R) (visit : Visitor) (func : Option FuncRef) (expr : Expr)
    (ctx : Ctx) (s : Storage) (conditional : Option Expr) (stmt : List Expr)
    (followup_clause : List (Option Expr × List Expr)) (hv : ∀ e ctx, Holds
    R (visit e ctx)) :
    Holds R (visitInIf visit func expr ctx s conditional stmt
      followup_clause) := by
  unfold visitInIf
  repeat any_goals (first
    | with_reducible exact Holds.pure hR.toStepRel _
    | with_reducible exact Holds.genPure hR.toStepRel _
    | with_reducible exact Holds.oom
    | with_reducible exact Holds.unexpected
    | with_reducible exact Holds.abort
    | with_reducible exact Holds.fail
    | with_reducible exact Holds.assert hR.toStepRel _
    | with_reducible exact Holds.ofOption hR.toStepRel _
    | with_reducible exact Holds.get hR.toStepRel
    | with_reducible exact setDescend_holds hR.toStepRel _
    | with_reducible exact freeLineTemps_holds hR.toStepRel _
    | with_reducible exact newJumpId_holds hR _
    | with_reducible exact visitIfClauses_holds hR _ _ _ _ _ _ _ _ hv
    | with_reducible refine Holds.bind hR.toStepRel ?_ (fun _ => ?_)
    | split
    | dsimp only)

/-! The tree walk respects every flow relation that the `do` and `with`
branches respect. -/

theorem visit_in_holds {R : GenState → GenState → Prop}
    (hR : FlowRel R) (hL : LoopFree R) (env : Env)
    (itemsort : List KwArgSortInfo → List KwArgSortInfo) (visit : Visitor)
    (expr : Expr) (ctx : Ctx) (hv : ∀ e ctx, Holds R (visit e ctx))
    (hWith : ∀ func expr ctx s withclause stmt,
      Holds R (visitInWith env visit func expr ctx s withclause stmt))
    (hDo : ∀ func expr ctx s dostmt errors rescuestmt fin finallystmt,
      Holds R (visitInDo visit func expr ctx s dostmt errors rescuestmt fin
        finallystmt)) :
    Holds R (visit_in env itemsort visit expr ctx) := by
  unfold visit_in
  repeat any_goals (first
    | with_reducible exact Holds.pure hR.toStepRel _
    | with_reducible exact hWith _ _ _ _ _ _
    | with_reducible exact hDo _ _ _ _ _ _ _ _ _
    | with_reducible exact visitInFunc_holds hR.toStepRel _ _ _
    | with_reducible exact freeLineTemps_holds hR.toStepRel _
    | with_reducible exact visitInWhile_holds hR hL _ _ _ _ _ _ _ hv
    | with_reducible exact visitInBreak_holds hR _
    | with_reducible exact visitInContinue_holds hR _
    | with_reducible exact visitInBoolCond_holds hR _ _ _ _ _ _ _ _ _ hv
    | with_reducible exact visitInRaise_holds hR _ _ _ _ _ _ hv
    | with_reducible exact visitInFuncdef_holds hR _ _ _ _ _ _ _ _ hv
    | with_reducible exact visitInNew_holds hR _ _ _ _ _ _ _ _ hv
    | with_reducible exact visitInHasAttr_holds hR _ _ _ _ _ _ _ _ _ _ hv
    | with_reducible exact visitInFor_holds hR hL _ _ _ _ _ _ _ hv
    | with_reducible exact visitInGiven_holds hR _ _ _ _ _ _ _ _ hv
    | with_reducible exact visitInIf_holds hR _ _ _ _ _ _ _ _ hv
    | with_reducible refine Holds.bind hR.toStepRel ?_ (fun _ => ?_)
    | split
    | dsimp only)

theorem visitOpt_holds {R : GenState → GenState → Prop}
    (hR : StepRel R) (visit : Visitor) (expr : Expr) (ctx : Ctx)
    (slot : Slot) (child : Option Expr)
    (hv : ∀ e ctx, Holds R (visit e ctx)) :
    Holds R (visitOpt visit expr ctx slot child) := by
  cases child with
  | none => exact Holds.genPure hR _
  | some c =>
    unfold visitOpt
    exact Holds.bind hR (hv _ _) (fun _ => Holds.pure hR _)

theorem visitList_holds {R : GenState → GenState → Prop}
    (hR : StepRel R) (visit : Visitor) (expr : Expr) (ctx : Ctx)
    (l : List Expr) (hv : ∀ e ctx, Holds R (visit e ctx)) :
    Holds R (visitList visit expr ctx l) := by
  induction l with
  | nil => exact Holds.genPure hR _
  | cons c rest ih =>
    unfold visitList
    exact Holds.bind hR (hv _ _)
      (fun _ => Holds.bind hR ih (fun _ => Holds.pure hR _))

theorem visitOptList_holds {R : GenState → GenState → Prop}
    (hR : StepRel R) (visit : Visitor) (expr : Expr) (ctx : Ctx)
    (l : List (Option Expr)) (hv : ∀ e ctx, Holds R (visit e ctx)) :
    Holds R (visitOptList visit expr ctx l) := by
  induction l with
  | nil => exact Holds.genPure hR _
  | cons c rest ih =>
    unfold visitOptList
    exact Holds.bind hR (visitOpt_holds hR _ _ _ _ _ hv)
      (fun _ => Holds.bind hR ih (fun _ => Holds.pure hR _))

theorem visitArgList_holds {R : GenState → GenState → Prop}
    (hR : StepRel R) (visit : Visitor) (expr : Expr) (ctx : Ctx)
    (l : List (Option String × Expr))
    (hv : ∀ e ctx, Holds R (visit e ctx)) :
    Holds R (visitArgList visit expr ctx l) := by
  induction l with
  | nil => exact Holds.genPure hR _
  | cons c rest ih =>
    obtain ⟨name, arg⟩ := c
    unfold visitArgList
    exact Holds.bind hR (hv _ _)
      (fun _ => Holds.bind hR ih (fun _ => Holds.pure hR _))

theorem visitPairs_holds {R : GenState → GenState → Prop}
    (hR : StepRel R) (visit : Visitor) (expr : Expr) (ctx : Ctx)
    (l : List (Expr × Expr)) (hv : ∀ e ctx, Holds R (visit e ctx)) :
    Holds R (visitPairs visit expr ctx l) := by
  induction l with
  | nil => exact Holds.genPure hR _
  | cons c rest ih =>
    obtain ⟨k, v⟩ := c
    unfold visitPairs
    exact Holds.bind hR (hv _ _) (fun _ => Holds.bind hR (hv _ _)
      (fun _ => Holds.bind hR ih (fun _ => Holds.pure hR _)))

theorem visitClauses_holds {R : GenState → GenState → Prop}
    (hR : StepRel R) (visit : Visitor) (expr : Expr) (ctx : Ctx)
    (l : List (Option Expr × List Expr))
    (hv : ∀ e ctx, Holds R (visit e ctx)) :
    Holds R (visitClauses visit expr ctx l) := by
  induction l with
  | nil => exact Holds.genPure hR _
  | cons c rest ih =>
    obtain ⟨cond, stmt⟩ := c
    unfold visitClauses
    exact Holds.bind hR (visitOpt_holds hR _ _ _ _ _ hv)
      (fun _ => Holds.bind hR (visitList_holds hR _ _ _ _ hv)
        (fun _ => Holds.bind hR ih (fun _ => Holds.pure hR _)))

theorem visitChildren_holds {R : GenState → GenState → Prop}
    (hR : StepRel R) (visit : Visitor) (expr : Expr) (ctx : Ctx)
    (hv : ∀ e ctx, Holds R (visit e ctx)) :
    Holds R (visitChildren visit expr ctx) := by
  unfold visitChildren
  repeat any_goals (first
    | with_reducible exact Holds.pure hR _
    | with_reducible exact Holds.genPure hR _
    | with_reducible exact hv _ _
    | with_reducible exact visitOpt_holds hR _ _ _ _ _ hv
    | with_reducible exact visitList_holds hR _ _ _ _ hv
    | with_reducible exact visitOptList_holds hR _ _ _ _ hv
    | with_reducible exact visitArgList_holds hR _ _ _ _ hv
    | with_reducible exact visitPairs_holds hR _ _ _ _ hv
    | with_reducible exact visitClauses_holds hR _ _ _ _ hv
    | with_reducible refine Holds.bind hR ?_ (fun _ => ?_)
    | split)

theorem ast_VisitExpression_holds {R : GenState → GenState → Prop}
    (hR : FlowRel R) (hL : LoopFree R) (env : Env)
    (itemsort : List KwArgSortInfo → List KwArgSortInfo) (visit : Visitor)
    (expr : Expr) (ctx : Ctx) (hv : ∀ e ctx, Holds R (visit e ctx))
    (hWith : ∀ func expr ctx s withclause stmt,
      Holds R (visitInWith env visit func expr ctx s withclause stmt))
    (hDo : ∀ func expr ctx s dostmt errors rescuestmt fin finallystmt,
      Holds R (visitInDo visit func expr ctx s dostmt errors rescuestmt fin
        finallystmt)) :
    Holds R (ast_VisitExpression env itemsort visit expr ctx) := by
  unfold ast_VisitExpression
  repeat any_goals (first
    | with_reducible exact visit_in_holds hR hL _ _ _ _ _ hv hWith hDo
    | with_reducible exact cancelVisitDescend_holds hR.toStepRel
    | with_reducible exact visit_out_holds hR.toStepRel _ _ _ _
    | with_reducible exact visitChildren_holds hR.toStepRel _ _ _ hv
    | with_reducible refine Holds.bind hR.toStepRel ?_ (fun _ => ?_)
    | split)

/-- The tree walk of the lowerer respects every flow relation that does not
look at the loop stack and that the `do` and `with` branches respect (given
that the walk they re-enter does). -/
theorem visit_holds {R : GenState → GenState → Prop}
    (hR : FlowRel R) (hL : LoopFree R) (env : Env)
    (itemsort : List KwArgSortInfo → List KwArgSortInfo)
    (hWith : ∀ visit : Visitor, (∀ e ctx, Holds R (visit e ctx)) →
      ∀ func expr ctx s withclause stmt,
        Holds R (visitInWith env visit func expr ctx s withclause stmt))
    (hDo : ∀ visit : Visitor, (∀ e ctx, Holds R (visit e ctx)) →
      ∀ func expr ctx s dostmt errors rescuestmt fin finallystmt,
        Holds R (visitInDo visit func expr ctx s dostmt errors rescuestmt
          fin finallystmt)) :
    ∀ (fuel : Nat) (e : Expr) (ctx : Ctx),
      Holds R (visit env itemsort fuel e ctx) := by
  intro fuel
  induction fuel with
  | zero =>
    intro e ctx st st1 a h
    cases h
  | succ n ih =>
    intro e ctx
    exact ast_VisitExpression_holds hR hL env itemsort _ e ctx ih
      (hWith _ ih) (hDo _ ih)

/-! Growth of the instruction buffers. -/

theorem allPlain_noFrameMark (d : List Inst) (h : AllPlain d) :
    NoFrameMark d := by
  intro i hi
  have := h i hi
  unfold Inst.isPlain at this
  simp only [Bool.and_eq_true, Bool.not_eq_true'] at this
  exact this.2

theorem FlowClosed.toPlainClosed {P : List Inst → Prop}
    (hP : FlowClosed P) : PlainClosed P :=
  ⟨fun d h => hP.flow d (allPlain_noFrameMark d h), hP.app⟩

theorem PlainClosed.nil {P : List Inst → Prop} (hP : PlainClosed P) :
    P [] :=
  hP.plain [] (fun i hi => by cases hi)

theorem Grows.refl {P : List Inst → Prop} (hP : PlainClosed P)
    (st : GenState) : Grows P st st :=
  fun _ => ⟨[], by simp, hP.nil⟩

theorem Grows.trans {P : List Inst → Prop} (hP : PlainClosed P)
    (a b c : GenState) (h1 : Grows P a b) (h2 : Grows P b c) :
    Grows P a c := by
  intro g
  obtain ⟨d1, e1, p1⟩ := h1 g
  obtain ⟨d2, e2, p2⟩ := h2 g
  exact ⟨d1 ++ d2, by rw [e2, e1, List.append_assoc], hP.app _ _ p1 p2⟩

/-- A step that leaves the instruction buffers as they are. -/
theorem Grows.of_same {P : List Inst → Prop} (hP : PlainClosed P)
    (st st1 : GenState) (h : ∀ g, instrsOf st1 g = instrsOf st g) :
    Grows P st st1 :=
  fun g => ⟨[], by rw [h g]; simp, hP.nil⟩

theorem Grows.weaken {P Q : List Inst → Prop} (h : ∀ d, P d → Q d)
    (st st1 : GenState) (hg : Grows P st st1) : Grows Q st st1 := by
  intro g
  obtain ⟨d, e, p⟩ := hg g
  exact ⟨d, e, h d p⟩

theorem instrsOf_set (st : GenState) (id : Nat) (f1 : GenFunc) (g : Nat)
    (h : id < st.func.length) :
    instrsOf { st with func := st.func.set id f1 } g =
      if g = id then f1.instructions else instrsOf st g := by
  unfold instrsOf
  by_cases hg : g = id
  · subst hg
    simp [List.getElem?_set, h]
  · have : ¬ id = g := fun h => hg h.symm
    simp [List.getElem?_set, hg, this]

/-- Replacing a function by one with the same instructions changes no
buffer. -/
theorem instrsOf_set_same (st : GenState) (id : Nat) (f f1 : GenFunc)
    (hf : st.func[id]? = some f) (hi : f1.instructions = f.instructions)
    (g : Nat) :
    instrsOf { st with func := st.func.set id f1 } g = instrsOf st g := by
  rw [instrsOf_set st id f1 g (getElem_lt_of_some st id f hf)]
  split
  · rename_i hg
    subst hg
    unfold instrsOf
    rw [hf, hi]
  · rfl

theorem instrsOf_setStorageInfo (st : GenState) (id : Nat)
    (si : StorageInfo) (g : Nat) :
    instrsOf (setStorageInfo id si st) g = instrsOf st g := by
  unfold setStorageInfo
  split
  · rfl
  · rename_i f hf
    exact instrsOf_set_same st id f { f with storageinfo := si } hf rfl g

/-- The buffers after a successful `appendinst`. -/
theorem instrsOf_appendinst (st st1 : GenState) (id : Nat) (inst : Inst)
    (h : appendinst id inst st = .ok st1 ()) (g : Nat) :
    instrsOf st1 g =
      if g = id then instrsOf st g ++ [inst] else instrsOf st g := by
  obtain ⟨f, hf, rfl⟩ := appendinst_ok id inst st st1 h
  unfold setFunc
  rw [instrsOf_set st id _ g (getElem_lt_of_some st id f hf)]
  split
  · rename_i hg
    subst hg
    unfold instrsOf
    rw [hf]
  · rfl

/-- Appending one record with property `P`. -/
theorem Grows.emitted {P : List Inst → Prop} (hP : PlainClosed P)
    (st st1 : GenState) (id : Nat) (inst : Inst) (hi : P [inst])
    (h : appendinst id inst st = .ok st1 ()) : Grows P st st1 := by
  intro g
  rw [instrsOf_appendinst st st1 id inst h g]
  split
  · exact ⟨[inst], rfl, hi⟩
  · exact ⟨[], by simp, hP.nil⟩

theorem settopIncrement_length : ∀ (l : List Inst) (idx : Nat),
    (settopIncrement l idx).length = l.length := by
  intro l
  induction l with
  | nil => intro idx; rfl
  | cons a rest ih =>
    intro idx
    cases idx with
    | zero => cases a <;> rfl
    | succ k =>
      cases a <;> simp [settopIncrement, ih]

/-- The edit of a `CALL_SETTOP` record at or past index `b.length` leaves
the first `b.length` records alone. -/
theorem settopIncrement_append : ∀ (b d : List Inst) (idx : Nat),
    b.length ≤ idx →
    settopIncrement (b ++ d) idx = b ++ settopIncrement d (idx - b.length) := by
  intro b
  induction b with
  | nil => intro d idx _; rfl
  | cons a rest ih =>
    intro d idx h
    cases idx with
    | zero => simp at h
    | succ k =>
      have hk : rest.length ≤ k := by simpa using h
      cases a <;> simp [settopIncrement, ih d k hk]

theorem settopIncrement_plain : ∀ (d : List Inst) (idx : Nat),
    AllPlain d → AllPlain (settopIncrement d idx) := by
  intro d
  induction d with
  | nil => intro idx h; exact h
  | cons a rest ih =>
    intro idx h
    have ha := h a (List.mem_cons_self _ _)
    have hr : AllPlain rest := fun i hi => h i (List.mem_cons_of_mem _ hi)
    cases idx with
    | zero =>
      cases a <;> first
        | exact h
        | (intro i hi
           rcases List.mem_cons.mp hi with rfl | hi
           · rfl
           · exact hr i hi)
    | succ k =>
      have hs : settopIncrement (a :: rest) (k + 1) =
          a :: settopIncrement rest k := by
        cases a <;> simp [settopIncrement]
      rw [hs]
      intro i hi
      rcases List.mem_cons.mp hi with rfl | hi
      · exact ha
      · exact ih k hr i hi

theorem allPlain_closed : PlainClosed AllPlain :=
  ⟨fun _ h => h, fun a b ha hb i hi => by
    rcases List.mem_append.mp hi with h | h
    · exact ha i h
    · exact hb i h⟩

theorem CallGrown.appendinst (base : GenState) (func idx : Nat)
    (st st1 : GenState) (inst : Inst)
    (hc : CallGrown base func idx st)
    (h : appendinst func inst st = .ok st1 ()) (hi : inst.isPlain = true) :
    CallGrown base func idx st1 :=
  ⟨Grows.trans allPlain_closed _ _ _ hc.1
    (Grows.emitted allPlain_closed st st1 func inst
      (fun i hm => by
        rcases List.mem_singleton.mp hm with rfl
        exact hi) h), hc.2⟩

theorem CallGrown.settop (base : GenState) (func idx : Nat)
    (st : GenState) (hc : CallGrown base func idx st) :
    CallGrown base func idx (settopIncrementIn func idx st) := by
  refine ⟨?_, hc.2⟩
  unfold settopIncrementIn
  cases hf : st.func[func]? with
  | none => exact hc.1
  | some f =>
    intro g
    show ∃ d, instrsOf { st with func := st.func.set func _ } g = _ ∧ _
    rw [instrsOf_set st func _ g (getElem_lt_of_some st func f hf)]
    obtain ⟨d, e, p⟩ := hc.1 g
    split
    · rename_i hg
      subst hg
      have hfi : instrsOf st g = f.instructions := by
        unfold instrsOf
        rw [hf]
      rw [hfi] at e
      show ∃ d, settopIncrement f.instructions idx = _ ∧ _
      rw [e, settopIncrement_append _ _ _ hc.2]
      exact ⟨_, rfl, settopIncrement_plain _ _ p⟩
    · exact ⟨d, e, p⟩

theorem emitCallArgs_grown (base : GenState) (func idx : Nat)
    (args : List (Option String × Expr)) (ex : Bool) :
    ∀ (infos : List KwArgSortInfo) (i : Nat) (v v1 : CallLoop)
      (st st1 : GenState),
    CallGrown base func idx st →
    emitCallArgs func idx args ex infos i v st = .ok st1 v1 →
    CallGrown base func idx st1 := by
  intro infos
  induction infos with
  | nil =>
    intro i v v1 st st1 hc h
    cases h
    exact hc
  | cons info rest ih =>
    intro i v v1 st st1 hc h
    unfold emitCallArgs at h
    dsimp only at h
    split at h
    · split at h
      · cases h
      · split at h
        · rename_i st2 _ ha
          split at h
          · cases h
          · split at h
            · cases h
            · split at h
              · rename_i st4 _ hb
                refine ih _ _ _ _ _ ?_ h
                exact CallGrown.appendinst _ _ _ _ _ _
                  (CallGrown.settop _ _ _ _ (CallGrown.settop _ _ _ _
                    (CallGrown.appendinst _ _ _ _ _ _ hc ha rfl))) hb rfl
              all_goals cases h
        all_goals cases h
    · split at h
      · cases h
      · split at h
        · cases h
        · split at h
          · rename_i st2 _ ha
            refine ih _ _ _ _ _ ?_ h
            exact CallGrown.appendinst _ _ _ _ _ _
              (CallGrown.settop _ _ _ _ hc) ha rfl
          all_goals cases h

/-- The emission of a call only appends plain records to the buffers. -/
theorem codegen_call_to_grows (env : Env)
    (itemsort : List KwArgSortInfo → List KwArgSortInfo) (func : Nat)
    (args : List (Option String × Expr)) (ex asy : Bool) (c r : Int)
    (ign : Bool) :
    Holds (Grows AllPlain)
      (_codegen_call_to env itemsort func args ex asy c r ign) := by
  intro st st1 a h
  have hbase : CallGrown st func (instrsOf st func).length st :=
    ⟨Grows.refl allPlain_closed st, le_refl _⟩
  unfold _codegen_call_to at h
  split at h
  · rename_i si f hsi hf
    have hlen : f.instructions.length = (instrsOf st func).length := by
      unfold instrsOf
      rw [hf]
    dsimp only at h
    rw [hlen] at h
    split at h
    · rename_i st2 _ h1
      have c1 := CallGrown.appendinst _ _ _ _ _ _ hbase h1 rfl
      split at h
      · split at h
        · rename_i st3 temp2 h2
          split at h
          · rename_i st4 _ h3
            split at h
            · rename_i st5 _ h4
              cases h
              have c2 : CallGrown st func (instrsOf st func).length st3 := by
                refine ⟨Grows.trans allPlain_closed _ _ _ c1.1 ?_, c1.2⟩
                apply Grows.of_same allPlain_closed
                intro g
                unfold newtempIn at h2
                split at h2
                · cases h2
                · cases h2
                  rw [instrsOf_setStorageInfo]
                  rfl
              exact (CallGrown.appendinst _ _ _ _ _ _
                (CallGrown.appendinst _ _ _ _ _ _ c2 h3 rfl) h4 rfl).1
            all_goals cases h
          all_goals cases h
        all_goals cases h
      · split at h
        · rename_i st3 v h2
          have c2 := emitCallArgs_grown _ _ _ _ _ _ _ _ _ _ _ c1 h2
          split at h
          · cases h
          · split at h
            · rename_i st4 _ h3
              cases h
              have c3 : CallGrown st func (instrsOf st func).length
                  (setStorageInfo func
                    (raiseMaxExtraStack ‹StorageInfo›
                      (v._argtemp -
                        (‹StorageInfo›).lowest_guaranteed_free_temp))
                    st3) := by
                refine ⟨Grows.trans allPlain_closed _ _ _ c2.1 ?_, c2.2⟩
                apply Grows.of_same allPlain_closed
                intro g
                rw [instrsOf_setStorageInfo]
              refine (CallGrown.appendinst _ _ _ _ _ _ c3 h3 ?_).1
              unfold callInst
              split <;> rfl
            all_goals cases h
        all_goals cases h
    all_goals cases h
  · cases h

/-- The creation of the synthetic class init function changes no buffer. -/
theorem fakeclassinitfunc_same (env : Env) (classidx : Int)
    (st st1 : GenState) (f : FuncRef)
    (h : _fakeclassinitfunc env classidx st = .ok st1 f) (g : Nat) :
    instrsOf st1 g = instrsOf st g := by
  unfold _fakeclassinitfunc at h
  split at h
  · cases h
  · split at h
    · cases h
    · split at h
      · cases h
        rfl
      · dsimp only at h
        cases h
        split
        · rfl
        · rw [instrsOf_setStorageInfo]
          rfl

/-- The registration of the synthetic global init function changes no
buffer: the new function has no instructions. -/
theorem fakeglobalinitfunc_same (st st1 : GenState) (f : FuncRef)
    (h : _fakeglobalinitfunc st = .ok st1 f) (g : Nat) :
    instrsOf st1 g = instrsOf st g := by
  unfold _fakeglobalinitfunc at h
  split at h
  · cases h
    rfl
  · cases h
    unfold registerGlobalInit instrsOf
    dsimp only
    rcases Nat.lt_trichotomy g st.func.length with hl | hl | hl
    · rw [List.getElem?_append_left hl]
    · subst hl
      simp
    · rw [List.getElem?_eq_none (by simp; omega),
        List.getElem?_eq_none (by omega)]

/-- The final stack calculation changes no buffer. -/
theorem calculateFinalFuncStack_same (e : Expr) (st st1 : GenState)
    (h : codegen_CalculateFinalFuncStack e st = .ok st1 ()) (g : Nat) :
    instrsOf st1 g = instrsOf st g := by
  unfold codegen_CalculateFinalFuncStack at h
  split at h
  · dsimp only at h
    split at h
    · cases h
    · split at h
      · cases h
      · rename_i f hf
        cases h
        refine instrsOf_set_same st _ f _ hf ?_ g
        rfl
  · cases h
    rfl

/-- Growth by sequences with a property of plain sequences is respected by
every step outside the control flow statements. -/
theorem grows_stepRel {P : List Inst → Prop} (hP : PlainClosed P) :
    StepRel (Grows P) where
  refl := Grows.refl hP
  trans := Grows.trans hP
  descend := fun st _ => Grows.of_same hP _ _ (fun _ => rfl)
  oom := fun st _ => Grows.of_same hP _ _ (fun _ => rfl)
  unexpected := fun st _ => Grows.of_same hP _ _ (fun _ => rfl)
  astmsg := fun st _ => Grows.of_same hP _ _ (fun _ => rfl)
  prjmsg := fun st _ => Grows.of_same hP _ _ (fun _ => rfl)
  names := fun st _ => Grows.of_same hP _ _ (fun _ => rfl)
  storage := fun st id _ si _ _ _ =>
    Grows.of_same hP _ _ (instrsOf_setStorageInfo st id si)
  sizes := fun e st st1 _ h =>
    Grows.of_same hP _ _ (calculateFinalFuncStack_same e st st1 h)
  plain := fun st id inst st1 hi h =>
    Grows.emitted hP st st1 id inst
      (hP.plain _ (fun i hm => by
        rcases List.mem_singleton.mp hm with rfl
        exact hi)) h
  call := fun env itemsort id args ex asy c r ign =>
    Holds.mono (Grows.weaken hP.plain)
      (codegen_call_to_grows env itemsort id args ex asy c r ign)
  fakeclass := fun env classidx st st1 f h =>
    Grows.of_same hP _ _ (fakeclassinitfunc_same env classidx st st1 f h)
  fakeglobal := fun st st1 f h =>
    Grows.of_same hP _ _ (fakeglobalinitfunc_same st st1 f h)

/-- Growth by sequences with a property of sequences without frame marks is
respected by every step outside the `do` and `with` branches. -/
theorem grows_flowRel {P : List Inst → Prop} (hP : FlowClosed P) :
    FlowRel (Grows P) where
  toStepRel := grows_stepRel hP.toPlainClosed
  flow := fun st id inst st1 hi h =>
    Grows.emitted hP.toPlainClosed st st1 id inst
      (hP.flow _ (fun i hm => by
        rcases List.mem_singleton.mp hm with rfl
        exact hi)) h
  labels := fun st id _ si _ _ =>
    Grows.of_same hP.toPlainClosed _ _ (instrsOf_setStorageInfo st id si)

/-- Growth of the buffers does not look at the loop stack. -/
theorem grows_loopFree {P : List Inst → Prop} (hP : FlowClosed P) :
    LoopFree (Grows P) :=
  fun _ _ => Grows.of_same hP.toPlainClosed _ _ (fun _ => rfl)

/-- Growth by any sequence does not look at the loop stack. -/
theorem grows_anyLoopFree : LoopFree (Grows (fun _ => True)) :=
  grows_loopFree ⟨fun _ _ => trivial, fun _ _ _ _ => trivial⟩

/-- Growth by any sequence is respected by every step of the lowerer. -/
theorem grows_fullRel : FullRel (Grows (fun _ => True)) where
  toFlowRel := grows_flowRel ⟨fun _ _ => trivial, fun _ _ _ _ => trivial⟩
  anystorage := fun st id si =>
    Grows.of_same ⟨fun _ _ => trivial, fun _ _ _ _ => trivial⟩ _ _
      (instrsOf_setStorageInfo st id si)
  anyinst := fun st id inst st1 h =>
    Grows.emitted ⟨fun _ _ => trivial, fun _ _ _ _ => trivial⟩
      st st1 id inst trivial h

/-! The `with` and `do` branches respect every relation closed under all
records. -/

theorem Holds.joinPoint {R : GenState → GenState → Prop} {α β γ : Type}
    (f : β → Gen α) (body : (β → Gen α) → Gen γ)
    (hf : ∀ x, Holds R (f x))
    (hb : ∀ jp : β → Gen α, (∀ x, Holds R (jp x)) → Holds R (body jp)) :
    Holds R (let jp := f; body jp) :=
  hb f hf

theorem emitAny_holds {R : GenState → GenState → Prop}
    (hR : FullRel R) (func : FuncRef) (inst : Inst) :
    Holds R (emit func inst) := by
  intro st st1 a h
  unfold emit at h
  split at h
  · cases h
  · exact hR.anyinst _ _ _ _ h

theorem withCloseCalls_holds {R : GenState → GenState → Prop}
    (hR : FullRel R) (env : Env) (func : FuncRef) (clauses : List Expr) :
    Holds R (withCloseCalls env func clauses) := by
  induction clauses with
  | nil => exact Holds.genPure hR.toStepRel _
  | cons c rest ih =>
    unfold withCloseCalls
    repeat any_goals (first
      | with_reducible exact ih
      | with_reducible exact Holds.pure hR.toStepRel _
      | with_reducible exact Holds.get hR.toStepRel
      | with_reducible exact enforce_dostmt_limit_holds hR.toStepRel _
      | with_reducible exact newDoStmtId_holds hR _
      | with_reducible exact newJumpId_holds hR.toFlowRel _
      | with_reducible exact newtemp_holds hR.toStepRel _ _
      | with_reducible exact freeLineTemps_holds hR.toStepRel _
      | with_reducible exact emitAny_holds hR _ _
      | with_reducible refine Holds.bind hR.toStepRel ?_ (fun _ => ?_)
      | split
      | dsimp only)

theorem popFramesReversed_holds {R : GenState → GenState → Prop}
    (hR : FullRel R) (func : FuncRef) (frames : List Int) :
    Holds R (popFramesReversed func frames) := by
  induction frames with
  | nil => exact Holds.genPure hR.toStepRel _
  | cons c rest ih =>
    unfold popFramesReversed
    exact Holds.bind hR.toStepRel ih (fun _ => emitAny_holds hR _ _)

theorem visitInWith_holds {R : GenState → GenState → Prop}
    (hR : FullRel R) (env : Env) (visit : Visitor)
    (hv : ∀ e ctx, Holds R (visit e ctx)) (func : Option FuncRef)
    (expr : Expr) (ctx : Ctx) (s : Storage) (withclause stmt : List Expr) :
    Holds R (visitInWith env visit func expr ctx s withclause stmt) := by
  unfold visitInWith
  repeat any_goals (first
    | with_reducible exact Holds.pure hR.toStepRel _
    | with_reducible exact Holds.assert hR.toStepRel _
    | with_reducible exact Holds.ofOption hR.toStepRel _
    | with_reducible exact setDescend_holds hR.toStepRel _
    | with_reducible exact enforce_dostmt_limit_holds hR.toStepRel _
    | with_reducible exact newDoStmtId_holds hR _
    | with_reducible exact newJumpId_holds hR.toFlowRel _
    | with_reducible exact withSetNone_holds hR.toStepRel _ _
    | with_reducible exact withCloseCalls_holds hR _ _ _
    | with_reducible exact popFramesReversed_holds hR _ _
    | with_reducible exact visitStmts_holds hR.toStepRel _ _ _ _ hv
    | with_reducible exact visitStmtsFreeing_holds hR.toStepRel _ _ _ _ _ hv
    | with_reducible exact freeLineTemps_holds hR.toStepRel _
    | with_reducible exact emitAny_holds hR _ _
    | with_reducible refine Holds.bind hR.toStepRel ?_ (fun _ => ?_)
    | split
    | dsimp only)

theorem visitInDo_holds {R : GenState → GenState → Prop}
    (hR : FullRel R) (visit : Visitor)
    (hv : ∀ e ctx, Holds R (visit e ctx)) (func : Option FuncRef)
    (expr : Expr) (ctx : Ctx) (s : Storage)
    (dostmt errors rescuestmt : List Expr) (has_finally_block : Bool)
    (finallystmt : List Expr) :
    Holds R (visitInDo visit func expr ctx s dostmt errors rescuestmt
      has_finally_block finallystmt) := by
  unfold visitInDo
  repeat any_goals (first
    | with_reducible exact Holds.pure hR.toStepRel _
    | with_reducible exact Holds.assert hR.toStepRel _
    | with_reducible exact Holds.ofOption hR.toStepRel _
    | with_reducible exact setDescend_holds hR.toStepRel _
    | with_reducible exact enforce_dostmt_limit_holds hR.toStepRel _
    | with_reducible exact newDoStmtId_holds hR _
    | with_reducible exact newJumpId_holds hR.toFlowRel _
    | with_reducible exact doAddRescueTypes_holds hR.toStepRel _ _ _ _ _ _
    | with_reducible exact visitStmtsFreeing_holds hR.toStepRel _ _ _ _ _ hv
    | with_reducible exact freeLineTemps_holds hR.toStepRel _
    | with_reducible exact emitAny_holds hR _ _
    | with_reducible exact ‹∀ x, Holds R (_ x)› _
    | with_reducible refine Holds.bind hR.toStepRel ?_ (fun _ => ?_)
    | with_reducible refine Holds.joinPoint _ _ (fun _ => ?_) (fun _ _ => ?_)
    | split)

/-- The tree walk respects every relation closed under all records. -/
theorem visit_holds_full {R : GenState → GenState → Prop}
    (hR : FullRel R) (hL : LoopFree R) (env : Env)
    (itemsort : List KwArgSortInfo → List KwArgSortInfo) (fuel : Nat)
    (e : Expr) (ctx : Ctx) : Holds R (visit env itemsort fuel e ctx) :=
  visit_holds hR.toFlowRel hL env itemsort
    (fun visit hv func expr ctx s withclause stmt =>
      visitInWith_holds hR env visit hv func expr ctx s withclause stmt)
    (fun visit hv func expr ctx s a b c d e =>
      visitInDo_holds hR visit hv func expr ctx s a b c d e)
    fuel e ctx

/-- The tree walk only appends to the instruction buffers. -/
theorem visit_appends (env : Env)
    (itemsort : List KwArgSortInfo → List KwArgSortInfo) (fuel : Nat)
    (e : Expr) (ctx : Ctx) (st st1 : GenState) (e1 : Expr)
    (h : visit env itemsort fuel e ctx st = .ok st1 e1) (g : Nat) :
    ∃ d, instrsOf st1 g = instrsOf st g ++ d := by
  obtain ⟨d, hd, _⟩ :=
    visit_holds_full grows_fullRel grows_anyLoopFree env itemsort fuel e ctx
      st st1 e1 h g
  exact ⟨d, hd⟩

/-! The instruction buffers along single steps of the lowerer. -/

theorem emit_instrs (func : FuncRef) (inst : Inst) (st st1 : GenState)
    (h : emit func inst st = .ok st1 ()) (g : Nat) :
    instrsOf st1 g =
      if g = func.bytecode_func_id.toNat then instrsOf st g ++ [inst]
      else instrsOf st g := by
  unfold emit at h
  split at h
  · cases h
  · exact instrsOf_appendinst st st1 _ inst h g

theorem setDescend_instrs (b : Bool) (st st1 : GenState)
    (h : setDescend b st = .ok st1 ()) (g : Nat) :
    instrsOf st1 g = instrsOf st g := by
  cases h
  rfl

theorem newtemp_instrs (func : FuncRef) (d : Bool) (st st1 : GenState)
    (t : Int) (h : newtemp func d st = .ok st1 t) (g : Nat) :
    instrsOf st1 g = instrsOf st g := by
  obtain ⟨si, _, _, rfl, _⟩ := newtemp_ok func d st st1 t h
  exact instrsOf_setStorageInfo st _ _ g

theorem new1linetemp_instrs (func : FuncRef) (expr : Expr) (ctx : Ctx)
    (ismainitem : Bool) (st st1 : GenState) (t : Int)
    (h : new1linetemp func expr ctx ismainitem st = .ok st1 t) (g : Nat) :
    instrsOf st1 g = instrsOf st g := by
  rcases new1linetemp_cases func expr ctx ismainitem st st1 t h with h1 | h1
  · rw [h1]
  · exact newtemp_instrs func true st st1 t h1 g

theorem getStorageInfo_setStorageInfo (id : Nat) (si si0 : StorageInfo)
    (st : GenState) (h : getStorageInfo id st = some si0) :
    getStorageInfo id (setStorageInfo id si st) = some si := by
  unfold getStorageInfo at h ⊢
  unfold setStorageInfo
  cases hf : st.func[id]? with
  | none => rw [hf] at h; cases h
  | some f =>
    dsimp only
    have hlt : id < st.func.length := getElem_lt_of_some st id f hf
    simp [List.getElem?_set, hlt]

/-- Taking a label id: the id is the counter of the function, the counter
is raised by one and no buffer changes. -/
theorem newJumpId_spec (func : FuncRef) (st st1 : GenState) (j : Int)
    (h : newJumpId func st = .ok st1 j) :
    (∀ g, instrsOf st1 g = instrsOf st g) ∧
    ∃ si, getStorageInfo func.bytecode_func_id.toNat st = some si ∧
      j = si.jump_targets_used ∧
      getStorageInfo func.bytecode_func_id.toNat st1 =
        some { si with jump_targets_used := si.jump_targets_used + 1 } := by
  unfold newJumpId at h
  obtain ⟨si, st2, h1, h2⟩ := Gen.bind_ok h
  obtain ⟨u, st3, h3, h4⟩ := Gen.bind_ok h2
  obtain ⟨h5, h6⟩ := Gen.pure_ok h4
  have hs := storageOf_state func st st2 si h1
  rw [hs] at h3
  rw [h5]
  unfold storageOf at h1
  split at h1
  · cases h1
  · split at h1
    · rename_i si1 hsi
      cases h1
      unfold setStorageOf at h3
      split at h3
      · cases h3
      · cases h3
        exact ⟨fun g => instrsOf_setStorageInfo st _ _ g, si, hsi, h6,
          getStorageInfo_setStorageInfo _ _ si st hsi⟩
    · cases h1

/-- Two label ids taken one after the other differ. -/
theorem newJumpId_twice (func : FuncRef) (st st1 st2 : GenState) (j k : Int)
    (h1 : newJumpId func st = .ok st1 j)
    (h2 : newJumpId func st1 = .ok st2 k) : k = j + 1 := by
  obtain ⟨_, si, _, hj, hs1⟩ := newJumpId_spec func st st1 j h1
  obtain ⟨_, si1, hs2, hk, _⟩ := newJumpId_spec func st1 st2 k h2
  rw [hs1] at hs2
  cases hs2
  rw [hk, hj]

/-- A successful visit of a child is a successful run of the walk with the
descend flag cleared, after which the flag is set. -/
theorem visitChildIn_run (visit : Visitor) (child : Expr) (ctx : Ctx)
    (st st1 : GenState) (c : Expr)
    (h : visitChildIn visit child ctx st = .ok st1 c) :
    ∃ st2, visit child ctx { st with dont_descend_visitation := false } =
        .ok st2 c ∧
      st1 = { st2 with dont_descend_visitation := true } := by
  unfold visitChildIn at h
  split at h
  · rename_i st2 c2 hv
    cases h
    exact ⟨st2, hv, rfl⟩
  all_goals cases h

theorem assert_ok (c : Bool) (st st1 : GenState)
    (h : Gen.assert c st = .ok st1 ()) : st1 = st ∧ c = true := by
  unfold Gen.assert at h
  cases c with
  | true => cases h; exact ⟨rfl, rfl⟩
  | false => cases h

theorem ofOption_ok {α : Type} (o : Option α) (st st1 : GenState) (a : α)
    (h : Gen.ofOption o st = .ok st1 a) : st1 = st ∧ o = some a := by
  cases o with
  | none => cases h
  | some b => cases h; exact ⟨rfl, rfl⟩

/-- The records that follow the jump of the short-circuit path: the
regular-eval label, the code of the second operand, the operator and the
past label. -/
theorem boolCond_tail (env : Env) (visit : Visitor) (f : FuncRef)
    (expr : Expr) (ctx : Ctx) (s : Storage) (op : H64Op) (b a1 : Expr)
    (target jreg jpast : Int) (st st1 : GenState) (e1 : Expr)
    (h : (do
      emit f (.jumptarget jreg)
      let v2 ← visitChild visit expr ctx .value2 b
      emit f (.binop (env.opcode op) target a1.eval_temp_id v2.eval_temp_id)
      emit f (.jumptarget jpast)
      setDescend true
      pure (Expr.binaryop { s with eval_temp_id := target } op a1 v2) :
        Gen Expr) st = .ok st1 e1) :
    ∃ (stb stb1 : GenState) (b1 : Expr),
      visit b ((expr, .value2) :: ctx) stb = .ok stb1 b1 ∧
      e1 = .binaryop { s with eval_temp_id := target } op a1 b1 ∧
      ∀ g, instrsOf stb g =
          (if g = f.bytecode_func_id.toNat then
            instrsOf st g ++ [.jumptarget jreg] else instrsOf st g) ∧
        instrsOf st1 g =
          (if g = f.bytecode_func_id.toNat then
            instrsOf stb1 g ++ [.binop (env.opcode op) target a1.eval_temp_id
              b1.eval_temp_id, .jumptarget jpast]
          else instrsOf stb1 g) := by
  obtain ⟨u1, s1, h1, k1⟩ := Gen.bind_ok h
  obtain ⟨b1, s2, h2, k2⟩ := Gen.bind_ok k1
  obtain ⟨u3, s3, h3, k3⟩ := Gen.bind_ok k2
  obtain ⟨u4, s4, h4, k4⟩ := Gen.bind_ok k3
  obtain ⟨u5, s5, h5, k5⟩ := Gen.bind_ok k4
  obtain ⟨h6, h7⟩ := Gen.pure_ok k5
  obtain ⟨stb1, hv, hs2⟩ := visitChildIn_run visit b _ s1 s2 b1 h2
  refine ⟨_, stb1, b1, hv, h7, fun g => ⟨?_, ?_⟩⟩
  · exact emit_instrs f _ st s1 h1 g
  · rw [h6, setDescend_instrs true s4 s5 h5 g, emit_instrs f _ s3 s4 h4 g,
      emit_instrs f _ s2 s3 h3 g, hs2]
    split
    · simp [instrsOf]
    · rfl

/-- The three records of the short-circuit path. -/
theorem boolCond_head (f : FuncRef) (i1 i2 i3 : Inst) (k : Unit → Gen Expr)
    (st st1 : GenState) (e1 : Expr)
    (h : (do
      emit f i1
      emit f i2
      let y ← emit f i3
      k y : Gen Expr) st = .ok st1 e1) :
    ∃ st2, k () st2 = .ok st1 e1 ∧
      ∀ g, instrsOf st2 g =
        if g = f.bytecode_func_id.toNat then instrsOf st g ++ [i1, i2, i3]
        else instrsOf st g := by
  obtain ⟨u1, s1, h1, k1⟩ := Gen.bind_ok h
  obtain ⟨u2, s2, h2, k2⟩ := Gen.bind_ok k1
  obtain ⟨u3, s3, h3, k3⟩ := Gen.bind_ok k2
  refine ⟨s3, k3, fun g => ?_⟩
  rw [emit_instrs f _ s2 s3 h3 g, emit_instrs f _ s1 s2 h2 g,
    emit_instrs f _ st s1 h1 g]
  split
  · simp
  · rfl

/-- C12: the branch of the lowerer for `a and b` and `a or b` appends to the
buffer of the function, in this order: the code of `a` (what the walk of `a`
appends); a CONDJUMPEX on the slot of `a` to the regular-eval label, with
the jump-on-true flag for `and` and without flags for `or`; a SET_CONST of
bool false (`and`) or true (`or`) into the result slot; a JUMP to the past
label; the regular-eval label; the code of `b`; the BINOP into the result
slot; the past label.  The two labels differ.  So the code of `b` lies
between the regular-eval label and the past label, and the three records
after the code of `a` lead to the past label without a record of `b`. -/
theorem C12_short_circuit_stream (env : Env)
    (itemsort : List KwArgSortInfo → List KwArgSortInfo) (fuel : Nat)
    (f : FuncRef) (expr : Expr) (ctx : Ctx) (s : Storage) (op : H64Op)
    (a b : Expr) (st st1 : GenState) (e1 : Expr)
    (hop : op = .BOOLCOND_AND ∨ op = .BOOLCOND_OR)
    (h : visitInBoolCond env (visit env itemsort fuel) (some f) expr ctx s op
      a b st = .ok st1 e1) :
    ∃ (sta sta1 stb stb1 : GenState) (a1 b1 : Expr) (codeA codeB : List Inst)
      (target jreg jpast : Int),
      visit env itemsort fuel a ((expr, .value1) :: ctx) sta = .ok sta1 a1 ∧
      visit env itemsort fuel b ((expr, .value2) :: ctx) stb = .ok stb1 b1 ∧
      e1 = .binaryop { s with eval_temp_id := target } op a1 b1 ∧
      jreg ≠ jpast ∧
      instrsOf sta f.bytecode_func_id.toNat =
        instrsOf st f.bytecode_func_id.toNat ∧
      instrsOf sta1 f.bytecode_func_id.toNat =
        instrsOf sta f.bytecode_func_id.toNat ++ codeA ∧
      instrsOf stb f.bytecode_func_id.toNat =
        instrsOf st f.bytecode_func_id.toNat ++ codeA ++
          [.condjumpex (if op = .BOOLCOND_AND then
              env.CONDJUMPEX_FLAG_JUMPONTRUE else 0) a1.eval_temp_id jreg,
            .setconst target (.bool (if op = .BOOLCOND_AND then 0 else 1)),
            .jump jpast, .jumptarget jreg] ∧
      instrsOf stb1 f.bytecode_func_id.toNat =
        instrsOf stb f.bytecode_func_id.toNat ++ codeB ∧
      instrsOf st1 f.bytecode_func_id.toNat =
        instrsOf st f.bytecode_func_id.toNat ++ codeA ++
          [.condjumpex (if op = .BOOLCOND_AND then
              env.CONDJUMPEX_FLAG_JUMPONTRUE else 0) a1.eval_temp_id jreg,
            .setconst target (.bool (if op = .BOOLCOND_AND then 0 else 1)),
            .jump jpast, .jumptarget jreg] ++ codeB ++
          [.binop (env.opcode op) target a1.eval_temp_id b1.eval_temp_id,
            .jumptarget jpast] := by
  unfold visitInBoolCond at h
  obtain ⟨u1, s1, h1, k1⟩ := Gen.bind_ok h
  obtain ⟨f1, s2, h2, k2⟩ := Gen.bind_ok k1
  obtain ⟨hs2, hf⟩ := ofOption_ok _ _ _ _ h2
  cases hf
  obtain ⟨target, s3, h3, k3⟩ := Gen.bind_ok k2
  obtain ⟨jreg, s4, h4, k4⟩ := Gen.bind_ok k3
  obtain ⟨jpast, s5, h5, k5⟩ := Gen.bind_ok k4
  obtain ⟨a1, s6, h6, k6⟩ := Gen.bind_ok k5
  obtain ⟨u7, s7, h7, k7⟩ := Gen.bind_ok k6
  obtain ⟨hs7, _⟩ := assert_ok _ _ _ h7
  obtain ⟨sta1, hva, hs6⟩ := visitChildIn_run _ a _ s5 s6 a1 h6
  obtain ⟨codeA, hA⟩ := visit_appends env itemsort fuel a _ _ sta1 a1 hva
    f.bytecode_func_id.toNat
  have hj : jreg ≠ jpast := by
    have := newJumpId_twice f s3 s4 s5 jreg jpast h4 h5
    omega
  have hpre : instrsOf s5 f.bytecode_func_id.toNat =
      instrsOf st f.bytecode_func_id.toNat := by
    rw [(newJumpId_spec f s4 s5 jpast h5).1, (newJumpId_spec f s3 s4 jreg h4).1,
      new1linetemp_instrs f expr ctx true s2 s3 target h3, hs2,
      setDescend_instrs true st s1 h1]
  have h7i : instrsOf s7 f.bytecode_func_id.toNat =
      instrsOf st f.bytecode_func_id.toNat ++ codeA := by
    rw [hs7, hs6, ← hpre]
    exact hA
  dsimp only at k7
  have key : ∃ s8, (do
      emit f (.jumptarget jreg)
      let v2 ← visitChild (visit env itemsort fuel) expr ctx .value2 b
      emit f (.binop (env.opcode op) target a1.eval_temp_id v2.eval_temp_id)
      emit f (.jumptarget jpast)
      setDescend true
      pure (Expr.binaryop { s with eval_temp_id := target } op a1 v2) :
        Gen Expr) s8 = .ok st1 e1 ∧
      instrsOf s8 f.bytecode_func_id.toNat =
        instrsOf s7 f.bytecode_func_id.toNat ++
          [.condjumpex (if op = .BOOLCOND_AND then
              env.CONDJUMPEX_FLAG_JUMPONTRUE else 0) a1.eval_temp_id jreg,
            .setconst target (.bool (if op = .BOOLCOND_AND then 0 else 1)),
            .jump jpast] := by
    rcases hop with hop | hop
    · subst hop
      rw [if_pos rfl] at k7
      obtain ⟨s8, hk, hi⟩ := boolCond_head f _ _ _ _ s7 st1 e1 k7
      refine ⟨s8, hk, ?_⟩
      rw [hi, if_pos rfl, if_pos rfl, if_pos rfl, Nat.zero_or]
    · subst hop
      rw [if_neg (by decide)] at k7
      obtain ⟨u8, s8, h8, k8⟩ := Gen.bind_ok k7
      obtain ⟨hs8, _⟩ := assert_ok _ _ _ h8
      obtain ⟨s9, hk, hi⟩ := boolCond_head f _ _ _ _ s8 st1 e1 k8
      refine ⟨s9, hk, ?_⟩
      rw [hi, if_pos rfl, if_neg (by decide), if_neg (by decide), hs8]
  obtain ⟨s8, hk, h8i⟩ := key
  obtain ⟨stb, stb1, b1, hvb, he, hi⟩ :=
    boolCond_tail env _ f expr ctx s op b a1 target jreg jpast s8 st1 e1 hk
  obtain ⟨codeB, hB⟩ := visit_appends env itemsort fuel b _ stb stb1 b1 hvb
    f.bytecode_func_id.toNat
  obtain ⟨hb0, hb1⟩ := hi f.bytecode_func_id.toNat
  rw [if_pos rfl] at hb0 hb1
  refine ⟨_, sta1, stb, stb1, a1, b1, codeA, codeB, target, jreg, jpast,
    hva, hvb, he, hj, hpre, ?_, ?_, hB, ?_⟩
  · exact hA
  · rw [hb0, h8i, h7i]; simp
  · rw [hb1, hB, hb0, h8i, h7i]; simp

/-- C12 at `x and 1` in a function whose first free temporary is slot 1. -/
theorem C12_short_circuit_stream_witness :
    ∃ (sta sta1 stb stb1 : GenState) (a1 b1 : Expr) (codeA codeB : List Inst)
      (target jreg jpast : Int),
      visit sampleEnv kwInsertionSort 2 localX
        ((andExpr, .value1) :: [(andFunc, .other)]) sta = .ok sta1 a1 ∧
      visit sampleEnv kwInsertionSort 2 literalOne
        ((andExpr, .value2) :: [(andFunc, .other)]) stb = .ok stb1 b1 ∧
      andRun.valueOf andExpr =
        .binaryop { noStorage with eval_temp_id := target } .BOOLCOND_AND
          a1 b1 ∧
      jreg ≠ jpast ∧
      instrsOf sta 0 = instrsOf selfListState 0 ∧
      instrsOf sta1 0 = instrsOf sta 0 ++ codeA ∧
      instrsOf stb 0 =
        instrsOf selfListState 0 ++ codeA ++
          [.condjumpex sampleEnv.CONDJUMPEX_FLAG_JUMPONTRUE a1.eval_temp_id
              jreg,
            .setconst target (.bool 0), .jump jpast, .jumptarget jreg] ∧
      instrsOf stb1 0 = instrsOf stb 0 ++ codeB ∧
      instrsOf (andRun.stateOf selfListState) 0 =
        instrsOf selfListState 0 ++ codeA ++
          [.condjumpex sampleEnv.CONDJUMPEX_FLAG_JUMPONTRUE a1.eval_temp_id
              jreg,
            .setconst target (.bool 0), .jump jpast, .jumptarget jreg] ++
          codeB ++
          [.binop (sampleEnv.opcode .BOOLCOND_AND) target a1.eval_temp_id
              b1.eval_temp_id,
            .jumptarget jpast] :=
  C12_short_circuit_stream sampleEnv kwInsertionSort 2 ⟨0, 0⟩ andExpr
    [(andFunc, .other)] noStorage .BOOLCOND_AND localX literalOne
    selfListState (andRun.stateOf selfListState) (andRun.valueOf andExpr)
    (Or.inl rfl) (Res.eq_ok andRun selfListState andExpr (by decide!))

/-- The buffer after lowering `x and 1`: the operand `x` needs no code, the
short-circuit path sets slot 1 to false and jumps to label 1, and the code
of `1` and the operator lie between label 0 and label 1. -/
theorem andRun_stream :
    instrsOf (andRun.stateOf selfListState) 0 =
      [.condjumpex sampleEnv.CONDJUMPEX_FLAG_JUMPONTRUE 0 0,
        .setconst 1 (.bool 0), .jump 1, .jumptarget 0,
        .setconst 2 (.int 1),
        .binop (sampleEnv.opcode .BOOLCOND_AND) 1 0 2, .jumptarget 1] := by
  decide!

/-! The `do` statement. -/

theorem setStorageOf_instrs (func : FuncRef) (si : StorageInfo)
    (st st1 : GenState) (h : setStorageOf func si st = .ok st1 ()) (g : Nat) :
    instrsOf st1 g = instrsOf st g := by
  unfold setStorageOf at h
  split at h
  · cases h
  · cases h
    exact instrsOf_setStorageInfo st _ _ g

theorem freeLineTemps_instrs (func : Option FuncRef) (st st1 : GenState)
    (h : freeLineTemps func st = .ok st1 ()) (g : Nat) :
    instrsOf st1 g = instrsOf st g := by
  unfold freeLineTemps at h
  cases func with
  | none => cases h; rfl
  | some f =>
    obtain ⟨si, s1, h1, h2⟩ := Gen.bind_ok h
    rw [setStorageOf_instrs f _ s1 st1 h2 g, storageOf_state f st s1 si h1]

theorem newDoStmtId_instrs (func : FuncRef) (st st1 : GenState) (j : Int)
    (h : newDoStmtId func st = .ok st1 j) (g : Nat) :
    instrsOf st1 g = instrsOf st g := by
  unfold newDoStmtId at h
  obtain ⟨si, s1, h1, h2⟩ := Gen.bind_ok h
  obtain ⟨u, s2, h3, h4⟩ := Gen.bind_ok h2
  obtain ⟨h5, _⟩ := Gen.pure_ok h4
  rw [h5, setStorageOf_instrs func _ s1 s2 h3 g,
    storageOf_state func st s1 si h1]

theorem enforce_dostmt_limit_ok (func : FuncRef) (st st1 : GenState)
    (h : _enforce_dostmt_limit_in_func func st = .ok st1 ()) : st1 = st := by
  unfold _enforce_dostmt_limit_in_func at h
  obtain ⟨si, s1, h1, h2⟩ := Gen.bind_ok h
  have hs := storageOf_state func st s1 si h1
  by_cases hc : si.dostmts_used + 1 ≥ 32767 - 1
  · rw [if_pos hc] at h2
    obtain ⟨u, s2, h3, h4⟩ := Gen.bind_ok h2
    obtain ⟨u2, s3, h5, h6⟩ := Gen.bind_ok h4
    cases h6
  · rw [if_neg hc] at h2
    obtain ⟨h5, _⟩ := Gen.pure_ok h2
    rw [h5, hs]

/-- The lowering of a statement list only appends to the buffers. -/
theorem visitStmtsFreeing_appends (env : Env)
    (itemsort : List KwArgSortInfo → List KwArgSortInfo) (fuel : Nat)
    (self : FuncRef) (expr : Expr) (ctx : Ctx) (stmts r : List Expr)
    (st st1 : GenState)
    (h : visitStmtsFreeing (visit env itemsort fuel) self expr ctx stmts st =
      .ok st1 r) (g : Nat) :
    ∃ d, instrsOf st1 g = instrsOf st g ++ d := by
  obtain ⟨d, hd, _⟩ :=
    (visitStmtsFreeing_holds grows_fullRel.toStepRel _ _ _ _ _
      (fun e c => visit_holds_full grows_fullRel grows_anyLoopFree env
        itemsort fuel e c))
      st st1 r h g
  exact ⟨d, hd⟩

/-- The records that register the caught error types: one
`ADD_RESCUE_TYPE` or `ADD_RESCUE_TYPE_BY_REF` of the frame per type, and
apart from these only loads of global variables. -/
theorem doAddRescueTypes_spec (func : FuncRef) (expr : Expr) (ctx : Ctx)
    (id : Int) : ∀ (errors : List Expr) (reuse : Int) (st st1 : GenState),
    doAddRescueTypes func expr ctx id errors reuse st = .ok st1 () →
    ∃ adds, (∀ g, instrsOf st1 g =
        if g = func.bytecode_func_id.toNat then instrsOf st g ++ adds
        else instrsOf st g) ∧
      adds.filterMap Inst.rescueTypeFrame = List.replicate errors.length id ∧
      ∀ i ∈ adds, i.rescueTypeFrame = none → i.isGetGlobal = true := by
  intro errors
  induction errors with
  | nil =>
    intro reuse st st1 h
    cases h
    exact ⟨[], fun g => by simp, rfl, fun i hi => by cases hi⟩
  | cons e rest ih =>
    intro reuse st st1 h
    unfold doAddRescueTypes at h
    dsimp only at h
    obtain ⟨u0, s0, h0, k0⟩ := Gen.bind_ok h
    obtain ⟨hs0, _⟩ := assert_ok _ _ _ h0
    subst hs0
    generalize e.storage.ref.type = ty at k0
    cases ty with
    | STACKSLOT =>
      obtain ⟨u1, s1, h1, k1⟩ := Gen.bind_ok k0
      obtain ⟨hs1, _⟩ := assert_ok _ _ _ h1
      subst hs1
      obtain ⟨u2, s2, h2, k2⟩ := Gen.bind_ok k1
      obtain ⟨adds, ha, hf, hg⟩ := ih reuse s2 st1 k2
      refine ⟨.addrescuetypebyref id e.storage.ref.id :: adds,
        fun g => ?_, ?_, ?_⟩
      · rw [ha g, emit_instrs func _ _ s2 h2 g]
        split <;> simp
      · simp [Inst.rescueTypeFrame, hf, List.replicate_succ]
      · intro i hi hn
        rcases List.mem_cons.1 hi with rfl | hi
        · cases hn
        · exact hg i hi hn
    | GLOBALCLASSSLOT =>
      obtain ⟨u2, s2, h2, k2⟩ := Gen.bind_ok k0
      obtain ⟨adds, ha, hf, hg⟩ := ih reuse s2 st1 k2
      refine ⟨.addrescuetype id e.storage.ref.id :: adds,
        fun g => ?_, ?_, ?_⟩
      · rw [ha g, emit_instrs func _ _ s2 h2 g]
        split <;> simp
      · simp [Inst.rescueTypeFrame, hf, List.replicate_succ]
      · intro i hi hn
        rcases List.mem_cons.1 hi with rfl | hi
        · cases hn
        · exact hg i hi hn
    | GLOBALVARSLOT =>
      obtain ⟨reuse1, s1, h1, k1⟩ := Gen.bind_ok k0
      have hs1 : ∀ g, instrsOf s1 g = instrsOf s0 g := by
        intro g
        by_cases hc : reuse < 0
        · rw [if_pos hc] at h1
          exact new1linetemp_instrs func expr ctx false s0 s1 reuse1 h1 g
        · rw [if_neg hc] at h1
          rw [(Gen.pure_ok h1).1]
      by_cases hc : reuse1 < 0
      · rw [if_pos hc] at k1
        cases k1
      · rw [if_neg hc] at k1
        obtain ⟨u2, s2, h2, k2⟩ := Gen.bind_ok k1
        obtain ⟨u3, s3, h3, k3⟩ := Gen.bind_ok k2
        obtain ⟨hs3, _⟩ := assert_ok _ _ _ h3
        subst hs3
        obtain ⟨u4, s4, h4, k4⟩ := Gen.bind_ok k3
        obtain ⟨adds, ha, hf, hg⟩ := ih reuse1 s4 st1 k4
        refine ⟨.getglobal reuse1 e.storage.ref.id ::
          .addrescuetypebyref id reuse1 :: adds, fun g => ?_, ?_, ?_⟩
        · rw [ha g, emit_instrs func _ _ s4 h4 g, emit_instrs func _ _ s3 h2 g,
            hs1 g]
          split <;> simp
        · simp [Inst.rescueTypeFrame, hf, List.replicate_succ]
        · intro i hi hn
          rcases List.mem_cons.1 hi with rfl | hi
          · rfl
          rcases List.mem_cons.1 hi with rfl | hi
          · cases hn
          · exact hg i hi hn
    | _ => cases k0

/-! The stream of the `do` branch. -/

theorem ownRecords_self (g : Nat) (l : List Inst) : ownRecords g g l = l :=
  if_pos rfl

theorem emit_own (func : FuncRef) (inst : Inst) (st st1 : GenState)
    (h : emit func inst st = .ok st1 ()) (g : Nat) :
    instrsOf st1 g =
      instrsOf st g ++ ownRecords g func.bytecode_func_id.toNat [inst] := by
  rw [emit_instrs func inst st st1 h g]
  unfold ownRecords
  split <;> simp

theorem doAddRescueTypes_own (func : FuncRef) (expr : Expr) (ctx : Ctx)
    (id : Int) (errors : List Expr) (reuse : Int) (st st1 : GenState)
    (h : doAddRescueTypes func expr ctx id errors reuse st = .ok st1 ()) :
    ∃ adds, (∀ g, instrsOf st1 g =
        instrsOf st g ++ ownRecords g func.bytecode_func_id.toNat adds) ∧
      adds.filterMap Inst.rescueTypeFrame = List.replicate errors.length id ∧
      ∀ i ∈ adds, i.rescueTypeFrame = none → i.isGetGlobal = true := by
  obtain ⟨adds, ha, hf, hg⟩ :=
    doAddRescueTypes_spec func expr ctx id errors reuse st st1 h
  refine ⟨adds, fun g => ?_, hf, hg⟩
  rw [ha g]
  unfold ownRecords
  split <;> simp

/-- A run of the loop over a statement list appends, to every buffer, a
sequence with the property that every walk of a node appends. -/
theorem visitStmtsFreeing_code {P : List Inst → Prop} (hP : PlainClosed P)
    (visit : Visitor) (hv : ∀ e ctx, Holds (Grows P) (visit e ctx))
    (self : FuncRef) (expr : Expr) (ctx : Ctx) (stmts r : List Expr)
    (st st1 : GenState)
    (h : visitStmtsFreeing visit self expr ctx stmts st = .ok st1 r)
    (g : Nat) :
    ∃ d, instrsOf st1 g = instrsOf st g ++ d ∧ P d ∧
      (g = self.bytecode_func_id.toNat →
        StmtsCode visit self expr ctx stmts d) := by
  obtain ⟨d, hd, hp⟩ :=
    (visitStmtsFreeing_holds (grows_stepRel hP) visit self expr ctx stmts hv)
      st st1 r h g
  refine ⟨d, hd, hp, fun hg => ⟨st, st1, r, h, ?_⟩⟩
  rw [← hg]
  exact hd

theorem newJumpIdIf_instrs (c : Bool) (f : FuncRef) (st st1 : GenState)
    (j : Int)
    (h : (if c = true then newJumpId f else pure (-1) : Gen Int) st =
      .ok st1 j) (g : Nat) : instrsOf st1 g = instrsOf st g := by
  cases c with
  | true => exact (newJumpId_spec f st st1 j h).1 g
  | false => rw [(Gen.pure_ok h).1]

/-- A block of the `do` branch: a record, the code of a statement list and
a closing record. -/
theorem doBlock_stream {P : List Inst → Prop} (hP : PlainClosed P)
    (visit : Visitor) (hv : ∀ e ctx, Holds (Grows P) (visit e ctx))
    (f : FuncRef) (expr : Expr) (ctx : Ctx) (stmts r1 : List Expr)
    (i1 i2 : Inst) (st st1 : GenState)
    (h : (do
      emit f i1
      let r ← visitStmtsFreeing visit f expr ctx stmts
      emit f i2
      pure r : Gen (List Expr)) st = .ok st1 r1) (g : Nat) :
    ∃ d, P d ∧
      (g = f.bytecode_func_id.toNat → StmtsCode visit f expr ctx stmts d) ∧
      instrsOf st1 g = instrsOf st g ++
        ownRecords g f.bytecode_func_id.toNat [i1] ++ d ++
        ownRecords g f.bytecode_func_id.toNat [i2] := by
  obtain ⟨u1, s1, h1, k1⟩ := Gen.bind_ok h
  obtain ⟨r, s2, h2, k2⟩ := Gen.bind_ok k1
  obtain ⟨u3, s3, h3, k3⟩ := Gen.bind_ok k2
  obtain ⟨h4, _⟩ := Gen.pure_ok k3
  obtain ⟨d, e2, pd, cd⟩ :=
    visitStmtsFreeing_code hP visit hv f expr ctx stmts r s1 s2 h2 g
  refine ⟨d, pd, cd, ?_⟩
  rw [h4, emit_own f _ s2 s3 h3 g, e2, emit_own f _ st s1 h1 g]

/-- The end of the `do` branch: the end label. -/
theorem doEnd_stream (f : FuncRef) (jend : Int) (e : Expr)
    (st st1 : GenState) (e1 : Expr)
    (h : (do
      emit f (.jumptarget jend)
      freeLineTemps (some f)
      setDescend true
      pure e : Gen Expr) st = .ok st1 e1) (g : Nat) :
    instrsOf st1 g = instrsOf st g ++
      ownRecords g f.bytecode_func_id.toNat [.jumptarget jend] := by
  obtain ⟨u1, s1, h1, k1⟩ := Gen.bind_ok h
  obtain ⟨u2, s2, h2, k2⟩ := Gen.bind_ok k1
  obtain ⟨u3, s3, h3, k3⟩ := Gen.bind_ok k2
  obtain ⟨h4, _⟩ := Gen.pure_ok k3
  rw [h4, setDescend_instrs true s2 s3 h3 g, freeLineTemps_instrs _ s1 s2 h2 g,
    emit_own f _ st s1 h1 g]

/-- The stream of the `do` branch: what a successful run appends to the
buffer of its function `f` is the `PUSH_RESCUE_FRAME`, the records that
register the caught types, the code of the protected statements and the
records of `doRecordsAfterBody`; to every other buffer it appends only what
the statement lists append. -/
theorem visitInDo_stream {P : List Inst → Prop} (hP : PlainClosed P)
    (visit : Visitor) (hv : ∀ e ctx, Holds (Grows P) (visit e ctx))
    (f : FuncRef) (expr : Expr) (ctx : Ctx) (s : Storage)
    (dostmt errors rescuestmt : List Expr) (fin : Bool)
    (finallystmt : List Expr) (st st1 : GenState) (e1 : Expr)
    (h : visitInDo visit (some f) expr ctx s dostmt errors rescuestmt fin
      finallystmt st = .ok st1 e1) (g : Nat) :
    ∃ (slot jcatch jfinally jend id : Int) (adds body rbody fbody : List Inst),
      adds.filterMap Inst.rescueTypeFrame = List.replicate errors.length id ∧
      (∀ i ∈ adds, i.rescueTypeFrame = none → i.isGetGlobal = true) ∧
      P body ∧ P rbody ∧ P fbody ∧
      (g = f.bytecode_func_id.toNat →
        StmtsCode visit f expr ctx dostmt body ∧
        (0 < errors.length → StmtsCode visit f expr ctx rescuestmt rbody) ∧
        (fin = true → StmtsCode visit f expr ctx finallystmt fbody)) ∧
      instrsOf st1 g = instrsOf st g ++
        (if g = f.bytecode_func_id.toNat then
          [.pushrescueframe slot jcatch jfinally
            ((0 ||| (if decide (0 < errors.length) then
                RESCUEMODE_JUMPONRESCUE else 0)) |||
              (if fin then RESCUEMODE_JUMPONFINALLY else 0)) id] ++
            adds ++ body ++
            doRecordsAfterBody (decide (0 < errors.length)) fin jcatch
              jfinally jend id rbody fbody
        else body ++ rbody ++ fbody) := by
  unfold visitInDo at h
  obtain ⟨u1, s1, h1, k1⟩ := Gen.bind_ok h
  obtain ⟨f1, s2, h2, k2⟩ := Gen.bind_ok k1
  obtain ⟨hs2, hf⟩ := ofOption_ok _ _ _ _ h2
  cases hf
  obtain ⟨jend, s3, h3, k3⟩ := Gen.bind_ok k2
  obtain ⟨u4, s4, h4, k4⟩ := Gen.bind_ok k3
  obtain ⟨id, s5, h5, k5⟩ := Gen.bind_ok k4
  dsimp only at k5
  generalize hr : decide (0 < errors.length) = rescue at k5 ⊢
  have hlen : (0 < errors.length) ↔ rescue = true := by
    rw [← hr]; simp
  clear hr
  obtain ⟨u6, s6, h6, k6⟩ := Gen.bind_ok k5
  obtain ⟨jcatch, s7, h7, k7⟩ := Gen.bind_ok k6
  obtain ⟨u8, s8, h8, k8⟩ := Gen.bind_ok k7
  obtain ⟨jfinally, s9, h9, k9⟩ := Gen.bind_ok k8
  obtain ⟨u10, s10, h10, k10⟩ := Gen.bind_ok k9
  obtain ⟨u11, s11, h11, k11⟩ := Gen.bind_ok k10
  obtain ⟨d1, s12, h12, k12⟩ := Gen.bind_ok k11
  clear h k1 k2 k3 k4 k5 k6 k7 k8 k9 k10 k11
  have e9 : instrsOf s9 g = instrsOf st g := by
    rw [newJumpIdIf_instrs fin f s8 s9 jfinally h9 g, (assert_ok _ _ _ h8).1,
      newJumpIdIf_instrs rescue f s6 s7 jcatch h7 g, (assert_ok _ _ _ h6).1,
      newDoStmtId_instrs f s4 s5 id h5 g, enforce_dostmt_limit_ok f s3 s4 h4,
      (newJumpId_spec f s2 s3 jend h3).1 g, hs2,
      setDescend_instrs true st s1 h1 g]
  have e10 := emit_own f _ s9 s10 h10 g
  obtain ⟨adds, e11, hf, hg⟩ :=
    doAddRescueTypes_own f expr ctx id errors (-1) s10 s11 h11
  obtain ⟨body, e12, pb, cb⟩ :=
    visitStmtsFreeing_code hP visit hv f expr ctx dostmt d1 s11 s12 h12 g
  have epre : instrsOf s12 g = instrsOf st g ++
      ownRecords g f.bytecode_func_id.toNat
        ([.pushrescueframe (if (rescue && s.set) = true then s.ref.id else -1)
          jcatch jfinally
          ((0 ||| (if rescue = true then RESCUEMODE_JUMPONRESCUE else 0)) |||
            (if fin = true then RESCUEMODE_JUMPONFINALLY else 0)) id] ++
          adds) ++ body := by
    rw [e12, e11 g, e10, e9]
    unfold ownRecords
    split <;> simp
  clear e9 e10 e11 e12 h1 h2 h3 h4 h5 h6 h7 h8 h9 h10 h11 h12
  refine ⟨if (rescue && s.set) = true then s.ref.id else -1, jcatch,
    jfinally, jend, id, adds, body, ?_⟩
  cases rescue <;> cases fin <;>
    simp [RESCUEMODE_JUMPONRESCUE, RESCUEMODE_JUMPONFINALLY] at k12
  · obtain ⟨u13, s13, h13, k13⟩ := Gen.bind_ok k12
    obtain ⟨u14, s14, h14, k14⟩ := Gen.bind_ok k13
    obtain ⟨r15, s15, h15, k15⟩ := Gen.bind_ok k14
    obtain ⟨r16, s16, h16, k16⟩ := Gen.bind_ok k15
    have e17 := doEnd_stream f jend _ s16 st1 e1 k16 g
    refine ⟨[], [], hf, hg, pb, hP.nil, hP.nil,
      fun hgf => ⟨cb hgf, fun hl => ?_, fun hl => ?_⟩, ?_⟩
    · cases hlen.1 hl
    · cases hl
    · rw [e17, (Gen.pure_ok h16).1, (Gen.pure_ok h15).1, (Gen.pure_ok h14).1,
        emit_own f _ s12 s13 h13 g, epre]
      unfold ownRecords doRecordsAfterBody
      split <;> simp
  · obtain ⟨u13, s13, h13, k13⟩ := Gen.bind_ok k12
    obtain ⟨r15, s15, h15, k15⟩ := Gen.bind_ok k13
    obtain ⟨r16, s16, h16, k16⟩ := Gen.bind_ok k15
    have e17 := doEnd_stream f jend _ s16 st1 e1 k16 g
    obtain ⟨fbody, pf, cf, e16⟩ :=
      doBlock_stream hP visit hv f expr ctx finallystmt r16 _ _ s15 s16 h16 g
    refine ⟨[], fbody, hf, hg, pb, hP.nil, pf,
      fun hgf => ⟨cb hgf, fun hl => ?_, fun _ => cf hgf⟩, ?_⟩
    · cases hlen.1 hl
    · rw [e17, e16, (Gen.pure_ok h15).1, emit_own f _ s12 s13 h13 g, epre]
      unfold ownRecords doRecordsAfterBody
      split <;> simp
  · obtain ⟨u13, s13, h13, k13⟩ := Gen.bind_ok k12
    obtain ⟨u14, s14, h14, k14⟩ := Gen.bind_ok k13
    obtain ⟨r15, s15, h15, k15⟩ := Gen.bind_ok k14
    obtain ⟨r16, s16, h16, k16⟩ := Gen.bind_ok k15
    have e17 := doEnd_stream f jend _ s16 st1 e1 k16 g
    obtain ⟨rbody, pr, cr, e15⟩ :=
      doBlock_stream hP visit hv f expr ctx rescuestmt r15 _ _ s14 s15 h15 g
    refine ⟨rbody, [], hf, hg, pb, pr, hP.nil,
      fun hgf => ⟨cb hgf, fun _ => cr hgf, fun hl => ?_⟩, ?_⟩
    · cases hl
    · rw [e17, (Gen.pure_ok h16).1, e15, emit_own f _ s13 s14 h14 g,
        emit_own f _ s12 s13 h13 g, epre]
      unfold ownRecords doRecordsAfterBody
      split <;> simp
  · obtain ⟨u13, s13, h13, k13⟩ := Gen.bind_ok k12
    obtain ⟨r15, s15, h15, k15⟩ := Gen.bind_ok k13
    obtain ⟨r16, s16, h16, k16⟩ := Gen.bind_ok k15
    have e17 := doEnd_stream f jend _ s16 st1 e1 k16 g
    obtain ⟨rbody, pr, cr, e15⟩ :=
      doBlock_stream hP visit hv f expr ctx rescuestmt r15 _ _ s13 s15 h15 g
    obtain ⟨fbody, pf, cf, e16⟩ :=
      doBlock_stream hP visit hv f expr ctx finallystmt r16 _ _ s15 s16 h16 g
    refine ⟨rbody, fbody, hf, hg, pb, pr, pf,
      fun hgf => ⟨cb hgf, fun _ => cr hgf, fun _ => cf hgf⟩, ?_⟩
    rw [e17, e16, e15, emit_own f _ s12 s13 h13 g, epre]
    unfold ownRecords doRecordsAfterBody
    split <;> simp

/-! Claim C14: the stream of a `do` statement. -/


/-- C14: the `do` branch of the lowerer appends to the buffer of its
function a `PUSH_RESCUE_FRAME` whose mode has the `JUMP_ON_RESCUE` bit set
iff the statement lists a caught error type and the `JUMP_ON_FINALLY` bit
set iff it has a finally block; then the records that register the caught
types, one `ADD_RESCUE_TYPE` or `ADD_RESCUE_TYPE_BY_REF` of the frame per
type (the only other records among them load the global variable that a
by-ref record reads); then the code of the protected statements.  With both
bits set the rest is `JUMP_TO_FINALLY`, the rescue label, the code of the
rescue statements, `JUMP_TO_FINALLY`, the finally label, the code of the
finally statements, `POP_RESCUE_FRAME` and the end label, all with the id of
the frame; and with a finally block the finally label directly follows a
`JUMP_TO_FINALLY` of the frame. -/
theorem C14_do_statement_stream (env : Env)
    (itemsort : List KwArgSortInfo → List KwArgSortInfo) (fuel : Nat)
    (f : FuncRef) (expr : Expr) (ctx : Ctx) (s : Storage)
    (dostmt errors rescuestmt : List Expr) (fin : Bool)
    (finallystmt : List Expr) (st st1 : GenState) (e1 : Expr)
    (h : visitInDo (visit env itemsort fuel) (some f) expr ctx s dostmt
      errors rescuestmt fin finallystmt st = .ok st1 e1) :
    ∃ (slot jcatch jfinally jend id : Int) (mode : Nat)
      (adds body rest : List Inst),
      instrsOf st1 f.bytecode_func_id.toNat =
        instrsOf st f.bytecode_func_id.toNat ++
          [.pushrescueframe slot jcatch jfinally mode id] ++ adds ++ body ++
          rest ∧
      (mode &&& RESCUEMODE_JUMPONRESCUE ≠ 0 ↔ 0 < errors.length) ∧
      (mode &&& RESCUEMODE_JUMPONFINALLY ≠ 0 ↔ fin = true) ∧
      adds.filterMap Inst.rescueTypeFrame = List.replicate errors.length id ∧
      (∀ i ∈ adds, i.rescueTypeFrame = none → i.isGetGlobal = true) ∧
      StmtsCode (visit env itemsort fuel) f expr ctx dostmt body ∧
      (0 < errors.length → fin = true → ∃ rbody fbody,
        StmtsCode (visit env itemsort fuel) f expr ctx rescuestmt rbody ∧
        StmtsCode (visit env itemsort fuel) f expr ctx finallystmt fbody ∧
        rest = [.jumptofinally id, .jumptarget jcatch] ++ rbody ++
          [.jumptofinally id, .jumptarget jfinally] ++ fbody ++
          [.poprescueframe id, .jumptarget jend]) ∧
      (fin = true → ∃ pre fbody,
        StmtsCode (visit env itemsort fuel) f expr ctx finallystmt fbody ∧
        rest = pre ++ [.jumptofinally id, .jumptarget jfinally] ++ fbody ++
          [.poprescueframe id, .jumptarget jend]) := by
  obtain ⟨slot, jcatch, jfinally, jend, id, adds, body, rbody, fbody, hf, hg,
      _, _, _, hc, hi⟩ :=
    visitInDo_stream (P := fun _ => True)
      ⟨fun _ _ => trivial, fun _ _ _ _ => trivial⟩ (visit env itemsort fuel)
      (fun e c => visit_holds_full grows_fullRel grows_anyLoopFree env
        itemsort fuel e c)
      f expr ctx s dostmt errors rescuestmt fin finallystmt st st1 e1 h
      f.bytecode_func_id.toNat
  obtain ⟨cb, cr, cf⟩ := hc rfl
  rw [if_pos rfl] at hi
  refine ⟨slot, jcatch, jfinally, jend, id,
    (0 ||| if decide (0 < errors.length) = true then RESCUEMODE_JUMPONRESCUE
      else 0) ||| (if fin = true then RESCUEMODE_JUMPONFINALLY else 0),
    adds, body,
    doRecordsAfterBody (decide (0 < errors.length)) fin jcatch jfinally jend
      id rbody fbody, ?_, ?_, ?_, hf, hg, cb, ?_, ?_⟩
  · rw [hi]; simp only [List.append_assoc]
  · by_cases hl : 0 < errors.length <;> cases fin <;>
      simp [hl, RESCUEMODE_JUMPONRESCUE, RESCUEMODE_JUMPONFINALLY]
  · by_cases hl : 0 < errors.length <;> cases fin <;>
      simp [hl, RESCUEMODE_JUMPONRESCUE, RESCUEMODE_JUMPONFINALLY]
  · intro hl hfin
    refine ⟨rbody, fbody, cr hl, cf hfin, ?_⟩
    subst hfin
    simp [doRecordsAfterBody, hl]
  · intro hfin
    subst hfin
    by_cases hl : 0 < errors.length
    · exact ⟨[.jumptofinally id, .jumptarget jcatch] ++ rbody, fbody, cf rfl,
        by simp [doRecordsAfterBody, hl]⟩
    · exact ⟨[], fbody, cf rfl, by simp [doRecordsAfterBody, hl]⟩

/-- C14 at `do { g() } rescue E as e { g() } finally { g() }`. -/
theorem C14_do_statement_stream_witness :
    ∃ (slot jcatch jfinally jend id : Int) (mode : Nat)
      (adds body rest : List Inst),
      instrsOf (doRescueFinallyRun.stateOf selfListState)
          (⟨0, 0⟩ : FuncRef).bytecode_func_id.toNat =
        instrsOf selfListState (⟨0, 0⟩ : FuncRef).bytecode_func_id.toNat ++
          [.pushrescueframe slot jcatch jfinally mode id] ++ adds ++ body ++
          rest ∧
      (mode &&& RESCUEMODE_JUMPONRESCUE ≠ 0 ↔
        0 < [Expr.identifierref ⟨true, ⟨.GLOBALCLASSSLOT, 5⟩, -1⟩ "E"
          false].length) ∧
      (mode &&& RESCUEMODE_JUMPONFINALLY ≠ 0 ↔ true = true) ∧
      adds.filterMap Inst.rescueTypeFrame =
        List.replicate [Expr.identifierref ⟨true, ⟨.GLOBALCLASSSLOT, 5⟩, -1⟩
          "E" false].length id ∧
      (∀ i ∈ adds, i.rescueTypeFrame = none → i.isGetGlobal = true) ∧
      StmtsCode (visit sampleEnv kwInsertionSort 6) ⟨0, 0⟩ doRescueFinally
        [(doRescueFinallyFunc, .other)] [callStmtG] body ∧
      (0 < [Expr.identifierref ⟨true, ⟨.GLOBALCLASSSLOT, 5⟩, -1⟩ "E"
          false].length → true = true → ∃ rbody fbody,
        StmtsCode (visit sampleEnv kwInsertionSort 6) ⟨0, 0⟩ doRescueFinally
          [(doRescueFinallyFunc, .other)] [callStmtG] rbody ∧
        StmtsCode (visit sampleEnv kwInsertionSort 6) ⟨0, 0⟩ doRescueFinally
          [(doRescueFinallyFunc, .other)] [callStmtG] fbody ∧
        rest = [.jumptofinally id, .jumptarget jcatch] ++ rbody ++
          [.jumptofinally id, .jumptarget jfinally] ++ fbody ++
          [.poprescueframe id, .jumptarget jend]) ∧
      (true = true → ∃ pre fbody,
        StmtsCode (visit sampleEnv kwInsertionSort 6) ⟨0, 0⟩ doRescueFinally
          [(doRescueFinallyFunc, .other)] [callStmtG] fbody ∧
        rest = pre ++ [.jumptofinally id, .jumptarget jfinally] ++ fbody ++
          [.poprescueframe id, .jumptarget jend]) :=
  C14_do_statement_stream sampleEnv kwInsertionSort 6 ⟨0, 0⟩ doRescueFinally
    [(doRescueFinallyFunc, .other)] ⟨true, ⟨.STACKSLOT, 0⟩, -1⟩ [callStmtG]
    [.identifierref ⟨true, ⟨.GLOBALCLASSSLOT, 5⟩, -1⟩ "E" false]
    [callStmtG] true [callStmtG] selfListState
    (doRescueFinallyRun.stateOf selfListState)
    (doRescueFinallyRun.valueOf doRescueFinally)
    (Res.eq_ok doRescueFinallyRun selfListState doRescueFinally
      (by decide!))

/-- The buffer after lowering `do { g() } rescue E as e { g() } finally {
g() }`: frame 0 with mode 3, the caught class 5, and the three bodies
separated by `JUMP_TO_FINALLY 0` and the labels 1 (rescue), 2 (finally) and
0 (end). -/
theorem doRescueFinallyRun_stream :
    instrsOf (doRescueFinallyRun.stateOf selfListState) 0 =
      [.pushrescueframe 0 1 2 3 0, .addrescuetype 0 5,
        .getfunc 1 1, .callsettop 3, .call 2 1 0 0 0,
        .jumptofinally 0, .jumptarget 1,
        .getfunc 1 1, .callsettop 3, .call 2 1 0 0 0,
        .jumptofinally 0, .jumptarget 2,
        .getfunc 1 1, .callsettop 3, .call 2 1 0 0 0,
        .poprescueframe 0, .jumptarget 0] := by
  decide!

/-! Claim C13: the rescue frames of a function. -/

theorem frameBalance_append : ∀ (a b : List Inst) (o : List Int),
    frameBalance (a ++ b) o = (frameBalance a o).bind (frameBalance b) := by
  intro a
  induction a with
  | nil => intro b o; rfl
  | cons i rest ih =>
    intro b o
    cases i
    case pushrescueframe => exact ih b _
    case poprescueframe id =>
      cases o with
      | nil => rfl
      | cons top o1 =>
        simp only [List.cons_append, frameBalance]
        split
        · exact ih b o1
        · rfl
    all_goals exact ih b o

theorem hasRescueOnlyFrame_append : ∀ (a b : List Inst),
    hasRescueOnlyFrame (a ++ b) =
      (hasRescueOnlyFrame a || hasRescueOnlyFrame b) := by
  intro a
  induction a with
  | nil => intro b; simp [hasRescueOnlyFrame]
  | cons i rest ih =>
    intro b
    cases i
    case pushrescueframe =>
      show (_ || hasRescueOnlyFrame (rest ++ b)) =
        ((_ || hasRescueOnlyFrame rest) || hasRescueOnlyFrame b)
      rw [ih b, Bool.or_assoc]
    all_goals exact ih b

theorem frameBalance_noFrameMark : ∀ (d : List Inst), NoFrameMark d →
    ∀ o, frameBalance d o = some o := by
  intro d
  induction d with
  | nil => intro _ o; rfl
  | cons i rest ih =>
    intro h o
    have hi : i.isFrameMark = false := h i (List.mem_cons_self _ _)
    have hr : NoFrameMark rest := fun j hj => h j (List.mem_cons_of_mem _ hj)
    cases i
    case pushrescueframe => cases hi
    case poprescueframe => cases hi
    all_goals exact ih hr o

theorem framesOk_flowClosed : FlowClosed FramesOk where
  flow := fun d h => Or.inr (frameBalance_noFrameMark d h)
  app := by
    intro a b ha hb
    rcases ha with ha | ha
    · exact Or.inl (by rw [hasRescueOnlyFrame_append, ha]; rfl)
    · rcases hb with hb | hb
      · exact Or.inl (by rw [hasRescueOnlyFrame_append, hb]; simp)
      · refine Or.inr (fun o => ?_)
        rw [frameBalance_append, ha o]
        exact hb o

/-- A sequence between the push and the pop of one frame. -/
theorem framesOk_frame (s a b : Int) (mode : Nat) (id : Int)
    (mid : List Inst) (hm : FramesOk mid) :
    FramesOk (.pushrescueframe s a b mode id :: (mid ++ [.poprescueframe id]))
    := by
  rcases hm with hm | hm
  · left
    simp [hasRescueOnlyFrame, hasRescueOnlyFrame_append, hm]
  · right
    intro o
    simp [frameBalance, frameBalance_append, hm]

theorem rescueAdds_noFrameMark (adds : List Inst)
    (hg : ∀ i ∈ adds, i.rescueTypeFrame = none → i.isGetGlobal = true) :
    NoFrameMark adds := by
  intro i hi
  have := hg i hi
  cases i <;> first | rfl | (exact absurd (this rfl) (fun h => by cases h))

theorem framesOk_of_all (l : List Inst)
    (h : l.all (fun i => !i.isFrameMark) = true) : FramesOk l := by
  refine framesOk_flowClosed.flow l (fun i hi => ?_)
  have := List.all_eq_true.1 h i hi
  simpa using this

theorem framesOk_adds (adds : List Inst)
    (hg : ∀ i ∈ adds, i.rescueTypeFrame = none → i.isGetGlobal = true) :
    FramesOk adds :=
  framesOk_flowClosed.flow adds (rescueAdds_noFrameMark adds hg)

/-- The `do` branch appends, to every buffer, a sequence that holds a push
with `JUMP_ON_RESCUE` and not `JUMP_ON_FINALLY` or is balanced, when the
walk of every node does. -/
theorem visitInDo_framesOk (visit : Visitor)
    (hv : ∀ e ctx, Holds (Grows FramesOk) (visit e ctx))
    (func : Option FuncRef) (expr : Expr) (ctx : Ctx) (s : Storage)
    (dostmt errors rescuestmt : List Expr) (fin : Bool)
    (finallystmt : List Expr) :
    Holds (Grows FramesOk) (visitInDo visit func expr ctx s dostmt errors
      rescuestmt fin finallystmt) := by
  intro st st1 e1 h g
  cases func with
  | none =>
    unfold visitInDo at h
    obtain ⟨u1, s1, h1, k1⟩ := Gen.bind_ok h
    obtain ⟨f1, s2, h2, k2⟩ := Gen.bind_ok k1
    cases h2
  | some f =>
    obtain ⟨slot, jcatch, jfinally, jend, id, adds, body, rbody, fbody, hf,
        hg, pb, pr, pf, _, hi⟩ :=
      visitInDo_stream framesOk_flowClosed.toPlainClosed visit hv f expr ctx
        s dostmt errors rescuestmt fin finallystmt st st1 e1 h g
    refine ⟨_, hi, ?_⟩
    have ha := framesOk_adds adds hg
    have app := framesOk_flowClosed.app
    split
    · generalize decide (0 < errors.length) = rescue
      cases rescue <;> cases fin
      · have e : [Inst.pushrescueframe slot jcatch jfinally
              ((0 ||| if false = true then RESCUEMODE_JUMPONRESCUE else 0) |||
                if false = true then RESCUEMODE_JUMPONFINALLY else 0) id] ++
              adds ++ body ++
              doRecordsAfterBody false false jcatch jfinally jend id rbody
                fbody =
            (Inst.pushrescueframe slot jcatch jfinally
              ((0 ||| if false = true then RESCUEMODE_JUMPONRESCUE else 0) |||
                if false = true then RESCUEMODE_JUMPONFINALLY else 0) id ::
              ((adds ++ body) ++ [.poprescueframe id])) ++
              [.jumptarget jend] := by
          simp [doRecordsAfterBody]
        rw [e]
        exact app _ _ (framesOk_frame _ _ _ _ _ _ (app _ _ ha pb))
          (framesOk_of_all _ rfl)
      · have e : [Inst.pushrescueframe slot jcatch jfinally
              ((0 ||| if false = true then RESCUEMODE_JUMPONRESCUE else 0) |||
                if true = true then RESCUEMODE_JUMPONFINALLY else 0) id] ++
              adds ++ body ++
              doRecordsAfterBody false true jcatch jfinally jend id rbody
                fbody =
            (Inst.pushrescueframe slot jcatch jfinally
              ((0 ||| if false = true then RESCUEMODE_JUMPONRESCUE else 0) |||
                if true = true then RESCUEMODE_JUMPONFINALLY else 0) id ::
              ((adds ++ body ++ [.jumptofinally id, .jumptarget jfinally] ++
                fbody) ++ [.poprescueframe id])) ++
              [.jumptarget jend] := by
          simp [doRecordsAfterBody]
        rw [e]
        exact app _ _ (framesOk_frame _ _ _ _ _ _
          (app _ _ (app _ _ (app _ _ ha pb) (framesOk_of_all _ rfl)) pf))
          (framesOk_of_all _ rfl)
      · left
        simp [hasRescueOnlyFrame, RESCUEMODE_JUMPONRESCUE,
          RESCUEMODE_JUMPONFINALLY]
      · have e : [Inst.pushrescueframe slot jcatch jfinally
              ((0 ||| if true = true then RESCUEMODE_JUMPONRESCUE else 0) |||
                if true = true then RESCUEMODE_JUMPONFINALLY else 0) id] ++
              adds ++ body ++
              doRecordsAfterBody true true jcatch jfinally jend id rbody
                fbody =
            (Inst.pushrescueframe slot jcatch jfinally
              ((0 ||| if true = true then RESCUEMODE_JUMPONRESCUE else 0) |||
                if true = true then RESCUEMODE_JUMPONFINALLY else 0) id ::
              ((adds ++ body ++ [.jumptofinally id, .jumptarget jcatch] ++
                rbody ++ [.jumptofinally id, .jumptarget jfinally] ++
                fbody) ++ [.poprescueframe id])) ++
              [.jumptarget jend] := by
          simp [doRecordsAfterBody]
        rw [e]
        exact app _ _ (framesOk_frame _ _ _ _ _ _
          (app _ _ (app _ _ (app _ _ (app _ _ (app _ _ ha pb)
            (framesOk_of_all _ rfl)) pr) (framesOk_of_all _ rfl)) pf))
          (framesOk_of_all _ rfl)
    · exact app _ _ (app _ _ pb pr) pf

/-! The rescue frames of the `with` statement. -/

theorem hasRescueOnlyFrame_noFrameMark : ∀ (d : List Inst), NoFrameMark d →
    hasRescueOnlyFrame d = false := by
  intro d
  induction d with
  | nil => intro _; rfl
  | cons i rest ih =>
    intro h
    have hi : i.isFrameMark = false := h i (List.mem_cons_self _ _)
    have hr : NoFrameMark rest := fun j hj => h j (List.mem_cons_of_mem _ hj)
    cases i
    case pushrescueframe => cases hi
    all_goals exact ih hr

theorem noFrameMark_of_all (l : List Inst)
    (h : l.all (fun i => !i.isFrameMark) = true) : NoFrameMark l := by
  intro i hi
  have := List.all_eq_true.1 h i hi
  simpa using this

/-- The guarded call of `.close()` on one with-clause: records without
frame marks, emitted into the function of the statement. -/
theorem withCloseCall_stream {α : Type} (func : FuncRef) (c : Expr)
    (k : Gen α) (st st1 : GenState) (r : α)
    (h : (do
      let jump_past_hasattr_id ← newJumpId func
      let st ← Gen.get
      if 0 ≤ attributeNameId st.global_member_name "close" then do
        emit func (.hasattrjump jump_past_hasattr_id
          (attributeNameId st.global_member_name "close") c.eval_temp_id)
        let t ← newtemp func true
        emit func (.getattributebyname (wrapInt16 t) c.eval_temp_id
          (attributeNameId st.global_member_name "close"))
        emit func (.call (wrapInt16 t) (wrapInt16 t) 0 0 0)
        freeLineTemps (some func)
        emit func (.jumptarget jump_past_hasattr_id)
        k
      else do
        emit func (.jump jump_past_hasattr_id)
        emit func (.jumptarget jump_past_hasattr_id)
        k : Gen α) st = .ok st1 r) :
    ∃ s2 d, k s2 = .ok st1 r ∧
      (∀ g, instrsOf s2 g =
        instrsOf st g ++ ownRecords g func.bytecode_func_id.toNat d) ∧
      NoFrameMark d := by
  obtain ⟨j, s1, h1, k1⟩ := Gen.bind_ok h
  obtain ⟨sg, s1b, h2, k2⟩ := Gen.bind_ok k1
  cases h2
  have e1 := (newJumpId_spec func st s1 j h1).1
  by_cases hc : 0 ≤ attributeNameId s1.global_member_name "close"
  · rw [if_pos hc] at k2
    obtain ⟨u3, s3, h3, k3⟩ := Gen.bind_ok k2
    obtain ⟨t, s4, h4, k4⟩ := Gen.bind_ok k3
    obtain ⟨u5, s5, h5, k5⟩ := Gen.bind_ok k4
    obtain ⟨u6, s6, h6, k6⟩ := Gen.bind_ok k5
    obtain ⟨u7, s7, h7, k7⟩ := Gen.bind_ok k6
    obtain ⟨u8, s8, h8, k8⟩ := Gen.bind_ok k7
    refine ⟨s8, [.hasattrjump j
        (attributeNameId s1.global_member_name "close") c.eval_temp_id,
      .getattributebyname (wrapInt16 t) c.eval_temp_id
        (attributeNameId s1.global_member_name "close"),
      .call (wrapInt16 t) (wrapInt16 t) 0 0 0, .jumptarget j], k8,
      fun g => ?_, noFrameMark_of_all _ rfl⟩
    rw [emit_own func _ s7 s8 h8 g, freeLineTemps_instrs _ s6 s7 h7 g,
      emit_own func _ s5 s6 h6 g, emit_own func _ s4 s5 h5 g,
      newtemp_instrs func true s3 s4 t h4 g, emit_own func _ s1 s3 h3 g,
      e1 g]
    unfold ownRecords
    split <;> simp
  · rw [if_neg hc] at k2
    obtain ⟨u3, s3, h3, k3⟩ := Gen.bind_ok k2
    obtain ⟨u4, s4, h4, k4⟩ := Gen.bind_ok k3
    refine ⟨s4, [.jump j, .jumptarget j], k4, fun g => ?_,
      noFrameMark_of_all _ rfl⟩
    rw [emit_own func _ s3 s4 h4 g, emit_own func _ s1 s3 h3 g, e1 g]
    unfold ownRecords
    split <;> simp

/-- The loop of the guarded `.close()` calls emits records into the
function of the statement only; it opens the frames it returns, in order,
none with `JUMP_ON_RESCUE`, and closes none. -/
theorem withCloseCalls_stream (env : Env) (func : FuncRef) :
    ∀ (clauses : List Expr) (st st1 : GenState) (frames : List Int),
    withCloseCalls env func clauses st = .ok st1 frames →
    ∃ w, (∀ g, instrsOf st1 g =
        instrsOf st g ++ ownRecords g func.bytecode_func_id.toNat w) ∧
      hasRescueOnlyFrame w = false ∧
      ∀ o, frameBalance w o = some (frames.reverse ++ o) := by
  intro clauses
  induction clauses with
  | nil =>
    intro st st1 frames h
    cases h
    exact ⟨[], fun g => by simp [ownRecords], rfl, fun o => rfl⟩
  | cons c rest ih =>
    intro st st1 frames h
    unfold withCloseCalls at h
    dsimp only at h
    obtain ⟨frame, s1, h1, k1⟩ := Gen.bind_ok h
    generalize (!rest.isEmpty) = gf at h1
    cases gf with
    | false =>
      obtain ⟨hs1, hfr⟩ := Gen.pure_ok h1
      subst hfr
      obtain ⟨s2, d, k2, e2, hd⟩ :=
        withCloseCall_stream func c _ s1 st1 frames k1
      obtain ⟨w, ew, hw, bw⟩ := ih s2 st1 frames k2
      refine ⟨d ++ w, fun g => ?_, ?_, fun o => ?_⟩
      · rw [ew g, e2 g, hs1]
        unfold ownRecords
        split <;> simp
      · rw [hasRescueOnlyFrame_append, hasRescueOnlyFrame_noFrameMark d hd,
          hw]
        rfl
      · rw [frameBalance_append, frameBalance_noFrameMark d hd o]
        exact bw o
    | true =>
      simp only [if_true] at h1
      obtain ⟨u3, s3, h3, k3⟩ := Gen.bind_ok h1
      obtain ⟨id, s4, h4, k4⟩ := Gen.bind_ok k3
      obtain ⟨jf, s5, h5, k5⟩ := Gen.bind_ok k4
      obtain ⟨u6, s6, h6, k6⟩ := Gen.bind_ok k5
      obtain ⟨u7, s7, h7, k7⟩ := Gen.bind_ok k6
      obtain ⟨hs7, hfr⟩ := Gen.pure_ok k7
      subst hfr
      obtain ⟨s8, d, k8, e8, hd⟩ :=
        withCloseCall_stream func c _ s1 st1 frames k1
      dsimp only at k8
      obtain ⟨u9, s9, h9, k9⟩ := Gen.bind_ok k8
      obtain ⟨u10, s10, h10, k10⟩ := Gen.bind_ok k9
      obtain ⟨r, s11, h11, k11⟩ := Gen.bind_ok k10
      obtain ⟨hs11, hfr⟩ := Gen.pure_ok k11
      subst hfr
      obtain ⟨w, ew, hw, bw⟩ := ih s10 s11 r h11
      refine ⟨[.pushrescueframe (-1) (-1) jf RESCUEMODE_JUMPONFINALLY id,
          .addrescuetype id env.H64STDERROR_ERROR] ++ d ++
          [.jumptofinally id, .jumptarget jf] ++ w, fun g => ?_, ?_,
        fun o => ?_⟩
      · rw [hs11, ew g, emit_own func _ s9 s10 h10 g,
          emit_own func _ s8 s9 h9 g, e8 g, hs7, emit_own func _ s6 s7 h7 g,
          emit_own func _ s5 s6 h6 g, (newJumpId_spec func s4 s5 jf h5).1 g,
          newDoStmtId_instrs func s3 s4 id h4 g,
          enforce_dostmt_limit_ok func st s3 h3]
        unfold ownRecords
        split <;> simp
      · simp [hasRescueOnlyFrame_append, hasRescueOnlyFrame,
          hasRescueOnlyFrame_noFrameMark d hd, hw, RESCUEMODE_JUMPONRESCUE,
          RESCUEMODE_JUMPONFINALLY]
      · simp [frameBalance_append, frameBalance,
          frameBalance_noFrameMark d hd, bw]

/-- Popping the frames, last first, emits one pop per frame into the
function of the statement. -/
theorem popFramesReversed_stream (func : FuncRef) :
    ∀ (frames : List Int) (st st1 : GenState),
    popFramesReversed func frames st = .ok st1 () →
    ∀ g, instrsOf st1 g = instrsOf st g ++
      ownRecords g func.bytecode_func_id.toNat
        (frames.reverse.map Inst.poprescueframe) := by
  intro frames
  induction frames with
  | nil =>
    intro st st1 h g
    cases h
    simp [ownRecords]
  | cons id rest ih =>
    intro st st1 h g
    unfold popFramesReversed at h
    obtain ⟨u1, s1, h1, k1⟩ := Gen.bind_ok h
    rw [emit_own func _ s1 st1 k1 g, ih st s1 h1 g]
    unfold ownRecords
    split <;> simp

theorem frameBalance_pops : ∀ (l o : List Int),
    frameBalance (l.map Inst.poprescueframe) (l ++ o) = some o := by
  intro l
  induction l with
  | nil => intro o; rfl
  | cons id rest ih =>
    intro o
    simp [frameBalance, ih]

/-- The `with` branch appends, to every buffer, a sequence that holds a
push with `JUMP_ON_RESCUE` and not `JUMP_ON_FINALLY` or is balanced, when
the walk of every node does. -/
theorem visitInWith_framesOk (env : Env) (visit : Visitor)
    (hv : ∀ e ctx, Holds (Grows FramesOk) (visit e ctx))
    (func : Option FuncRef) (expr : Expr) (ctx : Ctx) (s : Storage)
    (withclause stmt : List Expr) :
    Holds (Grows FramesOk)
      (visitInWith env visit func expr ctx s withclause stmt) := by
  intro st st1 e1 h g
  have hS := grows_stepRel framesOk_flowClosed.toPlainClosed
  have app := framesOk_flowClosed.app
  unfold visitInWith at h
  obtain ⟨u1, s1, h1, k1⟩ := Gen.bind_ok h
  obtain ⟨f, s2, h2, k2⟩ := Gen.bind_ok k1
  obtain ⟨hs2, hf⟩ := ofOption_ok _ _ _ _ h2
  subst hf
  obtain ⟨jf, s3, h3, k3⟩ := Gen.bind_ok k2
  obtain ⟨u4, s4, h4, k4⟩ := Gen.bind_ok k3
  obtain ⟨u5, s5, h5, k5⟩ := Gen.bind_ok k4
  obtain ⟨u6, s6, h6, k6⟩ := Gen.bind_ok k5
  obtain ⟨id, s7, h7, k7⟩ := Gen.bind_ok k6
  obtain ⟨u8, s8, h8, k8⟩ := Gen.bind_ok k7
  obtain ⟨u9, s9, h9, k9⟩ := Gen.bind_ok k8
  obtain ⟨c1, s10, h10, k10⟩ := Gen.bind_ok k9
  obtain ⟨b1, s11, h11, k11⟩ := Gen.bind_ok k10
  obtain ⟨u12, s12, h12, k12⟩ := Gen.bind_ok k11
  obtain ⟨u13, s13, h13, k13⟩ := Gen.bind_ok k12
  obtain ⟨frames, s14, h14, k14⟩ := Gen.bind_ok k13
  obtain ⟨u15, s15, h15, k15⟩ := Gen.bind_ok k14
  obtain ⟨u16, s16, h16, k16⟩ := Gen.bind_ok k15
  obtain ⟨u17, s17, h17, k17⟩ := Gen.bind_ok k16
  obtain ⟨u18, s18, h18, k18⟩ := Gen.bind_ok k17
  obtain ⟨hs18, _⟩ := Gen.pure_ok k18
  obtain ⟨d0, e0, p0⟩ := (withSetNone_holds hS f withclause) s4 s5 u5 h5 g
  obtain ⟨dc, ec, pc⟩ :=
    (visitStmts_holds hS visit expr ctx withclause hv) s9 s10 c1 h10 g
  obtain ⟨ds, es, ps⟩ :=
    (visitStmtsFreeing_holds hS visit f expr ctx stmt hv) s10 s11 b1 h11 g
  obtain ⟨w, ew, hw, bw⟩ := withCloseCalls_stream env f c1 s13 s14 frames h14
  have hwp : FramesOk (w ++ frames.reverse.map Inst.poprescueframe) := by
    right
    intro o
    rw [frameBalance_append, bw o]
    exact frameBalance_pops _ o
  refine ⟨d0 ++ ownRecords g f.bytecode_func_id.toNat
      (.pushrescueframe (-1) (-1) jf RESCUEMODE_JUMPONFINALLY id ::
        (([.addrescuetype id env.H64STDERROR_ERROR] ++ dc ++ ds ++
          [.jumptofinally id, .jumptarget jf] ++
          (w ++ frames.reverse.map Inst.poprescueframe)) ++
          [.poprescueframe id])) ++
      (if g = f.bytecode_func_id.toNat then [] else dc ++ ds), ?_, ?_⟩
  · rw [hs18, setDescend_instrs true s17 s18 h18 g,
      freeLineTemps_instrs _ s16 s17 h17 g, emit_own f _ s15 s16 h16 g,
      popFramesReversed_stream f frames s14 s15 h15 g, ew g,
      emit_own f _ s12 s13 h13 g, emit_own f _ s11 s12 h12 g, es, ec,
      emit_own f _ s8 s9 h9 g, emit_own f _ s7 s8 h8 g,
      newDoStmtId_instrs f s6 s7 id h7 g, enforce_dostmt_limit_ok f s5 s6 h6,
      e0, (assert_ok _ _ _ h4).1, (newJumpId_spec f s2 s3 jf h3).1 g, hs2,
      setDescend_instrs true st s1 h1 g]
    unfold ownRecords
    split <;> simp
  · unfold ownRecords
    split
    · refine app _ _ (app _ _ p0 (framesOk_frame _ _ _ _ _ _ ?_))
        (framesOk_of_all _ rfl)
      exact app _ _ (app _ _ (app _ _ (app _ _ (framesOk_of_all _ rfl) pc) ps)
        (framesOk_of_all _ rfl)) hwp
    · exact app _ _ (app _ _ p0 (framesOk_of_all _ rfl)) (app _ _ pc ps)

/-! Claim C13: the rescue frames of a function. -/

/-- C13, as stated, fails: the function with the single statement
`do { g() } rescue E as e { g() }`, which has a rescue block and no finally
block, is lowered to a stream with one `PUSH_RESCUE_FRAME 0` and two
`POP_RESCUE_FRAME 0`, one after the protected body and one after the rescue
body; the second pop has no unmatched push. -/
theorem C13_rescue_without_finally_pops_twice :
    doRescueFuncRun.isOk = true ∧
    instrsOf (doRescueFuncRun.stateOf selfListState) 0 =
      [.pushrescueframe 0 1 (-1) 1 0, .addrescuetype 0 5,
        .getfunc 1 1, .callsettop 3, .call 2 1 0 0 0,
        .poprescueframe 0, .jump 0, .jumptarget 1,
        .getfunc 1 1, .callsettop 3, .call 2 1 0 0 0,
        .poprescueframe 0, .jumptarget 0] ∧
    frameBalance (instrsOf (doRescueFuncRun.stateOf selfListState) 0) [] =
      none ∧
    framesBalanced (instrsOf (doRescueFuncRun.stateOf selfListState) 0) =
      false := by
  decide!

/-- C13, amended: what the walk of a node appends to the buffer of a
function holds a `PUSH_RESCUE_FRAME` with `JUMP_ON_RESCUE` and without
`JUMP_ON_FINALLY` (the frame of a `do` statement with a rescue block and no
finally block), or its pushes and pops are balanced: every pop carries the
id of the most recent unmatched push and every push is popped, so that the
sequence leaves every stack of open frames as it was. -/
theorem C13_frames_balanced (env : Env)
    (itemsort : List KwArgSortInfo → List KwArgSortInfo) (fuel : Nat)
    (e : Expr) (ctx : Ctx) (st st1 : GenState) (e1 : Expr)
    (h : visit env itemsort fuel e ctx st = .ok st1 e1) (g : Nat) :
    ∃ d, instrsOf st1 g = instrsOf st g ++ d ∧
      (hasRescueOnlyFrame d = false →
        framesBalanced d = true ∧ ∀ o, frameBalance d o = some o) := by
  obtain ⟨d, hd, hp⟩ :=
    visit_holds (grows_flowRel framesOk_flowClosed)
      (grows_loopFree framesOk_flowClosed) env itemsort
      (fun visit hv func expr ctx s withclause stmt =>
        visitInWith_framesOk env visit hv func expr ctx s withclause stmt)
      (fun visit hv func expr ctx s a b c d e =>
        visitInDo_framesOk visit hv func expr ctx s a b c d e)
      fuel e ctx st st1 e1 h g
  refine ⟨d, hd, fun ht => ?_⟩
  rcases hp with hp | hp
  · rw [ht] at hp
    cases hp
  · refine ⟨?_, hp⟩
    unfold framesBalanced
    rw [hp []]
    rfl

/-- C13, amended, at the function with the single statement
`do { g() } rescue E as e { g() } finally { g() }`. -/
theorem C13_frames_balanced_witness :
    ∃ d, instrsOf (doRescueFinallyFuncRun.stateOf selfListState) 0 =
        instrsOf selfListState 0 ++ d ∧
      (hasRescueOnlyFrame d = false →
        framesBalanced d = true ∧ ∀ o, frameBalance d o = some o) :=
  C13_frames_balanced sampleEnv kwInsertionSort 8 doRescueFinallyFunc []
    selfListState (doRescueFinallyFuncRun.stateOf selfListState)
    (doRescueFinallyFuncRun.valueOf doRescueFinallyFunc)
    (Res.eq_ok doRescueFinallyFuncRun selfListState doRescueFinallyFunc
      (by decide!)) 0

/-- The function with the single statement `do { g() } rescue E as e { g()
} finally { g() }` is lowered to a stream without a rescue-only frame whose
pushes and pops are balanced. -/
theorem doRescueFinallyFuncRun_balanced :
    hasRescueOnlyFrame
      (instrsOf (doRescueFinallyFuncRun.stateOf selfListState) 0) = false ∧
    framesBalanced
      (instrsOf (doRescueFinallyFuncRun.stateOf selfListState) 0) = true := by
  decide!

/-! Claim C29: the vector constructor. -/

/-- The emission loop of the vector constructor stops at
`assert(key_slot >= 0)` or earlier on every non-empty entry list when the key
slot is -1. -/
theorem emitIndexSets_vector_not_ok (func : FuncRef) (vectortmp : Int)
    (e : Expr) (rest : List Expr) (st : GenState) :
    (emitIndexSets func vectortmp (-1) (vectorEntries (e :: rest)) st).isOk =
      false := by
  show (emitIndexSets func vectortmp (-1)
    ((none, e) :: vectorEntries rest) st).isOk = false
  unfold emitIndexSets
  show (Gen.bind (Gen.assert (decide (0 ≤ e.eval_temp_id))) _ st).isOk = false
  unfold Gen.bind Gen.assert
  by_cases h : 0 ≤ e.eval_temp_id
  · simp only [h, decide_True, if_true, Gen.pure]
    rfl
  · simp only [h, decide_False]
    rfl

/-- On every vector constructor with at least one entry the branch of
visit_out does not return 1. -/
theorem visitOutVectorMap_vector_not_ok (func : FuncRef) (expr : Expr)
    (ctx : Ctx) (e : Expr) (rest : List Expr) (st : GenState) :
    (visitOutVectorMap func expr ctx false (vectorEntries (e :: rest))
      st).isOk = false := by
  cases hr : visitOutVectorMap func expr ctx false
      (vectorEntries (e :: rest)) st with
  | ok st1 t =>
    exfalso
    unfold visitOutVectorMap at hr
    obtain ⟨v, s1, h1, k1⟩ := Gen.bind_ok hr
    by_cases hv : v < 0
    · rw [if_pos hv] at k1
      cases k1
    · rw [if_neg hv] at k1
      obtain ⟨u2, s2, h2, k2⟩ := Gen.bind_ok k1
      simp only [Bool.false_eq_true, if_false] at k2
      obtain ⟨u3, s3, h3, k3⟩ := Gen.bind_ok k2
      have := emitIndexSets_vector_not_ok func v e rest s2
      rw [h3] at this
      cases this
  | fail st1 => rfl
  | assertFailed => rfl
  | outOfFuel => rfl

/-- C29, on the code: lowering the function body `x = <1>`, a vector
constructor with one entry, stops at a violated assertion
(`assert(key_slot >= 0)`: the index slot `keytmp` is allocated only for a
map and is -1 for a vector), while the same body with a map constructor is
lowered. -/
theorem C29_vector_constructor_assert_fails :
    (visit sampleEnv kwInsertionSort 6 vectorFunc [] selfListState
      ).isAssertFailed = true ∧
    (visit sampleEnv kwInsertionSort 6 mapFunc [] selfListState).isOk =
      true := by
  decide!

/-! Claim C27: a call with an unknown keyword argument. -/

/-- The pre-iteration over the arguments stops at the first keyword argument
whose name is not in the attribute-name index. -/
theorem collectKwArgs_unknown (names : List String) :
    ∀ (args : List (Option String × Expr)) (i : Nat) (start : Option Nat),
      (∃ a ∈ args, ∃ n, a.1 = some n ∧ attributeNameId names n < 0) →
      ∃ (k : Nat) (name : String) (x : Expr),
        collectKwArgs names args i start = .unknown (i + k) name ∧
        args[k]? = some (some name, x) ∧
        attributeNameId names name < 0 ∧
        ∀ j, j < k → ∀ y, args[j]? = some y → ∀ n, y.1 = some n →
          0 ≤ attributeNameId names n := by
  intro args
  induction args with
  | nil =>
    intro i start h
    obtain ⟨a, ha, _⟩ := h
    cases ha
  | cons a as ih =>
    intro i start h
    obtain ⟨n, x⟩ := a
    cases n with
    | none =>
      have h1 : ∃ a ∈ as, ∃ n, a.1 = some n ∧ attributeNameId names n < 0 := by
        obtain ⟨b, hb, m, hm, hlt⟩ := h
        rcases List.mem_cons.1 hb with rfl | hb
        · cases hm
        · exact ⟨b, hb, m, hm, hlt⟩
      obtain ⟨k, name, y, hk, hget, hlt, hbefore⟩ := ih (i + 1) start h1
      refine ⟨k + 1, name, y, ?_, by simpa using hget, hlt, ?_⟩
      · simp only [collectKwArgs, hk]
        congr 1
        omega
      · intro j hj z hz m hm
        cases j with
        | zero =>
          simp at hz
          subst hz
          cases hm
        | succ j =>
          exact hbefore j (by omega) z (by simpa using hz) m hm
    | some n =>
      by_cases hn : attributeNameId names n < 0
      · refine ⟨0, n, x, ?_, by simp, hn,
          fun j hj => absurd hj (Nat.not_lt_zero _)⟩
        simp [collectKwArgs, hn]
      · have h1 : ∃ a ∈ as, ∃ n, a.1 = some n ∧
            attributeNameId names n < 0 := by
          obtain ⟨b, hb, m, hm, hlt⟩ := h
          rcases List.mem_cons.1 hb with rfl | hb
          · cases hm
            exact absurd hlt hn
          · exact ⟨b, hb, m, hm, hlt⟩
        have key : ∀ start1 : Option Nat,
            ∃ (k : Nat) (name : String) (x1 : Expr),
              (match collectKwArgs names as (i + 1) start1 with
                | .collected info s =>
                  KwCollect.collected
                    (⟨attributeNameId names n, i⟩ :: info) s
                | .unknown j m => .unknown j m) =
                .unknown (i + k) name ∧
              ((some n, x) :: as)[k]? = some (some name, x1) ∧
              attributeNameId names name < 0 ∧
              ∀ j, j < k → ∀ y, ((some n, x) :: as)[j]? = some y →
                ∀ m, y.1 = some m → 0 ≤ attributeNameId names m := by
          intro start1
          obtain ⟨k, name, y, hk, hget, hlt, hbefore⟩ := ih (i + 1) start1 h1
          refine ⟨k + 1, name, y, ?_, by simpa using hget, hlt, ?_⟩
          · rw [hk]
            show KwCollect.unknown (i + 1 + k) name = _
            rw [Nat.add_assoc, Nat.add_comm 1 k]
          · intro j hj z hz m hm
            cases j with
            | zero =>
              simp at hz
              subst hz
              cases hm
              omega
            | succ j =>
              exact hbefore j (by omega) z (by simpa using hz) m hm
        cases start with
        | none =>
          simpa only [collectKwArgs, hn, if_false] using key (some i)
        | some s =>
          simpa only [collectKwArgs, hn, if_false] using key (some s)

theorem getStorageInfo_of_func (st : GenState) (func : Nat) (f : GenFunc)
    (h : st.func[func]? = some f) :
    getStorageInfo func st = some f.storageinfo := by
  unfold getStorageInfo
  rw [h]
  rfl

theorem instrsOf_withInstructions (st : GenState) (func : Nat) (f : GenFunc)
    (L : List Inst) (h : func < st.func.length) :
    instrsOf (withInstructions st func f L) func = L := by
  unfold instrsOf
  rw [withInstructions_getElem _ _ _ _ h]

theorem appendinst_run (st : GenState) (func : Nat) (f : GenFunc)
    (inst : Inst) (hf : st.func[func]? = some f) (hc : f.iscfunc = false) :
    appendinst func inst st =
      .ok (setFunc st func
        { f with instructions := f.instructions ++ [inst] }) () := by
  unfold appendinst appendinstbyfuncid
  rw [hf]
  simp [hc, setFunc]

theorem instrsOf_setFunc (st : GenState) (func : Nat) (g : GenFunc)
    (h : func < st.func.length) :
    instrsOf (setFunc st func g) func = g.instructions := by
  unfold instrsOf
  rw [setFunc_getElem st func g h]

theorem setStorageInfo_getElem (st : GenState) (func : Nat) (f : GenFunc)
    (si : StorageInfo) (hf : st.func[func]? = some f) :
    (setStorageInfo func si st).func[func]? =
      some { f with storageinfo := si } := by
  unfold setStorageInfo
  rw [hf]
  simp [List.getElem?_set, getElem_lt_of_some st func f hf]

/-- C27: when a call has a keyword argument whose name is not in the
attribute-name index, `_codegen_call_to` returns 1 (on a function that is
not a C function); it adds one warning, for the first such argument in source
order, to the diagnostics of the file and none to those of the project; and
the records it appends are the initial `CALL_SETTOP`, a `SET_CONST` of the
message string into a temporary that was not in use, and the `RAISE` of
`ArgumentError` with that slot: no `VALUECOPY`, no `CALL` and no
`CALL_IGNORE_IF_NONE`. -/
theorem C27_unknown_keyword_argument (env : Env)
    (itemsort : List KwArgSortInfo → List KwArgSortInfo) (func : Nat)
    (args : List (Option String × Expr)) (expand is_async : Bool)
    (calledtemp resulttemp : Int) (ignoreifnone : Bool) (st : GenState)
    (f : GenFunc) (hf : st.func[func]? = some f) (hc : f.iscfunc = false)
    (hu : ∃ a ∈ args, ∃ n, a.1 = some n ∧
      attributeNameId st.global_member_name n < 0) :
    ∃ (st1 : GenState) (k : Nat) (name : String) (x : Expr) (t : Int)
      (i : Nat),
      _codegen_call_to env itemsort func args expand is_async calledtemp
        resulttemp ignoreifnone st = .ok st1 none ∧
      args[k]? = some (some name, x) ∧
      attributeNameId st.global_member_name name < 0 ∧
      (∀ j, j < k → ∀ y, args[j]? = some y → ∀ n, y.1 = some n →
        0 ≤ attributeNameId st.global_member_name n) ∧
      st1.astresultmsg = result_AddMessage st.astresultmsg .warning
        ("unknown keyword argument \"" ++ name ++
          "\" will cause runtime error with this function") ∧
      st1.resultmsg = st.resultmsg ∧
      t = f.storageinfo.lowest_guaranteed_free_temp + i ∧
      (∀ e, f.storageinfo.extra_temps[i]? = some e → e.used = false) ∧
      instrsOf st1 func = instrsOf st func ++
        [.callsettop (funccurrentstacktop f.storageinfo),
          .setconst t (.constpreallocstr (asciiToUtf32
            "called func does not recognize all passed keyword arguments")),
          .raise env.H64STDERROR_ARGUMENTERROR t] := by
  have hl := getElem_lt_of_some st func f hf
  obtain ⟨k, name, x, hk, hget, hlt, hbefore⟩ :=
    collectKwArgs_unknown st.global_member_name args 0 none hu
  obtain ⟨i, ht, _, hfree, _⟩ := newtemp_ex_spec f.storageinfo true
  have hrun : ∃ st1, _codegen_call_to env itemsort func args expand is_async
      calledtemp resulttemp ignoreifnone st = .ok st1 none ∧
      st1.astresultmsg = result_AddMessage st.astresultmsg .warning
        ("unknown keyword argument \"" ++ name ++
          "\" will cause runtime error with this function") ∧
      st1.resultmsg = st.resultmsg ∧
      instrsOf st1 func = instrsOf st func ++
        [.callsettop (funccurrentstacktop f.storageinfo),
          .setconst (_newtemp_ex f.storageinfo true).2
            (.constpreallocstr (asciiToUtf32
            "called func does not recognize all passed keyword arguments")),
          .raise env.H64STDERROR_ARGUMENTERROR
            (_newtemp_ex f.storageinfo true).2] := by
    have hsi : getStorageInfo func st = some f.storageinfo :=
      getStorageInfo_of_func st func f hf
    have hi : instrsOf st func = f.instructions := by
      unfold instrsOf; rw [hf]
    simp [_codegen_call_to, hsi, hf, hk, hi, hc, hl, appendinst,
      appendinstbyfuncid, newtempIn, getStorageInfo, setStorageInfo, instrsOf,
      List.getElem?_set]
  obtain ⟨st1, h1, h2, h3, h4⟩ := hrun
  exact ⟨st1, k, name, x, _, i, h1, hget, hlt, hbefore, h2, h3, ht, hfree, h4⟩

/-- C27 at the call `g(nosuch=1)` in function 0 of `selfListState`. -/
theorem C27_unknown_keyword_argument_witness :
    ∃ (st1 : GenState) (k : Nat) (name : String) (x : Expr) (t : Int)
      (i : Nat),
      _codegen_call_to sampleEnv kwInsertionSort 0 unknownKwArgs false false
        7 8 false selfListState = .ok st1 none ∧
      unknownKwArgs[k]? = some (some name, x) ∧
      attributeNameId selfListState.global_member_name name < 0 ∧
      (∀ j, j < k → ∀ y, unknownKwArgs[j]? = some y → ∀ n, y.1 = some n →
        0 ≤ attributeNameId selfListState.global_member_name n) ∧
      st1.astresultmsg = result_AddMessage selfListState.astresultmsg
        .warning ("unknown keyword argument \"" ++ name ++
          "\" will cause runtime error with this function") ∧
      st1.resultmsg = selfListState.resultmsg ∧
      t = selfListEntry.storageinfo.lowest_guaranteed_free_temp + i ∧
      (∀ e, selfListEntry.storageinfo.extra_temps[i]? = some e →
        e.used = false) ∧
      instrsOf st1 0 = instrsOf selfListState 0 ++
        [.callsettop (funccurrentstacktop selfListEntry.storageinfo),
          .setconst t (.constpreallocstr (asciiToUtf32
            "called func does not recognize all passed keyword arguments")),
          .raise sampleEnv.H64STDERROR_ARGUMENTERROR t] :=
  C27_unknown_keyword_argument sampleEnv kwInsertionSort 0 unknownKwArgs
    false false 7 8 false selfListState selfListEntry rfl rfl
    ⟨(some "nosuch", .literal ⟨false, ⟨.INVALID, 0⟩, 1⟩ (.int 1)),
      List.mem_cons_self _ _, "nosuch", rfl, by decide⟩

/-! Claim C30: the intrinsic `has_attr`. -/

/-- A step that returned 1 continues with its value and state. -/
theorem Gen.bind_run {α β : Type} {m : Gen α} {f : α → Gen β}
    {st st1 : GenState} {a : α} (h : m st = .ok st1 a) :
    (m >>= f) st = f a st1 := by
  show Gen.bind m f st = f a st1
  unfold Gen.bind
  rw [h]

theorem emit_storage (func : FuncRef) (inst : Inst) (st st1 : GenState)
    (h : emit func inst st = .ok st1 ()) (g : Nat) :
    getStorageInfo g st1 = getStorageInfo g st := by
  unfold emit at h
  split at h
  · cases h
  · obtain ⟨f, hf, rfl⟩ := appendinst_ok _ _ _ _ h
    unfold getStorageInfo setFunc
    simp only [List.getElem?_set]
    split
    · rename_i hg
      subst hg
      split
      · rw [hf]; rfl
      · rename_i hlt
        rw [List.getElem?_eq_none (Nat.le_of_not_lt hlt)]
    · rfl

theorem emit_names (func : FuncRef) (inst : Inst) (st st1 : GenState)
    (h : emit func inst st = .ok st1 ()) :
    st1.global_member_name = st.global_member_name := by
  unfold emit at h
  split at h
  · cases h
  · obtain ⟨f, hf, rfl⟩ := appendinst_ok _ _ _ _ h
    rfl

theorem new1linetemp_names (func : FuncRef) (expr : Expr) (ctx : Ctx)
    (ismainitem : Bool) (st st1 : GenState) (t : Int)
    (h : new1linetemp func expr ctx ismainitem st = .ok st1 t) :
    st1.global_member_name = st.global_member_name := by
  rcases new1linetemp_cases func expr ctx ismainitem st st1 t h with h1 | h1
  · rw [h1]
  · obtain ⟨si, _, _, rfl, _⟩ := newtemp_ok func true st st1 t h1
    unfold setStorageInfo
    split <;> rfl

/-- The name lookup of the `has_attr` branch: the id is that of the interning
index, with a builtin attribute name interned first. -/
theorem lookupAttributeName_ok (name : String) (add : Bool)
    (st st1 : GenState) (i : Int)
    (h : lookupAttributeName name add st = .ok st1 i) :
    (∀ g, instrsOf st1 g = instrsOf st g) ∧
    (0 ≤ i ↔ (0 ≤ attributeNameId st.global_member_name name ∨ add = true)) ∧
    (0 ≤ i → i = (attributeNameIdAdd st.global_member_name name).2) := by
  unfold lookupAttributeName at h
  cases add with
  | false =>
    simp only [Bool.false_eq_true, if_false] at h
    cases h
    refine ⟨fun _ => rfl, by simp, ?_⟩
    intro h0
    unfold attributeNameIdAdd
    rw [if_neg (by omega)]
  | true =>
    simp only [if_true] at h
    unfold internAttributeName at h
    cases h
    refine ⟨fun _ => rfl, ?_, fun _ => rfl⟩
    have : 0 ≤ (attributeNameIdAdd st.global_member_name name).2 := by
      unfold attributeNameIdAdd
      split
      · exact Int.ofNat_nonneg _
      · dsimp only; omega
    simp [this]

theorem sure_pure {α : Type} (a : α) : Gen.Sure (Pure.pure a : Gen α) :=
  fun st => Or.inl ⟨st, a, rfl⟩

theorem sure_genPure {α : Type} (a : α) : Gen.Sure (Gen.pure a) :=
  fun st => Or.inl ⟨st, a, rfl⟩

theorem sure_abort {α : Type} : Gen.Sure (Gen.abort : Gen α) :=
  fun _ => Or.inr rfl

theorem sure_bind {α β : Type} {m : Gen α} {f : α → Gen β}
    (hm : Gen.Sure m) (hf : ∀ a, Gen.Sure (f a)) : Gen.Sure (m >>= f) := by
  intro st
  show (∃ s b, Gen.bind m f st = .ok s b) ∨ Gen.bind m f st = .assertFailed
  unfold Gen.bind
  rcases hm st with ⟨s, a, h⟩ | h
  · rw [h]; exact hf a s
  · rw [h]; exact Or.inr rfl

theorem sure_assert (c : Bool) : Gen.Sure (Gen.assert c) := by
  unfold Gen.assert
  split
  · exact sure_genPure _
  · exact sure_abort

theorem storageOf_sure (func : FuncRef) : Gen.Sure (storageOf func) := by
  intro st
  unfold storageOf
  split
  · exact Or.inr rfl
  · split
    · exact Or.inl ⟨_, _, rfl⟩
    · exact Or.inr rfl

theorem setStorageOf_sure (func : FuncRef) (si : StorageInfo) :
    Gen.Sure (setStorageOf func si) := by
  intro st
  unfold setStorageOf
  split
  · exact Or.inr rfl
  · exact Or.inl ⟨_, _, rfl⟩

theorem newtemp_sure (func : FuncRef) (d : Bool) :
    Gen.Sure (newtemp func d) := by
  unfold newtemp
  exact sure_bind (storageOf_sure _) (fun _ =>
    sure_bind (setStorageOf_sure _ _) (fun _ => sure_pure _))

theorem get_assign_lvalue_storage_sure (e : Expr) :
    Gen.Sure (get_assign_lvalue_storage e) := by
  unfold get_assign_lvalue_storage
  repeat any_goals (first
    | exact sure_genPure _
    | exact sure_abort
    | split)

theorem parentStore_sure (ctx : Ctx) : Gen.Sure (parentStore ctx) := by
  unfold parentStore
  repeat any_goals (first
    | exact sure_genPure _
    | exact sure_pure _
    | exact sure_abort
    | exact sure_bind (get_assign_lvalue_storage_sure _) (fun _ =>
        sure_pure _)
    | split)

theorem new1linetemp_sure (func : FuncRef) (expr : Expr) (ctx : Ctx)
    (ismainitem : Bool) : Gen.Sure (new1linetemp func expr ctx ismainitem) := by
  unfold new1linetemp
  repeat any_goals (first
    | exact sure_genPure _
    | exact sure_pure _
    | exact sure_abort
    | exact newtemp_sure _ _
    | exact storageOf_sure _
    | exact parentStore_sure _
    | refine sure_bind ?_ (fun _ => ?_)
    | split)

theorem Gen.bind_abort {α β : Type} {m : Gen α} {f : α → Gen β}
    {st : GenState} (h : m st = .assertFailed) :
    (m >>= f) st = .assertFailed := by
  show Gen.bind m f st = .assertFailed
  unfold Gen.bind
  rw [h]

/-- The `has_attr` branch on a call that has not exactly two positional
arguments with a plain string literal second: the result slot is taken and
the diagnostic is added. -/
theorem visitInHasAttr_malformed (env : Env) (v : Visitor) (f : FuncRef)
    (expr : Expr) (ctx : Ctx) (s : Storage) (value : Expr)
    (arguments : List (Option String × Expr)) (expand is_async : Bool)
    (st : GenState)
    (hbad : ∀ arg0 ls str len, arguments ≠
      [(none, arg0), (none, .literal ls (.string str len))]) :
    visitInHasAttr env v (some f) expr ctx s value arguments expand is_async
        st =
      (new1linetemp f expr ctx true >>= fun t =>
        Gen.assert (decide (0 ≤ t)) >>= fun _ =>
        addProjectMessage .error (hasAttrMessage arguments) >>= fun _ =>
        (Gen.unexpected : Gen Expr))
        { st with dont_descend_visitation := true } := by
  rcases arguments with _ | ⟨⟨n0, a0⟩, _ | ⟨⟨n1, a1⟩, _ | ⟨x, rest⟩⟩⟩
  · rfl
  · cases n0 <;> rfl
  · cases n0 with
    | some n => rfl
    | none =>
      cases n1 with
      | some n => rfl
      | none =>
        cases a1 with
        | literal ls l =>
          cases l with
          | string str len => exact absurd rfl (hbad a0 ls str len)
          | _ => rfl
        | _ => rfl
  · cases n0 <;> cases n1 <;> rfl

theorem new1linetemp_frame (func : FuncRef) (expr : Expr) (ctx : Ctx)
    (ismainitem : Bool) (st st1 : GenState) (t : Int)
    (h : new1linetemp func expr ctx ismainitem st = .ok st1 t) :
    st1.global_member_name = st.global_member_name ∧
    st1.resultmsg = st.resultmsg ∧ st1.astresultmsg = st.astresultmsg := by
  rcases new1linetemp_cases func expr ctx ismainitem st st1 t h with h1 | h1
  · rw [h1]; exact ⟨rfl, rfl, rfl⟩
  · obtain ⟨si, _, _, rfl, _⟩ := newtemp_ok func true st st1 t h1
    unfold setStorageInfo
    split <;> exact ⟨rfl, rfl, rfl⟩

theorem visitChildOom_run (visit : Visitor) (child : Expr) (ctx : Ctx)
    (st st1 : GenState) (c : Expr)
    (h : visitChildOom visit child ctx st = .ok st1 c) :
    ∃ st2, visit child ctx { st with dont_descend_visitation := false } =
        .ok st2 c ∧
      st1 = { st2 with dont_descend_visitation := true } := by
  unfold visitChildOom at h
  split at h
  · rename_i st2 c2 hv
    cases h
    exact ⟨st2, hv, rfl⟩
  all_goals cases h

/-- The name id computed by the `has_attr` branch for the literal `str` of
length `len`. -/
theorem hasAttrNameId_ok (env : Env) (str : List Nat) (len : Nat)
    (st st1 : GenState) (i : Int)
    (h : (if cStrlen str = len then
        lookupAttributeName (bytesToString (str.take (cStrlen str)))
          (env.isbuiltinattrname (bytesToString (str.take (cStrlen str))))
      else pure (-1) : Gen Int) st = .ok st1 i) :
    (∀ g, instrsOf st1 g = instrsOf st g) ∧
    (0 ≤ i ↔ (cStrlen str = len ∧
      (0 ≤ attributeNameId st.global_member_name
          (bytesToString (str.take (cStrlen str))) ∨
        env.isbuiltinattrname (bytesToString (str.take (cStrlen str))) =
          true))) ∧
    (0 ≤ i → i = (attributeNameIdAdd st.global_member_name
      (bytesToString (str.take (cStrlen str)))).2) := by
  by_cases hl : cStrlen str = len
  · rw [if_pos hl] at h
    obtain ⟨h1, h2, h3⟩ := lookupAttributeName_ok _ _ st st1 i h
    exact ⟨h1, by rw [h2]; simp [hl], h3⟩
  · rw [if_neg hl] at h
    obtain ⟨h1, h2⟩ := Gen.pure_ok h
    subst h1 h2
    exact ⟨fun _ => rfl, by simp [hl], fun h0 => absurd h0 (by decide)⟩

/-- C30: the `has_attr` branch of the lowerer.  Unless the call has exactly
two positional arguments of which the second is a plain string literal, the
branch does not succeed, and where no assertion is violated it returns 0 with
one more error diagnostic and no instruction emitted.  When it succeeds and
the literal has an embedded zero byte or its name is neither in the
attribute-name index nor a builtin attribute name, the only instruction
emitted is SET_CONST bool false into the result slot, the arguments are left
as they were and the run does not depend on the walk of the children.
Otherwise the buffer grows by the code of the object argument, SET_CONST
false into the result slot, HASATTRJUMP on the object's slot with the id of
the name and the label taken from the label counter of the function,
SET_CONST true into the result slot, and that label. -/
theorem C30_has_attr_stream (env : Env)
    (itemsort : List KwArgSortInfo → List KwArgSortInfo) (fuel : Nat)
    (f : FuncRef) (expr : Expr) (ctx : Ctx) (s : Storage) (value : Expr)
    (arguments : List (Option String × Expr)) (expand is_async : Bool)
    (st : GenState) :
    ((∀ arg0 ls str len, arguments ≠
        [(none, arg0), (none, .literal ls (.string str len))]) →
      (∀ st1 e1, visitInHasAttr env (visit env itemsort fuel) (some f) expr
        ctx s value arguments expand is_async st ≠ .ok st1 e1) ∧
      ((visitInHasAttr env (visit env itemsort fuel) (some f) expr ctx s
          value arguments expand is_async st).isAssertFailed = false →
        ∃ s1, visitInHasAttr env (visit env itemsort fuel) (some f) expr ctx
            s value arguments expand is_async st = .fail s1 ∧
          s1.resultmsg = result_AddMessage st.resultmsg .error
            (hasAttrMessage arguments) ∧
          ∀ g, instrsOf s1 g = instrsOf st g)) ∧
    (∀ st1 e1, visitInHasAttr env (visit env itemsort fuel) (some f) expr
        ctx s value arguments expand is_async st = .ok st1 e1 →
      ∃ (arg0 : Expr) (ls : Storage) (str : List Nat) (len : Nat)
        (slot : Int),
        arguments = [(none, arg0), (none, .literal ls (.string str len))] ∧
        e1.eval_temp_id = slot ∧
        ((cStrlen str ≠ len ∨
            (attributeNameId st.global_member_name
                (bytesToString (str.take (cStrlen str))) < 0 ∧
              env.isbuiltinattrname
                (bytesToString (str.take (cStrlen str))) = false)) →
          instrsOf st1 f.bytecode_func_id.toNat =
            instrsOf st f.bytecode_func_id.toNat ++
              [.setconst slot (.bool 0)] ∧
          e1 = .call { s with eval_temp_id := slot } value arguments expand
            is_async ∧
          ∀ v : Visitor, visitInHasAttr env v (some f) expr ctx s value
            arguments expand is_async st = .ok st1 e1) ∧
        (cStrlen str = len →
          (0 ≤ attributeNameId st.global_member_name
              (bytesToString (str.take (cStrlen str))) ∨
            env.isbuiltinattrname
              (bytesToString (str.take (cStrlen str))) = true) →
          ∃ (sta sta1 : GenState) (a0 : Expr) (codeA : List Inst)
            (jpast : Int) (si : StorageInfo),
            visit env itemsort fuel (arg0.setEvalTemp (-1))
              ((expr, .other) :: ctx) sta = .ok sta1 a0 ∧
            instrsOf sta f.bytecode_func_id.toNat =
              instrsOf st f.bytecode_func_id.toNat ∧
            instrsOf sta1 f.bytecode_func_id.toNat =
              instrsOf sta f.bytecode_func_id.toNat ++ codeA ∧
            getStorageInfo f.bytecode_func_id.toNat sta1 = some si ∧
            jpast = si.jump_targets_used ∧
            instrsOf st1 f.bytecode_func_id.toNat =
              instrsOf st f.bytecode_func_id.toNat ++ codeA ++
                [.setconst slot (.bool 0),
                  .hasattrjump jpast
                    (attributeNameIdAdd st.global_member_name
                      (bytesToString (str.take (cStrlen str)))).2
                    a0.eval_temp_id,
                  .setconst slot (.bool 1), .jumptarget jpast] ∧
            e1 = .call { s with eval_temp_id := slot } value
              [(none, a0), (none, .literal ls (.string str len))] expand
              is_async)) := by
  refine ⟨fun hbad => ?_, fun st1 e1 h => ?_⟩
  · rw [visitInHasAttr_malformed env _ f expr ctx s value arguments expand
      is_async st hbad]
    rcases new1linetemp_sure f expr ctx true
      { st with dont_descend_visitation := true } with ⟨s3, t, h3⟩ | h3
    · rw [Gen.bind_run h3]
      by_cases ht : 0 ≤ t
      · have ha : Gen.assert (decide (0 ≤ t)) s3 = .ok s3 () := by
          simp [Gen.assert, ht, Gen.pure]
        rw [Gen.bind_run ha]
        refine ⟨fun _ _ hh => (by cases hh), fun _ => ⟨_, rfl, ?_, ?_⟩⟩
        · show result_AddMessage s3.resultmsg _ _ = _
          rw [(new1linetemp_frame f expr ctx true _ s3 t h3).2.1]
        · intro g
          show instrsOf s3 g = _
          rw [new1linetemp_instrs f expr ctx true _ s3 t h3 g]
          rfl
      · have ha : Gen.assert (decide (0 ≤ t)) s3 = .assertFailed := by
          simp [Gen.assert, ht, Gen.abort]
        rw [Gen.bind_abort ha]
        exact ⟨fun _ _ hh => (by cases hh), fun hh => (by cases hh)⟩
    · rw [Gen.bind_abort h3]
      exact ⟨fun _ _ hh => (by cases hh), fun hh => (by cases hh)⟩
  · by_cases hg : ∃ arg0 ls str len, arguments =
        [(none, arg0), (none, .literal ls (.string str len))]
    swap
    · exfalso
      have hbad : ∀ arg0 ls str len, arguments ≠
          [(none, arg0), (none, .literal ls (.string str len))] :=
        fun a b c d hh => hg ⟨a, b, c, d, hh⟩
      rw [visitInHasAttr_malformed env _ f expr ctx s value arguments expand
        is_async st hbad] at h
      obtain ⟨t, s3, h3, k3⟩ := Gen.bind_ok h
      obtain ⟨u, s4, h4, k4⟩ := Gen.bind_ok k3
      obtain ⟨u5, s5, h5, k5⟩ := Gen.bind_ok k4
      cases k5
    obtain ⟨arg0, ls, str, len, rfl⟩ := hg
    have hrun := h
    unfold visitInHasAttr at h
    obtain ⟨u1, s1, h1, k1⟩ := Gen.bind_ok h
    obtain ⟨f1, s2, h2, k2⟩ := Gen.bind_ok k1
    obtain ⟨hs2, hf⟩ := ofOption_ok _ _ _ _ h2
    cases hf
    obtain ⟨slot, s3, h3, k3⟩ := Gen.bind_ok k2
    obtain ⟨u4, s4, h4, k4⟩ := Gen.bind_ok k3
    obtain ⟨hs4, _⟩ := assert_ok _ _ _ h4
    dsimp only at k4
    obtain ⟨nameidx, s5, h5, k5⟩ := Gen.bind_ok k4
    have hnames : s4.global_member_name = st.global_member_name := by
      rw [hs4, (new1linetemp_frame f expr ctx true s2 s3 slot h3).1, hs2]
      cases h1
      rfl
    have hpre : instrsOf s4 f.bytecode_func_id.toNat =
        instrsOf st f.bytecode_func_id.toNat := by
      rw [hs4, new1linetemp_instrs f expr ctx true s2 s3 slot h3, hs2,
        setDescend_instrs true st s1 h1]
    obtain ⟨hi5, hiff, hval⟩ := hasAttrNameId_ok env str len s4 s5 nameidx h5
    rw [hnames] at hiff hval
    by_cases hn : nameidx < 0
    · rw [if_pos hn] at k5
      obtain ⟨u6, s6, h6, k6⟩ := Gen.bind_ok k5
      obtain ⟨u7, s7, h7, k7⟩ := Gen.bind_ok k6
      obtain ⟨hs7, he⟩ := Gen.pure_ok k7
      refine ⟨arg0, ls, str, len, slot, rfl, by rw [he]; rfl, fun _ => ?_,
        fun hl hk => absurd (hiff.2 ⟨hl, hk⟩) (by omega)⟩
      refine ⟨?_, he, fun v => ?_⟩
      · rw [hs7, setDescend_instrs true s6 s7 h7,
          emit_instrs f _ s5 s6 h6, if_pos rfl, hi5, hpre]
      · unfold visitInHasAttr
        rw [Gen.bind_run h1, Gen.bind_run h2, Gen.bind_run h3,
          Gen.bind_run h4]
        dsimp only
        rw [Gen.bind_run h5, if_pos hn]
        exact k5
    · rw [if_neg hn] at k5
      have hn0 : 0 ≤ nameidx := by omega
      obtain ⟨a0, s6, h6, k6⟩ := Gen.bind_ok k5
      obtain ⟨sta1, hva, hs6⟩ := visitChildOom_run _ _ _ s5 s6 a0 h6
      obtain ⟨codeA, hA⟩ := visit_appends env itemsort fuel _ _ _ sta1 a0 hva
        f.bytecode_func_id.toNat
      by_cases ha0 : a0.eval_temp_id < 0
      · rw [if_pos ha0] at k6
        cases k6
      rw [if_neg ha0] at k6
      obtain ⟨u7, s7, h7, k7⟩ := Gen.bind_ok k6
      obtain ⟨hs7, _⟩ := assert_ok _ _ _ h7
      obtain ⟨u8, s8, h8, k8⟩ := Gen.bind_ok k7
      obtain ⟨jpast, s9, h9, k9⟩ := Gen.bind_ok k8
      obtain ⟨u10, s10, h10, k10⟩ := Gen.bind_ok k9
      obtain ⟨u11, s11, h11, k11⟩ := Gen.bind_ok k10
      obtain ⟨u12, s12, h12, k12⟩ := Gen.bind_ok k11
      obtain ⟨u13, s13, h13, k13⟩ := Gen.bind_ok k12
      obtain ⟨hs13, he⟩ := Gen.pure_ok k13
      obtain ⟨hj, si, hsi, hjv, _⟩ := newJumpId_spec f s8 s9 jpast h9
      refine ⟨arg0, ls, str, len, slot, rfl, by rw [he]; rfl,
        fun hu => ?_, fun _ _ => ?_⟩
      · exfalso
        have := hiff.1 hn0
        rcases hu with hu | ⟨hu1, hu2⟩
        · exact hu this.1
        · rcases this.2 with h0 | h0
          · omega
          · rw [hu2] at h0; cases h0
      · refine ⟨_, sta1, a0, codeA, jpast, si, hva, ?_, hA, ?_, hjv, ?_, ?_⟩
        · show instrsOf s5 _ = _
          rw [hi5, hpre]
        · rw [← hsi, emit_storage f _ s7 s8 h8, hs7, hs6]
          rfl
        · have e5 : instrsOf { s5 with dont_descend_visitation := false }
              f.bytecode_func_id.toNat =
              instrsOf st f.bytecode_func_id.toNat := by
            show instrsOf s5 _ = _
            rw [hi5, hpre]
          have e7 : instrsOf s7 f.bytecode_func_id.toNat =
              instrsOf st f.bytecode_func_id.toNat ++ codeA := by
            rw [hs7, hs6, ← e5]
            exact hA
          rw [hs13, setDescend_instrs true s12 s13 h13,
            emit_instrs f _ s11 s12 h12, if_pos rfl,
            emit_instrs f _ s10 s11 h11, if_pos rfl,
            emit_instrs f _ s9 s10 h10, if_pos rfl, hj,
            emit_instrs f _ s7 s8 h8, if_pos rfl, e7, ← hval hn0]
          simp
        · exact he

/-- C30 at `has_attr(x)`, which fails with the diagnostic, and at
`has_attr(x, "add")` with `add` in the attribute-name index. -/
theorem C30_has_attr_stream_witness :
    (∃ s1, visitInHasAttr sampleEnv (visit sampleEnv kwInsertionSort 2)
        (some ⟨0, 0⟩) hasAttrCall [(hasAttrFunc, .other)] noStorage
        hasAttrValue [(none, localX)] false false selfListState = .fail s1 ∧
      s1.resultmsg = result_AddMessage selfListState.resultmsg .error
        (hasAttrMessage [(none, localX)]) ∧
      ∀ g, instrsOf s1 g = instrsOf selfListState g) ∧
    ∃ (slot : Int) (sta sta1 : GenState) (a0 : Expr) (codeA : List Inst)
      (jpast : Int) (si : StorageInfo),
      visit sampleEnv kwInsertionSort 2 (localX.setEvalTemp (-1))
        ((hasAttrCall, .other) :: [(hasAttrFunc, .other)]) sta =
          .ok sta1 a0 ∧
      instrsOf sta (⟨0, 0⟩ : FuncRef).bytecode_func_id.toNat =
        instrsOf selfListState (⟨0, 0⟩ : FuncRef).bytecode_func_id.toNat ∧
      instrsOf sta1 (⟨0, 0⟩ : FuncRef).bytecode_func_id.toNat =
        instrsOf sta (⟨0, 0⟩ : FuncRef).bytecode_func_id.toNat ++ codeA ∧
      getStorageInfo (⟨0, 0⟩ : FuncRef).bytecode_func_id.toNat sta1 =
        some si ∧
      jpast = si.jump_targets_used ∧
      instrsOf (hasAttrRun.stateOf selfListState)
          (⟨0, 0⟩ : FuncRef).bytecode_func_id.toNat =
        instrsOf selfListState (⟨0, 0⟩ : FuncRef).bytecode_func_id.toNat ++
          codeA ++
          [.setconst slot (.bool 0),
            .hasattrjump jpast
              (attributeNameIdAdd selfListState.global_member_name
                (bytesToString ([97, 100, 100].take
                  (cStrlen [97, 100, 100])))).2
              a0.eval_temp_id,
            .setconst slot (.bool 1), .jumptarget jpast] ∧
      hasAttrRun.valueOf hasAttrCall =
        .call { noStorage with eval_temp_id := slot } hasAttrValue
          [(none, a0), (none, .literal noStorage (.string [97, 100, 100] 3))]
          false false := by
  refine ⟨((C30_has_attr_stream sampleEnv kwInsertionSort 2 ⟨0, 0⟩
    hasAttrCall [(hasAttrFunc, .other)] noStorage hasAttrValue
    [(none, localX)] false false selfListState).1
      (fun _ _ _ _ h => by cases h)).2 (by decide!), ?_⟩
  obtain ⟨arg0, ls, str, len, slot, hargs, _, _, hk⟩ :=
    (C30_has_attr_stream sampleEnv kwInsertionSort 2 ⟨0, 0⟩
      hasAttrCall [(hasAttrFunc, .other)] noStorage hasAttrValue
      hasAttrArgs false false selfListState).2 _ _
      (Res.eq_ok hasAttrRun selfListState hasAttrCall (by decide!))
  cases hargs
  exact ⟨slot, hk rfl (Or.inl (by decide))⟩

/-- The buffer after lowering `has_attr(x, "add")`: the object `x` needs no
code, `add` has the name id 1, the result slot is 1 and the label is 0. -/
theorem hasAttrRun_stream :
    instrsOf (hasAttrRun.stateOf selfListState) 0 =
      [.setconst 1 (.bool 0), .hasattrjump 0 1 0, .setconst 1 (.bool 1),
        .jumptarget 0] := by
  decide!

/-! Claim C25: the `raise` statement. -/

/-- The `raise` branch on a raised expression that is not `new C(arg)` with
one positional argument: the diagnostic is added and the branch returns 0
with every buffer as it was. -/
theorem visitInRaise_malformed (v : Visitor) (func : Option FuncRef)
    (expr : Expr) (ctx : Ctx) (s : Storage) (raised : Expr) (st : GenState)
    (hbad : ∀ ns cs value arg expand is_async, raised ≠
      .unaryop ns .NEW (.call cs value [(none, arg)] expand is_async)) :
    ∃ s1 msg, visitInRaise v func expr ctx s raised st = .fail s1 ∧
      (msg = "unexpected raised expression, expected a 'new' instantiation of an error class" ∨
        msg = "unexpected number of arguments to error object, expected single positional argument") ∧
      s1.resultmsg = result_AddMessage st.resultmsg .error msg ∧
      s1.astresultmsg = st.astresultmsg ∧
      s1.hadunexpectederror = true ∧
      ∀ g, instrsOf s1 g = instrsOf st g := by
  cases raised with
  | unaryop ns op v1 =>
    cases op
    case NEW =>
      cases v1 with
      | call cs value arguments expand is_async =>
        rcases arguments with _ | ⟨⟨n0, a0⟩, _ | ⟨x, rest⟩⟩
        · exact ⟨_, _, rfl, Or.inr rfl, rfl, rfl, rfl, fun _ => rfl⟩
        · cases n0 with
          | none => exact absurd rfl (hbad ns cs value a0 expand is_async)
          | some n => exact ⟨_, _, rfl, Or.inr rfl, rfl, rfl, rfl, fun _ => rfl⟩
        · cases n0 <;>
            exact ⟨_, _, rfl, Or.inr rfl, rfl, rfl, rfl, fun _ => rfl⟩
      | _ => exact ⟨_, _, rfl, Or.inl rfl, rfl, rfl, rfl, fun _ => rfl⟩
    all_goals exact ⟨_, _, rfl, Or.inl rfl, rfl, rfl, rfl, fun _ => rfl⟩
  | _ => exact ⟨_, _, rfl, Or.inl rfl, rfl, rfl, rfl, fun _ => rfl⟩

/-- C25: the `raise` branch of the lowerer.  Unless the raised expression is
a unary `new` applied to a call with exactly one positional argument, the
branch returns 0, adds one error diagnostic and leaves every buffer as it
was.  When it succeeds and the called value has resolved storage of kind
global class slot, the buffer grows by the code of the argument followed by
RAISE with that class id and the slot of the argument, and the class
reference is left as it was.  When it succeeds otherwise, the buffer grows by
the code of the class reference, the code of the argument and RAISE_BY_REF
with their two slots. -/
theorem C25_raise_stream (env : Env)
    (itemsort : List KwArgSortInfo → List KwArgSortInfo) (fuel : Nat)
    (f : FuncRef) (expr : Expr) (ctx : Ctx) (s : Storage) (raised : Expr)
    (st : GenState) :
    ((∀ ns cs value arg expand is_async, raised ≠
        .unaryop ns .NEW (.call cs value [(none, arg)] expand is_async)) →
      ∃ s1 msg, visitInRaise (visit env itemsort fuel) (some f) expr ctx s
          raised st = .fail s1 ∧
        s1.resultmsg = result_AddMessage st.resultmsg .error msg ∧
        ∀ g, instrsOf s1 g = instrsOf st g) ∧
    (∀ st1 e1, visitInRaise (visit env itemsort fuel) (some f) expr ctx s
        raised st = .ok st1 e1 →
      ∃ (ns cs : Storage) (value arg : Expr) (expand is_async : Bool),
        raised =
          .unaryop ns .NEW (.call cs value [(none, arg)] expand is_async) ∧
        ((value.storage.set = true ∧
            value.storage.ref.type = .GLOBALCLASSSLOT) →
          ∃ (stb stb1 : GenState) (arg1 : Expr) (codeB : List Inst),
            visit env itemsort fuel arg
              ((.call cs value [(none, arg)] expand is_async, .other) ::
                (raised, .value1) :: (expr, .other) :: ctx) stb =
              .ok stb1 arg1 ∧
            instrsOf stb f.bytecode_func_id.toNat =
              instrsOf st f.bytecode_func_id.toNat ∧
            instrsOf stb1 f.bytecode_func_id.toNat =
              instrsOf stb f.bytecode_func_id.toNat ++ codeB ∧
            instrsOf st1 f.bytecode_func_id.toNat =
              instrsOf st f.bytecode_func_id.toNat ++ codeB ++
                [.raise value.storage.ref.id arg1.eval_temp_id] ∧
            e1 = .raisestmt s (.unaryop ns .NEW
              (.call cs value [(none, arg1)] expand is_async))) ∧
        (¬ (value.storage.set = true ∧
            value.storage.ref.type = .GLOBALCLASSSLOT) →
          ∃ (sta sta1 stb stb1 : GenState) (value1 arg1 : Expr)
            (codeA codeB : List Inst),
            visit env itemsort fuel value
              ((.call cs value [(none, arg)] expand is_async, .other) ::
                (raised, .value1) :: (expr, .other) :: ctx) sta =
              .ok sta1 value1 ∧
            visit env itemsort fuel arg
              ((.call cs value [(none, arg)] expand is_async, .other) ::
                (raised, .value1) :: (expr, .other) :: ctx) stb =
              .ok stb1 arg1 ∧
            instrsOf sta f.bytecode_func_id.toNat =
              instrsOf st f.bytecode_func_id.toNat ∧
            instrsOf sta1 f.bytecode_func_id.toNat =
              instrsOf sta f.bytecode_func_id.toNat ++ codeA ∧
            instrsOf stb f.bytecode_func_id.toNat =
              instrsOf st f.bytecode_func_id.toNat ++ codeA ∧
            instrsOf stb1 f.bytecode_func_id.toNat =
              instrsOf stb f.bytecode_func_id.toNat ++ codeB ∧
            instrsOf st1 f.bytecode_func_id.toNat =
              instrsOf st f.bytecode_func_id.toNat ++ codeA ++ codeB ++
                [.raisebyref value1.eval_temp_id arg1.eval_temp_id] ∧
            e1 = .raisestmt s (.unaryop ns .NEW
              (.call cs value1 [(none, arg1)] expand is_async)))) := by
  refine ⟨fun hbad => ?_, fun st1 e1 h => ?_⟩
  · obtain ⟨s1, msg, h1, _, h2, _, _, h3⟩ :=
      visitInRaise_malformed (visit env itemsort fuel) (some f) expr ctx s
        raised st hbad
    exact ⟨s1, msg, h1, h2, h3⟩
  · by_cases hg : ∃ ns cs value arg expand is_async, raised =
        .unaryop ns .NEW (.call cs value [(none, arg)] expand is_async)
    swap
    · exfalso
      obtain ⟨s1, msg, h1, _⟩ :=
        visitInRaise_malformed (visit env itemsort fuel) (some f) expr ctx s
          raised st (fun a b c d e g hh => hg ⟨a, b, c, d, e, g, hh⟩)
      rw [h1] at h
      cases h
    obtain ⟨ns, cs, value, arg, expand, is_async, rfl⟩ := hg
    refine ⟨ns, cs, value, arg, expand, is_async, rfl, ?_⟩
    unfold visitInRaise at h
    obtain ⟨u1, s1, h1, k1⟩ := Gen.bind_ok h
    dsimp only [Expr.raisedCall] at k1
    by_cases hk : value.storage.set = true ∧
        value.storage.ref.type = .GLOBALCLASSSLOT
    · refine ⟨fun _ => ?_, fun hn => absurd hk hn⟩
      have hkn : (value.storage.set &&
          decide (value.storage.ref.type = .GLOBALCLASSSLOT)) = true := by
        simp [hk.1, hk.2]
      simp only [hkn, if_true] at k1
      obtain ⟨u2, s2, h2, k2⟩ := Gen.bind_ok k1
      obtain ⟨hs2, hassert⟩ := assert_ok _ _ _ h2
      have hid : ¬ value.storage.ref.id < 0 := by
        simpa using hassert
      simp only [if_neg hid] at k2
      obtain ⟨u3, s3, h3, k3⟩ := Gen.bind_ok k2
      obtain ⟨value1, s4, h4, k4⟩ := Gen.bind_ok k3
      obtain ⟨u4, s4a, h4a, k4a⟩ := Gen.bind_ok h4
      obtain ⟨hs4, hv1⟩ := Gen.pure_ok k4a
      obtain ⟨arg1, s5, h5, k5⟩ := Gen.bind_ok k4
      obtain ⟨stb1, hvb, hs5⟩ := visitChildIn_run _ _ _ s4 s5 arg1 h5
      obtain ⟨codeB, hB⟩ := visit_appends env itemsort fuel _ _ _ stb1 arg1
        hvb f.bytecode_func_id.toNat
      obtain ⟨s6x, s6, h6, k6⟩ := Gen.bind_ok k5
      have hs6 : s6 = s5 := by cases h6; rfl
      split at k6
      · obtain ⟨u7, s7, h7, k7⟩ := Gen.bind_ok k6
        cases k7
      obtain ⟨f1, s7, h7, k7⟩ := Gen.bind_ok k6
      obtain ⟨hs7, hf⟩ := ofOption_ok _ _ _ _ h7
      cases hf
      obtain ⟨u8, s8, h8, k8⟩ := Gen.bind_ok k7
      obtain ⟨u9, s9, h9, k9⟩ := Gen.bind_ok k8
      obtain ⟨u10, s10, h10, k10⟩ := Gen.bind_ok k9
      obtain ⟨hs10, he⟩ := Gen.pure_ok k10
      have hpre : instrsOf { s4 with dont_descend_visitation := false }
          f.bytecode_func_id.toNat = instrsOf st f.bytecode_func_id.toNat := by
        show instrsOf s4 _ = _
        rw [hs4, setDescend_instrs true s3 s4a h4a,
          setDescend_instrs false s2 s3 h3, hs2,
          setDescend_instrs true st s1 h1]
      refine ⟨_, stb1, arg1, codeB, hvb, hpre, hB, ?_, ?_⟩
      · rw [hs10, setDescend_instrs true s9 s10 h10,
          freeLineTemps_instrs (some f) s8 s9 h9,
          emit_instrs f _ s7 s8 h8, if_pos rfl, hs7, hs6, hs5]
        show instrsOf stb1 _ ++ _ = _
        rw [hB, hpre]
      · rw [he, hv1]
    · refine ⟨fun hn => absurd hn hk, fun _ => ?_⟩
      have hkn : (value.storage.set &&
          decide (value.storage.ref.type = .GLOBALCLASSSLOT)) = false := by
        cases hset : value.storage.set
        · rfl
        · simp only [Bool.true_and, decide_eq_false_iff_not]
          exact fun ht => hk ⟨hset, ht⟩
      simp only [hkn, Bool.false_eq_true, if_false] at k1
      obtain ⟨u2, s2, h2, k2⟩ := Gen.bind_ok k1
      obtain ⟨hs2, _⟩ := assert_ok _ _ _ h2
      simp only [if_pos (show (-1 : Int) < 0 by decide)] at k2
      obtain ⟨u3, s3, h3, k3⟩ := Gen.bind_ok k2
      obtain ⟨value1, s4, h4, k4⟩ := Gen.bind_ok k3
      obtain ⟨sta1, hva, hs4⟩ := visitChildIn_run _ _ _ s3 s4 value1 h4
      obtain ⟨codeA, hA⟩ := visit_appends env itemsort fuel _ _ _ sta1 value1
        hva f.bytecode_func_id.toNat
      obtain ⟨arg1, s5, h5, k5⟩ := Gen.bind_ok k4
      obtain ⟨stb1, hvb, hs5⟩ := visitChildIn_run _ _ _ s4 s5 arg1 h5
      obtain ⟨codeB, hB⟩ := visit_appends env itemsort fuel _ _ _ stb1 arg1
        hvb f.bytecode_func_id.toNat
      obtain ⟨s6x, s6, h6, k6⟩ := Gen.bind_ok k5
      have hs6 : s6 = s5 := by cases h6; rfl
      split at k6
      · obtain ⟨u7, s7, h7, k7⟩ := Gen.bind_ok k6
        cases k7
      obtain ⟨f1, s7, h7, k7⟩ := Gen.bind_ok k6
      obtain ⟨hs7, hf⟩ := ofOption_ok _ _ _ _ h7
      cases hf
      obtain ⟨u8, s8, h8, k8⟩ := Gen.bind_ok k7
      obtain ⟨u9, s9, h9, k9⟩ := Gen.bind_ok k8
      obtain ⟨u10, s10, h10, k10⟩ := Gen.bind_ok k9
      obtain ⟨hs10, he⟩ := Gen.pure_ok k10
      have hpre : instrsOf { s3 with dont_descend_visitation := false }
          f.bytecode_func_id.toNat = instrsOf st f.bytecode_func_id.toNat := by
        show instrsOf s3 _ = _
        rw [setDescend_instrs false s2 s3 h3, hs2,
          setDescend_instrs true st s1 h1]
      have hmid : instrsOf { s4 with dont_descend_visitation := false }
          f.bytecode_func_id.toNat =
          instrsOf st f.bytecode_func_id.toNat ++ codeA := by
        show instrsOf s4 _ = _
        rw [hs4]
        show instrsOf sta1 _ = _
        rw [hA, hpre]
      refine ⟨_, sta1, _, stb1, value1, arg1, codeA, codeB, hva, hvb, hpre,
        hA, hmid, hB, ?_, he⟩
      rw [hs10, setDescend_instrs true s9 s10 h10,
        freeLineTemps_instrs (some f) s8 s9 h9,
        emit_instrs f _ s7 s8 h8, if_pos rfl, hs7, hs6, hs5]
      show instrsOf stb1 _ ++ _ = _
      rw [hB, hmid]

/-- C25 at `raise x`, which fails with the diagnostic, and at
`raise new E(1)` with `E` the global class 5. -/
theorem C25_raise_stream_witness :
    (∃ s1 msg, visitInRaise (visit sampleEnv kwInsertionSort 2) (some ⟨0, 0⟩)
        raiseKnown [(raiseFunc, .other)] noStorage localX selfListState =
          .fail s1 ∧
      s1.resultmsg = result_AddMessage selfListState.resultmsg .error msg ∧
      ∀ g, instrsOf s1 g = instrsOf selfListState g) ∧
    ∃ (stb stb1 : GenState) (arg1 : Expr) (codeB : List Inst),
      visit sampleEnv kwInsertionSort 2 literalOne
        ((.call noStorage
            (.identifierref ⟨true, ⟨.GLOBALCLASSSLOT, 5⟩, -1⟩ "E" false)
            [(none, literalOne)] false false, .other) ::
          (.unaryop noStorage .NEW (.call noStorage
            (.identifierref ⟨true, ⟨.GLOBALCLASSSLOT, 5⟩, -1⟩ "E" false)
            [(none, literalOne)] false false), .value1) ::
          (raiseKnown, .other) :: [(raiseFunc, .other)]) stb =
        .ok stb1 arg1 ∧
      instrsOf stb (⟨0, 0⟩ : FuncRef).bytecode_func_id.toNat =
        instrsOf selfListState (⟨0, 0⟩ : FuncRef).bytecode_func_id.toNat ∧
      instrsOf stb1 (⟨0, 0⟩ : FuncRef).bytecode_func_id.toNat =
        instrsOf stb (⟨0, 0⟩ : FuncRef).bytecode_func_id.toNat ++ codeB ∧
      instrsOf (raiseKnownRun.stateOf selfListState)
          (⟨0, 0⟩ : FuncRef).bytecode_func_id.toNat =
        instrsOf selfListState (⟨0, 0⟩ : FuncRef).bytecode_func_id.toNat ++
          codeB ++
          [.raise (Expr.identifierref ⟨true, ⟨.GLOBALCLASSSLOT, 5⟩, -1⟩ "E"
            false).storage.ref.id arg1.eval_temp_id] ∧
      raiseKnownRun.valueOf raiseKnown = .raisestmt noStorage
        (.unaryop noStorage .NEW (.call noStorage
          (.identifierref ⟨true, ⟨.GLOBALCLASSSLOT, 5⟩, -1⟩ "E" false)
          [(none, arg1)] false false)) := by
  refine ⟨(C25_raise_stream sampleEnv kwInsertionSort 2 ⟨0, 0⟩ raiseKnown
    [(raiseFunc, .other)] noStorage localX selfListState).1
      (fun _ _ _ _ _ _ h => by cases h), ?_⟩
  obtain ⟨ns, cs, value, arg, expand, is_async, hshape, hk, _⟩ :=
    (C25_raise_stream sampleEnv kwInsertionSort 2 ⟨0, 0⟩ raiseKnown
      [(raiseFunc, .other)] noStorage _ selfListState).2 _ _
      (Res.eq_ok raiseKnownRun selfListState raiseKnown (by decide!))
  cases hshape
  exact hk ⟨rfl, rfl⟩

/-- The buffers after lowering `raise new E(1)` and `raise new x(1)`: the
code of the argument, then RAISE of class 5, or RAISE_BY_REF with the slot 0
of `x`. -/
theorem raiseRuns_stream :
    instrsOf (raiseKnownRun.stateOf selfListState) 0 =
      [.setconst 1 (.int 1), .raise 5 1] ∧
    instrsOf (raiseByRefRun.stateOf selfListState) 0 =
      [.setconst 1 (.int 1), .raisebyref 0 1] := by
  decide!

/-! Claim C28: the destination slot of `new`. -/

/-- A slot handed out by `_newtemp_ex` is not below the first free temporary
of the function, as the function has it after the call. -/
theorem newtemp_floor (func : FuncRef) (d : Bool) (st st1 : GenState)
    (t : Int) (h : newtemp func d st = .ok st1 t) :
    ∃ si, getStorageInfo func.bytecode_func_id.toNat st1 = some si ∧
      si.lowest_guaranteed_free_temp ≤ t := by
  obtain ⟨si, _, hsi, rfl, rfl⟩ := newtemp_ok func d st st1 t h
  refine ⟨(_newtemp_ex si d).1, getStorageInfo_setStorageInfo _ _ _ _ hsi, ?_⟩
  obtain ⟨i, hi, _, _, _, _, _, hfl⟩ := newtemp_ex_spec si d
  rw [hfl]
  exact newtemp_ex_ge si d

theorem storageOf_get (func : FuncRef) (st st1 : GenState)
    (si : StorageInfo) (h : storageOf func st = .ok st1 si) :
    st1 = st ∧ getStorageInfo func.bytecode_func_id.toNat st = some si := by
  obtain ⟨h1, _, f, hf, hsi⟩ := storageOf_ok func st st1 si h
  refine ⟨h1, ?_⟩
  unfold getStorageInfo
  rw [hf, ← hsi]
  rfl

/-- C28: the `new` branch of the lowerer emits its NEW_INSTANCE or
NEW_INSTANCE_BY_REF, the record right before its GET_CONSTRUCTOR, with a
destination slot that is not below `lowest_guaranteed_free_temp` of the
function at the time of the emission. -/
theorem C28_new_instance_slot (env : Env)
    (itemsort : List KwArgSortInfo → List KwArgSortInfo) (fuel : Nat)
    (f : FuncRef) (expr : Expr) (ctx : Ctx) (s : Storage) (value1 : Expr)
    (st st1 : GenState) (e1 : Expr)
    (h : visitInNew env itemsort (visit env itemsort fuel) (some f) expr ctx
      s value1 st = .ok st1 e1) :
    ∃ (sn sn1 : GenState) (si : StorageInfo) (inst : Inst)
      (objslot temp : Int) (pre post : List Inst),
      emit f inst sn = .ok sn1 () ∧
      ((∃ classid, inst = .newinstance objslot classid) ∨
        (∃ src, inst = .newinstancebyref objslot src)) ∧
      getStorageInfo f.bytecode_func_id.toNat sn = some si ∧
      si.lowest_guaranteed_free_temp ≤ objslot ∧
      instrsOf sn f.bytecode_func_id.toNat =
        instrsOf st f.bytecode_func_id.toNat ++ pre ∧
      instrsOf st1 f.bytecode_func_id.toNat =
        instrsOf st f.bytecode_func_id.toNat ++ pre ++
          [inst, .getconstructor temp objslot] ++ post := by
  have hR : FlowRel (Grows (fun _ => True)) := grows_fullRel.toFlowRel
  have hv : ∀ e c, Holds (Grows (fun _ => True)) (visit env itemsort fuel e c) :=
    fun e c => visit_holds_full grows_fullRel grows_anyLoopFree env itemsort
      fuel e c
  unfold visitInNew at h
  obtain ⟨u1, s1, h1, k1⟩ := Gen.bind_ok h
  cases value1 with
  | call cs value arguments expand is_async =>
    dsimp only at k1
    obtain ⟨args1, s2, h2, k2⟩ := Gen.bind_ok k1
    obtain ⟨f1, s3, h3, k3⟩ := Gen.bind_ok k2
    obtain ⟨hs3, hf⟩ := ofOption_ok _ _ _ _ h3
    cases hf
    obtain ⟨r, s4, h4, k4⟩ := Gen.bind_ok k3
    have g3 : Grows (fun _ => True) st s3 := by
      rw [hs3]
      exact hR.trans _ _ _ (setDescend_holds hR.toStepRel _ _ _ _ h1)
        (visitArgs_holds hR.toStepRel _ _ _ hv _ _ _ h2)
    -- the emission of the instance record
    have key : ∃ (sn : GenState) (si : StorageInfo) (inst : Inst),
        emit f inst sn = .ok s4 () ∧
        ((∃ classid, inst = .newinstance r.2 classid) ∨
          (∃ src, inst = .newinstancebyref r.2 src)) ∧
        getStorageInfo f.bytecode_func_id.toNat sn = some si ∧
        si.lowest_guaranteed_free_temp ≤ r.2 ∧
        Grows (fun _ => True) s3 sn := by
      split at h4
      · obtain ⟨v1, s5, h5, k5⟩ := Gen.bind_ok h4
        have g5 := visitChildIn_holds hR.toStepRel _ _ _ hv _ _ _ h5
        split at k5
        · cases k5
        obtain ⟨si, s6, h6, k6⟩ := Gen.bind_ok k5
        obtain ⟨hs6, hsi⟩ := storageOf_get f s5 s6 si h6
        obtain ⟨objslot, s7, h7, k7⟩ := Gen.bind_ok k6
        obtain ⟨u8, s8, h8, k8⟩ := Gen.bind_ok k7
        obtain ⟨hs8, hr⟩ := Gen.pure_ok k8
        subst hr hs8
        split at h7
        · obtain ⟨t, s9, h9, k9⟩ := Gen.bind_ok h7
          obtain ⟨si1, s10, h10, k10⟩ := Gen.bind_ok k9
          obtain ⟨hs10, hsi1⟩ := storageOf_get f s9 s10 si1 h10
          obtain ⟨u11, s11, h11, k11⟩ := Gen.bind_ok k10
          obtain ⟨hs11, hc⟩ := assert_ok _ _ _ h11
          obtain ⟨hs7, ho⟩ := Gen.pure_ok k11
          subst ho
          refine ⟨s7, si1, _, h8, Or.inr ⟨_, rfl⟩, ?_, ?_, ?_⟩
          · rw [hs7, hs11, hs10]; exact hsi1
          · simpa using hc
          · rw [hs7, hs11, hs10]
            refine hR.trans _ _ _ g5 ?_
            rw [hs6] at h9
            exact new1linetemp_holds hR.toStepRel _ _ _ _ _ _ _ h9
        · obtain ⟨hs7, ho⟩ := Gen.pure_ok h7
          subst ho
          refine ⟨s7, si, _, h8, Or.inr ⟨_, rfl⟩, ?_, ?_, ?_⟩
          · rw [hs7, hs6]; exact hsi
          · omega
          · rw [hs7, hs6]; exact g5
      · obtain ⟨objslot, s5, h5, k5⟩ := Gen.bind_ok h4
        split at k5
        · cases k5
        obtain ⟨si, s6, h6, k6⟩ := Gen.bind_ok k5
        obtain ⟨hs6, hsi⟩ := storageOf_get f s5 s6 si h6
        obtain ⟨u7, s7, h7, k7⟩ := Gen.bind_ok k6
        obtain ⟨hs7, hc⟩ := assert_ok _ _ _ h7
        obtain ⟨u8, s8, h8, k8⟩ := Gen.bind_ok k7
        obtain ⟨hs8, hr⟩ := Gen.pure_ok k8
        subst hr hs8
        refine ⟨s7, si, _, h8, Or.inl ⟨_, rfl⟩, ?_, ?_, ?_⟩
        · rw [hs7, hs6]; exact hsi
        · simpa using hc
        · rw [hs7, hs6]
          exact new1linetemp_holds hR.toStepRel _ _ _ _ _ _ _ h5
    obtain ⟨sn, si, inst, hemit, hinst, hsi, hfloor, gn⟩ := key
    obtain ⟨temp, s5, h5, k5⟩ := Gen.bind_ok k4
    split at k5
    · cases k5
    obtain ⟨u6, s6, h6, k6⟩ := Gen.bind_ok k5
    have g6 : Grows (fun _ => True) s6 st1 := by
      refine (?_ : Holds (Grows (fun _ => True)) _) s6 st1 e1 k6
      repeat any_goals (first
        | with_reducible exact Holds.pure hR.toStepRel _
        | with_reducible exact Holds.oom
        | with_reducible exact new1linetemp_holds hR.toStepRel _ _ _ _
        | with_reducible exact setDescend_holds hR.toStepRel _
        | with_reducible exact emit_holds hR.toStepRel _ _ (by with_unfolding_all first | rfl | (split <;> rfl))
        | with_reducible exact callTo_holds hR.toStepRel _ _ _ _ _ _ _ _ _
        | with_reducible refine Holds.bind hR.toStepRel ?_ (fun _ => ?_)
        | split
        | dsimp only)
    obtain ⟨pre, hpre, _⟩ := hR.trans _ _ _ g3 gn f.bytecode_func_id.toNat
    obtain ⟨post, hpost, _⟩ := g6 f.bytecode_func_id.toNat
    refine ⟨sn, s4, si, inst, r.2, temp, pre, post, hemit, hinst, hsi, hfloor,
      hpre, ?_⟩
    rw [hpost, emit_instrs f _ s5 s6 h6, if_pos rfl,
      new1linetemp_instrs f _ _ _ s4 s5 temp h5,
      emit_instrs f _ sn s4 hemit, if_pos rfl, hpre]
    simp
  | _ => cases k1

/-- C28 at `new x()` with `x` in stack slot 0, below the first free
temporary 1 of the function. -/
theorem C28_new_instance_slot_witness :
    ∃ (sn sn1 : GenState) (si : StorageInfo) (inst : Inst)
      (objslot temp : Int) (pre post : List Inst),
      emit ⟨0, 0⟩ inst sn = .ok sn1 () ∧
      ((∃ classid, inst = .newinstance objslot classid) ∨
        (∃ src, inst = .newinstancebyref objslot src)) ∧
      getStorageInfo (⟨0, 0⟩ : FuncRef).bytecode_func_id.toNat sn = some si ∧
      si.lowest_guaranteed_free_temp ≤ objslot ∧
      instrsOf sn (⟨0, 0⟩ : FuncRef).bytecode_func_id.toNat =
        instrsOf selfListState (⟨0, 0⟩ : FuncRef).bytecode_func_id.toNat ++
          pre ∧
      instrsOf (newLocalRun.stateOf selfListState)
          (⟨0, 0⟩ : FuncRef).bytecode_func_id.toNat =
        instrsOf selfListState (⟨0, 0⟩ : FuncRef).bytecode_func_id.toNat ++
          pre ++ [inst, .getconstructor temp objslot] ++ post :=
  C28_new_instance_slot sampleEnv kwInsertionSort 2 ⟨0, 0⟩ newLocal
    [(newLocalFunc, .other)] noStorage
    (.call noStorage localX [] false false) selfListState
    (newLocalRun.stateOf selfListState) (newLocalRun.valueOf newLocal)
    (Res.eq_ok newLocalRun selfListState newLocal (by decide!))

/-- The buffer after lowering `new x()`: the instance goes to the temporary
1, not to the slot 0 of `x`. -/
theorem newLocalRun_stream :
    instrsOf (newLocalRun.stateOf selfListState) 0 =
      [.newinstancebyref 1 0, .getconstructor 2 1, .callsettop 3,
        .callignoreifnone 2 2 0 0 0, .valuecopy 2 1] := by
  decide!

/-! Claim C26: decimal integer literals in the lexer. -/

theorem digitChar_value (m : Nat) (h : m < 10) :
    (Nat.digitChar m).toNat - 48 = m := by
  interval_cases m <;> rfl

/-- Reading back the digits written for `n` gives `n`. -/
theorem decimalValueFrom_toDigitsCore (fuel : Nat) :
    ∀ (n : Nat) (acc : List Char), n < fuel →
      decimalValueFrom 0 ((Nat.toDigitsCore 10 fuel n acc).map Char.toNat) =
        decimalValueFrom n (acc.map Char.toNat) := by
  induction fuel with
  | zero => intro n acc h; omega
  | succ fuel ih =>
    intro n acc h
    unfold Nat.toDigitsCore
    dsimp only
    split
    · rename_i h0
      have hn : n < 10 := by omega
      have hd := digitChar_value (n % 10) (Nat.mod_lt _ (by decide))
      rw [Nat.mod_eq_of_lt hn] at hd
      rw [Nat.mod_eq_of_lt hn]
      show decimalValueFrom (10 * 0 + ((Nat.digitChar n).toNat - 48)) _ = _
      rw [hd]
      simp
    · rename_i h0
      have hlt : n / 10 < fuel := by omega
      rw [ih (n / 10) _ hlt]
      have hd := digitChar_value (n % 10) (Nat.mod_lt _ (by decide))
      show decimalValueFrom
        (10 * (n / 10) + ((Nat.digitChar (n % 10)).toNat - 48)) _ = _
      rw [hd]
      congr 1
      omega

theorem decimalValue_toDigits (n : Nat) :
    decimalValue ((Nat.toDigits 10 n).map Char.toNat) = n := by
  unfold decimalValue Nat.toDigits
  rw [decimalValueFrom_toDigitsCore (n + 1) n [] (by omega)]
  rfl

theorem formatInt64_ofNat (n : Nat) :
    formatInt64 (Int.ofNat n) = (Nat.toDigits 10 n).map Char.toNat := rfl

theorem formatInt64_negSucc (m : Nat) :
    ∃ rest, formatInt64 (Int.negSucc m) = 45 :: rest := by
  refine ⟨(Nat.toDigits 10 (m + 1)).map Char.toNat, ?_⟩
  show asciiToUtf32 ("-" ++ Nat.repr (m + 1)) = _
  unfold asciiToUtf32
  simp [Nat.repr, String.toList, List.asString]

/-- A text that `"%" PRId64` writes for a value that is not negative reads
back as that value. -/
theorem formatInt64_value (v : Int) (text : List Nat)
    (h : formatInt64 v = text) (hd : text.head? ≠ some 45) :
    (decimalValue text : Int) = v := by
  cases v with
  | ofNat n =>
    rw [formatInt64_ofNat] at h
    rw [← h, decimalValue_toDigits]
    rfl
  | negSucc m =>
    obtain ⟨rest, hr⟩ := formatInt64_negSucc m
    rw [hr] at h
    rw [← h] at hd
    exact absurd rfl hd

theorem wrapInt64_le (x : Int) : wrapInt64 x ≤ 9223372036854775807 := by
  unfold wrapInt64
  omega

theorem isDecimalLiteral_head (text : List Nat)
    (h : isDecimalLiteral text = true) : text.head? ≠ some 45 := by
  cases text with
  | nil => simp
  | cons c rest =>
    unfold isDecimalLiteral at h
    simp only [List.isEmpty_cons, Bool.not_false, Bool.true_and,
      List.all_cons, Bool.and_eq_true] at h
    intro hc
    simp only [List.head?_cons, Option.some.injEq] at hc
    subst hc
    exact absurd h.1 (by decide)

/-- The half of the claim that the code has: a decimal integer literal whose
value does not fit in a signed 64-bit integer gets the overflow diagnostic,
once, whatever `h64atoll` returns for it. -/
theorem lexDecimalInt_reports_unfit (fn : NumberFuncs) (numbuf : List Nat)
    (resultmsg : H64Result) (hd : isDecimalLiteral numbuf = true)
    (h : (decimalValue numbuf : Int) > 9223372036854775807) :
    (lexDecimalInt fn numbuf resultmsg).2 =
      result_AddMessage resultmsg .error _literaloverflowerror := by
  have hne : formatInt64 (wrapInt64 (fn.h64atoll numbuf)) ≠ numbuf := by
    intro he
    have := formatInt64_value _ _ he (isDecimalLiteral_head numbuf hd)
    have := wrapInt64_le (fn.h64atoll numbuf)
    omega
  unfold lexDecimalInt
  dsimp only
  by_cases hl : (decide (numbuf.length > INT64_MAX_STR.length) &&
      decide (numbuf.length > INT64_MIN_STR.length)) = true
  · simp [hl]
  · simp [hl, hne]

theorem INT64_MAX_STR_length : INT64_MAX_STR.length = 19 := by
  decide

theorem INT64_MIN_STR_length : INT64_MIN_STR.length = 20 := by
  decide

/-- For every value, the text that `"%" PRId64` writes is not `007`. -/
theorem formatInt64_ne_leading_zeros (v : Int) :
    formatInt64 v ≠ [48, 48, 55] := by
  intro h
  have hv := formatInt64_value v _ h (by decide)
  have h7 : v = 7 := by
    rw [← hv]
    rfl
  subst h7
  revert h
  decide

/-- C26, on the code: the decimal integer literal `007`, whose value 7 fits
in a signed 64-bit integer, gets a constant-int token and the diagnostic
"unexpected number range overflow when parsing literal", whatever `h64atoll`
returns for it: the value printed back by `"%" PRId64` has no leading zeros
and so differs from the text of the literal. -/
theorem C26_leading_zeros_report_overflow (fn : NumberFuncs)
    (startline startcolumn : Int) (resultmsg : H64Result) :
    isDecimalLiteral [48, 48, 55] = true ∧
    decimalValue [48, 48, 55] = 7 ∧
    (lexNumberLiteral fn startline startcolumn [48, 48, 55]
      resultmsg).map (fun r => r.token.type) = some .H64TK_CONSTANT_INT ∧
    (lexNumberLiteral fn startline startcolumn [48, 48, 55]
      resultmsg).map (fun r => r.resultmsg) =
        some (result_AddMessage resultmsg .error _literaloverflowerror) := by
  have hscan : scanNumber [48, 48, 55] NumScan.start =
      (⟨[48, 48, 55], false, true, false, false, false, false⟩, []) := by
    decide
  have hne := formatInt64_ne_leading_zeros (wrapInt64 (fn.h64atoll [48, 48, 55]))
  refine ⟨by decide, by decide, ?_, ?_⟩
  · unfold lexNumberLiteral
    rw [hscan]
    simp [isDigitByte, lexDecimalInt]
  · unfold lexNumberLiteral
    rw [hscan]
    simp [isDigitByte, lexDecimalInt, hne, INT64_MAX_STR_length,
      INT64_MIN_STR_length]

/-- The same literal written without leading zeros, `7`, converted by a
`h64atoll` that reads decimal digits, gets the value 7 and no diagnostic. -/
theorem lexNumberLiteral_seven :
    lexNumberLiteral sampleNumberFuncs 1 1 [55] ⟨true, []⟩ =
      some ⟨⟨.H64TK_CONSTANT_INT, 7, 0⟩, ⟨true, []⟩, []⟩ := by
  decide

/-! Claims C22, C23 and C24: the tree walk `ast_VisitExpression`. -/

theorem andThen_done {σ : Type} (ud : σ) (f : σ → VisitOutcome σ) :
    (VisitOutcome.done true ud).andThen f = f ud := rfl

theorem andThen_assoc {σ : Type} (o : VisitOutcome σ)
    (f g : σ → VisitOutcome σ) :
    (o.andThen f).andThen g = o.andThen (fun u => (f u).andThen g) := by
  cases o with
  | done r ud => cases r <;> rfl
  | nullCall => rfl

theorem andThen_pure {σ : Type} (o : VisitOutcome σ) :
    o.andThen (fun u => .done true u) = o := by
  cases o with
  | done r ud => cases r <;> rfl
  | nullCall => rfl

theorem astVisitList_append {σ : Type} (cb : AstCallbacks σ)
    (parent : Option Expr) (a b : List Expr) (ud : σ) :
    astVisitList cb parent (a ++ b) ud =
      (astVisitList cb parent a ud).andThen (astVisitList cb parent b) := by
  induction a generalizing ud with
  | nil => rfl
  | cons x xs ih =>
    show (astVisitNode cb parent x ud).andThen (astVisitList cb parent (xs ++ b))
      = ((astVisitNode cb parent x ud).andThen (astVisitList cb parent xs)).andThen
        (astVisitList cb parent b)
    rw [andThen_assoc]
    congr 1
    funext u
    exact ih u

theorem astVisitList_single {σ : Type} (cb : AstCallbacks σ)
    (parent : Option Expr) (x : Expr) (ud : σ) :
    astVisitList cb parent [x] ud = astVisitNode cb parent x ud := by
  show (astVisitNode cb parent x ud).andThen (fun u => .done true u) = _
  exact andThen_pure _

theorem astVisitList_cons {σ : Type} (cb : AstCallbacks σ)
    (parent : Option Expr) (x : Expr) (xs : List Expr) (ud : σ) :
    astVisitList cb parent (x :: xs) ud =
      (astVisitNode cb parent x ud).andThen (astVisitList cb parent xs) := rfl

theorem astVisitExpression_toList {σ : Type} (cb : AstCallbacks σ)
    (parent : Option Expr) (o : Option Expr) (ud : σ) :
    astVisitExpression cb parent o ud = astVisitList cb parent o.toList ud := by
  cases o with
  | none => rfl
  | some x => exact (astVisitList_single cb parent x ud).symm

theorem astVisitOptList_filterMap {σ : Type} (cb : AstCallbacks σ)
    (parent : Option Expr) (l : List (Option Expr)) (ud : σ) :
    astVisitOptList cb parent l ud =
      astVisitList cb parent (l.filterMap id) ud := by
  induction l generalizing ud with
  | nil => rfl
  | cons x xs ih =>
    cases x with
    | none =>
      show (VisitOutcome.done true ud).andThen (astVisitOptList cb parent xs) = _
      rw [andThen_done, ih]
      rfl
    | some e =>
      show (astVisitNode cb parent e ud).andThen (astVisitOptList cb parent xs) =
        (astVisitNode cb parent e ud).andThen
          (astVisitList cb parent (xs.filterMap id))
      congr 1
      funext u
      exact ih u

theorem astVisitClauses_flatten {σ : Type} (cb : AstCallbacks σ)
    (parent : Option Expr) (l : List (Option Expr × List Expr)) (ud : σ) :
    astVisitClauses cb parent l ud =
      astVisitList cb parent
        (l.map (fun c => c.1.toList ++ c.2)).flatten ud := by
  induction l generalizing ud with
  | nil => rfl
  | cons x xs ih =>
    obtain ⟨c, s⟩ := x
    show ((astVisitExpression cb parent c ud).andThen
      (astVisitList cb parent s)).andThen (astVisitClauses cb parent xs) = _
    rw [List.map_cons, List.flatten_cons, astVisitList_append,
      astVisitList_append, astVisitExpression_toList]
    congr 1
    funext u
    exact ih u

theorem astVisitPairs_flatten {σ : Type} (cb : AstCallbacks σ)
    (parent : Option Expr) (l : List (Expr × Expr)) (ud : σ) :
    astVisitPairs cb parent l ud =
      astVisitList cb parent (l.map (fun kv => [kv.1, kv.2])).flatten ud := by
  induction l generalizing ud with
  | nil => rfl
  | cons x xs ih =>
    obtain ⟨k, v⟩ := x
    show ((astVisitNode cb parent k ud).andThen
      (astVisitNode cb parent v)).andThen (astVisitPairs cb parent xs) = _
    rw [List.map_cons, List.flatten_cons, astVisitList_append]
    show _ = ((astVisitNode cb parent k ud).andThen
      (astVisitList cb parent [v])).andThen _
    congr 1
    · congr 1
      funext u
      exact (astVisitList_single cb parent v u).symm
    · funext u
      exact ih u

theorem astVisitArgs_map {σ : Type} (cb : AstCallbacks σ)
    (parent : Option Expr) (l : List (Option String × Expr)) (ud : σ) :
    astVisitArgs cb parent l ud =
      astVisitList cb parent (l.map (fun a => a.2)) ud := by
  induction l generalizing ud with
  | nil => rfl
  | cons x xs ih =>
    obtain ⟨n, v⟩ := x
    show (astVisitNode cb parent v ud).andThen (astVisitArgs cb parent xs) =
      (astVisitNode cb parent v ud).andThen
        (astVisitList cb parent (xs.map (fun a => a.2)))
    congr 1
    funext u
    exact ih u

theorem astVisitList_nil {σ : Type} (cb : AstCallbacks σ)
    (parent : Option Expr) :
    astVisitList cb parent [] = fun u => .done true u := by
  funext u
  rfl

theorem astVisitList_cons_fun {σ : Type} (cb : AstCallbacks σ)
    (parent : Option Expr) (x : Expr) (xs : List Expr) :
    astVisitList cb parent (x :: xs) =
      fun u => (astVisitNode cb parent x u).andThen
        (astVisitList cb parent xs) := by
  funext u
  rfl

theorem astVisitList_append_fun {σ : Type} (cb : AstCallbacks σ)
    (parent : Option Expr) (a b : List Expr) :
    astVisitList cb parent (a ++ b) =
      fun u => (astVisitList cb parent a u).andThen
        (astVisitList cb parent b) := by
  funext u
  exact astVisitList_append cb parent a b u

theorem astVisitExpression_fun {σ : Type} (cb : AstCallbacks σ)
    (parent : Option Expr) (o : Option Expr) :
    astVisitExpression cb parent o = astVisitList cb parent o.toList := by
  funext u
  exact astVisitExpression_toList cb parent o u

theorem astVisitOptList_fun {σ : Type} (cb : AstCallbacks σ)
    (parent : Option Expr) (l : List (Option Expr)) :
    astVisitOptList cb parent l = astVisitList cb parent (l.filterMap id) := by
  funext u
  exact astVisitOptList_filterMap cb parent l u

theorem astVisitClauses_fun {σ : Type} (cb : AstCallbacks σ)
    (parent : Option Expr) (l : List (Option Expr × List Expr)) :
    astVisitClauses cb parent l =
      astVisitList cb parent
        (l.map (fun c => c.1.toList ++ c.2)).flatten := by
  funext u
  exact astVisitClauses_flatten cb parent l u

theorem astVisitPairs_fun {σ : Type} (cb : AstCallbacks σ)
    (parent : Option Expr) (l : List (Expr × Expr)) :
    astVisitPairs cb parent l =
      astVisitList cb parent (l.map (fun kv => [kv.1, kv.2])).flatten := by
  funext u
  exact astVisitPairs_flatten cb parent l u

theorem astVisitArgs_fun {σ : Type} (cb : AstCallbacks σ)
    (parent : Option Expr) (l : List (Option String × Expr)) :
    astVisitArgs cb parent l =
      astVisitList cb parent (l.map (fun a => a.2)) := by
  funext u
  exact astVisitArgs_map cb parent l u

theorem andThen_pure_fun {σ : Type} (f : σ → VisitOutcome σ) :
    (fun u => (f u).andThen (fun v => .done true v)) = f := by
  funext u
  exact andThen_pure _

/-- The walk of a node is the frame of `ast_VisitExpression` around the walk
of the children of the node, in the order of `Expr.children`, with the node
as parent. -/
theorem astVisitNode_children {σ : Type} (cb : AstCallbacks σ)
    (parent : Option Expr) (e : Expr) (ud : σ) :
    astVisitNode cb parent e ud =
      visitFrame cb e parent (astVisitList cb (some e) e.children) ud := by
  cases e <;> unfold astVisitNode Expr.children <;> congr 1 <;>
    simp only [astVisitList_append_fun, astVisitExpression_fun,
      astVisitOptList_fun, astVisitClauses_fun, astVisitPairs_fun,
      astVisitArgs_fun, astVisitList_cons_fun, astVisitList_nil,
      andThen_pure, andThen_pure_fun, andThen_assoc]

theorem listDepth_nil : listDepth [] = 0 := by
  unfold listDepth
  rfl

theorem listDepth_cons (x : Expr) (xs : List Expr) :
    listDepth (x :: xs) = max x.depth (listDepth xs) := by
  conv => lhs; unfold listDepth

theorem listDepth_append (a b : List Expr) :
    listDepth (a ++ b) = max (listDepth a) (listDepth b) := by
  induction a with
  | nil => simp [listDepth_nil]
  | cons x xs ih =>
    rw [List.cons_append, listDepth_cons, listDepth_cons, ih, Nat.max_assoc]

theorem optDepth_toList (o : Option Expr) :
    optDepth o = listDepth o.toList := by
  cases o with
  | none => unfold optDepth; simp [listDepth_nil]
  | some x =>
    unfold optDepth
    simp [listDepth_cons, listDepth_nil]

theorem optListDepth_filterMap (l : List (Option Expr)) :
    optListDepth l = listDepth (l.filterMap id) := by
  induction l with
  | nil => unfold optListDepth; simp [listDepth_nil]
  | cons x xs ih =>
    unfold optListDepth
    rw [ih]
    cases x with
    | none => unfold optDepth; simp
    | some e =>
      unfold optDepth
      simp [listDepth_cons]

theorem clausesDepth_flatten (l : List (Option Expr × List Expr)) :
    clausesDepth l =
      listDepth (l.map (fun c => c.1.toList ++ c.2)).flatten := by
  induction l with
  | nil => unfold clausesDepth; simp [listDepth_nil]
  | cons x xs ih =>
    obtain ⟨c, s⟩ := x
    unfold clausesDepth
    rw [ih, List.map_cons, List.flatten_cons, listDepth_append,
      listDepth_append, optDepth_toList]

theorem pairsDepth_flatten (l : List (Expr × Expr)) :
    pairsDepth l = listDepth (l.map (fun kv => [kv.1, kv.2])).flatten := by
  induction l with
  | nil => unfold pairsDepth; simp [listDepth_nil]
  | cons x xs ih =>
    obtain ⟨k, v⟩ := x
    unfold pairsDepth
    rw [ih, List.map_cons, List.flatten_cons, listDepth_append]
    simp [listDepth_cons, listDepth_nil]

theorem argsDepth_map (l : List (Option String × Expr)) :
    argsDepth l = listDepth (l.map (fun a => a.2)) := by
  induction l with
  | nil => unfold argsDepth; simp [listDepth_nil]
  | cons x xs ih =>
    obtain ⟨n, v⟩ := x
    unfold argsDepth
    rw [ih, List.map_cons, listDepth_cons]

/-- The height of a node is one more than the greatest height among its
children. -/
theorem depth_children (e : Expr) : e.depth = listDepth e.children + 1 := by
  cases e <;> unfold Expr.depth Expr.children <;>
    simp only [listDepth_append, optDepth_toList, optListDepth_filterMap,
      clausesDepth_flatten, pairsDepth_flatten, argsDepth_map, listDepth_cons,
      listDepth_nil, Nat.max_zero, Nat.zero_max, Nat.zero_add, max_assoc]

theorem listDepth_mem (l : List Expr) (c : Expr) (h : c ∈ l) :
    c.depth ≤ listDepth l := by
  induction l with
  | nil => cases h
  | cons x xs ih =>
    rw [listDepth_cons]
    rcases List.mem_cons.mp h with rfl | h1
    · exact Nat.le_max_left _ _
    · exact Nat.le_trans (ih h1) (Nat.le_max_right _ _)

theorem depth_child_lt (e c : Expr) (h : c ∈ e.children) :
    c.depth < e.depth := by
  rw [depth_children e]
  exact Nat.lt_succ_of_le (listDepth_mem _ _ h)

/-- C22: when `visit_in` is given and succeeds on a node and the skip
predicate returns true for it, the walk of the node makes exactly three
calls, `visit_in` on the node, the skip predicate, and `visit_out` on the
node with the same parent: no callback is called on a child, and the result
of the walk is the result of that call of `visit_out`. -/
theorem C22_skip_calls_post_once {σ : Type} (cb : AstCallbacks σ)
    (pre post : Expr → Option Expr → σ → Bool × σ)
    (skip : Expr → σ → Bool × σ)
    (hin : cb.visit_in = some pre) (hout : cb.visit_out = some post)
    (hc : cb.cancel_visit_descend_callback = some skip)
    (parent : Option Expr) (e : Expr) (ud : σ) (log : List AstEvent)
    (hpre : (pre e parent ud).1 = true)
    (hskip : (skip e (pre e parent ud).2).1 = true) :
    astVisitNode cb.logged parent e (ud, log) =
      .done (post e parent (skip e (pre e parent ud).2).2).1
        ((post e parent (skip e (pre e parent ud).2).2).2,
          log ++ [.pre e parent true, .skip e true,
            .post e parent
              (post e parent (skip e (pre e parent ud).2).2).1]) := by
  rw [astVisitNode_children]
  unfold visitFrame AstCallbacks.logged
  simp [hin, hout, hc, hpre, hskip]

/-- C22 on the assignment `x = [x, 1]` with a skip predicate that skips
assignments: three calls, none on `x`, the list or its entries. -/
theorem C22_skip_calls_post_once_witness :
    astVisitNode skippingCallbacks.logged none selfListAssign (0, []) =
      .done true (2, [] ++ [.pre selfListAssign none true,
        .skip selfListAssign true, .post selfListAssign none true]) :=
  C22_skip_calls_post_once skippingCallbacks _ _ _ rfl rfl rfl none
    selfListAssign 0 [] rfl rfl

/-- With callbacks that always succeed and no node skipped, the walk of a
list of trees of height at most `n` succeeds and logs the calls of
`walkEvents` for each tree in turn, when the walk of each such tree does. -/
theorem astVisitList_walk {σ : Type} (cb : AstCallbacks (σ × List AstEvent))
    (b : Bool) (n : Nat) (p : Option Expr)
    (ih : ∀ (e : Expr) (parent : Option Expr) (ud : σ) (log : List AstEvent),
      e.depth ≤ n → ∃ ud1, astVisitNode cb parent e (ud, log) =
        .done true (ud1, log ++ walkEvents b n parent e)) :
    ∀ (l : List Expr), (∀ c ∈ l, c.depth ≤ n) →
      ∀ (ud : σ) (log : List AstEvent), ∃ ud1,
        astVisitList cb p l (ud, log) =
          .done true (ud1, log ++ (l.map (walkEvents b n p)).flatten) := by
  intro l
  induction l with
  | nil =>
    intro _ ud log
    exact ⟨ud, by simp [astVisitList_nil]⟩
  | cons x xs ihl =>
    intro hl ud log
    obtain ⟨ud1, h1⟩ := ih x p ud log (hl x (List.mem_cons_self _ _))
    obtain ⟨ud2, h2⟩ := ihl (fun c hc => hl c (List.mem_cons_of_mem _ hc)) ud1
      (log ++ walkEvents b n p x)
    refine ⟨ud2, ?_⟩
    rw [astVisitList_cons, h1, andThen_done, h2]
    simp

theorem astVisitNode_walk {σ : Type} (cb : AstCallbacks σ)
    (pre post : Expr → Option Expr → σ → Bool × σ)
    (hin : cb.visit_in = some pre) (hout : cb.visit_out = some post)
    (hpre : ∀ e p u, (pre e p u).1 = true)
    (hpost : ∀ e p u, (post e p u).1 = true)
    (hskip : ∀ skip, cb.cancel_visit_descend_callback = some skip →
      ∀ e u, (skip e u).1 = false) (n : Nat) :
    ∀ (e : Expr) (parent : Option Expr) (ud : σ) (log : List AstEvent),
      e.depth ≤ n → ∃ ud1, astVisitNode cb.logged parent e (ud, log) =
        .done true (ud1, log ++
          walkEvents cb.cancel_visit_descend_callback.isSome n parent e) := by
  induction n with
  | zero =>
    intro e parent ud log h
    rw [depth_children] at h
    omega
  | succ n ih =>
    intro e parent ud log h
    have hch : ∀ c ∈ e.children, c.depth ≤ n := fun c hc => by
      have := depth_child_lt e c hc
      omega
    have hl := astVisitList_walk cb.logged
      cb.cancel_visit_descend_callback.isSome n (some e) ih e.children hch
    have hLin : cb.logged.visit_in = some (fun expr parent s =>
        ((pre expr parent s.1).1, ((pre expr parent s.1).2,
          s.2 ++ [.pre expr parent (pre expr parent s.1).1]))) := by
      unfold AstCallbacks.logged
      rw [hin]
      rfl
    have hLout : cb.logged.visit_out = some (fun expr parent s =>
        ((post expr parent s.1).1, ((post expr parent s.1).2,
          s.2 ++ [.post expr parent (post expr parent s.1).1]))) := by
      unfold AstCallbacks.logged
      rw [hout]
      rfl
    rw [astVisitNode_children]
    unfold walkEvents
    cases hcc : cb.cancel_visit_descend_callback with
    | none =>
      have hLc : cb.logged.cancel_visit_descend_callback = none := by
        unfold AstCallbacks.logged
        rw [hcc]
        rfl
      obtain ⟨ud1, h1⟩ := hl (pre e parent ud).2 (log ++ [.pre e parent true])
      rw [hcc] at h1
      refine ⟨(post e parent ud1).2, ?_⟩
      generalize cb.logged = L at hLin hLout hLc h1 ⊢
      simp [visitFrame, hLin, hLout, hLc, hpre, hpost, h1, visitOutIfGiven,
        VisitOutcome.andThen]
    | some skip =>
      have hLc : cb.logged.cancel_visit_descend_callback = some (fun expr s =>
          ((skip expr s.1).1, ((skip expr s.1).2,
            s.2 ++ [.skip expr (skip expr s.1).1]))) := by
        unfold AstCallbacks.logged
        rw [hcc]
        rfl
      obtain ⟨ud1, h1⟩ := hl (skip e (pre e parent ud).2).2
        (log ++ [.pre e parent true] ++ [.skip e false])
      rw [hcc] at h1
      refine ⟨(post e parent ud1).2, ?_⟩
      simp only [List.append_assoc, List.singleton_append, List.cons_append,
        List.nil_append, Option.isSome_some] at h1
      generalize cb.logged = L at hLin hLout hLc h1 ⊢
      simp [visitFrame, hLin, hLout, hLc, hpre, hpost, hskip skip hcc, h1,
        visitOutIfGiven, VisitOutcome.andThen]

/-- The successful pre calls among the calls of `walkEvents` are the nodes
in pre-order. -/
theorem walkEvents_preorder (b : Bool) (n : Nat) :
    ∀ (parent : Option Expr) (e : Expr),
      (walkEvents b n parent e).filterMap AstEvent.preCall =
        preorder n parent e := by
  induction n with
  | zero => intro parent e; rfl
  | succ n ih =>
    intro parent e
    unfold walkEvents preorder
    have hm : List.map (List.filterMap AstEvent.preCall)
        (List.map (walkEvents b n (some e)) e.children) =
        List.map (preorder n (some e)) e.children := by
      rw [List.map_map]
      congr 1
      funext c
      exact ih (some e) c
    cases b <;>
      simp [List.filterMap_append, List.filterMap_flatten, hm,
        AstEvent.preCall]

/-- The successful post calls among the calls of `walkEvents` are the nodes
in post-order. -/
theorem walkEvents_postorder (b : Bool) (n : Nat) :
    ∀ (parent : Option Expr) (e : Expr),
      (walkEvents b n parent e).filterMap AstEvent.postCall =
        postorder n parent e := by
  induction n with
  | zero => intro parent e; rfl
  | succ n ih =>
    intro parent e
    unfold walkEvents postorder
    have hm : List.map (List.filterMap AstEvent.postCall)
        (List.map (walkEvents b n (some e)) e.children) =
        List.map (postorder n (some e)) e.children := by
      rw [List.map_map]
      congr 1
      funext c
      exact ih (some e) c
    cases b <;>
      simp [List.filterMap_append, List.filterMap_flatten, hm,
        AstEvent.postCall]

/-- C24: with a pre and a post callback that always succeed and a skip
predicate that never skips, the walk of a tree returns 1, and the calls it
makes are those of `walkEvents`: the pre call on a node, then the calls for
each child in the order of `Expr.children` with the node as parent, then
the post call on the node.  So the pre calls list the nodes in pre-order and
the post calls list them in post-order, each node once and with the node
that lists it as parent, and a null child gets no call. -/
theorem C24_walk_order {σ : Type} (cb : AstCallbacks σ)
    (pre post : Expr → Option Expr → σ → Bool × σ)
    (hin : cb.visit_in = some pre) (hout : cb.visit_out = some post)
    (hpre : ∀ e p u, (pre e p u).1 = true)
    (hpost : ∀ e p u, (post e p u).1 = true)
    (hskip : ∀ skip, cb.cancel_visit_descend_callback = some skip →
      ∀ e u, (skip e u).1 = false)
    (parent : Option Expr) (e : Expr) (ud : σ) (log : List AstEvent) :
    ∃ (ud1 : σ) (d : List AstEvent),
      astVisitExpression cb.logged parent (some e) (ud, log) =
        .done true (ud1, log ++ d) ∧
      d = walkEvents cb.cancel_visit_descend_callback.isSome e.depth parent
        e ∧
      d.filterMap AstEvent.preCall = preorder e.depth parent e ∧
      d.filterMap AstEvent.postCall = postorder e.depth parent e ∧
      astVisitExpression cb.logged parent none (ud, log) =
        .done true (ud, log) := by
  obtain ⟨ud1, h1⟩ := astVisitNode_walk cb pre post hin hout hpre hpost hskip
    e.depth e parent ud log (Nat.le_refl _)
  exact ⟨ud1, _, h1, rfl, walkEvents_preorder _ _ _ _,
    walkEvents_postorder _ _ _ _, rfl⟩

/-- C24 on the assignment `x = [x, 1]` with callbacks that count their
calls. -/
theorem C24_walk_order_witness :
    ∃ (ud1 : Nat) (d : List AstEvent),
      astVisitExpression countingCallbacks.logged none (some selfListAssign)
          (0, []) = .done true (ud1, [] ++ d) ∧
      d = walkEvents
        countingCallbacks.cancel_visit_descend_callback.isSome
        selfListAssign.depth none selfListAssign ∧
      d.filterMap AstEvent.preCall =
        preorder selfListAssign.depth none selfListAssign ∧
      d.filterMap AstEvent.postCall =
        postorder selfListAssign.depth none selfListAssign ∧
      astVisitExpression countingCallbacks.logged none none (0, []) =
        .done true (0, []) :=
  C24_walk_order countingCallbacks _ _ rfl rfl (fun _ _ _ => rfl)
    (fun _ _ _ => rfl) (fun skip h e u => by cases h; rfl) none
    selfListAssign 0 []

/-- The nodes of `x = [x, 1]` in pre-order and in post-order, with their
parents. -/
theorem selfListAssign_orders :
    preorder selfListAssign.depth none selfListAssign =
      [(selfListAssign, none), (localX, some selfListAssign),
        (.list ⟨false, ⟨.INVALID, 0⟩, -1⟩
          [localX, .literal ⟨false, ⟨.INVALID, 0⟩, -1⟩ (.int 1)],
          some selfListAssign),
        (localX, some (.list ⟨false, ⟨.INVALID, 0⟩, -1⟩
          [localX, .literal ⟨false, ⟨.INVALID, 0⟩, -1⟩ (.int 1)])),
        (.literal ⟨false, ⟨.INVALID, 0⟩, -1⟩ (.int 1),
          some (.list ⟨false, ⟨.INVALID, 0⟩, -1⟩
            [localX, .literal ⟨false, ⟨.INVALID, 0⟩, -1⟩ (.int 1)]))] ∧
    postorder selfListAssign.depth none selfListAssign =
      [(localX, some selfListAssign),
        (localX, some (.list ⟨false, ⟨.INVALID, 0⟩, -1⟩
          [localX, .literal ⟨false, ⟨.INVALID, 0⟩, -1⟩ (.int 1)])),
        (.literal ⟨false, ⟨.INVALID, 0⟩, -1⟩ (.int 1),
          some (.list ⟨false, ⟨.INVALID, 0⟩, -1⟩
            [localX, .literal ⟨false, ⟨.INVALID, 0⟩, -1⟩ (.int 1)])),
        (.list ⟨false, ⟨.INVALID, 0⟩, -1⟩
          [localX, .literal ⟨false, ⟨.INVALID, 0⟩, -1⟩ (.int 1)],
          some selfListAssign),
        (selfListAssign, none)] :=
  ⟨rfl, rfl⟩

theorem failureIsLast_nil : FailureIsLast true [] :=
  ⟨fun _ _ h => (by cases h), fun h => (by cases h)⟩

theorem failureIsLast_append (d1 d2 : List AstEvent) (r : Bool)
    (h1 : FailureIsLast true d1) (h2 : FailureIsLast r d2) :
    FailureIsLast r (d1 ++ d2) := by
  refine ⟨fun hr ev hev => ?_, fun hr => ?_⟩
  · rcases List.mem_append.mp hev with h | h
    · exact h1.1 rfl ev h
    · exact h2.1 hr ev h
  · obtain ⟨d0, ev, hd, hf, hok⟩ := h2.2 hr
    refine ⟨d1 ++ d0, ev, by rw [hd, List.append_assoc], hf, fun x hx => ?_⟩
    rcases List.mem_append.mp hx with h | h
    · exact h1.1 rfl x h
    · exact hok x h

theorem logsFailureLast_pure {σ : Type} :
    LogsFailureLast (fun s : σ × List AstEvent => .done true s) := by
  intro ud log r ud1 log1 h
  cases h
  exact ⟨[], by simp, failureIsLast_nil⟩

theorem logsFailureLast_andThen {σ : Type}
    (w1 w2 : σ × List AstEvent → VisitOutcome (σ × List AstEvent))
    (h1 : LogsFailureLast w1) (h2 : LogsFailureLast w2) :
    LogsFailureLast (fun s => (w1 s).andThen w2) := by
  intro ud log r ud1 log1 h
  dsimp only at h
  cases hw : w1 (ud, log) with
  | nullCall => rw [hw] at h; cases h
  | done r1 s1 =>
    obtain ⟨u1, l1⟩ := s1
    obtain ⟨d1, hl1, hf1⟩ := h1 ud log r1 u1 l1 hw
    rw [hw] at h
    cases r1 with
    | false =>
      cases h
      exact ⟨d1, hl1, hf1⟩
    | true =>
      obtain ⟨d2, hl2, hf2⟩ := h2 u1 l1 r ud1 log1 h
      exact ⟨d1 ++ d2, by rw [hl2, hl1, List.append_assoc],
        failureIsLast_append d1 d2 r hf1 hf2⟩

theorem failureIsLast_single (ev : AstEvent) (r : Bool)
    (h : ev.failed = !r) : FailureIsLast r [ev] := by
  cases r with
  | true =>
    refine ⟨fun _ x hx => ?_, fun hr => (by cases hr)⟩
    rcases List.mem_singleton.mp hx with rfl
    simpa using h
  | false =>
    exact ⟨fun hr => (by cases hr),
      fun _ => ⟨[], ev, rfl, (by simpa using h), fun _ hx => (by cases hx)⟩⟩

theorem logsFailureLast_out {σ : Type} (cb : AstCallbacks σ) (e : Expr)
    (parent : Option Expr) :
    LogsFailureLast (visitOutIfGiven cb.logged e parent) := by
  intro ud log r ud1 log1 h
  unfold visitOutIfGiven AstCallbacks.logged at h
  cases hout : cb.visit_out with
  | none =>
    simp only [hout, Option.map_none'] at h
    cases h
    exact ⟨[], by simp, failureIsLast_nil⟩
  | some post =>
    simp only [hout, Option.map_some'] at h
    cases h
    exact ⟨_, rfl, failureIsLast_single _ _ (by simp [AstEvent.failed])⟩

/-- The frame of `ast_VisitExpression` keeps `FailureIsLast` when the walk
of the children does. -/
theorem logsFailureLast_frame {σ : Type} (cb : AstCallbacks σ) (e : Expr)
    (parent : Option Expr)
    (children : σ × List AstEvent → VisitOutcome (σ × List AstEvent))
    (hch : LogsFailureLast children) :
    LogsFailureLast (visitFrame cb.logged e parent children) := by
  have hrest := logsFailureLast_andThen children
    (visitOutIfGiven cb.logged e parent) hch (logsFailureLast_out cb e parent)
  intro ud log r ud1 log1 h
  unfold visitFrame at h
  cases hin : cb.visit_in with
  | none =>
    have hL : cb.logged.visit_in = none := by
      unfold AstCallbacks.logged; rw [hin]; rfl
    simp only [hL] at h
    exact hrest ud log r ud1 log1 h
  | some pre =>
    have hL : cb.logged.visit_in = some (fun expr parent s =>
        ((pre expr parent s.1).1, ((pre expr parent s.1).2,
          s.2 ++ [.pre expr parent (pre expr parent s.1).1]))) := by
      unfold AstCallbacks.logged; rw [hin]; rfl
    simp only [hL] at h
    cases hp : (pre e parent ud).1 with
    | false =>
      simp only [hp, Bool.not_false, if_true] at h
      cases h
      exact ⟨_, rfl, failureIsLast_single _ _ (by simp [AstEvent.failed])⟩
    | true =>
      simp only [hp, Bool.not_true, Bool.false_eq_true, if_false] at h
      have hpre : FailureIsLast true [AstEvent.pre e parent true] :=
        failureIsLast_single _ _ (by simp [AstEvent.failed])
      cases hc : cb.cancel_visit_descend_callback with
      | none =>
        have hLc : cb.logged.cancel_visit_descend_callback = none := by
          unfold AstCallbacks.logged; rw [hc]; rfl
        simp only [hLc] at h
        obtain ⟨d, hd, hf⟩ := hrest _ _ r ud1 log1 h
        exact ⟨[.pre e parent true] ++ d, by rw [hd, List.append_assoc],
          failureIsLast_append _ _ r hpre hf⟩
      | some skip =>
        have hLc : cb.logged.cancel_visit_descend_callback =
            some (fun expr s => ((skip expr s.1).1, ((skip expr s.1).2,
              s.2 ++ [.skip expr (skip expr s.1).1]))) := by
          unfold AstCallbacks.logged; rw [hc]; rfl
        simp only [hLc] at h
        have hsk : ∀ b, FailureIsLast true
            [AstEvent.pre e parent true, AstEvent.skip e b] := fun b =>
          failureIsLast_append [_] [_] true hpre
            (failureIsLast_single _ _ (by simp [AstEvent.failed]))
        cases hs : (skip e (pre e parent ud).2).1 with
        | true =>
          simp only [hs, if_true] at h
          cases hout : cb.visit_out with
          | none =>
            have hLo : cb.logged.visit_out = none := by
              unfold AstCallbacks.logged; rw [hout]; rfl
            simp only [hLo] at h
            cases h
          | some post =>
            have hLo : cb.logged.visit_out = some (fun expr parent s =>
                ((post expr parent s.1).1, ((post expr parent s.1).2,
                  s.2 ++ [.post expr parent (post expr parent s.1).1]))) := by
              unfold AstCallbacks.logged; rw [hout]; rfl
            simp only [hLo] at h
            cases h
            refine ⟨[.pre e parent true, .skip e true] ++
              [.post e parent (post e parent (skip e (pre e parent ud).2).2).1],
              by simp, ?_⟩
            exact failureIsLast_append _ _ _ (hsk true)
              (failureIsLast_single _ _ (by simp [AstEvent.failed]))
        | false =>
          simp only [hs, Bool.false_eq_true, if_false] at h
          obtain ⟨d, hd, hf⟩ := hrest _ _ r ud1 log1 h
          exact ⟨[.pre e parent true, .skip e false] ++ d,
            by rw [hd]; simp, failureIsLast_append _ _ r (hsk false) hf⟩

theorem astVisitList_logs {σ : Type} (cb : AstCallbacks σ)
    (p : Option Expr) (l : List Expr)
    (h : ∀ c ∈ l, LogsFailureLast (astVisitNode cb.logged p c)) :
    LogsFailureLast (astVisitList cb.logged p l) := by
  induction l with
  | nil =>
    rw [astVisitList_nil]
    exact logsFailureLast_pure
  | cons x xs ih =>
    rw [astVisitList_cons_fun]
    exact logsFailureLast_andThen _ _ (h x (List.mem_cons_self _ _))
      (ih (fun c hc => h c (List.mem_cons_of_mem _ hc)))

theorem astVisitNode_fun {σ : Type} (cb : AstCallbacks σ)
    (parent : Option Expr) (e : Expr) :
    astVisitNode cb parent e =
      visitFrame cb e parent (astVisitList cb (some e) e.children) := by
  funext u
  exact astVisitNode_children cb parent e u

theorem astVisitNode_logs {σ : Type} (cb : AstCallbacks σ) (n : Nat) :
    ∀ (e : Expr) (parent : Option Expr), e.depth ≤ n →
      LogsFailureLast (astVisitNode cb.logged parent e) := by
  induction n with
  | zero =>
    intro e parent h
    rw [depth_children] at h
    omega
  | succ n ih =>
    intro e parent h
    rw [astVisitNode_fun]
    refine logsFailureLast_frame cb e parent _ (astVisitList_logs cb _ _ ?_)
    intro c hc
    have := depth_child_lt e c hc
    exact ih c (some e) (by omega)

/-- A step of a walk returns: it makes no call through a null pointer. -/
theorem returns_andThen {σ : Type} (w1 w2 : σ → VisitOutcome σ)
    (h1 : ∀ s, ∃ r s1, w1 s = .done r s1)
    (h2 : ∀ s, ∃ r s1, w2 s = .done r s1) :
    ∀ s, ∃ r s1, (w1 s).andThen w2 = .done r s1 := by
  intro s
  obtain ⟨r, s1, h⟩ := h1 s
  rw [h]
  cases r with
  | false => exact ⟨false, s1, rfl⟩
  | true => exact h2 s1

theorem returns_frame {σ : Type} (cb : AstCallbacks σ) (e : Expr)
    (parent : Option Expr) (children : σ → VisitOutcome σ)
    (post : Expr → Option Expr → σ → Bool × σ)
    (hout : cb.visit_out = some post)
    (hch : ∀ s, ∃ r s1, children s = .done r s1) :
    ∀ s, ∃ r s1, visitFrame cb e parent children s = .done r s1 := by
  have hrest : ∀ s, ∃ r s1,
      (children s).andThen (visitOutIfGiven cb e parent) = .done r s1 :=
    returns_andThen _ _ hch (fun s => by
      unfold visitOutIfGiven
      rw [hout]
      exact ⟨_, _, rfl⟩)
  intro s
  unfold visitFrame
  cases cb.visit_in with
  | none => exact hrest s
  | some pre =>
    dsimp only
    split
    · exact ⟨_, _, rfl⟩
    · cases cb.cancel_visit_descend_callback with
      | none => exact hrest _
      | some skip =>
        dsimp only
        split
        · rw [hout]
          exact ⟨_, _, rfl⟩
        · exact hrest _

theorem astVisitList_returns {σ : Type} (cb : AstCallbacks σ)
    (p : Option Expr) (l : List Expr)
    (h : ∀ c ∈ l, ∀ s, ∃ r s1, astVisitNode cb p c s = .done r s1) :
    ∀ s, ∃ r s1, astVisitList cb p l s = .done r s1 := by
  induction l with
  | nil =>
    intro s
    exact ⟨true, s, rfl⟩
  | cons x xs ih =>
    intro s
    rw [astVisitList_cons]
    exact returns_andThen _ _ (h x (List.mem_cons_self _ _))
      (ih (fun c hc => h c (List.mem_cons_of_mem _ hc))) s

/-- With `visit_out` given, the walk of a node returns. -/
theorem astVisitNode_returns {σ : Type} (cb : AstCallbacks σ)
    (post : Expr → Option Expr → σ → Bool × σ)
    (hout : cb.visit_out = some post) (n : Nat) :
    ∀ (e : Expr) (parent : Option Expr), e.depth ≤ n →
      ∀ s, ∃ r s1, astVisitNode cb parent e s = .done r s1 := by
  induction n with
  | zero =>
    intro e parent h
    rw [depth_children] at h
    omega
  | succ n ih =>
    intro e parent h
    rw [astVisitNode_fun]
    refine returns_frame cb e parent _ post hout
      (astVisitList_returns cb _ _ ?_)
    intro c hc
    have := depth_child_lt e c hc
    exact ih c (some e) (by omega)

/-- C23: a call of `visit_in` or `visit_out` that returns 0 ends the walk
with result 0, and it is the last call of a callback: after a walk with
result 0 the last call logged is a failed call of `visit_in` or `visit_out`
and no call before it has failed, and after a walk with result 1 no call
has failed.  When `visit_in` fails on a node, that call is the only one made
for the node: no child is visited and `visit_out` is not called on it.  With
`visit_out` given the walk returns. -/
theorem C23_failure_stops_walk {σ : Type} (cb : AstCallbacks σ)
    (parent : Option Expr) (e : Expr) (ud : σ) (log : List AstEvent) :
    (∀ pre, cb.visit_in = some pre → (pre e parent ud).1 = false →
      astVisitExpression cb.logged parent (some e) (ud, log) =
        .done false ((pre e parent ud).2, log ++ [.pre e parent false])) ∧
    (∀ r ud1 log1,
      astVisitExpression cb.logged parent (some e) (ud, log) =
        .done r (ud1, log1) →
      ∃ d, log1 = log ++ d ∧ FailureIsLast r d) ∧
    (∀ post, cb.visit_out = some post →
      ∃ r s, astVisitExpression cb.logged parent (some e) (ud, log) =
        .done r s) := by
  refine ⟨fun pre hin hp => ?_, fun r ud1 log1 h => ?_, fun post hout => ?_⟩
  · show astVisitNode cb.logged parent e (ud, log) = _
    rw [astVisitNode_children]
    unfold visitFrame AstCallbacks.logged
    simp [hin, hp]
  · exact astVisitNode_logs cb e.depth e parent (Nat.le_refl _) ud log r ud1
      log1 h
  · refine astVisitNode_returns cb.logged
      (fun expr parent s =>
        ((post expr parent s.1).1, ((post expr parent s.1).2,
          s.2 ++ [.post expr parent (post expr parent s.1).1])))
      ?_ e.depth e parent (Nat.le_refl _) (ud, log)
    unfold AstCallbacks.logged
    rw [hout]
    rfl

/-- C23 on the list `[x, 1, x]` with a post callback that fails on
literals: the walk returns 0 after the post call on `1`, the second `x` and
the list get no further call. -/
theorem C23_failure_stops_walk_witness :
    ∃ d, [AstEvent.pre literalInList none true,
        .skip literalInList false,
        .pre localX (some literalInList) true,
        .skip localX false,
        .post localX (some literalInList) true,
        .pre literalOne (some literalInList) true,
        .skip literalOne false,
        .post literalOne (some literalInList) false] = [] ++ d ∧
      FailureIsLast false d :=
  (C23_failure_stops_walk skippingCallbacks none literalInList 0 []).2.1
    false 5 _ rfl

/-! Claim C21: the ids of rescue frames. -/

theorem pushIds_append (a b : List Inst) :
    pushIds (a ++ b) = pushIds a ++ pushIds b := by
  induction a with
  | nil => rfl
  | cons x xs ih =>
    cases x <;> simp [pushIds, ih]

theorem frameIdsFrom_add (a : Int) (n m : Nat) :
    frameIdsFrom a (n + m) = frameIdsFrom a n ++ frameIdsFrom (a + n) m := by
  induction n generalizing a with
  | zero => simp [frameIdsFrom]
  | succ n ih =>
    rw [Nat.succ_add]
    show wrapInt16 a :: frameIdsFrom (a + 1) (n + m) = _
    rw [ih]
    show _ = wrapInt16 a :: frameIdsFrom (a + 1) n ++ _
    have : a + 1 + (n : Int) = a + ((n + 1 : Nat) : Int) := by push_cast; ring
    rw [this]
    rfl

theorem counted_refl (g : Nat) (st : GenState) : Counted g st st :=
  ⟨[], 0, by simp, by simp, rfl, fun h => absurd h (Nat.lt_irrefl 0)⟩

theorem counted_trans (g : Nat) (a b c : GenState) (h1 : Counted g a b)
    (h2 : Counted g b c) : Counted g a c := by
  obtain ⟨d1, n1, hi1, hd1, hp1, hl1⟩ := h1
  obtain ⟨d2, n2, hi2, hd2, hp2, hl2⟩ := h2
  refine ⟨d1 ++ d2, n1 + n2, ?_, ?_, ?_, ?_⟩
  · rw [hi2, hi1, List.append_assoc]
  · rw [hd2, hd1]
    push_cast
    ring
  · rw [pushIds_append, hp1, hp2, hd1, frameIdsFrom_add]
  · intro h
    by_cases h0 : 0 < n2
    · exact hl2 h0
    · have : n2 = 0 := by omega
      subst this
      have := hl1 (by omega)
      rw [hd2]
      simpa using this

theorem Counted.then_recounted (g : Nat) (a b c : GenState)
    (h1 : Counted g a b) (h2 : Recounted g b c) : Recounted g a c := by
  obtain ⟨d1, n1, hi1, hd1, hp1, hl1⟩ := h1
  obtain ⟨bf, sn, n, hi2, hd2, hp2, hl2⟩ := h2
  refine ⟨d1 ++ bf, sn, n, ?_, hd2, hp2, hl2⟩
  rw [hi2, hi1]
  simp only [List.append_assoc]

theorem Recounted.then_counted (g : Nat) (a b c : GenState)
    (h1 : Recounted g a b) (h2 : Counted g b c) : Recounted g a c := by
  obtain ⟨bf, sn, n, hi1, hd1, hp1, hl1⟩ := h1
  obtain ⟨d, m, hi2, hd2, hp2, hl2⟩ := h2
  refine ⟨bf, sn ++ d, n + m, ?_, ?_, ?_, ?_⟩
  · rw [hi2, hi1]
    simp only [List.append_assoc]
  · rw [hd2, hd1]
    push_cast
    rfl
  · rw [pushIds_append, hp1, hp2, hd1, frameIdsFrom_add]
    simp
  · by_cases h0 : 0 < m
    · have := hl2 h0
      rw [hd2, hd1] at this
      push_cast
      exact this
    · have : m = 0 := by omega
      subst this
      simpa using hl1

theorem recounted_trans (g : Nat) (a b c : GenState)
    (h1 : Recounted g a b) (h2 : Recounted g b c) : Recounted g a c := by
  obtain ⟨bf, sn, n, hi1, hd1, hp1, hl1⟩ := h1
  obtain ⟨bf2, sn2, n2, hi2, hd2, hp2, hl2⟩ := h2
  refine ⟨bf ++ sn ++ bf2, sn2, n2, ?_, hd2, hp2, hl2⟩
  rw [hi2, hi1]
  simp only [List.append_assoc]

theorem framesCounted_refl (st : GenState) : FramesCounted st st :=
  ⟨[], rfl, fun g => Or.inl (counted_refl g st)⟩

theorem framesCounted_trans (a b c : GenState) (h1 : FramesCounted a b)
    (h2 : FramesCounted b c) : FramesCounted a c := by
  obtain ⟨n1, hc1, hg1⟩ := h1
  obtain ⟨n2, hc2, hg2⟩ := h2
  refine ⟨n2 ++ n1, by rw [hc2, hc1, List.append_assoc], fun g => ?_⟩
  rcases hg1 g with k1 | ⟨⟨e, he, hh⟩, k1⟩
  · rcases hg2 g with k2 | ⟨⟨e, he, hh⟩, k2⟩
    · exact Or.inl (counted_trans g a b c k1 k2)
    · exact Or.inr ⟨⟨e, List.mem_append_left _ he, hh⟩,
        Counted.then_recounted g a b c k1 k2⟩
  · rcases hg2 g with k2 | ⟨_, k2⟩
    · exact Or.inr ⟨⟨e, List.mem_append_right _ he, hh⟩,
        Recounted.then_counted g a b c k1 k2⟩
    · exact Or.inr ⟨⟨e, List.mem_append_right _ he, hh⟩,
        recounted_trans g a b c k1 k2⟩

/-- A step that keeps the cache and the counters and appends records that
are no PUSH_RESCUE_FRAME. -/
theorem FramesCounted.of_grows (st st1 : GenState)
    (hc : st1.tempclassesfakeinitfunc = st.tempclassesfakeinitfunc)
    (hd : dostList st1 = dostList st)
    (hg : ∀ g, ∃ d, instrsOf st1 g = instrsOf st g ++ d ∧ pushIds d = []) :
    FramesCounted st st1 := by
  refine ⟨[], by rw [hc]; rfl, fun g => Or.inl ?_⟩
  obtain ⟨d, hi, hp⟩ := hg g
  refine ⟨d, 0, hi, ?_, by rw [hp]; rfl, fun h => absurd h (Nat.lt_irrefl 0)⟩
  unfold dostOf
  rw [hd]
  simp

theorem framesCounted_of_same (st st1 : GenState)
    (hc : st1.tempclassesfakeinitfunc = st.tempclassesfakeinitfunc)
    (hf : st1.func = st.func) : FramesCounted st st1 := by
  refine FramesCounted.of_grows st st1 hc ?_ (fun g => ⟨[], ?_, rfl⟩)
  · unfold dostList
    rw [hf]
  · unfold instrsOf
    rw [hf]
    simp

theorem dostList_set (st : GenState) (id : Nat) (f f1 : GenFunc)
    (hf : st.func[id]? = some f)
    (h : f1.storageinfo.dostmts_used = f.storageinfo.dostmts_used) :
    dostList { st with func := st.func.set id f1 } = dostList st := by
  unfold dostList
  dsimp only
  apply List.ext_getElem?
  intro i
  simp only [List.getElem?_map, List.getElem?_set]
  split
  · rename_i hi
    subst hi
    split
    · rw [hf]
      simp [h]
    · rename_i hlt
      rw [List.getElem?_eq_none (Nat.le_of_not_lt hlt)]
  · rfl

theorem dostList_setStorageInfo (st : GenState) (id : Nat) (f : GenFunc)
    (si : StorageInfo) (hf : st.func[id]? = some f)
    (h : si.dostmts_used = f.storageinfo.dostmts_used) :
    dostList (setStorageInfo id si st) = dostList st := by
  unfold setStorageInfo
  rw [hf]
  exact dostList_set st id f _ hf h

theorem dostList_appendinst (id : Nat) (inst : Inst) (st st1 : GenState)
    (h : appendinst id inst st = .ok st1 ()) :
    dostList st1 = dostList st ∧
    st1.tempclassesfakeinitfunc = st.tempclassesfakeinitfunc := by
  obtain ⟨f, hf, rfl⟩ := appendinst_ok id inst st st1 h
  exact ⟨dostList_set st id f _ hf rfl, rfl⟩

theorem dostList_settopIncrementIn (func idx : Nat) (st : GenState) :
    dostList (settopIncrementIn func idx st) = dostList st ∧
    (settopIncrementIn func idx st).tempclassesfakeinitfunc =
      st.tempclassesfakeinitfunc := by
  unfold settopIncrementIn
  split
  · exact ⟨rfl, rfl⟩
  · rename_i f hf
    exact ⟨dostList_set st func f _ hf rfl, rfl⟩

theorem dostList_newtempIn (func : Nat) (d : Bool) (st st1 : GenState)
    (t : Int) (h : newtempIn func d st = .ok st1 t) :
    dostList st1 = dostList st ∧
    st1.tempclassesfakeinitfunc = st.tempclassesfakeinitfunc := by
  unfold newtempIn at h
  split at h
  · cases h
  · rename_i si hsi
    cases h
    unfold getStorageInfo at hsi
    cases hf : st.func[func]? with
    | none => rw [hf] at hsi; cases hsi
    | some f =>
      rw [hf] at hsi
      simp only [Option.map_some', Option.some.injEq] at hsi
      refine ⟨dostList_setStorageInfo st func f _ hf ?_, ?_⟩
      · rw [newtemp_ex_dost, hsi]
      · unfold setStorageInfo
        rw [hf]

theorem keepsFrames_refl (st : GenState) : KeepsFrames st st := ⟨rfl, rfl⟩

theorem keepsFrames_trans {a b c : GenState} (h1 : KeepsFrames a b)
    (h2 : KeepsFrames b c) : KeepsFrames a c :=
  ⟨h2.1.trans h1.1, h2.2.trans h1.2⟩

theorem keepsFrames_appendinst {a st st1 : GenState} (id : Nat) (inst : Inst)
    (h0 : KeepsFrames a st) (h : appendinst id inst st = .ok st1 ()) :
    KeepsFrames a st1 :=
  keepsFrames_trans h0 (dostList_appendinst id inst st st1 h)

theorem keepsFrames_settop {a st : GenState} (func idx : Nat)
    (h0 : KeepsFrames a st) : KeepsFrames a (settopIncrementIn func idx st) :=
  keepsFrames_trans h0 (dostList_settopIncrementIn func idx st)

theorem KeepsFrames.newtempIn {a st st1 : GenState} (func : Nat) (d : Bool)
    (t : Int) (h0 : KeepsFrames a st) (h : newtempIn func d st = .ok st1 t) :
    KeepsFrames a st1 :=
  keepsFrames_trans h0 (dostList_newtempIn func d st st1 t h)

theorem KeepsFrames.raised {a st : GenState} (func : Nat) (si : StorageInfo)
    (x : Int) (h0 : KeepsFrames a st) (h : getStorageInfo func st = some si) :
    KeepsFrames a (setStorageInfo func (raiseMaxExtraStack si x) st) := by
  refine keepsFrames_trans h0 ?_
  unfold getStorageInfo at h
  cases hf : st.func[func]? with
  | none => rw [hf] at h; cases h
  | some f =>
    rw [hf] at h
    simp only [Option.map_some', Option.some.injEq] at h
    refine ⟨dostList_setStorageInfo st func f _ hf ?_, ?_⟩
    · rw [raiseMaxExtraStack_dost, h]
    · unfold setStorageInfo
      rw [hf]

theorem emitCallArgs_keepsFrames (base : GenState) (func idx : Nat)
    (args : List (Option String × Expr)) (ex : Bool) :
    ∀ (infos : List KwArgSortInfo) (i : Nat) (v v1 : CallLoop)
      (st st1 : GenState),
    KeepsFrames base st →
    emitCallArgs func idx args ex infos i v st = .ok st1 v1 →
    KeepsFrames base st1 := by
  intro infos
  induction infos with
  | nil =>
    intro i v v1 st st1 hc h
    cases h
    exact hc
  | cons info rest ih =>
    intro i v v1 st st1 hc h
    unfold emitCallArgs at h
    dsimp only at h
    split at h
    · split at h
      · cases h
      · split at h
        · rename_i st2 _ ha
          split at h
          · cases h
          · split at h
            · cases h
            · split at h
              · rename_i st4 _ hb
                refine ih _ _ _ _ _ ?_ h
                exact keepsFrames_appendinst _ _
                  (keepsFrames_settop _ _ (keepsFrames_settop _ _
                    (keepsFrames_appendinst _ _ hc ha))) hb
              all_goals cases h
        all_goals cases h
    · split at h
      · cases h
      · split at h
        · cases h
        · split at h
          · rename_i st2 _ ha
            refine ih _ _ _ _ _ ?_ h
            exact keepsFrames_appendinst _ _ (keepsFrames_settop _ _ hc) ha
          all_goals cases h

/-- The emission of a call changes neither a counter `dostmts_used` nor the
cache of synthetic class init functions. -/
theorem codegen_call_to_keepsFrames (env : Env)
    (itemsort : List KwArgSortInfo → List KwArgSortInfo) (func : Nat)
    (args : List (Option String × Expr)) (ex asy : Bool) (c r : Int)
    (ign : Bool) :
    Holds KeepsFrames
      (_codegen_call_to env itemsort func args ex asy c r ign) := by
  intro st st1 a h
  have hbase : KeepsFrames st st := keepsFrames_refl st
  unfold _codegen_call_to at h
  split at h
  · rename_i si f hsi hf
    dsimp only at h
    split at h
    · rename_i st2 _ h1
      have c1 := keepsFrames_appendinst _ _ hbase h1
      split at h
      · split at h
        · rename_i st3 temp2 h2
          split at h
          · rename_i st4 _ h3
            split at h
            · rename_i st5 _ h4
              cases h
              have k := dostList_newtempIn _ _ _ _ _ h2
              have c2 : KeepsFrames st st3 :=
                keepsFrames_trans c1 (show KeepsFrames st2 st3 from k)
              exact keepsFrames_appendinst _ _
                (keepsFrames_appendinst _ _ c2 h3) h4
            all_goals cases h
          all_goals cases h
        all_goals cases h
      · split at h
        · rename_i st3 v h2
          have c2 := emitCallArgs_keepsFrames _ _ _ _ _ _ _ _ _ _ _ c1 h2
          split at h
          · cases h
          · rename_i si2 hsi2
            split at h
            · rename_i st4 _ h3
              cases h
              exact keepsFrames_appendinst _ _ (c2.raised _ _ _ hsi2) h3
            all_goals cases h
        all_goals cases h
    all_goals cases h
  · cases h

theorem dostOf_eq (st : GenState) (g : Nat) :
    dostOf st g =
      match st.func[g]? with
      | some f => f.storageinfo.dostmts_used
      | none => 0 := by
  unfold dostOf dostList
  rw [List.getD_eq_getElem?_getD, List.getElem?_map]
  cases st.func[g]? <;> rfl

theorem dostOf_of_dostList (st st1 : GenState)
    (h : dostList st1 = dostList st) (g : Nat) :
    dostOf st1 g = dostOf st g := by
  unfold dostOf
  rw [h]

theorem cache_setStorageInfo (id : Nat) (si : StorageInfo) (st : GenState) :
    (setStorageInfo id si st).tempclassesfakeinitfunc =
      st.tempclassesfakeinitfunc := by
  unfold setStorageInfo
  split <;> rfl

theorem dostOf_setStorageInfo_ne (id : Nat) (si : StorageInfo)
    (st : GenState) (g : Nat) (hg : g ≠ id) :
    dostOf (setStorageInfo id si st) g = dostOf st g := by
  rw [dostOf_eq, dostOf_eq]
  unfold setStorageInfo
  cases hf : st.func[id]? with
  | none => rfl
  | some f =>
    dsimp only
    rw [List.getElem?_set_ne (fun h => hg h.symm)]

theorem dostOf_setStorageInfo_eq (id : Nat) (si : StorageInfo)
    (st : GenState) (f : GenFunc) (hf : st.func[id]? = some f) :
    dostOf (setStorageInfo id si st) id = si.dostmts_used := by
  rw [dostOf_eq]
  unfold setStorageInfo
  rw [hf]
  dsimp only
  rw [List.getElem?_set_self (getElem_lt_of_some st id f hf)]

theorem pushIds_single (inst : Inst) (h : inst.isFrameMark = false) :
    pushIds [inst] = [] := by
  cases inst <;> first | rfl | cases h

theorem pushIds_allPlain (d : List Inst) (h : AllPlain d) :
    pushIds d = [] := by
  induction d with
  | nil => rfl
  | cons x xs ih =>
    have hx : x.isPlain = true := h x (List.mem_cons_self _ _)
    have hxs : AllPlain xs := fun i hi => h i (List.mem_cons_of_mem _ hi)
    have hf : x.isFrameMark = false := by
      unfold Inst.isPlain at hx
      simp only [Bool.and_eq_true, Bool.not_eq_true'] at hx
      exact hx.2
    have := pushIds_append [x] xs
    rw [List.singleton_append] at this
    rw [this, pushIds_single x hf, ih hxs]
    rfl

/-- Appending a record that is no PUSH_RESCUE_FRAME. -/
theorem FramesCounted.appended (st st1 : GenState) (id : Nat) (inst : Inst)
    (hi : pushIds [inst] = [])
    (h : appendinst id inst st = .ok st1 ()) : FramesCounted st st1 := by
  have k := dostList_appendinst id inst st st1 h
  refine FramesCounted.of_grows st st1 k.2 k.1 (fun g => ?_)
  rw [instrsOf_appendinst st st1 id inst h g]
  split
  · exact ⟨[inst], rfl, hi⟩
  · exact ⟨[], by simp, rfl⟩

theorem FramesCounted.of_quiet (st st1 : GenState) (h : Quiet st st1) :
    FramesCounted st st1 :=
  FramesCounted.of_grows st st1 h.1.2 h.1.1
    (fun g => ⟨[], by rw [h.2 g]; simp, rfl⟩)

theorem Quiet.setStorageInfo (st : GenState) (id : Nat) (f : GenFunc)
    (si : StorageInfo) (hf : st.func[id]? = some f)
    (hd : si.dostmts_used = f.storageinfo.dostmts_used) :
    Quiet st (setStorageInfo id si st) :=
  ⟨⟨dostList_setStorageInfo st id f si hf hd, cache_setStorageInfo id si st⟩,
    instrsOf_setStorageInfo st id si⟩

theorem calculateFinalFuncStack_quiet (e : Expr) (st st1 : GenState)
    (h : codegen_CalculateFinalFuncStack e st = .ok st1 ()) :
    Quiet st st1 := by
  refine ⟨?_, calculateFinalFuncStack_same e st st1 h⟩
  unfold codegen_CalculateFinalFuncStack at h
  split at h
  · dsimp only at h
    split at h
    · cases h
    · split at h
      · cases h
      · rename_i f hf
        cases h
        exact ⟨dostList_set st _ f _ hf rfl, rfl⟩
  · cases h
    exact ⟨rfl, rfl⟩

theorem fakeclassinitfunc_framesCounted (env : Env) (classidx : Int) :
    Holds FramesCounted (_fakeclassinitfunc env classidx) := by
  intro st st1 f h
  have hi := fakeclassinitfunc_same env classidx st st1 f h
  unfold _fakeclassinitfunc at h
  split at h
  · cases h
  · rename_i c hc
    split at h
    · cases h
    · split at h
      · cases h
        exact framesCounted_refl st
      · dsimp only at h
        cases h
        refine ⟨[(classidx, c.varinitfuncidx)], ?_, fun g => ?_⟩
        · split
          · rfl
          · rw [cache_setStorageInfo]
            rfl
        · by_cases hg : c.varinitfuncidx = (g : Int)
          · refine Or.inr ⟨⟨_, List.mem_singleton.mpr rfl, hg⟩,
              [], [], 0, by rw [hi g]; simp, ?_, rfl, by decide⟩
            rw [if_neg (by omega)]
            have hgn : c.varinitfuncidx.toNat = g := by omega
            rw [hgn]
            cases hf : st.func[g]? with
            | none =>
              rw [dostOf_eq]
              unfold setStorageInfo
              dsimp only
              rw [hf]
              dsimp only
              rw [hf]
              rfl
            | some f0 =>
              exact dostOf_setStorageInfo_eq g clsinitStorage _ f0 hf
          · refine Or.inl ⟨[], 0, by rw [hi g]; simp, ?_, rfl,
              fun h => absurd h (Nat.lt_irrefl 0)⟩
            split
            · simp
              rfl
            · rename_i hneg
              rw [dostOf_setStorageInfo_ne]
              · simp
                rfl
              · intro hh
                apply hg
                rw [hh]
                omega

theorem fakeglobalinitfunc_framesCounted :
    Holds FramesCounted _fakeglobalinitfunc := by
  intro st st1 f h
  have hi := fakeglobalinitfunc_same st st1 f h
  unfold _fakeglobalinitfunc at h
  split at h
  · cases h
    exact framesCounted_refl st
  · cases h
    refine ⟨[], rfl, fun g => Or.inl ⟨[], 0, by rw [hi g]; simp, ?_, rfl,
      fun h => absurd h (Nat.lt_irrefl 0)⟩⟩
    rw [dostOf_eq, dostOf_eq]
    unfold registerGlobalInit
    dsimp only
    rcases Nat.lt_trichotomy g st.func.length with hl | hl | hl
    · rw [List.getElem?_append_left hl]
      simp
    · subst hl
      simp
    · rw [List.getElem?_eq_none (by simp; omega),
        List.getElem?_eq_none (by omega)]
      simp

/-- The relation `FramesCounted` is respected by every step of the lowerer
outside the `do` and `with` branches. -/
theorem framesCounted_flowRel : FlowRel FramesCounted where
  refl := framesCounted_refl
  trans := framesCounted_trans
  descend := fun st _ => framesCounted_of_same _ _ rfl rfl
  oom := fun st _ => framesCounted_of_same _ _ rfl rfl
  unexpected := fun st _ => framesCounted_of_same _ _ rfl rfl
  astmsg := fun st _ => framesCounted_of_same _ _ rfl rfl
  prjmsg := fun st _ => framesCounted_of_same _ _ rfl rfl
  names := fun st _ => framesCounted_of_same _ _ rfl rfl
  storage := fun st id f si hf _ hd =>
    FramesCounted.of_quiet _ _ (Quiet.setStorageInfo st id f si hf hd)
  sizes := fun e st st1 _ h =>
    FramesCounted.of_quiet _ _ (calculateFinalFuncStack_quiet e st st1 h)
  plain := fun st id inst st1 hi h =>
    FramesCounted.appended st st1 id inst
      (pushIds_allPlain [inst] (fun i hm => by
        rcases List.mem_singleton.mp hm with rfl
        exact hi)) h
  call := fun env itemsort id args ex asy c r ign st st1 a h => by
    have k := codegen_call_to_keepsFrames env itemsort id args ex asy c r ign
      st st1 a h
    have g := codegen_call_to_grows env itemsort id args ex asy c r ign
      st st1 a h
    refine FramesCounted.of_grows st st1 k.2 k.1 (fun i => ?_)
    obtain ⟨d, hd, hp⟩ := g i
    exact ⟨d, hd, pushIds_allPlain d hp⟩
  fakeclass := fakeclassinitfunc_framesCounted
  fakeglobal := fakeglobalinitfunc_framesCounted
  flow := fun st id inst st1 hi h =>
    FramesCounted.appended st st1 id inst (pushIds_single inst hi) h
  labels := fun st id f si hf hd =>
    FramesCounted.of_quiet _ _ (Quiet.setStorageInfo st id f si hf hd)

/-- The relation `FramesCounted` does not look at the loop stack. -/
theorem framesCounted_loopFree : LoopFree FramesCounted :=
  fun _ _ => framesCounted_of_same _ _ rfl rfl

theorem quiet_refl (st : GenState) : Quiet st st :=
  ⟨keepsFrames_refl st, fun _ => rfl⟩

theorem quiet_trans {a b c : GenState} (h1 : Quiet a b) (h2 : Quiet b c) :
    Quiet a c :=
  ⟨keepsFrames_trans h1.1 h2.1, fun g => (h2.2 g).trans (h1.2 g)⟩

theorem quiet_pure {α : Type} (a : α) : Holds Quiet (pure a : Gen α) := by
  intro st st1 b h
  obtain ⟨h1, _⟩ := Gen.pure_ok h
  rw [h1]
  exact quiet_refl _

theorem quiet_assert (c : Bool) : Holds Quiet (Gen.assert c) := by
  unfold Gen.assert
  split
  · exact quiet_pure _
  · exact Holds.abort

theorem quiet_newJumpId (func : FuncRef) : Holds Quiet (newJumpId func) := by
  intro st st2 a h
  unfold newJumpId at h
  obtain ⟨si, st1, h1, h2⟩ := Gen.bind_ok h
  obtain ⟨hst, h0, f, hf, hsi⟩ := storageOf_ok func st st1 si h1
  rw [hst] at h2
  obtain ⟨u, st3, h3, h4⟩ := Gen.bind_ok h2
  obtain ⟨h5, _⟩ := Gen.pure_ok h4
  rw [h5]
  unfold setStorageOf at h3
  rw [if_neg (by omega)] at h3
  cases h3
  exact Quiet.setStorageInfo st _ f _ hf (by rw [← hsi])

theorem Opened.quiet {func : FuncRef} {id : Int} {s0 st st1 : GenState}
    (h : Opened func id s0 st) (hq : Quiet st st1) :
    Opened func id s0 st1 := by
  obtain ⟨hc, hi, hne, heq, hid, hlim⟩ := h
  refine ⟨hq.1.2.trans hc, fun g => (hq.2 g).trans (hi g), fun g hg => ?_, ?_,
    hid, hlim⟩
  · rw [dostOf_of_dostList st st1 hq.1.1 g]
    exact hne g hg
  · rw [dostOf_of_dostList st st1 hq.1.1 _]
    exact heq

theorem AfterOpen.quiet_bind {α β : Type} {func : FuncRef} {id : Int}
    {m : Gen α} {k : α → Gen β} (hm : Holds Quiet m)
    (hk : ∀ x, AfterOpen func id (k x)) : AfterOpen func id (m >>= k) := by
  intro s0 st st2 b ho h
  obtain ⟨a, st1, ha, hb⟩ := Gen.bind_ok h
  exact hk a s0 st1 st2 b (ho.quiet (hm _ _ _ ha)) hb

/-- The emission of the PUSH_RESCUE_FRAME of the frame id taken last closes
the count. -/
theorem AfterOpen.push_bind {β : Type} {func : FuncRef} {id : Int}
    (a b c : Int) (mode : Nat) {k : Unit → Gen β}
    (hk : ∀ x, Holds FramesCounted (k x)) :
    AfterOpen func id
      (emit func (.pushrescueframe a b c mode id) >>= k) := by
  intro s0 st st2 r ho h
  obtain ⟨u, st1, ha, hb⟩ := Gen.bind_ok h
  refine framesCounted_trans _ _ _ ?_ (hk u _ _ _ hb)
  obtain ⟨hc, hi, hne, heq, hid, hlim⟩ := ho
  have hinst := emit_instrs func _ st st1 ha
  unfold emit at ha
  split at ha
  · cases ha
  · have kf := dostList_appendinst _ _ st st1 ha
    refine ⟨[], kf.2.trans hc, fun g => Or.inl ?_⟩
    by_cases hg : g = func.bytecode_func_id.toNat
    · subst hg
      refine ⟨[.pushrescueframe a b c mode id], 1, ?_, ?_, ?_, fun _ => ?_⟩
      · rw [hinst, if_pos rfl, hi]
      · rw [dostOf_of_dostList st st1 kf.1, heq]
        rfl
      · rw [hid]
        rfl
      · rw [dostOf_of_dostList st st1 kf.1, heq]
        exact hlim
    · refine ⟨[], 0, ?_, ?_, rfl, fun h => absurd h (Nat.lt_irrefl 0)⟩
      · rw [hinst, if_neg hg, hi]
        simp
      · rw [dostOf_of_dostList st st1 kf.1, hne g hg]
        simp

/-- The statements that check the limit and take a frame id, followed by
steps that end with the PUSH_RESCUE_FRAME of the id. -/
theorem Holds.openFrame {β : Type} (func : FuncRef) (k : Int → Gen β)
    (hk : ∀ id, AfterOpen func id (k id)) :
    Holds FramesCounted
      (_enforce_dostmt_limit_in_func func >>= fun _ =>
        newDoStmtId func >>= k) := by
  intro st st3 r h
  obtain ⟨u, st1, h1, h2⟩ := Gen.bind_ok h
  obtain ⟨id, st2, h3, h4⟩ := Gen.bind_ok h2
  refine hk id st st2 st3 r ?_ h4
  have hlim : ∃ si, getStorageInfo func.bytecode_func_id.toNat st = some si ∧
      si.dostmts_used + 1 < 32766 := by
    unfold _enforce_dostmt_limit_in_func at h1
    obtain ⟨si, s1, k1, k2⟩ := Gen.bind_ok h1
    obtain ⟨hs, hget⟩ := storageOf_get func st s1 si k1
    refine ⟨si, hget, ?_⟩
    by_cases hc : si.dostmts_used + 1 ≥ 32767 - 1
    · rw [if_pos hc] at k2
      obtain ⟨u, s2, k3, k4⟩ := Gen.bind_ok k2
      obtain ⟨u2, s3, k5, k6⟩ := Gen.bind_ok k4
      cases k6
    · omega
  obtain ⟨si, hget, hlt⟩ := hlim
  have hst := enforce_dostmt_limit_ok func st st1 h1
  rw [hst] at h3
  unfold newDoStmtId at h3
  obtain ⟨si1, s1, k1, k2⟩ := Gen.bind_ok h3
  obtain ⟨hs1, h0, f, hf, hsi⟩ := storageOf_ok func st s1 si1 k1
  rw [hs1] at k2
  obtain ⟨u2, s2, k3, k4⟩ := Gen.bind_ok k2
  obtain ⟨k5, k6⟩ := Gen.pure_ok k4
  unfold setStorageOf at k3
  rw [if_neg (by omega)] at k3
  cases k3
  have hsame : si1 = si := by
    unfold getStorageInfo at hget
    rw [hf] at hget
    simp only [Option.map_some', Option.some.injEq] at hget
    exact hsi.symm.trans hget
  subst hsame
  have hd0 : dostOf st func.bytecode_func_id.toNat = si1.dostmts_used := by
    rw [dostOf_eq, hf]
    show f.storageinfo.dostmts_used = _
    rw [hsi]
  rw [k5]
  refine ⟨cache_setStorageInfo _ _ _, instrsOf_setStorageInfo st _ _,
    fun g hg => dostOf_setStorageInfo_ne _ _ _ g hg, ?_, ?_, ?_⟩
  · rw [dostOf_setStorageInfo_eq _ _ st f hf, hd0]
  · rw [k6, hd0]
  · rw [hd0]
    omega

/-- The emission of a record that is no PUSH_RESCUE_FRAME. -/
theorem emitOther_framesCounted (func : FuncRef) (inst : Inst)
    (hi : pushIds [inst] = []) : Holds FramesCounted (emit func inst) := by
  intro st st1 a h
  unfold emit at h
  split at h
  · cases h
  · exact FramesCounted.appended st st1 _ inst hi h

theorem withCloseCalls_framesCounted (env : Env) (func : FuncRef)
    (clauses : List Expr) :
    Holds FramesCounted (withCloseCalls env func clauses) := by
  have hR := framesCounted_flowRel
  induction clauses with
  | nil => exact Holds.genPure hR.toStepRel _
  | cons c rest ih =>
    unfold withCloseCalls
    refine Holds.bind hR.toStepRel ?_ (fun frame => ?_)
    · dsimp only
      split
      · refine Holds.openFrame func _ (fun id => ?_)
        refine AfterOpen.quiet_bind (quiet_newJumpId func) (fun j => ?_)
        refine AfterOpen.push_bind _ _ _ _ (fun _ => ?_)
        exact Holds.bind hR.toStepRel (emitOther_framesCounted _ _ rfl)
          (fun _ => Holds.pure hR.toStepRel _)
      · exact Holds.pure hR.toStepRel _
    · repeat any_goals (first
        | with_reducible exact ih
        | with_reducible exact Holds.pure hR.toStepRel _
        | with_reducible exact Holds.get hR.toStepRel
        | with_reducible exact newJumpId_holds hR _
        | with_reducible exact newtemp_holds hR.toStepRel _ _
        | with_reducible exact freeLineTemps_holds hR.toStepRel _
        | exact emitOther_framesCounted _ _ rfl
        | with_reducible refine Holds.bind hR.toStepRel ?_ (fun _ => ?_)
        | split
        | dsimp only)

theorem popFramesReversed_framesCounted (func : FuncRef)
    (frames : List Int) :
    Holds FramesCounted (popFramesReversed func frames) := by
  have hR := framesCounted_flowRel
  induction frames with
  | nil => exact Holds.genPure hR.toStepRel _
  | cons c rest ih =>
    unfold popFramesReversed
    exact Holds.bind hR.toStepRel ih
      (fun _ => emitOther_framesCounted _ _ rfl)

/-- The `with` branch respects `FramesCounted`. -/
theorem visitInWith_framesCounted (env : Env) (visit : Visitor)
    (hv : ∀ e ctx, Holds FramesCounted (visit e ctx))
    (func : Option FuncRef) (expr : Expr) (ctx : Ctx) (s : Storage)
    (withclause stmt : List Expr) :
    Holds FramesCounted
      (visitInWith env visit func expr ctx s withclause stmt) := by
  have hR := framesCounted_flowRel
  unfold visitInWith
  refine Holds.bind hR.toStepRel (setDescend_holds hR.toStepRel _)
    (fun _ => ?_)
  refine Holds.bind hR.toStepRel (Holds.ofOption hR.toStepRel _)
    (fun f => ?_)
  refine Holds.bind hR.toStepRel (newJumpId_holds hR _) (fun jf => ?_)
  refine Holds.bind hR.toStepRel (Holds.assert hR.toStepRel _) (fun _ => ?_)
  refine Holds.bind hR.toStepRel (withSetNone_holds hR.toStepRel _ _)
    (fun _ => ?_)
  refine Holds.openFrame f _ (fun id => ?_)
  refine AfterOpen.push_bind _ _ _ _ (fun _ => ?_)
  repeat any_goals (first
    | with_reducible exact Holds.pure hR.toStepRel _
    | with_reducible exact setDescend_holds hR.toStepRel _
    | with_reducible exact withCloseCalls_framesCounted _ _ _
    | with_reducible exact popFramesReversed_framesCounted _ _
    | with_reducible exact visitStmts_holds hR.toStepRel _ _ _ _ hv
    | with_reducible exact visitStmtsFreeing_holds hR.toStepRel _ _ _ _ _ hv
    | with_reducible exact freeLineTemps_holds hR.toStepRel _
    | exact emitOther_framesCounted _ _ rfl
    | with_reducible refine Holds.bind hR.toStepRel ?_ (fun _ => ?_)
    | split
    | dsimp only)

/-- The `do` branch respects `FramesCounted`. -/
theorem visitInDo_framesCounted (visit : Visitor)
    (hv : ∀ e ctx, Holds FramesCounted (visit e ctx))
    (func : Option FuncRef) (expr : Expr) (ctx : Ctx) (s : Storage)
    (dostmt errors rescuestmt : List Expr) (has_finally_block : Bool)
    (finallystmt : List Expr) :
    Holds FramesCounted
      (visitInDo visit func expr ctx s dostmt errors rescuestmt
        has_finally_block finallystmt) := by
  have hR := framesCounted_flowRel
  unfold visitInDo
  refine Holds.bind hR.toStepRel (setDescend_holds hR.toStepRel _)
    (fun _ => ?_)
  refine Holds.bind hR.toStepRel (Holds.ofOption hR.toStepRel _)
    (fun f => ?_)
  refine Holds.bind hR.toStepRel (newJumpId_holds hR _) (fun jend => ?_)
  refine Holds.openFrame f _ (fun id => ?_)
  refine AfterOpen.quiet_bind (quiet_assert _) (fun _ => ?_)
  refine AfterOpen.quiet_bind ?_ (fun jc => ?_)
  · split
    · exact quiet_newJumpId f
    · exact quiet_pure _
  refine AfterOpen.quiet_bind (quiet_assert _) (fun _ => ?_)
  refine AfterOpen.quiet_bind ?_ (fun jfin => ?_)
  · split
    · exact quiet_newJumpId f
    · exact quiet_pure _
  refine AfterOpen.push_bind _ _ _ _ (fun _ => ?_)
  repeat any_goals (first
    | with_reducible exact Holds.pure hR.toStepRel _
    | with_reducible exact setDescend_holds hR.toStepRel _
    | with_reducible exact doAddRescueTypes_holds hR.toStepRel _ _ _ _ _ _
    | with_reducible exact visitStmtsFreeing_holds hR.toStepRel _ _ _ _ _ hv
    | with_reducible exact freeLineTemps_holds hR.toStepRel _
    | exact emitOther_framesCounted _ _ rfl
    | with_reducible exact ‹∀ x, Holds FramesCounted (_ x)› _
    | with_reducible refine Holds.bind hR.toStepRel ?_ (fun _ => ?_)
    | with_reducible refine Holds.joinPoint _ _ (fun _ => ?_) (fun _ _ => ?_)
    | split)

/-- The tree walk respects `FramesCounted`. -/
theorem visit_framesCounted (env : Env)
    (itemsort : List KwArgSortInfo → List KwArgSortInfo) (fuel : Nat)
    (e : Expr) (ctx : Ctx) :
    Holds FramesCounted (visit env itemsort fuel e ctx) :=
  visit_holds framesCounted_flowRel framesCounted_loopFree env itemsort
    (fun v hv func expr ctx s withclause stmt =>
      visitInWith_framesCounted env v hv func expr ctx s withclause stmt)
    (fun v hv func expr ctx s dostmt errors rescuestmt fin finallystmt =>
      visitInDo_framesCounted v hv func expr ctx s dostmt errors rescuestmt
        fin finallystmt)
    fuel e ctx

/-! The frame ids handed out below the limit. -/

theorem wrapInt16_small (a : Int) (h0 : 0 ≤ a) (h1 : a < 32768) :
    wrapInt16 a = a := by
  unfold wrapInt16
  omega

theorem frameIdsFrom_mem (n : Nat) : ∀ (a : Int), 0 ≤ a →
    a + n ≤ 32768 → ∀ id ∈ frameIdsFrom a n, a ≤ id ∧ id < a + n := by
  induction n with
  | zero =>
    intro a _ _ id h
    cases h
  | succ n ih =>
    intro a h0 hmax id h
    have hmax1 : a + 1 + (n : Int) ≤ 32768 := by push_cast at hmax; omega
    rcases List.mem_cons.mp h with h | h
    · rw [h, wrapInt16_small a h0 (by push_cast at hmax; omega)]
      push_cast
      omega
    · have := ih (a + 1) (by omega) hmax1 id h
      push_cast
      omega

theorem frameIdsFrom_nodup (n : Nat) : ∀ (a : Int), 0 ≤ a →
    a + n ≤ 32768 → (frameIdsFrom a n).Nodup := by
  induction n with
  | zero =>
    intro a _ _
    exact List.nodup_nil
  | succ n ih =>
    intro a h0 hmax
    have hmax1 : a + 1 + (n : Int) ≤ 32768 := by push_cast at hmax; omega
    refine List.nodup_cons.mpr ⟨fun h => ?_, ih (a + 1) (by omega) hmax1⟩
    have := frameIdsFrom_mem n (a + 1) (by omega) hmax1 _ h
    rw [wrapInt16_small a h0 (by push_cast at hmax; omega)] at this
    omega

/-- The ids of a function that is `Counted` from a state in which they were
in order. -/
theorem counted_ids (g : Nat) (st st1 : GenState) (hc : Counted g st st1)
    (h0 : 0 ≤ dostOf st g) (hmax : dostOf st g ≤ 32767)
    (hnd : (pushIds (instrsOf st g)).Nodup)
    (hold : ∀ id ∈ pushIds (instrsOf st g), 0 ≤ id ∧ id < dostOf st g) :
    (pushIds (instrsOf st1 g)).Nodup ∧
    (∀ id ∈ pushIds (instrsOf st1 g), 0 ≤ id ∧ id < dostOf st1 g) ∧
    dostOf st1 g ≤ 32767 := by
  obtain ⟨d, n, hi, hd, hp, hl⟩ := hc
  rw [hi, pushIds_append, hp]
  by_cases hn : 0 < n
  · have hb := hl hn
    rw [hd] at hb
    have hm := frameIdsFrom_mem n (dostOf st g) h0 (by omega)
    refine ⟨List.nodup_append.mpr ⟨hnd,
      frameIdsFrom_nodup n (dostOf st g) h0 (by omega), ?_⟩, ?_, by omega⟩
    · intro id h1 h2
      have := hold id h1
      have := hm id h2
      omega
    · intro id h
      rcases List.mem_append.mp h with h | h
      · have := hold id h
        omega
      · have := hm id h
        omega
  · have : n = 0 := by omega
    subst this
    simp only [frameIdsFrom, List.append_nil]
    refine ⟨hnd, fun id h => ?_, by simp at hd; omega⟩
    have := hold id h
    simp at hd
    omega

/-- The ids a function was given since its storage info was made anew. -/
theorem recounted_ids (g : Nat) (st st1 : GenState)
    (hc : Recounted g st st1) :
    ∃ before since, instrsOf st1 g = instrsOf st g ++ before ++ since ∧
      (pushIds since).Nodup ∧
      (∀ id ∈ pushIds since, 0 ≤ id ∧ id < dostOf st1 g) ∧
      dostOf st1 g ≤ 32767 := by
  obtain ⟨bf, sn, n, hi, hd, hp, hl⟩ := hc
  refine ⟨bf, sn, hi, ?_, ?_, by omega⟩
  · rw [hp]
    exact frameIdsFrom_nodup n 0 (le_refl 0) (by omega)
  · intro id h
    rw [hp] at h
    have := frameIdsFrom_mem n 0 (le_refl 0) (by omega) id h
    omega

/-! The limit of `do` and `with` statements in one function. -/

theorem Gen.bind_fail {α β : Type} {m : Gen α} {f : α → Gen β}
    {st s : GenState} (h : m st = .fail s) : (m >>= f) st = .fail s := by
  show Gen.bind m f st = .fail s
  unfold Gen.bind
  rw [h]

theorem dostOf_of_getStorageInfo (st : GenState) (g : Nat)
    (si : StorageInfo) (h : getStorageInfo g st = some si) :
    dostOf st g = si.dostmts_used := by
  rw [dostOf_eq]
  unfold getStorageInfo at h
  cases hf : st.func[g]? with
  | none => rw [hf] at h; cases h
  | some f =>
    rw [hf] at h
    simp only [Option.map_some', Option.some.injEq] at h
    show f.storageinfo.dostmts_used = _
    rw [h]

theorem storageOf_run (func : FuncRef) (st : GenState) (si : StorageInfo)
    (h0 : 0 ≤ func.bytecode_func_id)
    (hsi : getStorageInfo func.bytecode_func_id.toNat st = some si) :
    storageOf func st = .ok st si := by
  unfold storageOf
  rw [if_neg (by omega), hsi]

/-- With the limit reached `_enforce_dostmt_limit_in_func` returns 0, the
error flagged and the diagnostic recorded. -/
theorem enforce_run_limit (func : FuncRef) (st : GenState)
    (si : StorageInfo) (h0 : 0 ≤ func.bytecode_func_id)
    (hsi : getStorageInfo func.bytecode_func_id.toNat st = some si)
    (hlim : si.dostmts_used + 1 ≥ 32767 - 1) :
    _enforce_dostmt_limit_in_func func st = .fail (limitFailure st) := by
  unfold _enforce_dostmt_limit_in_func
  rw [Gen.bind_run (storageOf_run func st si h0 hsi), if_pos hlim]
  rfl

theorem enforce_at_limit (func : FuncRef) (st : GenState)
    (hlim : 32765 ≤ dostOf st func.bytecode_func_id.toNat) :
    _enforce_dostmt_limit_in_func func st = .assertFailed ∨
    _enforce_dostmt_limit_in_func func st = .fail (limitFailure st) := by
  rcases storageOf_sure func st with ⟨s, si, h⟩ | h
  · obtain ⟨hs, h0, f, hf, hfs⟩ := storageOf_ok func st s si h
    obtain ⟨_, hget⟩ := storageOf_get func st s si h
    right
    refine enforce_run_limit func st si h0 hget ?_
    rw [dostOf_of_getStorageInfo st _ si hget] at hlim
    omega
  · left
    unfold _enforce_dostmt_limit_in_func
    exact Gen.bind_abort h

theorem unframed_refl (st : GenState) : Unframed st st :=
  ⟨rfl, rfl, fun _ => ⟨[], by simp, rfl⟩⟩

theorem unframed_trans {a b c : GenState} (h1 : Unframed a b)
    (h2 : Unframed b c) : Unframed a c := by
  refine ⟨h2.1.trans h1.1, h2.2.1.trans h1.2.1, fun g => ?_⟩
  obtain ⟨d1, hi1, hp1⟩ := h1.2.2 g
  obtain ⟨d2, hi2, hp2⟩ := h2.2.2 g
  refine ⟨d1 ++ d2, by rw [hi2, hi1, List.append_assoc], ?_⟩
  rw [pushIds_append, hp1, hp2]
  rfl

theorem resultmsg_setStorageInfo (id : Nat) (si : StorageInfo)
    (st : GenState) :
    (setStorageInfo id si st).resultmsg = st.resultmsg := by
  unfold setStorageInfo
  split <;> rfl

theorem emit_sure (func : FuncRef) (inst : Inst) :
    Gen.Sure (emit func inst) := by
  intro st
  unfold emit
  split
  · exact Or.inr rfl
  · unfold appendinst appendinstbyfuncid
    split
    · exact Or.inr rfl
    · split
      · exact Or.inr rfl
      · exact Or.inl ⟨_, _, rfl⟩

theorem emitOther_unframed (func : FuncRef) (inst : Inst)
    (hi : pushIds [inst] = []) : Holds Unframed (emit func inst) := by
  intro st st1 a h
  have hinst := emit_instrs func inst st st1 h
  unfold emit at h
  split at h
  · cases h
  · have k := dostList_appendinst _ _ st st1 h
    obtain ⟨f, hf, hst⟩ := appendinst_ok _ _ st st1 h
    refine ⟨by rw [hst]; rfl, k.1, fun g => ?_⟩
    rw [hinst g]
    split
    · exact ⟨[inst], rfl, hi⟩
    · exact ⟨[], by simp, rfl⟩

theorem newJumpId_sure (func : FuncRef) : Gen.Sure (newJumpId func) := by
  unfold newJumpId
  exact sure_bind (storageOf_sure _) (fun _ =>
    sure_bind (setStorageOf_sure _ _) (fun _ => sure_pure _))

theorem newJumpId_unframed (func : FuncRef) :
    Holds Unframed (newJumpId func) := by
  intro st st2 a h
  have hq := quiet_newJumpId func st st2 a h
  refine ⟨?_, hq.1.1, fun g => ⟨[], by rw [hq.2 g]; simp, rfl⟩⟩
  unfold newJumpId at h
  obtain ⟨si, st1, h1, h2⟩ := Gen.bind_ok h
  obtain ⟨hst, h0, f, hf, hsi⟩ := storageOf_ok func st st1 si h1
  rw [hst] at h2
  obtain ⟨u, st3, h3, h4⟩ := Gen.bind_ok h2
  obtain ⟨h5, _⟩ := Gen.pure_ok h4
  rw [h5]
  unfold setStorageOf at h3
  rw [if_neg (by omega)] at h3
  cases h3
  exact resultmsg_setStorageInfo _ _ _

theorem withSetNone_sure (func : FuncRef) (clauses : List Expr) :
    Gen.Sure (withSetNone func clauses) := by
  induction clauses with
  | nil => exact sure_genPure _
  | cons c rest ih =>
    unfold withSetNone
    exact sure_bind (sure_assert _) (fun _ =>
      sure_bind (emit_sure _ _) (fun _ => ih))

theorem withSetNone_unframed (func : FuncRef) (clauses : List Expr) :
    Holds Unframed (withSetNone func clauses) := by
  induction clauses with
  | nil =>
    intro st st1 a h
    cases h
    exact unframed_refl st
  | cons c rest ih =>
    intro st st3 a h
    unfold withSetNone at h
    obtain ⟨u, st1, h1, h2⟩ := Gen.bind_ok h
    obtain ⟨u2, st2, h3, h4⟩ := Gen.bind_ok h2
    have e1 : st1 = st := by
      unfold Gen.assert at h1
      split at h1
      · cases h1
        rfl
      · cases h1
    rw [e1] at h3
    have k := emitOther_unframed func
      (.setconst (if 0 ≤ c.storage.eval_temp_id then c.storage.eval_temp_id
        else c.storage.ref.id) .none) rfl st st2 u2 h3
    exact unframed_trans k (ih st2 st3 a h4)

/-- The `do` branch with the limit reached: it returns 0 right after its
first label id is taken, with the error flagged and the diagnostic recorded,
and no buffer and no counter changed. -/
theorem visitInDo_at_limit (visit : Visitor) (f : FuncRef) (expr : Expr)
    (ctx : Ctx) (s : Storage) (dostmt errors rescuestmt : List Expr)
    (fin : Bool) (finallystmt : List Expr) (st : GenState)
    (si : StorageInfo) (h0 : 0 ≤ f.bytecode_func_id)
    (hsi : getStorageInfo f.bytecode_func_id.toNat st = some si)
    (hlim : si.dostmts_used + 1 ≥ 32767 - 1) :
    ∃ s0, Unframed st s0 ∧
      visitInDo visit (some f) expr ctx s dostmt errors rescuestmt fin
        finallystmt st = .fail (limitFailure s0) := by
  have e1 : setDescend true st =
      .ok { st with dont_descend_visitation := true } () := rfl
  have e2 : Gen.ofOption (some f)
      { st with dont_descend_visitation := true } =
      .ok { st with dont_descend_visitation := true } f := rfl
  have hsi1 : getStorageInfo f.bytecode_func_id.toNat
      { st with dont_descend_visitation := true } = some si := hsi
  rcases newJumpId_sure f { st with dont_descend_visitation := true } with
    ⟨sb, j, h3⟩ | h3
  · have u3 := newJumpId_unframed f _ sb j h3
    have u : Unframed st sb := u3
    have hd : dostOf sb f.bytecode_func_id.toNat = si.dostmts_used := by
      rw [dostOf_of_dostList _ _ u.2.1,
        dostOf_of_getStorageInfo st _ si hsi]
    refine ⟨sb, u, ?_⟩
    unfold visitInDo
    rw [Gen.bind_run e1, Gen.bind_run e2, Gen.bind_run h3]
    rcases enforce_at_limit f sb (by rw [hd]; omega) with h6 | h6
    · exfalso
      obtain ⟨_, hget⟩ := newJumpId_spec f _ sb j h3
      obtain ⟨si2, _, _, hget2⟩ := hget
      unfold _enforce_dostmt_limit_in_func at h6
      rw [Gen.bind_run (storageOf_run f sb _ h0 hget2)] at h6
      split at h6 <;> cases h6
    · exact Gen.bind_fail h6
  · exfalso
    unfold newJumpId at h3
    rw [Gen.bind_run (storageOf_run f _ si h0 hsi1)] at h3
    have e : setStorageOf f
        { si with jump_targets_used := si.jump_targets_used + 1 }
        { st with dont_descend_visitation := true } =
        .ok (setStorageInfo f.bytecode_func_id.toNat
          { si with jump_targets_used := si.jump_targets_used + 1 }
          { st with dont_descend_visitation := true }) () := by
      unfold setStorageOf
      rw [if_neg (by omega)]
    rw [Gen.bind_run e] at h3
    cases h3

/-- The `with` branch with the limit reached: unless an assertion is
violated, it returns 0 after the SET_CONST records of its clauses, with the
error flagged and the diagnostic recorded, no PUSH_RESCUE_FRAME emitted and
no counter changed. -/
theorem visitInWith_at_limit (env : Env) (visit : Visitor) (f : FuncRef)
    (expr : Expr) (ctx : Ctx) (s : Storage) (withclause stmt : List Expr)
    (st : GenState)
    (hlim : 32765 ≤ dostOf st f.bytecode_func_id.toNat)
    (hna : (visitInWith env visit (some f) expr ctx s withclause stmt
      st).isAssertFailed = false) :
    ∃ s0, Unframed st s0 ∧
      visitInWith env visit (some f) expr ctx s withclause stmt st =
        .fail (limitFailure s0) := by
  have e1 : setDescend true st =
      .ok { st with dont_descend_visitation := true } () := rfl
  have e2 : Gen.ofOption (some f)
      { st with dont_descend_visitation := true } =
      .ok { st with dont_descend_visitation := true } f := rfl
  unfold visitInWith at hna ⊢
  rw [Gen.bind_run e1, Gen.bind_run e2] at hna ⊢
  rcases newJumpId_sure f { st with dont_descend_visitation := true } with
    ⟨sb, j, h3⟩ | h3
  · have u0 := newJumpId_unframed f _ sb j h3
    have u3 : Unframed st sb := u0
    rw [Gen.bind_run h3] at hna ⊢
    cases hc : decide (1 ≤ withclause.length) with
    | false =>
      exfalso
      rw [hc] at hna
      have e4 : Gen.assert false sb = .assertFailed := rfl
      rw [Gen.bind_abort e4] at hna
      cases hna
    | true =>
      rw [hc] at hna
      have e4 : Gen.assert true sb = .ok sb () := rfl
      rw [Gen.bind_run e4] at hna ⊢
      rcases withSetNone_sure f withclause sb with ⟨sc, u, h5⟩ | h5
      · have u5 : Unframed st sc :=
          unframed_trans u3 (withSetNone_unframed f withclause sb sc u h5)
        rw [Gen.bind_run h5] at hna ⊢
        rcases enforce_at_limit f sc
          (by rw [dostOf_of_dostList _ _ u5.2.1]; exact hlim) with h6 | h6
        · exfalso
          rw [Gen.bind_abort h6] at hna
          cases hna
        · exact ⟨sc, u5, Gen.bind_fail h6⟩
      · exfalso
        rw [Gen.bind_abort h5] at hna
        cases hna
  · exfalso
    rw [Gen.bind_abort h3] at hna
    cases hna

theorem limitFailure_unframed (st s0 : GenState) (u : Unframed st s0) :
    (limitFailure s0).hadunexpectederror = true ∧
    (limitFailure s0).resultmsg =
      result_AddMessage st.resultmsg .error
        "exceeded maximum of do or with statements in one function" ∧
    ∀ g, dostOf (limitFailure s0) g = dostOf st g ∧
      ∃ d, instrsOf (limitFailure s0) g = instrsOf st g ++ d ∧
        pushIds d = [] := by
  refine ⟨rfl, ?_, fun g => ⟨?_, ?_⟩⟩
  · show result_AddMessage s0.resultmsg .error dostmtLimitMsg = _
    rw [u.1]
    rfl
  · exact dostOf_of_dostList st s0 u.2.1 g
  · exact u.2.2 g

/-- C21: after every walk of the lowerer that returns 1, started in a state
in which the counter `dostmts_used` of function `g` lies in 0..32767 and the
frame ids of the PUSH_RESCUE_FRAME records of `g` are pairwise distinct and
lie in 0 up to the counter, the buffer of `g` is `before ++ since` where
`since` is the whole buffer unless the storage info of `g` was made anew
during the walk (an entry for `g` was added to the cache of synthetic class
init functions; `since` are then the records emitted under the new storage
info): the frame ids of the PUSH_RESCUE_FRAME records of `since` are pairwise
distinct, lie in 0..32767 and below the counter, and the counter is at most
32767.  With the limit reached (the counter at 32765 or above) the `do`
branch returns 0, and the `with` branch returns 0 unless an assertion is
violated, with the error flagged, the diagnostic "exceeded maximum of do or
with statements in one function" recorded, every counter unchanged and no
PUSH_RESCUE_FRAME appended to any buffer. -/
theorem C21_rescue_frame_ids (env : Env)
    (itemsort : List KwArgSortInfo → List KwArgSortInfo) :
    (∀ (fuel : Nat) (e : Expr) (ctx : Ctx) (st st1 : GenState) (e1 : Expr),
      visit env itemsort fuel e ctx st = .ok st1 e1 →
      ∀ g : Nat, 0 ≤ dostOf st g → dostOf st g ≤ 32767 →
        (pushIds (instrsOf st g)).Nodup →
        (∀ id ∈ pushIds (instrsOf st g), 0 ≤ id ∧ id < dostOf st g) →
        ∃ before since : List Inst,
          instrsOf st1 g = before ++ since ∧
          ((∀ added, st1.tempclassesfakeinitfunc =
              added ++ st.tempclassesfakeinitfunc →
              ∀ x ∈ added, x.2 ≠ (g : Int)) → before = []) ∧
          (pushIds since).Nodup ∧
          (∀ id ∈ pushIds since,
            0 ≤ id ∧ id ≤ 32767 ∧ id < dostOf st1 g) ∧
          dostOf st1 g ≤ 32767) ∧
    (∀ (v : Visitor) (f : FuncRef) (expr : Expr) (ctx : Ctx) (s : Storage)
      (dostmt errors rescuestmt : List Expr) (fin : Bool)
      (finallystmt : List Expr) (st : GenState),
      0 ≤ f.bytecode_func_id →
      32765 ≤ dostOf st f.bytecode_func_id.toNat →
      ∃ s1, visitInDo v (some f) expr ctx s dostmt errors rescuestmt fin
          finallystmt st = .fail s1 ∧
        s1.hadunexpectederror = true ∧
        s1.resultmsg = result_AddMessage st.resultmsg .error
          "exceeded maximum of do or with statements in one function" ∧
        ∀ g, dostOf s1 g = dostOf st g ∧
          ∃ d, instrsOf s1 g = instrsOf st g ++ d ∧ pushIds d = []) ∧
    (∀ (v : Visitor) (f : FuncRef) (expr : Expr) (ctx : Ctx) (s : Storage)
      (withclause stmt : List Expr) (st : GenState),
      32765 ≤ dostOf st f.bytecode_func_id.toNat →
      (visitInWith env v (some f) expr ctx s withclause stmt
        st).isAssertFailed = false →
      ∃ s1, visitInWith env v (some f) expr ctx s withclause stmt st =
          .fail s1 ∧
        s1.hadunexpectederror = true ∧
        s1.resultmsg = result_AddMessage st.resultmsg .error
          "exceeded maximum of do or with statements in one function" ∧
        ∀ g, dostOf s1 g = dostOf st g ∧
          ∃ d, instrsOf s1 g = instrsOf st g ++ d ∧ pushIds d = []) := by
  refine ⟨?_, ?_, ?_⟩
  · intro fuel e ctx st st1 e1 h g h0 hmax hnd hold
    obtain ⟨added, hc, hg⟩ := visit_framesCounted env itemsort fuel e ctx
      st st1 e1 h
    rcases hg g with k | ⟨⟨x, hx, hxg⟩, k⟩
    · obtain ⟨k1, k2, k3⟩ := counted_ids g st st1 k h0 hmax hnd hold
      refine ⟨[], instrsOf st1 g, rfl, fun _ => rfl, k1, fun id hid => ?_,
        k3⟩
      have := k2 id hid
      omega
    · obtain ⟨bf, sn, k0, k1, k2, k3⟩ := recounted_ids g st st1 k
      refine ⟨instrsOf st g ++ bf, sn, k0,
        fun hno => absurd hxg (hno added hc x hx), k1, fun id hid => ?_, k3⟩
      have := k2 id hid
      omega
  · intro v f expr ctx s dostmt errors rescuestmt fin finallystmt st h0 hlim
    have hex : ∃ si, getStorageInfo f.bytecode_func_id.toNat st = some si := by
      unfold getStorageInfo
      rw [dostOf_eq] at hlim
      cases hf : st.func[f.bytecode_func_id.toNat]? with
      | none =>
        rw [hf] at hlim
        exact absurd hlim (by decide)
      | some f0 => exact ⟨_, rfl⟩
    obtain ⟨si, hsi⟩ := hex
    rw [dostOf_of_getStorageInfo st _ si hsi] at hlim
    obtain ⟨s0, u, hr⟩ := visitInDo_at_limit v f expr ctx s dostmt errors
      rescuestmt fin finallystmt st si h0 hsi (by omega)
    exact ⟨_, hr, limitFailure_unframed st s0 u⟩
  · intro v f expr ctx s withclause stmt st hlim hna
    obtain ⟨s0, u, hr⟩ := visitInWith_at_limit env v f expr ctx s withclause
      stmt st hlim hna
    exact ⟨_, hr, limitFailure_unframed st s0 u⟩

theorem C21_rescue_frame_ids_witness :
    (∃ before since : List Inst,
      instrsOf (doRescueFinallyFuncRun.stateOf selfListState) 0 =
        before ++ since ∧
      ((∀ added,
          (doRescueFinallyFuncRun.stateOf
            selfListState).tempclassesfakeinitfunc =
            added ++ selfListState.tempclassesfakeinitfunc →
          ∀ x ∈ added, x.2 ≠ ((0 : Nat) : Int)) → before = []) ∧
      (pushIds since).Nodup ∧
      (∀ id ∈ pushIds since, 0 ≤ id ∧ id ≤ 32767 ∧
        id < dostOf (doRescueFinallyFuncRun.stateOf selfListState) 0) ∧
      dostOf (doRescueFinallyFuncRun.stateOf selfListState) 0 ≤ 32767) ∧
    (∃ s1, doAtLimitRun = .fail s1 ∧
      s1.hadunexpectederror = true ∧
      s1.resultmsg = result_AddMessage limitState.resultmsg .error
        "exceeded maximum of do or with statements in one function" ∧
      ∀ g, dostOf s1 g = dostOf limitState g ∧
        ∃ d, instrsOf s1 g = instrsOf limitState g ++ d ∧ pushIds d = []) ∧
    (∃ s1, withAtLimitRun = .fail s1 ∧
      s1.hadunexpectederror = true ∧
      s1.resultmsg = result_AddMessage limitState.resultmsg .error
        "exceeded maximum of do or with statements in one function" ∧
      ∀ g, dostOf s1 g = dostOf limitState g ∧
        ∃ d, instrsOf s1 g = instrsOf limitState g ++ d ∧ pushIds d = []) :=
  ⟨(C21_rescue_frame_ids sampleEnv kwInsertionSort).1 8 doRescueFinallyFunc []
      selfListState _ _
      (Res.eq_ok doRescueFinallyFuncRun selfListState doRescueFinallyFunc
        (by decide!))
      0 (by decide) (by decide) (by decide) (by decide),
    (C21_rescue_frame_ids sampleEnv kwInsertionSort).2.1 _ ⟨0, 0⟩ _ _ _ _ _ _
      _ _ limitState (by decide) (by decide),
    (C21_rescue_frame_ids sampleEnv kwInsertionSort).2.2 _ ⟨0, 0⟩ _ _ _ _ _
      limitState (by decide) (by decide!)⟩

/-- The walk of `doRescueFinallyFunc` emits one PUSH_RESCUE_FRAME, with
frame id 0, and leaves the counter at 1; with the limit reached the `do`
branch returns 0 with the buffer empty and the `with` branch returns 0 after
its SET_CONST record, both with the diagnostic recorded and the counter
still at 32765. -/
theorem frameIds_samples :
    pushIds (instrsOf (doRescueFinallyFuncRun.stateOf selfListState) 0) =
      [0] ∧
    dostOf (doRescueFinallyFuncRun.stateOf selfListState) 0 = 1 ∧
    doAtLimitRun.isOk = false ∧
    instrsOf (doAtLimitRun.failedState selfListState) 0 = [] ∧
    dostOf (doAtLimitRun.failedState selfListState) 0 = 32765 ∧
    (doAtLimitRun.failedState selfListState).resultmsg.message =
      [⟨.error, dostmtLimitMsg⟩] ∧
    withAtLimitRun.isOk = false ∧
    instrsOf (withAtLimitRun.failedState selfListState) 0 =
      [.setconst 0 .none] ∧
    dostOf (withAtLimitRun.failedState selfListState) 0 = 32765 ∧
    (withAtLimitRun.failedState selfListState).resultmsg.message =
      [⟨.error, dostmtLimitMsg⟩] := by
  decide!

/-! Claim C38: `warningconfig_ProcessOption`. -/

theorem take_eq_of_short {α : Type} (l x : List α) (n : Nat)
    (h : l.take n = x) (hx : x.length < n) : l = x := by
  have hl : l.length < n := by
    by_contra hc
    have : (l.take n).length = n := by
      rw [List.length_take]
      omega
    rw [h] at this
    omega
  rw [← h, List.take_of_length_le (by omega)]

theorem option_of_head (opt : List Nat)
    (h : ¬(opt.length < (cString "-W").length ∨ opt[0]? ≠ some 45 ∨
      opt[1]? ≠ some 87)) :
    opt = cString "-W" ++ opt.drop 2 := by
  match opt with
  | [] => simp [cString] at h
  | [a] => simp [cString] at h
  | a :: b :: rest =>
    simp at h
    obtain ⟨_, ha, hb⟩ := h
    subst ha
    subst hb
    rfl

theorem flagsSet_of_eq (w w1 : H64CompileWarnConfig)
    (flags : List WarnFlag) (v : Int)
    (h : ∀ f : WarnFlag, w1.flag f = if f ∈ flags then v else w.flag f) :
    FlagsSet w w1 flags v := h

/-- The text after `-W` of an option whose buffer `warning_name`, after the
`no-` handling, holds a name shorter than 60 bytes. -/
theorem option_of_name (opt name : List Nat) (hn : name.length < 60)
    (hhead : ¬(opt.length < (cString "-W").length ∨ opt[0]? ≠ some 45 ∨
      opt[1]? ≠ some 87))
    (h : (if (decide (((opt.drop 2).take 63).length >
            (cString "no-").length) &&
          decide (((opt.drop 2).take 63).take (cString "no-").length =
            cString "no-")) = true
        then ((opt.drop 2).take 63).drop (cString "no-").length
        else (opt.drop 2).take 63) = name) :
    opt = cString "-W" ++ name ∨ opt = cString "-Wno-" ++ name := by
  have hopt := option_of_head opt hhead
  split at h
  · rename_i hno
    simp only [Bool.and_eq_true, decide_eq_true_eq] at hno
    right
    have hc : (opt.drop 2).take 63 = cString "no-" ++ name := by
      rw [← hno.2, ← h]
      exact (List.take_append_drop _ _).symm
    have hd := take_eq_of_short _ _ 63 hc (by
      rw [List.length_append]
      have : (cString "no-").length = 3 := rfl
      omega)
    rw [hopt, hd]
    rfl
  · left
    have hd := take_eq_of_short _ _ 63 h (by omega)
    rw [hopt, hd]

/-- C38: `warningconfig_ProcessOption` returns 1 exactly for the options
`-W<name>` and `-Wno-<name>` with `<name>` one of shadowing-direct-locals,
shadowing-parent-func-locals, shadowing-globals, shadowing-all,
unrecognized-escape-sequences, all; its return value is 0 or 1; for such an
option the flags that `<name>` denotes are 1 afterwards (0 for the `no-`
form) and every other flag is as before; and when it returns 0 the
configuration is unchanged. -/
theorem C38_process_option (w : H64CompileWarnConfig)
    (option : Option (List Nat)) :
    ((warningconfig_ProcessOption w option).2 = 1 ↔
      ∃ e ∈ warningNames,
        option = some (cString "-W" ++ cString e.1) ∨
        option = some (cString "-Wno-" ++ cString e.1)) ∧
    ((warningconfig_ProcessOption w option).2 = 0 ∨
      (warningconfig_ProcessOption w option).2 = 1) ∧
    (∀ e ∈ warningNames,
      (option = some (cString "-W" ++ cString e.1) →
        FlagsSet w (warningconfig_ProcessOption w option).1 e.2 1) ∧
      (option = some (cString "-Wno-" ++ cString e.1) →
        FlagsSet w (warningconfig_ProcessOption w option).1 e.2 0)) ∧
    ((warningconfig_ProcessOption w option).2 = 0 →
      (warningconfig_ProcessOption w option).1 = w) := by
  have hback : ∀ e ∈ warningNames,
      (option = some (cString "-W" ++ cString e.1) →
        (warningconfig_ProcessOption w option).2 = 1 ∧
        FlagsSet w (warningconfig_ProcessOption w option).1 e.2 1) ∧
      (option = some (cString "-Wno-" ++ cString e.1) →
        (warningconfig_ProcessOption w option).2 = 1 ∧
        FlagsSet w (warningconfig_ProcessOption w option).1 e.2 0) := by
    intro e he
    simp only [warningNames, List.mem_cons, List.mem_singleton,
      List.not_mem_nil, or_false] at he
    rcases he with rfl | rfl | rfl | rfl | rfl | rfl
    all_goals
      refine ⟨fun h => ?_, fun h => ?_⟩
      all_goals
        subst h
        refine ⟨rfl, fun f => ?_⟩
        cases f <;> rfl
  refine ⟨⟨fun h => ?_, fun h => ?_⟩, ?_, fun e he =>
    ⟨fun h => ((hback e he).1 h).2, fun h => ((hback e he).2 h).2⟩, ?_⟩
  · cases option with
    | none => simp [warningconfig_ProcessOption] at h
    | some opt =>
      unfold warningconfig_ProcessOption at h
      dsimp only at h
      split at h
      · simp at h
      · rename_i hhead
        have key : ∀ name : String, (cString name).length < 60 →
            (if (decide (((opt.drop 2).take 63).length >
                (cString "no-").length) &&
              decide (((opt.drop 2).take 63).take (cString "no-").length =
                cString "no-")) = true
            then ((opt.drop 2).take 63).drop (cString "no-").length
            else (opt.drop 2).take 63) = cString name →
            some opt = some (cString "-W" ++ cString name) ∨
            some opt = some (cString "-Wno-" ++ cString name) := by
          intro name hn hk
          rcases option_of_name opt (cString name) hn hhead hk with k | k
          · exact Or.inl (congrArg some k)
          · exact Or.inr (congrArg some k)
        generalize (if (decide (((opt.drop 2).take 63).length >
                (cString "no-").length) &&
              decide (((opt.drop 2).take 63).take (cString "no-").length =
                cString "no-")) = true
            then ((opt.drop 2).take 63).drop (cString "no-").length
            else (opt.drop 2).take 63) = name at h key
        generalize (if (decide (((opt.drop 2).take 63).length >
                (cString "no-").length) &&
              decide (((opt.drop 2).take 63).take (cString "no-").length =
                cString "no-")) = true
            then (0 : Int) else 1) = enable at h
        split at h
        · rename_i hk
          exact ⟨("shadowing-direct-locals", [.shadowing_direct_locals]),
            by simp [warningNames], key _ (by decide) hk⟩
        · split at h
          · rename_i hk
            exact ⟨("shadowing-parent-func-locals",
              [.shadowing_parent_func_locals]), by simp [warningNames],
              key _ (by decide) hk⟩
          · split at h
            · rename_i hk
              exact ⟨("shadowing-globals", [.shadowing_globals]),
                by simp [warningNames], key _ (by decide) hk⟩
            · split at h
              · rename_i hk
                exact ⟨("shadowing-all", [.shadowing_direct_locals,
                  .shadowing_parent_func_locals, .shadowing_globals]),
                  by simp [warningNames], key _ (by decide) hk⟩
              · split at h
                · rename_i hk
                  exact ⟨("unrecognized-escape-sequences",
                    [.unrecognized_escape_sequences]),
                    by simp [warningNames], key _ (by decide) hk⟩
                · split at h
                  · rename_i hk
                    exact ⟨("all", [.shadowing_direct_locals,
                      .shadowing_parent_func_locals, .shadowing_globals,
                      .unrecognized_escape_sequences]),
                      by simp [warningNames], key _ (by decide) hk⟩
                  · simp at h
  · obtain ⟨e, he, h | h⟩ := h
    · exact ((hback e he).1 h).1
    · exact ((hback e he).2 h).1
  · cases option with
    | none => exact Or.inl rfl
    | some opt =>
      unfold warningconfig_ProcessOption
      dsimp only
      generalize (if (decide (((opt.drop 2).take 63).length >
                (cString "no-").length) &&
              decide (((opt.drop 2).take 63).take (cString "no-").length =
                cString "no-")) = true
            then ((opt.drop 2).take 63).drop (cString "no-").length
            else (opt.drop 2).take 63) = name
      repeat' split
      all_goals first | exact Or.inl rfl | exact Or.inr rfl
  · intro h
    cases option with
    | none => rfl
    | some opt =>
      unfold warningconfig_ProcessOption at h ⊢
      dsimp only at h ⊢
      generalize (if (decide (((opt.drop 2).take 63).length >
                (cString "no-").length) &&
              decide (((opt.drop 2).take 63).take (cString "no-").length =
                cString "no-")) = true
            then ((opt.drop 2).take 63).drop (cString "no-").length
            else (opt.drop 2).take 63) = name at h ⊢
      generalize (if (decide (((opt.drop 2).take 63).length >
                (cString "no-").length) &&
              decide (((opt.drop 2).take 63).take (cString "no-").length =
                cString "no-")) = true
            then (0 : Int) else 1) = enable at h ⊢
      repeat' split
      all_goals first | rfl | (simp_all)

theorem C38_process_option_witness :
    FlagsSet warningconfig_Init
      (warningconfig_ProcessOption warningconfig_Init
        (some (cString "-Wno-all"))).1
      [.shadowing_direct_locals, .shadowing_parent_func_locals,
        .shadowing_globals, .unrecognized_escape_sequences] 0 ∧
    (warningconfig_ProcessOption warningconfig_Init
        (some (cString "-Wnone"))).1 = warningconfig_Init :=
  ⟨((C38_process_option warningconfig_Init
      (some (cString "-Wno-all"))).2.2.1
      ("all", [.shadowing_direct_locals, .shadowing_parent_func_locals,
        .shadowing_globals, .unrecognized_escape_sequences])
      (by decide)).2 rfl,
    (C38_process_option warningconfig_Init
      (some (cString "-Wnone"))).2.2.2 (by decide)⟩

/-- Sample runs: `-Wshadowing-all` sets the three shadowing flags of the
initial configuration, `-Wno-` and `-Wno-no-all` are refused. -/
theorem processOption_samples :
    warningconfig_ProcessOption warningconfig_Init
      (some (cString "-Wshadowing-all")) = (⟨1, 1, 1, 1⟩, 1) ∧
    warningconfig_ProcessOption warningconfig_Init
      (some (cString "-Wno-")) = (warningconfig_Init, 0) ∧
    warningconfig_ProcessOption warningconfig_Init
      (some (cString "-Wno-no-all")) = (warningconfig_Init, 0) ∧
    warningconfig_ProcessOption warningconfig_Init none =
      (warningconfig_Init, 0) := by
  decide

/-! Claim C33: `codegen_CalculateFinalFuncStack` applied twice. -/

/-- The state after `codegen_CalculateFinalFuncStack` on a function
definition: `lowest_guaranteed_free_temp` rose by `max_extra_stack`, the
temporaries count and `inner_stack_size` are derived from the new value, and
`input_stack_size` does not depend on it. -/
theorem calculateFinalFuncStack_run (s : Storage) (id : Int)
    (args : List (Option Expr)) (stmt : List Expr) (st st1 : GenState)
    (f : GenFunc) (hf : st.func[id.toNat]? = some f)
    (h : codegen_CalculateFinalFuncStack (.funcdef s id args stmt) st =
      .ok st1 ()) :
    ∃ f1, st1.func[id.toNat]? = some f1 ∧
      f1.storageinfo.lowest_guaranteed_free_temp =
        f.storageinfo.lowest_guaranteed_free_temp +
          f.storageinfo.max_extra_stack ∧
      f1.storageinfo.max_extra_stack = f.storageinfo.max_extra_stack ∧
      f1.storageinfo.closureboundvars_count =
        f.storageinfo.closureboundvars_count ∧
      f1.arg_count = f.arg_count ∧ f1.has_self_arg = f.has_self_arg ∧
      f1.stack_temporaries_count =
        f.storageinfo.lowest_guaranteed_free_temp +
          f.storageinfo.max_extra_stack -
          f.storageinfo.closureboundvars_count - f.arg_count -
          (if f.has_self_arg then 1 else 0) ∧
      f1.inner_stack_size = f1.stack_temporaries_count ∧
      f1.input_stack_size = f.storageinfo.closureboundvars_count +
        f.arg_count + (if f.has_self_arg then 1 else 0) := by
  unfold codegen_CalculateFinalFuncStack at h
  dsimp only at h
  split at h
  · cases h
  · rw [hf] at h
    dsimp only at h
    cases h
    exact ⟨_, List.getElem?_set_eq_of_lt _
      (getElem_lt_of_some st _ f hf), rfl, rfl, rfl, rfl, rfl, rfl, rfl, rfl⟩

/-- A second application of `codegen_CalculateFinalFuncStack` adds
`max_extra_stack` once more to `lowest_guaranteed_free_temp`, to the
temporaries count and to `inner_stack_size`; `input_stack_size` stays. -/
theorem calculateFinalFuncStack_twice (s : Storage) (id : Int)
    (args : List (Option Expr)) (stmt : List Expr) (st st1 st2 : GenState)
    (f f1 : GenFunc) (hf : st.func[id.toNat]? = some f)
    (h1 : codegen_CalculateFinalFuncStack (.funcdef s id args stmt) st =
      .ok st1 ())
    (hf1 : st1.func[id.toNat]? = some f1)
    (h2 : codegen_CalculateFinalFuncStack (.funcdef s id args stmt) st1 =
      .ok st2 ()) :
    ∃ f2, st2.func[id.toNat]? = some f2 ∧
      f2.storageinfo.lowest_guaranteed_free_temp =
        f1.storageinfo.lowest_guaranteed_free_temp +
          f.storageinfo.max_extra_stack ∧
      f2.stack_temporaries_count =
        f1.stack_temporaries_count + f.storageinfo.max_extra_stack ∧
      f2.inner_stack_size =
        f1.inner_stack_size + f.storageinfo.max_extra_stack ∧
      f2.input_stack_size = f1.input_stack_size := by
  obtain ⟨g1, hg1, a1, a2, a3, a4, a5, a6, a7, a8⟩ :=
    calculateFinalFuncStack_run s id args stmt st st1 f hf h1
  rw [hf1] at hg1
  cases hg1
  obtain ⟨g2, hg2, b1, b2, b3, b4, b5, b6, b7, b8⟩ :=
    calculateFinalFuncStack_run s id args stmt st1 st2 f1 hf1 h2
  refine ⟨g2, hg2, ?_, ?_, ?_, ?_⟩
  · rw [b1, a2]
  · rw [b6, a6, a1, a2, a3, a4, a5]
    omega
  · rw [b7, b6, a7, a6, a1, a2, a3, a4, a5]
    omega
  · rw [b8, a8, a3, a4, a5]

/-- C33, on the code: for a function without arguments with
`lowest_guaranteed_free_temp = 1` and `max_extra_stack = 1`, the first
application of `codegen_CalculateFinalFuncStack` leaves
`lowest_guaranteed_free_temp`, `stack_temporaries_count` and
`inner_stack_size` at 2 and `input_stack_size` at 0; the second application
raises the first three to 3. -/
theorem C33_final_stack_grows_on_second_run :
    (codegen_CalculateFinalFuncStack selfListFunc stackSampleState).isOk =
      true ∧
    (codegen_CalculateFinalFuncStack selfListFunc finalStackOnce).isOk =
      true ∧
    finalStackOnce.func = [⟨false, [], 2, 0, false, 0, false, 0, 2,
      ⟨2, [], 1, 0, 0, false, 0⟩⟩] ∧
    finalStackTwice.func = [⟨false, [], 3, 0, false, 0, false, 0, 3,
      ⟨3, [], 1, 0, 0, false, 0⟩⟩] := by
  decide

/-! Claim C34: the inline length of a bytes literal. -/

theorem cStrlen_le : ∀ l : List Nat, cStrlen l ≤ l.length := by
  intro l
  induction l with
  | nil => exact Nat.le_refl 0
  | cons b rest ih =>
    unfold cStrlen
    split
    · exact Nat.zero_le _
    · simp only [List.length_cons]
      omega

theorem cStrlen_no_zero : ∀ l : List Nat, (∀ b ∈ l, b ≠ 0) →
    cStrlen l = l.length := by
  intro l
  induction l with
  | nil => intro _; rfl
  | cons b rest ih =>
    intro h
    unfold cStrlen
    rw [if_neg (h b (List.mem_cons_self _ _)),
      ih (fun c hc => h c (List.mem_cons_of_mem _ hc))]
    rfl

/-- A bytes literal without zero byte that is encoded inline has a recorded
length below `VALUECONTENT_SHORTBYTESLEN`. -/
theorem literalContent_bytes_no_zero (env : Env) (str_value : List Nat)
    (len : Nat) (hlen : len = str_value.length)
    (hz : ∀ b ∈ str_value, b ≠ 0) (c : ValueContent) (n : Nat)
    (h : literalContent env (.bytes str_value len) = .inr c)
    (hc : c.shortbytesLen = some n) :
    n < env.VALUECONTENT_SHORTBYTESLEN := by
  unfold literalContent at h
  dsimp only at h
  rw [cStrlen_no_zero str_value hz] at h
  split at h
  · rename_i hlt
    cases h
    cases hc
    omega
  · cases h
    cases hc

/-- A bytes literal that starts with a zero byte is encoded inline whatever
its length, when `VALUECONTENT_SHORTBYTESLEN` is not 0. -/
theorem literalContent_bytes_zero_first (env : Env) (rest : List Nat)
    (len : Nat) (h0 : 0 < env.VALUECONTENT_SHORTBYTESLEN) :
    literalContent env (.bytes (0 :: rest) len) =
      .inr (.shortbytes len ((0 :: rest).take len)) := by
  unfold literalContent
  have : cStrlen (0 :: rest) = 0 := by
    unfold cStrlen
    rw [if_pos rfl]
  dsimp only
  rw [this, if_pos h0]

/-- C34, on the code: with `VALUECONTENT_SHORTBYTESLEN = 7`, the bytes
literal of the eight bytes 0, 1, ..., 7 is encoded inline in its SET_CONST,
with `shortbytes_len = 8` and eight bytes copied: `strlen` of the literal is
0. -/
theorem C34_zero_byte_literal_exceeds_inline_length :
    sampleEnv.VALUECONTENT_SHORTBYTESLEN = 7 ∧
    zeroBytesRun.isOk = true ∧
    instrsOf (zeroBytesRun.stateOf selfListState) 0 =
      [.setconst 0 (.shortbytes 8 [0, 1, 2, 3, 4, 5, 6, 7])] ∧
    ¬ (8 < sampleEnv.VALUECONTENT_SHORTBYTESLEN) := by
  decide!

/-! Claim C35: the result slot of `has_attr` and the slot of the object. -/

/-- C35, on the code: for `x = has_attr(x, "add")` with `x` in stack slot 0
and `add` a known attribute name, `new1linetemp` hands out the slot of the
assignment target, slot 0, for the result, the object `x` is evaluated to
slot 0 as well, and the assertion in front of the SET_CONST false is
violated: the branch and the walk of the function stop there and no record
is emitted. -/
theorem C35_has_attr_result_slot_is_object_slot :
    (new1linetemp ⟨0, 0⟩ hasAttrCall
      [(hasAttrAssign, .rvalue), (hasAttrAssignFunc, .other)] true
      selfListState).valueOf (-1) = 0 ∧
    localX.storage.ref = ⟨.STACKSLOT, 0⟩ ∧
    hasAttrAssignRun.isAssertFailed = true ∧
    hasAttrAssignFuncRun.isAssertFailed = true := by
  decide!

/-- The call alone, `has_attr(x, "add")` as a statement, gets the fresh
slot 1 for its result and is lowered without a violated assertion. -/
theorem hasAttrFuncRun_stream :
    hasAttrFuncRun.isOk = true ∧
    instrsOf (hasAttrFuncRun.stateOf selfListState) 0 =
      [.setconst 1 (.bool 0), .hasattrjump 0 1 0, .setconst 1 (.bool 1),
        .jumptarget 0] := by
  decide!

/-! Claim C40: the integer path of `builtininternals_pow`. -/

theorem wrapInt64_of_in (x : Int) (h : inInt64 x) : wrapInt64 x = x := by
  unfold inInt64 INT64_MIN INT64_MAX at h
  unfold wrapInt64
  omega

theorem wrapInt64_in (x : Int) : inInt64 (wrapInt64 x) := by
  unfold inInt64 INT64_MIN INT64_MAX wrapInt64
  omega

theorem wrapInt64_diff (x : Int) :
    ∃ k : Int, wrapInt64 x = x - k * 18446744073709551616 := by
  refine ⟨(x + 9223372036854775808) / 18446744073709551616, ?_⟩
  unfold wrapInt64
  have := Int.emod_add_ediv (x + 9223372036854775808) 18446744073709551616
  omega

theorem abs_tmod_lt (a b : Int) (hb : b ≠ 0) : |a.tmod b| < |b| := by
  have hpos : 0 < |b| := abs_pos.mpr hb
  have key : ∀ c : Int, 0 ≤ c → |c.tmod b| < |b| := by
    intro c hc
    have h1 : c.tmod b = c.tmod |b| := by
      rcases abs_choice b with h | h
      · rw [h]
      · rw [h, Int.tmod_neg]
    rw [h1, abs_of_nonneg (Int.tmod_nonneg _ hc)]
    exact Int.tmod_lt_of_pos c hpos
  rcases le_or_lt 0 a with h | h
  · exact key a h
  · have := key (-a) (by omega)
    have hneg : (-a).tmod b = -(a.tmod b) := by
      rw [Int.tmod_def, Int.tmod_def, Int.neg_tdiv]
      ring
    rw [hneg, abs_neg] at this
    exact this

/-- The overflow test of the loop: for a base other than 0 the quotient of
the wrapped product equals `result` only if the product did not wrap. -/
theorem tdiv_wrap_eq (result base : Int) (hb : base ≠ 0)
    (hbin : inInt64 base)
    (h : Int.tdiv (wrapInt64 (result * base)) base = result) :
    wrapInt64 (result * base) = result * base := by
  obtain ⟨k, hk⟩ := wrapInt64_diff (result * base)
  have hmod := abs_tmod_lt (wrapInt64 (result * base)) base hb
  have hdm := Int.tmod_add_tdiv (wrapInt64 (result * base)) base
  rw [h] at hdm
  have hr : (wrapInt64 (result * base)).tmod base =
      -(k * 18446744073709551616) := by
    rw [hk] at hdm ⊢
    linarith [mul_comm base result]
  rw [hr, abs_neg] at hmod
  have hbabs : |base| ≤ 9223372036854775808 := by
    unfold inInt64 INT64_MIN INT64_MAX at hbin
    rw [abs_le]
    omega
  have hk0 : k = 0 := by
    by_contra hne
    have h1 : 1 ≤ |k| := Int.one_le_abs hne
    have : |k * 18446744073709551616| = |k| * 18446744073709551616 := by
      rw [abs_mul]
      rfl
    rw [this] at hmod
    nlinarith
  rw [hk, hk0]
  ring

theorem not_inInt64_abs (x : Int) (h : ¬ inInt64 x) :
    9223372036854775808 ≤ |x| := by
  unfold inInt64 INT64_MIN INT64_MAX at h
  rcases le_or_lt 0 x with hx | hx
  · rw [abs_of_nonneg hx]
    omega
  · rw [abs_of_neg hx]
    omega

theorem not_inInt64_mul (x y : Int) (hx : ¬ inInt64 x) (hy : 2 ≤ |y|) :
    ¬ inInt64 (x * y) := by
  intro h
  have h1 := not_inInt64_abs x hx
  have h2 : |x * y| ≤ 9223372036854775808 := by
    unfold inInt64 INT64_MIN INT64_MAX at h
    rw [abs_le]
    omega
  rw [abs_mul] at h2
  nlinarith [abs_nonneg x, abs_nonneg y]

theorem two_le_abs_pow (base : Int) (hb : 2 ≤ |base|) (n : Nat)
    (hn : 1 ≤ n) : 2 ≤ |base ^ n| := by
  rw [abs_pow]
  calc (2 : Int) ≤ |base| := hb
    _ = |base| ^ 1 := (pow_one _).symm
    _ ≤ |base| ^ n := pow_le_pow_right₀ (by omega) hn

theorem pow_unit_in (base : Int) (h : base = 1 ∨ base = -1) (n : Nat) :
    inInt64 (base ^ n) ∧ base ^ n ≠ INT64_MIN := by
  have : base ^ n = 1 ∨ base ^ n = -1 := by
    rcases h with h | h
    · left
      rw [h, one_pow]
    · rw [h]
      rcases Nat.even_or_odd n with he | ho
      · left
        exact Even.neg_one_pow he
      · right
        exact Odd.neg_one_pow ho
  unfold inInt64 INT64_MIN INT64_MAX
  rcases this with h | h <;> rw [h] <;> omega

theorem two_le_abs_of (base : Int) (h0 : base ≠ 0) (h1 : base ≠ 1)
    (h2 : base ≠ -1) : 2 ≤ |base| := by
  rcases le_or_lt 0 base with h | h
  · rw [abs_of_nonneg h]
    omega
  · rw [abs_of_neg h]
    omega

/-- The loop for a base other than 0, entered with `result = base ^ k`
representable: it returns `base ^ (k + n)` when that is representable and the
OverflowError otherwise. -/
theorem powLoop_spec (base : Int) (hb0 : base ≠ 0) (hbin : inInt64 base) :
    ∀ (n k : Nat), inInt64 (base ^ k) →
      powLoop base n (base ^ k) =
        if inInt64 (base ^ (k + n)) then .value (base ^ (k + n))
        else .overflowError := by
  intro n
  induction n with
  | zero =>
    intro k hk
    show PowOutcome.value (base ^ k) = _
    rw [Nat.add_zero, if_pos hk]
  | succ n ih =>
    intro k hk
    unfold powLoop
    dsimp only
    rw [if_neg hb0]
    have hmul : base ^ k * base = base ^ (k + 1) := (pow_succ base k).symm
    by_cases hin : inInt64 (base ^ (k + 1))
    · have hnew : wrapInt64 (base ^ k * base) = base ^ (k + 1) := by
        rw [hmul]
        exact wrapInt64_of_in _ hin
      rw [hnew]
      have h2 : ¬(base ^ (k + 1) = INT64_MIN ∧ base = -1) := by
        rintro ⟨ha, hb⟩
        exact (pow_unit_in base (Or.inr hb) (k + 1)).2 ha
      rw [if_neg h2]
      have h3 : ¬ (Int.tdiv (base ^ (k + 1)) base ≠ base ^ k) := by
        rw [← hmul, Int.mul_tdiv_cancel _ hb0]
        exact fun h => h rfl
      rw [if_neg h3, ih (k + 1) hin]
      have : k + 1 + n = k + (n + 1) := by omega
      rw [this]
    · have hb1 : base ≠ 1 := fun h =>
        hin (pow_unit_in base (Or.inl h) (k + 1)).1
      have hbm : base ≠ -1 := fun h =>
        hin (pow_unit_in base (Or.inr h) (k + 1)).1
      have h2 : ¬(wrapInt64 (base ^ k * base) = INT64_MIN ∧ base = -1) :=
        fun h => hbm h.2
      rw [if_neg h2]
      have h3 : Int.tdiv (wrapInt64 (base ^ k * base)) base ≠ base ^ k := by
        intro h
        have := tdiv_wrap_eq (base ^ k) base hb0 hbin h
        apply hin
        rw [← hmul, ← this]
        exact wrapInt64_in _
      rw [if_pos h3]
      have hout : ¬ inInt64 (base ^ (k + (n + 1))) := by
        rcases Nat.eq_zero_or_pos n with hn | hn
        · subst hn
          exact hin
        · have : base ^ (k + (n + 1)) = base ^ (k + 1) * base ^ n := by
            rw [← pow_add]
            congr 1
            omega
          rw [this]
          exact not_inInt64_mul _ _ hin
            (two_le_abs_pow base (two_le_abs_of base hb0 hb1 hbm) n hn)
      rw [if_neg hout]

/-- The integer path for a base other than 0 and an exponent of at least 1:
it returns `base ^ exp` exactly when that value is representable as
`int64_t`, and the OverflowError otherwise; no division is undefined. -/
theorem pow_int_spec (base exp : Int) (hbin : inInt64 base)
    (hb0 : base ≠ 0) (he : 1 ≤ exp) :
    builtininternals_pow_int base exp =
      if inInt64 (base ^ exp.toNat) then .value (base ^ exp.toNat)
      else .overflowError := by
  unfold builtininternals_pow_int
  have h := powLoop_spec base hb0 hbin (exp - 1).toNat 1
    (by rw [pow_one]; exact hbin)
  rw [pow_one] at h
  have : 1 + (exp - 1).toNat = exp.toNat := by omega
  rw [this] at h
  exact h

/-- The integer path for base 0 and an exponent of at least 2: the first
test `new / base` divides by zero. -/
theorem pow_int_zero_base (exp : Int) (he : 2 ≤ exp) :
    builtininternals_pow_int 0 exp = .divisionByZero := by
  unfold builtininternals_pow_int
  obtain ⟨n, hn⟩ : ∃ n, (exp - 1).toNat = n + 1 :=
    ⟨(exp - 1).toNat - 1, by omega⟩
  rw [hn]
  rfl

/-- C40, on the code: `pow(0, 2)` takes the integer path, computes
`new = 0 * 0` and evaluates `new / base` with `base = 0`, a division by
zero; the value of 0^2, 0, is representable and is not returned. -/
theorem C40_pow_zero_base_divides_by_zero :
    builtininternals_pow_int 0 2 = .divisionByZero ∧
    inInt64 ((0 : Int) ^ 2) ∧
    builtininternals_pow_int 0 1 = .value 0 ∧
    builtininternals_pow_int 2 62 = .value 4611686018427387904 ∧
    builtininternals_pow_int 2 63 = .overflowError ∧
    builtininternals_pow_int (-2) 63 = .value (-9223372036854775808) := by
  decide

/-! Claim C39: the scan for appended paks. -/

theorem magiclen_eq : magiclen = 21 := by decide

theorem magic_pakappend_length : magic_pakappend.length = 21 := by decide

theorem wrapUInt64_small (x : Int) (h0 : 0 ≤ x)
    (h1 : x < 18446744073709551616) : wrapUInt64 x = x.toNat := by
  unfold wrapUInt64
  rw [Int.emod_eq_of_lt h0 h1]

theorem wrapUInt64_natCast (n : Nat) (h : n < 18446744073709551616) :
    wrapUInt64 (n : Int) = n := by
  rw [wrapUInt64_small _ (by omega) (by omega)]
  omega

/-- The bytes read by `vfs_fread` at the end of the prefix of length `e`. -/
theorem comparedata_eq (file : List Nat) (e : Nat) (he : e ≤ file.length)
    (h37 : 37 ≤ e) :
    (file.drop (e - 37)).take 37 = (file.take e).drop (e - 37) ∧
    ((file.drop (e - 37)).take 37).length = 37 := by
  constructor
  · rw [List.drop_take]
    congr 1
    omega
  · rw [List.length_take, List.length_drop]
    omega

/-- The claim's condition, on the 37 bytes `c` at the end of the prefix of
length `e`. -/
theorem pakTrailerAt_iff (loadU64 : List Nat → Nat) (file : List Nat)
    (e : Nat) (h37 : 37 ≤ e) (c : List Nat)
    (hc : c = (file.take e).drop (e - 37)) :
    PakTrailerAt loadU64 file e ↔
      (c.drop 16 = magic_pakappend ∧
       loadU64 ((c.drop 8).take 8) % 18446744073709551616 = e - 37 ∧
       loadU64 (c.take 8) % 18446744073709551616 <
         loadU64 ((c.drop 8).take 8) % 18446744073709551616) := by
  have h16 : c.drop 16 = (file.take e).drop (e - 21) := by
    rw [hc, List.drop_drop]
    congr 1
    omega
  have h8 : c.drop 8 = (file.take e).drop (e - 29) := by
    rw [hc, List.drop_drop]
    congr 1
    omega
  unfold PakTrailerAt
  rw [h16, h8, hc]
  constructor
  · rintro ⟨_, a, b, c⟩
    exact ⟨a, b, c⟩
  · rintro ⟨a, b, c⟩
    exact ⟨h37, a, b, c⟩

/-- One call of the scan on the prefix of length `e` of a file that is not
empty and shorter than 2^63 bytes. -/
theorem pakScan_step (loadU64 : List Nat → Nat) (file : List Nat)
    (hmax : file.length < 9223372036854775808) (e : Nat)
    (he : e ≤ file.length) (h0 : 0 < file.length) (fuel : Nat) :
    _vfs_GetEmbbeddedPakInfoByVFSFile_Do loadU64 file (fuel + 1)
        ((file.length : Int) - e) =
      if PakTrailerAt loadU64 file e then
        match _vfs_GetEmbbeddedPakInfoByVFSFile_Do loadU64 file fuel
          ((file.length : Int) -
            (loadU64 (((file.take e).drop (e - 37)).take 8) %
              18446744073709551616 : Nat)) with
        | .found next_einfo =>
          .found (⟨loadU64 (((file.take e).drop (e - 37)).take 8) %
              18446744073709551616, e - 37,
            loadU64 (((file.take e).drop (e - 37)).take 8) %
              18446744073709551616, e⟩ :: next_einfo)
        | .failed => .failed
        | .outOfFuel => .outOfFuel
      else .found [] := by
  conv_lhs => unfold _vfs_GetEmbbeddedPakInfoByVFSFile_Do
  dsimp only
  rw [if_neg (by omega)]
  have hec : wrapUInt64 ((file.length : Int) - ((file.length : Int) - e)) =
      e := by
    have : (file.length : Int) - ((file.length : Int) - e) = (e : Int) := by
      ring
    rw [this, wrapUInt64_natCast e (by omega)]
  rw [hec, magiclen_eq]
  by_cases h37 : e < 21 + 8 * 2
  · rw [if_pos h37, if_neg]
    intro h
    have := h.1
    omega
  · rw [if_neg h37]
    have h37' : 37 ≤ e := by omega
    obtain ⟨hcd, hcl⟩ := comparedata_eq file e he h37'
    have e1 : e - 21 - 8 * 2 = e - 37 := by omega
    rw [e1]
    show (if ((file.drop (e - 37)).take 37).length ≠ 37 then _ else _) = _
    rw [if_neg (by rw [hcl]; exact fun h => h rfl)]
    have hiff := pakTrailerAt_iff loadU64 file e h37' _ hcd
    generalize (file.drop (e - 37)).take 37 = c at hcd hcl hiff ⊢
    have hd16 : (c.drop (8 * 2)).take 21 = c.drop 16 := by
      rw [List.take_of_length_le]
      rw [List.length_drop]
      omega
    rw [hd16]
    by_cases hm : c.drop 16 = magic_pakappend
    · rw [if_neg (fun h => h hm)]
      by_cases hoff : loadU64 ((c.drop 8).take 8) % 18446744073709551616 =
            e - 37 ∧
          loadU64 (c.take 8) % 18446744073709551616 <
            loadU64 ((c.drop 8).take 8) % 18446744073709551616
      · have hp : PakTrailerAt loadU64 file e := hiff.mpr ⟨hm, hoff⟩
        have hs : loadU64 (c.take 8) % 18446744073709551616 < e - 37 := by
          omega
        have hw : ¬ wrapUInt64 ((e : Int) -
            ((loadU64 (c.take 8) % 18446744073709551616 : Nat) : Int)) ≤
              0 := by
          rw [wrapUInt64_small _ (by omega) (by omega)]
          omega
        rw [if_neg (by
          rintro (h | h | h)
          · exact h hoff.1
          · omega
          · exact hw h), if_pos hp]
        have hwi : wrapInt64 ((file.length : Int) -
            ((loadU64 (c.take 8) % 18446744073709551616 : Nat) : Int)) =
            (file.length : Int) -
              ((loadU64 (c.take 8) % 18446744073709551616 : Nat) : Int) := by
          unfold wrapInt64
          omega
        have hfull : wrapUInt64
            (((loadU64 ((c.drop 8).take 8) % 18446744073709551616 : Nat) :
              Int) + (21 : Nat) + 8 * 2) = e := by
          rw [hoff.1]
          have : (((e - 37 : Nat) : Int) + (21 : Nat) + 8 * 2) = (e : Int) := by
            omega
          rw [this, wrapUInt64_natCast e (by omega)]
        rw [hwi, hfull, hoff.1, ← hcd]
      · rw [if_pos, if_neg]
        · intro hp
          exact hoff (hiff.mp hp).2
        · by_cases h1 : loadU64 ((c.drop 8).take 8) %
              18446744073709551616 = e - 37
          · right
            left
            have : ¬ (loadU64 (c.take 8) % 18446744073709551616 <
              loadU64 ((c.drop 8).take 8) % 18446744073709551616) :=
              fun h => hoff ⟨h1, h⟩
            omega
          · left
            omega
    · rw [if_pos hm, if_neg]
      intro hp
      exact hm (hiff.mp hp).1

/-- C39: on a file that is not empty and shorter than 2^63 bytes, the scan
of the prefix of length `e` returns 1 with a list `l` whenever the recursion
bound of the model exceeds `e` (it terminates); `l` has an entry exactly
when the prefix has at least 37 bytes, ends in the magic trailer, and the
offsets stored in front of it are `e - 37` for the end and a smaller value
for the start; every entry of `l` has `data_start_offset <
data_end_offset` and `full_with_header_end_offset = data_end_offset + 37`,
the first entry ends at `e` and each following one at the
`data_start_offset` of the entry before it; and the rest of the list is the
scan of the strictly shorter prefix of length `data_start_offset`. -/
theorem C39_embedded_pak_scan (loadU64 : List Nat → Nat) (file : List Nat)
    (h0 : 0 < file.length) (hmax : file.length < 9223372036854775808)
    (e : Nat) (he : e ≤ file.length) (fuel : Nat) (hf : e < fuel) :
    ∃ l, _vfs_GetEmbbeddedPakInfoByVFSFile_Do loadU64 file fuel
        ((file.length : Int) - e) = .found l ∧
      (l ≠ [] ↔ PakTrailerAt loadU64 file e) ∧
      PakChain e l ∧
      (∀ i rest, l = i :: rest →
        i.data_start_offset < e ∧
        _vfs_GetEmbbeddedPakInfoByVFSFile_Do loadU64 file (fuel - 1)
          ((file.length : Int) - i.data_start_offset) = .found rest) := by
  induction e using Nat.strong_induction_on generalizing fuel with
  | _ e ih =>
    obtain ⟨f, rfl⟩ : ∃ f, fuel = f + 1 := ⟨fuel - 1, by omega⟩
    rw [pakScan_step loadU64 file hmax e he h0 f]
    by_cases hp : PakTrailerAt loadU64 file e
    · rw [if_pos hp]
      have hp' := hp
      obtain ⟨h37, _, hend, hlt⟩ := hp'
      have e29 : List.drop (e - 29) (List.take e file) =
          List.drop 8 (List.drop (e - 37) (List.take e file)) := by
        rw [List.drop_drop]
        congr 1
        omega
      generalize hs : loadU64 (((file.take e).drop (e - 37)).take 8) %
        18446744073709551616 = s at hlt ⊢
      have hse : s < e - 37 := by omega
      obtain ⟨l1, hl1, _, hchain, _⟩ := ih s (by omega) (by omega) f
        (by omega)
      rw [hl1]
      refine ⟨_, rfl, ⟨fun _ => hp, fun _ => List.cons_ne_nil _ _⟩,
        ⟨hse, by show e = e - 37 + 37; omega, rfl, hchain⟩, ?_⟩
      intro i rest hi
      cases hi
      exact ⟨by show s < e; omega, hl1⟩
    · rw [if_neg hp]
      refine ⟨[], rfl, ⟨fun h => absurd rfl h, fun h => absurd h hp⟩, trivial,
        ?_⟩
      intro i rest hi
      cases hi

theorem C39_embedded_pak_scan_witness :
    ∃ l, _vfs_GetEmbbeddedPakInfoByVFSFile_Do loadU64LE twoPakFile 77
        ((twoPakFile.length : Int) - (76 : Nat)) = .found l ∧
      (l ≠ [] ↔ PakTrailerAt loadU64LE twoPakFile 76) ∧
      PakChain 76 l ∧
      (∀ i rest, l = i :: rest →
        i.data_start_offset < 76 ∧
        _vfs_GetEmbbeddedPakInfoByVFSFile_Do loadU64LE twoPakFile (77 - 1)
          ((twoPakFile.length : Int) - i.data_start_offset) =
            .found rest) :=
  C39_embedded_pak_scan loadU64LE twoPakFile (by decide) (by decide) 76
    (by decide) 77 (by decide)

/-- The scan of `twoPakFile` from its end, as `vfs_GetEmbbeddedPakInfoByVFSFile`
starts it, finds both paks; of a file without trailer it finds none, and on
an empty file it returns 0. -/
theorem pakScan_samples :
    _vfs_GetEmbbeddedPakInfoByVFSFile_Do loadU64LE twoPakFile 77 0 =
      .found [⟨38, 39, 38, 76⟩, ⟨0, 1, 0, 38⟩] ∧
    _vfs_GetEmbbeddedPakInfoByVFSFile_Do loadU64LE [1, 2, 3] 4 0 =
      .found [] ∧
    _vfs_GetEmbbeddedPakInfoByVFSFile_Do loadU64LE [] 1 0 = .failed := by
  decide

/-! Claims C32 and C37: `lexer_ParseStringLiteral`. -/

/-- The line break branch of the loop: on a byte `\n` or `\r` one `\n` is
written, the line counter rises by one and the index by exactly one, also
when the byte is `\r` and a `\n` follows: the byte `p[k - 1]` that is
compared with `\r` is the `\n` just written. -/
theorem strLitStep_line_break (fn : StringLitFuncs)
    (wconfig : Option H64CompileWarnConfig) (literal : List Nat)
    (isbinary : Bool) (s : StrLitState)
    (hc : literal.getD s.i 0 = 10 ∨ literal.getD s.i 0 = 13)
    (hlen : 0 < (if isbinary then 1 else fn.utf8_char_len (literal.drop s.i))) :
    strLitStep fn wconfig literal isbinary s =
      .next { s with i := s.i + 1, out := s.out ++ [10],
                     line := s.line + 1, column := 1 } := by
  unfold strLitStep
  dsimp only
  rw [if_neg (by omega)]
  have h92 : literal.getD s.i 0 ≠ 92 := by
    rcases hc with h | h <;> rw [h] <;> decide
  rw [if_pos h92, if_pos hc]
  have hlast : (s.out ++ [10]).getD ((s.out ++ [10]).length - 1) 0 = 10 := by
    simp
  rw [hlast]
  rw [if_neg (by
    rintro ⟨h, _⟩
    exact absurd h (by decide))]

/-- C32, on the code: the literal `"a\r\nb"` with a Windows line break in
its body is returned as the four bytes `a`, `\n`, `\n`, `b`, and the line
counter is advanced twice, from 1 to 3; the literals with a lone `\r` or a
lone `\n` are returned with one `\n` and the line counter advanced once. -/
theorem C32_windows_line_break_yields_two_newlines :
    lexer_ParseStringLiteral sampleStringLitFuncs [34, 97, 13, 10, 98, 34]
      1 1 false ⟨true, []⟩ (some warningconfig_Init) =
      .done [97, 10, 10, 98] 4 3 2 ⟨true, []⟩ ∧
    lexer_ParseStringLiteral sampleStringLitFuncs [34, 97, 13, 98, 34]
      1 1 false ⟨true, []⟩ (some warningconfig_Init) =
      .done [97, 10, 98] 3 2 2 ⟨true, []⟩ ∧
    lexer_ParseStringLiteral sampleStringLitFuncs [34, 97, 10, 98, 34]
      1 1 false ⟨true, []⟩ (some warningconfig_Init) =
      .done [97, 10, 98] 3 2 2 ⟨true, []⟩ := by
  decide

/-- The `\u` branch with fewer than four digits records its warning
whatever the warning configuration is. -/
theorem strLitStep_short_unicode_escape (fn : StringLitFuncs)
    (wconfig : Option H64CompileWarnConfig) (literal : List Nat)
    (isbinary : Bool) (s : StrLitState)
    (hc : literal.getD s.i 0 = 92) (hu : literal.getD (s.i + 1) 0 = 117)
    (hin : (s.i : Int) + 1 < (literal.length : Int) - 1)
    (hlen : 0 < (if isbinary then 1 else fn.utf8_char_len (literal.drop s.i)))
    (hd : (collectHexDigits literal ((literal.length : Int) - 1) 8
      (s.i + 2) []).2.length < 4) :
    ∃ s1, strLitStep fn wconfig literal isbinary s = .next s1 ∧
      s1.resultmsg =
        result_AddMessage s.resultmsg .warning shortUnicodeEscapeMsg := by
  unfold strLitStep
  dsimp only
  rw [if_neg (by omega), if_neg (fun h => h hc), if_pos hin, hu]
  simp only [show ¬ ((117 : Nat) = 110) by decide,
    show ¬ ((117 : Nat) = 114) by decide,
    show ¬ ((117 : Nat) = 116) by decide,
    show ¬ ((117 : Nat) = 92) by decide,
    show ¬ ((117 : Nat) = 34) by decide,
    show ¬ ((117 : Nat) = 39) by decide, if_false, if_true]
  rw [if_pos hd]
  exact ⟨_, rfl, rfl⟩

theorem escape_messages_tagged :
    (⟨.warning, shortUnicodeEscapeMsg⟩ : Message).escapeTagged = true ∧
    (⟨.warning, badUnicodeEscapeMsg⟩ : Message).escapeTagged = true ∧
    (⟨.warning, badByteEscapeMsg⟩ : Message).escapeTagged = true ∧
    (⟨.warning, unrecognizedEscapeMsg 113⟩ : Message).escapeTagged = true := by
  decide

/-- C37, on the code: with `warn_unrecognized_escape_sequences` disabled
(the configuration after `-Wno-unrecognized-escape-sequences`), the literal
`"\u12"` gets the warning "invalid escape "\u" not followed by hex number of
at least 4 digits was ignored [-Wunrecognized-escape-sequences]" and the
literal `"\xg"` gets "invalid escape "\x" not followed by hex number was
ignored [-Wunrecognized-escape-sequences]"; the literal `"\q"` gets no
warning with the flag disabled and the tagged warning with the flag
enabled. -/
theorem C37_malformed_escape_warns_with_flag_disabled :
    noEscapeWarnings.warn_unrecognized_escape_sequences = 0 ∧
    (lexer_ParseStringLiteral sampleStringLitFuncs [34, 92, 117, 49, 50, 34]
      1 1 false ⟨true, []⟩ (some noEscapeWarnings)).messages =
      [⟨.warning, shortUnicodeEscapeMsg⟩] ∧
    (lexer_ParseStringLiteral sampleStringLitFuncs [34, 92, 120, 103, 34]
      1 1 false ⟨true, []⟩ (some noEscapeWarnings)).messages =
      [⟨.warning, badByteEscapeMsg⟩] ∧
    (⟨.warning, shortUnicodeEscapeMsg⟩ : Message).escapeTagged = true ∧
    (⟨.warning, badByteEscapeMsg⟩ : Message).escapeTagged = true ∧
    (lexer_ParseStringLiteral sampleStringLitFuncs [34, 92, 113, 34]
      1 1 false ⟨true, []⟩ (some noEscapeWarnings)).messages = [] ∧
    (lexer_ParseStringLiteral sampleStringLitFuncs [34, 92, 113, 34]
      1 1 false ⟨true, []⟩ (some warningconfig_Init)).messages =
      [⟨.warning, unrecognizedEscapeMsg 113⟩] := by
  decide

/-! Claim C36: number literals with a radix prefix. -/

/-- The literal `0x` is scanned as the text `0x`, which ends in `x`: it
yields an invalid token and the error "unexpected end of literal ...". -/
theorem lexNumberLiteral_hex_without_digits (fn : NumberFuncs)
    (startline startcolumn : Int) (resultmsg : H64Result) :
    lexNumberLiteral fn startline startcolumn [48, 120] resultmsg =
      some ⟨⟨.H64TK_INVALID, 0, 0⟩,
        result_AddMessage resultmsg .error
          (unexpectedEndMsg startline startcolumn), []⟩ := by
  have hscan : scanNumber [48, 120] NumScan.start =
      (⟨[48, 120], true, false, false, true, true, false⟩, []) := by
    decide
  unfold lexNumberLiteral
  rw [hscan]
  simp [isDigitByte]

/-- C36, on the code: the literal `0b` is scanned as the text `0b`, whose
last byte `b` passes the test for a final digit (it lies in `a`..`f`), so no
"unexpected end of literal" error is reported, the conversion branch is
reached with a text of two bytes and `assert(numbuflen >= 3)` is violated;
the literal `00b1` reaches the conversion branch with the text `00b1` and
`assert(numbuf[0] == '0' && (numbuf[1] == 'x' || numbuf[1] == 'b'))` is
violated.  Both hold whatever the conversion functions, the position and the
result container are. -/
theorem C36_radix_literals_violate_asserts (fn : NumberFuncs)
    (startline startcolumn : Int) (resultmsg : H64Result) :
    (scanNumber [48, 98] NumScan.start).1.numbuf = [48, 98] ∧
    (scanNumber [48, 98] NumScan.start).1.sawxorb = true ∧
    lexNumberLiteral fn startline startcolumn [48, 98] resultmsg = none ∧
    (scanNumber [48, 48, 98, 49] NumScan.start).1.numbuf =
      [48, 48, 98, 49] ∧
    (scanNumber [48, 48, 98, 49] NumScan.start).1.sawxorb = true ∧
    lexNumberLiteral fn startline startcolumn [48, 48, 98, 49] resultmsg =
      none := by
  have h1 : scanNumber [48, 98] NumScan.start =
      (⟨[48, 98], true, false, false, true, false, true⟩, []) := by
    decide
  have h2 : scanNumber [48, 48, 98, 49] NumScan.start =
      (⟨[48, 48, 98, 49], false, true, false, true, false, true⟩, []) := by
    decide
  refine ⟨by rw [h1], by rw [h1], ?_, by rw [h2], by rw [h2], ?_⟩
  · unfold lexNumberLiteral
    rw [h1]
    simp [isDigitByte]
  · unfold lexNumberLiteral
    rw [h2]
    simp [isDigitByte]

/-- A literal with a well-formed radix prefix, `0x1F` and `0b101`, reaches
the conversion with its asserts satisfied. -/
theorem lexNumberLiteral_radix_samples :
    (lexNumberLiteral sampleNumberFuncs 1 1 [48, 120, 49, 70]
      ⟨true, []⟩).map (fun r => (r.token.type, r.resultmsg)) =
      some (.H64TK_CONSTANT_INT, ⟨true, []⟩) ∧
    (lexNumberLiteral sampleNumberFuncs 1 1 [48, 98, 49, 48, 49]
      ⟨true, []⟩).map (fun r => (r.token.type, r.resultmsg)) =
      some (.H64TK_CONSTANT_INT, ⟨true, []⟩) := by
  decide

/-! The loop stack is kept by every step of the lowerer but the entry and the
exit of a loop. -/

theorem loops_setStorageInfo (id : Nat) (si : StorageInfo) (st : GenState) :
    (setStorageInfo id si st).loops = st.loops := by
  unfold setStorageInfo
  split <;> rfl

theorem loops_appendinst (id : Nat) (inst : Inst) (st st1 : GenState)
    (h : appendinst id inst st = .ok st1 ()) : st1.loops = st.loops := by
  obtain ⟨f, _, rfl⟩ := appendinst_ok id inst st st1 h
  rfl

theorem loops_settopIncrementIn (func idx : Nat) (st : GenState) :
    (settopIncrementIn func idx st).loops = st.loops := by
  unfold settopIncrementIn
  split <;> rfl

theorem loops_newtempIn (func : Nat) (d : Bool) (st st1 : GenState)
    (t : Int) (h : newtempIn func d st = .ok st1 t) :
    st1.loops = st.loops := by
  unfold newtempIn at h
  split at h
  · cases h
  · cases h
    exact loops_setStorageInfo _ _ _

theorem loops_emitCallArgs (func idx : Nat)
    (args : List (Option String × Expr)) (ex : Bool) :
    ∀ (infos : List KwArgSortInfo) (i : Nat) (v v1 : CallLoop)
      (st st1 : GenState),
    emitCallArgs func idx args ex infos i v st = .ok st1 v1 →
    st1.loops = st.loops := by
  intro infos
  induction infos with
  | nil =>
    intro i v v1 st st1 h
    cases h
    rfl
  | cons info rest ih =>
    intro i v v1 st st1 h
    unfold emitCallArgs at h
    dsimp only at h
    split at h
    · split at h
      · cases h
      · split at h
        · rename_i st2 _ ha
          split at h
          · cases h
          · split at h
            · cases h
            · split at h
              · rename_i st4 _ hb
                rw [ih _ _ _ _ _ h, loops_appendinst _ _ _ _ hb,
                  loops_settopIncrementIn, loops_settopIncrementIn,
                  loops_appendinst _ _ _ _ ha]
              all_goals cases h
        all_goals cases h
    · split at h
      · cases h
      · split at h
        · cases h
        · split at h
          · rename_i st2 _ ha
            rw [ih _ _ _ _ _ h, loops_appendinst _ _ _ _ ha,
              loops_settopIncrementIn]
          all_goals cases h

/-- The emission of a call keeps the loop stack. -/
theorem codegen_call_to_loopsKept (env : Env)
    (itemsort : List KwArgSortInfo → List KwArgSortInfo) (func : Nat)
    (args : List (Option String × Expr)) (ex asy : Bool) (c r : Int)
    (ign : Bool) :
    Holds LoopsKept
      (_codegen_call_to env itemsort func args ex asy c r ign) := by
  intro st st1 a h
  unfold LoopsKept
  unfold _codegen_call_to at h
  split at h
  · dsimp only at h
    split at h
    · rename_i st2 _ h1
      have c1 := loops_appendinst _ _ _ _ h1
      split at h
      · split at h
        · rename_i st3 temp2 h2
          split at h
          · rename_i st4 _ h3
            split at h
            · rename_i st5 _ h4
              cases h
              rw [loops_appendinst _ _ _ _ h4, loops_appendinst _ _ _ _ h3,
                loops_newtempIn _ _ _ _ _ h2]
              exact c1
            all_goals cases h
          all_goals cases h
        all_goals cases h
      · split at h
        · rename_i st3 v h2
          have c2 := loops_emitCallArgs _ _ _ _ _ _ _ _ _ _ h2
          split at h
          · cases h
          · split at h
            · rename_i st4 _ h3
              cases h
              rw [loops_appendinst _ _ _ _ h3, loops_setStorageInfo, c2, c1]
            all_goals cases h
        all_goals cases h
    all_goals cases h
  · cases h

theorem calculateFinalFuncStack_loopsKept (e : Expr) :
    Holds LoopsKept (codegen_CalculateFinalFuncStack e) := by
  intro st st1 a h
  unfold codegen_CalculateFinalFuncStack at h
  split at h
  · dsimp only at h
    split at h
    · cases h
    · split at h
      · cases h
      · cases h
        rfl
  · cases h
    rfl

theorem fakeclassinitfunc_loopsKept (env : Env) (classidx : Int) :
    Holds LoopsKept (_fakeclassinitfunc env classidx) := by
  intro st st1 f h
  unfold LoopsKept
  unfold _fakeclassinitfunc at h
  split at h
  · cases h
  · split at h
    · cases h
    · split at h
      · cases h
        rfl
      · dsimp only at h
        cases h
        split
        · rfl
        · rw [loops_setStorageInfo]

theorem fakeglobalinitfunc_loopsKept :
    Holds LoopsKept _fakeglobalinitfunc := by
  intro st st1 f h
  unfold _fakeglobalinitfunc at h
  split at h
  · cases h
    rfl
  · cases h
    rfl

/-- Every step of the lowerer outside the `while` and `for` branches keeps
the loop stack. -/
theorem loopsKept_fullRel : FullRel LoopsKept where
  refl := fun _ => rfl
  trans := fun _ _ _ h1 h2 => Eq.trans h2 h1
  descend := fun _ _ => rfl
  oom := fun _ _ => rfl
  unexpected := fun _ _ => rfl
  astmsg := fun _ _ => rfl
  prjmsg := fun _ _ => rfl
  names := fun _ _ => rfl
  storage := fun st id _ si _ _ _ => loops_setStorageInfo id si st
  sizes := calculateFinalFuncStack_loopsKept
  plain := fun st id inst st1 _ h => loops_appendinst id inst st st1 h
  call := codegen_call_to_loopsKept
  fakeclass := fakeclassinitfunc_loopsKept
  fakeglobal := fakeglobalinitfunc_loopsKept
  flow := fun st id inst st1 _ h => loops_appendinst id inst st st1 h
  labels := fun st id _ si _ _ => loops_setStorageInfo id si st
  anystorage := fun st id si => loops_setStorageInfo id si st
  anyinst := fun st id inst st1 h => loops_appendinst id inst st st1 h

theorem loopsKept_flowRel : FlowRel LoopsKept :=
  loopsKept_fullRel.toFlowRel

theorem loopsKept_stepRel : StepRel LoopsKept :=
  loopsKept_fullRel.toStepRel

/-! Runs that stay the same when the walk they re-enter is replaced. -/

theorem loopSim_bind {α β : Type} {L : List LoopIds} {m m' : Gen α}
    {f f' : α → Gen β} (hm : LoopSim L m m')
    (hf : ∀ a, LoopSim L (f a) (f' a)) :
    LoopSim L (m >>= f) (m' >>= f') := by
  intro st st1 b hL h
  obtain ⟨a, s, h1, h2⟩ := Gen.bind_ok h
  obtain ⟨k1, k2⟩ := hm st s a hL h1
  obtain ⟨k3, k4⟩ := hf a s st1 b k2 h2
  exact ⟨(Gen.bind_run k1).trans k3, k4⟩

theorem loopSim_same {α : Type} {L : List LoopIds} {m : Gen α}
    (h : Holds LoopsKept m) : LoopSim L m m :=
  fun st st1 a hL k => ⟨k, (h st st1 a k).trans hL⟩

theorem guardLoops_sim {L : List LoopIds} {v w : Visitor}
    (hv : ∀ e ctx, LoopSim L (v e ctx) (w e ctx)) (e : Expr) (ctx : Ctx) :
    LoopSim L (v e ctx) (guardLoops L w e ctx) := by
  intro st st1 a hL h
  unfold guardLoops
  rw [if_pos hL]
  exact hv e ctx st st1 a hL h

theorem visitChildIn_sim {L : List LoopIds} {v w : Visitor} (child : Expr)
    (ctx : Ctx) (hv : ∀ e ctx, LoopSim L (v e ctx) (w e ctx)) :
    LoopSim L (visitChildIn v child ctx) (visitChildIn w child ctx) := by
  intro st st1 a hL h
  unfold visitChildIn at h
  split at h
  · rename_i st2 c hc
    cases h
    obtain ⟨k1, k2⟩ := hv _ _ _ _ _ (show
      ({ st with dont_descend_visitation := false } : GenState).loops = L
      from hL) hc
    unfold visitChildIn
    rw [k1]
    exact ⟨rfl, k2⟩
  all_goals cases h

theorem visitChildOom_sim {L : List LoopIds} {v w : Visitor} (child : Expr)
    (ctx : Ctx) (hv : ∀ e ctx, LoopSim L (v e ctx) (w e ctx)) :
    LoopSim L (visitChildOom v child ctx) (visitChildOom w child ctx) := by
  intro st st1 a hL h
  unfold visitChildOom at h
  split at h
  · rename_i st2 c hc
    cases h
    obtain ⟨k1, k2⟩ := hv _ _ _ _ _ (show
      ({ st with dont_descend_visitation := false } : GenState).loops = L
      from hL) hc
    unfold visitChildOom
    rw [k1]
    exact ⟨rfl, k2⟩
  all_goals cases h

theorem visitChild_sim {L : List LoopIds} {v w : Visitor} (expr : Expr)
    (ctx : Ctx) (slot : Slot) (child : Expr)
    (hv : ∀ e ctx, LoopSim L (v e ctx) (w e ctx)) :
    LoopSim L (visitChild v expr ctx slot child)
      (visitChild w expr ctx slot child) :=
  visitChildIn_sim child _ hv

theorem visitStmts_sim {L : List LoopIds} {v w : Visitor} (expr : Expr)
    (ctx : Ctx) (stmts : List Expr)
    (hv : ∀ e ctx, LoopSim L (v e ctx) (w e ctx)) :
    LoopSim L (visitStmts v expr ctx stmts)
      (visitStmts w expr ctx stmts) := by
  induction stmts with
  | nil => exact loopSim_same (Holds.genPure loopsKept_stepRel _)
  | cons s rest ih =>
    unfold visitStmts
    repeat any_goals (first
      | with_reducible exact ih
      | with_reducible exact loopSim_same (Holds.pure loopsKept_stepRel _)
      | with_reducible exact visitChild_sim _ _ _ _ hv
      | with_reducible refine loopSim_bind ?_ (fun _ => ?_))

theorem visitStmtsFreeing_sim {L : List LoopIds} {v w : Visitor}
    (self : FuncRef) (expr : Expr) (ctx : Ctx) (stmts : List Expr)
    (hv : ∀ e ctx, LoopSim L (v e ctx) (w e ctx)) :
    LoopSim L (visitStmtsFreeing v self expr ctx stmts)
      (visitStmtsFreeing w self expr ctx stmts) := by
  induction stmts with
  | nil => exact loopSim_same (Holds.genPure loopsKept_stepRel _)
  | cons s rest ih =>
    unfold visitStmtsFreeing
    repeat any_goals (first
      | with_reducible exact ih
      | with_reducible exact loopSim_same (Holds.pure loopsKept_stepRel _)
      | with_reducible exact visitChild_sim _ _ _ _ hv
      | with_reducible exact loopSim_same (freeLineTemps_holds loopsKept_stepRel _)
      | with_reducible refine loopSim_bind ?_ (fun _ => ?_))

theorem visitArgs_sim {L : List LoopIds} {v w : Visitor} (chain : Ctx)
    (args : List (Option String × Expr))
    (hv : ∀ e ctx, LoopSim L (v e ctx) (w e ctx)) :
    LoopSim L (visitArgs v chain args)
      (visitArgs w chain args) := by
  induction args with
  | nil => exact loopSim_same (Holds.genPure loopsKept_stepRel _)
  | cons a rest ih =>
    obtain ⟨name, arg⟩ := a
    unfold visitArgs
    repeat any_goals (first
      | with_reducible exact ih
      | with_reducible exact loopSim_same (Holds.pure loopsKept_stepRel _)
      | with_reducible exact visitChildIn_sim _ _ hv
      | with_reducible refine loopSim_bind ?_ (fun _ => ?_))

theorem visitKwDefaults_sim {L : List LoopIds} {v w : Visitor} (env : Env)
    (self : FuncRef) (expr : Expr) (ctx : Ctx) (args : List (Option Expr))
    (argtmp : Int) (hv : ∀ e ctx, LoopSim L (v e ctx) (w e ctx)) :
    LoopSim L (visitKwDefaults env v self expr ctx args argtmp)
      (visitKwDefaults env w self expr ctx args argtmp) := by
  induction args generalizing argtmp with
  | nil => exact loopSim_same (Holds.genPure loopsKept_stepRel _)
  | cons a rest ih =>
    cases a with
    | none =>
      unfold visitKwDefaults
      repeat any_goals (first
        | with_reducible exact ih _
        | with_reducible exact loopSim_same (Holds.pure loopsKept_stepRel _)
        | with_reducible refine loopSim_bind ?_ (fun _ => ?_))
    | some value =>
      unfold visitKwDefaults
      repeat any_goals (first
        | with_reducible exact ih _
        | with_reducible exact loopSim_same (Holds.pure loopsKept_stepRel _)
        | with_reducible exact loopSim_same (Holds.oom)
        | with_reducible exact loopSim_same (Holds.assert loopsKept_stepRel _)
        | with_reducible exact loopSim_same (newJumpId_holds loopsKept_flowRel _)
        | with_reducible exact loopSim_same (newtemp_holds loopsKept_stepRel _ _)
        | with_reducible exact loopSim_same (freeLineTemps_holds loopsKept_stepRel _)
        | with_reducible exact visitChild_sim _ _ _ _ hv
        | with_reducible exact loopSim_same (emitAny_holds loopsKept_fullRel _ _)
        | with_reducible refine loopSim_bind ?_ (fun _ => ?_)
        | split
        | dsimp only)

theorem visitIfClauses_sim {L : List LoopIds} {v w : Visitor} (func : FuncRef)
    (expr : Expr) (ctx : Ctx) (jumpid_end : Int) (conditional : Option Expr)
    (stmt : List Expr) (rest : List (Option Expr × List Expr))
    (hv : ∀ e ctx, LoopSim L (v e ctx) (w e ctx)) :
    LoopSim L (visitIfClauses v func expr ctx jumpid_end conditional stmt
      rest)
      (visitIfClauses w func expr ctx jumpid_end conditional stmt rest) := by
  induction rest generalizing conditional stmt with
  | nil =>
    unfold visitIfClauses
    repeat any_goals (first
      | with_reducible exact loopSim_same (Holds.pure loopsKept_stepRel _)
      | with_reducible exact loopSim_same (Holds.assert loopsKept_stepRel _)
      | with_reducible exact loopSim_same (setDescend_holds loopsKept_stepRel _)
      | with_reducible exact visitChild_sim _ _ _ _ hv
      | with_reducible exact visitStmts_sim _ _ _ hv
      | with_reducible exact loopSim_same (emitAny_holds loopsKept_fullRel _ _)
      | with_reducible refine loopSim_bind ?_ (fun _ => ?_)
      | split
      | dsimp only)
  | cons c rest ih =>
    obtain ⟨nextcond, nextstmt⟩ := c
    unfold visitIfClauses
    repeat any_goals (first
      | with_reducible exact ih _ _
      | with_reducible exact loopSim_same (Holds.pure loopsKept_stepRel _)
      | with_reducible exact loopSim_same (Holds.assert loopsKept_stepRel _)
      | with_reducible exact loopSim_same (newJumpId_holds loopsKept_flowRel _)
      | with_reducible exact loopSim_same (setDescend_holds loopsKept_stepRel _)
      | with_reducible exact visitChild_sim _ _ _ _ hv
      | with_reducible exact visitStmts_sim _ _ _ hv
      | with_reducible exact loopSim_same (emitAny_holds loopsKept_fullRel _ _)
      | with_reducible refine loopSim_bind ?_ (fun _ => ?_)
      | split
      | dsimp only)

theorem visitInBoolCond_sim {L : List LoopIds} {v w : Visitor} (env : Env)
    (func : Option FuncRef) (expr : Expr) (ctx : Ctx) (s : Storage)
    (optype : H64Op) (value1 value2 : Expr)
    (hv : ∀ e ctx, LoopSim L (v e ctx) (w e ctx)) :
    LoopSim L (visitInBoolCond env v func expr ctx s optype value1 value2)
      (visitInBoolCond env w func expr ctx s optype value1 value2) := by
  unfold visitInBoolCond
  repeat any_goals (first
    | with_reducible exact loopSim_same (Holds.pure loopsKept_stepRel _)
    | with_reducible exact loopSim_same (Holds.genPure loopsKept_stepRel _)
    | with_reducible exact loopSim_same (Holds.oom)
    | with_reducible exact loopSim_same (Holds.unexpected)
    | with_reducible exact loopSim_same (Holds.abort)
    | with_reducible exact loopSim_same (Holds.fail)
    | with_reducible exact loopSim_same (Holds.assert loopsKept_stepRel _)
    | with_reducible exact loopSim_same (Holds.ofOption loopsKept_stepRel _)
    | with_reducible exact loopSim_same (Holds.get loopsKept_stepRel)
    | with_reducible exact loopSim_same (emitAny_holds loopsKept_fullRel _ _)
    | with_reducible exact loopSim_same (new1linetemp_holds loopsKept_stepRel _ _ _ _)
    | with_reducible exact loopSim_same (setDescend_holds loopsKept_stepRel _)
    | with_reducible exact loopSim_same (newJumpId_holds loopsKept_flowRel _)
    | with_reducible exact visitChild_sim _ _ _ _ hv
    | with_reducible refine loopSim_bind ?_ (fun _ => ?_)
    | split
    | dsimp only)

theorem visitInRaise_sim {L : List LoopIds} {v w : Visitor}
    (func : Option FuncRef) (expr : Expr) (ctx : Ctx) (s : Storage)
    (raised_expression : Expr) (hv : ∀ e ctx, LoopSim L (v e ctx) (w e ctx)) :
    LoopSim L (visitInRaise v func expr ctx s raised_expression)
      (visitInRaise w func expr ctx s raised_expression) := by
  unfold visitInRaise
  repeat any_goals (first
    | with_reducible exact loopSim_same (Holds.pure loopsKept_stepRel _)
    | with_reducible exact loopSim_same (Holds.genPure loopsKept_stepRel _)
    | with_reducible exact loopSim_same (Holds.oom)
    | with_reducible exact loopSim_same (Holds.unexpected)
    | with_reducible exact loopSim_same (Holds.abort)
    | with_reducible exact loopSim_same (Holds.fail)
    | with_reducible exact loopSim_same (Holds.assert loopsKept_stepRel _)
    | with_reducible exact loopSim_same (Holds.ofOption loopsKept_stepRel _)
    | with_reducible exact loopSim_same (Holds.get loopsKept_stepRel)
    | with_reducible exact loopSim_same (addProjectMessage_holds loopsKept_stepRel _ _)
    | with_reducible exact loopSim_same (setDescend_holds loopsKept_stepRel _)
    | with_reducible exact loopSim_same (emitAny_holds loopsKept_fullRel _ _)
    | with_reducible exact loopSim_same (freeLineTemps_holds loopsKept_stepRel _)
    | with_reducible exact visitChildIn_sim _ _ hv
    | with_reducible refine loopSim_bind ?_ (fun _ => ?_)
    | split
    | dsimp only)

theorem visitInFuncdef_sim {L : List LoopIds} {v w : Visitor} (env : Env)
    (expr : Expr) (ctx : Ctx) (s : Storage) (bytecode_func_id : Int)
    (arg_value : List (Option Expr)) (stmt : List Expr)
    (hv : ∀ e ctx, LoopSim L (v e ctx) (w e ctx)) :
    LoopSim L (visitInFuncdef env v expr ctx s bytecode_func_id arg_value
      stmt)
      (visitInFuncdef env w expr ctx s bytecode_func_id arg_value stmt) := by
  unfold visitInFuncdef
  repeat any_goals (first
    | with_reducible exact loopSim_same (Holds.pure loopsKept_stepRel _)
    | with_reducible exact loopSim_same (Holds.genPure loopsKept_stepRel _)
    | with_reducible exact loopSim_same (Holds.oom)
    | with_reducible exact loopSim_same (Holds.unexpected)
    | with_reducible exact loopSim_same (Holds.abort)
    | with_reducible exact loopSim_same (Holds.fail)
    | with_reducible exact loopSim_same (Holds.assert loopsKept_stepRel _)
    | with_reducible exact loopSim_same (Holds.ofOption loopsKept_stepRel _)
    | with_reducible exact loopSim_same (Holds.get loopsKept_stepRel)
    | with_reducible exact loopSim_same (setDescend_holds loopsKept_stepRel _)
    | with_reducible exact loopSim_same (freeLineTemps_holds loopsKept_stepRel _)
    | with_reducible exact visitStmtsFreeing_sim _ _ _ _ hv
    | with_reducible exact visitKwDefaults_sim _ _ _ _ _ _ hv
    | with_reducible refine loopSim_bind ?_ (fun _ => ?_)
    | split
    | dsimp only)

theorem visitInNew_sim {L : List LoopIds} {v w : Visitor} (env : Env)
    (itemsort : List KwArgSortInfo → List KwArgSortInfo)
    (func : Option FuncRef) (expr : Expr) (ctx : Ctx) (s : Storage)
    (value1 : Expr) (hv : ∀ e ctx, LoopSim L (v e ctx) (w e ctx)) :
    LoopSim L (visitInNew env itemsort v func expr ctx s value1)
      (visitInNew env itemsort w func expr ctx s value1) := by
  unfold visitInNew
  repeat any_goals (first
    | with_reducible exact loopSim_same (Holds.pure loopsKept_stepRel _)
    | with_reducible exact loopSim_same (Holds.genPure loopsKept_stepRel _)
    | with_reducible exact loopSim_same (Holds.oom)
    | with_reducible exact loopSim_same (Holds.unexpected)
    | with_reducible exact loopSim_same (Holds.abort)
    | with_reducible exact loopSim_same (Holds.fail)
    | with_reducible exact loopSim_same (Holds.assert loopsKept_stepRel _)
    | with_reducible exact loopSim_same (Holds.ofOption loopsKept_stepRel _)
    | with_reducible exact loopSim_same (Holds.get loopsKept_stepRel)
    | with_reducible exact loopSim_same (new1linetemp_holds loopsKept_stepRel _ _ _ _)
    | with_reducible exact loopSim_same (setDescend_holds loopsKept_stepRel _)
    | with_reducible exact loopSim_same (storageOf_holds loopsKept_stepRel _)
    | with_reducible exact loopSim_same (emitAny_holds loopsKept_fullRel _ _)
    | with_reducible exact loopSim_same (callTo_holds loopsKept_stepRel _ _ _ _ _ _ _ _ _)
    | with_reducible exact loopSim_same (enforce_dostmt_limit_holds loopsKept_stepRel _)
    | with_reducible exact visitChildIn_sim _ _ hv
    | with_reducible exact visitArgs_sim _ _ hv
    | with_reducible refine loopSim_bind ?_ (fun _ => ?_)
    | split
    | dsimp only)

theorem visitInHasAttr_sim {L : List LoopIds} {v w : Visitor} (env : Env)
    (func : Option FuncRef) (expr : Expr) (ctx : Ctx) (s : Storage)
    (value : Expr) (arguments : List (Option String × Expr))
    (expand is_async : Bool) (hv : ∀ e ctx, LoopSim L (v e ctx) (w e ctx)) :
    LoopSim L (visitInHasAttr env v func expr ctx s value arguments expand
      is_async)
      (visitInHasAttr env w func expr ctx s value arguments expand is_async) := by
  unfold visitInHasAttr
  repeat any_goals (first
    | with_reducible exact loopSim_same (Holds.pure loopsKept_stepRel _)
    | with_reducible exact loopSim_same (Holds.genPure loopsKept_stepRel _)
    | with_reducible exact loopSim_same (Holds.oom)
    | with_reducible exact loopSim_same (Holds.unexpected)
    | with_reducible exact loopSim_same (Holds.abort)
    | with_reducible exact loopSim_same (Holds.fail)
    | with_reducible exact loopSim_same (Holds.assert loopsKept_stepRel _)
    | with_reducible exact loopSim_same (Holds.ofOption loopsKept_stepRel _)
    | with_reducible exact loopSim_same (Holds.get loopsKept_stepRel)
    | with_reducible exact loopSim_same (emitAny_holds loopsKept_fullRel _ _)
    | with_reducible exact loopSim_same (new1linetemp_holds loopsKept_stepRel _ _ _ _)
    | with_reducible exact loopSim_same (addProjectMessage_holds loopsKept_stepRel _ _)
    | with_reducible exact loopSim_same (setDescend_holds loopsKept_stepRel _)
    | with_reducible exact loopSim_same (newJumpId_holds loopsKept_flowRel _)
    | with_reducible exact loopSim_same (lookupAttributeName_holds loopsKept_stepRel _ _)
    | with_reducible exact visitChildOom_sim _ _ hv
    | with_reducible refine loopSim_bind ?_ (fun _ => ?_)
    | split
    | dsimp only)

theorem visitInGiven_sim {L : List LoopIds} {v w : Visitor}
    (func : Option FuncRef) (expr : Expr) (ctx : Ctx) (s : Storage)
    (condition valueyes valueno : Expr)
    (hv : ∀ e ctx, LoopSim L (v e ctx) (w e ctx)) :
    LoopSim L (visitInGiven v func expr ctx s condition valueyes valueno)
      (visitInGiven w func expr ctx s condition valueyes valueno) := by
  unfold visitInGiven
  repeat any_goals (first
    | with_reducible exact loopSim_same (Holds.pure loopsKept_stepRel _)
    | with_reducible exact loopSim_same (Holds.genPure loopsKept_stepRel _)
    | with_reducible exact loopSim_same (Holds.oom)
    | with_reducible exact loopSim_same (Holds.unexpected)
    | with_reducible exact loopSim_same (Holds.abort)
    | with_reducible exact loopSim_same (Holds.fail)
    | with_reducible exact loopSim_same (Holds.assert loopsKept_stepRel _)
    | with_reducible exact loopSim_same (Holds.ofOption loopsKept_stepRel _)
    | with_reducible exact loopSim_same (Holds.get loopsKept_stepRel)
    | with_reducible exact loopSim_same (emitAny_holds loopsKept_fullRel _ _)
    | with_reducible exact loopSim_same (new1linetemp_holds loopsKept_stepRel _ _ _ _)
    | with_reducible exact loopSim_same (setDescend_holds loopsKept_stepRel _)
    | with_reducible exact loopSim_same (newJumpId_holds loopsKept_flowRel _)
    | with_reducible exact visitChild_sim _ _ _ _ hv
    | with_reducible refine loopSim_bind ?_ (fun _ => ?_)
    | split
    | dsimp only)

theorem visitInIf_sim {L : List LoopIds} {v w : Visitor}
    (func : Option FuncRef) (expr : Expr) (ctx : Ctx) (s : Storage)
    (conditional : Option Expr) (stmt : List Expr)
    (followup_clause : List (Option Expr × List Expr))
    (hv : ∀ e ctx, LoopSim L (v e ctx) (w e ctx)) :
    LoopSim L (visitInIf v func expr ctx s conditional stmt followup_clause)
      (visitInIf w func expr ctx s conditional stmt followup_clause) := by
  unfold visitInIf
  repeat any_goals (first
    | with_reducible exact loopSim_same (Holds.pure loopsKept_stepRel _)
    | with_reducible exact loopSim_same (Holds.genPure loopsKept_stepRel _)
    | with_reducible exact loopSim_same (Holds.oom)
    | with_reducible exact loopSim_same (Holds.unexpected)
    | with_reducible exact loopSim_same (Holds.abort)
    | with_reducible exact loopSim_same (Holds.fail)
    | with_reducible exact loopSim_same (Holds.assert loopsKept_stepRel _)
    | with_reducible exact loopSim_same (Holds.ofOption loopsKept_stepRel _)
    | with_reducible exact loopSim_same (Holds.get loopsKept_stepRel)
    | with_reducible exact loopSim_same (setDescend_holds loopsKept_stepRel _)
    | with_reducible exact loopSim_same (freeLineTemps_holds loopsKept_stepRel _)
    | with_reducible exact loopSim_same (newJumpId_holds loopsKept_flowRel _)
    | with_reducible exact visitIfClauses_sim _ _ _ _ _ _ _ hv
    | with_reducible refine loopSim_bind ?_ (fun _ => ?_)
    | split
    | dsimp only)

theorem visitOpt_sim {L : List LoopIds} {v w : Visitor} (expr : Expr)
    (ctx : Ctx) (slot : Slot) (child : Option Expr)
    (hv : ∀ e ctx, LoopSim L (v e ctx) (w e ctx)) :
    LoopSim L (visitOpt v expr ctx slot child)
      (visitOpt w expr ctx slot child) := by
  cases child with
  | none => exact loopSim_same (Holds.genPure loopsKept_stepRel _)
  | some c =>
    unfold visitOpt
    exact loopSim_bind (hv _ _) (fun _ => loopSim_same (Holds.pure loopsKept_stepRel _))

theorem visitList_sim {L : List LoopIds} {v w : Visitor} (expr : Expr)
    (ctx : Ctx) (l : List Expr) (hv : ∀ e ctx, LoopSim L (v e ctx) (w e ctx)) :
    LoopSim L (visitList v expr ctx l)
      (visitList w expr ctx l) := by
  induction l with
  | nil => exact loopSim_same (Holds.genPure loopsKept_stepRel _)
  | cons c rest ih =>
    unfold visitList
    exact loopSim_bind (hv _ _)
      (fun _ => loopSim_bind ih (fun _ => loopSim_same (Holds.pure loopsKept_stepRel _)))

theorem visitOptList_sim {L : List LoopIds} {v w : Visitor} (expr : Expr)
    (ctx : Ctx) (l : List (Option Expr))
    (hv : ∀ e ctx, LoopSim L (v e ctx) (w e ctx)) :
    LoopSim L (visitOptList v expr ctx l)
      (visitOptList w expr ctx l) := by
  induction l with
  | nil => exact loopSim_same (Holds.genPure loopsKept_stepRel _)
  | cons c rest ih =>
    unfold visitOptList
    exact loopSim_bind (visitOpt_sim _ _ _ _ hv)
      (fun _ => loopSim_bind ih (fun _ => loopSim_same (Holds.pure loopsKept_stepRel _)))

theorem visitArgList_sim {L : List LoopIds} {v w : Visitor} (expr : Expr)
    (ctx : Ctx) (l : List (Option String × Expr))
    (hv : ∀ e ctx, LoopSim L (v e ctx) (w e ctx)) :
    LoopSim L (visitArgList v expr ctx l)
      (visitArgList w expr ctx l) := by
  induction l with
  | nil => exact loopSim_same (Holds.genPure loopsKept_stepRel _)
  | cons c rest ih =>
    obtain ⟨name, arg⟩ := c
    unfold visitArgList
    exact loopSim_bind (hv _ _)
      (fun _ => loopSim_bind ih (fun _ => loopSim_same (Holds.pure loopsKept_stepRel _)))

theorem visitPairs_sim {L : List LoopIds} {v w : Visitor} (expr : Expr)
    (ctx : Ctx) (l : List (Expr × Expr))
    (hv : ∀ e ctx, LoopSim L (v e ctx) (w e ctx)) :
    LoopSim L (visitPairs v expr ctx l)
      (visitPairs w expr ctx l) := by
  induction l with
  | nil => exact loopSim_same (Holds.genPure loopsKept_stepRel _)
  | cons c rest ih =>
    obtain ⟨k, v⟩ := c
    unfold visitPairs
    exact loopSim_bind (hv _ _) (fun _ => loopSim_bind (hv _ _)
      (fun _ => loopSim_bind ih (fun _ => loopSim_same (Holds.pure loopsKept_stepRel _))))

theorem visitClauses_sim {L : List LoopIds} {v w : Visitor} (expr : Expr)
    (ctx : Ctx) (l : List (Option Expr × List Expr))
    (hv : ∀ e ctx, LoopSim L (v e ctx) (w e ctx)) :
    LoopSim L (visitClauses v expr ctx l)
      (visitClauses w expr ctx l) := by
  induction l with
  | nil => exact loopSim_same (Holds.genPure loopsKept_stepRel _)
  | cons c rest ih =>
    obtain ⟨cond, stmt⟩ := c
    unfold visitClauses
    exact loopSim_bind (visitOpt_sim _ _ _ _ hv)
      (fun _ => loopSim_bind (visitList_sim _ _ _ hv)
        (fun _ => loopSim_bind ih (fun _ => loopSim_same (Holds.pure loopsKept_stepRel _))))

theorem visitChildren_sim {L : List LoopIds} {v w : Visitor} (expr : Expr)
    (ctx : Ctx) (hv : ∀ e ctx, LoopSim L (v e ctx) (w e ctx)) :
    LoopSim L (visitChildren v expr ctx)
      (visitChildren w expr ctx) := by
  unfold visitChildren
  repeat any_goals (first
    | with_reducible exact loopSim_same (Holds.pure loopsKept_stepRel _)
    | with_reducible exact loopSim_same (Holds.genPure loopsKept_stepRel _)
    | with_reducible exact hv _ _
    | with_reducible exact visitOpt_sim _ _ _ _ hv
    | with_reducible exact visitList_sim _ _ _ hv
    | with_reducible exact visitOptList_sim _ _ _ hv
    | with_reducible exact visitArgList_sim _ _ _ hv
    | with_reducible exact visitPairs_sim _ _ _ hv
    | with_reducible exact visitClauses_sim _ _ _ hv
    | with_reducible refine loopSim_bind ?_ (fun _ => ?_)
    | split)

theorem visitInWith_sim {L : List LoopIds} {v w : Visitor} (env : Env)
    (func : Option FuncRef) (expr : Expr) (ctx : Ctx) (s : Storage)
    (withclause stmt : List Expr)
    (hv : ∀ e ctx, LoopSim L (v e ctx) (w e ctx)) :
    LoopSim L (visitInWith env v func expr ctx s withclause stmt)
      (visitInWith env w func expr ctx s withclause stmt) := by
  unfold visitInWith
  repeat any_goals (first
    | with_reducible exact loopSim_same (Holds.pure loopsKept_stepRel _)
    | with_reducible exact loopSim_same (Holds.assert loopsKept_stepRel _)
    | with_reducible exact loopSim_same (Holds.ofOption loopsKept_stepRel _)
    | with_reducible exact loopSim_same (setDescend_holds loopsKept_stepRel _)
    | with_reducible exact loopSim_same (enforce_dostmt_limit_holds loopsKept_stepRel _)
    | with_reducible exact loopSim_same (newDoStmtId_holds loopsKept_fullRel _)
    | with_reducible exact loopSim_same (newJumpId_holds loopsKept_flowRel _)
    | with_reducible exact loopSim_same (withSetNone_holds loopsKept_stepRel _ _)
    | with_reducible exact loopSim_same (withCloseCalls_holds loopsKept_fullRel _ _ _)
    | with_reducible exact loopSim_same (popFramesReversed_holds loopsKept_fullRel _ _)
    | with_reducible exact visitStmts_sim _ _ _ hv
    | with_reducible exact visitStmtsFreeing_sim _ _ _ _ hv
    | with_reducible exact loopSim_same (freeLineTemps_holds loopsKept_stepRel _)
    | with_reducible exact loopSim_same (emitAny_holds loopsKept_fullRel _ _)
    | with_reducible refine loopSim_bind ?_ (fun _ => ?_)
    | split
    | dsimp only)

theorem visitInDo_sim {L : List LoopIds} {v w : Visitor}
    (func : Option FuncRef) (expr : Expr) (ctx : Ctx) (s : Storage)
    (dostmt errors rescuestmt : List Expr) (has_finally_block : Bool)
    (finallystmt : List Expr) (hv : ∀ e ctx, LoopSim L (v e ctx) (w e ctx)) :
    LoopSim L (visitInDo v func expr ctx s dostmt errors rescuestmt
      has_finally_block finallystmt)
      (visitInDo w func expr ctx s dostmt errors rescuestmt
        has_finally_block finallystmt) := by
  unfold visitInDo
  repeat any_goals (first
    | with_reducible exact loopSim_same (Holds.pure loopsKept_stepRel _)
    | with_reducible exact loopSim_same (Holds.assert loopsKept_stepRel _)
    | with_reducible exact loopSim_same (Holds.ofOption loopsKept_stepRel _)
    | with_reducible exact loopSim_same (setDescend_holds loopsKept_stepRel _)
    | with_reducible exact loopSim_same (enforce_dostmt_limit_holds loopsKept_stepRel _)
    | with_reducible exact loopSim_same (newDoStmtId_holds loopsKept_fullRel _)
    | with_reducible exact loopSim_same (newJumpId_holds loopsKept_flowRel _)
    | with_reducible exact loopSim_same (doAddRescueTypes_holds loopsKept_stepRel _ _ _ _ _ _)
    | with_reducible exact visitStmtsFreeing_sim _ _ _ _ hv
    | with_reducible exact loopSim_same (freeLineTemps_holds loopsKept_stepRel _)
    | with_reducible exact loopSim_same (emitAny_holds loopsKept_fullRel _ _)
    | with_reducible exact ‹∀ x, LoopSim _ (_ x) (_ x)› _
    | with_reducible refine loopSim_bind ?_ (fun _ => ?_))
  · split
    · exact loopSim_same (newJumpId_holds loopsKept_flowRel _)
    · exact loopSim_same (Holds.pure loopsKept_stepRel _)
  · split
    · exact loopSim_same (newJumpId_holds loopsKept_flowRel _)
    · exact loopSim_same (Holds.pure loopsKept_stepRel _)
  · generalize ((0 ||| if decide (0 < errors.length) = true then
      RESCUEMODE_JUMPONRESCUE else 0) ||| if has_finally_block = true then
      RESCUEMODE_JUMPONFINALLY else 0) = mode
    dsimp only
    repeat any_goals (first
      | with_reducible exact loopSim_same (Holds.pure loopsKept_stepRel _)
      | with_reducible exact visitStmtsFreeing_sim _ _ _ _ hv
      | with_reducible exact loopSim_same (freeLineTemps_holds loopsKept_stepRel _)
      | with_reducible exact loopSim_same (setDescend_holds loopsKept_stepRel _)
      | with_reducible exact loopSim_same (emitAny_holds loopsKept_fullRel _ _)
      | with_reducible refine loopSim_bind ?_ (fun _ => ?_)
      | split)

/-! The `while` branch. -/

theorem pushLoop_ok (a b : Int) (st st1 : GenState)
    (h : pushLoop a b st = .ok st1 ()) :
    st1.loops = st.loops ++ [⟨a, b⟩] ∧ ∀ g, instrsOf st1 g = instrsOf st g := by
  cases h
  exact ⟨rfl, fun _ => rfl⟩

theorem popLoop_ok (st st1 : GenState) (h : popLoop st = .ok st1 ()) :
    st1.loops = st.loops.dropLast ∧
    (∀ g, instrsOf st1 g = instrsOf st g) ∧
    st1.dont_descend_visitation = st.dont_descend_visitation := by
  unfold popLoop at h
  split at h
  · cases h
  · cases h
    exact ⟨rfl, fun _ => rfl, rfl⟩

theorem setDescend_flag (b : Bool) (st st1 : GenState)
    (h : setDescend b st = .ok st1 ()) :
    st1.dont_descend_visitation = b := by
  cases h
  rfl

theorem flag_setStorageInfo (id : Nat) (si : StorageInfo) (st : GenState) :
    (setStorageInfo id si st).dont_descend_visitation =
      st.dont_descend_visitation := by
  unfold setStorageInfo
  split <;> rfl

theorem freeLineTemps_flag (func : Option FuncRef) (st st1 : GenState)
    (h : freeLineTemps func st = .ok st1 ()) :
    st1.dont_descend_visitation = st.dont_descend_visitation := by
  unfold freeLineTemps at h
  cases func with
  | none => cases h; rfl
  | some f =>
    obtain ⟨si, s1, h1, h2⟩ := Gen.bind_ok h
    rw [← storageOf_state f st s1 si h1]
    unfold setStorageOf at h2
    split at h2
    · cases h2
    · cases h2
      exact flag_setStorageInfo _ _ _

theorem guarded_of_kept {L : List LoopIds} {v : Visitor}
    (hk : ∀ e ctx, Holds LoopsKept (v e ctx)) (e : Expr) (ctx : Ctx) :
    LoopSim L (v e ctx) (guardLoops L v e ctx) :=
  guardLoops_sim (fun e ctx => loopSim_same (hk e ctx)) e ctx

theorem visitInWhile_run (v : Visitor)
    (hk : ∀ e ctx, Holds LoopsKept (v e ctx))
    (hg : ∀ e ctx, Holds (Grows (fun _ => True)) (v e ctx))
    (f : FuncRef) (expr : Expr) (ctx : Ctx) (s : Storage)
    (conditional : Expr) (stmt : List Expr) (st st1 : GenState) (e1 : Expr)
    (h : visitInWhile v (some f) expr ctx s conditional stmt st =
      .ok st1 e1) :
    ∃ (jstart jend : Int) (c1 : Expr) (cond body : List Inst),
      instrsOf st1 f.bytecode_func_id.toNat =
        instrsOf st f.bytecode_func_id.toNat ++ [.jumptarget jstart] ++
          cond ++ [.condjump c1.eval_temp_id jend] ++ body ++
          [.jump jstart, .jumptarget jend] ∧
      ChildCode v f expr ctx conditional c1 cond ∧
      LoopBodyCode v f expr ctx stmt body ∧
      st1.loops = st.loops ∧ st1.dont_descend_visitation = true ∧
      e1.isLoop = true ∧
      visitInWhile (guardLoops (st.loops ++ [⟨jstart, jend⟩]) v) (some f)
        expr ctx s conditional stmt st = .ok st1 e1 := by
  have hS := grows_fullRel.toStepRel
  have hK := loopsKept_stepRel
  unfold visitInWhile at h
  obtain ⟨u0, s0, h0, k0⟩ := Gen.bind_ok h
  obtain ⟨f1, s1, h1, k1⟩ := Gen.bind_ok k0
  obtain ⟨rfl, hf⟩ := ofOption_ok _ _ _ _ h1
  cases hf
  obtain ⟨j1, s2, h2, k2⟩ := Gen.bind_ok k1
  obtain ⟨j2, s3, h3, k3⟩ := Gen.bind_ok k2
  obtain ⟨u4, s4, h4, k4⟩ := Gen.bind_ok k3
  obtain ⟨u5, s5, h5, k5⟩ := Gen.bind_ok k4
  obtain ⟨c1, s6, h6, k6⟩ := Gen.bind_ok k5
  obtain ⟨u7, s7, h7, k7⟩ := Gen.bind_ok k6
  obtain ⟨stmt1, s8, h8, k8⟩ := Gen.bind_ok k7
  obtain ⟨u9, s9, h9, k9⟩ := Gen.bind_ok k8
  obtain ⟨u10, s10, h10, k10⟩ := Gen.bind_ok k9
  obtain ⟨u11, s11, h11, k11⟩ := Gen.bind_ok k10
  obtain ⟨u12, s12, h12, k12⟩ := Gen.bind_ok k11
  obtain ⟨rfl, rfl⟩ := Gen.pure_ok k12
  -- the loop stack
  have l0 : s1.loops = st.loops := setDescend_holds hK _ _ _ _ h0
  have l2 : s2.loops = s1.loops := newJumpId_holds loopsKept_flowRel _ _ _ _ h2
  have l3 : s3.loops = s2.loops := newJumpId_holds loopsKept_flowRel _ _ _ _ h3
  have l4 := (pushLoop_ok _ _ _ _ h4).1
  have l5 : s5.loops = s4.loops := emitAny_holds loopsKept_fullRel _ _ _ _ _ h5
  have l6 : s6.loops = s5.loops := visitChild_holds hK v _ _ _ _ hk _ _ _ h6
  have l7 : s7.loops = s6.loops := emitAny_holds loopsKept_fullRel _ _ _ _ _ h7
  have l8 : s8.loops = s7.loops := visitStmts_holds hK v _ _ _ hk _ _ _ h8
  have l9 : s9.loops = s8.loops := emitAny_holds loopsKept_fullRel _ _ _ _ _ h9
  have l10 : s10.loops = s9.loops :=
    emitAny_holds loopsKept_fullRel _ _ _ _ _ h10
  have l11 : s11.loops = s10.loops := setDescend_holds hK _ _ _ _ h11
  have l12 := (popLoop_ok _ _ h12).1
  have m4 : s4.loops = st.loops ++ [⟨j1, j2⟩] := by rw [l4, l3, l2, l0]
  have m5 : s5.loops = st.loops ++ [⟨j1, j2⟩] := l5.trans m4
  have m7 : s7.loops = st.loops ++ [⟨j1, j2⟩] := l7.trans (l6.trans m5)
  have m11 : s11.loops = st.loops ++ [⟨j1, j2⟩] := by
    rw [l11, l10, l9, l8, m7]
  -- the buffers
  obtain ⟨cond, i6, _⟩ :=
    visitChild_holds hS v _ _ _ _ hg _ _ _ h6 f.bytecode_func_id.toNat
  obtain ⟨body, i8, _⟩ :=
    visitStmts_holds hS v _ _ _ hg _ _ _ h8 f.bytecode_func_id.toNat
  refine ⟨j1, j2, c1, cond, body, ?_, ⟨s5, s6, h6, i6⟩, ⟨s7, s8, _, h8, i8⟩,
    ?_, ?_, rfl, ?_⟩
  · rw [(popLoop_ok _ _ h12).2.1, setDescend_instrs _ _ _ h11,
      emit_instrs _ _ _ _ h10, if_pos rfl, emit_instrs _ _ _ _ h9, if_pos rfl,
      i8, emit_instrs _ _ _ _ h7, if_pos rfl, i6, emit_instrs _ _ _ _ h5,
      if_pos rfl, (pushLoop_ok _ _ _ _ h4).2, (newJumpId_spec _ _ _ _ h3).1,
      (newJumpId_spec _ _ _ _ h2).1, setDescend_instrs _ _ _ h0]
    simp only [List.append_assoc, List.singleton_append, List.cons_append,
      List.nil_append]
  · rw [l12, m11]
    simp
  · rw [(popLoop_ok _ _ h12).2.2]
    exact setDescend_flag _ _ _ h11
  · have g6 := (visitChild_sim expr ctx .other conditional
      (guarded_of_kept hk)) s5 s6 c1 m5 h6
    have g8 := (visitStmts_sim expr ctx stmt (guarded_of_kept hk))
      s7 s8 stmt1 m7 h8
    unfold visitInWhile
    refine (Gen.bind_run h0).trans ?_
    refine (Gen.bind_run h1).trans ?_
    refine (Gen.bind_run h2).trans ?_
    refine (Gen.bind_run h3).trans ?_
    refine (Gen.bind_run h4).trans ?_
    refine (Gen.bind_run h5).trans ?_
    refine (Gen.bind_run g6.1).trans ?_
    refine (Gen.bind_run h7).trans ?_
    refine (Gen.bind_run g8.1).trans ?_
    refine (Gen.bind_run h9).trans ?_
    refine (Gen.bind_run h10).trans ?_
    refine (Gen.bind_run h11).trans ?_
    exact (Gen.bind_run h12).trans rfl

/-! The `for` branch. -/

theorem freeMultilineTemp_instrs (func : FuncRef) (temp : Int)
    (st st1 : GenState) (h : freeMultilineTemp func temp st = .ok st1 ())
    (g : Nat) : instrsOf st1 g = instrsOf st g := by
  unfold freeMultilineTemp at h
  obtain ⟨si, s1, h1, h2⟩ := Gen.bind_ok h
  rw [← storageOf_state func st s1 si h1]
  cases hm : freemultilinetemp si temp with
  | none => rw [hm] at h2; cases h2
  | some si1 =>
    rw [hm] at h2
    exact setStorageOf_instrs func _ s1 st1 h2 g

theorem visitInFor_run (v : Visitor)
    (hk : ∀ e ctx, Holds LoopsKept (v e ctx))
    (hg : ∀ e ctx, Holds (Grows (fun _ => True)) (v e ctx))
    (f : FuncRef) (expr : Expr) (ctx : Ctx) (s : Storage)
    (iterated_container : Expr) (stmt : List Expr) (st st1 : GenState)
    (e1 : Expr)
    (h : visitInFor v (some f) expr ctx s iterated_container stmt st =
      .ok st1 e1) :
    ∃ (jstart jend itertemp : Int) (c1 : Expr) (cont body : List Inst),
      instrsOf st1 f.bytecode_func_id.toNat =
        instrsOf st f.bytecode_func_id.toNat ++ cont ++
          [.newiterator itertemp c1.eval_temp_id, .jumptarget jstart,
            .iterate s.ref.id itertemp jend] ++ body ++
          [.jump jstart, .jumptarget jend] ∧
      ContainerCode v f expr ctx iterated_container c1 cont ∧
      LoopBodyCode v f expr ctx stmt body ∧
      st1.loops = st.loops ∧ st1.dont_descend_visitation = true ∧
      e1.isLoop = true ∧
      visitInFor (guardLoops (st.loops ++ [⟨jstart, jend⟩]) v) (some f)
        expr ctx s iterated_container stmt st = .ok st1 e1 := by
  have hS := grows_fullRel.toStepRel
  have hK := loopsKept_stepRel
  unfold visitInFor at h
  obtain ⟨u0, s0, h0, k0⟩ := Gen.bind_ok h
  obtain ⟨f1, s1, h1, k1⟩ := Gen.bind_ok k0
  obtain ⟨rfl, hf⟩ := ofOption_ok _ _ _ _ h1
  cases hf
  obtain ⟨j1, s2, h2, k2⟩ := Gen.bind_ok k1
  obtain ⟨j2, s3, h3, k3⟩ := Gen.bind_ok k2
  obtain ⟨u4, s4, h4, k4⟩ := Gen.bind_ok k3
  obtain ⟨itertemp, s5, h5, k5⟩ := Gen.bind_ok k4
  by_cases hi : itertemp < 0
  · rw [if_pos hi] at k5
    cases k5
  rw [if_neg hi] at k5
  obtain ⟨u6, s6, h6, k6⟩ := Gen.bind_ok k5
  obtain ⟨u7, s7, h7, k7⟩ := Gen.bind_ok k6
  obtain ⟨c1, s8, h8, k8⟩ := Gen.bind_ok k7
  obtain ⟨u9, s9, h9, k9⟩ := Gen.bind_ok k8
  obtain ⟨u10, s10, h10, k10⟩ := Gen.bind_ok k9
  obtain ⟨u11, s11, h11, k11⟩ := Gen.bind_ok k10
  obtain ⟨u12, s12, h12, k12⟩ := Gen.bind_ok k11
  obtain ⟨u13, s13, h13, k13⟩ := Gen.bind_ok k12
  obtain ⟨stmt1, s14, h14, k14⟩ := Gen.bind_ok k13
  obtain ⟨u15, s15, h15, k15⟩ := Gen.bind_ok k14
  obtain ⟨u16, s16, h16, k16⟩ := Gen.bind_ok k15
  obtain ⟨u17, s17, h17, k17⟩ := Gen.bind_ok k16
  obtain ⟨u18, s18, h18, k18⟩ := Gen.bind_ok k17
  obtain ⟨u19, s19, h19, k19⟩ := Gen.bind_ok k18
  obtain ⟨u20, s20, h20, k20⟩ := Gen.bind_ok k19
  obtain ⟨rfl, rfl⟩ := Gen.pure_ok k20
  have e7 := (assert_ok _ _ _ h7).1
  have e9 := (assert_ok _ _ _ h9).1
  have e12 := (assert_ok _ _ _ h12).1
  subst e7 e9 e12
  -- the loop stack
  have l0 : s1.loops = st.loops := setDescend_holds hK _ _ _ _ h0
  have l2 : s2.loops = s1.loops := newJumpId_holds loopsKept_flowRel _ _ _ _ h2
  have l3 : s3.loops = s2.loops := newJumpId_holds loopsKept_flowRel _ _ _ _ h3
  have l4 := (pushLoop_ok _ _ _ _ h4).1
  have l5 : s5.loops = s4.loops := newtemp_holds hK _ _ _ _ _ h5
  have l7 : s7.loops = s5.loops := setDescend_holds hK _ _ _ _ h6
  have l9 : s9.loops = s7.loops := visitChildOom_holds hK v _ _ hk _ _ _ h8
  have l10 : s10.loops = s9.loops :=
    emitAny_holds loopsKept_fullRel _ _ _ _ _ h10
  have l12 : s12.loops = s10.loops :=
    emitAny_holds loopsKept_fullRel _ _ _ _ _ h11
  have l13 : s13.loops = s12.loops :=
    emitAny_holds loopsKept_fullRel _ _ _ _ _ h13
  have l14 : s14.loops = s13.loops := visitStmts_holds hK v _ _ _ hk _ _ _ h14
  have l15 : s15.loops = s14.loops :=
    emitAny_holds loopsKept_fullRel _ _ _ _ _ h15
  have l16 : s16.loops = s15.loops :=
    emitAny_holds loopsKept_fullRel _ _ _ _ _ h16
  have l17 : s17.loops = s16.loops :=
    freeMultilineTemp_holds loopsKept_flowRel _ _ _ _ _ h17
  have l18 : s18.loops = s17.loops := setDescend_holds hK _ _ _ _ h18
  have l19 := (popLoop_ok _ _ h19).1
  have l20 : st1.loops = s19.loops := freeLineTemps_holds hK _ _ _ _ h20
  have m4 : s4.loops = st.loops ++ [⟨j1, j2⟩] := by rw [l4, l3, l2, l0]
  have m7 : s7.loops = st.loops ++ [⟨j1, j2⟩] := l7.trans (l5.trans m4)
  have m13 : s13.loops = st.loops ++ [⟨j1, j2⟩] := by
    rw [l13, l12, l10, l9, m7]
  have m18 : s18.loops = st.loops ++ [⟨j1, j2⟩] := by
    rw [l18, l17, l16, l15, l14, m13]
  -- the buffers
  obtain ⟨cont, i8, _⟩ :=
    visitChildOom_holds hS v _ _ hg _ _ _ h8 f.bytecode_func_id.toNat
  obtain ⟨body, i14, _⟩ :=
    visitStmts_holds hS v _ _ _ hg _ _ _ h14 f.bytecode_func_id.toNat
  refine ⟨j1, j2, itertemp, c1, cont, body, ?_, ⟨s7, s9, h8, i8⟩,
    ⟨s13, s14, _, h14, i14⟩, ?_, ?_, rfl, ?_⟩
  · rw [freeLineTemps_instrs _ _ _ h20, (popLoop_ok _ _ h19).2.1,
      setDescend_instrs _ _ _ h18, freeMultilineTemp_instrs _ _ _ _ h17,
      emit_instrs _ _ _ _ h16, if_pos rfl, emit_instrs _ _ _ _ h15,
      if_pos rfl, i14, emit_instrs _ _ _ _ h13, if_pos rfl,
      emit_instrs _ _ _ _ h11, if_pos rfl, emit_instrs _ _ _ _ h10,
      if_pos rfl, i8, setDescend_instrs _ _ _ h6,
      newtemp_instrs _ _ _ _ _ h5, (pushLoop_ok _ _ _ _ h4).2,
      (newJumpId_spec _ _ _ _ h3).1, (newJumpId_spec _ _ _ _ h2).1,
      setDescend_instrs _ _ _ h0]
    simp only [List.append_assoc, List.singleton_append, List.cons_append,
      List.nil_append]
  · rw [l20, l19, m18]
    simp
  · rw [freeLineTemps_flag _ _ _ h20, (popLoop_ok _ _ h19).2.2]
    exact setDescend_flag _ _ _ h18
  · have g8 := (visitChildOom_sim (iterated_container.setEvalTemp (-1))
      ((expr, .other) :: ctx) (guarded_of_kept hk)) s7 s9 c1 m7 h8
    have g14 := (visitStmts_sim expr ctx stmt (guarded_of_kept hk))
      s13 s14 stmt1 m13 h14
    unfold visitInFor
    refine (Gen.bind_run h0).trans ?_
    refine (Gen.bind_run h1).trans ?_
    refine (Gen.bind_run h2).trans ?_
    refine (Gen.bind_run h3).trans ?_
    refine (Gen.bind_run h4).trans ?_
    refine (Gen.bind_run h5).trans ?_
    rw [if_neg hi]
    refine (Gen.bind_run h6).trans ?_
    refine (Gen.bind_run h7).trans ?_
    refine (Gen.bind_run g8.1).trans ?_
    refine (Gen.bind_run h9).trans ?_
    refine (Gen.bind_run h10).trans ?_
    refine (Gen.bind_run h11).trans ?_
    refine (Gen.bind_run h12).trans ?_
    refine (Gen.bind_run h13).trans ?_
    refine (Gen.bind_run g14.1).trans ?_
    refine (Gen.bind_run h15).trans ?_
    refine (Gen.bind_run h16).trans ?_
    refine (Gen.bind_run h17).trans ?_
    refine (Gen.bind_run h18).trans ?_
    refine (Gen.bind_run h19).trans ?_
    exact (Gen.bind_run h20).trans rfl

/-! The callback visit_in and the tree walk. -/

theorem visit_in_sim {L : List LoopIds} {v w : Visitor} (env : Env)
    (itemsort : List KwArgSortInfo → List KwArgSortInfo) (expr : Expr)
    (ctx : Ctx) (hv : ∀ e ctx, LoopSim L (v e ctx) (w e ctx))
    (hWhile : ∀ func s conditional stmt,
      expr = .whilestmt s conditional stmt →
      LoopSim L (visitInWhile v func expr ctx s conditional stmt)
        (visitInWhile w func expr ctx s conditional stmt))
    (hFor : ∀ func s iterated_container stmt,
      expr = .forstmt s iterated_container stmt →
      LoopSim L (visitInFor v func expr ctx s iterated_container stmt)
        (visitInFor w func expr ctx s iterated_container stmt)) :
    LoopSim L (visit_in env itemsort v expr ctx)
      (visit_in env itemsort w expr ctx) := by
  unfold visit_in
  repeat any_goals (first
    | with_reducible exact loopSim_same (Holds.pure loopsKept_stepRel _)
    | with_reducible exact hWhile _ _ _ _ rfl
    | with_reducible exact hFor _ _ _ _ rfl
    | with_reducible exact visitInWith_sim _ _ _ _ _ _ _ hv
    | with_reducible exact visitInDo_sim _ _ _ _ _ _ _ _ _ hv
    | with_reducible exact loopSim_same (visitInFunc_holds loopsKept_stepRel _ _ _)
    | with_reducible exact loopSim_same (freeLineTemps_holds loopsKept_stepRel _)
    | with_reducible exact loopSim_same (visitInBreak_holds loopsKept_flowRel _)
    | with_reducible exact loopSim_same (visitInContinue_holds loopsKept_flowRel _)
    | with_reducible exact visitInBoolCond_sim _ _ _ _ _ _ _ _ hv
    | with_reducible exact visitInRaise_sim _ _ _ _ _ hv
    | with_reducible exact visitInFuncdef_sim _ _ _ _ _ _ _ hv
    | with_reducible exact visitInNew_sim _ _ _ _ _ _ _ hv
    | with_reducible exact visitInHasAttr_sim _ _ _ _ _ _ _ _ _ hv
    | with_reducible exact visitInGiven_sim _ _ _ _ _ _ _ hv
    | with_reducible exact visitInIf_sim _ _ _ _ _ _ _ hv
    | with_reducible refine loopSim_bind ?_ (fun _ => ?_)
    | split
    | dsimp only)

theorem ast_VisitExpression_sim {L : List LoopIds} {v w : Visitor}
    (env : Env) (itemsort : List KwArgSortInfo → List KwArgSortInfo)
    (expr : Expr) (ctx : Ctx) (hv : ∀ e ctx, LoopSim L (v e ctx) (w e ctx))
    (hWhile : ∀ func s conditional stmt,
      expr = .whilestmt s conditional stmt →
      LoopSim L (visitInWhile v func expr ctx s conditional stmt)
        (visitInWhile w func expr ctx s conditional stmt))
    (hFor : ∀ func s iterated_container stmt,
      expr = .forstmt s iterated_container stmt →
      LoopSim L (visitInFor v func expr ctx s iterated_container stmt)
        (visitInFor w func expr ctx s iterated_container stmt)) :
    LoopSim L (ast_VisitExpression env itemsort v expr ctx)
      (ast_VisitExpression env itemsort w expr ctx) := by
  unfold ast_VisitExpression
  repeat any_goals (first
    | with_reducible exact visit_in_sim _ _ _ _ hv hWhile hFor
    | with_reducible exact loopSim_same (cancelVisitDescend_holds loopsKept_stepRel)
    | with_reducible exact loopSim_same (visit_out_holds loopsKept_stepRel _ _ _ _)
    | with_reducible exact visitChildren_sim _ _ hv
    | with_reducible refine loopSim_bind ?_ (fun _ => ?_)
    | split)

/-! Nodes inside a function definition. -/

theorem visitInFunc_inside (env : Env) (e : Expr) (ctx : Ctx) (fn : Expr)
    (hfn : surroundingfunc ctx = some fn) :
    visitInFunc env e ctx = Gen.pure (false, fn.funcRef) := by
  unfold visitInFunc
  rw [hfn]

theorem visitOutFunc_inside (env : Env) (e : Expr) (ctx : Ctx) (fn : Expr)
    (hfn : surroundingfunc ctx = some fn) :
    visitOutFunc env e ctx = Gen.pure fn.funcRef := by
  unfold visitOutFunc
  rw [hfn]

theorem visit_in_while (env : Env)
    (itemsort : List KwArgSortInfo → List KwArgSortInfo) (v : Visitor)
    (ctx : Ctx) (fn : Expr) (f : FuncRef)
    (hfn : surroundingfunc ctx = some fn) (hf : fn.funcRef = some f)
    (s : Storage) (conditional : Expr) (stmt : List Expr) :
    visit_in env itemsort v (.whilestmt s conditional stmt) ctx =
      (do
        freeLineTemps (some f)
        visitInWhile v (some f) (.whilestmt s conditional stmt) ctx s
          conditional stmt) := by
  unfold visit_in
  rw [visitInFunc_inside env _ ctx fn hfn, hf]
  rfl

theorem visit_in_for (env : Env)
    (itemsort : List KwArgSortInfo → List KwArgSortInfo) (v : Visitor)
    (ctx : Ctx) (fn : Expr) (f : FuncRef)
    (hfn : surroundingfunc ctx = some fn) (hf : fn.funcRef = some f)
    (s : Storage) (iterated_container : Expr) (stmt : List Expr) :
    visit_in env itemsort v (.forstmt s iterated_container stmt) ctx =
      (do
        freeLineTemps (some f)
        visitInFor v (some f) (.forstmt s iterated_container stmt) ctx s
          iterated_container stmt) := by
  unfold visit_in
  rw [visitInFunc_inside env _ ctx fn hfn, hf]
  rfl

theorem visit_in_break (env : Env)
    (itemsort : List KwArgSortInfo → List KwArgSortInfo) (v : Visitor)
    (ctx : Ctx) (fn : Expr) (f : FuncRef)
    (hfn : surroundingfunc ctx = some fn) (hf : fn.funcRef = some f)
    (s : Storage) :
    visit_in env itemsort v (.breakstmt s) ctx =
      (do
        freeLineTemps (some f)
        visitInBreak (some f)
        pure (.breakstmt s)) := by
  unfold visit_in
  rw [visitInFunc_inside env _ ctx fn hfn, hf]
  rfl

theorem visit_in_continue (env : Env)
    (itemsort : List KwArgSortInfo → List KwArgSortInfo) (v : Visitor)
    (ctx : Ctx) (fn : Expr) (f : FuncRef)
    (hfn : surroundingfunc ctx = some fn) (hf : fn.funcRef = some f)
    (s : Storage) :
    visit_in env itemsort v (.continuestmt s) ctx =
      (do
        freeLineTemps (some f)
        visitInContinue (some f)
        pure (.continuestmt s)) := by
  unfold visit_in
  rw [visitInFunc_inside env _ ctx fn hfn, hf]
  rfl

/-- The callback visit_out on a loop, a `break` or a `continue` inside a
function returns the node and changes no buffer. -/
theorem visit_out_quiet (env : Env)
    (itemsort : List KwArgSortInfo → List KwArgSortInfo) (e : Expr)
    (ctx : Ctx) (fn : Expr) (hfn : surroundingfunc ctx = some fn)
    (he : e.isLoop = true ∨ e.isLoopJump = true) (st st1 : GenState)
    (e1 : Expr) (h : visit_out env itemsort e ctx st = .ok st1 e1) :
    e1 = e ∧ ∀ g, instrsOf st1 g = instrsOf st g := by
  unfold visit_out at h
  rw [visitOutFunc_inside env _ ctx fn hfn] at h
  cases e <;>
    first
    | (obtain ⟨u0, s0, h0, k0⟩ := Gen.bind_ok h
       cases h0
       obtain ⟨u1, s1, h1, k1⟩ := Gen.bind_ok k0
       obtain ⟨rfl, rfl⟩ := Gen.pure_ok h1
       obtain ⟨r, s2, h2, k2⟩ := Gen.bind_ok k1
       cases h2
       obtain ⟨u3, s3, h3, k3⟩ := Gen.bind_ok k2
       obtain ⟨rfl, rfl⟩ := Gen.pure_ok k3
       exact ⟨rfl, freeLineTemps_instrs _ _ _ h3⟩)
    | (rcases he with he | he <;> cases he)

theorem cancelVisitDescend_set (st : GenState)
    (h : st.dont_descend_visitation = true) :
    cancelVisitDescend st =
      .ok { st with dont_descend_visitation := false } true := by
  unfold cancelVisitDescend
  rw [if_pos h]

/-! The tree walk keeps the loop stack. -/

theorem visitInWhile_loopsKept (v : Visitor)
    (hk : ∀ e ctx, Holds LoopsKept (v e ctx))
    (hg : ∀ e ctx, Holds (Grows (fun _ => True)) (v e ctx))
    (func : Option FuncRef) (expr : Expr) (ctx : Ctx) (s : Storage)
    (conditional : Expr) (stmt : List Expr) :
    Holds LoopsKept (visitInWhile v func expr ctx s conditional stmt) := by
  intro st st1 e1 h
  cases func with
  | none =>
    unfold visitInWhile at h
    obtain ⟨u0, s0, _, k0⟩ := Gen.bind_ok h
    obtain ⟨f1, s1, h1, _⟩ := Gen.bind_ok k0
    cases h1
  | some f =>
    obtain ⟨_, _, _, _, _, _, _, _, hl, _⟩ :=
      visitInWhile_run v hk hg f expr ctx s conditional stmt st st1 e1 h
    exact hl

theorem visitInFor_loopsKept (v : Visitor)
    (hk : ∀ e ctx, Holds LoopsKept (v e ctx))
    (hg : ∀ e ctx, Holds (Grows (fun _ => True)) (v e ctx))
    (func : Option FuncRef) (expr : Expr) (ctx : Ctx) (s : Storage)
    (iterated_container : Expr) (stmt : List Expr) :
    Holds LoopsKept (visitInFor v func expr ctx s iterated_container stmt) := by
  intro st st1 e1 h
  cases func with
  | none =>
    unfold visitInFor at h
    obtain ⟨u0, s0, _, k0⟩ := Gen.bind_ok h
    obtain ⟨f1, s1, h1, _⟩ := Gen.bind_ok k0
    cases h1
  | some f =>
    obtain ⟨_, _, _, _, _, _, _, _, _, hl, _⟩ :=
      visitInFor_run v hk hg f expr ctx s iterated_container stmt st st1 e1 h
    exact hl

/-- Every walk of a node that returns 1 leaves the loop stack as it found
it. -/
theorem visit_loopsKept (env : Env)
    (itemsort : List KwArgSortInfo → List KwArgSortInfo) :
    ∀ (fuel : Nat) (e : Expr) (ctx : Ctx),
      Holds LoopsKept (visit env itemsort fuel e ctx) := by
  intro fuel
  induction fuel with
  | zero =>
    intro e ctx st st1 a h
    cases h
  | succ n ih =>
    intro e ctx st st1 a h
    have hg : ∀ e ctx, Holds (Grows (fun _ => True))
        (visit env itemsort n e ctx) :=
      fun e c => visit_holds_full grows_fullRel grows_anyLoopFree env itemsort
        n e c
    exact (ast_VisitExpression_sim env itemsort e ctx
      (fun e ctx => loopSim_same (ih e ctx))
      (fun func s conditional stmt _ => loopSim_same
        (visitInWhile_loopsKept _ ih hg func e ctx s conditional stmt))
      (fun func s iterated_container stmt _ => loopSim_same
        (visitInFor_loopsKept _ ih hg func e ctx s iterated_container stmt))
      st st1 a rfl h).2

/-- The walk of a node that is no loop enters every child with the loop
stack it was entered with. -/
theorem ast_VisitExpression_guarded (env : Env)
    (itemsort : List KwArgSortInfo → List KwArgSortInfo) (v : Visitor)
    (hk : ∀ e ctx, Holds LoopsKept (v e ctx)) (e : Expr) (ctx : Ctx)
    (he : e.isLoop = false) (st st1 : GenState) (e1 : Expr)
    (h : ast_VisitExpression env itemsort v e ctx st = .ok st1 e1) :
    ast_VisitExpression env itemsort (guardLoops st.loops v) e ctx st =
      .ok st1 e1 :=
  (ast_VisitExpression_sim env itemsort e ctx (guarded_of_kept hk)
    (fun _ _ _ _ hw => by rw [hw] at he; cases he)
    (fun _ _ _ _ hw => by rw [hw] at he; cases he)
    st st1 e1 rfl h).1

/-! The statements `while`, `for`, `break` and `continue` inside a function
definition. -/

theorem whileNode_run (env : Env)
    (itemsort : List KwArgSortInfo → List KwArgSortInfo) (v : Visitor)
    (hk : ∀ e ctx, Holds LoopsKept (v e ctx))
    (hg : ∀ e ctx, Holds (Grows (fun _ => True)) (v e ctx))
    (ctx : Ctx) (fn : Expr) (f : FuncRef)
    (hfn : surroundingfunc ctx = some fn) (hf : fn.funcRef = some f)
    (s : Storage) (conditional : Expr) (stmt : List Expr)
    (st st1 : GenState) (e1 : Expr)
    (h : ast_VisitExpression env itemsort v (.whilestmt s conditional stmt)
      ctx st = .ok st1 e1) :
    ∃ (jstart jend : Int) (c1 : Expr) (cond body : List Inst),
      instrsOf st1 f.bytecode_func_id.toNat =
        instrsOf st f.bytecode_func_id.toNat ++ [.jumptarget jstart] ++
          cond ++ [.condjump c1.eval_temp_id jend] ++ body ++
          [.jump jstart, .jumptarget jend] ∧
      ChildCode v f (.whilestmt s conditional stmt) ctx conditional c1 cond ∧
      LoopBodyCode v f (.whilestmt s conditional stmt) ctx stmt body ∧
      ast_VisitExpression env itemsort
        (guardLoops (st.loops ++ [⟨jstart, jend⟩]) v)
        (.whilestmt s conditional stmt) ctx st = .ok st1 e1 := by
  unfold ast_VisitExpression at h
  obtain ⟨eA, sA, hin, k⟩ := Gen.bind_ok h
  rw [visit_in_while env itemsort v ctx fn f hfn hf] at hin
  obtain ⟨u, s0, hfree, hw⟩ := Gen.bind_ok hin
  obtain ⟨j1, j2, c1, cond, body, hi, hc, hb, hl, hd, he, hgd⟩ :=
    visitInWhile_run v hk hg f _ ctx s conditional stmt s0 sA eA hw
  obtain ⟨cancel, sB, hcan, k2⟩ := Gen.bind_ok k
  rw [cancelVisitDescend_set sA hd] at hcan
  cases hcan
  rw [if_pos rfl] at k2
  obtain ⟨rfl, hsame⟩ :=
    visit_out_quiet env itemsort eA ctx fn hfn (Or.inl he) _ _ _ k2
  have l0 : s0.loops = st.loops :=
    freeLineTemps_holds loopsKept_stepRel _ _ _ _ hfree
  rw [l0] at hgd
  refine ⟨j1, j2, c1, cond, body, ?_, hc, hb, ?_⟩
  · rw [hsame]
    refine Eq.trans (?_ : _ = instrsOf sA f.bytecode_func_id.toNat) ?_
    · rfl
    · rw [hi, freeLineTemps_instrs _ _ _ hfree]
  · unfold ast_VisitExpression
    rw [visit_in_while env itemsort _ ctx fn f hfn hf]
    refine (Gen.bind_run (Gen.bind_run hfree |>.trans hgd)).trans ?_
    refine (Gen.bind_run (cancelVisitDescend_set sA hd)).trans ?_
    rw [if_pos rfl]
    exact k2

theorem forNode_run (env : Env)
    (itemsort : List KwArgSortInfo → List KwArgSortInfo) (v : Visitor)
    (hk : ∀ e ctx, Holds LoopsKept (v e ctx))
    (hg : ∀ e ctx, Holds (Grows (fun _ => True)) (v e ctx))
    (ctx : Ctx) (fn : Expr) (f : FuncRef)
    (hfn : surroundingfunc ctx = some fn) (hf : fn.funcRef = some f)
    (s : Storage) (iterated_container : Expr) (stmt : List Expr)
    (st st1 : GenState) (e1 : Expr)
    (h : ast_VisitExpression env itemsort v
      (.forstmt s iterated_container stmt) ctx st = .ok st1 e1) :
    ∃ (jstart jend itertemp : Int) (c1 : Expr) (cont body : List Inst),
      instrsOf st1 f.bytecode_func_id.toNat =
        instrsOf st f.bytecode_func_id.toNat ++ cont ++
          [.newiterator itertemp c1.eval_temp_id, .jumptarget jstart,
            .iterate s.ref.id itertemp jend] ++ body ++
          [.jump jstart, .jumptarget jend] ∧
      ContainerCode v f (.forstmt s iterated_container stmt) ctx
        iterated_container c1 cont ∧
      LoopBodyCode v f (.forstmt s iterated_container stmt) ctx stmt body ∧
      ast_VisitExpression env itemsort
        (guardLoops (st.loops ++ [⟨jstart, jend⟩]) v)
        (.forstmt s iterated_container stmt) ctx st = .ok st1 e1 := by
  unfold ast_VisitExpression at h
  obtain ⟨eA, sA, hin, k⟩ := Gen.bind_ok h
  rw [visit_in_for env itemsort v ctx fn f hfn hf] at hin
  obtain ⟨u, s0, hfree, hw⟩ := Gen.bind_ok hin
  obtain ⟨j1, j2, itertemp, c1, cont, body, hi, hc, hb, hl, hd, he, hgd⟩ :=
    visitInFor_run v hk hg f _ ctx s iterated_container stmt s0 sA eA hw
  obtain ⟨cancel, sB, hcan, k2⟩ := Gen.bind_ok k
  rw [cancelVisitDescend_set sA hd] at hcan
  cases hcan
  rw [if_pos rfl] at k2
  obtain ⟨rfl, hsame⟩ :=
    visit_out_quiet env itemsort eA ctx fn hfn (Or.inl he) _ _ _ k2
  have l0 : s0.loops = st.loops :=
    freeLineTemps_holds loopsKept_stepRel _ _ _ _ hfree
  rw [l0] at hgd
  refine ⟨j1, j2, itertemp, c1, cont, body, ?_, hc, hb, ?_⟩
  · rw [hsame]
    refine Eq.trans (?_ : _ = instrsOf sA f.bytecode_func_id.toNat) ?_
    · rfl
    · rw [hi, freeLineTemps_instrs _ _ _ hfree]
  · unfold ast_VisitExpression
    rw [visit_in_for env itemsort _ ctx fn f hfn hf]
    refine (Gen.bind_run (Gen.bind_run hfree |>.trans hgd)).trans ?_
    refine (Gen.bind_run (cancelVisitDescend_set sA hd)).trans ?_
    rw [if_pos rfl]
    exact k2

theorem currentLoop_ok (st st1 : GenState) (l : LoopIds)
    (h : currentLoop st = .ok st1 l) :
    st1 = st ∧ st.loops.getLast? = some l := by
  unfold currentLoop at h
  split at h
  · rename_i l0 hl
    cases h
    exact ⟨rfl, hl⟩
  · cases h

theorem visitChildren_jump (v : Visitor) (e : Expr) (ctx : Ctx)
    (he : e.isLoopJump = true) : visitChildren v e ctx = Gen.pure e := by
  cases e <;> first | rfl | cases he

theorem jumpNode_tail (env : Env)
    (itemsort : List KwArgSortInfo → List KwArgSortInfo) (v : Visitor)
    (ctx : Ctx) (fn : Expr) (hfn : surroundingfunc ctx = some fn)
    (e : Expr) (he : e.isLoopJump = true) (st st1 : GenState) (e1 : Expr)
    (h : (do
      let cancel ← cancelVisitDescend
      if cancel then visit_out env itemsort e ctx
      else do
        let e2 ← visitChildren v e ctx
        visit_out env itemsort e2 ctx : Gen Expr) st = .ok st1 e1) :
    ∀ g, instrsOf st1 g = instrsOf st g := by
  obtain ⟨cancel, sB, hcan, k2⟩ := Gen.bind_ok h
  have hB : ∀ g, instrsOf sB g = instrsOf st g := by
    unfold cancelVisitDescend at hcan
    split at hcan <;> (cases hcan; exact fun _ => rfl)
  cases cancel with
  | true =>
    rw [if_pos rfl] at k2
    obtain ⟨_, hsame⟩ :=
      visit_out_quiet env itemsort e ctx fn hfn (Or.inr he) _ _ _ k2
    exact fun g => (hsame g).trans (hB g)
  | false =>
    rw [if_neg (by decide), visitChildren_jump v e ctx he] at k2
    obtain ⟨e2, sC, hC, k3⟩ := Gen.bind_ok k2
    cases hC
    obtain ⟨_, hsame⟩ :=
      visit_out_quiet env itemsort e ctx fn hfn (Or.inr he) _ _ _ k3
    exact fun g => (hsame g).trans (hB g)

theorem breakNode_run (env : Env)
    (itemsort : List KwArgSortInfo → List KwArgSortInfo) (v : Visitor)
    (ctx : Ctx) (fn : Expr) (f : FuncRef)
    (hfn : surroundingfunc ctx = some fn) (hf : fn.funcRef = some f)
    (s : Storage) (st st1 : GenState) (e1 : Expr)
    (h : ast_VisitExpression env itemsort v (.breakstmt s) ctx st =
      .ok st1 e1) :
    ∃ top, st.loops.getLast? = some top ∧
      instrsOf st1 f.bytecode_func_id.toNat =
        instrsOf st f.bytecode_func_id.toNat ++
          [.jump top.loop_end_jumpid] := by
  unfold ast_VisitExpression at h
  obtain ⟨eA, sA, hin, k⟩ := Gen.bind_ok h
  rw [visit_in_break env itemsort v ctx fn f hfn hf] at hin
  obtain ⟨u, s0, hfree, hw⟩ := Gen.bind_ok hin
  obtain ⟨u1, s1, hb, hp⟩ := Gen.bind_ok hw
  obtain ⟨rfl, rfl⟩ := Gen.pure_ok hp
  unfold visitInBreak at hb
  obtain ⟨top, s2, h2, k2⟩ := Gen.bind_ok hb
  obtain ⟨rfl, htop⟩ := currentLoop_ok _ _ _ h2
  obtain ⟨f1, s3, h3, k3⟩ := Gen.bind_ok k2
  obtain ⟨rfl, hf1⟩ := ofOption_ok _ _ _ _ h3
  cases hf1
  have l0 : s3.loops = st.loops :=
    freeLineTemps_holds loopsKept_stepRel _ _ _ _ hfree
  refine ⟨top, by rw [← l0]; exact htop, ?_⟩
  rw [jumpNode_tail env itemsort v ctx fn hfn (.breakstmt s) rfl _ _ _ k,
    emit_instrs _ _ _ _ k3, if_pos rfl, freeLineTemps_instrs _ _ _ hfree]

theorem continueNode_run (env : Env)
    (itemsort : List KwArgSortInfo → List KwArgSortInfo) (v : Visitor)
    (ctx : Ctx) (fn : Expr) (f : FuncRef)
    (hfn : surroundingfunc ctx = some fn) (hf : fn.funcRef = some f)
    (s : Storage) (st st1 : GenState) (e1 : Expr)
    (h : ast_VisitExpression env itemsort v (.continuestmt s) ctx st =
      .ok st1 e1) :
    ∃ top, st.loops.getLast? = some top ∧
      instrsOf st1 f.bytecode_func_id.toNat =
        instrsOf st f.bytecode_func_id.toNat ++
          [.jump top.loop_start_jumpid] := by
  unfold ast_VisitExpression at h
  obtain ⟨eA, sA, hin, k⟩ := Gen.bind_ok h
  rw [visit_in_continue env itemsort v ctx fn f hfn hf] at hin
  obtain ⟨u, s0, hfree, hw⟩ := Gen.bind_ok hin
  obtain ⟨u1, s1, hb, hp⟩ := Gen.bind_ok hw
  obtain ⟨rfl, rfl⟩ := Gen.pure_ok hp
  unfold visitInContinue at hb
  obtain ⟨top, s2, h2, k2⟩ := Gen.bind_ok hb
  obtain ⟨rfl, htop⟩ := currentLoop_ok _ _ _ h2
  obtain ⟨f1, s3, h3, k3⟩ := Gen.bind_ok k2
  obtain ⟨rfl, hf1⟩ := ofOption_ok _ _ _ _ h3
  cases hf1
  have l0 : s3.loops = st.loops :=
    freeLineTemps_holds loopsKept_stepRel _ _ _ _ hfree
  refine ⟨top, by rw [← l0]; exact htop, ?_⟩
  rw [jumpNode_tail env itemsort v ctx fn hfn (.continuestmt s) rfl _ _ _ k,
    emit_instrs _ _ _ _ k3, if_pos rfl, freeLineTemps_instrs _ _ _ hfree]

/-! Claim C31: loops, `break` and `continue`. -/

/-- C31: for every walk of a node that returns 1, the loop stack after the
walk is the loop stack before it; a node that is no `while` or `for` enters
every child with its own loop stack (the run is the same with the walk of
the children restricted to states with that stack).  For a node inside a
function definition: a `break` (`continue`) statement appends to the buffer
of the function one JUMP, which carries the end (start) label id of the top
entry of the loop stack; a `while` statement appends its start label, the
code of the condition, CONDJUMP to its end label, the code of its
statements, JUMP to the start label and the end label; a `for` statement
appends the code of the container, NEW_ITERATOR, its start label, ITERATE
to its end label, the code of its statements, JUMP to the start label and
the end label; and both enter every child with the loop stack of the
statement extended by the entry of these two label ids. -/
theorem C31_loop_labels (env : Env)
    (itemsort : List KwArgSortInfo → List KwArgSortInfo) (fuel : Nat)
    (e : Expr) (ctx : Ctx) (st st1 : GenState) (e1 : Expr)
    (h : visit env itemsort (fuel + 1) e ctx st = .ok st1 e1) :
    st1.loops = st.loops ∧
    (e.isLoop = false →
      ast_VisitExpression env itemsort
        (guardLoops st.loops (visit env itemsort fuel)) e ctx st =
          .ok st1 e1) ∧
    ∀ (fn : Expr) (f : FuncRef), surroundingfunc ctx = some fn →
      fn.funcRef = some f →
      (∀ s, e = .breakstmt s →
        ∃ top, st.loops.getLast? = some top ∧
          instrsOf st1 f.bytecode_func_id.toNat =
            instrsOf st f.bytecode_func_id.toNat ++
              [.jump top.loop_end_jumpid]) ∧
      (∀ s, e = .continuestmt s →
        ∃ top, st.loops.getLast? = some top ∧
          instrsOf st1 f.bytecode_func_id.toNat =
            instrsOf st f.bytecode_func_id.toNat ++
              [.jump top.loop_start_jumpid]) ∧
      (∀ s conditional stmt, e = .whilestmt s conditional stmt →
        ∃ (jstart jend : Int) (c1 : Expr) (cond body : List Inst),
          instrsOf st1 f.bytecode_func_id.toNat =
            instrsOf st f.bytecode_func_id.toNat ++ [.jumptarget jstart] ++
              cond ++ [.condjump c1.eval_temp_id jend] ++ body ++
              [.jump jstart, .jumptarget jend] ∧
          ChildCode (visit env itemsort fuel) f e ctx conditional c1 cond ∧
          LoopBodyCode (visit env itemsort fuel) f e ctx stmt body ∧
          ast_VisitExpression env itemsort
            (guardLoops (st.loops ++ [⟨jstart, jend⟩])
              (visit env itemsort fuel)) e ctx st = .ok st1 e1) ∧
      (∀ s iterated_container stmt, e = .forstmt s iterated_container stmt →
        ∃ (jstart jend itertemp : Int) (c1 : Expr) (cont body : List Inst),
          instrsOf st1 f.bytecode_func_id.toNat =
            instrsOf st f.bytecode_func_id.toNat ++ cont ++
              [.newiterator itertemp c1.eval_temp_id, .jumptarget jstart,
                .iterate s.ref.id itertemp jend] ++ body ++
              [.jump jstart, .jumptarget jend] ∧
          ContainerCode (visit env itemsort fuel) f e ctx iterated_container
            c1 cont ∧
          LoopBodyCode (visit env itemsort fuel) f e ctx stmt body ∧
          ast_VisitExpression env itemsort
            (guardLoops (st.loops ++ [⟨jstart, jend⟩])
              (visit env itemsort fuel)) e ctx st = .ok st1 e1) := by
  have hk := visit_loopsKept env itemsort fuel
  have hg : ∀ e ctx, Holds (Grows (fun _ => True))
      (visit env itemsort fuel e ctx) :=
    fun e c => visit_holds_full grows_fullRel grows_anyLoopFree env itemsort
      fuel e c
  refine ⟨visit_loopsKept env itemsort (fuel + 1) e ctx st st1 e1 h,
    fun he => ast_VisitExpression_guarded env itemsort _ hk e ctx he st st1
      e1 h,
    fun fn f hfn hf => ⟨?_, ?_, ?_, ?_⟩⟩
  · intro s hs
    subst hs
    exact breakNode_run env itemsort _ ctx fn f hfn hf s st st1 e1 h
  · intro s hs
    subst hs
    exact continueNode_run env itemsort _ ctx fn f hfn hf s st st1 e1 h
  · intro s conditional stmt hs
    subst hs
    exact whileNode_run env itemsort _ hk hg ctx fn f hfn hf s conditional
      stmt st st1 e1 h
  · intro s iterated_container stmt hs
    subst hs
    exact forNode_run env itemsort _ hk hg ctx fn f hfn hf s
      iterated_container stmt st st1 e1 h

/-- C31 at `while x { if x { break } for x in x { continue break }
continue }` inside a function. -/
theorem C31_loop_labels_witness :
    loopSampleRun =
      .ok (loopSampleRun.stateOf selfListState)
        (loopSampleRun.valueOf loopSample) ∧
    ((loopSampleRun.stateOf selfListState).loops = selfListState.loops ∧
    (loopSample.isLoop = false →
      ast_VisitExpression sampleEnv kwInsertionSort
        (guardLoops selfListState.loops (visit sampleEnv kwInsertionSort 3))
        loopSample [(loopSampleFunc, .other)] selfListState =
          .ok (loopSampleRun.stateOf selfListState)
            (loopSampleRun.valueOf loopSample)) ∧
    ∀ (fn : Expr) (f : FuncRef),
      surroundingfunc [(loopSampleFunc, .other)] = some fn →
      fn.funcRef = some f →
      (∀ s, loopSample = .breakstmt s →
        ∃ top, selfListState.loops.getLast? = some top ∧
          instrsOf (loopSampleRun.stateOf selfListState)
              f.bytecode_func_id.toNat =
            instrsOf selfListState f.bytecode_func_id.toNat ++
              [.jump top.loop_end_jumpid]) ∧
      (∀ s, loopSample = .continuestmt s →
        ∃ top, selfListState.loops.getLast? = some top ∧
          instrsOf (loopSampleRun.stateOf selfListState)
              f.bytecode_func_id.toNat =
            instrsOf selfListState f.bytecode_func_id.toNat ++
              [.jump top.loop_start_jumpid]) ∧
      (∀ s conditional stmt, loopSample = .whilestmt s conditional stmt →
        ∃ (jstart jend : Int) (c1 : Expr) (cond body : List Inst),
          instrsOf (loopSampleRun.stateOf selfListState)
              f.bytecode_func_id.toNat =
            instrsOf selfListState f.bytecode_func_id.toNat ++
              [.jumptarget jstart] ++
              cond ++ [.condjump c1.eval_temp_id jend] ++ body ++
              [.jump jstart, .jumptarget jend] ∧
          ChildCode (visit sampleEnv kwInsertionSort 3) f loopSample
            [(loopSampleFunc, .other)] conditional c1 cond ∧
          LoopBodyCode (visit sampleEnv kwInsertionSort 3) f loopSample
            [(loopSampleFunc, .other)] stmt body ∧
          ast_VisitExpression sampleEnv kwInsertionSort
            (guardLoops (selfListState.loops ++ [⟨jstart, jend⟩])
              (visit sampleEnv kwInsertionSort 3)) loopSample
            [(loopSampleFunc, .other)] selfListState =
              .ok (loopSampleRun.stateOf selfListState)
                (loopSampleRun.valueOf loopSample)) ∧
      (∀ s iterated_container stmt,
        loopSample = .forstmt s iterated_container stmt →
        ∃ (jstart jend itertemp : Int) (c1 : Expr) (cont body : List Inst),
          instrsOf (loopSampleRun.stateOf selfListState)
              f.bytecode_func_id.toNat =
            instrsOf selfListState f.bytecode_func_id.toNat ++ cont ++
              [.newiterator itertemp c1.eval_temp_id, .jumptarget jstart,
                .iterate s.ref.id itertemp jend] ++ body ++
              [.jump jstart, .jumptarget jend] ∧
          ContainerCode (visit sampleEnv kwInsertionSort 3) f loopSample
            [(loopSampleFunc, .other)] iterated_container c1 cont ∧
          LoopBodyCode (visit sampleEnv kwInsertionSort 3) f loopSample
            [(loopSampleFunc, .other)] stmt body ∧
          ast_VisitExpression sampleEnv kwInsertionSort
            (guardLoops (selfListState.loops ++ [⟨jstart, jend⟩])
              (visit sampleEnv kwInsertionSort 3)) loopSample
            [(loopSampleFunc, .other)] selfListState =
              .ok (loopSampleRun.stateOf selfListState)
                (loopSampleRun.valueOf loopSample))) :=
  ⟨Res.eq_ok loopSampleRun selfListState loopSample (by decide!),
    C31_loop_labels sampleEnv kwInsertionSort 3 loopSample
      [(loopSampleFunc, .other)] selfListState _ _
      (Res.eq_ok loopSampleRun selfListState loopSample (by decide!))⟩

/-- The records of `while x { if x { break } for x in x { continue break }
continue }`: the `while` statement has the labels 0 and 1, the `for`
statement the labels 3 and 4 (label 2 belongs to the `if`); the `break` in
the `if` jumps to 1, the `continue` and the `break` in the `for` statement
jump to 3 and to 4, and the last `continue` jumps to 0. -/
theorem loopSample_stream :
    instrsOf (loopSampleRun.stateOf selfListState) 0 =
      [.jumptarget 0, .condjump 0 1, .condjump 0 2, .jump 1, .jumptarget 2,
        .newiterator 1 0, .jumptarget 3, .iterate 0 1 4, .jump 3, .jump 4,
        .jump 3, .jumptarget 4, .jump 0, .jump 0, .jumptarget 1] ∧
    (loopSampleRun.stateOf selfListState).loops = [] := by
  decide!

end Horse64
